import Mathlib

/-! # Node manager of the Max file system (`src/Max/node.c`)

A shallow embedding of the NAT cache, the free-NID pool and the checkpoint
flush of `node.c`, in the configuration `FILE_CELL` + `PER_CORE_NID_LIST`
(per-shard NAT trees and per-shard free-NID lists, plain
`total_valid_node_count`).

Representation choices, fixed here once:

* A C array indexed by shard (`nat_root[i]`, `percore_nat_cnt[i]`, ...) is a
  function `Nat → _`; `arr_set` is the assignment `a[i] = v`.
* A kernel radix tree is a key-ordered association list (`radix_tree_root`).
* A `struct nat_entry *` is the NID under which `grab_nat_entry` stored the
  object: the object lives in `nat_root[TREE_IDX(nid)]` at key `nid` from its
  allocation until `__del_from_nat_cache` frees it.  Kernel lists of entries
  (`nat_entries[i]`, `entry_list`) are lists of such references.  In the same
  way a `struct free_nid *` is its NID, and a `struct nat_entry_set *` is the
  pair (shard, set number).
* `f2fs_bug_on` stops the operation: the result is `Except.error Fault.bug_on`.
-/

namespace Max

/-- Ways an operation can fail to return normally. -/
inductive Fault where
  | bug_on   -- an `f2fs_bug_on` assertion tripped
  | hang     -- the code spins or blocks for ever
  | oob      -- an access through an invalid index or a dangling pointer
  | fuel     -- the bounded unrolling of a `goto retry` loop ran out
deriving DecidableEq, Repr

/-- Modelled from the spec: `f2fs_bug_on(sbi, cond)` of `f2fs.h` (not in src);
a tripped assertion is a bug-assert after which the file system refuses to
continue. -/
def f2fs_bug_on (cond : Bool) : Except Fault Unit :=
  if cond then .error Fault.bug_on else .ok ()

/-- Modelled from the spec: `NULL_ADDR` of `f2fs.h` (not in src), the sentinel
block address "unallocated on device". -/
def NULL_ADDR : Nat := 0

/-- Modelled from the spec: `NEW_ADDR` of `f2fs.h` (not in src), the sentinel
block address "reserved in memory, not yet written": `(block_t)-1`. -/
def NEW_ADDR : Nat := 4294967295

/-- Assignment `a[i] = v` on a C array modelled as a function. -/
def arr_set {α : Type} (a : Nat → α) (i : Nat) (v : α) : Nat → α :=
  fun j => if j = i then v else a j

/-! ## Radix trees -/

/-- Kernel radix tree: a finite map from an index to an item, kept in
increasing key order. -/
abbrev radix_tree_root (α : Type) := List (Nat × α)

/-- The item stored at `index`, if any (`radix_tree_lookup`). -/
def radix_tree_lookup {α : Type} (root : radix_tree_root α) (index : Nat) : Option α :=
  match root with
  | [] => none
  | p :: t => if p.1 = index then some p.2 else radix_tree_lookup t index

/-- Ordered insertion used by `radix_tree_insert`. -/
def radix_tree_put {α : Type} (root : radix_tree_root α) (index : Nat) (item : α) :
    radix_tree_root α :=
  match root with
  | [] => [(index, item)]
  | p :: t => if index < p.1 then (index, item) :: p :: t
              else p :: radix_tree_put t index item

/-- Kernel `radix_tree_insert`: `none` stands for `-EEXIST`. -/
def radix_tree_insert {α : Type} (root : radix_tree_root α) (index : Nat) (item : α) :
    Option (radix_tree_root α) :=
  match radix_tree_lookup root index with
  | some _ => none
  | none => some (radix_tree_put root index item)

/-- Modelled from the spec: `f2fs_radix_tree_insert` of `f2fs.h` (not in src)
retries `radix_tree_insert` until it succeeds, so it never returns when the
index is occupied. -/
def f2fs_radix_tree_insert {α : Type} (root : radix_tree_root α) (index : Nat) (item : α) :
    Except Fault (radix_tree_root α) :=
  match radix_tree_insert root index item with
  | some r => .ok r
  | none => .error Fault.hang

/-- Kernel `radix_tree_delete`. -/
def radix_tree_delete {α : Type} (root : radix_tree_root α) (index : Nat) :
    radix_tree_root α :=
  root.filter (fun p => p.1 != index)

/-- Kernel `radix_tree_gang_lookup`: up to `max_items` items with index at
least `first_index`, in index order, each with the slot it sits in. -/
def radix_tree_gang_lookup {α : Type} (root : radix_tree_root α) (first_index max_items : Nat) :
    List (Nat × α) :=
  (root.filter (fun p => decide (first_index ≤ p.1))).take max_items

/-- A store through a pointer to the item at `index`: the tree keeps its
shape, the item is replaced. -/
def radix_tree_store {α : Type} (root : radix_tree_root α) (index : Nat) (item : α) :
    radix_tree_root α :=
  root.map (fun p => if p.1 = index then (p.1, item) else p)

/-! ## Data model -/

/-- The fields of `struct node_info` that `copy_node_info` copies. -/
structure node_info where
  nid : Nat
  ino : Nat
  blk_addr : Nat
  version : Nat
deriving DecidableEq, Repr

/-- The bits of `node_info.flag`, one field per bit of the enum
`IS_CHECKPOINTED, HAS_FSYNCED_INODE, HAS_LAST_FSYNC, IS_DIRTY`. -/
structure nat_flags where
  IS_CHECKPOINTED : Bool
  HAS_FSYNCED_INODE : Bool
  HAS_LAST_FSYNC : Bool
  IS_DIRTY : Bool
deriving DecidableEq, Repr

/-- Cache entry `struct nat_entry`; its list link is held by the list it is on. -/
structure nat_entry where
  ni : node_info
  flag : nat_flags
deriving DecidableEq, Repr

/-- On-disk record `struct f2fs_nat_entry`. -/
structure f2fs_nat_entry where
  version : Nat
  ino : Nat
  block_addr : Nat
deriving DecidableEq, Repr

/-- Dirty set `struct nat_entry_set`; `entry_list` holds references to the
dirty entries of one NAT block. -/
structure nat_entry_set where
  set : Nat
  entry_list : List Nat
  entry_cnt : Nat
deriving DecidableEq, Repr

/-- State of a free NID: `NID_NEW` or `NID_ALLOC`. -/
inductive nid_state where
  | NID_NEW
  | NID_ALLOC
deriving DecidableEq, Repr

/-- Pool entry `struct free_nid`. -/
structure free_nid where
  nid : Nat
  state : nid_state
deriving DecidableEq, Repr

/-- One slot of the NAT journal in the hot-data summary block. -/
structure nat_journal_entry where
  nid : Nat
  ne : f2fs_nat_entry
deriving DecidableEq, Repr

/-- Build-time constants, mount-time figures and the figures of the
environment that the node manager reads and never writes. -/
structure nm_config where
  NAT_ENTRY_PER_BLOCK : Nat
  NAT_JOURNAL_ENTRIES : Nat
  SETVEC_SIZE : Nat
  sizeof_free_nid : Nat
  sizeof_nat_entry : Nat
  PAGE_CACHE_SHIFT : Nat
  ram_thresh : Nat
  nat_tree_cnt : Nat
  nid_list_count : Nat
  max_nid : Nat
  available_nids : Nat
  -- the kernel allocator has no memory for the nodes of a radix tree
  preload_enomem : Bool

/-- The NAT-cache fields of `struct f2fs_nm_info`, one slot per file cell. -/
structure nat_cache where
  nat_root : Nat → radix_tree_root nat_entry
  nat_set_root : Nat → radix_tree_root nat_entry_set
  nat_entries : Nat → List Nat
  percore_nat_cnt : Nat → Nat
  percore_dirty_nat_cnt : Nat → Nat
  nat_cnt : Nat
  dirty_nat_cnt : Nat

/-- The free-NID fields of `struct f2fs_nm_info`, one slot per list. -/
structure free_pool where
  free_nid_root : Nat → radix_tree_root free_nid
  free_nid_list : Nat → List Nat
  percore_fcnt : Nat → Nat
  fcnt : Nat
  next_allocator : Int
  build_lock : Bool
  next_scan_nid : Nat

/-- The NAT area (bitmap, the two copies of every NAT block, page dirty tags)
and the NAT journal of the current hot-data segment summary. -/
structure nat_area where
  nat_bitmap : Nat → Bool
  nat_page : Nat → Bool → Nat → f2fs_nat_entry
  nat_page_dirty : Nat → Bool → Bool
  n_nats : Nat
  nat_j : Nat → nat_journal_entry

/-- The parts of `struct f2fs_sb_info`, `struct f2fs_nm_info` and of the
collaborators (summary block, meta pages, memory figures) that the node
manager reads or writes, grouped by subsystem. -/
structure f2fs_sb_info where
  cfg : nm_config
  nat : nat_cache
  free : free_pool
  disk : nat_area
  -- si_meminfo: totalram - totalhigh
  avail_ram : Nat
  total_valid_node_count : Nat

/-- Modelled from the spec: `TREE_IDX(nid, nm_i)` of `max_fs.h` (not in src),
the NAT shard of a NID is `nid mod S_nat`. -/
def TREE_IDX (nid : Nat) (sbi : f2fs_sb_info) : Nat := nid % sbi.cfg.nat_tree_cnt

/-- Modelled from the spec: `LIST_IDX(nid, nm_i)` of `max_fs.h` (not in src),
the free-NID shard of a NID is `nid mod S_free`. -/
def LIST_IDX (nid : Nat) (sbi : f2fs_sb_info) : Nat := nid % sbi.cfg.nid_list_count

/-- Modelled from the spec: `NAT_BLOCK_OFFSET(nid)` of `node.h` (not in src),
the index of the NAT block that holds `nid`. -/
def NAT_BLOCK_OFFSET (sbi : f2fs_sb_info) (nid : Nat) : Nat := nid / sbi.cfg.NAT_ENTRY_PER_BLOCK

/-- Modelled from the spec: `START_NID(nid)` of `node.h` (not in src), the
first NID of the NAT block that holds `nid`. -/
def START_NID (sbi : f2fs_sb_info) (nid : Nat) : Nat :=
  (nid / sbi.cfg.NAT_ENTRY_PER_BLOCK) * sbi.cfg.NAT_ENTRY_PER_BLOCK

/-! ## Accessors of `node.h` (not in src) -/

/-- Modelled from the spec: `nat_reset_flag` of `node.h` (not in src) sets the
flags of an entry that agrees with the checkpoint: checkpointed, no fsynced
inode, last fsync mark present. -/
def nat_reset_flag (f : nat_flags) : nat_flags :=
  { f with IS_CHECKPOINTED := true, HAS_FSYNCED_INODE := false, HAS_LAST_FSYNC := true }

/-- Modelled from the spec: `node_info_from_raw_nat` of `node.h` (not in src)
loads ino, block address and version from an on-disk record. -/
def node_info_from_raw_nat (ni : node_info) (raw_ne : f2fs_nat_entry) : node_info :=
  { ni with ino := raw_ne.ino, blk_addr := raw_ne.block_addr, version := raw_ne.version }

/-- Modelled from the spec: `raw_nat_from_node_info` of `node.h` (not in src)
writes ino, block address and version into an on-disk record. -/
def raw_nat_from_node_info (ni : node_info) : f2fs_nat_entry :=
  { version := ni.version, ino := ni.ino, block_addr := ni.blk_addr }

/-- Modelled from the spec: `inc_node_version` of `node.h` (not in src) is
`++version` on the 8-bit version field. -/
def inc_node_version (version : Nat) : Nat := (version + 1) % 256

/-- Increment of an `unsigned int` counter. -/
def u32_inc (x : Nat) : Nat := (x + 1) % 4294967296

/-- Decrement of an `unsigned int` counter. -/
def u32_dec (x : Nat) : Nat := (x + 4294967295) % 4294967296

/-- Read through a `struct nat_entry *`. -/
def nat_read (sbi : f2fs_sb_info) (e : Nat) : Except Fault nat_entry :=
  match radix_tree_lookup (sbi.nat.nat_root (TREE_IDX e sbi)) e with
  | some v => .ok v
  | none => .error Fault.oob

/-- Write through a `struct nat_entry *`. -/
def nat_modify (sbi : f2fs_sb_info) (e : Nat) (f : nat_entry → nat_entry) : f2fs_sb_info :=
  { sbi with nat := { sbi.nat with
    nat_root := arr_set sbi.nat.nat_root (TREE_IDX e sbi)
      ((sbi.nat.nat_root (TREE_IDX e sbi)).map (fun p => if p.1 = e then (p.1, f p.2) else p)) } }

/-- Write through a `struct nat_entry_set *`, the set `set` of shard `tree_idx`. -/
def set_modify (sbi : f2fs_sb_info) (tree_idx set : Nat) (f : nat_entry_set → nat_entry_set) :
    f2fs_sb_info :=
  { sbi with nat := { sbi.nat with
    nat_set_root := arr_set sbi.nat.nat_set_root tree_idx
      ((sbi.nat.nat_set_root tree_idx).map (fun p => if p.1 = set then (p.1, f p.2) else p)) } }

/-- Kernel `list_del(&e->list)` on a NAT entry: the entry leaves the one list
it is linked on, whichever that is. -/
def list_del_nat_entry (sbi : f2fs_sb_info) (e : Nat) : f2fs_sb_info :=
  { sbi with nat := { sbi.nat with
    nat_entries := fun i => (sbi.nat.nat_entries i).filter (fun x => x != e),
    nat_set_root := fun i => (sbi.nat.nat_set_root i).map
      (fun p => (p.1, { p.2 with entry_list := p.2.entry_list.filter (fun x => x != e) })) } }

/-! ## NAT cache (`node.c`, `FILE_CELL`) -/

/-- Source `__lookup_nat_cache`: the entry cached for `n`, looked up in the
tree of the shard of `n`. -/
def __lookup_nat_cache (sbi : f2fs_sb_info) (n : Nat) : Option nat_entry :=
  radix_tree_lookup (sbi.nat.nat_root (TREE_IDX n sbi)) n

/-- Source `__del_from_nat_cache`. -/
def __del_from_nat_cache (sbi : f2fs_sb_info) (e : Nat) : Except Fault f2fs_sb_info := do
  let v ← nat_read sbi e
  let sbi := list_del_nat_entry sbi e
  let nid := v.ni.nid
  let tree_idx := TREE_IDX nid sbi
  .ok { sbi with nat := { sbi.nat with
    nat_root := arr_set sbi.nat.nat_root tree_idx (radix_tree_delete (sbi.nat.nat_root tree_idx) nid),
    percore_nat_cnt := arr_set sbi.nat.percore_nat_cnt tree_idx (u32_dec (sbi.nat.percore_nat_cnt tree_idx)) } }

/-- Source `__set_nat_cache_dirty`. -/
def __set_nat_cache_dirty (sbi : f2fs_sb_info) (ne : Nat) : Except Fault f2fs_sb_info := do
  let v ← nat_read sbi ne
  let set := NAT_BLOCK_OFFSET sbi v.ni.nid
  if v.flag.IS_DIRTY then .ok sbi else
  let nid := v.ni.nid
  let tree_idx := TREE_IDX nid sbi
  let sbi ← match radix_tree_lookup (sbi.nat.nat_set_root tree_idx) set with
    | some _ => .ok sbi
    | none => do
        let head : nat_entry_set := { set := set, entry_list := [], entry_cnt := 0 }
        let r ← f2fs_radix_tree_insert (sbi.nat.nat_set_root tree_idx) set head
        .ok { sbi with nat := { sbi.nat with nat_set_root := arr_set sbi.nat.nat_set_root tree_idx r } }
  -- list_move_tail(&ne->list, &head->entry_list)
  let sbi := list_del_nat_entry sbi ne
  let sbi := set_modify sbi tree_idx set (fun h => { h with entry_list := h.entry_list ++ [ne] })
  let sbi := { sbi with nat := { sbi.nat with
    percore_dirty_nat_cnt :=
      arr_set sbi.nat.percore_dirty_nat_cnt tree_idx (u32_inc (sbi.nat.percore_dirty_nat_cnt tree_idx)) } }
  let sbi := set_modify sbi tree_idx set (fun h => { h with entry_cnt := u32_inc h.entry_cnt })
  .ok (nat_modify sbi ne (fun x => { x with flag := { x.flag with IS_DIRTY := true } }))

/-- Source `__clear_nat_cache_dirty`. -/
def __clear_nat_cache_dirty (sbi : f2fs_sb_info) (ne : Nat) : Except Fault f2fs_sb_info := do
  let v ← nat_read sbi ne
  let set := NAT_BLOCK_OFFSET sbi v.ni.nid
  let nid := v.ni.nid
  let tree_idx := TREE_IDX nid sbi
  match radix_tree_lookup (sbi.nat.nat_set_root tree_idx) set with
  | none => .ok sbi
  | some _ =>
    -- list_move_tail(&ne->list, &nm_i->nat_entries[tree_idx])
    let sbi := list_del_nat_entry sbi ne
    let sbi := { sbi with nat := { sbi.nat with
      nat_entries := arr_set sbi.nat.nat_entries tree_idx (sbi.nat.nat_entries tree_idx ++ [ne]) } }
    let sbi := nat_modify sbi ne (fun x => { x with flag := { x.flag with IS_DIRTY := false } })
    let sbi := set_modify sbi tree_idx set (fun h => { h with entry_cnt := u32_dec h.entry_cnt })
    .ok { sbi with nat := { sbi.nat with
      percore_dirty_nat_cnt :=
        arr_set sbi.nat.percore_dirty_nat_cnt tree_idx (u32_dec (sbi.nat.percore_dirty_nat_cnt tree_idx)) } }

/-- Source `grab_nat_entry`: a zeroed entry for `nid` with reset flags, stored
in the tree of its shard and linked at the tail of the shard's clean list. -/
def grab_nat_entry (sbi : f2fs_sb_info) (nid : Nat) : Except Fault f2fs_sb_info := do
  let tree_idx := TREE_IDX nid sbi
  let new : nat_entry :=
    { ni := { nid := nid, ino := 0, blk_addr := 0, version := 0 },
      flag := nat_reset_flag
        { IS_CHECKPOINTED := false, HAS_FSYNCED_INODE := false,
          HAS_LAST_FSYNC := false, IS_DIRTY := false } }
  let r ← f2fs_radix_tree_insert (sbi.nat.nat_root tree_idx) nid new
  .ok { sbi with nat := { sbi.nat with
    nat_root := arr_set sbi.nat.nat_root tree_idx r,
    nat_entries := arr_set sbi.nat.nat_entries tree_idx (sbi.nat.nat_entries tree_idx ++ [nid]),
    percore_nat_cnt := arr_set sbi.nat.percore_nat_cnt tree_idx (u32_inc (sbi.nat.percore_nat_cnt tree_idx)) } }

/-- Source `cache_nat_entry`. -/
def cache_nat_entry (sbi : f2fs_sb_info) (nid : Nat) (ne : f2fs_nat_entry) :
    Except Fault f2fs_sb_info :=
  match __lookup_nat_cache sbi nid with
  | some _ => .ok sbi
  | none => do
    let sbi ← grab_nat_entry sbi nid
    .ok (nat_modify sbi nid (fun x => { x with ni := node_info_from_raw_nat x.ni ne }))

/-- Source `set_node_addr`. -/
def set_node_addr (sbi : f2fs_sb_info) (ni : node_info) (new_blkaddr : Nat)
    (fsync_done : Bool) : Except Fault f2fs_sb_info := do
  let e := ni.nid
  let sbi ← match __lookup_nat_cache sbi ni.nid with
    | none => do
        let sbi ← grab_nat_entry sbi ni.nid
        -- copy_node_info(&e->ni, ni)
        let sbi := nat_modify sbi e (fun x => { x with ni := ni })
        f2fs_bug_on (ni.blk_addr == NEW_ADDR)
        .ok sbi
    | some _ =>
        if new_blkaddr = NEW_ADDR then do
          let sbi := nat_modify sbi e (fun x => { x with ni := ni })
          f2fs_bug_on (ni.blk_addr != NULL_ADDR)
          .ok sbi
        else .ok sbi
  -- sanity check
  let v ← nat_read sbi e
  f2fs_bug_on (v.ni.blk_addr != ni.blk_addr)
  f2fs_bug_on (v.ni.blk_addr == NULL_ADDR && new_blkaddr == NULL_ADDR)
  f2fs_bug_on (v.ni.blk_addr == NEW_ADDR && new_blkaddr == NEW_ADDR)
  f2fs_bug_on (v.ni.blk_addr != NEW_ADDR && v.ni.blk_addr != NULL_ADDR &&
    new_blkaddr == NEW_ADDR)
  -- increment version no as node is removed
  let sbi := if v.ni.blk_addr != NEW_ADDR && new_blkaddr == NULL_ADDR
    then nat_modify sbi e (fun x => { x with ni := { x.ni with version := inc_node_version x.ni.version } })
    else sbi
  -- change address
  let sbi := nat_modify sbi e (fun x => { x with ni := { x.ni with blk_addr := new_blkaddr } })
  let sbi := if new_blkaddr == NEW_ADDR || new_blkaddr == NULL_ADDR
    then nat_modify sbi e (fun x => { x with flag := { x.flag with IS_CHECKPOINTED := false } })
    else sbi
  let sbi ← __set_nat_cache_dirty sbi e
  -- update fsync_mark if its inode nat entry is still alive
  let e2 : Option Nat :=
    if ni.nid != ni.ino then (__lookup_nat_cache sbi ni.ino).map (fun _ => ni.ino) else some e
  match e2 with
  | none => .ok sbi
  | some e2 =>
    let sbi := if fsync_done && ni.nid == ni.ino
      then nat_modify sbi e2 (fun x => { x with flag := { x.flag with HAS_FSYNCED_INODE := true } })
      else sbi
    .ok (nat_modify sbi e2 (fun x => { x with flag := { x.flag with HAS_LAST_FSYNC := fsync_done } }))

/-! ## NAT journal and NAT pages (collaborators, `segment.h` / `node.h` not in src) -/

/-- Conversion of an `unsigned int` to `int`. -/
def u32_to_int (x : Nat) : Int :=
  if x % 4294967296 < 2147483648 then ((x % 4294967296 : Nat) : Int)
  else ((x % 4294967296 : Nat) : Int) - 4294967296

/-- Conversion of an `int` to `unsigned int`. -/
def int_to_u32 (x : Int) : Nat := (x % 4294967296).toNat

/-- Modelled from the spec: `nats_in_cursum` (not in src), the number of NAT
journal entries recorded in the summary header. -/
def nats_in_cursum (sbi : f2fs_sb_info) : Nat := sbi.disk.n_nats

/-- Modelled from the spec: `update_nats_in_cursum` (not in src) adds `i` to
the 16-bit journal count and returns the count it had before. -/
def update_nats_in_cursum (sbi : f2fs_sb_info) (i : Int) : f2fs_sb_info × Nat :=
  ({ sbi with disk := { sbi.disk with n_nats := (((sbi.disk.n_nats : Int) + i) % 65536).toNat } }, sbi.disk.n_nats)

/-- Modelled from the spec: `MAX_NAT_JENTRIES(sum)` (not in src), the free
capacity of the NAT journal. -/
def MAX_NAT_JENTRIES (sbi : f2fs_sb_info) : Int :=
  (sbi.cfg.NAT_JOURNAL_ENTRIES : Int) - (nats_in_cursum sbi : Int)

/-- Modelled from the spec: `__has_cursum_space(sum, size, NAT_JOURNAL)` (not
in src): the journal still has room for `size` more entries. -/
def __has_cursum_space (sbi : f2fs_sb_info) (size : Int) : Bool :=
  decide (size ≤ MAX_NAT_JENTRIES sbi)

/-- First journal slot at or after `i`, among the next `cnt` slots, that
records `val`. -/
def journal_scan (j : Nat → nat_journal_entry) (val : Nat) : Nat → Nat → Option Nat
  | 0, _ => none
  | cnt + 1, i => if (j i).nid = val then some i else journal_scan j val cnt (i + 1)

/-- Modelled from the spec: `lookup_journal_in_cursum(sum, NAT_JOURNAL, val,
alloc)` (not in src): the slot that records `val`; failing that, with `alloc`
and room left, a slot reserved at the end of the journal; failing that, -1. -/
def lookup_journal_in_cursum (sbi : f2fs_sb_info) (val : Nat) (alloc : Bool) :
    f2fs_sb_info × Int :=
  match journal_scan sbi.disk.nat_j val (nats_in_cursum sbi) 0 with
  | some i => (sbi, (i : Int))
  | none =>
    if alloc && __has_cursum_space sbi 1 then
      let r := update_nats_in_cursum sbi 1
      (r.1, (r.2 : Int))
    else (sbi, -1)

/-- Modelled from the spec: `current_nat_addr` of `node.h` (not in src): the
page of the NAT block of `start`, copy A (`false`) or B (`true`) as the NAT
bitmap selects. -/
def current_nat_addr (sbi : f2fs_sb_info) (start : Nat) : Nat × Bool :=
  (NAT_BLOCK_OFFSET sbi start, sbi.disk.nat_bitmap (NAT_BLOCK_OFFSET sbi start))

/-- Modelled from the spec: `next_nat_addr` of `node.h` (not in src): the
other copy of the same NAT block. -/
def next_nat_addr (block_addr : Nat × Bool) : Nat × Bool := (block_addr.1, !block_addr.2)

/-- Modelled from the spec: `set_to_next_nat` of `node.h` (not in src) flips
the NAT bitmap bit of the block of `start_nid`. -/
def set_to_next_nat (sbi : f2fs_sb_info) (start_nid : Nat) : f2fs_sb_info :=
  { sbi with disk := { sbi.disk with
    nat_bitmap := arr_set sbi.disk.nat_bitmap (NAT_BLOCK_OFFSET sbi start_nid)
      (!sbi.disk.nat_bitmap (NAT_BLOCK_OFFSET sbi start_nid)) } }

/-- Source `get_current_nat_page`: the address of the current NAT page of `nid`. -/
def get_current_nat_page (sbi : f2fs_sb_info) (nid : Nat) : Nat × Bool :=
  current_nat_addr sbi nid

/-- Source `get_next_nat_page`: copy the current NAT page of `nid` over the
other copy, mark that copy dirty, flip the bitmap bit and return the copy. -/
def get_next_nat_page (sbi : f2fs_sb_info) (nid : Nat) :
    Except Fault (f2fs_sb_info × (Nat × Bool)) := do
  let src_off := current_nat_addr sbi nid
  let dst_off := next_nat_addr src_off
  f2fs_bug_on (sbi.disk.nat_page_dirty src_off.1 src_off.2)
  -- memcpy(dst_addr, src_addr, PAGE_CACHE_SIZE); set_page_dirty(dst_page)
  let sbi := { sbi with disk := { sbi.disk with
    nat_page := fun b c => if b = dst_off.1 ∧ c = dst_off.2
      then sbi.disk.nat_page src_off.1 src_off.2 else sbi.disk.nat_page b c,
    nat_page_dirty := fun b c => if b = dst_off.1 ∧ c = dst_off.2
      then true else sbi.disk.nat_page_dirty b c } }
  let sbi := set_to_next_nat sbi nid
  .ok (sbi, dst_off)

/-- Source `get_node_info`: the cached entry if there is one, else the journal
record, else the record in the current NAT page; a miss installs a cache
entry. -/
def get_node_info (sbi : f2fs_sb_info) (nid : Nat) : Except Fault (f2fs_sb_info × node_info) :=
  let start_nid := START_NID sbi nid
  let ni : node_info := { nid := nid, ino := 0, blk_addr := 0, version := 0 }
  match __lookup_nat_cache sbi nid with
  | some e =>
    .ok (sbi, { ni with ino := e.ni.ino, blk_addr := e.ni.blk_addr, version := e.ni.version })
  | none =>
    -- Check current segment summary
    let r := lookup_journal_in_cursum sbi nid false
    let sbi := r.1
    let i := r.2
    let ne : f2fs_nat_entry :=
      if 0 ≤ i then (sbi.disk.nat_j i.toNat).ne
      else
        -- Fill node_info from nat page
        let page := get_current_nat_page sbi start_nid
        sbi.disk.nat_page page.1 page.2 ((nid + 4294967296 - start_nid) % 4294967296)
    let ni := node_info_from_raw_nat ni ne
    do
      let sbi ← cache_nat_entry sbi nid ne
      .ok (sbi, ni)

/-- Source `try_to_free_nats`, the `while` loop over the clean list of shard
`i`; the first argument bounds the number of iterations. -/
def try_to_free_nats_shard : Nat → f2fs_sb_info → Nat → Int → Int →
    Except Fault (f2fs_sb_info × Int)
  | 0, sbi, i, nr_shrink, nr_shrink_tmp =>
    if nr_shrink_tmp ≠ 0 ∧ sbi.nat.nat_entries i ≠ [] then .error Fault.fuel
    else .ok (sbi, nr_shrink)
  | fuel + 1, sbi, i, nr_shrink, nr_shrink_tmp =>
    if nr_shrink_tmp = 0 then .ok (sbi, nr_shrink) else
    match sbi.nat.nat_entries i with
    | [] => .ok (sbi, nr_shrink)
    | ne :: _ => do
      let sbi ← __del_from_nat_cache sbi ne
      try_to_free_nats_shard fuel sbi i (nr_shrink - 1) (nr_shrink_tmp - 1)

/-- Source `try_to_free_nats`, the `for` loop over the shards `i, i+1, ...`;
`k` shards are left and `divider = k`. -/
def try_to_free_nats_loop : Nat → f2fs_sb_info → Nat → Int → Except Fault (f2fs_sb_info × Int)
  | 0, sbi, _, nr_shrink => .ok (sbi, nr_shrink)
  | k + 1, sbi, i, nr_shrink => do
    let nr_shrink_tmp := Int.tdiv nr_shrink ((k + 1 : Nat) : Int)
    let r ← try_to_free_nats_shard (sbi.nat.nat_entries i).length sbi i nr_shrink nr_shrink_tmp
    try_to_free_nats_loop k r.1 (i + 1) r.2

/-- The `type` argument of `available_free_memory`; the other types of the
source (`DIRTY_DENTS`, `INO_ENTRIES`, `EXTENT_CACHE`) belong to collaborators
outside this model. -/
inductive mem_type where
  | FREE_NIDS
  | NAT_ENTRIES
deriving DecidableEq, Repr

/-- Sum of a per-shard `unsigned int` counter over the shards `0 .. cnt-1`. -/
def sum_up (a : Nat → Nat) (cnt : Nat) : Nat :=
  ((List.range cnt).map a).sum % 4294967296

/-- Modelled from the spec: `sum_up_fcnt` of `max_fs.h` (not in src), the
total of the per-list counts of free NIDs. -/
def sum_up_fcnt (sbi : f2fs_sb_info) : Nat := sum_up sbi.free.percore_fcnt sbi.cfg.nid_list_count

/-- Source `available_free_memory` for `FREE_NIDS` and `NAT_ENTRIES`: refresh
the summed counter, then compare the pages it accounts for with a quarter of
`ram_thresh` percent of low memory. -/
def available_free_memory (sbi : f2fs_sb_info) (type : mem_type) : f2fs_sb_info × Bool :=
  match type with
  | mem_type.FREE_NIDS =>
    let sbi := { sbi with free := { sbi.free with fcnt := sum_up_fcnt sbi } }
    let mem_size := ((sbi.free.fcnt * sbi.cfg.sizeof_free_nid) % 18446744073709551616) >>> sbi.cfg.PAGE_CACHE_SHIFT
    (sbi, decide (mem_size < (((sbi.avail_ram * sbi.cfg.ram_thresh) % 18446744073709551616 / 100) >>> 2)))
  | mem_type.NAT_ENTRIES =>
    let sbi := { sbi with nat := { sbi.nat with nat_cnt := sum_up sbi.nat.percore_nat_cnt sbi.cfg.nat_tree_cnt } }
    let mem_size := ((sbi.nat.nat_cnt * sbi.cfg.sizeof_nat_entry) % 18446744073709551616) >>> sbi.cfg.PAGE_CACHE_SHIFT
    (sbi, decide (mem_size < (((sbi.avail_ram * sbi.cfg.ram_thresh) % 18446744073709551616 / 100) >>> 2)))

/-- Source `try_to_free_nats`: returns the part of `nr_shrink` left over. -/
def try_to_free_nats (sbi : f2fs_sb_info) (nr_shrink : Int) : Except Fault (f2fs_sb_info × Int) :=
  let r := available_free_memory sbi mem_type.NAT_ENTRIES
  if r.2 then .ok (r.1, 0)
  else try_to_free_nats_loop r.1.cfg.nat_tree_cnt r.1 0 nr_shrink

/-! ## Free-NID pool (`node.c`, `PER_CORE_NID_LIST`) -/

/-- Read through a `struct free_nid *`. -/
def free_nid_read (sbi : f2fs_sb_info) (i : Nat) : Except Fault free_nid :=
  match radix_tree_lookup (sbi.free.free_nid_root (LIST_IDX i sbi)) i with
  | some v => .ok v
  | none => .error Fault.oob

/-- Write through a `struct free_nid *`. -/
def free_nid_modify (sbi : f2fs_sb_info) (i : Nat) (f : free_nid → free_nid) : f2fs_sb_info :=
  { sbi with free := { sbi.free with
    free_nid_root := arr_set sbi.free.free_nid_root (LIST_IDX i sbi)
      ((sbi.free.free_nid_root (LIST_IDX i sbi)).map (fun p => if p.1 = i then (p.1, f p.2) else p)) } }

/-- Source `__lookup_free_nid_list`. -/
def __lookup_free_nid_list (sbi : f2fs_sb_info) (n : Nat) : Option free_nid :=
  radix_tree_lookup (sbi.free.free_nid_root (LIST_IDX n sbi)) n

/-- Source `__del_from_free_nid_list`: unlink the entry from the list it is on
and delete its NID from the tree of its shard. -/
def __del_from_free_nid_list (sbi : f2fs_sb_info) (i : Nat) : Except Fault f2fs_sb_info := do
  let v ← free_nid_read sbi i
  let sbi := { sbi with free := { sbi.free with free_nid_list := fun l => (sbi.free.free_nid_list l).filter (fun x => x != i) } }
  let list_idx := LIST_IDX v.nid sbi
  .ok { sbi with free := { sbi.free with
    free_nid_root := arr_set sbi.free.free_nid_root list_idx
      (radix_tree_delete (sbi.free.free_nid_root list_idx) v.nid) } }

/-- Kernel `radix_tree_preload(GFP_NOFS)` (not in src), modelled from its
interface: it returns 0 when the tree nodes are reserved and `-ENOMEM` when
the allocator has no memory for them; which of the two is a figure of the
environment. -/
def radix_tree_preload (sbi : f2fs_sb_info) : Int :=
  if sbi.cfg.preload_enomem then -12 else 0

/-- Source `add_free_nid`: returns -1 when the memory budget is used up, 1
when the NID was added, 0 otherwise (NID 0, a NID the NAT cache holds as
allocated, no memory for the tree node, a NID that is in the pool). -/
def add_free_nid (sbi : f2fs_sb_info) (nid : Nat) (build : Bool) : f2fs_sb_info × Int :=
  let r := available_free_memory sbi mem_type.FREE_NIDS
  let sbi := r.1
  if !r.2 then (sbi, -1) else
  -- 0 nid should not be used
  if nid = 0 then (sbi, 0) else
  let allocated : Bool :=
    if build then
      -- do not add allocated nids
      match __lookup_nat_cache sbi nid with
      | some ne => !ne.flag.IS_CHECKPOINTED || ne.ni.blk_addr != NULL_ADDR
      | none => false
    else false
  if allocated then (sbi, 0) else
  let i : free_nid := { nid := nid, state := nid_state.NID_NEW }
  if radix_tree_preload sbi ≠ 0 then (sbi, 0) else
  let list_idx := LIST_IDX nid sbi
  match radix_tree_insert (sbi.free.free_nid_root list_idx) i.nid i with
  | none => (sbi, 0)
  | some r =>
    ({ sbi with free := { sbi.free with
       free_nid_root := arr_set sbi.free.free_nid_root list_idx r,
       free_nid_list := arr_set sbi.free.free_nid_list list_idx (sbi.free.free_nid_list list_idx ++ [i.nid]),
       percore_fcnt := arr_set sbi.free.percore_fcnt list_idx (u32_inc (sbi.free.percore_fcnt list_idx)) } }, 1)

/-- Source `remove_free_nid`. -/
def remove_free_nid (sbi : f2fs_sb_info) (nid : Nat) : Except Fault f2fs_sb_info :=
  let list_id := LIST_IDX nid sbi
  match __lookup_free_nid_list sbi nid with
  | some i =>
    if i.state = nid_state.NID_NEW then do
      let sbi ← __del_from_free_nid_list sbi nid
      .ok { sbi with free := { sbi.free with
        percore_fcnt := arr_set sbi.free.percore_fcnt list_id (u32_dec (sbi.free.percore_fcnt list_id)) } }
    else .ok sbi
  | none => .ok sbi

/-- Source `scan_nat_page`, the `for` loop: `cnt` slots are left, the next
slot is `i` and its NID is `start_nid`. -/
def scan_nat_page_loop (nat_blk : Nat → f2fs_nat_entry) :
    Nat → f2fs_sb_info → Nat → Nat → Except Fault f2fs_sb_info
  | 0, sbi, _, _ => .ok sbi
  | cnt + 1, sbi, i, start_nid =>
    if sbi.cfg.max_nid ≤ start_nid then .ok sbi else do
    let blk_addr := (nat_blk i).block_addr
    f2fs_bug_on (blk_addr == NEW_ADDR)
    if blk_addr = NULL_ADDR then
      let r := add_free_nid sbi start_nid true
      if r.2 < 0 then .ok r.1
      else scan_nat_page_loop nat_blk cnt r.1 (i + 1) (u32_inc start_nid)
    else scan_nat_page_loop nat_blk cnt sbi (i + 1) (u32_inc start_nid)

/-- Source `scan_nat_page`: offer every NID of the page from `start_nid` on
whose on-disk address is `NULL_ADDR` to the free pool. -/
def scan_nat_page (sbi : f2fs_sb_info) (nat_page : Nat × Bool) (start_nid : Nat) :
    Except Fault f2fs_sb_info :=
  let i := start_nid % sbi.cfg.NAT_ENTRY_PER_BLOCK
  scan_nat_page_loop (sbi.disk.nat_page nat_page.1 nat_page.2) (sbi.cfg.NAT_ENTRY_PER_BLOCK - i) sbi i start_nid

/-- The journal pass shared by the builders: for the `cnt` journal slots from
`i` on, a slot with `NULL_ADDR` offers its NID to the pool, any other slot
removes its NID from the pool. -/
def build_free_nids_journal : Nat → f2fs_sb_info → Nat → Except Fault f2fs_sb_info
  | 0, sbi, _ => .ok sbi
  | cnt + 1, sbi, i => do
    let addr := (sbi.disk.nat_j i).ne.block_addr
    let nid := (sbi.disk.nat_j i).nid
    let sbi ← if addr = NULL_ADDR then .ok (add_free_nid sbi nid true).1
      else remove_free_nid sbi nid
    build_free_nids_journal cnt sbi (i + 1)

/-- Source `build_free_nids` (`PER_CORE_NID_LIST`): find free nids from the
current summary pages only. -/
def build_free_nids (sbi : f2fs_sb_info) : Except Fault f2fs_sb_info :=
  build_free_nids_journal (nats_in_cursum sbi) sbi 0

/-- Modelled from the spec: `atomic_inc_return` on the 32-bit signed
`next_allocator` (kernel atomics, not in src). -/
def atomic_inc_return (v : Int) : Int :=
  if v + 1 > 2147483647 then v + 1 - 4294967296 else v + 1

/-- First entry of a free-NID list whose state is `NID_NEW`
(`list_for_each_entry ... if (i->state == NID_NEW) break`). -/
def first_new (sbi : f2fs_sb_info) : List Nat → Option Nat
  | [] => none
  | i :: t =>
    match __lookup_free_nid_list sbi i with
    | some v => if v.state = nid_state.NID_NEW then some i else first_new sbi t
    | none => first_new sbi t

/-- Source `alloc_nid`, the section under `free_nid_list_lock[list_id]` taken
when the list has free NIDs and no build is running: the first `NID_NEW`
entry becomes `NID_ALLOC` and its NID is returned. -/
def alloc_nid_take (sbi : f2fs_sb_info) (list_id : Nat) : Except Fault (f2fs_sb_info × Nat) := do
  f2fs_bug_on (sbi.free.free_nid_list list_id).isEmpty
  match first_new sbi (sbi.free.free_nid_list list_id) with
  | none => .error Fault.bug_on
  | some i =>
    let v ← free_nid_read sbi i
    let sbi := free_nid_modify sbi i (fun x => { x with state := nid_state.NID_ALLOC })
    let sbi := { sbi with free := { sbi.free with
      percore_fcnt := arr_set sbi.free.percore_fcnt list_id (u32_dec (sbi.free.percore_fcnt list_id)) } }
    .ok (sbi, v.nid)

/-- Source `alloc_nid`, label `build_free_nids`: under `build_lock`, scan for
free nids if the list is still empty. -/
def alloc_nid_build (sbi : f2fs_sb_info) (list_id : Nat) : Except Fault f2fs_sb_info := do
  if sbi.free.build_lock then .error Fault.hang else
  let sbi := { sbi with free := { sbi.free with build_lock := true } }
  let sbi ← if sbi.free.percore_fcnt list_id = 0 then build_free_nids sbi else .ok sbi
  .ok { sbi with free := { sbi.free with build_lock := false } }

/-- Source `alloc_nid` (`PER_CORE_NID_LIST`, plain counter); the first
argument bounds the number of passes through `retry`.  The result carries
`some nid` for `true` and `none` for `false`.  The sum
`total_valid_node_count + 1` is taken in 32 bits. -/
def alloc_nid : Nat → f2fs_sb_info → Except Fault (f2fs_sb_info × Option Nat)
  | 0, _ => .error Fault.fuel
  | fuel + 1, sbi =>
    if (sbi.total_valid_node_count + 1) % 4294967296 > sbi.cfg.available_nids then .ok (sbi, none) else
    let nid_list_cnt : Int := (sbi.cfg.nid_list_count : Int)
    let v := atomic_inc_return sbi.free.next_allocator
    let sbi := { sbi with free := { sbi.free with next_allocator := v } }
    if nid_list_cnt = 0 then .error Fault.oob else
    let list_id_int := Int.tmod v nid_list_cnt
    if list_id_int < 0 then .error Fault.oob else
    let list_id := list_id_int.toNat
    -- We should not use stale free nids created by build_free_nids
    if sbi.free.percore_fcnt list_id ≠ 0 ∧ sbi.free.build_lock = false then do
      let r ← alloc_nid_take sbi list_id
      .ok (r.1, some r.2)
    else do
      -- Let us scan nat pages and its caches to get free nids
      let sbi ← alloc_nid_build sbi list_id
      alloc_nid fuel sbi

/-- Source `alloc_nid_done`. -/
def alloc_nid_done (sbi : f2fs_sb_info) (nid : Nat) : Except Fault f2fs_sb_info := do
  match __lookup_free_nid_list sbi nid with
  | none => .error Fault.bug_on
  | some i =>
    f2fs_bug_on (i.state != nid_state.NID_ALLOC)
    __del_from_free_nid_list sbi nid

/-- Source `alloc_nid_failed`. -/
def alloc_nid_failed (sbi : f2fs_sb_info) (nid : Nat) : Except Fault f2fs_sb_info := do
  if nid = 0 then .ok sbi else
  let list_id := LIST_IDX nid sbi
  match __lookup_free_nid_list sbi nid with
  | none => .error Fault.bug_on
  | some i =>
    f2fs_bug_on (i.state != nid_state.NID_ALLOC)
    let r := available_free_memory sbi mem_type.FREE_NIDS
    let sbi := r.1
    if !r.2 then __del_from_free_nid_list sbi nid
    else
      let sbi := free_nid_modify sbi nid (fun x => { x with state := nid_state.NID_NEW })
      .ok { sbi with free := { sbi.free with
        percore_fcnt := arr_set sbi.free.percore_fcnt list_id (u32_inc (sbi.free.percore_fcnt list_id)) } }

/-! ## Checkpoint flush (`node.c`, `FILE_CELL`) -/

/-- Source `remove_nats_in_journal`, the `for` loop: for the `cnt` journal
slots from `i` on, make sure the NID has a cache entry (loaded from the slot
when it has none) and mark the entry dirty. -/
def remove_nats_in_journal_loop : Nat → f2fs_sb_info → Nat → Except Fault f2fs_sb_info
  | 0, sbi, _ => .ok sbi
  | cnt + 1, sbi, i => do
    let nid := (sbi.disk.nat_j i).nid
    let raw_ne := (sbi.disk.nat_j i).ne
    let sbi ← match __lookup_nat_cache sbi nid with
      | some _ => .ok sbi
      | none => do
        let sbi ← grab_nat_entry sbi nid
        .ok (nat_modify sbi nid (fun x => { x with ni := node_info_from_raw_nat x.ni raw_ne }))
    let sbi ← __set_nat_cache_dirty sbi nid
    remove_nats_in_journal_loop cnt sbi (i + 1)

/-- Source `remove_nats_in_journal`: merge every journal entry into the NAT
cache as a dirty entry, then empty the journal. -/
def remove_nats_in_journal (sbi : f2fs_sb_info) : Except Fault f2fs_sb_info := do
  let i := nats_in_cursum sbi
  let sbi ← remove_nats_in_journal_loop i sbi 0
  .ok (update_nats_in_cursum sbi (-(i : Int))).1

/-- The `entry_cnt` read through a `struct nat_entry_set *`. -/
def set_entry_cnt (sbi : f2fs_sb_info) (set : Nat × Nat) : Nat :=
  match radix_tree_lookup (sbi.nat.nat_set_root set.1) set.2 with
  | some h => h.entry_cnt
  | none => 0

/-- Source `__adjust_nat_entry_set`, the walk over `head`: link `nes` in front
of the first set whose `entry_cnt` is not smaller, or at the tail. -/
def __adjust_nat_entry_set_walk (sbi : f2fs_sb_info) (nes : Nat × Nat) :
    List (Nat × Nat) → List (Nat × Nat)
  | [] => [nes]
  | cur :: t =>
    if set_entry_cnt sbi cur ≥ set_entry_cnt sbi nes then nes :: cur :: t
    else cur :: __adjust_nat_entry_set_walk sbi nes t

/-- Source `__adjust_nat_entry_set`. -/
def __adjust_nat_entry_set (sbi : f2fs_sb_info) (nes : Nat × Nat) (head : List (Nat × Nat))
    (max : Int) : List (Nat × Nat) :=
  if set_entry_cnt sbi nes ≥ int_to_u32 max then head ++ [nes]
  else __adjust_nat_entry_set_walk sbi nes head

/-- Source `__flush_nat_entry_set`, the body of the loop over `entry_list` for
the entry `ne`; `tree_idx_tmp` is `none` for -1 and `page` is the NAT page
taken when the set does not go to the journal. -/
def __flush_nat_entry (start_nid : Nat) (to_journal : Bool) (page : Nat × Bool)
    (st : f2fs_sb_info × Option Nat) (ne : Nat) : Except Fault (f2fs_sb_info × Option Nat) := do
  let sbi := st.1
  let tree_idx_tmp := st.2
  let v ← nat_read sbi ne
  let nid := v.ni.nid
  let tree_idx := TREE_IDX nid sbi
  f2fs_bug_on (match tree_idx_tmp with
    | none => false
    | some t => tree_idx != t)
  if v.ni.blk_addr = NEW_ADDR then .ok (sbi, some tree_idx) else
  let sbi ←
    if to_journal then do
      let r := lookup_journal_in_cursum sbi nid true
      let sbi := r.1
      let offset := r.2
      f2fs_bug_on (decide (offset < 0))
      -- nid_in_journal(sum, offset) = nid; raw_nat_from_node_info(raw_ne, &ne->ni)
      .ok { sbi with disk := { sbi.disk with
        nat_j := arr_set sbi.disk.nat_j offset.toNat
          { nid := nid, ne := raw_nat_from_node_info v.ni } } }
    else
      -- raw_ne = &nat_blk->entries[nid - start_nid]
      .ok { sbi with disk := { sbi.disk with
        nat_page := fun b c => if b = page.1 ∧ c = page.2
          then arr_set (sbi.disk.nat_page b c) ((nid + 4294967296 - start_nid) % 4294967296)
            (raw_nat_from_node_info v.ni)
          else sbi.disk.nat_page b c } }
  let sbi := nat_modify sbi ne (fun x => { x with flag := nat_reset_flag x.flag })
  let sbi ← __clear_nat_cache_dirty sbi ne
  let sbi := if v.ni.blk_addr = NULL_ADDR then (add_free_nid sbi nid false).1 else sbi
  .ok (sbi, some tree_idx)

/-- Source `__flush_nat_entry_set`, the loop over the entries that were on
`entry_list` when the loop started. -/
def __flush_nat_entry_list (start_nid : Nat) (to_journal : Bool) (page : Nat × Bool) :
    List Nat → f2fs_sb_info × Option Nat → Except Fault (f2fs_sb_info × Option Nat)
  | [], st => .ok st
  | ne :: t, st => do
    let st ← __flush_nat_entry start_nid to_journal page st ne
    __flush_nat_entry_list start_nid to_journal page t st

/-- Source `__flush_nat_entry_set`: write the dirty entries of one set to the
journal if it has room for `entry_cnt` entries, else to the next copy of the
NAT block, then drop the set from the tree of its shard. -/
def __flush_nat_entry_set (sbi : f2fs_sb_info) (set : Nat × Nat) : Except Fault f2fs_sb_info := do
  let h ← match radix_tree_lookup (sbi.nat.nat_set_root set.1) set.2 with
    | some h => Except.ok h
    | none => .error Fault.oob
  let start_nid := (h.set * sbi.cfg.NAT_ENTRY_PER_BLOCK) % 4294967296
  let to_journal := __has_cursum_space sbi (u32_to_int h.entry_cnt)
  let r ← if to_journal then .ok (sbi, ((0 : Nat), false)) else get_next_nat_page sbi start_nid
  let st ← __flush_nat_entry_list start_nid to_journal r.2 h.entry_list (r.1, none)
  let sbi := st.1
  f2fs_bug_on (set_entry_cnt sbi set != 0)
  match st.2 with
  | none => .error Fault.oob
  | some tree_idx =>
    .ok { sbi with nat := { sbi.nat with
      nat_set_root := arr_set sbi.nat.nat_set_root tree_idx
        (radix_tree_delete (sbi.nat.nat_set_root tree_idx) h.set) } }

/-- Source `flush_nat_entries`, the `while` loop that gang-looks-up the sets
of shard `i` from `set_idx` on and links each into `sets`; the first argument
bounds the number of lookups. -/
def flush_collect_shard : Nat → f2fs_sb_info → Nat → Nat → List (Nat × Nat) →
    Except Fault (List (Nat × Nat))
  | 0, _, _, _, _ => .error Fault.fuel
  | fuel + 1, sbi, i, set_idx, sets =>
    let setvec := radix_tree_gang_lookup (sbi.nat.nat_set_root i) set_idx sbi.cfg.SETVEC_SIZE
    match setvec.getLast? with
    | none => .ok sets
    | some last =>
      let set_idx := (last.2.set + 1) % 4294967296
      let sets := setvec.foldl
        (fun acc p => __adjust_nat_entry_set sbi (i, p.1) acc (MAX_NAT_JENTRIES sbi)) sets
      flush_collect_shard fuel sbi i set_idx sets

/-- Source `flush_nat_entries`, the `for` loop over the shards `i, i+1, ...`
(`k` shards are left) that builds the ordered list `sets`. -/
def flush_collect : Nat → f2fs_sb_info → Nat → List (Nat × Nat) → Except Fault (List (Nat × Nat))
  | 0, _, _, sets => .ok sets
  | k + 1, sbi, i, sets => do
    let sets ← flush_collect_shard ((sbi.nat.nat_set_root i).length + 1) sbi i 0 sets
    flush_collect k sbi (i + 1) sets

/-- Source `flush_nat_entries`, the final loop: flush every set of `sets` in
order. -/
def flush_sets : List (Nat × Nat) → f2fs_sb_info → Except Fault f2fs_sb_info
  | [], sbi => .ok sbi
  | set :: t, sbi => do
    let sbi ← __flush_nat_entry_set sbi set
    flush_sets t sbi

/-- Source `flush_nat_entries` (`FILE_CELL`). -/
def flush_nat_entries (sbi : f2fs_sb_info) : Except Fault f2fs_sb_info := do
  let count1 := sum_up sbi.nat.percore_dirty_nat_cnt sbi.cfg.nat_tree_cnt
  let sbi := { sbi with nat := { sbi.nat with dirty_nat_cnt := count1 } }
  if sbi.nat.dirty_nat_cnt = 0 then .ok sbi else
  -- if there are no enough space in journal to store dirty nat entries,
  -- remove all entries from journal and merge them into nat entry set.
  let sbi ← if !__has_cursum_space sbi (u32_to_int sbi.nat.dirty_nat_cnt)
    then remove_nats_in_journal sbi else .ok sbi
  let sets ← flush_collect sbi.cfg.nat_tree_cnt sbi 0 []
  flush_sets sets sbi

/-! ## Node paths (`node.c`, `get_node_path`) -/

/-- Modelled from the spec: the layout constants of `f2fs.h` and `f2fs_fs.h`
(not in src) that `get_node_path` reads: `ADDRS_PER_INODE(fi)`, the number of
block addresses in the inode `fi`; `ADDRS_PER_BLOCK`, the number of block
addresses in a direct node; `NIDS_PER_BLOCK`, the number of NIDs in an
indirect node; and `DEF_ADDRS_PER_INODE`, after which the five node slots of
an inode are numbered. -/
structure node_layout where
  ADDRS_PER_INODE : Nat
  ADDRS_PER_BLOCK : Nat
  NIDS_PER_BLOCK : Nat
  DEF_ADDRS_PER_INODE : Nat
deriving Repr

/-- Modelled from the spec: `NODE_DIR1_BLOCK` of `f2fs_fs.h` (not in src). -/
def NODE_DIR1_BLOCK (g : node_layout) : Int := g.DEF_ADDRS_PER_INODE + 1

/-- Modelled from the spec: `NODE_DIR2_BLOCK` of `f2fs_fs.h` (not in src). -/
def NODE_DIR2_BLOCK (g : node_layout) : Int := g.DEF_ADDRS_PER_INODE + 2

/-- Modelled from the spec: `NODE_IND1_BLOCK` of `f2fs_fs.h` (not in src). -/
def NODE_IND1_BLOCK (g : node_layout) : Int := g.DEF_ADDRS_PER_INODE + 3

/-- Modelled from the spec: `NODE_IND2_BLOCK` of `f2fs_fs.h` (not in src). -/
def NODE_IND2_BLOCK (g : node_layout) : Int := g.DEF_ADDRS_PER_INODE + 4

/-- Modelled from the spec: `NODE_DIND_BLOCK` of `f2fs_fs.h` (not in src). -/
def NODE_DIND_BLOCK (g : node_layout) : Int := g.DEF_ADDRS_PER_INODE + 5

/-- A value stored in a `long` (64 bits, two's complement). -/
def to_long (x : Int) : Int := (x + 9223372036854775808) % 18446744073709551616 - 9223372036854775808

/-- A value stored in an `int` (32 bits, two's complement). -/
def to_int (x : Int) : Int := (x + 2147483648) % 4294967296 - 2147483648

/-- Source `get_node_path`: the path of the data block `block` of a file
through the node tree of its inode. `offset` and `noffset` are the caller's
arrays `int offset[4]` and `unsigned int noffset[4]`; the result is the level
and the two arrays as the function leaves them. `BUG()` stops the
operation. -/
def get_node_path (g : node_layout) (block : Int) (offset : Nat → Int) (noffset : Nat → Nat) :
    Except Fault (Nat × (Nat → Int) × (Nat → Nat)) :=
  let direct_index : Int := to_long g.ADDRS_PER_INODE
  let direct_blks : Int := to_long g.ADDRS_PER_BLOCK
  let dptrs_per_blk : Int := to_long g.NIDS_PER_BLOCK
  let indirect_blks : Int := to_long (to_int ((g.ADDRS_PER_BLOCK : Int) * g.NIDS_PER_BLOCK))
  let dindirect_blks : Int := to_long (indirect_blks * g.NIDS_PER_BLOCK)
  let noffset := arr_set noffset 0 0
  if block < direct_index then
    .ok (0, arr_set offset 0 (to_int block), noffset)
  else
  let block := to_long (block - direct_index)
  if block < direct_blks then
    let offset := arr_set offset 0 (to_int (NODE_DIR1_BLOCK g))
    let noffset := arr_set noffset 1 1
    let offset := arr_set offset 1 (to_int block)
    .ok (1, offset, noffset)
  else
  let block := to_long (block - direct_blks)
  if block < direct_blks then
    let offset := arr_set offset 0 (to_int (NODE_DIR2_BLOCK g))
    let noffset := arr_set noffset 1 2
    let offset := arr_set offset 1 (to_int block)
    .ok (1, offset, noffset)
  else
  let block := to_long (block - direct_blks)
  if block < indirect_blks then
    let offset := arr_set offset 0 (to_int (NODE_IND1_BLOCK g))
    let noffset := arr_set noffset 1 3
    let offset := arr_set offset 1 (to_int (Int.tdiv block direct_blks))
    let noffset := arr_set noffset 2 (int_to_u32 (to_int (4 + offset 1)))
    let offset := arr_set offset 2 (to_int (Int.tmod block direct_blks))
    .ok (2, offset, noffset)
  else
  let block := to_long (block - indirect_blks)
  if block < indirect_blks then
    let offset := arr_set offset 0 (to_int (NODE_IND2_BLOCK g))
    let noffset := arr_set noffset 1 (int_to_u32 (to_long (4 + dptrs_per_blk)))
    let offset := arr_set offset 1 (to_int (Int.tdiv block direct_blks))
    let noffset := arr_set noffset 2 (int_to_u32 (to_long (5 + dptrs_per_blk + offset 1)))
    let offset := arr_set offset 2 (to_int (Int.tmod block direct_blks))
    .ok (2, offset, noffset)
  else
  let block := to_long (block - indirect_blks)
  if block < dindirect_blks then
    let offset := arr_set offset 0 (to_int (NODE_DIND_BLOCK g))
    let noffset := arr_set noffset 1 (int_to_u32 (to_long (5 + to_long (dptrs_per_blk * 2))))
    let offset := arr_set offset 1 (to_int (Int.tdiv block indirect_blks))
    let noffset := arr_set noffset 2 (int_to_u32 (to_long (6 + to_long (dptrs_per_blk * 2)
      + to_long (offset 1 * to_long (dptrs_per_blk + 1)))))
    let offset := arr_set offset 2 (to_int (Int.tmod (Int.tdiv block direct_blks) dptrs_per_blk))
    let noffset := arr_set noffset 3 (int_to_u32 (to_long (7 + to_long (dptrs_per_blk * 2)
      + to_long (offset 1 * to_long (dptrs_per_blk + 1)) + offset 2)))
    let offset := arr_set offset 3 (to_int (Int.tmod block direct_blks))
    .ok (3, offset, noffset)
  else .error Fault.bug_on

/-- The file layout of f2fs with 4 KiB blocks: 923 addresses in the inode,
1018 addresses in a direct node, 1018 NIDs in an indirect node. -/
def f2fs_layout : node_layout :=
  { ADDRS_PER_INODE := 923, ADDRS_PER_BLOCK := 1018, NIDS_PER_BLOCK := 1018,
    DEF_ADDRS_PER_INODE := 923 }

/-! ## The flush per core (`node.c`, `flush_nat_entries_per_core`) -/

/-- Modelled from the spec: `struct per_core_sets_pack` of `node.h` (not in
src), the dirty sets of one NAT block gathered over the shards. `set_id` is
the set number; `set` lists the members `set[0 .. next_set_idx - 1]`, a
member being the shard and the key under which its `struct nat_entry_set` is
stored; `entry_cnt`, an `unsigned int`, adds up their entries.
`init_new_per_core_sets_pack` (not in src) gives the array `set` one slot per
shard. -/
structure per_core_sets_pack where
  set_id : Nat
  set : List (Nat × Nat)
  entry_cnt : Nat
deriving DecidableEq, Repr

/-- The `set` field read through a `struct nat_entry_set *`. -/
def set_number (sbi : f2fs_sb_info) (set : Nat × Nat) : Nat :=
  match radix_tree_lookup (sbi.nat.nat_set_root set.1) set.2 with
  | some h => h.set
  | none => 0

/-- Source `__adjust_nat_entry_set_per_core`, the first loop: the first pack
of `head` with the set number `id`. -/
def pack_lookup (id : Nat) : List per_core_sets_pack → Option per_core_sets_pack
  | [] => none
  | cur :: t => if cur.set_id = id then some cur else pack_lookup id t

/-- The list without its first pack with the set number `id`: the `list_del`
half of `list_move_tail(&cur->set_list, head)`. -/
def pack_unlink (id : Nat) : List per_core_sets_pack → List per_core_sets_pack
  | [] => []
  | cur :: t => if cur.set_id = id then t else cur :: pack_unlink id t

/-- The list with the fields of its first pack with the set number of `p`
overwritten by those of `p`: the writes through the pointer `cur`. -/
def pack_store (p : per_core_sets_pack) : List per_core_sets_pack → List per_core_sets_pack
  | [] => []
  | cur :: t => if cur.set_id = p.set_id then p :: t else cur :: pack_store p t

/-- Source `__adjust_nat_entry_set_per_core`, the second loop: link
`new_pack` in front of the first pack whose `entry_cnt` is not smaller, or at
the tail. -/
def __adjust_nat_entry_set_per_core_walk (new_pack : per_core_sets_pack) :
    List per_core_sets_pack → List per_core_sets_pack
  | [] => [new_pack]
  | cur :: t =>
    if cur.entry_cnt ≥ new_pack.entry_cnt then new_pack :: cur :: t
    else cur :: __adjust_nat_entry_set_per_core_walk new_pack t

/-- Source `__adjust_nat_entry_set_per_core`: the set `nes` joins the pack of
its set number, which moves to the tail once it counts `max` entries or more,
or it starts a new pack. A pack without a free slot in `set` stops the
operation. -/
def __adjust_nat_entry_set_per_core (sbi : f2fs_sb_info) (nes : Nat × Nat)
    (head : List per_core_sets_pack) (max : Int) (nat_tree_cnt : Int) :
    Except Fault (List per_core_sets_pack) :=
  match pack_lookup (set_number sbi nes) head with
  | some cur =>
    -- cur->set[cur->next_set_idx++] = nes; cur->entry_cnt += nes->entry_cnt
    if cur.set.length < int_to_u32 nat_tree_cnt then
      let cur : per_core_sets_pack :=
        { cur with set := cur.set ++ [nes],
                   entry_cnt := (cur.entry_cnt + set_entry_cnt sbi nes) % 4294967296 }
      if cur.entry_cnt ≥ int_to_u32 max then .ok (pack_unlink cur.set_id head ++ [cur])
      else .ok (pack_store cur head)
    else .error Fault.oob
  | none =>
    let new_pack : per_core_sets_pack :=
      { set_id := set_number sbi nes, set := [nes], entry_cnt := set_entry_cnt sbi nes }
    if new_pack.entry_cnt ≥ int_to_u32 max ∨ head = [] then .ok (head ++ [new_pack])
    else .ok (__adjust_nat_entry_set_per_core_walk new_pack head)

/-- Source `__flush_nat_entry_set_per_core`, the body of the loop over an
`entry_list` for the entry `ne`; `page` is the NAT page taken when the pack
does not go to the journal. -/
def __flush_nat_entry_per_core (start_nid : Nat) (to_journal : Bool) (page : Nat × Bool)
    (sbi : f2fs_sb_info) (ne : Nat) : Except Fault f2fs_sb_info := do
  let v ← nat_read sbi ne
  let nid := v.ni.nid
  let tree_idx := TREE_IDX nid sbi
  f2fs_bug_on (decide (u32_to_int tree_idx < 0))
  if v.ni.blk_addr = NEW_ADDR then .ok sbi else
  let sbi ←
    if to_journal then do
      let r := lookup_journal_in_cursum sbi nid true
      let sbi := r.1
      let offset := r.2
      f2fs_bug_on (decide (offset < 0))
      -- nid_in_journal(sum, offset) = nid; raw_nat_from_node_info(raw_ne, &ne->ni)
      .ok { sbi with disk := { sbi.disk with
        nat_j := arr_set sbi.disk.nat_j offset.toNat
          { nid := nid, ne := raw_nat_from_node_info v.ni } } }
    else
      -- raw_ne = &nat_blk->entries[nid - start_nid]
      .ok { sbi with disk := { sbi.disk with
        nat_page := fun b c => if b = page.1 ∧ c = page.2
          then arr_set (sbi.disk.nat_page b c) ((nid + 4294967296 - start_nid) % 4294967296)
            (raw_nat_from_node_info v.ni)
          else sbi.disk.nat_page b c } }
  let sbi := nat_modify sbi ne (fun x => { x with flag := nat_reset_flag x.flag })
  let sbi ← __clear_nat_cache_dirty sbi ne
  .ok (if v.ni.blk_addr = NULL_ADDR then (add_free_nid sbi nid false).1 else sbi)

/-- Source `__flush_nat_entry_set_per_core`, the loop over the entries that
were on the `entry_list` of one member set when the loop started. -/
def __flush_nat_entry_list_per_core (start_nid : Nat) (to_journal : Bool) (page : Nat × Bool) :
    List Nat → f2fs_sb_info → Except Fault f2fs_sb_info
  | [], sbi => .ok sbi
  | ne :: t, sbi => do
    let sbi ← __flush_nat_entry_per_core start_nid to_journal page sbi ne
    __flush_nat_entry_list_per_core start_nid to_journal page t sbi

/-- Source `__flush_nat_entry_set_per_core`, the loop over the member sets
`set[0 .. total_set - 1]`. -/
def __flush_pack_sets (start_nid : Nat) (to_journal : Bool) (page : Nat × Bool) :
    List (Nat × Nat) → f2fs_sb_info → Except Fault f2fs_sb_info
  | [], sbi => .ok sbi
  | set :: t, sbi => do
    let h ← match radix_tree_lookup (sbi.nat.nat_set_root set.1) set.2 with
      | some h => Except.ok h
      | none => .error Fault.oob
    let sbi ← __flush_nat_entry_list_per_core start_nid to_journal page h.entry_list sbi
    __flush_pack_sets start_nid to_journal page t sbi

/-- Source `__flush_nat_entry_set_per_core`, the loop that deletes the key
`set_id` from the set tree of the shards `i, i+1, ...` (`k` shards are
left). -/
def pack_delete_sets : Nat → Nat → Nat → f2fs_sb_info → f2fs_sb_info
  | 0, _, _, sbi => sbi
  | k + 1, i, set_id, sbi =>
    pack_delete_sets k (i + 1) set_id { sbi with nat := { sbi.nat with
      nat_set_root := arr_set sbi.nat.nat_set_root i
        (radix_tree_delete (sbi.nat.nat_set_root i) set_id) } }

/-- Source `__flush_nat_entry_set_per_core`: write the dirty entries of the
member sets of one pack to the journal if it has room for `entry_cnt`
entries, else to the next copy of the NAT block, then drop the set number
from the tree of every shard. -/
def __flush_nat_entry_set_per_core (sbi : f2fs_sb_info) (sets : per_core_sets_pack) :
    Except Fault f2fs_sb_info := do
  let start_nid := (sets.set_id * sbi.cfg.NAT_ENTRY_PER_BLOCK) % 4294967296
  let to_journal := __has_cursum_space sbi (u32_to_int sets.entry_cnt)
  let r ← if to_journal then .ok (sbi, ((0 : Nat), false)) else get_next_nat_page sbi start_nid
  let sbi ← __flush_pack_sets start_nid to_journal r.2 sets.set r.1
  .ok (pack_delete_sets sbi.cfg.nat_tree_cnt 0 sets.set_id sbi)

/-- Source `flush_nat_entries_per_core`, the `while` loop that gang-looks-up
the sets of shard `i` from `set_idx` on and hands each to
`__adjust_nat_entry_set_per_core`; the first argument bounds the number of
lookups. -/
def flush_collect_shard_per_core : Nat → f2fs_sb_info → Nat → Nat → List per_core_sets_pack →
    Except Fault (List per_core_sets_pack)
  | 0, _, _, _, _ => .error Fault.fuel
  | fuel + 1, sbi, i, set_idx, sets =>
    let setvec := radix_tree_gang_lookup (sbi.nat.nat_set_root i) set_idx sbi.cfg.SETVEC_SIZE
    match setvec.getLast? with
    | none => .ok sets
    | some last => do
      let set_idx := (last.2.set + 1) % 4294967296
      let sets ← setvec.foldlM
        (fun acc p => __adjust_nat_entry_set_per_core sbi (i, p.1) acc (MAX_NAT_JENTRIES sbi)
          sbi.cfg.nat_tree_cnt) sets
      flush_collect_shard_per_core fuel sbi i set_idx sets

/-- Source `flush_nat_entries_per_core`, the `for` loop over the shards
`i, i+1, ...` (`k` shards are left) that builds the list of packs. -/
def flush_collect_per_core : Nat → f2fs_sb_info → Nat → List per_core_sets_pack →
    Except Fault (List per_core_sets_pack)
  | 0, _, _, sets => .ok sets
  | k + 1, sbi, i, sets => do
    let sets ← flush_collect_shard_per_core ((sbi.nat.nat_set_root i).length + 1) sbi i 0 sets
    flush_collect_per_core k sbi (i + 1) sets

/-- Source `flush_nat_entries_per_core`, the loop over the list of packs:
flush every pack in the order of the list. -/
def flush_packs : List per_core_sets_pack → f2fs_sb_info → Except Fault f2fs_sb_info
  | [], sbi => .ok sbi
  | set :: t, sbi => do
    let sbi ← __flush_nat_entry_set_per_core sbi set
    flush_packs t sbi

/-- Source `flush_nat_entries_per_core`, the last loop: no shard `i, i+1, ...`
(`k` shards are left) counts a dirty entry any more. -/
def flush_check_clean : Nat → Nat → f2fs_sb_info → Except Fault Unit
  | 0, _, _ => .ok ()
  | k + 1, i, sbi => do
    f2fs_bug_on (sbi.nat.percore_dirty_nat_cnt i != 0)
    flush_check_clean k (i + 1) sbi

/-- Source `flush_nat_entries_per_core`. -/
def flush_nat_entries_per_core (sbi : f2fs_sb_info) : Except Fault f2fs_sb_info := do
  let count1 := sum_up sbi.nat.percore_dirty_nat_cnt sbi.cfg.nat_tree_cnt
  let sbi := { sbi with nat := { sbi.nat with dirty_nat_cnt := count1 } }
  if sbi.nat.dirty_nat_cnt = 0 then .ok sbi else
  -- if there are no enough space in journal to store dirty nat entries,
  -- remove all entries from journal and merge them into nat entry set.
  let sbi ← if !__has_cursum_space sbi (u32_to_int sbi.nat.dirty_nat_cnt)
    then remove_nats_in_journal sbi else .ok sbi
  let sets ← flush_collect_per_core sbi.cfg.nat_tree_cnt sbi 0 []
  let sbi ← flush_packs sets sbi
  flush_check_clean sbi.cfg.nat_tree_cnt 0 sbi
  .ok sbi

/-! ## The reader-preferring semaphore (`rps.c`) -/

/-- The place of a thread in the functions of `rps.c`: the atomic action it
takes next. A place inside `go_highway` or `clear_highway` carries the CPU
concerned, a place inside `clear_highway` the local `sum` as well. -/
inductive rps_pc where
  /-- Outside the functions, not a reader and not a writer. -/
  | idle
  /-- In `go_highway(rps, +1)`, after reading `writers_cnt == 0`, before
  `this_cpu_add` on the CPU. -/
  | dr_add (cpu : Nat)
  /-- Before `down_read(&rps->rw_sem)` of `go_lowway`, or, with the flag,
  before `down_read_trylock` of `rps_down_read_try_lock`. -/
  | dr_sem (try_lock : Bool)
  /-- Holding `rw_sem` for read, before `atomic_inc(&rps->lowway_cnt)`. -/
  | dr_inc
  /-- Before `up_read(&rps->rw_sem)`. -/
  | dr_rel
  /-- Returned from `rps_down_read` (or from `rps_down_read_try_lock` with 1),
  `rps_up_read` not yet called. -/
  | reading
  /-- In `go_highway(rps, -1)`, after reading `writers_cnt == 0`, before
  `this_cpu_add` on the CPU. -/
  | ur_add (cpu : Nat)
  /-- Before `atomic_dec_and_test(&rps->lowway_cnt)` of `rps_up_read`. -/
  | ur_dec
  /-- In `rps_down_write`, after `atomic_inc(&rps->writers_cnt)`, in
  `synchronize_sched_expedited()`. -/
  | w_sync
  /-- Before `down_write(&rps->rw_sem)`. -/
  | w_lock
  /-- In `clear_highway`, before `sum += per_cpu(*rps->highway_cnt, cpu)`. -/
  | w_read (cpu : Nat) (sum : Int)
  /-- In `clear_highway`, before `per_cpu(*rps->highway_cnt, cpu) = 0`. -/
  | w_zero (cpu : Nat) (sum : Int)
  /-- Before `atomic_add(sum, &rps->lowway_cnt)`. -/
  | w_add (sum : Int)
  /-- In `wait_event(rps->writers_wait_q, !atomic_read(&rps->lowway_cnt))`. -/
  | w_wait
  /-- Returned from `rps_down_write`, `rps_up_write` not yet called. -/
  | writing
  /-- In `rps_up_write`, after `up_write(&rps->rw_sem)`, in
  `synchronize_sched_expedited()`. -/
  | uw_sync
  /-- Before `atomic_dec(&rps->writers_cnt)`. -/
  | uw_dec
deriving DecidableEq, Repr

/-- The function of `rps.c` a thread calls when it is outside the functions. -/
inductive rps_call where
  | down_read
  | down_read_try_lock
  | up_read
  | down_write
  | up_write
deriving DecidableEq, Repr

/-- Source `struct rps` with the threads that use it. `highway_cnt` is the
per-CPU `int`, `lowway_cnt` and `writers_cnt` the two `atomic_t`.
Modelled from the spec: `rw_sem` is the kernel's `struct rw_semaphore` (not in
src), held by one writer (`rw_sem_writer`) or by a number of readers
(`rw_sem_readers`); the wait queue has no state of its own, a waiter goes on
when its condition holds. `pc` is the place of every thread, `nr_cpus` the
number of possible CPUs and `nr_threads` the number of threads. -/
structure rps where
  highway_cnt : Nat → Int
  lowway_cnt : Int
  writers_cnt : Int
  rw_sem_writer : Bool
  rw_sem_readers : Nat
  pc : Nat → rps_pc
  nr_cpus : Nat
  nr_threads : Nat

/-- Source `__rps_init_rwsem`: all counters zero, the semaphore free; every
thread is outside the functions. -/
def __rps_init_rwsem (nr_cpus nr_threads : Nat) : rps :=
  { highway_cnt := fun _ => 0, lowway_cnt := 0, writers_cnt := 0, rw_sem_writer := false,
    rw_sem_readers := 0, pc := fun _ => rps_pc.idle, nr_cpus := nr_cpus,
    nr_threads := nr_threads }

/-- A thread between its read of `writers_cnt == 0` and its `this_cpu_add`:
inside a section with preemption disabled that changes a highway counter. -/
def rps_pc.in_highway : rps_pc → Bool
  | .dr_add _ => true
  | .ur_add _ => true
  | _ => false

/-- Modelled from the spec: `synchronize_sched_expedited()` of the kernel
(not in src) returns once every section with preemption disabled that was
running when it was called has ended. From the caller's
`atomic_inc(&rps->writers_cnt)` to its `atomic_dec` a section that starts
reads `writers_cnt != 0` and changes no highway counter, so the call returns
when no thread is between its read of `writers_cnt == 0` and its
`this_cpu_add`. -/
def synchronize_sched_expedited (s : rps) : Bool :=
  (List.range s.nr_threads).all (fun u => !(s.pc u).in_highway)

/-- The state with thread `t` moved to the place `p`. -/
def rps_goto (s : rps) (t : Nat) (p : rps_pc) : rps := { s with pc := arr_set s.pc t p }

/-- Source `go_highway`, the read of `writers_cnt` with preemption disabled on
the CPU `cpu`: the thread goes on to `this_cpu_add` (place `fast`) or gives up
the highway (place `slow`). -/
def go_highway (s : rps) (t cpu : Nat) (fast slow : rps_pc) : Option rps :=
  if cpu < s.nr_cpus then
    if s.writers_cnt = 0 then some (rps_goto s t fast) else some (rps_goto s t slow)
  else none

/-- The next atomic action of thread `t`, which stands at the place `p`;
`cpu` is the CPU it runs on and `call` the function it calls when it is
outside the functions. The result is `none` when the action is not possible:
the thread is blocked, or the call does not fit the place. -/
def rps_act (s : rps) (t cpu : Nat) (call : rps_call) : rps_pc → Option rps
  | .idle =>
    match call with
    -- rps_down_read: go_highway(rps, +1), else go_lowway
    | .down_read => go_highway s t cpu (.dr_add cpu) (.dr_sem false)
    -- rps_down_read_try_lock: go_highway(rps, +1), else down_read_trylock
    | .down_read_try_lock => go_highway s t cpu (.dr_add cpu) (.dr_sem true)
    -- rps_down_write: atomic_inc(&rps->writers_cnt)
    | .down_write => some (rps_goto { s with writers_cnt := to_int (s.writers_cnt + 1) } t .w_sync)
    | _ => none
  | .reading =>
    match call with
    -- rps_up_read: go_highway(rps, -1), else atomic_dec_and_test
    | .up_read => go_highway s t cpu (.ur_add cpu) .ur_dec
    | _ => none
  | .writing =>
    match call with
    -- rps_up_write: up_write(&rps->rw_sem)
    | .up_write => some (rps_goto { s with rw_sem_writer := false } t .uw_sync)
    | _ => none
  -- this_cpu_add(*rps->highway_cnt, +1); return
  | .dr_add c =>
    some (rps_goto { s with highway_cnt := arr_set s.highway_cnt c (to_int (s.highway_cnt c + 1)) }
      t .reading)
  -- down_read(&rps->rw_sem) blocks while a writer holds the semaphore;
  -- down_read_trylock fails then and rps_down_read_try_lock returns 0
  | .dr_sem try_lock =>
    if s.rw_sem_writer then (if try_lock then some (rps_goto s t .idle) else none)
    else some (rps_goto { s with rw_sem_readers := s.rw_sem_readers + 1 } t .dr_inc)
  -- atomic_inc(&rps->lowway_cnt)
  | .dr_inc => some (rps_goto { s with lowway_cnt := to_int (s.lowway_cnt + 1) } t .dr_rel)
  -- up_read(&rps->rw_sem); return
  | .dr_rel => some (rps_goto { s with rw_sem_readers := s.rw_sem_readers - 1 } t .reading)
  -- this_cpu_add(*rps->highway_cnt, -1); return
  | .ur_add c =>
    some (rps_goto { s with highway_cnt := arr_set s.highway_cnt c (to_int (s.highway_cnt c - 1)) }
      t .idle)
  -- atomic_dec_and_test(&rps->lowway_cnt), wake_up_all when it reaches zero
  | .ur_dec => some (rps_goto { s with lowway_cnt := to_int (s.lowway_cnt - 1) } t .idle)
  -- synchronize_sched_expedited()
  | .w_sync => if synchronize_sched_expedited s then some (rps_goto s t .w_lock) else none
  -- down_write(&rps->rw_sem) blocks while the semaphore is held; then
  -- clear_highway starts with sum = 0 at the first possible CPU
  | .w_lock =>
    if s.rw_sem_writer = false ∧ s.rw_sem_readers = 0 then
      some (rps_goto { s with rw_sem_writer := true } t
        (if 0 < s.nr_cpus then .w_read 0 0 else .w_add 0))
    else none
  -- sum += per_cpu(*rps->highway_cnt, cpu)
  | .w_read c sum => some (rps_goto s t (.w_zero c (to_int (sum + s.highway_cnt c))))
  -- per_cpu(*rps->highway_cnt, cpu) = 0; next CPU, or return sum
  | .w_zero c sum =>
    some (rps_goto { s with highway_cnt := arr_set s.highway_cnt c 0 } t
      (if c + 1 < s.nr_cpus then .w_read (c + 1) sum else .w_add sum))
  -- atomic_add(sum, &rps->lowway_cnt)
  | .w_add sum => some (rps_goto { s with lowway_cnt := to_int (s.lowway_cnt + sum) } t .w_wait)
  -- wait_event(rps->writers_wait_q, !atomic_read(&rps->lowway_cnt)); return
  | .w_wait => if s.lowway_cnt = 0 then some (rps_goto s t .writing) else none
  -- synchronize_sched_expedited()
  | .uw_sync => if synchronize_sched_expedited s then some (rps_goto s t .uw_dec) else none
  -- atomic_dec(&rps->writers_cnt); return
  | .uw_dec => some (rps_goto { s with writers_cnt := to_int (s.writers_cnt - 1) } t .idle)

/-- One step of the step relation: thread `t`, running on `cpu`, takes its
next atomic action. -/
def rps_step (s : rps) (t cpu : Nat) (call : rps_call) : Option rps :=
  if t < s.nr_threads then rps_act s t cpu call (s.pc t) else none

/-- A run: the steps of a schedule, one after the other. -/
def rps_run : List (Nat × Nat × rps_call) → rps → Option rps
  | [], s => some s
  | l :: ls, s =>
    match rps_step s l.1 l.2.1 l.2.2 with
    | some s1 => rps_run ls s1
    | none => none

/-! ## Mount-time build of the free-NID pool and node creation (`node.c`) -/

/-- Source `build_all_free_nids`, the read-ahead loop
`for (blkno = start; blkno < end; blkno++)`: it leaves at the first block that
`is_valid_blkaddr` refuses.  The result is `blkno` after the loop; `cnt`
bounds the iterations.  `is_valid_blkaddr` of `checkpoint.c` (not in src) is
a parameter. -/
def build_all_readahead (is_valid_blkaddr : Nat → Bool) : Nat → Nat → Nat → Nat
  | 0, blkno, _ => blkno
  | cnt + 1, blkno, end_blk =>
    if blkno < end_blk then
      if !is_valid_blkaddr blkno then blkno
      else build_all_readahead is_valid_blkaddr cnt (blkno + 1) end_blk
    else blkno

/-- Source `build_all_free_nids`, the `while (1)` loop: scan the current NAT
page of `nid`, go to the first NID of the next block, back to
`NAT_ENTRY_PER_BLOCK` (`FILE_CELL`) at `max_nid`, and leave once the pass
counter `i` has reached `blkno - start`; `cnt` is the number of passes that
follow this one. -/
def build_all_scan : Nat → f2fs_sb_info → Nat → Except Fault f2fs_sb_info
  | 0, sbi, nid => scan_nat_page sbi (get_current_nat_page sbi nid) nid
  | cnt + 1, sbi, nid => do
    let sbi ← scan_nat_page sbi (get_current_nat_page sbi nid) nid
    let nid := (nid + (sbi.cfg.NAT_ENTRY_PER_BLOCK - nid % sbi.cfg.NAT_ENTRY_PER_BLOCK))
      % 4294967296
    let nid := if sbi.cfg.max_nid ≤ nid then sbi.cfg.NAT_ENTRY_PER_BLOCK else nid
    build_all_scan cnt sbi nid

/-- Source `build_all_free_nids` (`PER_CORE_NID_LIST`), which
`build_node_manager` calls once `init_node_manager` has set up the empty
pool: scan the NAT pages from the block of `next_scan_nid` on, then the
journal. -/
def build_all_free_nids (is_valid_blkaddr : Nat → Bool) (sbi : f2fs_sb_info) :
    Except Fault f2fs_sb_info := do
  let start := NAT_BLOCK_OFFSET sbi sbi.free.next_scan_nid
  let nid := sbi.free.next_scan_nid
  let end_blk := NAT_BLOCK_OFFSET sbi sbi.cfg.max_nid
  let blkno := build_all_readahead is_valid_blkaddr (end_blk - start) start end_blk
  let sbi ← build_all_scan (blkno - start) sbi nid
  build_free_nids_journal (nats_in_cursum sbi) sbi 0

/-- Modelled from the spec: `inc_valid_node_count` of `f2fs.h` (not in src)
reserves the capacity of one node, the count of valid nodes grows by one.
The accounting of blocks belongs to the block allocator, a collaborator; the
call is taken to find room. -/
def inc_valid_node_count (sbi : f2fs_sb_info) : f2fs_sb_info :=
  { sbi with total_valid_node_count := (sbi.total_valid_node_count + 1) % 4294967296 }

/-- Source `new_node_page`, its calls to the node manager (the page of the
node belongs to the page cache, a collaborator): count the node, read its
node information, which has to hold `NULL_ADDR`, and reserve the node for the
inode `ino` with `NEW_ADDR`. -/
def new_node_page (sbi : f2fs_sb_info) (nid ino : Nat) : Except Fault f2fs_sb_info := do
  let sbi := inc_valid_node_count sbi
  let r ← get_node_info sbi nid
  f2fs_bug_on (r.2.blk_addr != NULL_ADDR)
  set_node_addr r.1 { r.2 with ino := ino } NEW_ADDR false

/-- Source `get_dnode_of_data`, the branch `!nids[i] && mode == ALLOC_NODE`
as the node manager sees it: `alloc_nid` hands out a NID (`fuel` bounds its
passes through `retry`; on false the caller fails with `-ENOSPC`),
`new_node_page` reserves the node for the inode `ino`, and `alloc_nid_done`
takes the NID out of the pool.  The result carries the NID. -/
def get_dnode_of_data_alloc (fuel : Nat) (sbi : f2fs_sb_info) (ino : Nat) :
    Except Fault (f2fs_sb_info × Option Nat) := do
  let r ← alloc_nid fuel sbi
  match r.2 with
  | none => .ok r
  | some nid =>
    let s ← new_node_page r.1 nid ino
    let s ← alloc_nid_done s nid
    .ok (s, some nid)

/-! ## Vocabulary of the properties -/

/-- A block address that is neither of the two sentinels. -/
def addr_valid (a : Nat) : Prop := a ≠ NULL_ADDR ∧ a ≠ NEW_ADDR

instance (a : Nat) : Decidable (addr_valid a) := by
  unfold addr_valid; exact inferInstance

/-- The five address transitions the transition matrix lists as allowed. -/
def listed_transition (old new : Nat) : Prop :=
  (old = NULL_ADDR ∧ new = NEW_ADDR) ∨ (old = NULL_ADDR ∧ addr_valid new) ∨
  (old = NEW_ADDR ∧ addr_valid new) ∨ (addr_valid old ∧ addr_valid new) ∨
  (addr_valid old ∧ new = NULL_ADDR)

/-- The transitions `set_node_addr` lets through on a cached entry: the five
listed ones and `NEW_ADDR → NULL_ADDR`. -/
def passing_transition (old new : Nat) : Prop :=
  listed_transition old new ∨ (old = NEW_ADDR ∧ new = NULL_ADDR)

/-- The toy layout of the end-to-end scenarios: eight NAT entries per block,
two NAT shards, two free-NID shards, 32 available NIDs, everything empty. -/
def toy : f2fs_sb_info :=
  { cfg :=
      { NAT_ENTRY_PER_BLOCK := 8, NAT_JOURNAL_ENTRIES := 8, SETVEC_SIZE := 32,
        sizeof_free_nid := 24, sizeof_nat_entry := 40, PAGE_CACHE_SHIFT := 12,
        ram_thresh := 10, nat_tree_cnt := 2, nid_list_count := 2, max_nid := 35,
        available_nids := 32, preload_enomem := false },
    nat :=
      { nat_root := fun _ => [], nat_set_root := fun _ => [], nat_entries := fun _ => [],
        percore_nat_cnt := fun _ => 0, percore_dirty_nat_cnt := fun _ => 0, nat_cnt := 0,
        dirty_nat_cnt := 0 },
    free :=
      { free_nid_root := fun _ => [], free_nid_list := fun _ => [], percore_fcnt := fun _ => 0,
        fcnt := 0, next_allocator := 0, build_lock := false, next_scan_nid := 3 },
    disk :=
      { nat_bitmap := fun _ => false,
        nat_page := fun _ _ _ => { version := 0, ino := 0, block_addr := 0 },
        nat_page_dirty := fun _ _ => false, n_nats := 0,
        nat_j := fun _ => { nid := 0, ne := { version := 0, ino := 0, block_addr := 0 } } },
    avail_ram := 1000000,
    total_valid_node_count := 0 }

/-- The toy layout with one cache entry for NID 3, installed by
`cache_nat_entry` from an on-disk record with block address `a`. -/
def toy_cached (a : Nat) : f2fs_sb_info :=
  match cache_nat_entry toy 3 { version := 0, ino := 3, block_addr := a } with
  | .ok s => s
  | .error _ => toy

/-! ## Definitions of the proof development -/

/-- The state `grab_nat_entry` returns when `nid` has no entry yet. -/
def grab_result (sbi : f2fs_sb_info) (nid : Nat) : f2fs_sb_info :=
  { sbi with nat := { sbi.nat with
    nat_root := arr_set sbi.nat.nat_root (TREE_IDX nid sbi)
      (radix_tree_put (sbi.nat.nat_root (TREE_IDX nid sbi)) nid
        { ni := { nid := nid, ino := 0, blk_addr := 0, version := 0 },
          flag := { IS_CHECKPOINTED := true, HAS_FSYNCED_INODE := false,
                    HAS_LAST_FSYNC := true, IS_DIRTY := false } }),
    nat_entries := arr_set sbi.nat.nat_entries (TREE_IDX nid sbi)
      (sbi.nat.nat_entries (TREE_IDX nid sbi) ++ [nid]),
    percore_nat_cnt := arr_set sbi.nat.percore_nat_cnt (TREE_IDX nid sbi)
      (u32_inc (sbi.nat.percore_nat_cnt (TREE_IDX nid sbi))) } }

/-- The set tree of shard `tree_idx` once it is sure to hold the set `set`. -/
def with_set (sbi : f2fs_sb_info) (tree_idx set : Nat) : f2fs_sb_info :=
  match radix_tree_lookup (sbi.nat.nat_set_root tree_idx) set with
  | some _ => sbi
  | none =>
    { sbi with nat := { sbi.nat with
      nat_set_root := arr_set sbi.nat.nat_set_root tree_idx
        (radix_tree_put (sbi.nat.nat_set_root tree_idx) set
          { set := set, entry_list := [], entry_cnt := 0 }) } }

/-- The state `__set_nat_cache_dirty` returns for an entry `ne` with content
`v` that is not dirty yet. -/
def set_dirty_result (sbi : f2fs_sb_info) (ne : Nat) (v : nat_entry) : f2fs_sb_info :=
  let set := NAT_BLOCK_OFFSET sbi v.ni.nid
  let tree_idx := TREE_IDX v.ni.nid sbi
  let sbi := with_set sbi tree_idx set
  let sbi := list_del_nat_entry sbi ne
  let sbi := set_modify sbi tree_idx set (fun h => { h with entry_list := h.entry_list ++ [ne] })
  let sbi := { sbi with nat := { sbi.nat with
    percore_dirty_nat_cnt :=
      arr_set sbi.nat.percore_dirty_nat_cnt tree_idx (u32_inc (sbi.nat.percore_dirty_nat_cnt tree_idx)) } }
  let sbi := set_modify sbi tree_idx set (fun h => { h with entry_cnt := u32_inc h.entry_cnt })
  nat_modify sbi ne (fun x => { x with flag := { x.flag with IS_DIRTY := true } })

/-- The state `__clear_nat_cache_dirty` returns for an entry `ne` with content
`v` whose set exists. -/
def clear_dirty_result (sbi : f2fs_sb_info) (ne : Nat) (v : nat_entry) : f2fs_sb_info :=
  let set := NAT_BLOCK_OFFSET sbi v.ni.nid
  let tree_idx := TREE_IDX v.ni.nid sbi
  let sbi := list_del_nat_entry sbi ne
  let sbi := { sbi with nat := { sbi.nat with
    nat_entries := arr_set sbi.nat.nat_entries tree_idx (sbi.nat.nat_entries tree_idx ++ [ne]) } }
  let sbi := nat_modify sbi ne (fun x => { x with flag := { x.flag with IS_DIRTY := false } })
  let sbi := set_modify sbi tree_idx set (fun h => { h with entry_cnt := u32_dec h.entry_cnt })
  { sbi with nat := { sbi.nat with
    percore_dirty_nat_cnt :=
      arr_set sbi.nat.percore_dirty_nat_cnt tree_idx (u32_dec (sbi.nat.percore_dirty_nat_cnt tree_idx)) } }

/-- The content of the entry of `ni.nid` when `set_node_addr` reaches its
sanity checks: a fresh entry holding `ni`, or the cached entry,
reinitialised with `ni` when the new address is `NEW_ADDR`. -/
def sna_entry (sbi : f2fs_sb_info) (ni : node_info) (new_blkaddr : Nat) : nat_entry :=
  match __lookup_nat_cache sbi ni.nid with
  | none =>
    { ni := ni, flag := { IS_CHECKPOINTED := true, HAS_FSYNCED_INODE := false,
                          HAS_LAST_FSYNC := true, IS_DIRTY := false } }
  | some v => if new_blkaddr = NEW_ADDR then { v with ni := ni } else v

/-- The state in which `set_node_addr` reaches its sanity checks. -/
def sna_stage1 (sbi : f2fs_sb_info) (ni : node_info) (new_blkaddr : Nat) : f2fs_sb_info :=
  match __lookup_nat_cache sbi ni.nid with
  | none => nat_modify (grab_result sbi ni.nid) ni.nid (fun x => { x with ni := ni })
  | some _ =>
    if new_blkaddr = NEW_ADDR then nat_modify sbi ni.nid (fun x => { x with ni := ni }) else sbi

/-- Some `f2fs_bug_on` of `set_node_addr` trips. -/
def sna_trip (sbi : f2fs_sb_info) (ni : node_info) (new_blkaddr : Nat) : Bool :=
  (match __lookup_nat_cache sbi ni.nid with
   | none => ni.blk_addr == NEW_ADDR
   | some _ => new_blkaddr == NEW_ADDR && ni.blk_addr != NULL_ADDR) ||
  (sna_entry sbi ni new_blkaddr).ni.blk_addr != ni.blk_addr ||
  ((sna_entry sbi ni new_blkaddr).ni.blk_addr == NULL_ADDR && new_blkaddr == NULL_ADDR) ||
  ((sna_entry sbi ni new_blkaddr).ni.blk_addr == NEW_ADDR && new_blkaddr == NEW_ADDR) ||
  ((sna_entry sbi ni new_blkaddr).ni.blk_addr != NEW_ADDR &&
    (sna_entry sbi ni new_blkaddr).ni.blk_addr != NULL_ADDR && new_blkaddr == NEW_ADDR)

/-- The update `set_node_addr` applies to the content of the entry between
the sanity checks and `__set_nat_cache_dirty`; `old_blkaddr` is the block
address the entry had at the checks. -/
def sna_update (new_blkaddr old_blkaddr : Nat) (x : nat_entry) : nat_entry :=
  { ni := { x.ni with
      version := if old_blkaddr != NEW_ADDR && new_blkaddr == NULL_ADDR
        then inc_node_version x.ni.version else x.ni.version,
      blk_addr := new_blkaddr },
    flag := { x.flag with
      IS_CHECKPOINTED := if new_blkaddr == NEW_ADDR || new_blkaddr == NULL_ADDR
        then false else x.flag.IS_CHECKPOINTED } }

/-- The fsync-mark part of `set_node_addr`, after `__set_nat_cache_dirty`. -/
def sna_fsync (sbi : f2fs_sb_info) (ni : node_info) (fsync_done : Bool) : f2fs_sb_info :=
  let e2 : Option Nat :=
    if ni.nid != ni.ino then (__lookup_nat_cache sbi ni.ino).map (fun _ => ni.ino) else some ni.nid
  match e2 with
  | none => sbi
  | some e2 =>
    let sbi := if fsync_done && ni.nid == ni.ino
      then nat_modify sbi e2 (fun x => { x with flag := { x.flag with HAS_FSYNCED_INODE := true } })
      else sbi
    nat_modify sbi e2 (fun x => { x with flag := { x.flag with HAS_LAST_FSYNC := fsync_done } })

/-- The toy layout after `set_node_addr` has reserved NID 3 as an inode:
its cache entry holds `NEW_ADDR`. -/
def toy_new : f2fs_sb_info :=
  match set_node_addr toy { nid := 3, ino := 3, blk_addr := NULL_ADDR, version := 0 } NEW_ADDR false with
  | .ok s => s
  | .error _ => toy

/-- Only the free-NID pool differs between the two states. -/
def free_only (s s' : f2fs_sb_info) : Prop :=
  s'.cfg = s.cfg ∧ s'.nat = s.nat ∧ s'.disk = s.disk ∧ s'.avail_ram = s.avail_ram ∧
  s'.total_valid_node_count = s.total_valid_node_count

/-- The set tree with one entry reference removed from every entry list, as
`list_del` leaves it. -/
def strip (n : Nat) (ST : radix_tree_root nat_entry_set) : radix_tree_root nat_entry_set :=
  ST.map (fun p => (p.1, { p.2 with entry_list := p.2.entry_list.filter (fun x => x != n) }))

/-- The data-model invariants of one NAT shard `s`, over the tree of entries
`T`, the tree of dirty sets `ST`, the clean list `L` and the two counters `c`
(entries) and `d` (dirty entries); `N` is `NAT_ENTRY_PER_BLOCK`, `S` the shard
count and `M` is `max_nid`. -/
structure shard_inv (N S M s : Nat) (T : radix_tree_root nat_entry)
    (ST : radix_tree_root nat_entry_set) (L : List Nat) (c d : Nat) : Prop where
  /-- The keys of the entry tree increase strictly: one entry per NID. -/
  root_sorted : (T.map Prod.fst).Pairwise (· < ·)
  /-- An entry is stored under its own NID, in the shard of that NID. -/
  root_key : ∀ p ∈ T, p.2.ni.nid = p.1 ∧ p.1 % S = s ∧ p.1 < M
  /-- The keys of the set tree increase strictly. -/
  set_sorted : (ST.map Prod.fst).Pairwise (· < ·)
  /-- A set is stored under its set number, counts the entries on its list,
  and lists only dirty entries of its NAT block. -/
  set_ok : ∀ q ∈ ST, q.2.set = q.1 ∧ q.2.entry_cnt = q.2.entry_list.length ∧
    q.2.entry_list.Nodup ∧ q.1 < M ∧ s < S ∧
    ∀ n ∈ q.2.entry_list, n / N = q.1 ∧
      ∃ e, radix_tree_lookup T n = some e ∧ e.flag.IS_DIRTY = true
  /-- The clean list has no repetition. -/
  lru_nodup : L.Nodup
  /-- The clean list holds clean entries only. -/
  lru_ok : ∀ n ∈ L, ∃ e, radix_tree_lookup T n = some e ∧ e.flag.IS_DIRTY = false
  /-- A dirty entry is on the list of the set of its NAT block, a clean
  entry is on the clean list. -/
  linked : ∀ p ∈ T,
    (p.2.flag.IS_DIRTY = true →
      ∃ h, radix_tree_lookup ST (p.1 / N) = some h ∧ p.1 ∈ h.entry_list) ∧
    (p.2.flag.IS_DIRTY = false → p.1 ∈ L)
  /-- The entry counter counts the entries. -/
  cnt_eq : c = T.length
  /-- The dirty counter is the sum of the set counters. -/
  dirty_eq : d = (ST.map (fun q => q.2.entry_cnt)).sum
  /-- Dirty and clean entries together are all the entries. -/
  total : d + L.length = T.length

/-- The invariants of the NAT cache: a shard count, a block size, a NID
range that fits 32 bits, and `shard_inv` in every shard. -/
def nat_inv (sbi : f2fs_sb_info) : Prop :=
  0 < sbi.cfg.nat_tree_cnt ∧ 0 < sbi.cfg.NAT_ENTRY_PER_BLOCK ∧ sbi.cfg.max_nid < 4294967296 ∧
  ∀ s, shard_inv sbi.cfg.NAT_ENTRY_PER_BLOCK sbi.cfg.nat_tree_cnt sbi.cfg.max_nid s
    (sbi.nat.nat_root s) (sbi.nat.nat_set_root s) (sbi.nat.nat_entries s)
    (sbi.nat.percore_nat_cnt s) (sbi.nat.percore_dirty_nat_cnt s)

/-- The set tree once it is sure to hold the set `set`: an empty set is
inserted if there was none. -/
def with_set_tree (ST : radix_tree_root nat_entry_set) (set : Nat) :
    radix_tree_root nat_entry_set :=
  match radix_tree_lookup ST set with
  | some _ => ST
  | none => radix_tree_put ST set { set := set, entry_list := [], entry_cnt := 0 }

/-- The write `set_nat_flag(ne, IS_DIRTY, true)`. -/
def mark_dirty (x : nat_entry) : nat_entry := { x with flag := { x.flag with IS_DIRTY := true } }

/-- The write `set_nat_flag(ne, IS_DIRTY, false)`. -/
def mark_clean (x : nat_entry) : nat_entry := { x with flag := { x.flag with IS_DIRTY := false } }

/-- A set after `list_move_tail(&ne->list, &head->entry_list)` and
`head->entry_cnt++`. -/
def set_push (n : Nat) (h : nat_entry_set) : nat_entry_set :=
  { h with entry_list := h.entry_list ++ [n], entry_cnt := u32_inc h.entry_cnt }

/-- A set after one of its entries moved to the clean list and
`head->entry_cnt--`. -/
def set_pop (n : Nat) (h : nat_entry_set) : nat_entry_set :=
  { h with entry_list := h.entry_list.filter (fun x => x != n), entry_cnt := u32_dec h.entry_cnt }

/-- The state with the five per-shard components of the NAT cache replaced in
shard `t`. -/
def shard_update (sbi : f2fs_sb_info) (t : Nat) (T : radix_tree_root nat_entry)
    (ST : radix_tree_root nat_entry_set) (L : List Nat) (c d : Nat) : f2fs_sb_info :=
  { sbi with nat := { sbi.nat with
    nat_root := arr_set sbi.nat.nat_root t T,
    nat_set_root := arr_set sbi.nat.nat_set_root t ST,
    nat_entries := arr_set sbi.nat.nat_entries t L,
    percore_nat_cnt := arr_set sbi.nat.percore_nat_cnt t c,
    percore_dirty_nat_cnt := arr_set sbi.nat.percore_dirty_nat_cnt t d } }

/-- The state `__del_from_nat_cache` returns for an entry `e` with content `v`. -/
def del_result (sbi : f2fs_sb_info) (e : Nat) (v : nat_entry) : f2fs_sb_info :=
  let sbi := list_del_nat_entry sbi e
  let nid := v.ni.nid
  let tree_idx := TREE_IDX nid sbi
  { sbi with nat := { sbi.nat with
    nat_root := arr_set sbi.nat.nat_root tree_idx (radix_tree_delete (sbi.nat.nat_root tree_idx) nid),
    percore_nat_cnt := arr_set sbi.nat.percore_nat_cnt tree_idx
      (u32_dec (sbi.nat.percore_nat_cnt tree_idx)) } }

/-- The NAT journal records NIDs below `max_nid` only. -/
def journal_ok (sbi : f2fs_sb_info) : Prop :=
  ∀ i, i < sbi.disk.n_nats → (sbi.disk.nat_j i).nid < sbi.cfg.max_nid

/-- Only the NAT cache differs between the two states. -/
def nat_only (s s' : f2fs_sb_info) : Prop :=
  s'.cfg = s.cfg ∧ s'.free = s.free ∧ s'.disk = s.disk ∧ s'.avail_ram = s.avail_ram ∧
  s'.total_valid_node_count = s.total_valid_node_count

/-- The part of the loop body of `__flush_nat_entry_set` that writes the
record of the entry `v` to the journal or to the NAT page. -/
def flush_disk (start_nid : Nat) (to_journal : Bool) (page : Nat × Bool) (sbi : f2fs_sb_info)
    (v : nat_entry) : Except Fault f2fs_sb_info :=
  if to_journal then do
    let r := lookup_journal_in_cursum sbi v.ni.nid true
    f2fs_bug_on (decide (r.2 < 0))
    .ok { r.1 with disk := { r.1.disk with
      nat_j := arr_set r.1.disk.nat_j r.2.toNat
        { nid := v.ni.nid, ne := raw_nat_from_node_info v.ni } } }
  else
    .ok { sbi with disk := { sbi.disk with
      nat_page := fun b c => if b = page.1 ∧ c = page.2
        then arr_set (sbi.disk.nat_page b c) ((v.ni.nid + 4294967296 - start_nid) % 4294967296)
          (raw_nat_from_node_info v.ni)
        else sbi.disk.nat_page b c } }

/-- The part of the loop body of `__flush_nat_entry_set` that resets the flags
of the entry, moves it to the clean list and frees the NID of a record with
`NULL_ADDR`. -/
def flush_cache (sbi : f2fs_sb_info) (ne : Nat) (v : nat_entry) : Except Fault f2fs_sb_info := do
  let sbi := nat_modify sbi ne (fun x => { x with flag := nat_reset_flag x.flag })
  let sbi ← __clear_nat_cache_dirty sbi ne
  .ok (if v.ni.blk_addr = NULL_ADDR then (add_free_nid sbi v.ni.nid false).1 else sbi)

/-- Only the disk differs between the two states. -/
def disk_only (s s' : f2fs_sb_info) : Prop :=
  s'.cfg = s.cfg ∧ s'.nat = s.nat ∧ s'.free = s.free ∧ s'.avail_ram = s.avail_ram ∧
  s'.total_valid_node_count = s.total_valid_node_count

/-- The state the flush of the dirty entry `ne` with content `v` leaves, on
the side of the cache and the pool. -/
def flush_cache_result (sbi : f2fs_sb_info) (ne : Nat) (v : nat_entry) : f2fs_sb_info :=
  let s1 := clear_dirty_result
    (nat_modify sbi ne (fun x => { x with flag := nat_reset_flag x.flag })) ne
    { v with flag := nat_reset_flag v.flag }
  if v.ni.blk_addr = NULL_ADDR then (add_free_nid s1 v.ni.nid false).1 else s1

/-- The set numbers of the dirty sets of shard `s`, in tree order. -/
def set_keys (sbi : f2fs_sb_info) (s : Nat) : List Nat :=
  (sbi.nat.nat_set_root s).map Prod.fst

/-- The NAT page `__flush_nat_entry_set` takes for the set `x`: none when the
set goes to the journal, else the next copy of the NAT block. -/
def flush_page (sbi : f2fs_sb_info) (x : nat_entry_set) :
    Except Fault (f2fs_sb_info × (Nat × Bool)) :=
  if __has_cursum_space sbi (u32_to_int x.entry_cnt) then .ok (sbi, ((0 : Nat), false))
  else get_next_nat_page sbi ((x.set * sbi.cfg.NAT_ENTRY_PER_BLOCK) % 4294967296)

/-- The state of `flush_nat_entries` once the dirty entries are counted. -/
def flush_counted (sbi : f2fs_sb_info) : f2fs_sb_info :=
  { sbi with nat := { sbi.nat with
    dirty_nat_cnt := sum_up sbi.nat.percore_dirty_nat_cnt sbi.cfg.nat_tree_cnt } }

/-- The first step of `flush_nat_entries`: the journal is merged into the
cache when it has no room for all the dirty entries. -/
def flush_drain (sbi : f2fs_sb_info) : Except Fault f2fs_sb_info :=
  if !__has_cursum_space sbi (u32_to_int sbi.nat.dirty_nat_cnt)
  then remove_nats_in_journal sbi else .ok sbi

/-- The state `init_node_manager` leaves as far as the NAT cache goes: empty
trees and lists, zero counters, at least one shard, and a journal that records
NIDs below `max_nid` only. -/
def nat_init (sbi : f2fs_sb_info) : Prop :=
  0 < sbi.cfg.nat_tree_cnt ∧ 0 < sbi.cfg.NAT_ENTRY_PER_BLOCK ∧ sbi.cfg.max_nid < 4294967296 ∧
  journal_ok sbi ∧
  ∀ s, sbi.nat.nat_root s = [] ∧ sbi.nat.nat_set_root s = [] ∧ sbi.nat.nat_entries s = [] ∧
    sbi.nat.percore_nat_cnt s = 0 ∧ sbi.nat.percore_dirty_nat_cnt s = 0

/-- The states the node manager reaches from `init_node_manager` through the
operations of the NAT cache, called with NIDs below `max_nid`, each run to its
return.  The primitives are steps of their own, under the conditions their
callers establish: `__clear_nat_cache_dirty` on a dirty entry,
`__del_from_nat_cache` on a clean one.  The step `other` stands for the rest
of the file system, which leaves the NAT cache alone. -/
inductive nat_reachable : f2fs_sb_info → Prop
  | init {sbi : f2fs_sb_info} : nat_init sbi → nat_reachable sbi
  | grab {sbi sbi' : f2fs_sb_info} {nid : Nat} : nat_reachable sbi → nid < sbi.cfg.max_nid →
      grab_nat_entry sbi nid = .ok sbi' → nat_reachable sbi'
  | cache {sbi sbi' : f2fs_sb_info} {nid : Nat} {ne : f2fs_nat_entry} : nat_reachable sbi →
      nid < sbi.cfg.max_nid → cache_nat_entry sbi nid ne = .ok sbi' → nat_reachable sbi'
  | get {sbi sbi' : f2fs_sb_info} {nid : Nat} {ni : node_info} : nat_reachable sbi →
      nid < sbi.cfg.max_nid → get_node_info sbi nid = .ok (sbi', ni) → nat_reachable sbi'
  | set_addr {sbi sbi' : f2fs_sb_info} {ni : node_info} {new_blkaddr : Nat} {fsync_done : Bool} :
      nat_reachable sbi → ni.nid < sbi.cfg.max_nid →
      set_node_addr sbi ni new_blkaddr fsync_done = .ok sbi' → nat_reachable sbi'
  | drain {sbi sbi' : f2fs_sb_info} : nat_reachable sbi →
      remove_nats_in_journal sbi = .ok sbi' → nat_reachable sbi'
  | shrink {sbi sbi' : f2fs_sb_info} {nr_shrink r : Int} : nat_reachable sbi →
      try_to_free_nats sbi nr_shrink = .ok (sbi', r) → nat_reachable sbi'
  | flush {sbi sbi' : f2fs_sb_info} : nat_reachable sbi →
      flush_nat_entries sbi = .ok sbi' → nat_reachable sbi'
  | set_dirty {sbi sbi' : f2fs_sb_info} {e : Nat} : nat_reachable sbi →
      __set_nat_cache_dirty sbi e = .ok sbi' → nat_reachable sbi'
  | clear_dirty {sbi sbi' : f2fs_sb_info} {e : Nat} {v : nat_entry} : nat_reachable sbi →
      __lookup_nat_cache sbi e = some v → v.flag.IS_DIRTY = true →
      __clear_nat_cache_dirty sbi e = .ok sbi' → nat_reachable sbi'
  | del {sbi sbi' : f2fs_sb_info} {e : Nat} {v : nat_entry} : nat_reachable sbi →
      __lookup_nat_cache sbi e = some v → v.flag.IS_DIRTY = false →
      __del_from_nat_cache sbi e = .ok sbi' → nat_reachable sbi'
  | other {sbi sbi' : f2fs_sb_info} : nat_reachable sbi → sbi'.cfg = sbi.cfg →
      sbi'.nat = sbi.nat → journal_ok sbi' → nat_reachable sbi'

/-- The on-disk record `get_node_info` reads for `nid` on a cache miss: the
journal record if the journal has one, else the record in the current NAT
page. -/
def cold_read (sbi : f2fs_sb_info) (nid : Nat) : f2fs_nat_entry :=
  let r := lookup_journal_in_cursum sbi nid false
  if 0 ≤ r.2 then (r.1.disk.nat_j r.2.toNat).ne
  else
    let page := get_current_nat_page r.1 (START_NID sbi nid)
    r.1.disk.nat_page page.1 page.2 ((nid + 4294967296 - START_NID sbi nid) % 4294967296)

/-- The state `cache_nat_entry` returns when `nid` has no entry yet. -/
def cache_result (sbi : f2fs_sb_info) (nid : Nat) (ne : f2fs_nat_entry) : f2fs_sb_info :=
  nat_modify (grab_result sbi nid) nid (fun x => { x with ni := node_info_from_raw_nat x.ni ne })

/-- The toy layout after `set_node_addr` has written block address 100 for
NID 3: one dirty entry, in shard 1, in the set of NAT block 0. -/
def toy_dirty : f2fs_sb_info :=
  match set_node_addr toy { nid := 3, ino := 3, blk_addr := NULL_ADDR, version := 0 } 100 false with
  | .ok s => s
  | .error _ => toy

/-- The toy layout with every available NID in use. -/
def toy_full : f2fs_sb_info := { toy with total_valid_node_count := 32 }

/-- The toy layout with the free NIDs 5 and 7 in the pool. -/
def toy_pool : f2fs_sb_info := (add_free_nid (add_free_nid toy 5 false).1 7 false).1

/-- The free-NID trees store every `free_nid` under its own NID. -/
def pool_keyed (sbi : f2fs_sb_info) : Prop :=
  ∀ l k v, radix_tree_lookup (sbi.free.free_nid_root l) k = some v → v.nid = k

/-- The NID `n` is in the pool in state `NID_ALLOC`: `alloc_nid` handed it
out and neither `alloc_nid_done` nor `alloc_nid_failed` has released it. -/
def nid_allocated (sbi : f2fs_sb_info) (n : Nat) : Prop :=
  ∃ v, __lookup_free_nid_list sbi n = some v ∧ v.state = nid_state.NID_ALLOC

/-- The step from `s` to `s'` keeps the configuration and, from trees keyed
by NID, keeps the trees keyed by NID and every entry in state `NID_ALLOC` as
it is, the entry of the NID `x` excepted. -/
def pool_keep (x : Option Nat) (s s' : f2fs_sb_info) : Prop :=
  s'.cfg = s.cfg ∧ (pool_keyed s → pool_keyed s' ∧
    ∀ m v, some m ≠ x → __lookup_free_nid_list s m = some v → v.state = nid_state.NID_ALLOC →
      __lookup_free_nid_list s' m = some v)

/-- A whole operation on the free-NID pool.  `alloc` carries the bound on the
passes of `alloc_nid` through `retry`; `other` is a step of the rest of the
file system, which changes neither the pool nor the configuration. -/
inductive pool_op where
  | add (nid : Nat) (build : Bool)
  | remove (nid : Nat)
  | scan (nat_page : Nat × Bool) (start_nid : Nat)
  | alloc (fuel : Nat)
  | done (nid : Nat)
  | failed (nid : Nat)
  | other (g : f2fs_sb_info → f2fs_sb_info)

/-- One operation on the pool; the result carries the NID `alloc_nid` handed
out, if the operation is a successful `alloc_nid`. -/
def pool_step (sbi : f2fs_sb_info) : pool_op → Except Fault (f2fs_sb_info × Option Nat)
  | .add nid build => .ok ((add_free_nid sbi nid build).1, none)
  | .remove nid => do
    let s ← remove_free_nid sbi nid
    .ok (s, none)
  | .scan nat_page start_nid => do
    let s ← scan_nat_page sbi nat_page start_nid
    .ok (s, none)
  | .alloc fuel => alloc_nid fuel sbi
  | .done nid => do
    let s ← alloc_nid_done sbi nid
    .ok (s, none)
  | .failed nid => do
    let s ← alloc_nid_failed sbi nid
    .ok (s, none)
  | .other g => .ok ({ g sbi with cfg := sbi.cfg, free := sbi.free }, none)

/-- A sequence of operations on the pool, each run to its return; the result
lists the NIDs the calls of `alloc_nid` handed out, in order. -/
def pool_run : f2fs_sb_info → List pool_op → Except Fault (f2fs_sb_info × List Nat)
  | sbi, [] => .ok (sbi, [])
  | sbi, op :: ops => do
    let r ← pool_step sbi op
    let r2 ← pool_run r.1 ops
    .ok (r2.1, r.2.toList ++ r2.2)

/-- The journal has room for every dirty entry the shards count. -/
def journal_fits (sbi : f2fs_sb_info) : Prop :=
  sbi.disk.n_nats + ((List.range sbi.cfg.nat_tree_cnt).map sbi.nat.percore_dirty_nat_cnt).sum
    ≤ sbi.cfg.NAT_JOURNAL_ENTRIES

/-- No journal slot records the NID of a dirty cache entry. -/
def journal_clean (sbi : f2fs_sb_info) : Prop :=
  ∀ i, i < sbi.disk.n_nats → ∀ v, __lookup_nat_cache sbi (sbi.disk.nat_j i).nid = some v →
    v.flag.IS_DIRTY = false

/-- The toy layout after the flush of `toy_dirty`: the record of NID 3 is in
the NAT journal. -/
def toy_flushed : f2fs_sb_info :=
  match flush_nat_entries toy_dirty with
  | .ok s => s
  | .error _ => toy

/-- The state `toy_flushed` with the cache entry of NID 3 evicted. -/
def toy_evicted : f2fs_sb_info :=
  match __del_from_nat_cache toy_flushed 3 with
  | .ok s => s
  | .error _ => toy

/-- The toy layout with a NAT journal of no slots, so that every flush takes
the block path. -/
def toy_nojournal : f2fs_sb_info :=
  { toy with cfg := { toy.cfg with NAT_JOURNAL_ENTRIES := 0 } }

/-- The layout `toy_nojournal` after `set_node_addr` has written block address
100 for NID 3. -/
def toy_nojournal_dirty : f2fs_sb_info :=
  match set_node_addr toy_nojournal
    { nid := 3, ino := 3, blk_addr := NULL_ADDR, version := 0 } 100 false with
  | .ok s => s
  | .error _ => toy_nojournal

/-- The state `toy_nojournal_dirty` after the flush: the record of NID 3 is in
the second copy of NAT block 0. -/
def toy_nojournal_flushed : f2fs_sb_info :=
  match flush_nat_entries toy_nojournal_dirty with
  | .ok s => s
  | .error _ => toy_nojournal

/-- The state `toy_nojournal_flushed` with the cache entry of NID 3 evicted. -/
def toy_nojournal_evicted : f2fs_sb_info :=
  match __del_from_nat_cache toy_nojournal_flushed 3 with
  | .ok s => s
  | .error _ => toy_nojournal

/-- The toy layout with an on-disk record for NID 3 that has been deleted 255
times before: version 255, block address 100. -/
def toy_aged : f2fs_sb_info :=
  { toy with disk := { toy.disk with
    nat_page := fun b c i =>
      if b = 0 ∧ c = false ∧ i = 3 then { version := 255, ino := 3, block_addr := 100 }
      else toy.disk.nat_page b c i } }

/-- A property of states that every step of the final loop of
`flush_nat_entries` keeps: the flush of one dirty entry whose address is not
`NEW_ADDR` (record written, entry cleaned), the switch to the next copy of a
NAT block, and the removal of an emptied set from its tree. -/
structure flush_stable (R : f2fs_sb_info → Prop) : Prop where
  /-- Kept by the write of the record of a dirty entry and its cleaning. -/
  entry : ∀ (s s1 : f2fs_sb_info) (start_nid : Nat) (to_journal : Bool) (page : Nat × Bool)
    (ne : Nat) (v : nat_entry), nat_inv s → journal_ok s → R s →
    __lookup_nat_cache s ne = some v → v.flag.IS_DIRTY = true → v.ni.blk_addr ≠ NEW_ADDR →
    flush_disk start_nid to_journal page s v = .ok s1 → R (flush_cache_result s1 ne v)
  /-- Kept by `get_next_nat_page`. -/
  page : ∀ (s : f2fs_sb_info) (nid : Nat) (r : f2fs_sb_info × (Nat × Bool)), nat_inv s →
    journal_ok s → R s → get_next_nat_page s nid = .ok r → R r.1
  /-- Kept by the removal of a set without entries. -/
  drop : ∀ (s : f2fs_sb_info) (t k : Nat), nat_inv s → journal_ok s → R s →
    set_entry_cnt s (t, k) = 0 →
    R { s with nat := { s.nat with
      nat_set_root := arr_set s.nat.nat_set_root t
        (radix_tree_delete (s.nat.nat_set_root t) k) } }

/-- No record of the NAT area and no slot of the NAT journal holds `NEW_ADDR`. -/
def disk_no_new (sbi : f2fs_sb_info) : Prop :=
  (∀ b c i, (sbi.disk.nat_page b c i).block_addr ≠ NEW_ADDR) ∧
  ∀ i, (sbi.disk.nat_j i).ne.block_addr ≠ NEW_ADDR

/-- Every cached entry whose block address is `NEW_ADDR` has
`IS_CHECKPOINTED = false`. -/
def new_unchecked (sbi : f2fs_sb_info) : Prop :=
  ∀ n e, __lookup_nat_cache sbi n = some e → e.ni.blk_addr = NEW_ADDR →
    e.flag.IS_CHECKPOINTED = false

/-- The states reached from an empty NAT cache over a NAT area and a journal
without `NEW_ADDR` records through `get_node_info`, `set_node_addr` (both
with NIDs below `max_nid`), `remove_nats_in_journal` and `flush_nat_entries`,
each run to its return. -/
inductive ckpt_reachable : f2fs_sb_info → Prop
  | init {sbi : f2fs_sb_info} : nat_init sbi → disk_no_new sbi → ckpt_reachable sbi
  | get {sbi sbi' : f2fs_sb_info} {nid : Nat} {ni : node_info} : ckpt_reachable sbi →
      nid < sbi.cfg.max_nid → get_node_info sbi nid = .ok (sbi', ni) → ckpt_reachable sbi'
  | set_addr {sbi sbi' : f2fs_sb_info} {ni : node_info} {new_blkaddr : Nat} {fsync_done : Bool} :
      ckpt_reachable sbi → ni.nid < sbi.cfg.max_nid →
      set_node_addr sbi ni new_blkaddr fsync_done = .ok sbi' → ckpt_reachable sbi'
  | drain {sbi sbi' : f2fs_sb_info} : ckpt_reachable sbi →
      remove_nats_in_journal sbi = .ok sbi' → ckpt_reachable sbi'
  | flush {sbi sbi' : f2fs_sb_info} : ckpt_reachable sbi →
      flush_nat_entries sbi = .ok sbi' → ckpt_reachable sbi'

/-- The part of a cache entry the checkpointed-flag invariant speaks about:
its node info and its `IS_CHECKPOINTED` flag. -/
def ckpt_view (x : nat_entry) : node_info × Bool := (x.ni, x.flag.IS_CHECKPOINTED)

/-- The toy layout after `get_node_info(3)` has missed and installed the
on-disk record of NID 3, which has `NULL_ADDR`. -/
def toy_looked : f2fs_sb_info :=
  match get_node_info toy 3 with
  | .ok r => r.1
  | .error _ => toy

/-- The layout `toy_nojournal` (two NAT shards, no journal slot) after
`set_node_addr` has written an address for the NIDs 2 and 3: both belong to
NAT block 0, NID 2 is dirty in shard 0 and NID 3 in shard 1. -/
def toy_two : f2fs_sb_info :=
  match (do
    let s ← set_node_addr toy_nojournal
      { nid := 2, ino := 2, blk_addr := NULL_ADDR, version := 0 } 200 false
    set_node_addr s { nid := 3, ino := 3, blk_addr := NULL_ADDR, version := 0 } 100 false) with
  | .ok s => s
  | .error _ => toy_nojournal

/-- The state `toy_two` after the flush of the set of NAT block 0 in shard 0. -/
def toy_two_first : f2fs_sb_info :=
  match __flush_nat_entry_set toy_two (0, 0) with
  | .ok s => s
  | .error _ => toy_two

/-- The list `__adjust_nat_entry_set` builds from the empty list when the sets
`ins` are inserted one after the other with the bound `max`. -/
def adjust_all (sbi : f2fs_sb_info) (max : Int) (ins : List (Nat × Nat)) : List (Nat × Nat) :=
  ins.foldl (fun acc nes => __adjust_nat_entry_set sbi nes acc max) []

/-- A list of sets made of the sets that count fewer than `m` entries, in
non-decreasing order of their counts, followed by the sets that count `m`
entries or more. -/
def sets_ordered (sbi : f2fs_sb_info) (m : Nat) (out : List (Nat × Nat)) : Prop :=
  ∃ small big, out = small ++ big ∧ (∀ x ∈ small, set_entry_cnt sbi x < m) ∧
    small.Pairwise (fun a b => set_entry_cnt sbi a ≤ set_entry_cnt sbi b) ∧
    ∀ x ∈ big, m ≤ set_entry_cnt sbi x

/-- The dirty sets of the shards `i, i+1, ...` (`k` shards), shard by shard,
each shard in the order of its tree. -/
def sets_from (sbi : f2fs_sb_info) : Nat → Nat → List (Nat × Nat)
  | 0, _ => []
  | k + 1, i => (set_keys sbi i).map (fun x => (i, x)) ++ sets_from sbi k (i + 1)

/-- All the dirty sets, in the order in which `flush_nat_entries` looks them
up. -/
def all_sets (sbi : f2fs_sb_info) : List (Nat × Nat) := sets_from sbi sbi.cfg.nat_tree_cnt 0

/-- The data-model invariants of one shard `l` of the free-NID pool, over its
tree `R`, its list `L` and its counter `c`; `S` is the shard count. -/
structure fshard_inv (S l : Nat) (R : radix_tree_root free_nid) (L : List Nat) (c : Nat) :
    Prop where
  /-- The keys of the tree increase strictly: one entry per NID. -/
  sorted : (R.map Prod.fst).Pairwise (· < ·)
  /-- An entry is stored under its own NID, in the shard of that NID, and its
  NID is not 0. -/
  keyed : ∀ p ∈ R, p.2.nid = p.1 ∧ p.1 % S = l ∧ p.1 ≠ 0
  /-- Every member of the list is an entry of the tree of the shard. -/
  listed : ∀ n ∈ L, ∃ v, (n, v) ∈ R
  /-- The counter is an `unsigned int`. -/
  cnt_lt : c < 4294967296

/-- The invariants of the free-NID pool: `fshard_inv` in every shard. -/
def pool_inv (sbi : f2fs_sb_info) : Prop :=
  ∀ l, fshard_inv sbi.cfg.nid_list_count l (sbi.free.free_nid_root l)
    (sbi.free.free_nid_list l) (sbi.free.percore_fcnt l)

/-- The empty free-NID pool that `init_node_manager` leaves. -/
def pool_init (sbi : f2fs_sb_info) : Prop :=
  ∀ l, sbi.free.free_nid_root l = [] ∧ sbi.free.free_nid_list l = [] ∧
    sbi.free.percore_fcnt l = 0

/-- The states of the free-NID pool reached from the empty pool through
`add_free_nid`, `scan_nat_page`, the journal pass of the builders
(`build_free_nids`), `remove_free_nid`, `alloc_nid`, `alloc_nid_done` and
`alloc_nid_failed`, each run to its return.  The step `other` stands for the
rest of the file system, which leaves the pool and the configuration alone. -/
inductive pool_reachable : f2fs_sb_info → Prop
  | init {sbi : f2fs_sb_info} : pool_init sbi → pool_reachable sbi
  | add {sbi : f2fs_sb_info} (nid : Nat) (build : Bool) : pool_reachable sbi →
      pool_reachable (add_free_nid sbi nid build).1
  | scan {sbi sbi' : f2fs_sb_info} {nat_page : Nat × Bool} {start_nid : Nat} :
      pool_reachable sbi → scan_nat_page sbi nat_page start_nid = .ok sbi' →
      pool_reachable sbi'
  | build {sbi sbi' : f2fs_sb_info} : pool_reachable sbi → build_free_nids sbi = .ok sbi' →
      pool_reachable sbi'
  | remove {sbi sbi' : f2fs_sb_info} {nid : Nat} : pool_reachable sbi →
      remove_free_nid sbi nid = .ok sbi' → pool_reachable sbi'
  | alloc {sbi sbi' : f2fs_sb_info} {fuel : Nat} {r : Option Nat} : pool_reachable sbi →
      alloc_nid fuel sbi = .ok (sbi', r) → pool_reachable sbi'
  | done {sbi sbi' : f2fs_sb_info} {nid : Nat} : pool_reachable sbi →
      alloc_nid_done sbi nid = .ok sbi' → pool_reachable sbi'
  | failed {sbi sbi' : f2fs_sb_info} {nid : Nat} : pool_reachable sbi →
      alloc_nid_failed sbi nid = .ok sbi' → pool_reachable sbi'
  | other {sbi sbi' : f2fs_sb_info} : pool_reachable sbi → sbi'.cfg = sbi.cfg →
      sbi'.free = sbi.free → pool_reachable sbi'

/-- The state `alloc_nid` leaves when it takes the NID `n` from the list
`list_id`: the entry of `n` is in state `NID_ALLOC` and the counter of the
list is decremented. -/
def take_result (sbi : f2fs_sb_info) (list_id n : Nat) : f2fs_sb_info :=
  let sbi := free_nid_modify sbi n (fun x => { x with state := nid_state.NID_ALLOC })
  { sbi with free := { sbi.free with
    percore_fcnt := arr_set sbi.free.percore_fcnt list_id
      (u32_dec (sbi.free.percore_fcnt list_id)) } }

/-- The list `alloc_nid` selects on its first pass:
`atomic_inc_return(&next_allocator) % nid_list_cnt`. -/
def alloc_list (sbi : f2fs_sb_info) : Nat :=
  (Int.tmod (atomic_inc_return sbi.free.next_allocator) (sbi.cfg.nid_list_count : Int)).toNat

/-- The state after `atomic_inc_return(&next_allocator)`. -/
def alloc_bump (sbi : f2fs_sb_info) : f2fs_sb_info :=
  { sbi with free := { sbi.free with
    next_allocator := atomic_inc_return sbi.free.next_allocator } }

/-- The state `__del_from_free_nid_list` returns for an entry stored under its
own NID `i`. -/
def del_free_result (sbi : f2fs_sb_info) (i : Nat) : f2fs_sb_info :=
  { sbi with free := { sbi.free with
    free_nid_list := fun l => (sbi.free.free_nid_list l).filter (fun x => x != i),
    free_nid_root := arr_set sbi.free.free_nid_root (LIST_IDX i sbi)
      (radix_tree_delete (sbi.free.free_nid_root (LIST_IDX i sbi)) i) } }

/-- The state `alloc_nid_failed` returns when the memory budget permits: the
entry of `nid` is in state `NID_NEW` again and the counter of its list is
incremented. -/
def failed_result (sbi : f2fs_sb_info) (nid : Nat) : f2fs_sb_info :=
  let sbi := (available_free_memory sbi mem_type.FREE_NIDS).1
  let sbi := free_nid_modify sbi nid (fun x => { x with state := nid_state.NID_NEW })
  { sbi with free := { sbi.free with
    percore_fcnt := arr_set sbi.free.percore_fcnt (LIST_IDX nid sbi)
      (u32_inc (sbi.free.percore_fcnt (LIST_IDX nid sbi))) } }

/-- The toy layout with an empty pool and a NAT journal of one slot that
records NID 5 as free (`NULL_ADDR`). -/
def toy_jfree : f2fs_sb_info :=
  { toy with disk := { toy.disk with
    n_nats := 1,
    nat_j := fun _ => { nid := 5, ne := { version := 1, ino := 5, block_addr := NULL_ADDR } } } }

/-- The total of the per-list counts of free NIDs, before `sum_up` cuts it to
32 bits. -/
def fcnt_total (s : f2fs_sb_info) : Nat :=
  ((List.range s.cfg.nid_list_count).map s.free.percore_fcnt).sum

/-- The total of the per-shard counts of dirty entries, before `sum_up` cuts
it to 32 bits. -/
def dirty_total (s : f2fs_sb_info) : Nat :=
  ((List.range s.cfg.nat_tree_cnt).map s.nat.percore_dirty_nat_cnt).sum

/-- The test of `available_free_memory` for `FREE_NIDS` when the pool counts
`f` free NIDs. -/
def free_budget (s : f2fs_sb_info) (f : Nat) : Bool :=
  decide ((((f * s.cfg.sizeof_free_nid) % 18446744073709551616) >>> s.cfg.PAGE_CACHE_SHIFT)
    < (((s.avail_ram * s.cfg.ram_thresh) % 18446744073709551616 / 100) >>> 2))

/-- The memory budget of the free NIDs permits every pool of up to `B` free
NIDs. -/
def budget_permits (s : f2fs_sb_info) (B : Nat) : Prop :=
  ∀ f, f ≤ B → free_budget s f = true

/-- What the final loop of the flush keeps for the entry of NID `n` with
content `ni`, from the state `s0` on: the layout and the memory of `s0`, no
more than `B` free NIDs and dirty entries together, the pool entry `n` had in
`s0` and its place on the list of its shard, and the entry cached with its
content.  While the entry is dirty, a NID that was not in the pool of `s0` is
not in the pool; once it is clean, it is on the LRU list of its shard and,
unless `n` is 0, a NID that was not in the pool of `s0` is in the tree of its
shard in state `NID_NEW` and on the list of its shard. -/
def freed_inv (s0 : f2fs_sb_info) (B n : Nat) (ni : node_info) (s : f2fs_sb_info) : Prop :=
  s.cfg = s0.cfg ∧ s.avail_ram = s0.avail_ram ∧ fcnt_total s + dirty_total s ≤ B ∧
  (∀ w, __lookup_free_nid_list s0 n = some w → __lookup_free_nid_list s n = some w) ∧
  (n ∈ s0.free.free_nid_list (LIST_IDX n s0) → n ∈ s.free.free_nid_list (LIST_IDX n s)) ∧
  ∃ v, __lookup_nat_cache s n = some v ∧ v.ni = ni ∧
    (v.flag.IS_DIRTY = true → __lookup_free_nid_list s0 n = none →
      __lookup_free_nid_list s n = none) ∧
    (v.flag.IS_DIRTY = false →
      n ∈ s.nat.nat_entries (n % s.cfg.nat_tree_cnt) ∧
      (n ≠ 0 → __lookup_free_nid_list s0 n = none →
        __lookup_free_nid_list s n = some { nid := n, state := nid_state.NID_NEW } ∧
        n ∈ s.free.free_nid_list (LIST_IDX n s)))

/-- The toy layout over a NAT area that records the node 3, an inode at block
address 100; `enomem` tells whether the kernel allocator is out of memory for
tree nodes. -/
def toy_node (enomem : Bool) : f2fs_sb_info :=
  { toy with
    cfg := { toy.cfg with preload_enomem := enomem },
    disk := { toy.disk with
      nat_page := fun blk _ i =>
        if blk = 0 ∧ i = 3 then { version := 0, ino := 3, block_addr := 100 }
        else { version := 0, ino := 0, block_addr := 0 } },
    total_valid_node_count := 1 }

/-- The state `toy_node` after the mount: `build_all_free_nids` has run. -/
def toy_node_mounted (enomem : Bool) : f2fs_sb_info :=
  match build_all_free_nids (fun _ => true) (toy_node enomem) with
  | .ok s => s
  | .error _ => toy

/-- The mounted state once `truncate_node` has called `get_node_info` for the
node 3, which reads its node information into the NAT cache, and has taken
the node off the count of valid nodes. -/
def toy_node_read (enomem : Bool) : f2fs_sb_info :=
  match get_node_info (toy_node_mounted enomem) 3 with
  | .ok r => { r.1 with total_valid_node_count := r.1.total_valid_node_count - 1 }
  | .error _ => toy

/-- The mounted state after the node 3 is deleted: `truncate_node` passes the
node information that `get_node_info` returned to
`set_node_addr(ni, NULL_ADDR)`. -/
def toy_gone (enomem : Bool) : f2fs_sb_info :=
  match get_node_info (toy_node_mounted enomem) 3 with
  | .ok r =>
    match set_node_addr (toy_node_read enomem) r.2 NULL_ADDR false with
    | .ok s => s
    | .error _ => toy
  | .error _ => toy

/-- The state `toy_gone` after the flush. -/
def toy_gone_flushed (enomem : Bool) : f2fs_sb_info :=
  match flush_nat_entries (toy_gone enomem) with
  | .ok s => s
  | .error _ => toy

/-- The number of entries the `while` loop of `try_to_free_nats` takes from a
clean list of `len` entries when it starts with `nr_shrink_tmp = b`: all of
them when `b` is negative, else `b` of them or all. -/
def trim_count (b : Int) (len : Nat) : Nat :=
  if b < 0 then len else min b.toNat len

/-- The numbers of entries `try_to_free_nats` takes from the clean lists of
the shards `i, i + 1, ..., i + k - 1` when `nr` is still to free: each shard
gives up to the share `nr / (shards left)` of what is left to free. -/
def shrink_plan (lens : Nat → Nat) : Nat → Nat → Int → List Nat
  | 0, _, _ => []
  | k + 1, i, nr =>
    trim_count (Int.tdiv nr ((k + 1 : Nat) : Int)) (lens i)
      :: shrink_plan lens k (i + 1) (nr - trim_count (Int.tdiv nr ((k + 1 : Nat) : Int)) (lens i))

/-- The toy layout without memory to spare. -/
def toy_tight0 : f2fs_sb_info := { toy with avail_ram := 0 }

/-- The state `toy_tight0` with NID 2 cached clean. -/
def toy_tight1 : f2fs_sb_info :=
  cache_result toy_tight0 2 { version := 0, ino := 2, block_addr := 20 }

/-- The state `toy_tight1` with NID 4 cached clean. -/
def toy_tight2 : f2fs_sb_info :=
  cache_result toy_tight1 4 { version := 0, ino := 4, block_addr := 40 }

/-- The toy layout without memory to spare, with the NIDs 2, 4 and 6 cached
clean: three entries on the clean list of shard 0, none in shard 1. -/
def toy_tight : f2fs_sb_info :=
  cache_result toy_tight2 6 { version := 0, ino := 6, block_addr := 60 }

/-- The state `toy_tight` after `set_node_addr` has made the entry of NID 4
dirty. -/
def toy_tight_dirty : f2fs_sb_info :=
  match set_node_addr toy_tight { nid := 4, ino := 4, blk_addr := 40, version := 0 } 41 false with
  | .ok s => s
  | .error _ => toy

/-- The toy layout with the inode NID 3 (address 50) and its node NID 5
(address 100) cached clean. -/
def toy_pair : f2fs_sb_info :=
  cache_result (cache_result toy 3 { version := 0, ino := 3, block_addr := 50 })
    5 { version := 0, ino := 3, block_addr := 100 }

/-- The test `add_free_nid` makes with `build` true before it pools `nid`: the
NAT cache holds no entry for `nid`, or the entry is checkpointed with block
address `NULL_ADDR`. -/
def cache_free (sbi : f2fs_sb_info) (nid : Nat) : Prop :=
  __lookup_nat_cache sbi nid = none ∨
  ∃ e, __lookup_nat_cache sbi nid = some e ∧ e.flag.IS_CHECKPOINTED = true ∧
    e.ni.blk_addr = NULL_ADDR

/-- The step from `s` to `s'` leaves the NAT cache alone and pools no NID that
the cache records as allocated: a NID in the pool of `s'` was in the pool of
`s` or passes the test `cache_free`. -/
def pool_fresh (s s' : f2fs_sb_info) : Prop :=
  free_only s s' ∧
  ∀ n w, __lookup_free_nid_list s' n = some w →
    (∃ w0, __lookup_free_nid_list s n = some w0) ∨ cache_free s n

/-- The toy layout with NID 5 cached with block address 100, a node in use. -/
def toy_used : f2fs_sb_info :=
  cache_result toy 5 { version := 0, ino := 5, block_addr := 100 }

/-- The state `toy_used` after `scan_nat_page` has scanned NAT block 0 from
NID 3 on. -/
def toy_scanned : f2fs_sb_info :=
  match scan_nat_page toy_used (0, false) 3 with
  | .ok s => s
  | .error _ => toy

/-- The toy pool when `next_allocator` has wrapped past `2^31 - 1`: the
counter holds `-2^31`, the value `atomic_inc_return` leaves after the call
number `2^31`. -/
def toy_wrapped : f2fs_sb_info :=
  { toy_pool with free := { toy_pool.free with next_allocator := -2147483648 } }

/-- The constants of the layout fit the C types of `get_node_path`: all block
indices of a file fit an `int`, and so do the node slots and the node
offsets. -/
def layout_fits (g : node_layout) : Prop :=
  g.ADDRS_PER_INODE + 2 * g.ADDRS_PER_BLOCK + 2 * (g.ADDRS_PER_BLOCK * g.NIDS_PER_BLOCK)
    + g.ADDRS_PER_BLOCK * g.NIDS_PER_BLOCK * g.NIDS_PER_BLOCK < 2147483648 ∧
  g.DEF_ADDRS_PER_INODE + 5 < 2147483648 ∧
  g.NIDS_PER_BLOCK * (g.NIDS_PER_BLOCK + 3) + 7 < 2147483648

instance (g : node_layout) : Decidable (layout_fits g) := by
  unfold layout_fits
  exact inferInstance

/-- The number of data blocks a file can address through its inode. -/
def max_file_blocks (g : node_layout) : Nat :=
  g.ADDRS_PER_INODE + 2 * g.ADDRS_PER_BLOCK + 2 * (g.ADDRS_PER_BLOCK * g.NIDS_PER_BLOCK)
    + g.ADDRS_PER_BLOCK * g.NIDS_PER_BLOCK * g.NIDS_PER_BLOCK

/-- The first `n` slots of an array as a list. -/
def arr_list {α : Type} (a : Nat → α) (n : Nat) : List α := (List.range n).map a

/-- The array `a` with the slots `0, 1, ...` overwritten by the list `l`. -/
def arr_fill {α : Type} (a : Nat → α) (l : List α) : Nat → α :=
  fun j => l.getD j (a j)

/-- The node that has the node offset `v`, as its depth and the path of
offsets from the inode to it: the inverse of the numbering of the node
offsets. -/
def noffset_node (g : node_layout) (v : Nat) : Nat × List Int :=
  let N := g.NIDS_PER_BLOCK
  if v = 0 then (0, [])
  else if v = 1 then (1, [NODE_DIR1_BLOCK g])
  else if v = 2 then (1, [NODE_DIR2_BLOCK g])
  else if v = 3 then (1, [NODE_IND1_BLOCK g])
  else if v < 4 + N then (2, [NODE_IND1_BLOCK g, ((v - 4 : Nat) : Int)])
  else if v = 4 + N then (1, [NODE_IND2_BLOCK g])
  else if v < 5 + 2 * N then (2, [NODE_IND2_BLOCK g, ((v - (5 + N) : Nat) : Int)])
  else if v = 5 + 2 * N then (1, [NODE_DIND_BLOCK g])
  else if (v - (6 + 2 * N)) % (N + 1) = 0
    then (2, [NODE_DIND_BLOCK g, (((v - (6 + 2 * N)) / (N + 1) : Nat) : Int)])
  else (3, [NODE_DIND_BLOCK g, (((v - (6 + 2 * N)) / (N + 1) : Nat) : Int),
            (((v - (6 + 2 * N)) % (N + 1) - 1 : Nat) : Int)])

/-- The block index that a node path stands for: the inverse of
`get_node_path` on the level and the offsets `offset[0..level]`. -/
def path_block (g : node_layout) (level : Nat) (off : Nat → Int) : Int :=
  let I : Int := g.ADDRS_PER_INODE
  let A : Int := g.ADDRS_PER_BLOCK
  let N : Int := g.NIDS_PER_BLOCK
  match level with
  | 0 => off 0
  | 1 => if off 0 = NODE_DIR1_BLOCK g then I + off 1 else I + A + off 1
  | 2 => if off 0 = NODE_IND1_BLOCK g then I + 2 * A + (off 1 * A + off 2)
         else I + 2 * A + A * N + (off 1 * A + off 2)
  | _ => I + 2 * A + 2 * (A * N) + ((off 1 * N + off 2) * A + off 3)

/-- The five node slots of an inode. -/
def node_slot (g : node_layout) (v : Int) : Prop :=
  v = NODE_DIR1_BLOCK g ∨ v = NODE_DIR2_BLOCK g ∨ v = NODE_IND1_BLOCK g ∨
  v = NODE_IND2_BLOCK g ∨ v = NODE_DIND_BLOCK g

instance (g : node_layout) (v : Int) : Decidable (node_slot g v) := by
  unfold node_slot
  exact inferInstance

/-- The list `__adjust_nat_entry_set_per_core` builds from the list `head`
when the sets `ins` are fed one after the other with the bound `max`. -/
def adjust_per_core_from (sbi : f2fs_sb_info) (max : Int) (nat_tree_cnt : Int)
    (ins : List (Nat × Nat)) (head : List per_core_sets_pack) :
    Except Fault (List per_core_sets_pack) :=
  ins.foldlM (fun acc nes => __adjust_nat_entry_set_per_core sbi nes acc max nat_tree_cnt) head

/-- The list of packs `__adjust_nat_entry_set_per_core` builds from the empty
list. -/
def adjust_all_per_core (sbi : f2fs_sb_info) (max : Int) (nat_tree_cnt : Int)
    (ins : List (Nat × Nat)) : Except Fault (List per_core_sets_pack) :=
  adjust_per_core_from sbi max nat_tree_cnt ins []

/-- The sets of `ins` with the set number `id`, in the order of `ins`. -/
def sets_of_number (sbi : f2fs_sb_info) (id : Nat) (ins : List (Nat × Nat)) : List (Nat × Nat) :=
  ins.filter (fun x => set_number sbi x = id)

/-- The entries of the sets `l` added up. -/
def sets_entry_cnt (sbi : f2fs_sb_info) (l : List (Nat × Nat)) : Nat :=
  (l.map (set_entry_cnt sbi)).sum

/-- Every set of `ins` that joins a pack started by an earlier set (the sets
fed before are `pre`) brings the pack to `m` entries or more. -/
def joins_fill (sbi : f2fs_sb_info) (m : Nat) : List (Nat × Nat) → List (Nat × Nat) → Prop
  | _, [] => True
  | pre, x :: t =>
    (sets_of_number sbi (set_number sbi x) pre ≠ [] →
      m ≤ sets_entry_cnt sbi (sets_of_number sbi (set_number sbi x) (pre ++ [x]))) ∧
    joins_fill sbi m (pre ++ [x]) t

/-- The toy layout after `set_node_addr` has written an address for NID 2. -/
def toy_mixed1 : f2fs_sb_info :=
  match set_node_addr toy { nid := 2, ino := 2, blk_addr := NULL_ADDR, version := 0 } 20 false with
  | .ok s => s
  | .error _ => toy

/-- The state `toy_mixed1` after an address is written for NID 8. -/
def toy_mixed2 : f2fs_sb_info :=
  match set_node_addr toy_mixed1
      { nid := 8, ino := 8, blk_addr := NULL_ADDR, version := 0 } 80 false with
  | .ok s => s
  | .error _ => toy

/-- The state `toy_mixed2` after an address is written for NID 10. -/
def toy_mixed3 : f2fs_sb_info :=
  match set_node_addr toy_mixed2
      { nid := 10, ino := 10, blk_addr := NULL_ADDR, version := 0 } 81 false with
  | .ok s => s
  | .error _ => toy

/-- The state `toy_mixed3` after an address is written for NID 1. -/
def toy_mixed4 : f2fs_sb_info :=
  match set_node_addr toy_mixed3
      { nid := 1, ino := 1, blk_addr := NULL_ADDR, version := 0 } 10 false with
  | .ok s => s
  | .error _ => toy

/-- The toy layout with five dirty NIDs: NID 2 in shard 0 and the NIDs 1 and
3 in shard 1 belong to NAT block 0, the NIDs 8 and 10 in shard 0 to NAT
block 1. -/
def toy_mixed : f2fs_sb_info :=
  match set_node_addr toy_mixed4
      { nid := 3, ino := 3, blk_addr := NULL_ADDR, version := 0 } 30 false with
  | .ok s => s
  | .error _ => toy

/-- The list of packs after the sets `pre` were fed: one pack per set number
fed, each holding the sets of its number in feeding order and counting their
entries, and no pack of `m` entries or more in front of a smaller one. -/
structure packs_inv (sbi : f2fs_sb_info) (m : Nat) (pre : List (Nat × Nat))
    (packs : List per_core_sets_pack) : Prop where
  /-- One pack per set number. -/
  ids_nodup : (packs.map (fun p => p.set_id)).Nodup
  /-- The members of a pack are the sets fed with its number. -/
  members : ∀ p ∈ packs, p.set = sets_of_number sbi p.set_id pre ∧ p.set ≠ []
  /-- A pack counts the entries of its members. -/
  count : ∀ p ∈ packs, p.entry_cnt = sets_entry_cnt sbi p.set
  /-- Every set fed has the pack of its number. -/
  covered : ∀ x ∈ pre, ∃ p ∈ packs, p.set_id = set_number sbi x
  /-- The packs below `m` come first. -/
  small_first : packs.Pairwise (fun a b => b.entry_cnt < m → a.entry_cnt < m)

/-- The packs below `m` entries are in non-decreasing order of `entry_cnt`. -/
def packs_sorted (m : Nat) (packs : List per_core_sets_pack) : Prop :=
  packs.Pairwise (fun a b => a.entry_cnt < m → b.entry_cnt < m → a.entry_cnt ≤ b.entry_cnt)

/-- The last two loops of `flush_nat_entries_per_core`: flush the packs in
the order of the list, then check that no shard counts a dirty entry. -/
def flush_packs_checked (packs : List per_core_sets_pack) (sbi : f2fs_sb_info) :
    Except Fault f2fs_sb_info := do
  let sbi ← flush_packs packs sbi
  flush_check_clean sbi.cfg.nat_tree_cnt 0 sbi
  .ok sbi

/-- The sum `f 0 + ... + f (n - 1)`. -/
def tally (f : Nat → Int) : Nat → Int
  | 0 => 0
  | n + 1 => tally f n + f n

/-- The number 1 for a true condition, 0 for a false one. -/
def ind (b : Bool) : Int := if b then 1 else 0

/-- A reader that the counters count: its increment of a highway counter or
of `lowway_cnt` is done and its decrement is not. It has returned from its
`down_read`, or has only the `up_read` of `rw_sem` left to do, and has not
yet done the decrement of its `rps_up_read`. -/
def rps_pc.inside : rps_pc → Bool
  | .dr_rel => true
  | .reading => true
  | .ur_add _ => true
  | .ur_dec => true
  | _ => false

/-- A writer between its `atomic_inc` and its `atomic_dec` of `writers_cnt`. -/
def rps_pc.announced : rps_pc → Bool
  | .w_sync => true
  | .w_lock => true
  | .w_read _ _ => true
  | .w_zero _ _ => true
  | .w_add _ => true
  | .w_wait => true
  | .writing => true
  | .uw_sync => true
  | .uw_dec => true
  | _ => false

/-- A writer past the `synchronize_sched_expedited()` of `rps_down_write`. -/
def rps_pc.fenced : rps_pc → Bool
  | .w_lock => true
  | .w_read _ _ => true
  | .w_zero _ _ => true
  | .w_add _ => true
  | .w_wait => true
  | .writing => true
  | .uw_sync => true
  | .uw_dec => true
  | _ => false

/-- A writer that holds `rw_sem` for write. -/
def rps_pc.holds_write : rps_pc → Bool
  | .w_read _ _ => true
  | .w_zero _ _ => true
  | .w_add _ => true
  | .w_wait => true
  | .writing => true
  | _ => false

/-- A reader that holds `rw_sem` for read. -/
def rps_pc.holds_read : rps_pc → Bool
  | .dr_inc => true
  | .dr_rel => true
  | _ => false

/-- The part of the counters that a writer in `clear_highway` holds in its
local `sum`: what it has taken out of the highway counters and not yet added
to `lowway_cnt`. Between the read and the zeroing of a counter that counter is
in `sum` and still in place, and counts once. -/
def rps_pc.drained (h : Nat → Int) : rps_pc → Int
  | .w_read _ sum => sum
  | .w_zero c sum => sum - h c
  | .w_add sum => sum
  | _ => 0

/-- The CPU a place carries stays below the number of CPUs. -/
def rps_pc.cpu_ok (n : Nat) : rps_pc → Prop
  | .dr_add c => c < n
  | .ur_add c => c < n
  | .w_read c _ => c < n
  | .w_zero c _ => c < n
  | _ => True

/-- The number of highway counters, from CPU 0 on, that a writer has zeroed. -/
def rps_pc.zeroed (n : Nat) : rps_pc → Nat
  | .w_read c _ => c
  | .w_zero c _ => c
  | .w_add _ => n
  | .w_wait => n
  | .writing => n
  | _ => 0

/-- The sum of all highway counters. -/
def highway_sum (s : rps) : Int := tally s.highway_cnt s.nr_cpus

/-- The sum that the writers in `clear_highway` hold. -/
def drained_sum (s : rps) : Int :=
  tally (fun t => (s.pc t).drained s.highway_cnt) s.nr_threads

/-- The number of readers that the counters count. -/
def readers_inside (s : rps) : Int := tally (fun t => ind (s.pc t).inside) s.nr_threads

/-- The number of readers that have returned from a `down_read` and not yet
called `rps_up_read`. -/
def readers_returned (s : rps) : Int :=
  tally (fun t => ind (decide (s.pc t = rps_pc.reading))) s.nr_threads

/-- The invariants of the reader-preferring semaphore. -/
structure rps_inv (s : rps) : Prop where
  /-- The number of threads fits an `int`. -/
  threads : s.nr_threads < 2147483648
  /-- The counters and the sums in flight count the readers, modulo `2^32`. -/
  sum : (highway_sum s + s.lowway_cnt + drained_sum s - readers_inside s) % 4294967296 = 0
  /-- The counter `writers_cnt` counts the writers that have announced
  themselves. -/
  writers : s.writers_cnt = tally (fun t => ind (s.pc t).announced) s.nr_threads
  /-- While a writer is past its barrier no thread is about to change a
  highway counter. -/
  fence : ∀ t, t < s.nr_threads → (s.pc t).fenced = true →
    ∀ u, u < s.nr_threads → (s.pc u).in_highway = false
  /-- The semaphore is held for write exactly when a writer holds it. -/
  sem_writer : s.rw_sem_writer = true ↔ ∃ t, t < s.nr_threads ∧ (s.pc t).holds_write = true
  /-- At most one writer holds the semaphore. -/
  sem_unique : ∀ t u, t < s.nr_threads → u < s.nr_threads → (s.pc t).holds_write = true →
    (s.pc u).holds_write = true → t = u
  /-- The semaphore counts its readers. -/
  sem_readers : (s.rw_sem_readers : Int) = tally (fun t => ind (s.pc t).holds_read) s.nr_threads
  /-- A writer and readers never hold the semaphore together. -/
  sem_excl : s.rw_sem_writer = true → s.rw_sem_readers = 0
  /-- The CPUs named by the places exist. -/
  cpus : ∀ t, t < s.nr_threads → (s.pc t).cpu_ok s.nr_cpus
  /-- The highway counters that a writer has zeroed are zero. -/
  zeroed : ∀ t, t < s.nr_threads → ∀ j, j < (s.pc t).zeroed s.nr_cpus → s.highway_cnt j = 0
  /-- While a writer is in its critical section the counters count no reader. -/
  excl : ∀ t, t < s.nr_threads → s.pc t = rps_pc.writing →
    ∀ u, u < s.nr_threads → (s.pc u).inside = false

/-- A schedule of two threads on one CPU: thread 0 takes the highway of
`rps_down_read` and returns; thread 1 then runs `rps_down_write` through
`atomic_inc`, the barrier, `down_write` and the loop of `clear_highway`, up to
the `atomic_add` it has not yet done. -/
def rps_drain_sched : List (Nat × Nat × rps_call) :=
  [(0, 0, .down_read), (0, 0, .down_read), (1, 0, .down_write), (1, 0, .down_write),
   (1, 0, .down_write), (1, 0, .down_write), (1, 0, .down_write)]

/-- The state after `rps_drain_sched`: the reader is in its critical section,
the writer holds the 1 it took from the highway counter in its local `sum`. -/
def rps_draining : rps :=
  (rps_run rps_drain_sched (__rps_init_rwsem 1 2)).getD (__rps_init_rwsem 1 2)

/-- The schedule `rps_drain_sched` continued: the writer adds its sum to
`lowway_cnt` and waits, the reader runs `rps_up_read` on the lowway, and the
writer returns from `rps_down_write`. -/
def rps_write_sched : List (Nat × Nat × rps_call) :=
  rps_drain_sched ++ [(1, 0, .down_write), (0, 0, .up_read), (0, 0, .up_read), (1, 0, .down_write)]

/-- The state after `rps_write_sched`: the writer is in its critical section. -/
def rps_written : rps :=
  (rps_run rps_write_sched (__rps_init_rwsem 1 2)).getD (__rps_init_rwsem 1 2)

/-- What the final loop of the flush keeps for the entry of NID `n` with
content `ni`: the entry is cached with its content and, once it is clean, it
is checkpointed. -/
def written_inv (n : Nat) (ni : node_info) (s : f2fs_sb_info) : Prop :=
  ∃ v, __lookup_nat_cache s n = some v ∧ v.ni = ni ∧
    (v.flag.IS_DIRTY = false → v.flag.IS_CHECKPOINTED = true)

/-- The toy layout after `set_node_addr` has written block address 100 and
then `NULL_ADDR` for NID 3: the node is written and deleted before the next
checkpoint. -/
def toy_unlinked : f2fs_sb_info :=
  match set_node_addr toy_dirty { nid := 3, ino := 3, blk_addr := 100, version := 0 }
      NULL_ADDR false with
  | .ok s => s
  | .error _ => toy

/-- The state `toy_unlinked` after the flush. -/
def toy_unlinked_flushed : f2fs_sb_info :=
  match flush_nat_entries toy_unlinked with
  | .ok s => s
  | .error _ => toy

/-- The toy layout as `init_node_manager` leaves it on a volume in use: the
NAT records the inodes 3 and 5 to 31 (28 valid nodes), the NIDs 4, 32, 33 and
34 are free, and the checkpoint names 32 as the next free NID, which sets
`next_scan_nid` to 32 and `next_allocator` to `(32 - 1) % 2`. -/
def toy_volume : f2fs_sb_info :=
  { toy with
    disk := { toy.disk with
      nat_page := fun blk _ i =>
        if i < 8 ∧ (8 * blk + i = 3 ∨ (5 ≤ 8 * blk + i ∧ 8 * blk + i ≤ 31))
        then { version := 0, ino := 8 * blk + i, block_addr := 100 + (8 * blk + i) }
        else { version := 0, ino := 0, block_addr := 0 } },
    free := { toy.free with next_scan_nid := 32, next_allocator := 1 },
    total_valid_node_count := 28 }

/-- The state `toy_volume` after the mount: `build_all_free_nids` has run. -/
def toy_volume_mounted : f2fs_sb_info :=
  match build_all_free_nids (fun _ => true) toy_volume with
  | .ok s => s
  | .error _ => toy

/-- The mounted volume after the file of inode 5 has got one more node. -/
def toy_volume_one : f2fs_sb_info :=
  match get_dnode_of_data_alloc 1 toy_volume_mounted 5 with
  | .ok r => r.1
  | .error _ => toy

/-- The mounted volume after the file of inode 5 has got two more nodes. -/
def toy_volume_two : f2fs_sb_info :=
  match get_dnode_of_data_alloc 1 toy_volume_one 5 with
  | .ok r => r.1
  | .error _ => toy

/-- The mounted volume after the file of inode 5 has got three more nodes:
the pool has run dry. -/
def toy_volume_dry : f2fs_sb_info :=
  match get_dnode_of_data_alloc 1 toy_volume_two 5 with
  | .ok r => r.1
  | .error _ => toy

/-- The test `alloc_nid` makes under `free_nid_list_lock[list_id]`: the list
it selects has free NIDs and no build is running. -/
def alloc_ready (sbi : f2fs_sb_info) : Prop :=
  sbi.free.percore_fcnt (alloc_list sbi) ≠ 0 ∧ sbi.free.build_lock = false

instance (sbi : f2fs_sb_info) : Decidable (alloc_ready sbi) := by
  unfold alloc_ready
  exact inferInstance

/-- One pass of `alloc_nid` through `retry` that ends in `goto retry`:
`next_allocator` is incremented and the section under `build_lock` runs for
the list selected, which calls `build_free_nids` if that list is still
empty. -/
def alloc_nid_pass (sbi : f2fs_sb_info) : Except Fault f2fs_sb_info :=
  alloc_nid_build (alloc_bump sbi) (alloc_list sbi)

/-- The state after `k` passes of `alloc_nid` that end in `goto retry`. -/
def alloc_nid_passes : Nat → f2fs_sb_info → Except Fault f2fs_sb_info
  | 0, sbi => .ok sbi
  | k + 1, sbi =>
    match alloc_nid_pass sbi with
    | .ok s => alloc_nid_passes k s
    | .error f => .error f

/-- The state `toy_jfree` while the memory budget of the free NIDs is used
up: `add_free_nid` returns -1. -/
def toy_jfree_low : f2fs_sb_info := { toy_jfree with avail_ram := 0 }

/-- The state `toy_jfree` after `alloc_nid` has returned. -/
def toy_jfree_taken : f2fs_sb_info :=
  match alloc_nid 3 toy_jfree with
  | .ok r => r.1
  | .error _ => toy

/-! # Lemmas -/

/-! ## Arrays and radix trees -/

theorem arr_set_same {α : Type} (a : Nat → α) (i : Nat) (v : α) : arr_set a i v i = v := by
  simp [arr_set]

theorem arr_set_other {α : Type} (a : Nat → α) (i j : Nat) (v : α) (h : j ≠ i) :
    arr_set a i v j = a j := by
  simp [arr_set, h]

theorem lookup_map {α : Type} (T : radix_tree_root α) (e n : Nat) (f : α → α) :
    radix_tree_lookup (T.map (fun p => if p.1 = e then (p.1, f p.2) else p)) n
      = if n = e then (radix_tree_lookup T n).map f else radix_tree_lookup T n := by
  induction T with
  | nil => simp [radix_tree_lookup]
  | cons p t ih =>
    simp only [List.map_cons, radix_tree_lookup]
    rw [ih]
    split_ifs <;> simp_all [radix_tree_lookup]

theorem lookup_put {α : Type} (T : radix_tree_root α) (k n : Nat) (v : α)
    (h : radix_tree_lookup T k = none) :
    radix_tree_lookup (radix_tree_put T k v) n
      = if n = k then some v else radix_tree_lookup T n := by
  induction T with
  | nil =>
    by_cases hn : n = k
    · simp [radix_tree_put, radix_tree_lookup, hn]
    · have : ¬ k = n := fun hh => hn hh.symm
      simp [radix_tree_put, radix_tree_lookup, hn, this]
  | cons p t ih =>
    simp only [radix_tree_lookup] at h
    by_cases hp : p.1 = k
    · simp [hp] at h
    · simp only [hp, if_false] at h
      simp only [radix_tree_put]
      by_cases hlt : k < p.1
      · simp only [hlt, if_true, radix_tree_lookup]
        by_cases hn : n = k
        · simp [hn]
        · have : ¬ k = n := fun hh => hn hh.symm
          simp [hn, this]
      · simp only [hlt, if_false, radix_tree_lookup, ih h]
        by_cases hn : n = k
        · subst hn; simp [hp]
        · simp [hn]

theorem lookup_delete {α : Type} (T : radix_tree_root α) (k n : Nat) :
    radix_tree_lookup (radix_tree_delete T k) n
      = if n = k then none else radix_tree_lookup T n := by
  induction T with
  | nil => simp [radix_tree_delete, radix_tree_lookup]
  | cons p t ih =>
    unfold radix_tree_delete at ih ⊢
    by_cases hp : p.1 = k
    · have : (p.1 != k) = false := by simp [hp]
      rw [List.filter_cons_of_neg (by simp [hp]), ih]
      by_cases hn : n = k
      · simp [hn]
      · have : ¬ p.1 = n := by rw [hp]; exact fun hh => hn hh.symm
        simp [hn, radix_tree_lookup, this]
    · rw [List.filter_cons_of_pos (by simp [hp])]
      simp only [radix_tree_lookup, ih]
      by_cases hn : n = k
      · subst hn; simp [hp]
      · simp [hn]

theorem f2fs_insert_ok {α : Type} (T : radix_tree_root α) (k : Nat) (v : α)
    (h : radix_tree_lookup T k = none) :
    f2fs_radix_tree_insert T k v = .ok (radix_tree_put T k v) := by
  simp [f2fs_radix_tree_insert, radix_tree_insert, h]

theorem f2fs_insert_inv {α : Type} {T r : radix_tree_root α} {k : Nat} {v : α}
    (h : f2fs_radix_tree_insert T k v = .ok r) :
    radix_tree_lookup T k = none ∧ r = radix_tree_put T k v := by
  unfold f2fs_radix_tree_insert radix_tree_insert at h
  cases hl : radix_tree_lookup T k with
  | none => rw [hl] at h; simp at h; exact ⟨rfl, h.symm⟩
  | some x => rw [hl] at h; simp at h

/-! ## Reads and writes through entry pointers -/

theorem nat_read_eq (sbi : f2fs_sb_info) (e : Nat) :
    nat_read sbi e = match __lookup_nat_cache sbi e with
      | some v => .ok v
      | none => .error Fault.oob := rfl

theorem nat_read_of_lookup {sbi : f2fs_sb_info} {e : Nat} {v : nat_entry}
    (h : __lookup_nat_cache sbi e = some v) : nat_read sbi e = .ok v := by
  rw [nat_read_eq, h]

theorem nat_read_inv {sbi : f2fs_sb_info} {e : Nat} {v : nat_entry}
    (h : nat_read sbi e = .ok v) : __lookup_nat_cache sbi e = some v := by
  rw [nat_read_eq] at h
  cases hl : __lookup_nat_cache sbi e with
  | none => rw [hl] at h; simp at h
  | some x => rw [hl] at h; simp at h; rw [h]

theorem lookup_congr {s1 s2 : f2fs_sb_info} (h1 : s1.nat.nat_root = s2.nat.nat_root)
    (h2 : s1.cfg = s2.cfg) (n : Nat) :
    __lookup_nat_cache s1 n = __lookup_nat_cache s2 n := by
  unfold __lookup_nat_cache TREE_IDX; rw [h1, h2]

theorem lookup_nat_modify (sbi : f2fs_sb_info) (e n : Nat) (f : nat_entry → nat_entry) :
    __lookup_nat_cache (nat_modify sbi e f) n
      = if n = e then (__lookup_nat_cache sbi n).map f else __lookup_nat_cache sbi n := by
  unfold __lookup_nat_cache nat_modify TREE_IDX
  simp only
  by_cases h : n % sbi.cfg.nat_tree_cnt = e % sbi.cfg.nat_tree_cnt
  · rw [h, arr_set_same, lookup_map]
  · rw [arr_set_other _ _ _ _ h]
    have : n ≠ e := fun hh => h (by rw [hh])
    simp [this]

theorem lookup_grab {sbi sbi' : f2fs_sb_info} {nid : Nat} (h : grab_nat_entry sbi nid = .ok sbi')
    (n : Nat) :
    __lookup_nat_cache sbi nid = none ∧
    __lookup_nat_cache sbi' n = if n = nid then
        some { ni := { nid := nid, ino := 0, blk_addr := 0, version := 0 },
               flag := { IS_CHECKPOINTED := true, HAS_FSYNCED_INODE := false,
                         HAS_LAST_FSYNC := true, IS_DIRTY := false } }
      else __lookup_nat_cache sbi n := by
  unfold grab_nat_entry at h
  simp only [bind, Except.bind] at h
  split at h
  · simp at h
  · rename_i r hr
    obtain ⟨h0, hr⟩ := f2fs_insert_inv hr
    simp only [Except.ok.injEq] at h
    subst h
    refine ⟨h0, ?_⟩
    unfold __lookup_nat_cache TREE_IDX
    simp only
    by_cases hs : n % sbi.cfg.nat_tree_cnt = nid % sbi.cfg.nat_tree_cnt
    · rw [hs, arr_set_same, hr, lookup_put _ _ _ _ h0]
      by_cases hn : n = nid
      · simp [hn, nat_reset_flag]
      · simp [hn, TREE_IDX, hs]
    · rw [arr_set_other _ _ _ _ hs]
      have : n ≠ nid := fun hh => hs (by rw [hh])
      simp [this]


/-! ## Frame facts of the list and set helpers -/

@[simp] theorem list_del_cfg (sbi : f2fs_sb_info) (e : Nat) :
    (list_del_nat_entry sbi e).cfg = sbi.cfg := rfl
@[simp] theorem list_del_root (sbi : f2fs_sb_info) (e : Nat) :
    (list_del_nat_entry sbi e).nat.nat_root = sbi.nat.nat_root := rfl
@[simp] theorem set_modify_cfg (sbi : f2fs_sb_info) (i k : Nat) (f : nat_entry_set → nat_entry_set) :
    (set_modify sbi i k f).cfg = sbi.cfg := rfl
@[simp] theorem set_modify_root (sbi : f2fs_sb_info) (i k : Nat) (f : nat_entry_set → nat_entry_set) :
    (set_modify sbi i k f).nat.nat_root = sbi.nat.nat_root := rfl
@[simp] theorem nat_modify_cfg (sbi : f2fs_sb_info) (e : Nat) (f : nat_entry → nat_entry) :
    (nat_modify sbi e f).cfg = sbi.cfg := rfl
@[simp] theorem with_set_cfg (sbi : f2fs_sb_info) (i k : Nat) : (with_set sbi i k).cfg = sbi.cfg := by
  unfold with_set; split <;> rfl
@[simp] theorem with_set_root (sbi : f2fs_sb_info) (i k : Nat) :
    (with_set sbi i k).nat.nat_root = sbi.nat.nat_root := by
  unfold with_set; split <;> rfl

theorem grab_inv {sbi sbi' : f2fs_sb_info} {nid : Nat} (h : grab_nat_entry sbi nid = .ok sbi') :
    __lookup_nat_cache sbi nid = none ∧ sbi' = grab_result sbi nid := by
  unfold grab_nat_entry at h
  simp only [bind, Except.bind] at h
  split at h
  · simp at h
  · rename_i r hr
    obtain ⟨h0, hr⟩ := f2fs_insert_inv hr
    simp only [Except.ok.injEq] at h
    subst h; subst hr
    exact ⟨h0, rfl⟩

theorem grab_ok {sbi : f2fs_sb_info} {nid : Nat} (h : __lookup_nat_cache sbi nid = none) :
    grab_nat_entry sbi nid = .ok (grab_result sbi nid) := by
  unfold grab_nat_entry
  unfold __lookup_nat_cache at h
  simp only [bind, Except.bind]
  rw [f2fs_insert_ok _ _ _ h]
  rfl

theorem lookup_grab_result {sbi : f2fs_sb_info} {nid : Nat}
    (h0 : __lookup_nat_cache sbi nid = none) (n : Nat) :
    __lookup_nat_cache (grab_result sbi nid) n = if n = nid then
        some { ni := { nid := nid, ino := 0, blk_addr := 0, version := 0 },
               flag := { IS_CHECKPOINTED := true, HAS_FSYNCED_INODE := false,
                         HAS_LAST_FSYNC := true, IS_DIRTY := false } }
      else __lookup_nat_cache sbi n := by
  unfold __lookup_nat_cache TREE_IDX grab_result at *
  simp only
  by_cases hs : n % sbi.cfg.nat_tree_cnt = nid % sbi.cfg.nat_tree_cnt
  · rw [hs, TREE_IDX, arr_set_same, lookup_put _ _ _ _ h0]
  · rw [TREE_IDX, arr_set_other _ _ _ _ hs]
    have : n ≠ nid := fun hh => hs (by rw [hh])
    simp [this]

/-- The two outcomes of `__set_nat_cache_dirty`. -/
theorem set_dirty_eq (sbi : f2fs_sb_info) (e : Nat) :
    __set_nat_cache_dirty sbi e = match __lookup_nat_cache sbi e with
      | none => .error Fault.oob
      | some v => if v.flag.IS_DIRTY = true then .ok sbi else .ok (set_dirty_result sbi e v) := by
  unfold __set_nat_cache_dirty
  rw [nat_read_eq]
  cases hv : __lookup_nat_cache sbi e with
  | none => rfl
  | some v =>
    simp only [bind, Except.bind]
    by_cases hd : v.flag.IS_DIRTY = true
    · simp [hd]
    · simp only [hd, Bool.false_eq_true, if_false]
      cases hl : radix_tree_lookup (sbi.nat.nat_set_root (TREE_IDX v.ni.nid sbi))
          (NAT_BLOCK_OFFSET sbi v.ni.nid) with
      | some x =>
        simp only [set_dirty_result, with_set, hl]
      | none =>
        simp only [set_dirty_result, with_set, hl, f2fs_insert_ok _ _ _ hl]

theorem set_dirty_result_cfg (sbi : f2fs_sb_info) (e : Nat) (v : nat_entry) :
    (set_dirty_result sbi e v).cfg = sbi.cfg := by
  simp only [set_dirty_result, nat_modify, set_modify, list_del_nat_entry, with_set_cfg]

theorem set_dirty_result_root (sbi : f2fs_sb_info) (e : Nat) (v : nat_entry) :
    (set_dirty_result sbi e v).nat.nat_root = (nat_modify sbi e
      (fun x => { x with flag := { x.flag with IS_DIRTY := true } })).nat.nat_root := by
  simp only [set_dirty_result, nat_modify, set_modify, list_del_nat_entry, TREE_IDX,
    with_set_cfg, with_set_root]

theorem lookup_set_dirty_result (sbi : f2fs_sb_info) (e : Nat) (v : nat_entry) (n : Nat) :
    __lookup_nat_cache (set_dirty_result sbi e v) n = if n = e then (__lookup_nat_cache sbi n).map
      (fun x => { x with flag := { x.flag with IS_DIRTY := true } }) else __lookup_nat_cache sbi n := by
  rw [← lookup_nat_modify]
  exact lookup_congr (set_dirty_result_root sbi e v) (set_dirty_result_cfg sbi e v) n

theorem set_dirty_of_dirty {sbi : f2fs_sb_info} {e : Nat} {v : nat_entry}
    (hv : __lookup_nat_cache sbi e = some v) (hd : v.flag.IS_DIRTY = true) :
    __set_nat_cache_dirty sbi e = .ok sbi := by
  rw [set_dirty_eq, hv]; simp [hd]

theorem set_dirty_of_clean {sbi : f2fs_sb_info} {e : Nat} {v : nat_entry}
    (hv : __lookup_nat_cache sbi e = some v) (hd : v.flag.IS_DIRTY = false) :
    __set_nat_cache_dirty sbi e = .ok (set_dirty_result sbi e v) := by
  rw [set_dirty_eq, hv]; simp [hd]

theorem set_dirty_inv {sbi sbi' : f2fs_sb_info} {e : Nat}
    (h : __set_nat_cache_dirty sbi e = .ok sbi') :
    ∃ v, __lookup_nat_cache sbi e = some v ∧
      ((v.flag.IS_DIRTY = true ∧ sbi' = sbi) ∨
       (v.flag.IS_DIRTY = false ∧ sbi' = set_dirty_result sbi e v)) := by
  cases hv : __lookup_nat_cache sbi e with
  | none => rw [set_dirty_eq, hv] at h; simp at h
  | some v =>
    refine ⟨v, rfl, ?_⟩
    cases hd : v.flag.IS_DIRTY with
    | true =>
      rw [set_dirty_of_dirty hv hd] at h
      simp only [Except.ok.injEq] at h
      exact Or.inl ⟨rfl, h.symm⟩
    | false =>
      rw [set_dirty_of_clean hv hd] at h
      simp only [Except.ok.injEq] at h
      exact Or.inr ⟨rfl, h.symm⟩

/-- What `__set_nat_cache_dirty` does to the cached entries: the entry it is
called on gets `IS_DIRTY`, nothing else changes. -/
theorem set_dirty_lookup {sbi sbi' : f2fs_sb_info} {e : Nat}
    (h : __set_nat_cache_dirty sbi e = .ok sbi') (n : Nat) :
    __lookup_nat_cache sbi' n = if n = e then (__lookup_nat_cache sbi n).map
      (fun x => { x with flag := { x.flag with IS_DIRTY := true } }) else __lookup_nat_cache sbi n := by
  obtain ⟨v, hv, h | h⟩ := set_dirty_inv h
  · obtain ⟨hd, rfl⟩ := h
    by_cases hn : n = e
    · subst hn
      rw [hv]
      simp only [if_true, Option.map_some']
      congr 1
      cases v with
      | mk ni flag => cases flag; simp_all
    · simp [hn]
  · obtain ⟨hd, rfl⟩ := h
    exact lookup_set_dirty_result sbi e v n

theorem set_dirty_cfg {sbi sbi' : f2fs_sb_info} {e : Nat}
    (h : __set_nat_cache_dirty sbi e = .ok sbi') : sbi'.cfg = sbi.cfg := by
  obtain ⟨v, hv, h | h⟩ := set_dirty_inv h
  · rw [h.2]
  · rw [h.2]; exact set_dirty_result_cfg _ _ _

theorem set_dirty_ok {sbi : f2fs_sb_info} {e : Nat} {v : nat_entry}
    (hv : __lookup_nat_cache sbi e = some v) : ∃ sbi', __set_nat_cache_dirty sbi e = .ok sbi' := by
  cases hd : v.flag.IS_DIRTY with
  | true => exact ⟨_, set_dirty_of_dirty hv hd⟩
  | false => exact ⟨_, set_dirty_of_clean hv hd⟩

/-! ## `set_node_addr` in stages -/

theorem nat_modify_comp (sbi : f2fs_sb_info) (e : Nat) (f g : nat_entry → nat_entry) :
    nat_modify (nat_modify sbi e f) e g = nat_modify sbi e (fun x => g (f x)) := by
  unfold nat_modify TREE_IDX
  simp only [arr_set_same, List.map_map]
  congr 2
  funext j
  by_cases hj : j = e % sbi.cfg.nat_tree_cnt
  · subst hj
    simp only [arr_set_same]
    apply List.map_congr_left
    intro p _
    by_cases hp : p.1 = e <;> simp [hp]
  · simp [arr_set, hj]

theorem lookup_sna_stage1 (sbi : f2fs_sb_info) (ni : node_info) (new_blkaddr : Nat) :
    __lookup_nat_cache (sna_stage1 sbi ni new_blkaddr) ni.nid = some (sna_entry sbi ni new_blkaddr) := by
  unfold sna_stage1 sna_entry
  cases hl : __lookup_nat_cache sbi ni.nid with
  | none =>
    simp only
    rw [lookup_nat_modify, lookup_grab_result hl]
    simp
  | some v =>
    simp only
    by_cases hn : new_blkaddr = NEW_ADDR
    · simp only [hn, if_true]
      rw [lookup_nat_modify, hl]; simp
    · simp only [hn, if_false]; exact hl

theorem sna_chain (s : f2fs_sb_info) (e new_blkaddr old : Nat) :
    (if (new_blkaddr == NEW_ADDR || new_blkaddr == NULL_ADDR) = true then
      nat_modify (nat_modify
        (if (old != NEW_ADDR && new_blkaddr == NULL_ADDR) = true then
          nat_modify s e (fun x =>
            { x with ni := { x.ni with version := inc_node_version x.ni.version } })
         else s) e (fun x => { x with ni := { x.ni with blk_addr := new_blkaddr } })) e
        (fun x => { x with flag := { x.flag with IS_CHECKPOINTED := false } })
     else
      nat_modify
        (if (old != NEW_ADDR && new_blkaddr == NULL_ADDR) = true then
          nat_modify s e (fun x =>
            { x with ni := { x.ni with version := inc_node_version x.ni.version } })
         else s) e (fun x => { x with ni := { x.ni with blk_addr := new_blkaddr } }))
    = nat_modify s e (sna_update new_blkaddr old) := by
  unfold sna_update
  cases (old != NEW_ADDR && new_blkaddr == NULL_ADDR) <;>
  cases (new_blkaddr == NEW_ADDR || new_blkaddr == NULL_ADDR) <;>
  simp only [Bool.false_eq_true, if_true, if_false, nat_modify_comp]

theorem bug_on_bind {α : Type} (c : Bool) (k : Unit → Except Fault α) :
    (match f2fs_bug_on c with
      | Except.error err => Except.error err
      | Except.ok v => k v) = if c = true then .error Fault.bug_on else k () := by
  cases c <;> rfl

/-- The function `set_node_addr` as its assertions followed by its update. -/
theorem set_node_addr_eq (sbi : f2fs_sb_info) (ni : node_info) (new_blkaddr : Nat)
    (fsync_done : Bool) :
    set_node_addr sbi ni new_blkaddr fsync_done =
      if sna_trip sbi ni new_blkaddr = true then .error Fault.bug_on
      else match __set_nat_cache_dirty
          (nat_modify (sna_stage1 sbi ni new_blkaddr) ni.nid
            (sna_update new_blkaddr (sna_entry sbi ni new_blkaddr).ni.blk_addr)) ni.nid with
        | .ok s => .ok (sna_fsync s ni fsync_done)
        | .error f => .error f := by
  have hst := lookup_sna_stage1 sbi ni new_blkaddr
  unfold set_node_addr
  cases hl : __lookup_nat_cache sbi ni.nid with
  | none =>
    have h1 : sna_stage1 sbi ni new_blkaddr
        = nat_modify (grab_result sbi ni.nid) ni.nid (fun x => { x with ni := ni }) := by
      simp only [sna_stage1, hl]
    simp only [grab_ok hl, bind, Except.bind, bug_on_bind]
    rw [← h1, nat_read_of_lookup hst]
    simp only [sna_chain]
    unfold sna_trip sna_fsync f2fs_bug_on
    simp only [hl]
    generalize sna_entry sbi ni new_blkaddr = w
    generalize __set_nat_cache_dirty _ _ = r
    cases (ni.blk_addr == NEW_ADDR) <;> cases (w.ni.blk_addr != ni.blk_addr) <;>
    cases (w.ni.blk_addr == NULL_ADDR && new_blkaddr == NULL_ADDR) <;>
    cases (w.ni.blk_addr == NEW_ADDR && new_blkaddr == NEW_ADDR) <;>
    cases (w.ni.blk_addr != NEW_ADDR && w.ni.blk_addr != NULL_ADDR && new_blkaddr == NEW_ADDR) <;>
    cases r <;> first
      | rfl
      | (dsimp only
         cases (if (ni.nid != ni.ino) = true
            then Option.map (fun _ => ni.ino) (__lookup_nat_cache _ ni.ino) else some ni.nid) <;> rfl)
  | some v =>
    by_cases hn : new_blkaddr = NEW_ADDR
    · have h1 : sna_stage1 sbi ni new_blkaddr
          = nat_modify sbi ni.nid (fun x => { x with ni := ni }) := by
        simp only [sna_stage1, hl, hn, if_true]
      simp only [hn, if_true, bind, Except.bind]
      rw [hn] at h1 hst
      rw [← h1]
      unfold sna_trip sna_fsync f2fs_bug_on
      simp only [hl, hn]
      cases (ni.blk_addr != NULL_ADDR)
      · simp only [Bool.false_eq_true, if_false, nat_read_of_lookup hst, sna_chain]
        generalize sna_entry sbi ni NEW_ADDR = w
        generalize __set_nat_cache_dirty _ _ = r
        cases (w.ni.blk_addr != ni.blk_addr) <;>
        cases (w.ni.blk_addr == NULL_ADDR && NEW_ADDR == NULL_ADDR) <;>
        cases (w.ni.blk_addr == NEW_ADDR && NEW_ADDR == NEW_ADDR) <;>
        cases (w.ni.blk_addr != NEW_ADDR && w.ni.blk_addr != NULL_ADDR && NEW_ADDR == NEW_ADDR) <;>
        cases r <;> first
          | rfl
          | (dsimp only
             cases (if (ni.nid != ni.ino) = true
                then Option.map (fun _ => ni.ino) (__lookup_nat_cache _ ni.ino) else some ni.nid) <;> rfl)
      · simp
    · have h1 : sna_stage1 sbi ni new_blkaddr = sbi := by
        simp only [sna_stage1, hl, hn, if_false]
      have hb : (new_blkaddr == NEW_ADDR) = false := by simp [hn]
      rw [h1] at hst
      rw [h1]
      simp only [hn, if_false, bind, Except.bind, nat_read_of_lookup hst, sna_chain]
      unfold sna_trip sna_fsync f2fs_bug_on
      simp only [hl, hb, Bool.false_and, Bool.and_false, Bool.false_or]
      generalize sna_entry sbi ni new_blkaddr = w
      generalize __set_nat_cache_dirty _ _ = r
      cases (w.ni.blk_addr != ni.blk_addr) <;>
      cases (w.ni.blk_addr == NULL_ADDR && new_blkaddr == NULL_ADDR) <;>
      cases r <;> first
        | rfl
        | (dsimp only
           cases (if (ni.nid != ni.ino) = true
              then Option.map (fun _ => ni.ino) (__lookup_nat_cache _ ni.ino) else some ni.nid) <;> rfl)

theorem lookup_sna_update (sbi : f2fs_sb_info) (ni : node_info) (new_blkaddr : Nat) :
    __lookup_nat_cache (nat_modify (sna_stage1 sbi ni new_blkaddr) ni.nid
        (sna_update new_blkaddr (sna_entry sbi ni new_blkaddr).ni.blk_addr)) ni.nid
      = some (sna_update new_blkaddr (sna_entry sbi ni new_blkaddr).ni.blk_addr
          (sna_entry sbi ni new_blkaddr)) := by
  rw [lookup_nat_modify, lookup_sna_stage1]; simp

theorem set_node_addr_trip {sbi : f2fs_sb_info} {ni : node_info} {new_blkaddr : Nat}
    (fsync_done : Bool) (h : sna_trip sbi ni new_blkaddr = true) :
    set_node_addr sbi ni new_blkaddr fsync_done = .error Fault.bug_on := by
  rw [set_node_addr_eq, if_pos h]

theorem set_node_addr_pass {sbi : f2fs_sb_info} {ni : node_info} {new_blkaddr : Nat}
    (fsync_done : Bool) (h : sna_trip sbi ni new_blkaddr = false) :
    ∃ s, __set_nat_cache_dirty (nat_modify (sna_stage1 sbi ni new_blkaddr) ni.nid
        (sna_update new_blkaddr (sna_entry sbi ni new_blkaddr).ni.blk_addr)) ni.nid = .ok s ∧
      set_node_addr sbi ni new_blkaddr fsync_done = .ok (sna_fsync s ni fsync_done) := by
  obtain ⟨s, hs⟩ := set_dirty_ok (lookup_sna_update sbi ni new_blkaddr)
  refine ⟨s, hs, ?_⟩
  rw [set_node_addr_eq, h, hs]
  simp

theorem set_node_addr_inv {sbi sbi' : f2fs_sb_info} {ni : node_info} {new_blkaddr : Nat}
    {fsync_done : Bool} (h : set_node_addr sbi ni new_blkaddr fsync_done = .ok sbi') :
    sna_trip sbi ni new_blkaddr = false ∧
    ∃ s, __set_nat_cache_dirty (nat_modify (sna_stage1 sbi ni new_blkaddr) ni.nid
        (sna_update new_blkaddr (sna_entry sbi ni new_blkaddr).ni.blk_addr)) ni.nid = .ok s ∧
      sbi' = sna_fsync s ni fsync_done := by
  cases ht : sna_trip sbi ni new_blkaddr with
  | true => rw [set_node_addr_trip fsync_done ht] at h; simp at h
  | false =>
    obtain ⟨s, hs, heq⟩ := set_node_addr_pass fsync_done ht
    rw [heq] at h
    simp only [Except.ok.injEq] at h
    exact ⟨rfl, s, hs, h.symm⟩

/-- The fsync-mark part of `set_node_addr` changes flags only. -/
theorem lookup_sna_fsync (s : f2fs_sb_info) (ni : node_info) (fsync_done : Bool) (n : Nat) :
    (__lookup_nat_cache (sna_fsync s ni fsync_done) n).map (fun x => x.ni)
      = (__lookup_nat_cache s n).map (fun x => x.ni) := by
  unfold sna_fsync
  simp only
  split
  · rfl
  · rename_i e2 _
    rw [lookup_nat_modify]
    cases (fsync_done && ni.nid == ni.ino)
    · simp only [Bool.false_eq_true, if_false]
      by_cases hn : n = e2
      · simp only [hn, if_true, Option.map_map]; rfl
      · simp only [hn, if_false]
    · simp only [if_true, lookup_nat_modify]
      by_cases hn : n = e2
      · simp only [hn, if_true, Option.map_map]; rfl
      · simp only [hn, if_false]

theorem sna_entry_nid (sbi : f2fs_sb_info) (ni : node_info) (new_blkaddr : Nat)
    (h : ∀ v, __lookup_nat_cache sbi ni.nid = some v → v.ni.nid = ni.nid) :
    (sna_entry sbi ni new_blkaddr).ni.nid = ni.nid := by
  unfold sna_entry
  cases hl : __lookup_nat_cache sbi ni.nid with
  | none => rfl
  | some v =>
    simp only
    split
    · rfl
    · exact h v hl

/-- After a successful `set_node_addr` the entry of `ni.nid` is cached with
the new address. -/
theorem set_node_addr_lookup {sbi sbi' : f2fs_sb_info} {ni : node_info} {new_blkaddr : Nat}
    {fsync_done : Bool} (h : set_node_addr sbi ni new_blkaddr fsync_done = .ok sbi') :
    ∃ e, __lookup_nat_cache sbi' ni.nid = some e ∧
      e.ni = (sna_update new_blkaddr (sna_entry sbi ni new_blkaddr).ni.blk_addr
          (sna_entry sbi ni new_blkaddr)).ni := by
  obtain ⟨_, s, hs, rfl⟩ := set_node_addr_inv h
  have h1 := set_dirty_lookup hs ni.nid
  rw [lookup_sna_update] at h1
  simp only [if_true, Option.map_some'] at h1
  have h2 := lookup_sna_fsync s ni fsync_done ni.nid
  rw [h1] at h2
  cases hl : __lookup_nat_cache (sna_fsync s ni fsync_done) ni.nid with
  | none => rw [hl] at h2; simp at h2
  | some e =>
    rw [hl] at h2
    simp only [Option.map_some', Option.some.injEq] at h2
    exact ⟨e, rfl, h2⟩

/-! ## Free-NID pool: what the operations leave alone -/

theorem free_only_refl (s : f2fs_sb_info) : free_only s s := ⟨rfl, rfl, rfl, rfl, rfl⟩

theorem free_only_trans {a b c : f2fs_sb_info} (h1 : free_only a b) (h2 : free_only b c) :
    free_only a c :=
  ⟨h2.1.trans h1.1, h2.2.1.trans h1.2.1, h2.2.2.1.trans h1.2.2.1,
   h2.2.2.2.1.trans h1.2.2.2.1, h2.2.2.2.2.trans h1.2.2.2.2⟩

theorem free_only_set_free (s : f2fs_sb_info) (f : free_pool) :
    free_only s { s with free := f } := ⟨rfl, rfl, rfl, rfl, rfl⟩

theorem available_free_memory_free_only (s : f2fs_sb_info) :
    free_only s (available_free_memory s mem_type.FREE_NIDS).1 := ⟨rfl, rfl, rfl, rfl, rfl⟩

theorem add_free_nid_free_only (s : f2fs_sb_info) (nid : Nat) (build : Bool) :
    free_only s (add_free_nid s nid build).1 := by
  unfold add_free_nid
  simp only
  repeat' split
  all_goals exact available_free_memory_free_only s

theorem del_free_nid_free_only {s s' : f2fs_sb_info} {i : Nat}
    (h : __del_from_free_nid_list s i = .ok s') : free_only s s' := by
  unfold __del_from_free_nid_list at h
  simp only [bind, Except.bind] at h
  split at h
  · simp at h
  · simp only [Except.ok.injEq] at h
    rw [← h]
    exact ⟨rfl, rfl, rfl, rfl, rfl⟩

theorem remove_free_nid_free_only {s s' : f2fs_sb_info} {nid : Nat}
    (h : remove_free_nid s nid = .ok s') : free_only s s' := by
  unfold remove_free_nid at h
  simp only at h
  split at h
  · split at h
    · simp only [bind, Except.bind] at h
      split at h
      · simp at h
      · rename_i s1 hs1
        simp only [Except.ok.injEq] at h
        rw [← h]
        exact free_only_trans (del_free_nid_free_only hs1) ⟨rfl, rfl, rfl, rfl, rfl⟩
    · simp only [Except.ok.injEq] at h
      rw [← h]; exact free_only_refl s
  · simp only [Except.ok.injEq] at h
    rw [← h]; exact free_only_refl s

theorem build_free_nids_journal_free_only (cnt : Nat) :
    ∀ (s s' : f2fs_sb_info) (i : Nat), build_free_nids_journal cnt s i = .ok s' → free_only s s' := by
  induction cnt with
  | zero =>
    intro s s' i h
    simp only [build_free_nids_journal, Except.ok.injEq] at h
    rw [← h]; exact free_only_refl s
  | succ n ih =>
    intro s s' i h
    simp only [build_free_nids_journal, bind, Except.bind] at h
    by_cases ha : (s.disk.nat_j i).ne.block_addr = NULL_ADDR
    · simp only [ha, if_true] at h
      exact free_only_trans (add_free_nid_free_only _ _ _) (ih _ _ _ h)
    · simp only [ha, if_false] at h
      cases hr : remove_free_nid s (s.disk.nat_j i).nid with
      | error f => rw [hr] at h; simp at h
      | ok s1 =>
        rw [hr] at h
        exact free_only_trans (remove_free_nid_free_only hr) (ih _ _ _ h)

theorem build_free_nids_free_only {s s' : f2fs_sb_info} (h : build_free_nids s = .ok s') :
    free_only s s' :=
  build_free_nids_journal_free_only _ _ _ _ h

theorem alloc_nid_take_free_only {s s' : f2fs_sb_info} {l n : Nat}
    (h : alloc_nid_take s l = .ok (s', n)) : free_only s s' := by
  unfold alloc_nid_take at h
  simp only [bind, Except.bind] at h
  split at h
  · simp at h
  · split at h
    · simp at h
    · split at h
      · simp at h
      · simp only [Except.ok.injEq, Prod.mk.injEq] at h
        rw [← h.1]
        exact ⟨rfl, rfl, rfl, rfl, rfl⟩

theorem alloc_nid_build_free_only {s s' : f2fs_sb_info} {l : Nat}
    (h : alloc_nid_build s l = .ok s') : free_only s s' := by
  unfold alloc_nid_build at h
  simp only [bind, Except.bind] at h
  cases hb : s.free.build_lock with
  | true => simp [hb] at h
  | false =>
    simp only [hb, Bool.false_eq_true, if_false] at h
    by_cases hf : s.free.percore_fcnt l = 0
    · simp only [hf, if_true] at h
      cases hr : build_free_nids
          { s with free := { s.free with build_lock := true } } with
      | error f => rw [hr] at h; simp at h
      | ok s1 =>
        rw [hr] at h
        simp only [Except.ok.injEq] at h
        rw [← h]
        exact free_only_trans (free_only_trans (free_only_set_free s _)
          (build_free_nids_free_only hr)) (free_only_set_free s1 _)
    · simp only [hf, if_false, Except.ok.injEq] at h
      rw [← h]
      exact ⟨rfl, rfl, rfl, rfl, rfl⟩

/-- One pass of `alloc_nid` through `retry`, for a state that passes the
NID-count check. -/
theorem alloc_nid_succ (fuel : Nat) (sbi : f2fs_sb_info)
    (h : ¬ (sbi.total_valid_node_count + 1) % 4294967296 > sbi.cfg.available_nids) :
    alloc_nid (fuel + 1) sbi =
      (let nid_list_cnt : Int := (sbi.cfg.nid_list_count : Int)
       let v := atomic_inc_return sbi.free.next_allocator
       let sbi := { sbi with free := { sbi.free with next_allocator := v } }
       if nid_list_cnt = 0 then .error Fault.oob else
       let list_id_int := Int.tmod v nid_list_cnt
       if list_id_int < 0 then .error Fault.oob else
       let list_id := list_id_int.toNat
       if sbi.free.percore_fcnt list_id ≠ 0 ∧ sbi.free.build_lock = false then
         match alloc_nid_take sbi list_id with
         | .ok r => .ok (r.1, some r.2)
         | .error f => .error f
       else
         match alloc_nid_build sbi list_id with
         | .ok sbi => alloc_nid fuel sbi
         | .error f => .error f) := by
  rw [alloc_nid]
  simp only [h, if_false, bind, Except.bind]
  repeat' split
  all_goals first | rfl | simp_all

/-- What every returning run of `alloc_nid` satisfies: only the free pool
changes, and the run reports failure exactly when the NID-count check fails. -/
theorem alloc_nid_spec (fuel : Nat) :
    ∀ (sbi sbi' : f2fs_sb_info) (r : Option Nat), alloc_nid fuel sbi = .ok (sbi', r) →
      free_only sbi sbi' ∧
      (r = none ↔ (sbi.total_valid_node_count + 1) % 4294967296 > sbi.cfg.available_nids) ∧
      (r = none → sbi' = sbi) := by
  induction fuel with
  | zero => intro sbi sbi' r h; simp [alloc_nid] at h
  | succ n ih =>
    intro sbi sbi' r h
    by_cases hc : (sbi.total_valid_node_count + 1) % 4294967296 > sbi.cfg.available_nids
    · rw [alloc_nid] at h
      simp only [hc, if_true, Except.ok.injEq, Prod.mk.injEq] at h
      obtain ⟨rfl, rfl⟩ := h
      exact ⟨free_only_refl _, by simp [hc], fun _ => rfl⟩
    · rw [alloc_nid_succ n sbi hc] at h
      simp only at h
      split at h
      · simp at h
      · split at h
        · simp at h
        · split at h
          · split at h
            · rename_i r1 hr1
              simp only [Except.ok.injEq, Prod.mk.injEq] at h
              obtain ⟨rfl, rfl⟩ := h
              have := @alloc_nid_take_free_only _ r1.1 _ r1.2 hr1
              exact ⟨free_only_trans ⟨rfl, rfl, rfl, rfl, rfl⟩ this, by simp [hc], by simp⟩
            · simp at h
          · split at h
            · rename_i s1 hs1
              have hb := alloc_nid_build_free_only hs1
              obtain ⟨h1, h2, h3⟩ := ih _ _ _ h
              have hfo : free_only sbi s1 := free_only_trans ⟨rfl, rfl, rfl, rfl, rfl⟩ hb
              refine ⟨free_only_trans hfo h1, ?_, ?_⟩
              · rw [h2, hfo.1, hfo.2.2.2.2]
              · intro hr
                exact absurd ((by rw [← hfo.1, ← hfo.2.2.2.2]; exact h2.1 hr)) hc
            · simp at h

/-! ## More facts about radix trees -/

theorem mem_of_lookup {α : Type} {T : radix_tree_root α} {k : Nat} {v : α}
    (h : radix_tree_lookup T k = some v) : (k, v) ∈ T := by
  induction T with
  | nil => simp [radix_tree_lookup] at h
  | cons p t ih =>
    simp only [radix_tree_lookup] at h
    by_cases hp : p.1 = k
    · simp only [hp, if_true, Option.some.injEq] at h
      have : p = (k, v) := by rw [← hp, ← h]
      rw [this]; exact List.mem_cons_self _ _
    · simp only [hp, if_false] at h
      exact List.mem_cons_of_mem _ (ih h)

theorem lookup_none_of_not_mem {α : Type} {T : radix_tree_root α} {k : Nat}
    (h : ∀ p ∈ T, p.1 ≠ k) : radix_tree_lookup T k = none := by
  induction T with
  | nil => rfl
  | cons p t ih =>
    simp only [radix_tree_lookup]
    have hp : p.1 ≠ k := h p (List.mem_cons_self _ _)
    simp only [hp, if_false]
    exact ih (fun q hq => h q (List.mem_cons_of_mem _ hq))

theorem not_mem_of_lookup_none {α : Type} {T : radix_tree_root α} {k : Nat}
    (h : radix_tree_lookup T k = none) : ∀ p ∈ T, p.1 ≠ k := by
  induction T with
  | nil => intro p hp; cases hp
  | cons q t ih =>
    simp only [radix_tree_lookup] at h
    by_cases hq : q.1 = k
    · simp [hq] at h
    · simp only [hq, if_false] at h
      intro p hp
      rcases List.mem_cons.1 hp with rfl | hp
      · exact hq
      · exact ih h p hp

theorem lookup_of_mem {α : Type} {T : radix_tree_root α} {k : Nat} {v : α}
    (hs : (T.map Prod.fst).Pairwise (· < ·)) (h : (k, v) ∈ T) :
    radix_tree_lookup T k = some v := by
  induction T with
  | nil => cases h
  | cons p t ih =>
    simp only [List.map_cons, List.pairwise_cons] at hs
    simp only [radix_tree_lookup]
    rcases List.mem_cons.1 h with rfl | h
    · simp
    · have hlt : p.1 < k := hs.1 k (List.mem_map.2 ⟨(k, v), h, rfl⟩)
      have hne : p.1 ≠ k := Nat.ne_of_lt hlt
      simp only [hne, if_false]
      exact ih hs.2 h

theorem mem_put {α : Type} (T : radix_tree_root α) (k : Nat) (v : α) (p : Nat × α) :
    p ∈ radix_tree_put T k v ↔ p = (k, v) ∨ p ∈ T := by
  induction T with
  | nil => simp [radix_tree_put]
  | cons q t ih =>
    simp only [radix_tree_put]
    split
    · simp
    · simp only [List.mem_cons, ih]
      tauto

theorem length_put {α : Type} (T : radix_tree_root α) (k : Nat) (v : α) :
    (radix_tree_put T k v).length = T.length + 1 := by
  induction T with
  | nil => rfl
  | cons q t ih =>
    simp only [radix_tree_put]
    split
    · simp
    · simp [ih]

theorem put_sorted {α : Type} {T : radix_tree_root α} {k : Nat} (v : α)
    (hs : (T.map Prod.fst).Pairwise (· < ·)) (hk : radix_tree_lookup T k = none) :
    ((radix_tree_put T k v).map Prod.fst).Pairwise (· < ·) := by
  induction T with
  | nil => simp [radix_tree_put]
  | cons q t ih =>
    simp only [List.map_cons, List.pairwise_cons] at hs
    have hq : q.1 ≠ k := not_mem_of_lookup_none hk q (List.mem_cons_self _ _)
    have hk' : radix_tree_lookup t k = none := by
      simp only [radix_tree_lookup, hq, if_false] at hk; exact hk
    simp only [radix_tree_put]
    by_cases hlt : k < q.1
    · simp only [hlt, if_true, List.map_cons, List.pairwise_cons]
      refine ⟨?_, hs⟩
      intro a ha
      rcases List.mem_cons.1 ha with rfl | ha
      · exact hlt
      · exact Nat.lt_trans hlt (hs.1 a ha)
    · simp only [hlt, if_false, List.map_cons, List.pairwise_cons]
      refine ⟨?_, ih hs.2 hk'⟩
      intro a ha
      obtain ⟨p, hp, rfl⟩ := List.mem_map.1 ha
      rcases (mem_put t k v p).1 hp with rfl | hp
      · show q.1 < k
        omega
      · exact hs.1 p.1 (List.mem_map.2 ⟨p, hp, rfl⟩)

theorem keys_map_upd {α : Type} (T : radix_tree_root α) (e : Nat) (f : α → α) :
    (T.map (fun p => if p.1 = e then (p.1, f p.2) else p)).map Prod.fst = T.map Prod.fst := by
  rw [List.map_map]
  apply List.map_congr_left
  intro p _
  simp only [Function.comp]
  split <;> rfl

theorem delete_sorted {α : Type} {T : radix_tree_root α} (k : Nat)
    (hs : (T.map Prod.fst).Pairwise (· < ·)) :
    ((radix_tree_delete T k).map Prod.fst).Pairwise (· < ·) := by
  unfold radix_tree_delete
  rw [List.pairwise_map] at hs ⊢
  exact hs.filter _

theorem length_delete {α : Type} {T : radix_tree_root α} {k : Nat} {v : α}
    (hs : (T.map Prod.fst).Pairwise (· < ·)) (h : radix_tree_lookup T k = some v) :
    (radix_tree_delete T k).length + 1 = T.length := by
  induction T with
  | nil => simp [radix_tree_lookup] at h
  | cons p t ih =>
    simp only [List.map_cons, List.pairwise_cons] at hs
    unfold radix_tree_delete at ih ⊢
    by_cases hp : p.1 = k
    · rw [List.filter_cons_of_neg (by simp [hp])]
      have : t.filter (fun q => q.1 != k) = t := by
        apply List.filter_eq_self.2
        intro q hq
        have := hs.1 q.1 (List.mem_map.2 ⟨q, hq, rfl⟩)
        simp only [bne_iff_ne, ne_eq]
        omega
      rw [this]; rfl
    · rw [List.filter_cons_of_pos (by simp [hp])]
      simp only [radix_tree_lookup, hp, if_false] at h
      simp only [List.length_cons]
      rw [ih hs.2 h]

theorem length_le_of_sorted_lt {l : List Nat} (hs : l.Pairwise (· < ·)) (M : Nat)
    (hM : ∀ x ∈ l, x < M) : l.length ≤ M := by
  have hnd : l.Nodup := hs.imp (fun h => Nat.ne_of_lt h)
  have hsub : l ⊆ List.range M := fun x hx => List.mem_range.2 (hM x hx)
  have := (List.Nodup.subperm hnd hsub).length_le
  simpa using this

theorem length_le_of_nodup_keys {α : Type} {T : radix_tree_root α} {l : List Nat}
    (hnd : l.Nodup) (h : ∀ x ∈ l, ∃ v, radix_tree_lookup T x = some v) :
    l.length ≤ T.length := by
  have hsub : l ⊆ T.map Prod.fst := by
    intro x hx
    obtain ⟨v, hv⟩ := h x hx
    exact List.mem_map.2 ⟨(x, v), mem_of_lookup hv, rfl⟩
  have := (List.Nodup.subperm hnd hsub).length_le
  simpa using this

/-! ## The shard invariant under the list-level steps -/

theorem lookup_strip (n k : Nat) (ST : radix_tree_root nat_entry_set) :
    radix_tree_lookup (strip n ST) k = (radix_tree_lookup ST k).map
      (fun h => { h with entry_list := h.entry_list.filter (fun x => x != n) }) := by
  induction ST with
  | nil => rfl
  | cons p t ih =>
    unfold strip at ih ⊢
    simp only [List.map_cons, radix_tree_lookup]
    split
    · rfl
    · exact ih

theorem filter_ne_of_not_mem {l : List Nat} {n : Nat} (h : n ∉ l) :
    l.filter (fun x => x != n) = l := by
  apply List.filter_eq_self.2
  intro a ha
  simp only [bne_iff_ne, ne_eq]
  intro hh; exact h (hh ▸ ha)

theorem strip_of_not_mem {n : Nat} {ST : radix_tree_root nat_entry_set}
    (h : ∀ q ∈ ST, n ∉ q.2.entry_list) : strip n ST = ST := by
  unfold strip
  conv => rhs; rw [← List.map_id ST]
  apply List.map_congr_left
  intro q hq
  rw [filter_ne_of_not_mem (h q hq)]
  rfl

theorem length_filter_ne {l : List Nat} {n : Nat} (hnd : l.Nodup) (h : n ∈ l) :
    (l.filter (fun x => x != n)).length + 1 = l.length := by
  induction l with
  | nil => cases h
  | cons a t ih =>
    simp only [List.nodup_cons] at hnd
    by_cases ha : a = n
    · subst ha
      rw [List.filter_cons_of_neg (by simp), filter_ne_of_not_mem hnd.1]
      rfl
    · rw [List.filter_cons_of_pos (by simp [ha])]
      have hn : n ∈ t := by
        rcases List.mem_cons.1 h with rfl | h
        · exact absurd rfl ha
        · exact h
      simp only [List.length_cons]
      rw [ih hnd.2 hn]

section shard
variable {N S M s : Nat} {T : radix_tree_root nat_entry} {ST : radix_tree_root nat_entry_set}
  {L : List Nat} {c d : Nat}

theorem shard_inv.key_of_lookup (h : shard_inv N S M s T ST L c d) {n : Nat} {e : nat_entry}
    (he : radix_tree_lookup T n = some e) : e.ni.nid = n ∧ n % S = s ∧ n < M :=
  h.root_key (n, e) (mem_of_lookup he)

theorem shard_inv.length_lt (h : shard_inv N S M s T ST L c d) (hM : M < 4294967296) :
    T.length < 4294967296 := by
  have := length_le_of_sorted_lt h.root_sorted M (by
    intro x hx
    obtain ⟨p, hp, rfl⟩ := List.mem_map.1 hx
    exact (h.root_key p hp).2.2)
  simp only [List.length_map] at this
  omega

theorem shard_inv.not_mem_lru (h : shard_inv N S M s T ST L c d) {n : Nat}
    (hn : ∀ e, radix_tree_lookup T n = some e → e.flag.IS_DIRTY = true) : n ∉ L := by
  intro hl
  obtain ⟨e, he, hd⟩ := h.lru_ok n hl
  rw [hn e he] at hd
  cases hd

theorem shard_inv.not_mem_sets (h : shard_inv N S M s T ST L c d) {n : Nat}
    (hn : ∀ e, radix_tree_lookup T n = some e → e.flag.IS_DIRTY = false) :
    ∀ q ∈ ST, n ∉ q.2.entry_list := by
  intro q hq hl
  obtain ⟨_, e, he, hd⟩ := (h.set_ok q hq).2.2.2.2.2 n hl
  rw [hn e he] at hd
  cases hd

/-- A set of the tree holds at most as many entries as the dirty counter says. -/
theorem entry_cnt_le_sum {ST : radix_tree_root nat_entry_set} {q : Nat × nat_entry_set}
    (hq : q ∈ ST) : q.2.entry_cnt ≤ (ST.map (fun q => q.2.entry_cnt)).sum :=
  List.single_le_sum (fun _ _ => Nat.zero_le _) _ (List.mem_map.2 ⟨q, hq, rfl⟩)

end shard

section shard_steps
variable {N S M s : Nat} {T : radix_tree_root nat_entry} {ST : radix_tree_root nat_entry_set}
  {L : List Nat} {c d : Nat}

/-- A write through an entry pointer that keeps the NID and the dirty flag
keeps the shard invariant. -/
theorem shard_inv.modify_shard (h : shard_inv N S M s T ST L c d) (e : Nat) (f : nat_entry → nat_entry)
    (hf1 : ∀ x, x.ni.nid = e → (f x).ni.nid = e)
    (hf2 : ∀ x, (f x).flag.IS_DIRTY = x.flag.IS_DIRTY) :
    shard_inv N S M s (T.map (fun p => if p.1 = e then (p.1, f p.2) else p)) ST L c d := by
  have hl : ∀ n x, radix_tree_lookup T n = some x →
      ∃ y, radix_tree_lookup (T.map (fun p => if p.1 = e then (p.1, f p.2) else p)) n = some y ∧
        y.flag.IS_DIRTY = x.flag.IS_DIRTY := by
    intro n x hx
    rw [lookup_map, hx]
    by_cases hn : n = e
    · exact ⟨f x, by simp [hn], hf2 x⟩
    · exact ⟨x, by simp [hn], rfl⟩
  refine ⟨?_, ?_, h.set_sorted, ?_, h.lru_nodup, ?_, ?_, ?_, h.dirty_eq, ?_⟩
  · rw [keys_map_upd]; exact h.root_sorted
  · intro p hp
    obtain ⟨q, hq, rfl⟩ := List.mem_map.1 hp
    have := h.root_key q hq
    by_cases hqe : q.1 = e
    · simp only [hqe, if_true]
      exact ⟨hf1 _ (by rw [this.1, hqe]), by rw [← hqe]; exact this.2.1, by rw [← hqe]; exact this.2.2⟩
    · simp only [hqe, if_false]; exact this
  · intro q hq
    obtain ⟨h1, h2, h3, h4, h5, h6⟩ := h.set_ok q hq
    refine ⟨h1, h2, h3, h4, h5, ?_⟩
    intro n hn
    obtain ⟨h7, x, hx, hd⟩ := h6 n hn
    obtain ⟨y, hy, hyd⟩ := hl n x hx
    exact ⟨h7, y, hy, by rw [hyd, hd]⟩
  · intro n hn
    obtain ⟨x, hx, hd⟩ := h.lru_ok n hn
    obtain ⟨y, hy, hyd⟩ := hl n x hx
    exact ⟨y, hy, by rw [hyd, hd]⟩
  · intro p hp
    obtain ⟨q, hq, rfl⟩ := List.mem_map.1 hp
    have := h.linked q hq
    by_cases hqe : q.1 = e
    · simp only [hqe, if_true, hf2]
      rw [← hqe]; exact this
    · simp only [hqe, if_false]; exact this
  · rw [List.length_map]; exact h.cnt_eq
  · rw [List.length_map]; exact h.total

/-- A new clean entry put in the tree and linked at the tail of the clean
list keeps the shard invariant. -/
theorem shard_inv.grab_shard (h : shard_inv N S M s T ST L c d) (hM : M < 4294967296) {n : Nat}
    (v : nat_entry) (hn : radix_tree_lookup T n = none) (hs : n % S = s) (hlt : n < M)
    (hv1 : v.ni.nid = n) (hv2 : v.flag.IS_DIRTY = false) :
    shard_inv N S M s (radix_tree_put T n v) ST (L ++ [n]) (u32_inc c) d := by
  have hl : ∀ m x, radix_tree_lookup T m = some x →
      radix_tree_lookup (radix_tree_put T n v) m = some x := by
    intro m x hx
    rw [lookup_put _ _ _ _ hn]
    have : m ≠ n := by rintro rfl; rw [hn] at hx; cases hx
    simp [this, hx]
  have hnl : n ∉ L := h.not_mem_lru (by intro e he; rw [hn] at he; cases he)
  have hkey : ∀ p ∈ radix_tree_put T n v, p.2.ni.nid = p.1 ∧ p.1 % S = s ∧ p.1 < M := by
    intro p hp
    rcases (mem_put _ _ _ _).1 hp with rfl | hp
    · exact ⟨hv1, hs, hlt⟩
    · exact h.root_key p hp
  have hsorted := put_sorted v h.root_sorted hn
  refine ⟨hsorted, hkey, h.set_sorted, ?_, ?_, ?_, ?_, ?_, h.dirty_eq, ?_⟩
  · intro q hq
    obtain ⟨h1, h2, h3, h4, h5, h6⟩ := h.set_ok q hq
    refine ⟨h1, h2, h3, h4, h5, ?_⟩
    intro m hm
    obtain ⟨h7, x, hx, hd⟩ := h6 m hm
    exact ⟨h7, x, hl m x hx, hd⟩
  · exact List.Nodup.append h.lru_nodup (List.nodup_singleton n)
      (by intro a ha hb; rw [List.mem_singleton] at hb; exact hnl (hb ▸ ha))
  · intro m hm
    rcases List.mem_append.1 hm with hm | hm
    · obtain ⟨x, hx, hd⟩ := h.lru_ok m hm
      exact ⟨x, hl m x hx, hd⟩
    · rw [List.mem_singleton] at hm
      subst hm
      exact ⟨v, by rw [lookup_put _ _ _ _ hn]; simp, hv2⟩
  · intro p hp
    rcases (mem_put _ _ _ _).1 hp with rfl | hp
    · exact ⟨fun hd => (by rw [hv2] at hd; cases hd), fun _ => (by simp)⟩
    · obtain ⟨h1, h2⟩ := h.linked p hp
      exact ⟨h1, fun hd => List.mem_append_left _ (h2 hd)⟩
  · have hlen := length_le_of_sorted_lt hsorted M (by
      intro x hx
      obtain ⟨p, hp, rfl⟩ := List.mem_map.1 hx
      exact (hkey p hp).2.2)
    simp only [List.length_map, length_put] at hlen
    rw [length_put, h.cnt_eq]
    unfold u32_inc
    omega
  · rw [length_put, List.length_append]
    have := h.total
    simp only [List.length_singleton]
    omega

end shard_steps

/-! ## Sums over radix trees -/

theorem sum_put {α : Type} (g : α → Nat) (T : radix_tree_root α) (k : Nat) (v : α) :
    ((radix_tree_put T k v).map (fun q => g q.2)).sum = (T.map (fun q => g q.2)).sum + g v := by
  induction T with
  | nil => simp [radix_tree_put]
  | cons q t ih =>
    simp only [radix_tree_put]
    split
    · simp only [List.map_cons, List.sum_cons]; omega
    · simp only [List.map_cons, List.sum_cons, ih]; omega

theorem map_upd_of_not_mem {α : Type} {T : radix_tree_root α} {k : Nat} (F : α → α)
    (h : ∀ p ∈ T, p.1 ≠ k) :
    T.map (fun p => if p.1 = k then (p.1, F p.2) else p) = T := by
  conv => rhs; rw [← List.map_id T]
  apply List.map_congr_left
  intro p hp
  simp [h p hp]

theorem sum_upd {α : Type} (g : α → Nat) {T : radix_tree_root α} {k : Nat} {h : α} (F : α → α)
    (hs : (T.map Prod.fst).Pairwise (· < ·)) (hk : radix_tree_lookup T k = some h) :
    ((T.map (fun p => if p.1 = k then (p.1, F p.2) else p)).map (fun q => g q.2)).sum + g h
      = (T.map (fun q => g q.2)).sum + g (F h) := by
  induction T with
  | nil => simp [radix_tree_lookup] at hk
  | cons p t ih =>
    simp only [List.map_cons, List.pairwise_cons] at hs
    simp only [radix_tree_lookup] at hk
    by_cases hp : p.1 = k
    · simp only [hp, if_true, Option.some.injEq] at hk
      have hnot : ∀ q ∈ t, q.1 ≠ k := by
        intro q hq
        have := hs.1 q.1 (List.mem_map.2 ⟨q, hq, rfl⟩)
        omega
      simp only [List.map_cons, hp, if_true, List.sum_cons, map_upd_of_not_mem F hnot, hk]
      omega
    · simp only [hp, if_false] at hk
      simp only [List.map_cons, hp, if_false, List.sum_cons]
      have := ih hs.2 hk
      omega

theorem sum_delete {α : Type} (g : α → Nat) {T : radix_tree_root α} {k : Nat} {h : α}
    (hs : (T.map Prod.fst).Pairwise (· < ·)) (hk : radix_tree_lookup T k = some h) :
    ((radix_tree_delete T k).map (fun q => g q.2)).sum + g h = (T.map (fun q => g q.2)).sum := by
  induction T with
  | nil => simp [radix_tree_lookup] at hk
  | cons p t ih =>
    simp only [List.map_cons, List.pairwise_cons] at hs
    simp only [radix_tree_lookup] at hk
    unfold radix_tree_delete at ih ⊢
    by_cases hp : p.1 = k
    · simp only [hp, if_true, Option.some.injEq] at hk
      rw [List.filter_cons_of_neg (by simp [hp])]
      have : t.filter (fun q => q.1 != k) = t := by
        apply List.filter_eq_self.2
        intro q hq
        have := hs.1 q.1 (List.mem_map.2 ⟨q, hq, rfl⟩)
        simp only [bne_iff_ne, ne_eq]
        omega
      rw [this]
      simp only [List.map_cons, List.sum_cons, hk]
      omega
    · simp only [hp, if_false] at hk
      rw [List.filter_cons_of_pos (by simp [hp])]
      simp only [List.map_cons, List.sum_cons]
      have := ih hs.2 hk
      omega

theorem map_upd_upd {α : Type} (T : radix_tree_root α) (k : Nat) (F G : α → α) :
    (T.map (fun p => if p.1 = k then (p.1, F p.2) else p)).map
        (fun p => if p.1 = k then (p.1, G p.2) else p)
      = T.map (fun p => if p.1 = k then (p.1, G (F p.2)) else p) := by
  rw [List.map_map]
  apply List.map_congr_left
  intro p _
  simp only [Function.comp]
  by_cases hp : p.1 = k <;> simp [hp]

theorem mem_map_upd {α : Type} {T : radix_tree_root α} {k : Nat} {F : α → α} {q : Nat × α}
    (h : q ∈ T.map (fun p => if p.1 = k then (p.1, F p.2) else p)) :
    (q ∈ T ∧ q.1 ≠ k) ∨ (∃ x, (k, x) ∈ T ∧ q = (k, F x)) := by
  obtain ⟨p, hp, rfl⟩ := List.mem_map.1 h
  by_cases hk : p.1 = k
  · right
    refine ⟨p.2, ?_, by simp [hk]⟩
    rw [← hk]; exact hp
  · left
    simp only [hk, if_false]
    exact ⟨hp, hk⟩

/-! ## The set tree with a set made sure of -/

theorem with_set_tree_lookup (ST : radix_tree_root nat_entry_set) (k m : Nat) :
    radix_tree_lookup (with_set_tree ST k) m =
      if m = k then
        some ((radix_tree_lookup ST k).getD { set := k, entry_list := [], entry_cnt := 0 })
      else radix_tree_lookup ST m := by
  unfold with_set_tree
  cases hl : radix_tree_lookup ST k with
  | some x =>
    simp only [Option.getD_some]
    by_cases hm : m = k
    · simp [hm, hl]
    · simp [hm]
  | none =>
    simp only [Option.getD_none]
    rw [lookup_put _ _ _ _ hl]

theorem with_set_tree_sorted {ST : radix_tree_root nat_entry_set} (k : Nat)
    (hs : (ST.map Prod.fst).Pairwise (· < ·)) :
    ((with_set_tree ST k).map Prod.fst).Pairwise (· < ·) := by
  unfold with_set_tree
  cases hl : radix_tree_lookup ST k with
  | some x => exact hs
  | none => exact put_sorted _ hs hl

theorem with_set_tree_mem {ST : radix_tree_root nat_entry_set} {k : Nat}
    {q : Nat × nat_entry_set} (h : q ∈ with_set_tree ST k) :
    q ∈ ST ∨ q = (k, { set := k, entry_list := [], entry_cnt := 0 }) := by
  unfold with_set_tree at h
  cases hl : radix_tree_lookup ST k with
  | some x => rw [hl] at h; exact Or.inl h
  | none =>
    rw [hl] at h
    rcases (mem_put _ _ _ _).1 h with h | h
    · exact Or.inr h
    · exact Or.inl h

theorem with_set_tree_sum (ST : radix_tree_root nat_entry_set) (k : Nat) :
    ((with_set_tree ST k).map (fun q => q.2.entry_cnt)).sum
      = (ST.map (fun q => q.2.entry_cnt)).sum := by
  unfold with_set_tree
  cases hl : radix_tree_lookup ST k with
  | some x => rfl
  | none => exact sum_put (fun h => h.entry_cnt) ST k _

section shard_dirty
variable {N S M s : Nat} {T : radix_tree_root nat_entry} {ST : radix_tree_root nat_entry_set}
  {L : List Nat} {c d : Nat}

/-- Moving a clean entry from the clean list to the tail of the set of its
NAT block, with the counters and the flag following, keeps the shard
invariant. -/
theorem shard_inv.set_dirty_shard (h : shard_inv N S M s T ST L c d) (hM : M < 4294967296)
    (hS : s < S) {n : Nat} {v : nat_entry}
    (hv : radix_tree_lookup T n = some v) (hd : v.flag.IS_DIRTY = false) :
    shard_inv N S M s
      (T.map (fun p => if p.1 = n then (p.1, mark_dirty p.2) else p))
      ((with_set_tree ST (n / N)).map (fun p => if p.1 = n / N
        then (p.1, set_push n p.2) else p))
      (L.filter (fun x => x != n)) c (u32_inc d) := by
  have hkey := h.key_of_lookup hv
  have hnL : n ∈ L := (h.linked (n, v) (mem_of_lookup hv)).2 hd
  have hnsets : ∀ q ∈ ST, n ∉ q.2.entry_list :=
    h.not_mem_sets (by intro e he; rw [hv] at he; cases he; exact hd)
  have hlen := h.length_lt hM
  have htot := h.total
  have hLpos : 0 < L.length := List.length_pos_of_mem hnL
  -- lookups in the new entry tree
  have hl : ∀ m x, radix_tree_lookup T m = some x →
      ∃ y, radix_tree_lookup (T.map (fun p => if p.1 = n
        then (p.1, mark_dirty p.2) else p)) m = some y ∧
        (m ≠ n → y = x) ∧ (m = n → y.flag.IS_DIRTY = true) := by
    intro m x hx
    rw [lookup_map, hx]
    by_cases hm : m = n
    · exact ⟨mark_dirty x, by simp [hm], fun hh => absurd hm hh, fun _ => rfl⟩
    · exact ⟨x, by simp [hm], fun _ => rfl, fun hh => absurd hh hm⟩
  -- the sets of the tree with the set made sure of
  have hws : ∀ q ∈ with_set_tree ST (n / N), q.2.set = q.1 ∧
      q.2.entry_cnt = q.2.entry_list.length ∧ q.2.entry_list.Nodup ∧ q.1 < M ∧ s < S ∧
      n ∉ q.2.entry_list ∧
      ∀ m ∈ q.2.entry_list, m / N = q.1 ∧
        ∃ e, radix_tree_lookup T m = some e ∧ e.flag.IS_DIRTY = true := by
    intro q hq
    rcases with_set_tree_mem hq with hq | rfl
    · obtain ⟨h1, h2, h3, h4, h5, h6⟩ := h.set_ok q hq
      exact ⟨h1, h2, h3, h4, h5, hnsets q hq, h6⟩
    · refine ⟨rfl, rfl, List.nodup_nil, ?_, hS, by simp, by simp⟩
      exact Nat.lt_of_le_of_lt (Nat.div_le_self n N) hkey.2.2
  have hwsorted := with_set_tree_sorted (n / N) h.set_sorted
  have hwk := with_set_tree_lookup ST (n / N) (n / N)
  simp only [if_true] at hwk
  have hcnt_le : ((radix_tree_lookup ST (n / N)).getD
      { set := n / N, entry_list := [], entry_cnt := 0 }).entry_cnt ≤ d := by
    rw [h.dirty_eq, ← with_set_tree_sum ST (n / N)]
    exact entry_cnt_le_sum (q := (n / N, _)) (mem_of_lookup hwk)
  refine ⟨?_, ?_, ?_, ?_, ?_, ?_, ?_, ?_, ?_, ?_⟩
  · rw [keys_map_upd]; exact h.root_sorted
  · intro p hp
    rcases mem_map_upd hp with ⟨hp, _⟩ | ⟨x, hx, rfl⟩
    · exact h.root_key p hp
    · exact h.root_key (n, x) hx
  · rw [keys_map_upd]; exact hwsorted
  · intro q hq
    rcases mem_map_upd hq with ⟨hq, hne⟩ | ⟨x, hx, rfl⟩
    · obtain ⟨h1, h2, h3, h4, h5, h6, h7⟩ := hws q hq
      refine ⟨h1, h2, h3, h4, h5, ?_⟩
      intro m hm
      obtain ⟨h8, e, he, hed⟩ := h7 m hm
      obtain ⟨y, hy, hy1, _⟩ := hl m e he
      have hmn : m ≠ n := by rintro rfl; exact h6 hm
      exact ⟨h8, y, hy, by rw [hy1 hmn]; exact hed⟩
    · obtain ⟨h1, h2, h3, h4, h5, h6, h7⟩ := hws _ hx
      have h2 : x.entry_cnt = x.entry_list.length := h2
      have h3 : x.entry_list.Nodup := h3
      have h6 : n ∉ x.entry_list := h6
      have h7 : ∀ m ∈ x.entry_list, m / N = n / N ∧
          ∃ e, radix_tree_lookup T m = some e ∧ e.flag.IS_DIRTY = true := h7
      have hxe : x = (radix_tree_lookup ST (n / N)).getD
          { set := n / N, entry_list := [], entry_cnt := 0 } := by
        have := lookup_of_mem hwsorted hx
        rw [hwk] at this
        exact (Option.some.inj this).symm
      refine ⟨h1, ?_, ?_, h4, h5, ?_⟩
      · show u32_inc x.entry_cnt = (x.entry_list ++ [n]).length
        rw [List.length_append, List.length_singleton, ← h2]
        have : x.entry_cnt ≤ d := by rw [hxe]; exact hcnt_le
        unfold u32_inc
        omega
      · exact List.Nodup.append h3 (List.nodup_singleton n)
          (by intro a ha hb; rw [List.mem_singleton] at hb; exact h6 (hb ▸ ha))
      · intro m hm0
        rcases List.mem_append.1 hm0 with hm | hm
        · obtain ⟨h8, e, he, hed⟩ := h7 m hm
          obtain ⟨y, hy, hy1, _⟩ := hl m e he
          have hmn : m ≠ n := fun hh => h6 (hh ▸ hm)
          exact ⟨h8, y, hy, by rw [hy1 hmn]; exact hed⟩
        · rw [List.mem_singleton] at hm
          subst hm
          obtain ⟨y, hy, _, hy2⟩ := hl m v hv
          exact ⟨rfl, y, hy, hy2 rfl⟩
  · exact h.lru_nodup.filter _
  · intro m hm
    obtain ⟨hm1, hm2⟩ := List.mem_filter.1 hm
    simp only [bne_iff_ne, ne_eq] at hm2
    obtain ⟨x, hx, hxd⟩ := h.lru_ok m hm1
    obtain ⟨y, hy, hy1, _⟩ := hl m x hx
    exact ⟨y, hy, by rw [hy1 hm2]; exact hxd⟩
  · intro p hp
    rcases mem_map_upd hp with ⟨hp, hne⟩ | ⟨x, hx, rfl⟩
    · obtain ⟨h1, h2⟩ := h.linked p hp
      constructor
      · intro hpd
        obtain ⟨hh, hh1, hh2⟩ := h1 hpd
        rw [lookup_map, with_set_tree_lookup]
        by_cases hk : p.1 / N = n / N
        · rw [hk] at hh1
          simp only [hk, if_true, hh1, Option.getD_some, Option.map_some']
          exact ⟨_, rfl, List.mem_append_left _ hh2⟩
        · simp only [hk, if_false]
          exact ⟨hh, hh1, hh2⟩
      · intro hpd
        exact List.mem_filter.2 ⟨h2 hpd, by simp [hne]⟩
    · constructor
      · intro _
        rw [lookup_map, hwk]
        simp only [if_true, Option.map_some']
        exact ⟨_, rfl, List.mem_append_right _ (List.mem_singleton.2 rfl)⟩
      · intro hpd
        cases hpd
  · rw [List.length_map]; exact h.cnt_eq
  · have hsum : ((List.map (fun p => if p.1 = n / N then (p.1, set_push n p.2) else p)
        (with_set_tree ST (n / N))).map (fun q => q.2.entry_cnt)).sum
        + ((radix_tree_lookup ST (n / N)).getD
            { set := n / N, entry_list := [], entry_cnt := 0 }).entry_cnt
        = d + u32_inc ((radix_tree_lookup ST (n / N)).getD
            { set := n / N, entry_list := [], entry_cnt := 0 }).entry_cnt := by
      have := sum_upd (fun q : nat_entry_set => q.entry_cnt) (set_push n) hwsorted hwk
      rw [with_set_tree_sum, ← h.dirty_eq] at this
      exact this
    have h2 : u32_inc ((radix_tree_lookup ST (n / N)).getD
      { set := n / N, entry_list := [], entry_cnt := 0 }).entry_cnt
        = ((radix_tree_lookup ST (n / N)).getD
      { set := n / N, entry_list := [], entry_cnt := 0 }).entry_cnt + 1 := by
      unfold u32_inc; omega
    rw [h2] at hsum
    have h3 : u32_inc d = d + 1 := by unfold u32_inc; omega
    rw [h3]
    omega
  · rw [List.length_map]
    have := length_filter_ne h.lru_nodup hnL
    have h3 : u32_inc d = d + 1 := by unfold u32_inc; omega
    rw [h3]
    omega

end shard_dirty

section shard_clear
variable {N S M s : Nat} {T : radix_tree_root nat_entry} {ST : radix_tree_root nat_entry_set}
  {L : List Nat} {c d : Nat}

/-- Moving a dirty entry from its set back to the tail of the clean list,
with the counters and the flag following, keeps the shard invariant. -/
theorem shard_inv.clear_dirty_shard (h : shard_inv N S M s T ST L c d) (hM : M < 4294967296)
    {n : Nat} {v : nat_entry}
    (hv : radix_tree_lookup T n = some v) (hd : v.flag.IS_DIRTY = true) :
    shard_inv N S M s
      (T.map (fun p => if p.1 = n then (p.1, mark_clean p.2) else p))
      (ST.map (fun p => if p.1 = n / N then (p.1, set_pop n p.2) else p))
      (L ++ [n]) c (u32_dec d) := by
  obtain ⟨h0, hk, hn0⟩ := (h.linked (n, v) (mem_of_lookup hv)).1 hd
  have hk : radix_tree_lookup ST (n / N) = some h0 := hk
  have hn0 : n ∈ h0.entry_list := hn0
  have hnL : n ∉ L := h.not_mem_lru (by intro e he; rw [hv] at he; cases he; exact hd)
  have hlen := h.length_lt hM
  have htot := h.total
  obtain ⟨_, g2, g3, _, _, _⟩ := h.set_ok (n / N, h0) (mem_of_lookup hk)
  have g2 : h0.entry_cnt = h0.entry_list.length := g2
  have g3 : h0.entry_list.Nodup := g3
  have hpos : 0 < h0.entry_list.length := List.length_pos_of_mem hn0
  have hcnt_le : h0.entry_cnt ≤ d := by
    rw [h.dirty_eq]
    exact entry_cnt_le_sum (q := (n / N, h0)) (mem_of_lookup hk)
  have hl : ∀ m x, radix_tree_lookup T m = some x →
      ∃ y, radix_tree_lookup (T.map (fun p => if p.1 = n
        then (p.1, mark_clean p.2) else p)) m = some y ∧
        (m ≠ n → y = x) ∧ (m = n → y.flag.IS_DIRTY = false) := by
    intro m x hx
    rw [lookup_map, hx]
    by_cases hm : m = n
    · exact ⟨mark_clean x, by simp [hm], fun hh => absurd hm hh, fun _ => rfl⟩
    · exact ⟨x, by simp [hm], fun _ => rfl, fun hh => absurd hh hm⟩
  refine ⟨?_, ?_, ?_, ?_, ?_, ?_, ?_, ?_, ?_, ?_⟩
  · rw [keys_map_upd]; exact h.root_sorted
  · intro p hp
    rcases mem_map_upd hp with ⟨hp, _⟩ | ⟨x, hx, rfl⟩
    · exact h.root_key p hp
    · exact h.root_key (n, x) hx
  · rw [keys_map_upd]; exact h.set_sorted
  · intro q hq
    rcases mem_map_upd hq with ⟨hq, hne⟩ | ⟨x, hx, rfl⟩
    · obtain ⟨h1, h2, h3, h4, h5, h6⟩ := h.set_ok q hq
      refine ⟨h1, h2, h3, h4, h5, ?_⟩
      intro m hm
      obtain ⟨h8, e, he, hed⟩ := h6 m hm
      obtain ⟨y, hy, hy1, _⟩ := hl m e he
      have hmn : m ≠ n := by
        intro hh
        apply hne
        rw [← h8, hh]
      exact ⟨h8, y, hy, by rw [hy1 hmn]; exact hed⟩
    · have hxe : x = h0 := by
        have := lookup_of_mem h.set_sorted hx
        rw [hk] at this
        exact (Option.some.inj this).symm
      subst hxe
      obtain ⟨h1, _, _, h4, h5, h6⟩ := h.set_ok (n / N, x) hx
      have h6 : ∀ m ∈ x.entry_list, m / N = n / N ∧
          ∃ e, radix_tree_lookup T m = some e ∧ e.flag.IS_DIRTY = true := h6
      refine ⟨h1, ?_, g3.filter _, h4, h5, ?_⟩
      · show u32_dec x.entry_cnt = (x.entry_list.filter (fun y => y != n)).length
        have := length_filter_ne g3 hn0
        unfold u32_dec
        omega
      · intro m hm0
        have hm0 : m ∈ x.entry_list.filter (fun y => y != n) := hm0
        obtain ⟨hm1, hm2⟩ := List.mem_filter.1 hm0
        simp only [bne_iff_ne, ne_eq] at hm2
        obtain ⟨h8, e, he, hed⟩ := h6 m hm1
        obtain ⟨y, hy, hy1, _⟩ := hl m e he
        exact ⟨h8, y, hy, by rw [hy1 hm2]; exact hed⟩
  · exact List.Nodup.append h.lru_nodup (List.nodup_singleton n)
      (by intro a ha hb; rw [List.mem_singleton] at hb; exact hnL (hb ▸ ha))
  · intro m hm
    rcases List.mem_append.1 hm with hm1 | hm1
    · obtain ⟨x, hx, hxd⟩ := h.lru_ok m hm1
      obtain ⟨y, hy, hy1, _⟩ := hl m x hx
      have hmn : m ≠ n := fun hh => hnL (hh ▸ hm1)
      exact ⟨y, hy, by rw [hy1 hmn]; exact hxd⟩
    · rw [List.mem_singleton] at hm1
      subst hm1
      obtain ⟨y, hy, _, hy2⟩ := hl m v hv
      exact ⟨y, hy, hy2 rfl⟩
  · intro p hp
    rcases mem_map_upd hp with ⟨hp, hne⟩ | ⟨x, hx, rfl⟩
    · obtain ⟨h1, h2⟩ := h.linked p hp
      constructor
      · intro hpd
        obtain ⟨hh, hh1, hh2⟩ := h1 hpd
        rw [lookup_map, hh1]
        by_cases hkk : p.1 / N = n / N
        · simp only [hkk, if_true, Option.map_some']
          refine ⟨_, rfl, ?_⟩
          exact List.mem_filter.2 ⟨hh2, by simp [hne]⟩
        · simp only [hkk, if_false]
          exact ⟨hh, rfl, hh2⟩
      · intro hpd
        exact List.mem_append_left _ (h2 hpd)
    · constructor
      · intro hpd
        cases hpd
      · intro _
        exact List.mem_append_right _ (List.mem_singleton.2 rfl)
  · rw [List.length_map]; exact h.cnt_eq
  · have hsum := sum_upd (fun q : nat_entry_set => q.entry_cnt) (set_pop n) h.set_sorted hk
    rw [← h.dirty_eq] at hsum
    have h2 : (set_pop n h0).entry_cnt = h0.entry_cnt - 1 := by
      show u32_dec h0.entry_cnt = h0.entry_cnt - 1
      unfold u32_dec; omega
    simp only [h2] at hsum
    have h3 : u32_dec d = d - 1 := by unfold u32_dec; omega
    rw [h3]
    omega
  · rw [List.length_map, List.length_append, List.length_singleton]
    have h3 : u32_dec d = d - 1 := by unfold u32_dec; omega
    rw [h3]
    omega

/-- Unlinking a clean entry from the clean list and deleting it from the tree
keeps the shard invariant. -/
theorem shard_inv.del_shard (h : shard_inv N S M s T ST L c d) (hM : M < 4294967296)
    {n : Nat} {v : nat_entry}
    (hv : radix_tree_lookup T n = some v) (hd : v.flag.IS_DIRTY = false) :
    shard_inv N S M s (radix_tree_delete T n) ST (L.filter (fun x => x != n)) (u32_dec c) d := by
  have hnL : n ∈ L := (h.linked (n, v) (mem_of_lookup hv)).2 hd
  have hlen := h.length_lt hM
  have htot := h.total
  have hdel := length_delete h.root_sorted hv
  have hfl := length_filter_ne h.lru_nodup hnL
  have hl : ∀ m x, m ≠ n → radix_tree_lookup T m = some x →
      radix_tree_lookup (radix_tree_delete T n) m = some x := by
    intro m x hm hx
    rw [lookup_delete]; simp [hm, hx]
  have hmem : ∀ p ∈ radix_tree_delete T n, p ∈ T ∧ p.1 ≠ n := by
    intro p hp
    unfold radix_tree_delete at hp
    obtain ⟨hp1, hp2⟩ := List.mem_filter.1 hp
    simp only [bne_iff_ne, ne_eq] at hp2
    exact ⟨hp1, hp2⟩
  refine ⟨delete_sorted n h.root_sorted, ?_, h.set_sorted, ?_, h.lru_nodup.filter _, ?_, ?_, ?_,
    h.dirty_eq, ?_⟩
  · intro p hp
    exact h.root_key p (hmem p hp).1
  · intro q hq
    obtain ⟨h1, h2, h3, h4, h5, h6⟩ := h.set_ok q hq
    refine ⟨h1, h2, h3, h4, h5, ?_⟩
    intro m hm
    obtain ⟨h8, e, he, hed⟩ := h6 m hm
    have hmn : m ≠ n := by
      rintro rfl
      rw [hv] at he
      cases he
      rw [hd] at hed
      cases hed
    exact ⟨h8, e, hl m e hmn he, hed⟩
  · intro m hm
    obtain ⟨hm1, hm2⟩ := List.mem_filter.1 hm
    simp only [bne_iff_ne, ne_eq] at hm2
    obtain ⟨x, hx, hxd⟩ := h.lru_ok m hm1
    exact ⟨x, hl m x hm2 hx, hxd⟩
  · intro p hp
    obtain ⟨hp1, hp2⟩ := hmem p hp
    obtain ⟨h1, h2⟩ := h.linked p hp1
    exact ⟨h1, fun hpd => List.mem_filter.2 ⟨h2 hpd, by simp [hp2]⟩⟩
  · rw [h.cnt_eq]
    unfold u32_dec
    omega
  · omega

end shard_clear

/-! ## The NAT-cache invariant under the primitives -/

theorem arr_set_self {α : Type} (a : Nat → α) (i : Nat) : arr_set a i (a i) = a := by
  funext j
  unfold arr_set
  split
  · rename_i h; rw [h]
  · rfl

theorem arr_set_set {α : Type} (a : Nat → α) (i : Nat) (v w : α) :
    arr_set (arr_set a i v) i w = arr_set a i w := by
  funext j
  unfold arr_set
  split <;> rfl

theorem nat_inv.shard (h : nat_inv sbi) (s : Nat) :
    shard_inv sbi.cfg.NAT_ENTRY_PER_BLOCK sbi.cfg.nat_tree_cnt sbi.cfg.max_nid s
      (sbi.nat.nat_root s) (sbi.nat.nat_set_root s) (sbi.nat.nat_entries s)
      (sbi.nat.percore_nat_cnt s) (sbi.nat.percore_dirty_nat_cnt s) := h.2.2.2 s

theorem nat_inv.of_shard {sbi : f2fs_sb_info} (h : nat_inv sbi) {t : Nat}
    {T : radix_tree_root nat_entry} {ST : radix_tree_root nat_entry_set} {L : List Nat}
    {c d : Nat}
    (ht : shard_inv sbi.cfg.NAT_ENTRY_PER_BLOCK sbi.cfg.nat_tree_cnt sbi.cfg.max_nid t T ST L c d) :
    nat_inv (shard_update sbi t T ST L c d) := by
  refine ⟨h.1, h.2.1, h.2.2.1, ?_⟩
  intro s
  by_cases hs : s = t
  · subst hs
    simp only [shard_update, arr_set_same]
    exact ht
  · simp only [shard_update, arr_set_other _ _ _ _ hs]
    exact h.shard s

/-- The invariant looks at the configuration and the five per-shard
components only. -/
theorem nat_inv.congr {sbi sbi' : f2fs_sb_info} (h : nat_inv sbi) (hc : sbi'.cfg = sbi.cfg)
    (h1 : sbi'.nat.nat_root = sbi.nat.nat_root)
    (h2 : sbi'.nat.nat_set_root = sbi.nat.nat_set_root)
    (h3 : sbi'.nat.nat_entries = sbi.nat.nat_entries)
    (h4 : sbi'.nat.percore_nat_cnt = sbi.nat.percore_nat_cnt)
    (h5 : sbi'.nat.percore_dirty_nat_cnt = sbi.nat.percore_dirty_nat_cnt) : nat_inv sbi' := by
  unfold nat_inv
  rw [hc, h1, h2, h3, h4, h5]
  exact h

theorem nat_inv.lookup {sbi : f2fs_sb_info} (h : nat_inv sbi) {n : Nat} {e : nat_entry}
    (he : __lookup_nat_cache sbi n = some e) :
    e.ni.nid = n ∧ n < sbi.cfg.max_nid :=
  ⟨((h.shard _).key_of_lookup he).1, ((h.shard _).key_of_lookup he).2.2⟩

theorem nat_inv.lookup_other {sbi : f2fs_sb_info} (h : nat_inv sbi) {n j : Nat}
    (hj : j ≠ n % sbi.cfg.nat_tree_cnt) : radix_tree_lookup (sbi.nat.nat_root j) n = none := by
  cases hl : radix_tree_lookup (sbi.nat.nat_root j) n with
  | none => rfl
  | some e => exact absurd ((h.shard j).key_of_lookup hl).2.1.symm hj

theorem nat_inv.tree_idx_lt {sbi : f2fs_sb_info} (h : nat_inv sbi) (n : Nat) :
    n % sbi.cfg.nat_tree_cnt < sbi.cfg.nat_tree_cnt := Nat.mod_lt _ h.1

theorem nat_inv.modify {sbi : f2fs_sb_info} (h : nat_inv sbi) (e : Nat)
    (f : nat_entry → nat_entry) (hf1 : ∀ x, x.ni.nid = e → (f x).ni.nid = e)
    (hf2 : ∀ x, (f x).flag.IS_DIRTY = x.flag.IS_DIRTY) : nat_inv (nat_modify sbi e f) := by
  have h1 := ((h.shard (e % sbi.cfg.nat_tree_cnt)).modify_shard e f hf1 hf2)
  have := h.of_shard h1
  refine this.congr rfl ?_ ?_ ?_ ?_ ?_
  · rfl
  · simp only [shard_update, nat_modify, arr_set_self]
  · simp only [shard_update, nat_modify, arr_set_self]
  · simp only [shard_update, nat_modify, arr_set_self]
  · simp only [shard_update, nat_modify, arr_set_self]

theorem nat_inv.grab {sbi : f2fs_sb_info} (h : nat_inv sbi) {nid : Nat}
    (hn : __lookup_nat_cache sbi nid = none) (hlt : nid < sbi.cfg.max_nid) :
    nat_inv (grab_result sbi nid) := by
  have h1 := (h.shard (nid % sbi.cfg.nat_tree_cnt)).grab_shard h.2.2.1
    { ni := { nid := nid, ino := 0, blk_addr := 0, version := 0 },
      flag := { IS_CHECKPOINTED := true, HAS_FSYNCED_INODE := false,
                HAS_LAST_FSYNC := true, IS_DIRTY := false } } hn rfl hlt rfl rfl
  have := h.of_shard h1
  refine this.congr rfl ?_ ?_ ?_ ?_ ?_
  · rfl
  · simp only [shard_update, grab_result, arr_set_self]
  · rfl
  · rfl
  · simp only [shard_update, grab_result, arr_set_self]

section shard_with_set
variable {N S M s : Nat} {T : radix_tree_root nat_entry} {ST : radix_tree_root nat_entry_set}
  {L : List Nat} {c d : Nat}

/-- Inserting an empty set keeps the shard invariant. -/
theorem shard_inv.with_set_shard (h : shard_inv N S M s T ST L c d) {k : Nat} (hk : k < M)
    (hs : s < S) : shard_inv N S M s T (with_set_tree ST k) L c d := by
  refine ⟨h.root_sorted, h.root_key, with_set_tree_sorted k h.set_sorted, ?_, h.lru_nodup,
    h.lru_ok, ?_, h.cnt_eq, ?_, h.total⟩
  · intro q hq
    rcases with_set_tree_mem hq with hq | rfl
    · exact h.set_ok q hq
    · exact ⟨rfl, rfl, List.nodup_nil, hk, hs, by simp⟩
  · intro p hp
    obtain ⟨h1, h2⟩ := h.linked p hp
    refine ⟨?_, h2⟩
    intro hpd
    obtain ⟨hh, hh1, hh2⟩ := h1 hpd
    rw [with_set_tree_lookup]
    by_cases hkk : p.1 / N = k
    · rw [hkk] at hh1
      simp only [hkk, if_true, hh1, Option.getD_some]
      exact ⟨hh, rfl, hh2⟩
    · simp only [hkk, if_false]
      exact ⟨hh, hh1, hh2⟩
  · rw [with_set_tree_sum]; exact h.dirty_eq

end shard_with_set

theorem with_set_eq (sbi : f2fs_sb_info) (t k : Nat) :
    with_set sbi t k = { sbi with nat := { sbi.nat with
      nat_set_root := arr_set sbi.nat.nat_set_root t (with_set_tree (sbi.nat.nat_set_root t) k) } } := by
  unfold with_set with_set_tree
  cases hl : radix_tree_lookup (sbi.nat.nat_set_root t) k with
  | some x => simp only [arr_set_self]
  | none => rfl

/-- Under the invariant `list_del` touches the shard of the entry only. -/
theorem list_del_eq {sbi : f2fs_sb_info} (h : nat_inv sbi) (n : Nat) :
    list_del_nat_entry sbi n = { sbi with nat := { sbi.nat with
      nat_entries := arr_set sbi.nat.nat_entries (n % sbi.cfg.nat_tree_cnt)
        ((sbi.nat.nat_entries (n % sbi.cfg.nat_tree_cnt)).filter (fun x => x != n)),
      nat_set_root := arr_set sbi.nat.nat_set_root (n % sbi.cfg.nat_tree_cnt)
        (strip n (sbi.nat.nat_set_root (n % sbi.cfg.nat_tree_cnt))) } } := by
  unfold list_del_nat_entry
  have h1 : (fun i => (sbi.nat.nat_entries i).filter (fun x => x != n))
      = arr_set sbi.nat.nat_entries (n % sbi.cfg.nat_tree_cnt)
        ((sbi.nat.nat_entries (n % sbi.cfg.nat_tree_cnt)).filter (fun x => x != n)) := by
    funext j
    by_cases hj : j = n % sbi.cfg.nat_tree_cnt
    · rw [hj, arr_set_same]
    · rw [arr_set_other _ _ _ _ hj]
      apply filter_ne_of_not_mem
      apply (h.shard j).not_mem_lru
      intro e he
      rw [h.lookup_other hj] at he
      cases he
  have h2 : (fun i => (sbi.nat.nat_set_root i).map
      (fun p => (p.1, { p.2 with entry_list := p.2.entry_list.filter (fun x => x != n) })))
      = arr_set sbi.nat.nat_set_root (n % sbi.cfg.nat_tree_cnt)
        (strip n (sbi.nat.nat_set_root (n % sbi.cfg.nat_tree_cnt))) := by
    funext j
    by_cases hj : j = n % sbi.cfg.nat_tree_cnt
    · rw [hj, arr_set_same]; rfl
    · rw [arr_set_other _ _ _ _ hj]
      apply strip_of_not_mem
      apply (h.shard j).not_mem_sets
      intro e he
      rw [h.lookup_other hj] at he
      cases he
  rw [h1, h2]

theorem nat_inv.with_set {sbi : f2fs_sb_info} (h : nat_inv sbi) {t k : Nat}
    (ht : t < sbi.cfg.nat_tree_cnt) (hk : k < sbi.cfg.max_nid) : nat_inv (with_set sbi t k) := by
  have h1 := (h.shard t).with_set_shard hk ht
  have := h.of_shard h1
  refine this.congr ?_ ?_ ?_ ?_ ?_ ?_
  all_goals rw [with_set_eq]
  all_goals simp only [shard_update, arr_set_self]

/-- Under the invariant, the state `__set_nat_cache_dirty` returns for a
clean entry differs from the old one in the shard of the entry only. -/
theorem set_dirty_result_eq {sbi : f2fs_sb_info} (h : nat_inv sbi) {e : Nat} {v : nat_entry}
    (hv : __lookup_nat_cache sbi e = some v) (hd : v.flag.IS_DIRTY = false) :
    set_dirty_result sbi e v = shard_update sbi (e % sbi.cfg.nat_tree_cnt)
      ((sbi.nat.nat_root (e % sbi.cfg.nat_tree_cnt)).map
        (fun p => if p.1 = e then (p.1, mark_dirty p.2) else p))
      ((with_set_tree (sbi.nat.nat_set_root (e % sbi.cfg.nat_tree_cnt))
          (e / sbi.cfg.NAT_ENTRY_PER_BLOCK)).map
        (fun p => if p.1 = e / sbi.cfg.NAT_ENTRY_PER_BLOCK then (p.1, set_push e p.2) else p))
      ((sbi.nat.nat_entries (e % sbi.cfg.nat_tree_cnt)).filter (fun x => x != e))
      (sbi.nat.percore_nat_cnt (e % sbi.cfg.nat_tree_cnt))
      (u32_inc (sbi.nat.percore_dirty_nat_cnt (e % sbi.cfg.nat_tree_cnt))) := by
  obtain ⟨hnid, hlt⟩ := h.lookup hv
  have ht := h.tree_idx_lt e
  have hk : e / sbi.cfg.NAT_ENTRY_PER_BLOCK < sbi.cfg.max_nid :=
    Nat.lt_of_le_of_lt (Nat.div_le_self _ _) hlt
  have hw := h.with_set ht hk
  have hvw : __lookup_nat_cache
      (with_set sbi (e % sbi.cfg.nat_tree_cnt) (e / sbi.cfg.NAT_ENTRY_PER_BLOCK)) e = some v := by
    rw [← hv]; apply lookup_congr <;> simp
  have hstrip : strip e (with_set_tree (sbi.nat.nat_set_root (e % sbi.cfg.nat_tree_cnt))
      (e / sbi.cfg.NAT_ENTRY_PER_BLOCK))
      = with_set_tree (sbi.nat.nat_set_root (e % sbi.cfg.nat_tree_cnt))
      (e / sbi.cfg.NAT_ENTRY_PER_BLOCK) := by
    apply strip_of_not_mem
    have := (hw.shard (e % sbi.cfg.nat_tree_cnt)).not_mem_sets (n := e) (by
      intro x hx
      have hx' : __lookup_nat_cache
        (with_set sbi (e % sbi.cfg.nat_tree_cnt) (e / sbi.cfg.NAT_ENTRY_PER_BLOCK)) e = some x := by
        unfold __lookup_nat_cache TREE_IDX
        simp only [with_set_cfg]
        exact hx
      rw [hvw] at hx'
      cases hx'
      exact hd)
    rw [with_set_eq] at this
    simpa only [arr_set_same] using this
  unfold set_dirty_result
  simp only [hnid, TREE_IDX, NAT_BLOCK_OFFSET]
  rw [list_del_eq hw]
  simp only [with_set_eq, set_modify, nat_modify, TREE_IDX, arr_set_same, arr_set_set, hstrip,
    shard_update, f2fs_sb_info.mk.injEq, nat_cache.mk.injEq, true_and, and_true]
  refine ⟨rfl, ?_, (arr_set_self _ _).symm⟩
  exact congrArg (arr_set sbi.nat.nat_set_root (e % sbi.cfg.nat_tree_cnt))
    (map_upd_upd _ (e / sbi.cfg.NAT_ENTRY_PER_BLOCK)
      (fun h : nat_entry_set => { h with entry_list := h.entry_list ++ [e] })
      (fun h : nat_entry_set => { h with entry_cnt := u32_inc h.entry_cnt }))

theorem nat_inv.set_dirty {sbi sbi' : f2fs_sb_info} (h : nat_inv sbi) {e : Nat}
    (hs : __set_nat_cache_dirty sbi e = .ok sbi') : nat_inv sbi' := by
  obtain ⟨v, hv, hc | hc⟩ := set_dirty_inv hs
  · rw [hc.2]; exact h
  · rw [hc.2, set_dirty_result_eq h hv hc.1]
    exact h.of_shard ((h.shard _).set_dirty_shard h.2.2.1 (h.tree_idx_lt e) hv hc.1)

/-- The outcomes of `__clear_nat_cache_dirty`. -/
theorem clear_dirty_eq (sbi : f2fs_sb_info) (e : Nat) :
    __clear_nat_cache_dirty sbi e = match __lookup_nat_cache sbi e with
      | none => .error Fault.oob
      | some v =>
        match radix_tree_lookup (sbi.nat.nat_set_root (TREE_IDX v.ni.nid sbi))
            (NAT_BLOCK_OFFSET sbi v.ni.nid) with
        | none => .ok sbi
        | some _ => .ok (clear_dirty_result sbi e v) := by
  unfold __clear_nat_cache_dirty
  rw [nat_read_eq]
  cases hv : __lookup_nat_cache sbi e with
  | none => rfl
  | some v =>
    simp only [bind, Except.bind]
    cases hl : radix_tree_lookup (sbi.nat.nat_set_root (TREE_IDX v.ni.nid sbi))
        (NAT_BLOCK_OFFSET sbi v.ni.nid) with
    | none => rfl
    | some x => rfl

theorem strip_upd {ST : radix_tree_root nat_entry_set} {e k : Nat}
    (h : ∀ q ∈ ST, q.1 ≠ k → e ∉ q.2.entry_list) :
    (strip e ST).map (fun p => if p.1 = k
        then (p.1, { p.2 with entry_cnt := u32_dec p.2.entry_cnt }) else p)
      = ST.map (fun p => if p.1 = k then (p.1, set_pop e p.2) else p) := by
  unfold strip
  rw [List.map_map]
  apply List.map_congr_left
  intro q hq
  simp only [Function.comp]
  by_cases hk : q.1 = k
  · simp only [hk, if_true]; rfl
  · simp only [hk, if_false]
    rw [filter_ne_of_not_mem (h q hq hk)]

/-- Under the invariant, the state `__clear_nat_cache_dirty` returns for a
dirty entry differs from the old one in the shard of the entry only. -/
theorem clear_dirty_result_eq {sbi : f2fs_sb_info} (h : nat_inv sbi) {e : Nat} {v : nat_entry}
    (hv : __lookup_nat_cache sbi e = some v) (hd : v.flag.IS_DIRTY = true) :
    clear_dirty_result sbi e v = shard_update sbi (e % sbi.cfg.nat_tree_cnt)
      ((sbi.nat.nat_root (e % sbi.cfg.nat_tree_cnt)).map
        (fun p => if p.1 = e then (p.1, mark_clean p.2) else p))
      ((sbi.nat.nat_set_root (e % sbi.cfg.nat_tree_cnt)).map
        (fun p => if p.1 = e / sbi.cfg.NAT_ENTRY_PER_BLOCK then (p.1, set_pop e p.2) else p))
      (sbi.nat.nat_entries (e % sbi.cfg.nat_tree_cnt) ++ [e])
      (sbi.nat.percore_nat_cnt (e % sbi.cfg.nat_tree_cnt))
      (u32_dec (sbi.nat.percore_dirty_nat_cnt (e % sbi.cfg.nat_tree_cnt))) := by
  obtain ⟨hnid, hlt⟩ := h.lookup hv
  have hfil : (sbi.nat.nat_entries (e % sbi.cfg.nat_tree_cnt)).filter (fun x => x != e)
      = sbi.nat.nat_entries (e % sbi.cfg.nat_tree_cnt) := by
    apply filter_ne_of_not_mem
    apply (h.shard _).not_mem_lru
    intro x hx
    have hx' : __lookup_nat_cache sbi e = some x := hx
    rw [hv] at hx'
    cases hx'
    exact hd
  have hst := @strip_upd (sbi.nat.nat_set_root (e % sbi.cfg.nat_tree_cnt)) e
    (e / sbi.cfg.NAT_ENTRY_PER_BLOCK) (by
      intro q hq hk he
      exact hk ((((h.shard _).set_ok q hq).2.2.2.2.2 e he).1.symm))
  unfold clear_dirty_result
  simp only [hnid, TREE_IDX, NAT_BLOCK_OFFSET]
  rw [list_del_eq h]
  simp only [set_modify, nat_modify, TREE_IDX, arr_set_same, arr_set_set, hfil, hst,
    shard_update, f2fs_sb_info.mk.injEq, nat_cache.mk.injEq, true_and, and_true]
  exact ⟨rfl, (arr_set_self _ _).symm⟩

theorem clear_dirty_of_dirty {sbi : f2fs_sb_info} (h : nat_inv sbi) {e : Nat} {v : nat_entry}
    (hv : __lookup_nat_cache sbi e = some v) (hd : v.flag.IS_DIRTY = true) :
    __clear_nat_cache_dirty sbi e = .ok (clear_dirty_result sbi e v) := by
  rw [clear_dirty_eq, hv]
  obtain ⟨hnid, _⟩ := h.lookup hv
  obtain ⟨h0, hk, _⟩ := ((h.shard _).linked (e, v) (mem_of_lookup hv)).1 hd
  simp only [hnid, TREE_IDX, NAT_BLOCK_OFFSET]
  have hk : radix_tree_lookup (sbi.nat.nat_set_root (e % sbi.cfg.nat_tree_cnt))
      (e / sbi.cfg.NAT_ENTRY_PER_BLOCK) = some h0 := hk
  rw [hk]

theorem nat_inv.clear_dirty {sbi : f2fs_sb_info} (h : nat_inv sbi) {e : Nat} {v : nat_entry}
    (hv : __lookup_nat_cache sbi e = some v) (hd : v.flag.IS_DIRTY = true) :
    nat_inv (clear_dirty_result sbi e v) := by
  rw [clear_dirty_result_eq h hv hd]
  exact h.of_shard ((h.shard _).clear_dirty_shard h.2.2.1 hv hd)

/-- The outcomes of `__del_from_nat_cache`. -/
theorem del_eq (sbi : f2fs_sb_info) (e : Nat) :
    __del_from_nat_cache sbi e = match __lookup_nat_cache sbi e with
      | none => .error Fault.oob
      | some v => .ok (del_result sbi e v) := by
  unfold __del_from_nat_cache
  rw [nat_read_eq]
  cases hv : __lookup_nat_cache sbi e with
  | none => rfl
  | some v => rfl

/-- Under the invariant, the state `__del_from_nat_cache` returns for a clean
entry differs from the old one in the shard of the entry only. -/
theorem del_result_eq {sbi : f2fs_sb_info} (h : nat_inv sbi) {e : Nat} {v : nat_entry}
    (hv : __lookup_nat_cache sbi e = some v) (hd : v.flag.IS_DIRTY = false) :
    del_result sbi e v = shard_update sbi (e % sbi.cfg.nat_tree_cnt)
      (radix_tree_delete (sbi.nat.nat_root (e % sbi.cfg.nat_tree_cnt)) e)
      (sbi.nat.nat_set_root (e % sbi.cfg.nat_tree_cnt))
      ((sbi.nat.nat_entries (e % sbi.cfg.nat_tree_cnt)).filter (fun x => x != e))
      (u32_dec (sbi.nat.percore_nat_cnt (e % sbi.cfg.nat_tree_cnt)))
      (sbi.nat.percore_dirty_nat_cnt (e % sbi.cfg.nat_tree_cnt)) := by
  obtain ⟨hnid, hlt⟩ := h.lookup hv
  have hstrip : strip e (sbi.nat.nat_set_root (e % sbi.cfg.nat_tree_cnt))
      = sbi.nat.nat_set_root (e % sbi.cfg.nat_tree_cnt) := by
    apply strip_of_not_mem
    apply (h.shard _).not_mem_sets
    intro x hx
    have hx' : __lookup_nat_cache sbi e = some x := hx
    rw [hv] at hx'
    cases hx'
    exact hd
  unfold del_result
  simp only [hnid, TREE_IDX]
  rw [list_del_eq h]
  simp only [arr_set_same, arr_set_set, hstrip, arr_set_self,
    shard_update, f2fs_sb_info.mk.injEq, nat_cache.mk.injEq, true_and, and_true]

theorem nat_inv.del {sbi : f2fs_sb_info} (h : nat_inv sbi) {e : Nat} {v : nat_entry}
    (hv : __lookup_nat_cache sbi e = some v) (hd : v.flag.IS_DIRTY = false) :
    nat_inv (del_result sbi e v) := by
  rw [del_result_eq h hv hd]
  exact h.of_shard ((h.shard _).del_shard h.2.2.1 hv hd)

/-! ## The NAT-cache invariant under the operations -/

theorem journal_ok.same {sbi sbi' : f2fs_sb_info} (h : journal_ok sbi) (hc : sbi'.cfg = sbi.cfg)
    (hd : sbi'.disk = sbi.disk) : journal_ok sbi' := by
  unfold journal_ok; rw [hc, hd]; exact h

theorem nat_inv.free_only {sbi sbi' : f2fs_sb_info} (h : nat_inv sbi) (hf : free_only sbi sbi') :
    nat_inv sbi' := by
  refine h.congr hf.1 ?_ ?_ ?_ ?_ ?_ <;> rw [hf.2.1]

theorem cache_nat_entry_eq (sbi : f2fs_sb_info) (nid : Nat) (ne : f2fs_nat_entry) :
    cache_nat_entry sbi nid ne = match __lookup_nat_cache sbi nid with
      | some _ => .ok sbi
      | none => .ok (nat_modify (grab_result sbi nid) nid
          (fun x => { x with ni := node_info_from_raw_nat x.ni ne })) := by
  unfold cache_nat_entry
  cases hl : __lookup_nat_cache sbi nid with
  | some x => rfl
  | none =>
    simp only [bind, Except.bind, grab_ok hl]

theorem nat_inv.cache_nat_entry {sbi sbi' : f2fs_sb_info} (h : nat_inv sbi) {nid : Nat}
    {ne : f2fs_nat_entry} (hlt : nid < sbi.cfg.max_nid)
    (hs : cache_nat_entry sbi nid ne = .ok sbi') : nat_inv sbi' := by
  rw [cache_nat_entry_eq] at hs
  cases hl : __lookup_nat_cache sbi nid with
  | some x =>
    rw [hl] at hs
    simp only [Except.ok.injEq] at hs
    rw [← hs]; exact h
  | none =>
    rw [hl] at hs
    simp only [Except.ok.injEq] at hs
    rw [← hs]
    exact (h.grab hl hlt).modify nid _ (fun x hx => hx) (fun x => rfl)

theorem lookup_journal_noalloc (sbi : f2fs_sb_info) (val : Nat) :
    (lookup_journal_in_cursum sbi val false).1 = sbi := by
  unfold lookup_journal_in_cursum
  split <;> simp

theorem get_node_info_state {sbi sbi' : f2fs_sb_info} {nid : Nat} {ni : node_info}
    (hs : get_node_info sbi nid = .ok (sbi', ni)) :
    (∃ e, __lookup_nat_cache sbi nid = some e ∧ sbi' = sbi) ∨
    (__lookup_nat_cache sbi nid = none ∧ ∃ ne, cache_nat_entry sbi nid ne = .ok sbi') := by
  unfold get_node_info at hs
  cases hl : __lookup_nat_cache sbi nid with
  | some e =>
    rw [hl] at hs
    simp only [Except.ok.injEq, Prod.mk.injEq] at hs
    exact Or.inl ⟨e, rfl, hs.1.symm⟩
  | none =>
    rw [hl] at hs
    simp only [lookup_journal_noalloc, bind, Except.bind] at hs
    right
    refine ⟨rfl, ?_⟩
    split at hs
    · simp at hs
    · rename_i s1 hs1
      simp only [Except.ok.injEq, Prod.mk.injEq] at hs
      rw [← hs.1]
      exact ⟨_, hs1⟩

theorem nat_inv.get_node_info {sbi sbi' : f2fs_sb_info} (h : nat_inv sbi) {nid : Nat}
    {ni : node_info} (hlt : nid < sbi.cfg.max_nid)
    (hs : get_node_info sbi nid = .ok (sbi', ni)) : nat_inv sbi' := by
  rcases get_node_info_state hs with ⟨e, _, rfl⟩ | ⟨_, ne, hc⟩
  · exact h
  · exact h.cache_nat_entry hlt hc

theorem nat_inv.stage1 {sbi : f2fs_sb_info} (h : nat_inv sbi) (ni : node_info)
    (new_blkaddr : Nat) (hlt : ni.nid < sbi.cfg.max_nid) :
    nat_inv (sna_stage1 sbi ni new_blkaddr) := by
  unfold sna_stage1
  cases hl : __lookup_nat_cache sbi ni.nid with
  | none => exact (h.grab hl hlt).modify _ _ (fun _ _ => rfl) (fun _ => rfl)
  | some v =>
    simp only
    split
    · exact h.modify _ _ (fun _ _ => rfl) (fun _ => rfl)
    · exact h

theorem nat_inv.fsync {sbi : f2fs_sb_info} (h : nat_inv sbi) (ni : node_info)
    (fsync_done : Bool) : nat_inv (sna_fsync sbi ni fsync_done) := by
  unfold sna_fsync
  simp only
  split
  · exact h
  · split
    · refine nat_inv.modify (nat_inv.modify h _ _ ?_ ?_) _ _ ?_ ?_ <;> intros <;> first | rfl | assumption
    · refine nat_inv.modify h _ _ ?_ ?_ <;> intros <;> first | rfl | assumption

theorem nat_inv.set_node_addr {sbi sbi' : f2fs_sb_info} (h : nat_inv sbi) {ni : node_info}
    {new_blkaddr : Nat} {fsync_done : Bool} (hlt : ni.nid < sbi.cfg.max_nid)
    (hs : set_node_addr sbi ni new_blkaddr fsync_done = .ok sbi') : nat_inv sbi' := by
  obtain ⟨_, s, hd, rfl⟩ := set_node_addr_inv hs
  have h1 := (h.stage1 ni new_blkaddr hlt).modify ni.nid
    (sna_update new_blkaddr (sna_entry sbi ni new_blkaddr).ni.blk_addr)
    (fun _ hx => hx) (fun _ => rfl)
  exact (h1.set_dirty hd).fsync ni fsync_done

/-! ## Operations of the NAT cache leave the rest of the state alone -/

theorem nat_only_refl (s : f2fs_sb_info) : nat_only s s := ⟨rfl, rfl, rfl, rfl, rfl⟩

theorem nat_only_trans {a b c : f2fs_sb_info} (h1 : nat_only a b) (h2 : nat_only b c) :
    nat_only a c :=
  ⟨h2.1.trans h1.1, h2.2.1.trans h1.2.1, h2.2.2.1.trans h1.2.2.1,
    h2.2.2.2.1.trans h1.2.2.2.1, h2.2.2.2.2.trans h1.2.2.2.2⟩

theorem nat_only_modify (s : f2fs_sb_info) (e : Nat) (f : nat_entry → nat_entry) :
    nat_only s (nat_modify s e f) := ⟨rfl, rfl, rfl, rfl, rfl⟩

theorem nat_only_grab (s : f2fs_sb_info) (n : Nat) : nat_only s (grab_result s n) :=
  ⟨rfl, rfl, rfl, rfl, rfl⟩

theorem nat_only_with_set (s : f2fs_sb_info) (t k : Nat) : nat_only s (with_set s t k) := by
  unfold with_set
  split
  · exact nat_only_refl s
  · exact ⟨rfl, rfl, rfl, rfl, rfl⟩

theorem nat_only_set_dirty_result (s : f2fs_sb_info) (e : Nat) (v : nat_entry) :
    nat_only s (set_dirty_result s e v) := by
  unfold set_dirty_result
  exact nat_only_trans (nat_only_with_set s _ _) ⟨rfl, rfl, rfl, rfl, rfl⟩

theorem nat_only_clear_dirty_result (s : f2fs_sb_info) (e : Nat) (v : nat_entry) :
    nat_only s (clear_dirty_result s e v) := ⟨rfl, rfl, rfl, rfl, rfl⟩

theorem nat_only_del_result (s : f2fs_sb_info) (e : Nat) (v : nat_entry) :
    nat_only s (del_result s e v) := ⟨rfl, rfl, rfl, rfl, rfl⟩

theorem nat_only_set_dirty {s s' : f2fs_sb_info} {e : Nat}
    (h : __set_nat_cache_dirty s e = .ok s') : nat_only s s' := by
  obtain ⟨v, _, hc | hc⟩ := set_dirty_inv h
  · rw [hc.2]; exact nat_only_refl s
  · rw [hc.2]; exact nat_only_set_dirty_result s e v

theorem nat_only_cache_nat_entry {s s' : f2fs_sb_info} {nid : Nat} {ne : f2fs_nat_entry}
    (h : cache_nat_entry s nid ne = .ok s') : nat_only s s' := by
  rw [cache_nat_entry_eq] at h
  cases hl : __lookup_nat_cache s nid with
  | some x =>
    rw [hl] at h
    simp only [Except.ok.injEq] at h
    rw [← h]; exact nat_only_refl s
  | none =>
    rw [hl] at h
    simp only [Except.ok.injEq] at h
    rw [← h]
    exact nat_only_trans (nat_only_grab s nid) (nat_only_modify _ _ _)

theorem nat_only_get_node_info {s s' : f2fs_sb_info} {nid : Nat} {ni : node_info}
    (h : get_node_info s nid = .ok (s', ni)) : nat_only s s' := by
  rcases get_node_info_state h with ⟨e, _, rfl⟩ | ⟨_, ne, hc⟩
  · exact nat_only_refl _
  · exact nat_only_cache_nat_entry hc

theorem nat_only_sna_stage1 (s : f2fs_sb_info) (ni : node_info) (new_blkaddr : Nat) :
    nat_only s (sna_stage1 s ni new_blkaddr) := by
  unfold sna_stage1
  cases hl : __lookup_nat_cache s ni.nid with
  | none => exact nat_only_trans (nat_only_grab s ni.nid) (nat_only_modify _ _ _)
  | some v =>
    simp only
    split
    · exact nat_only_modify _ _ _
    · exact nat_only_refl s

theorem nat_only_sna_fsync (s : f2fs_sb_info) (ni : node_info) (fsync_done : Bool) :
    nat_only s (sna_fsync s ni fsync_done) := by
  unfold sna_fsync
  simp only
  split
  · exact nat_only_refl s
  · split
    · exact nat_only_trans (nat_only_modify _ _ _) (nat_only_modify _ _ _)
    · exact nat_only_modify _ _ _

theorem nat_only_set_node_addr {s s' : f2fs_sb_info} {ni : node_info} {new_blkaddr : Nat}
    {fsync_done : Bool} (h : set_node_addr s ni new_blkaddr fsync_done = .ok s') :
    nat_only s s' := by
  obtain ⟨_, s1, hd, rfl⟩ := set_node_addr_inv h
  exact nat_only_trans (nat_only_trans (nat_only_trans (nat_only_sna_stage1 s ni new_blkaddr)
    (nat_only_modify _ _ _)) (nat_only_set_dirty hd)) (nat_only_sna_fsync _ _ _)

theorem journal_ok.nat_only {s s' : f2fs_sb_info} (h : journal_ok s) (hn : nat_only s s') :
    journal_ok s' := h.same hn.1 hn.2.2.1

/-! ## The invariant under `remove_nats_in_journal` and `try_to_free_nats` -/

theorem remove_nats_in_journal_loop_succ (cnt : Nat) (sbi : f2fs_sb_info) (i : Nat) :
    remove_nats_in_journal_loop (cnt + 1) sbi i =
      match cache_nat_entry sbi (sbi.disk.nat_j i).nid (sbi.disk.nat_j i).ne with
      | .error f => .error f
      | .ok s1 =>
        match __set_nat_cache_dirty s1 (sbi.disk.nat_j i).nid with
        | .error f => .error f
        | .ok s2 => remove_nats_in_journal_loop cnt s2 (i + 1) := by
  conv_lhs => unfold remove_nats_in_journal_loop
  unfold cache_nat_entry
  cases hl : __lookup_nat_cache sbi (sbi.disk.nat_j i).nid with
  | some x =>
    simp only [hl, bind, Except.bind]
    cases __set_nat_cache_dirty sbi (sbi.disk.nat_j i).nid <;> rfl
  | none =>
    simp only [hl, bind, Except.bind]
    cases grab_nat_entry sbi (sbi.disk.nat_j i).nid with
    | error f => rfl
    | ok s1 =>
      dsimp only
      cases __set_nat_cache_dirty (nat_modify s1 (sbi.disk.nat_j i).nid fun x =>
          { ni := node_info_from_raw_nat x.ni (sbi.disk.nat_j i).ne, flag := x.flag })
        (sbi.disk.nat_j i).nid <;> rfl

theorem remove_nats_in_journal_loop_inv (cnt : Nat) :
    ∀ (sbi sbi' : f2fs_sb_info) (i : Nat), nat_inv sbi →
      (∀ j, i ≤ j → j < i + cnt → (sbi.disk.nat_j j).nid < sbi.cfg.max_nid) →
      remove_nats_in_journal_loop cnt sbi i = .ok sbi' → nat_inv sbi' ∧ nat_only sbi sbi' := by
  induction cnt with
  | zero =>
    intro sbi sbi' i h _ hs
    simp only [remove_nats_in_journal_loop, Except.ok.injEq] at hs
    rw [← hs]; exact ⟨h, nat_only_refl _⟩
  | succ cnt ih =>
    intro sbi sbi' i h hj hs
    have hlt := hj i (le_refl _) (by omega)
    rw [remove_nats_in_journal_loop_succ] at hs
    cases h1 : cache_nat_entry sbi (sbi.disk.nat_j i).nid (sbi.disk.nat_j i).ne with
    | error f => rw [h1] at hs; simp at hs
    | ok s1 =>
      rw [h1] at hs
      simp only at hs
      cases h2 : __set_nat_cache_dirty s1 (sbi.disk.nat_j i).nid with
      | error f => rw [h2] at hs; simp at hs
      | ok s2 =>
        rw [h2] at hs
        simp only at hs
        have i1 := h.cache_nat_entry hlt h1
        have n1 := nat_only_cache_nat_entry h1
        have i2 := i1.set_dirty h2
        have n2 := nat_only_trans n1 (nat_only_set_dirty h2)
        obtain ⟨i3, n3⟩ := ih s2 sbi' (i + 1) i2 (by
          intro j hj1 hj2
          rw [n2.1, n2.2.2.1]
          exact hj j (by omega) (by omega)) hs
        exact ⟨i3, nat_only_trans n2 n3⟩

/-- The state `remove_nats_in_journal` returns keeps the invariant, and its
journal is empty. -/
theorem remove_nats_in_journal_inv {sbi sbi' : f2fs_sb_info} (h : nat_inv sbi)
    (hj : journal_ok sbi) (hs : remove_nats_in_journal sbi = .ok sbi') :
    nat_inv sbi' ∧ sbi'.cfg = sbi.cfg ∧ sbi'.free = sbi.free ∧ sbi'.disk.n_nats = 0 ∧
      sbi'.disk.nat_bitmap = sbi.disk.nat_bitmap ∧ sbi'.disk.nat_page = sbi.disk.nat_page ∧
      sbi'.disk.nat_page_dirty = sbi.disk.nat_page_dirty ∧ sbi'.disk.nat_j = sbi.disk.nat_j := by
  unfold remove_nats_in_journal at hs
  simp only [bind, Except.bind] at hs
  cases h1 : remove_nats_in_journal_loop (nats_in_cursum sbi) sbi 0 with
  | error f => rw [h1] at hs; simp at hs
  | ok s1 =>
    rw [h1] at hs
    simp only [Except.ok.injEq] at hs
    obtain ⟨i1, n1⟩ := remove_nats_in_journal_loop_inv _ sbi s1 0 h (by
      intro j _ hj2
      apply hj
      simpa [nats_in_cursum] using hj2) h1
    subst hs
    refine ⟨i1.congr rfl rfl rfl rfl rfl rfl, n1.1, n1.2.1, ?_, ?_, ?_, ?_, ?_⟩
    · simp only [update_nats_in_cursum, nats_in_cursum, n1.2.2.1]
      simp
    all_goals simp only [update_nats_in_cursum, n1.2.2.1]

theorem try_to_free_nats_shard_inv (fuel : Nat) :
    ∀ (sbi sbi' : f2fs_sb_info) (i : Nat) (a b r : Int), nat_inv sbi →
      try_to_free_nats_shard fuel sbi i a b = .ok (sbi', r) →
      nat_inv sbi' ∧ nat_only sbi sbi' := by
  induction fuel with
  | zero =>
    intro sbi sbi' i a b r h hs
    unfold try_to_free_nats_shard at hs
    split at hs
    · simp at hs
    · simp only [Except.ok.injEq, Prod.mk.injEq] at hs
      rw [← hs.1]; exact ⟨h, nat_only_refl _⟩
  | succ fuel ih =>
    intro sbi sbi' i a b r h hs
    unfold try_to_free_nats_shard at hs
    by_cases hb : b = 0
    · simp only [hb, if_true, Except.ok.injEq, Prod.mk.injEq] at hs
      rw [← hs.1]; exact ⟨h, nat_only_refl _⟩
    · simp only [hb, if_false] at hs
      cases hl : sbi.nat.nat_entries i with
      | nil =>
        rw [hl] at hs
        simp only [Except.ok.injEq, Prod.mk.injEq] at hs
        rw [← hs.1]; exact ⟨h, nat_only_refl _⟩
      | cons ne t =>
        rw [hl] at hs
        simp only [bind, Except.bind] at hs
        obtain ⟨e, he, hd⟩ := (h.shard i).lru_ok ne (by rw [hl]; exact List.mem_cons_self _ _)
        have hk := ((h.shard i).root_key (ne, e) (mem_of_lookup he)).2.1
        have hv : __lookup_nat_cache sbi ne = some e := by
          unfold __lookup_nat_cache TREE_IDX
          have hk : ne % sbi.cfg.nat_tree_cnt = i := hk
          rw [hk]; exact he
        rw [del_eq, hv] at hs
        simp only at hs
        obtain ⟨i2, n2⟩ := ih _ sbi' i _ _ r (h.del hv hd) hs
        exact ⟨i2, nat_only_trans (nat_only_del_result sbi ne e) n2⟩

theorem try_to_free_nats_loop_inv (k : Nat) :
    ∀ (sbi sbi' : f2fs_sb_info) (i : Nat) (a r : Int), nat_inv sbi →
      try_to_free_nats_loop k sbi i a = .ok (sbi', r) →
      nat_inv sbi' ∧ nat_only sbi sbi' := by
  induction k with
  | zero =>
    intro sbi sbi' i a r h hs
    simp only [try_to_free_nats_loop, Except.ok.injEq, Prod.mk.injEq] at hs
    rw [← hs.1]; exact ⟨h, nat_only_refl _⟩
  | succ k ih =>
    intro sbi sbi' i a r h hs
    unfold try_to_free_nats_loop at hs
    simp only [bind, Except.bind] at hs
    split at hs
    · simp at hs
    · rename_i r1 hr1
      obtain ⟨i1, n1⟩ := try_to_free_nats_shard_inv _ sbi r1.1 i _ _ r1.2 h hr1
      obtain ⟨i2, n2⟩ := ih _ sbi' _ _ r i1 hs
      exact ⟨i2, nat_only_trans n1 n2⟩

/-- The state `try_to_free_nats` returns keeps the invariant and differs from
the old one in the NAT cache only. -/
theorem try_to_free_nats_inv {sbi sbi' : f2fs_sb_info} {nr_shrink r : Int} (h : nat_inv sbi)
    (hs : try_to_free_nats sbi nr_shrink = .ok (sbi', r)) :
    nat_inv sbi' ∧ nat_only sbi sbi' := by
  have h0 : nat_inv (available_free_memory sbi mem_type.NAT_ENTRIES).1 :=
    h.congr rfl rfl rfl rfl rfl rfl
  have n0 : nat_only sbi (available_free_memory sbi mem_type.NAT_ENTRIES).1 :=
    ⟨rfl, rfl, rfl, rfl, rfl⟩
  unfold try_to_free_nats at hs
  simp only at hs
  split at hs
  · simp only [Except.ok.injEq, Prod.mk.injEq] at hs
    rw [← hs.1]; exact ⟨h0, n0⟩
  · obtain ⟨i1, n1⟩ := try_to_free_nats_loop_inv _ _ sbi' 0 _ r h0 hs
    exact ⟨i1, nat_only_trans n0 n1⟩

/-! ## The flush, entry by entry -/

/-- The loop body of `__flush_nat_entry_set` as its checks, the write to the
disk and the update of the cache. -/
theorem flush_nat_entry_eq (start_nid : Nat) (to_journal : Bool) (page : Nat × Bool)
    (st : f2fs_sb_info × Option Nat) (ne : Nat) :
    __flush_nat_entry start_nid to_journal page st ne =
      match __lookup_nat_cache st.1 ne with
      | none => .error Fault.oob
      | some v =>
        if (match st.2 with
            | none => false
            | some t => TREE_IDX v.ni.nid st.1 != t) = true then .error Fault.bug_on
        else if v.ni.blk_addr = NEW_ADDR then .ok (st.1, some (TREE_IDX v.ni.nid st.1))
        else match flush_disk start_nid to_journal page st.1 v with
          | .error f => .error f
          | .ok s1 =>
            match flush_cache s1 ne v with
            | .error f => .error f
            | .ok s2 => .ok (s2, some (TREE_IDX v.ni.nid st.1)) := by
  obtain ⟨sbi, t⟩ := st
  unfold __flush_nat_entry
  cases hv : __lookup_nat_cache sbi ne with
  | none => simp only [nat_read_eq, hv, bind, Except.bind]
  | some v =>
    simp only [nat_read_eq, hv, bind, Except.bind]
    have hF : f2fs_bug_on false = Except.ok () := rfl
    have hT : f2fs_bug_on true = Except.error Fault.bug_on := rfl
    cases t with
    | none =>
      simp only [Bool.false_eq_true, if_false]
      rw [hF]
      dsimp only
      by_cases hn : v.ni.blk_addr = NEW_ADDR
      · simp only [hn, if_true]
      · simp only [hn, if_false]
        unfold flush_disk flush_cache
        cases to_journal with
        | true =>
          simp only [if_true, bind, Except.bind]
          generalize decide ((lookup_journal_in_cursum sbi v.ni.nid true).2 < 0) = b2
          cases b2 with
          | true => rfl
          | false =>
            rw [hF]
            dsimp only
            cases __clear_nat_cache_dirty _ ne <;> rfl
        | false =>
          simp only [Bool.false_eq_true, if_false, bind, Except.bind]
          cases __clear_nat_cache_dirty _ ne <;> rfl
    | some t =>
      simp only
      by_cases hb : (TREE_IDX v.ni.nid sbi != t) = true
      · simp only [hb, hT, if_true]
      · have hb2 : (TREE_IDX v.ni.nid sbi != t) = false := by
          cases hx : (TREE_IDX v.ni.nid sbi != t)
          · rfl
          · exact absurd hx hb
        simp only [hb2, Bool.false_eq_true, if_false]
        rw [hF]
        dsimp only
        by_cases hn : v.ni.blk_addr = NEW_ADDR
        · simp only [hn, if_true]
        · simp only [hn, if_false]
          unfold flush_disk flush_cache
          cases to_journal with
          | true =>
            simp only [if_true, bind, Except.bind]
            generalize decide ((lookup_journal_in_cursum sbi v.ni.nid true).2 < 0) = b2
            cases b2 with
            | true => rfl
            | false =>
              rw [hF]
              dsimp only
              cases __clear_nat_cache_dirty _ ne <;> rfl
          | false =>
            simp only [Bool.false_eq_true, if_false, bind, Except.bind]
            cases __clear_nat_cache_dirty _ ne <;> rfl

theorem journal_scan_some {j : Nat → nat_journal_entry} {val : Nat} (cnt : Nat) :
    ∀ {i k : Nat}, journal_scan j val cnt i = some k →
      i ≤ k ∧ k < i + cnt ∧ (j k).nid = val ∧ ∀ m, i ≤ m → m < k → (j m).nid ≠ val := by
  induction cnt with
  | zero => intro i k h; simp [journal_scan] at h
  | succ cnt ih =>
    intro i k h
    unfold journal_scan at h
    by_cases hi : (j i).nid = val
    · simp only [hi, if_true, Option.some.injEq] at h
      subst h
      exact ⟨le_refl _, by omega, hi, fun m h1 h2 => by omega⟩
    · simp only [hi, if_false] at h
      obtain ⟨h1, h2, h3, h4⟩ := ih h
      refine ⟨by omega, by omega, h3, ?_⟩
      intro m hm1 hm2
      by_cases hmi : m = i
      · rw [hmi]; exact hi
      · exact h4 m (by omega) hm2

theorem journal_scan_none {j : Nat → nat_journal_entry} {val : Nat} (cnt : Nat) :
    ∀ {i : Nat}, journal_scan j val cnt i = none →
      ∀ m, i ≤ m → m < i + cnt → (j m).nid ≠ val := by
  induction cnt with
  | zero => intro i _ m h1 h2; omega
  | succ cnt ih =>
    intro i h m h1 h2
    unfold journal_scan at h
    by_cases hi : (j i).nid = val
    · simp [hi] at h
    · simp only [hi, if_false] at h
      by_cases hmi : m = i
      · rw [hmi]; exact hi
      · exact ih h m (by omega) (by omega)

/-- The outcomes of a journal lookup that may reserve a slot. -/
theorem lookup_journal_alloc (sbi : f2fs_sb_info) (val : Nat) :
    (∃ k, journal_scan sbi.disk.nat_j val sbi.disk.n_nats 0 = some k ∧
      lookup_journal_in_cursum sbi val true = (sbi, (k : Int))) ∨
    (journal_scan sbi.disk.nat_j val sbi.disk.n_nats 0 = none ∧
      __has_cursum_space sbi 1 = true ∧
      lookup_journal_in_cursum sbi val true =
        ({ sbi with disk := { sbi.disk with
            n_nats := (((sbi.disk.n_nats : Int) + 1) % 65536).toNat } },
          (sbi.disk.n_nats : Int))) ∨
    (journal_scan sbi.disk.nat_j val sbi.disk.n_nats 0 = none ∧
      __has_cursum_space sbi 1 = false ∧
      lookup_journal_in_cursum sbi val true = (sbi, -1)) := by
  unfold lookup_journal_in_cursum nats_in_cursum
  cases hs : journal_scan sbi.disk.nat_j val sbi.disk.n_nats 0 with
  | some k => exact Or.inl ⟨k, rfl, rfl⟩
  | none =>
    right
    cases hc : __has_cursum_space sbi 1 with
    | true => left; exact ⟨rfl, rfl, by simp [update_nats_in_cursum]⟩
    | false => right; exact ⟨rfl, rfl, by simp⟩

theorem disk_only_refl (s : f2fs_sb_info) : disk_only s s := ⟨rfl, rfl, rfl, rfl, rfl⟩

theorem disk_only_trans {a b c : f2fs_sb_info} (h1 : disk_only a b) (h2 : disk_only b c) :
    disk_only a c :=
  ⟨h2.1.trans h1.1, h2.2.1.trans h1.2.1, h2.2.2.1.trans h1.2.2.1,
    h2.2.2.2.1.trans h1.2.2.2.1, h2.2.2.2.2.trans h1.2.2.2.2⟩

theorem nat_inv.disk_only {s s' : f2fs_sb_info} (h : nat_inv s) (hd : disk_only s s') :
    nat_inv s' := by
  refine h.congr hd.1 ?_ ?_ ?_ ?_ ?_ <;> rw [hd.2.1]

theorem lookup_disk_only {s s' : f2fs_sb_info} (hd : disk_only s s') (n : Nat) :
    __lookup_nat_cache s' n = __lookup_nat_cache s n :=
  lookup_congr (by rw [hd.2.1]) hd.1 n

theorem flush_disk_inv {start_nid : Nat} {to_journal : Bool} {page : Nat × Bool}
    {sbi s1 : f2fs_sb_info} {v : nat_entry}
    (h : flush_disk start_nid to_journal page sbi v = .ok s1) :
    disk_only sbi s1 ∧ (journal_ok sbi → v.ni.nid < sbi.cfg.max_nid → journal_ok s1) := by
  unfold flush_disk at h
  cases to_journal with
  | false =>
    simp only [Bool.false_eq_true, if_false, Except.ok.injEq] at h
    subst h
    exact ⟨⟨rfl, rfl, rfl, rfl, rfl⟩, fun hj _ => hj⟩
  | true =>
    simp only [if_true, bind, Except.bind] at h
    rcases lookup_journal_alloc sbi v.ni.nid with ⟨k, hk, hr⟩ | ⟨hk, hc, hr⟩ | ⟨hk, hc, hr⟩
    · rw [hr] at h
      simp only [decide_eq_true_eq, Int.natCast_nonneg, not_lt.2, if_false, f2fs_bug_on,
        decide_False, Bool.false_eq_true, Except.ok.injEq, Int.toNat_ofNat] at h
      subst h
      refine ⟨⟨rfl, rfl, rfl, rfl, rfl⟩, fun hj hlt => ?_⟩
      intro i hi
      by_cases hik : i = k
      · subst hik; simp only [arr_set_same]; exact hlt
      · simp only [arr_set_other _ _ _ _ hik]; exact hj i hi
    · rw [hr] at h
      simp only [decide_eq_true_eq, Int.natCast_nonneg, not_lt.2, if_false, f2fs_bug_on,
        decide_False, Bool.false_eq_true, Except.ok.injEq, Int.toNat_ofNat] at h
      subst h
      refine ⟨⟨rfl, rfl, rfl, rfl, rfl⟩, fun hj hlt => ?_⟩
      intro i hi
      by_cases hik : i = sbi.disk.n_nats
      · subst hik; simp only [arr_set_same]; exact hlt
      · simp only [arr_set_other _ _ _ _ hik]
        apply hj i
        have hi : i < (((sbi.disk.n_nats : Int) + 1) % 65536).toNat := hi
        omega
    · rw [hr] at h
      simp [f2fs_bug_on] at h

theorem set_keys_congr {s1 s2 : f2fs_sb_info} (h : s2.nat.nat_set_root = s1.nat.nat_set_root)
    (s : Nat) : set_keys s2 s = set_keys s1 s := by
  unfold set_keys; rw [h]

theorem set_keys_nat_modify (sbi : f2fs_sb_info) (e : Nat) (f : nat_entry → nat_entry) (s : Nat) :
    set_keys (nat_modify sbi e f) s = set_keys sbi s := rfl

theorem set_keys_list_del (sbi : f2fs_sb_info) (e s : Nat) :
    set_keys (list_del_nat_entry sbi e) s = set_keys sbi s := by
  unfold set_keys list_del_nat_entry
  simp only [List.map_map]
  rfl

theorem set_keys_set_modify (sbi : f2fs_sb_info) (t k : Nat) (f : nat_entry_set → nat_entry_set)
    (s : Nat) : set_keys (set_modify sbi t k f) s = set_keys sbi s := by
  unfold set_keys set_modify
  simp only
  by_cases hs : s = t
  · subst hs; rw [arr_set_same, keys_map_upd]
  · rw [arr_set_other _ _ _ _ hs]

theorem set_keys_clear_dirty_result (sbi : f2fs_sb_info) (e : Nat) (v : nat_entry) (s : Nat) :
    set_keys (clear_dirty_result sbi e v) s = set_keys sbi s := by
  unfold clear_dirty_result
  simp only
  have h1 : ∀ x : f2fs_sb_info, ∀ a, set_keys { x with nat := { x.nat with
      percore_dirty_nat_cnt := a } } s = set_keys x s := fun _ _ => rfl
  have h2 : ∀ x : f2fs_sb_info, ∀ a, set_keys { x with nat := { x.nat with
      nat_entries := a } } s = set_keys x s := fun _ _ => rfl
  rw [h1, set_keys_set_modify, set_keys_nat_modify, h2, set_keys_list_del]

theorem lookup_clear_dirty_result (sbi : f2fs_sb_info) (e : Nat) (v : nat_entry) (n : Nat) :
    __lookup_nat_cache (clear_dirty_result sbi e v) n
      = if n = e then (__lookup_nat_cache sbi n).map mark_clean else __lookup_nat_cache sbi n := by
  rw [← lookup_nat_modify]
  apply lookup_congr <;> rfl

theorem lookup_free_only {s s' : f2fs_sb_info} (h : free_only s s') (n : Nat) :
    __lookup_nat_cache s' n = __lookup_nat_cache s n :=
  lookup_congr (by rw [h.2.1]) h.1 n

theorem journal_ok.pool_only {s s' : f2fs_sb_info} (h : journal_ok s) (hf : free_only s s') :
    journal_ok s' := h.same hf.1 hf.2.2.1

/-- The cache side of the flush of one dirty entry succeeds. -/
theorem flush_cache_eq {sbi : f2fs_sb_info} (h : nat_inv sbi) {ne : Nat} {v : nat_entry}
    (hv : __lookup_nat_cache sbi ne = some v) (hd : v.flag.IS_DIRTY = true) :
    flush_cache sbi ne v = .ok (flush_cache_result sbi ne v) := by
  have hm : __lookup_nat_cache
      (nat_modify sbi ne (fun x => { x with flag := nat_reset_flag x.flag })) ne
      = some { v with flag := nat_reset_flag v.flag } := by
    rw [lookup_nat_modify, hv]; simp
  have hi := h.modify ne (fun x => { x with flag := nat_reset_flag x.flag })
    (fun _ hx => hx) (fun _ => rfl)
  unfold flush_cache flush_cache_result
  simp only [bind, Except.bind]
  rw [clear_dirty_of_dirty hi hm hd]

/-- The clean state of the cache side of the flush of one entry. -/
theorem flush_cache_result_only (sbi : f2fs_sb_info) (ne : Nat) (v : nat_entry) :
    (flush_cache_result sbi ne v).cfg = sbi.cfg ∧ (flush_cache_result sbi ne v).disk = sbi.disk ∧
    (∀ s, set_keys (flush_cache_result sbi ne v) s = set_keys sbi s) ∧
    (∀ n, __lookup_nat_cache (flush_cache_result sbi ne v) n
      = if n = ne then (__lookup_nat_cache sbi n).map
          (fun x => mark_clean { x with flag := nat_reset_flag x.flag })
        else __lookup_nat_cache sbi n) := by
  have key : ∀ s1 : f2fs_sb_info, s1 = clear_dirty_result
      (nat_modify sbi ne (fun x => { x with flag := nat_reset_flag x.flag })) ne
      { v with flag := nat_reset_flag v.flag } →
      s1.cfg = sbi.cfg ∧ s1.disk = sbi.disk ∧ (∀ s, set_keys s1 s = set_keys sbi s) ∧
      (∀ n, __lookup_nat_cache s1 n
        = if n = ne then (__lookup_nat_cache sbi n).map
            (fun x => mark_clean { x with flag := nat_reset_flag x.flag })
          else __lookup_nat_cache sbi n) := by
    intro s1 hs1
    subst hs1
    refine ⟨rfl, rfl, fun s => ?_, fun n => ?_⟩
    · rw [set_keys_clear_dirty_result, set_keys_nat_modify]
    · rw [lookup_clear_dirty_result, lookup_nat_modify]
      by_cases hn : n = ne
      · simp only [hn, if_true, Option.map_map]; rfl
      · simp only [hn, if_false]
  unfold flush_cache_result
  simp only
  obtain ⟨k1, k2, k3, k4⟩ := key _ rfl
  split
  · have hf := add_free_nid_free_only (clear_dirty_result
      (nat_modify sbi ne (fun x => { x with flag := nat_reset_flag x.flag })) ne
      { v with flag := nat_reset_flag v.flag }) v.ni.nid false
    refine ⟨hf.1.trans k1, hf.2.2.1.trans k2, fun s => ?_, fun n => ?_⟩
    · exact (set_keys_congr (by rw [hf.2.1]) s).trans (k3 s)
    · exact (lookup_free_only hf n).trans (k4 n)
  · exact ⟨k1, k2, k3, k4⟩

theorem nat_inv.flush_cache_result {sbi : f2fs_sb_info} (h : nat_inv sbi) {ne : Nat}
    {v : nat_entry} (hv : __lookup_nat_cache sbi ne = some v) (hd : v.flag.IS_DIRTY = true) :
    nat_inv (flush_cache_result sbi ne v) := by
  have hm : __lookup_nat_cache
      (nat_modify sbi ne (fun x => { x with flag := nat_reset_flag x.flag })) ne
      = some { v with flag := nat_reset_flag v.flag } := by
    rw [lookup_nat_modify, hv]; simp
  have hi := (h.modify ne (fun x => { x with flag := nat_reset_flag x.flag })
    (fun _ hx => hx) (fun _ => rfl)).clear_dirty hm hd
  unfold Max.flush_cache_result
  simp only
  split
  · exact hi.free_only (add_free_nid_free_only _ _ _)
  · exact hi

/-- Under the invariant, the loop body of `__flush_nat_entry_set` on a dirty
entry either skips an entry with `NEW_ADDR` or writes the record to the disk
and cleans the entry. -/
theorem flush_nat_entry_nf {sbi : f2fs_sb_info} (h : nat_inv sbi) {ne : Nat} {v : nat_entry}
    (hv : __lookup_nat_cache sbi ne = some v) (hd : v.flag.IS_DIRTY = true)
    {start_nid : Nat} {to_journal : Bool} {page : Nat × Bool} {t : Option Nat}
    {st : f2fs_sb_info × Option Nat}
    (hs : __flush_nat_entry start_nid to_journal page (sbi, t) ne = .ok st) :
    (∀ x, t = some x → x = ne % sbi.cfg.nat_tree_cnt) ∧
    ((v.ni.blk_addr = NEW_ADDR ∧ st = (sbi, some (ne % sbi.cfg.nat_tree_cnt))) ∨
     (v.ni.blk_addr ≠ NEW_ADDR ∧ ∃ s1, flush_disk start_nid to_journal page sbi v = .ok s1 ∧
        st = (flush_cache_result s1 ne v, some (ne % sbi.cfg.nat_tree_cnt)))) := by
  have hnid := (h.lookup hv).1
  rw [flush_nat_entry_eq] at hs
  simp only [hv, TREE_IDX, hnid] at hs
  split at hs
  · simp at hs
  · rename_i hb
    constructor
    · intro x hx
      subst hx
      simp only [bne_iff_ne, ne_eq, Decidable.not_not] at hb
      exact hb.symm
    · by_cases hn : v.ni.blk_addr = NEW_ADDR
      · simp only [hn, if_true, Except.ok.injEq] at hs
        exact Or.inl ⟨hn, hs.symm⟩
      · simp only [hn, if_false] at hs
        right
        refine ⟨hn, ?_⟩
        cases h1 : flush_disk start_nid to_journal page sbi v with
        | error f => rw [h1] at hs; simp at hs
        | ok s1 =>
          rw [h1] at hs
          simp only at hs
          have hd1 := (flush_disk_inv h1).1
          have hv1 : __lookup_nat_cache s1 ne = some v := by
            rw [lookup_disk_only hd1]; exact hv
          rw [flush_cache_eq (h.disk_only hd1) hv1 hd] at hs
          simp only [Except.ok.injEq] at hs
          exact ⟨s1, rfl, hs.symm⟩

/-- What the loop body of `__flush_nat_entry_set` keeps. -/
theorem flush_nat_entry_step {sbi : f2fs_sb_info} (h : nat_inv sbi) (hj : journal_ok sbi)
    {ne : Nat} {v : nat_entry}
    (hv : __lookup_nat_cache sbi ne = some v) (hd : v.flag.IS_DIRTY = true)
    {start_nid : Nat} {to_journal : Bool} {page : Nat × Bool} {t : Option Nat}
    {st : f2fs_sb_info × Option Nat}
    (hs : __flush_nat_entry start_nid to_journal page (sbi, t) ne = .ok st) :
    nat_inv st.1 ∧ journal_ok st.1 ∧ st.1.cfg = sbi.cfg ∧
    st.2 = some (ne % sbi.cfg.nat_tree_cnt) ∧
    (∀ s, set_keys st.1 s = set_keys sbi s) ∧
    (∀ n, n ≠ ne → __lookup_nat_cache st.1 n = __lookup_nat_cache sbi n) := by
  obtain ⟨_, ⟨_, rfl⟩ | ⟨_, s1, h1, rfl⟩⟩ := flush_nat_entry_nf h hv hd hs
  · exact ⟨h, hj, rfl, rfl, fun _ => rfl, fun _ _ => rfl⟩
  · obtain ⟨hd1, hj1⟩ := flush_disk_inv h1
    have hv1 : __lookup_nat_cache s1 ne = some v := by
      rw [lookup_disk_only hd1]; exact hv
    obtain ⟨k1, k2, k3, k4⟩ := flush_cache_result_only s1 ne v
    have hj2 := hj1 hj (by rw [(h.lookup hv).1]; exact (h.lookup hv).2)
    refine ⟨(h.disk_only hd1).flush_cache_result hv1 hd, hj2.same k1 k2, k1.trans hd1.1, rfl,
      fun s => ?_, fun n hn => ?_⟩
    · exact (k3 s).trans (set_keys_congr (by rw [hd1.2.1]) s)
    · rw [k4 n, if_neg hn, lookup_disk_only hd1]

theorem flush_nat_entry_list_step {start_nid : Nat} {to_journal : Bool} {page : Nat × Bool}
    {s : Nat} (l : List Nat) :
    ∀ (sbi : f2fs_sb_info) (t : Option Nat) (st : f2fs_sb_info × Option Nat),
      nat_inv sbi → journal_ok sbi → l.Nodup →
      (∀ n ∈ l, n % sbi.cfg.nat_tree_cnt = s ∧
        ∃ v, __lookup_nat_cache sbi n = some v ∧ v.flag.IS_DIRTY = true) →
      __flush_nat_entry_list start_nid to_journal page l (sbi, t) = .ok st →
      nat_inv st.1 ∧ journal_ok st.1 ∧ st.1.cfg = sbi.cfg ∧
      (∀ i, set_keys st.1 i = set_keys sbi i) ∧
      (∀ n, n ∉ l → __lookup_nat_cache st.1 n = __lookup_nat_cache sbi n) ∧
      (l ≠ [] → st.2 = some s) ∧ (l = [] → st.2 = t) := by
  induction l with
  | nil =>
    intro sbi t st h hj _ _ hs
    simp only [__flush_nat_entry_list, Except.ok.injEq] at hs
    subst hs
    exact ⟨h, hj, rfl, fun _ => rfl, fun _ _ => rfl, fun hne => absurd rfl hne, fun _ => rfl⟩
  | cons ne l ih =>
    intro sbi t st h hj hnd hl hs
    unfold __flush_nat_entry_list at hs
    simp only [bind, Except.bind] at hs
    obtain ⟨hne1, v, hv, hd⟩ := hl ne (List.mem_cons_self _ _)
    cases h1 : __flush_nat_entry start_nid to_journal page (sbi, t) ne with
    | error f => rw [h1] at hs; simp at hs
    | ok st1 =>
      rw [h1] at hs
      simp only at hs
      obtain ⟨i1, j1, c1, t1, k1, l1⟩ := flush_nat_entry_step h hj hv hd h1
      have hnd2 := List.nodup_cons.1 hnd
      obtain ⟨i2, j2, c2, k2, l2, t2, t3⟩ := ih st1.1 st1.2 st i1 j1 hnd2.2 (by
        intro n hn
        have hne : n ≠ ne := fun hh => hnd2.1 (hh ▸ hn)
        rw [c1, l1 n hne]
        exact hl n (List.mem_cons_of_mem _ hn)) hs
      refine ⟨i2, j2, c2.trans c1, fun i => (k2 i).trans (k1 i), ?_, ?_, ?_⟩
      · intro n hn
        simp only [List.mem_cons, not_or] at hn
        rw [l2 n hn.2, l1 n hn.1]
      · intro _
        by_cases hl0 : l = []
        · rw [t3 hl0, t1, hne1]
        · exact t2 hl0
      · intro hh; cases hh

section shard
variable {N S M s : Nat} {T : radix_tree_root nat_entry} {ST : radix_tree_root nat_entry_set}
  {L : List Nat} {c d : Nat}

theorem delete_of_lookup_none {α : Type} {R : radix_tree_root α} {k : Nat}
    (h : radix_tree_lookup R k = none) : radix_tree_delete R k = R := by
  unfold radix_tree_delete
  apply List.filter_eq_self.2
  intro p hp
  simpa using not_mem_of_lookup_none h p hp

/-- Dropping a set that counts no entry keeps the invariant of the shard. -/
theorem shard_inv.drop_set (h : shard_inv N S M s T ST L c d) {k : Nat}
    (hk : ∀ x, radix_tree_lookup ST k = some x → x.entry_cnt = 0) :
    shard_inv N S M s T (radix_tree_delete ST k) L c d := by
  cases hl : radix_tree_lookup ST k with
  | none => rw [delete_of_lookup_none hl]; exact h
  | some x =>
    have hx0 := hk x hl
    have hxl : x.entry_list = [] := by
      have := (h.set_ok (k, x) (mem_of_lookup hl)).2.1
      have h2 : x.entry_list.length = 0 := by
        have h3 : x.entry_cnt = x.entry_list.length := this
        omega
      exact List.length_eq_zero.1 h2
    refine ⟨h.root_sorted, h.root_key, delete_sorted k h.set_sorted, ?_, h.lru_nodup, h.lru_ok,
      ?_, h.cnt_eq, ?_, h.total⟩
    · intro q hq
      exact h.set_ok q (List.mem_of_mem_filter hq)
    · intro p hp
      refine ⟨fun hdp => ?_, (h.linked p hp).2⟩
      obtain ⟨h0, hh0, hm⟩ := (h.linked p hp).1 hdp
      by_cases hpk : p.1 / N = k
      · rw [hpk, hl] at hh0
        cases hh0
        rw [hxl] at hm
        cases hm
      · exact ⟨h0, by rw [lookup_delete, if_neg hpk]; exact hh0, hm⟩
    · have := sum_delete (fun q : nat_entry_set => q.entry_cnt) h.set_sorted hl
      have hd := h.dirty_eq
      simp only at this
      omega

end shard

theorem get_next_nat_page_inv {sbi : f2fs_sb_info} {nid : Nat} {r : f2fs_sb_info × (Nat × Bool)}
    (h : get_next_nat_page sbi nid = .ok r) :
    disk_only sbi r.1 ∧ r.1.disk.n_nats = sbi.disk.n_nats ∧ r.1.disk.nat_j = sbi.disk.nat_j := by
  unfold get_next_nat_page at h
  simp only [bind, Except.bind] at h
  cases hb : sbi.disk.nat_page_dirty (current_nat_addr sbi nid).1 (current_nat_addr sbi nid).2 with
  | true => rw [hb] at h; simp [f2fs_bug_on] at h
  | false =>
    rw [hb] at h
    simp only [f2fs_bug_on, Bool.false_eq_true, if_false, Except.ok.injEq] at h
    subst h
    exact ⟨⟨rfl, rfl, rfl, rfl, rfl⟩, rfl, rfl⟩

theorem set_entry_cnt_zero {sbi : f2fs_sb_info} {s k : Nat}
    (h : set_entry_cnt sbi (s, k) = 0) :
    ∀ x, radix_tree_lookup (sbi.nat.nat_set_root s) k = some x → x.entry_cnt = 0 := by
  intro x hx
  unfold set_entry_cnt at h
  simp only [hx] at h
  exact h

theorem set_keys_delete (sbi : f2fs_sb_info) (s k i : Nat) :
    set_keys { sbi with nat := { sbi.nat with
      nat_set_root := arr_set sbi.nat.nat_set_root s
        (radix_tree_delete (sbi.nat.nat_set_root s) k) } } i
      = if i = s then (set_keys sbi i).filter (fun x => x != k) else set_keys sbi i := by
  unfold set_keys
  simp only
  by_cases hi : i = s
  · subst hi
    simp only [arr_set_same, if_true, radix_tree_delete, List.filter_map]
    rfl
  · simp only [arr_set_other _ _ _ _ hi, if_neg hi]

/-- The function `__flush_nat_entry_set` stage by stage. -/
theorem flush_nat_entry_set_eq (sbi : f2fs_sb_info) (set : Nat × Nat) :
    __flush_nat_entry_set sbi set =
      match radix_tree_lookup (sbi.nat.nat_set_root set.1) set.2 with
      | none => .error Fault.oob
      | some x =>
        match flush_page sbi x with
        | .error f => .error f
        | .ok r =>
          match __flush_nat_entry_list ((x.set * sbi.cfg.NAT_ENTRY_PER_BLOCK) % 4294967296)
              (__has_cursum_space sbi (u32_to_int x.entry_cnt)) r.2 x.entry_list (r.1, none) with
          | .error f => .error f
          | .ok st =>
            match f2fs_bug_on (set_entry_cnt st.1 set != 0) with
            | .error f => .error f
            | .ok _ =>
              match st.2 with
              | none => .error Fault.oob
              | some tree_idx =>
                .ok { st.1 with nat := { st.1.nat with
                  nat_set_root := arr_set st.1.nat.nat_set_root tree_idx
                    (radix_tree_delete (st.1.nat.nat_set_root tree_idx) x.set) } } := by
  unfold __flush_nat_entry_set flush_page
  cases hl : radix_tree_lookup (sbi.nat.nat_set_root set.1) set.2 with
  | none => rfl
  | some x =>
    cases hc : __has_cursum_space sbi (u32_to_int x.entry_cnt) with
    | true =>
      simp only [hc, if_true, bind, Except.bind]
      cases __flush_nat_entry_list ((x.set * sbi.cfg.NAT_ENTRY_PER_BLOCK) % 4294967296)
          true (0, false) x.entry_list (sbi, none) with
      | error f => rfl
      | ok st =>
        dsimp only
        cases f2fs_bug_on (set_entry_cnt st.1 set != 0) with
        | error f => rfl
        | ok u => rfl
    | false =>
      simp only [hc, Bool.false_eq_true, if_false, bind, Except.bind]
      cases get_next_nat_page sbi ((x.set * sbi.cfg.NAT_ENTRY_PER_BLOCK) % 4294967296) with
      | error f => rfl
      | ok r =>
        dsimp only
        cases __flush_nat_entry_list ((x.set * sbi.cfg.NAT_ENTRY_PER_BLOCK) % 4294967296)
            false r.2 x.entry_list (r.1, none) with
        | error f => rfl
        | ok st =>
          dsimp only
          cases f2fs_bug_on (set_entry_cnt st.1 set != 0) with
          | error f => rfl
          | ok u => rfl

theorem flush_page_inv {sbi : f2fs_sb_info} {x : nat_entry_set}
    {r : f2fs_sb_info × (Nat × Bool)} (hr : flush_page sbi x = .ok r) :
    disk_only sbi r.1 ∧ r.1.disk.n_nats = sbi.disk.n_nats ∧ r.1.disk.nat_j = sbi.disk.nat_j := by
  unfold flush_page at hr
  split at hr
  · simp only [Except.ok.injEq] at hr
    rw [← hr]
    exact ⟨disk_only_refl _, rfl, rfl⟩
  · exact get_next_nat_page_inv hr

/-- The flush of one set keeps the invariants and drops the set, and no
other, from the trees. -/
theorem flush_nat_entry_set_step {sbi sbi' : f2fs_sb_info} (h : nat_inv sbi)
    (hj : journal_ok sbi) {s k : Nat} (hs : __flush_nat_entry_set sbi (s, k) = .ok sbi') :
    nat_inv sbi' ∧ journal_ok sbi' ∧ sbi'.cfg = sbi.cfg ∧
    (∀ i, set_keys sbi' i
      = if i = s then (set_keys sbi i).filter (fun x => x != k) else set_keys sbi i) := by
  rw [flush_nat_entry_set_eq] at hs
  cases hl : radix_tree_lookup (sbi.nat.nat_set_root s) k with
  | none => simp only [hl] at hs; simp at hs
  | some x =>
    simp only [hl] at hs
    obtain ⟨hset, hcnt, hnd, _, hsS, hmem⟩ := (h.shard s).set_ok (k, x) (mem_of_lookup hl)
    have hset : x.set = k := hset
    cases hr : flush_page sbi x with
    | error f => rw [hr] at hs; simp at hs
    | ok r =>
      rw [hr] at hs
      simp only at hs
      have hdr := flush_page_inv hr
      have hir : nat_inv r.1 := h.disk_only hdr.1
      have hjr : journal_ok r.1 := by
        intro i hi
        rw [hdr.2.2, hdr.1.1]
        exact hj i (by rw [← hdr.2.1]; exact hi)
      cases h1 : __flush_nat_entry_list ((x.set * sbi.cfg.NAT_ENTRY_PER_BLOCK) % 4294967296)
          (__has_cursum_space sbi (u32_to_int x.entry_cnt)) r.2 x.entry_list (r.1, none) with
      | error f => rw [h1] at hs; simp at hs
      | ok st =>
        rw [h1] at hs
        simp only at hs
        obtain ⟨i1, j1, c1, k1, _, t1, t2⟩ := flush_nat_entry_list_step x.entry_list r.1 none st
          hir hjr hnd (by
            intro n hn
            obtain ⟨_, e, he, hde⟩ := hmem n hn
            have hns := ((h.shard s).key_of_lookup he).2.1
            have he2 : __lookup_nat_cache sbi n = some e := by
              unfold __lookup_nat_cache TREE_IDX
              rw [hns]; exact he
            refine ⟨by rw [hdr.1.1]; exact hns, e, ?_, hde⟩
            rw [lookup_disk_only hdr.1]; exact he2) h1
        cases hb : (set_entry_cnt st.1 (s, k) != 0) with
        | true => rw [hb] at hs; simp [f2fs_bug_on] at hs
        | false =>
          rw [hb] at hs
          simp only [f2fs_bug_on, Bool.false_eq_true, if_false] at hs
          have hz : set_entry_cnt st.1 (s, k) = 0 := by simpa using hb
          cases ht : st.2 with
          | none => rw [ht] at hs; simp at hs
          | some tree_idx =>
            rw [ht] at hs
            simp only [Except.ok.injEq] at hs
            have hti : tree_idx = s := by
              by_cases hx : x.entry_list = []
              · rw [t2 hx] at ht; cases ht
              · rw [t1 hx] at ht; cases ht; rfl
            subst hti
            rw [hset] at hs
            have hsh := ((i1.shard tree_idx).drop_set (set_entry_cnt_zero hz))
            have hi2 := i1.of_shard hsh
            have heq : sbi' = shard_update st.1 tree_idx (st.1.nat.nat_root tree_idx)
                (radix_tree_delete (st.1.nat.nat_set_root tree_idx) k)
                (st.1.nat.nat_entries tree_idx) (st.1.nat.percore_nat_cnt tree_idx)
                (st.1.nat.percore_dirty_nat_cnt tree_idx) := by
              rw [← hs]
              simp only [shard_update, arr_set_self]
            refine ⟨heq ▸ hi2, ?_, ?_, ?_⟩
            · rw [← hs]; exact j1.same rfl rfl
            · rw [← hs]; exact c1.trans hdr.1.1
            · intro i
              have e2 : ∀ i, set_keys r.1 i = set_keys sbi i :=
                fun i => set_keys_congr (by rw [hdr.1.2.1]) i
              rw [← hs, set_keys_delete]
              by_cases hi : i = tree_idx
              · simp only [hi, if_true]
                rw [k1, e2]
              · simp only [hi, if_false]
                rw [k1, e2]

/-- The final loop of `flush_nat_entries` keeps the invariants and leaves
no set it was given. -/
theorem flush_sets_step (sets : List (Nat × Nat)) :
    ∀ (sbi sbi' : f2fs_sb_info), nat_inv sbi → journal_ok sbi →
      flush_sets sets sbi = .ok sbi' →
      nat_inv sbi' ∧ journal_ok sbi' ∧ sbi'.cfg = sbi.cfg ∧
      ∀ i k, k ∈ set_keys sbi' i → k ∈ set_keys sbi i ∧ (i, k) ∉ sets := by
  induction sets with
  | nil =>
    intro sbi sbi' h hj hs
    simp only [flush_sets, Except.ok.injEq] at hs
    subst hs
    exact ⟨h, hj, rfl, fun i k hk => ⟨hk, List.not_mem_nil _⟩⟩
  | cons set t ih =>
    intro sbi sbi' h hj hs
    unfold flush_sets at hs
    simp only [bind, Except.bind] at hs
    cases h1 : __flush_nat_entry_set sbi set with
    | error f => rw [h1] at hs; simp at hs
    | ok s1 =>
      rw [h1] at hs
      simp only at hs
      obtain ⟨i1, j1, c1, k1⟩ := flush_nat_entry_set_step (s := set.1) (k := set.2) h hj h1
      obtain ⟨i2, j2, c2, k2⟩ := ih s1 sbi' i1 j1 hs
      refine ⟨i2, j2, c2.trans c1, ?_⟩
      intro i k hk
      obtain ⟨hk1, hk2⟩ := k2 i k hk
      rw [k1 i] at hk1
      by_cases hi : i = set.1
      · simp only [hi, if_true, List.mem_filter, bne_iff_ne, ne_eq] at hk1
        refine ⟨hi ▸ hk1.1, ?_⟩
        intro hmem
        rcases List.mem_cons.1 hmem with heq | hmem
        · exact hk1.2 (congrArg Prod.snd heq)
        · exact hk2 hmem
      · simp only [hi, if_false] at hk1
        refine ⟨hk1, ?_⟩
        intro hmem
        rcases List.mem_cons.1 hmem with heq | hmem
        · exact hi (congrArg Prod.fst heq)
        · exact hk2 hmem

theorem mem_adjust_walk (sbi : f2fs_sb_info) (nes x : Nat × Nat) (l : List (Nat × Nat)) :
    x ∈ __adjust_nat_entry_set_walk sbi nes l ↔ x = nes ∨ x ∈ l := by
  induction l with
  | nil => simp [__adjust_nat_entry_set_walk]
  | cons c t ih =>
    unfold __adjust_nat_entry_set_walk
    split
    · simp
    · simp only [List.mem_cons, ih]
      tauto

theorem mem_adjust (sbi : f2fs_sb_info) (nes x : Nat × Nat) (l : List (Nat × Nat)) (max : Int) :
    x ∈ __adjust_nat_entry_set sbi nes l max ↔ x = nes ∨ x ∈ l := by
  unfold __adjust_nat_entry_set
  split
  · simp only [List.mem_append, List.mem_singleton]; tauto
  · exact mem_adjust_walk sbi nes x l

theorem mem_foldl_adjust (sbi : f2fs_sb_info) (i : Nat) (max : Int) (x : Nat × Nat)
    (vec : List (Nat × nat_entry_set)) :
    ∀ acc : List (Nat × Nat),
      x ∈ vec.foldl (fun acc p => __adjust_nat_entry_set sbi (i, p.1) acc max) acc ↔
        x ∈ acc ∨ ∃ p ∈ vec, x = (i, p.1) := by
  induction vec with
  | nil => intro acc; simp
  | cons p t ih =>
    intro acc
    simp only [List.foldl_cons, ih, mem_adjust, List.mem_cons, exists_eq_or_imp]
    tauto

theorem mem_take_of_sorted {α : Type} {l : List (Nat × α)} (hs : (l.map Prod.fst).Pairwise (· < ·))
    {n : Nat} {p q : Nat × α} (hp : p ∈ l) (hq : (l.take n).getLast? = some q)
    (hle : p.1 ≤ q.1) : p ∈ l.take n := by
  have hsplit := List.take_append_drop n l
  rw [← hsplit] at hp hs
  rcases List.mem_append.1 hp with hp | hp
  · exact hp
  · exfalso
    rw [List.map_append, List.pairwise_append] at hs
    have hq' : q ∈ l.take n := List.mem_of_getLast?_eq_some hq
    have := hs.2.2 q.1 (List.mem_map.2 ⟨q, hq', rfl⟩) p.1 (List.mem_map.2 ⟨p, hp, rfl⟩)
    omega

theorem flush_collect_shard_mem (fuel : Nat) :
    ∀ (sbi : f2fs_sb_info) (i set_idx : Nat) (sets out : List (Nat × Nat)),
      ((sbi.nat.nat_set_root i).map Prod.fst).Pairwise (· < ·) →
      (∀ q ∈ sbi.nat.nat_set_root i, q.2.set = q.1 ∧ q.1 + 1 < 4294967296) →
      0 < sbi.cfg.SETVEC_SIZE →
      flush_collect_shard fuel sbi i set_idx sets = .ok out →
      (∀ x ∈ sets, x ∈ out) ∧
      (∀ q ∈ sbi.nat.nat_set_root i, set_idx ≤ q.1 → (i, q.1) ∈ out) := by
  induction fuel with
  | zero => intro sbi i set_idx sets out _ _ _ hs; simp [flush_collect_shard] at hs
  | succ fuel ih =>
    intro sbi i set_idx sets out hsort hkey hsv hs
    unfold flush_collect_shard at hs
    simp only at hs
    have hfs : (((sbi.nat.nat_set_root i).filter (fun p => decide (set_idx ≤ p.1))).map
        Prod.fst).Pairwise (· < ·) := by
      rw [List.pairwise_map] at hsort ⊢
      exact hsort.filter _
    cases hl : (radix_tree_gang_lookup (sbi.nat.nat_set_root i) set_idx
        sbi.cfg.SETVEC_SIZE).getLast? with
    | none =>
      rw [hl] at hs
      simp only [Except.ok.injEq] at hs
      subst hs
      refine ⟨fun x hx => hx, ?_⟩
      intro q hq hle
      exfalso
      have hnil := List.getLast?_eq_none_iff.1 hl
      unfold radix_tree_gang_lookup at hnil
      have hq2 : q ∈ (sbi.nat.nat_set_root i).filter (fun p => decide (set_idx ≤ p.1)) :=
        List.mem_filter.2 ⟨hq, by simpa using hle⟩
      rcases List.take_eq_nil_iff.1 hnil with h0 | h0
      · omega
      · rw [h0] at hq2; cases hq2
    | some last =>
      rw [hl] at hs
      simp only at hs
      have hlast_mem : last ∈ sbi.nat.nat_set_root i := by
        have := List.mem_of_getLast?_eq_some hl
        unfold radix_tree_gang_lookup at this
        exact List.mem_of_mem_filter (List.mem_of_mem_take this)
      obtain ⟨hls, hlb⟩ := hkey last hlast_mem
      obtain ⟨o1, o2⟩ := ih sbi i _ _ out hsort hkey hsv hs
      refine ⟨fun x hx => o1 x ((mem_foldl_adjust sbi i _ x _ sets).2 (Or.inl hx)), ?_⟩
      intro q hq hle
      by_cases hql : q.1 ≤ last.1
      · apply o1
        apply (mem_foldl_adjust sbi i _ _ _ sets).2
        right
        refine ⟨q, ?_, rfl⟩
        unfold radix_tree_gang_lookup at hl ⊢
        exact mem_take_of_sorted hfs (List.mem_filter.2 ⟨hq, by simpa using hle⟩) hl hql
      · apply o2 q hq
        rw [hls, Nat.mod_eq_of_lt hlb]
        omega

theorem flush_collect_mem (k : Nat) :
    ∀ (sbi : f2fs_sb_info) (i : Nat) (sets out : List (Nat × Nat)),
      (∀ j, ((sbi.nat.nat_set_root j).map Prod.fst).Pairwise (· < ·)) →
      (∀ j, ∀ q ∈ sbi.nat.nat_set_root j, q.2.set = q.1 ∧ q.1 + 1 < 4294967296) →
      0 < sbi.cfg.SETVEC_SIZE →
      flush_collect k sbi i sets = .ok out →
      (∀ x ∈ sets, x ∈ out) ∧
      (∀ j, i ≤ j → j < i + k → ∀ q ∈ sbi.nat.nat_set_root j, (j, q.1) ∈ out) := by
  induction k with
  | zero =>
    intro sbi i sets out _ _ _ hs
    simp only [flush_collect, Except.ok.injEq] at hs
    subst hs
    exact ⟨fun x hx => hx, fun j h1 h2 => by omega⟩
  | succ k ih =>
    intro sbi i sets out hsort hkey hsv hs
    unfold flush_collect at hs
    simp only [bind, Except.bind] at hs
    cases h1 : flush_collect_shard ((sbi.nat.nat_set_root i).length + 1) sbi i 0 sets with
    | error f => rw [h1] at hs; simp at hs
    | ok s1 =>
      rw [h1] at hs
      simp only at hs
      obtain ⟨a1, a2⟩ := flush_collect_shard_mem _ sbi i 0 sets s1 (hsort i) (hkey i) hsv h1
      obtain ⟨b1, b2⟩ := ih sbi (i + 1) s1 out hsort hkey hsv hs
      refine ⟨fun x hx => b1 x (a1 x hx), ?_⟩
      intro j hj1 hj2 q hq
      by_cases hji : j = i
      · subst hji
        exact b1 _ (a2 q hq (Nat.zero_le _))
      · exact b2 j (by omega) (by omega) q hq

/-! ## Counting the entries over the shards -/

theorem list_sum_range_eq (f : Nat → Nat) (n : Nat) :
    ((List.range n).map f).sum = ∑ i ∈ Finset.range n, f i := by
  induction n with
  | zero => simp
  | succ n ih =>
    rw [List.range_succ, List.map_append, List.sum_append, ih, Finset.sum_range_succ]
    simp

/-- The shards together hold at most `max_nid` entries, so no more dirty
ones. -/
theorem nat_inv.dirty_sum_le {sbi : f2fs_sb_info} (h : nat_inv sbi) :
    ((List.range sbi.cfg.nat_tree_cnt).map sbi.nat.percore_dirty_nat_cnt).sum
      ≤ sbi.cfg.max_nid := by
  rw [list_sum_range_eq]
  have hfib := Finset.card_eq_sum_card_fiberwise (f := fun x => x % sbi.cfg.nat_tree_cnt)
    (s := Finset.range sbi.cfg.max_nid) (t := Finset.range sbi.cfg.nat_tree_cnt)
    (fun x _ => Finset.mem_range.2 (Nat.mod_lt _ h.1))
  rw [Finset.card_range] at hfib
  rw [hfib]
  apply Finset.sum_le_sum
  intro s _
  have hsh := h.shard s
  have hd : sbi.nat.percore_dirty_nat_cnt s ≤ (sbi.nat.nat_root s).length := by
    have := hsh.total
    omega
  refine hd.trans ?_
  have hnd : ((sbi.nat.nat_root s).map Prod.fst).Nodup :=
    hsh.root_sorted.imp (fun hlt => Nat.ne_of_lt hlt)
  have hcard : ((sbi.nat.nat_root s).map Prod.fst).toFinset.card = (sbi.nat.nat_root s).length := by
    rw [List.toFinset_card_of_nodup hnd, List.length_map]
  rw [← hcard]
  apply Finset.card_le_card
  intro x hx
  obtain ⟨p, hp, rfl⟩ := List.mem_map.1 (List.mem_toFinset.1 hx)
  obtain ⟨_, h2, h3⟩ := hsh.root_key p hp
  exact Finset.mem_filter.2 ⟨Finset.mem_range.2 h3, h2⟩

theorem nat_inv.dirty_zero_of_ge {sbi : f2fs_sb_info} (h : nat_inv sbi) {s : Nat}
    (hs : sbi.cfg.nat_tree_cnt ≤ s) : sbi.nat.percore_dirty_nat_cnt s = 0 := by
  have hsh := h.shard s
  cases hT : sbi.nat.nat_root s with
  | nil =>
    have := hsh.total
    rw [hT] at this
    simp only [List.length_nil] at this
    omega
  | cons p t =>
    exfalso
    have := (hsh.root_key p (by rw [hT]; exact List.mem_cons_self _ _)).2.1
    have := Nat.mod_lt p.1 h.1
    omega

theorem nat_inv.dirty_zero_of_sum {sbi : f2fs_sb_info} (h : nat_inv sbi)
    (h0 : sum_up sbi.nat.percore_dirty_nat_cnt sbi.cfg.nat_tree_cnt = 0) (s : Nat) :
    sbi.nat.percore_dirty_nat_cnt s = 0 := by
  by_cases hs : sbi.cfg.nat_tree_cnt ≤ s
  · exact h.dirty_zero_of_ge hs
  · have hle := h.dirty_sum_le
    have hM := h.2.2.1
    unfold sum_up at h0
    have hlt : ((List.range sbi.cfg.nat_tree_cnt).map sbi.nat.percore_dirty_nat_cnt).sum
        < 4294967296 := by omega
    rw [Nat.mod_eq_of_lt hlt] at h0
    have := List.single_le_sum (fun _ _ => Nat.zero_le _) (sbi.nat.percore_dirty_nat_cnt s)
      (List.mem_map.2 ⟨s, List.mem_range.2 (Nat.lt_of_not_le hs), rfl⟩)
    omega

theorem nat_inv.dirty_zero_of_no_sets {sbi : f2fs_sb_info} (h : nat_inv sbi) {s : Nat}
    (hk : set_keys sbi s = []) : sbi.nat.percore_dirty_nat_cnt s = 0 := by
  have hd := (h.shard s).dirty_eq
  unfold set_keys at hk
  have : sbi.nat.nat_set_root s = [] := List.map_eq_nil_iff.1 hk
  rw [this] at hd
  simpa using hd

/-- The function `flush_nat_entries` stage by stage. -/
theorem flush_nat_entries_eq (sbi : f2fs_sb_info) :
    flush_nat_entries sbi =
      if sum_up sbi.nat.percore_dirty_nat_cnt sbi.cfg.nat_tree_cnt = 0
      then .ok (flush_counted sbi)
      else match flush_drain (flush_counted sbi) with
        | .error f => .error f
        | .ok s1 =>
          match flush_collect s1.cfg.nat_tree_cnt s1 0 [] with
          | .error f => .error f
          | .ok sets => flush_sets sets s1 := by
  unfold flush_nat_entries flush_drain
  by_cases h0 : sum_up sbi.nat.percore_dirty_nat_cnt sbi.cfg.nat_tree_cnt = 0
  · simp only [h0, if_true]
    unfold flush_counted
    rw [h0]
  · simp only [h0, if_false]
    cases hc : (!__has_cursum_space (flush_counted sbi)
        (u32_to_int (flush_counted sbi).nat.dirty_nat_cnt)) with
    | true =>
      have hc2 := hc
      unfold flush_counted at hc2
      simp only at hc2
      simp only [hc2, if_true, bind, Except.bind]
      unfold flush_counted
      cases remove_nats_in_journal _ with
      | error f => rfl
      | ok s1 =>
        dsimp only
        cases flush_collect s1.cfg.nat_tree_cnt s1 0 [] <;> rfl
    | false =>
      have hc2 := hc
      unfold flush_counted at hc2
      simp only at hc2
      simp only [hc2, Bool.false_eq_true, if_false, bind, Except.bind]
      unfold flush_counted
      dsimp only
      cases flush_collect sbi.cfg.nat_tree_cnt _ 0 [] <;> rfl

/-- The runs of `flush_nat_entries` that return. -/
theorem flush_nat_entries_inv {sbi sbi' : f2fs_sb_info} (hs : flush_nat_entries sbi = .ok sbi') :
    (sum_up sbi.nat.percore_dirty_nat_cnt sbi.cfg.nat_tree_cnt = 0 ∧ sbi' = flush_counted sbi) ∨
    (sum_up sbi.nat.percore_dirty_nat_cnt sbi.cfg.nat_tree_cnt ≠ 0 ∧
      ∃ s1 sets, flush_drain (flush_counted sbi) = .ok s1 ∧
        flush_collect s1.cfg.nat_tree_cnt s1 0 [] = .ok sets ∧ flush_sets sets s1 = .ok sbi') := by
  rw [flush_nat_entries_eq] at hs
  by_cases h0 : sum_up sbi.nat.percore_dirty_nat_cnt sbi.cfg.nat_tree_cnt = 0
  · simp only [h0, if_true, Except.ok.injEq] at hs
    exact Or.inl ⟨h0, hs.symm⟩
  · simp only [h0, if_false] at hs
    right
    refine ⟨h0, ?_⟩
    cases h1 : flush_drain (flush_counted sbi) with
    | error f => rw [h1] at hs; simp at hs
    | ok s1 =>
      rw [h1] at hs
      simp only at hs
      cases h2 : flush_collect s1.cfg.nat_tree_cnt s1 0 [] with
      | error f => rw [h2] at hs; simp at hs
      | ok sets =>
        rw [h2] at hs
        simp only at hs
        exact ⟨s1, sets, rfl, h2, hs⟩

theorem flush_drain_inv {sbi s1 : f2fs_sb_info} (h : nat_inv sbi) (hj : journal_ok sbi)
    (hs : flush_drain sbi = .ok s1) : nat_inv s1 ∧ journal_ok s1 ∧ s1.cfg = sbi.cfg := by
  unfold flush_drain at hs
  split at hs
  · obtain ⟨i1, c1, _, n1, _⟩ := remove_nats_in_journal_inv h hj hs
    refine ⟨i1, ?_, c1⟩
    intro i hi
    rw [n1] at hi
    omega
  · simp only [Except.ok.injEq] at hs
    subst hs
    exact ⟨h, hj, rfl⟩

/-- The flush keeps the invariants of the NAT cache and of the journal. -/
theorem nat_inv.flush_nat_entries {sbi sbi' : f2fs_sb_info} (h : nat_inv sbi)
    (hj : journal_ok sbi) (hs : flush_nat_entries sbi = .ok sbi') :
    nat_inv sbi' ∧ journal_ok sbi' ∧ sbi'.cfg = sbi.cfg := by
  have h0 : nat_inv (flush_counted sbi) := h.congr rfl rfl rfl rfl rfl rfl
  have j0 : journal_ok (flush_counted sbi) := hj.same rfl rfl
  rcases flush_nat_entries_inv hs with ⟨_, rfl⟩ | ⟨_, s1, sets, h1, _, h3⟩
  · exact ⟨h0, j0, rfl⟩
  · obtain ⟨i1, j1, c1⟩ := flush_drain_inv h0 j0 h1
    obtain ⟨i2, j2, c2, _⟩ := flush_sets_step sets s1 sbi' i1 j1 h3
    exact ⟨i2, j2, c2.trans c1⟩

/-- After a flush that returns, no shard counts a dirty entry. -/
theorem flush_nat_entries_clean {sbi sbi' : f2fs_sb_info} (h : nat_inv sbi)
    (hj : journal_ok sbi) (hsv : 0 < sbi.cfg.SETVEC_SIZE)
    (hs : flush_nat_entries sbi = .ok sbi') (s : Nat) :
    sbi'.nat.percore_dirty_nat_cnt s = 0 := by
  have h0 : nat_inv (flush_counted sbi) := h.congr rfl rfl rfl rfl rfl rfl
  have j0 : journal_ok (flush_counted sbi) := hj.same rfl rfl
  rcases flush_nat_entries_inv hs with ⟨hz, rfl⟩ | ⟨_, s1, sets, h1, h2, h3⟩
  · exact h.dirty_zero_of_sum hz s
  · obtain ⟨i1, j1, c1⟩ := flush_drain_inv h0 j0 h1
    obtain ⟨i2, j2, c2, k2⟩ := flush_sets_step sets s1 sbi' i1 j1 h3
    apply i2.dirty_zero_of_no_sets
    apply List.eq_nil_iff_forall_not_mem.2
    intro k hk
    obtain ⟨hk1, hk2⟩ := k2 s k hk
    apply hk2
    obtain ⟨q, hq, rfl⟩ := List.mem_map.1 hk1
    obtain ⟨_, b2⟩ := flush_collect_mem _ s1 0 [] sets (fun j => (i1.shard j).set_sorted)
      (fun j q hq => by
        have := (i1.shard j).set_ok q hq
        have hM := i1.2.2.1
        exact ⟨this.1, by omega⟩)
      (by rw [c1]; exact hsv) h2
    have hsS := ((i1.shard s).set_ok q hq).2.2.2.2.1
    exact b2 s (Nat.zero_le _) (by omega) q hq

/-! ## The invariants hold in every reachable state -/

theorem nat_init.to_inv {sbi : f2fs_sb_info} (h : nat_init sbi) : nat_inv sbi := by
  obtain ⟨h1, h2, h3, _, h5⟩ := h
  refine ⟨h1, h2, h3, fun s => ?_⟩
  obtain ⟨a, b, c, d, e⟩ := h5 s
  rw [a, b, c, d, e]
  exact ⟨List.Pairwise.nil, fun _ hp => (by cases hp), List.Pairwise.nil,
    fun _ hq => (by cases hq), List.nodup_nil, fun _ hn => (by cases hn),
    fun _ hp => (by cases hp), rfl, rfl, rfl⟩

theorem nat_reachable.inv {sbi : f2fs_sb_info} (h : nat_reachable sbi) :
    nat_inv sbi ∧ journal_ok sbi := by
  induction h with
  | init h0 => exact ⟨h0.to_inv, h0.2.2.2.1⟩
  | grab _ hlt hs ih =>
    obtain ⟨hn, rfl⟩ := grab_inv hs
    exact ⟨ih.1.grab hn hlt, ih.2.nat_only (nat_only_grab _ _)⟩
  | cache _ hlt hs ih =>
    exact ⟨ih.1.cache_nat_entry hlt hs, ih.2.nat_only (nat_only_cache_nat_entry hs)⟩
  | get _ hlt hs ih =>
    exact ⟨ih.1.get_node_info hlt hs, ih.2.nat_only (nat_only_get_node_info hs)⟩
  | set_addr _ hlt hs ih =>
    exact ⟨ih.1.set_node_addr hlt hs, ih.2.nat_only (nat_only_set_node_addr hs)⟩
  | drain _ hs ih =>
    obtain ⟨i1, _, _, n1, _⟩ := remove_nats_in_journal_inv ih.1 ih.2 hs
    refine ⟨i1, fun i hi => ?_⟩
    rw [n1] at hi
    omega
  | shrink _ hs ih =>
    obtain ⟨i1, n1⟩ := try_to_free_nats_inv ih.1 hs
    exact ⟨i1, ih.2.nat_only n1⟩
  | flush _ hs ih =>
    obtain ⟨i1, j1, _⟩ := ih.1.flush_nat_entries ih.2 hs
    exact ⟨i1, j1⟩
  | set_dirty _ hs ih =>
    exact ⟨ih.1.set_dirty hs, ih.2.nat_only (nat_only_set_dirty hs)⟩
  | clear_dirty _ hv hd hs ih =>
    rw [clear_dirty_of_dirty ih.1 hv hd] at hs
    simp only [Except.ok.injEq] at hs
    subst hs
    exact ⟨ih.1.clear_dirty hv hd, ih.2.nat_only (nat_only_clear_dirty_result _ _ _)⟩
  | del _ hv hd hs ih =>
    rw [del_eq, hv] at hs
    simp only [Except.ok.injEq] at hs
    subst hs
    exact ⟨ih.1.del hv hd, ih.2.nat_only (nat_only_del_result _ _ _)⟩
  | other _ hc hn hj ih =>
    exact ⟨ih.1.congr hc (by rw [hn]) (by rw [hn]) (by rw [hn]) (by rw [hn]) (by rw [hn]), hj⟩

theorem toy_init : nat_init toy :=
  ⟨by decide, by decide, by decide, fun i hi => absurd hi (Nat.not_lt_zero i),
    fun _ => ⟨rfl, rfl, rfl, rfl, rfl⟩⟩

theorem toy_cached_reachable (a : Nat) : nat_reachable (toy_cached a) :=
  @nat_reachable.cache toy (toy_cached a) 3 { version := 0, ino := 3, block_addr := a }
    (nat_reachable.init toy_init) (by decide) rfl

theorem toy_dirty_reachable : nat_reachable toy_dirty :=
  @nat_reachable.set_addr toy toy_dirty { nid := 3, ino := 3, blk_addr := NULL_ADDR, version := 0 }
    100 false (nat_reachable.init toy_init) (by decide) rfl

theorem cache_nat_entry_miss {sbi : f2fs_sb_info} {nid : Nat}
    (h : __lookup_nat_cache sbi nid = none) (ne : f2fs_nat_entry) :
    cache_nat_entry sbi nid ne = .ok (cache_result sbi nid ne) := by
  rw [cache_nat_entry_eq, h]
  rfl

theorem cache_nat_entry_hit {sbi : f2fs_sb_info} {nid : Nat} {e : nat_entry}
    (h : __lookup_nat_cache sbi nid = some e) (ne : f2fs_nat_entry) :
    cache_nat_entry sbi nid ne = .ok sbi := by
  rw [cache_nat_entry_eq, h]

theorem lookup_cache_result {sbi : f2fs_sb_info} {nid : Nat}
    (h : __lookup_nat_cache sbi nid = none) (ne : f2fs_nat_entry) (n : Nat) :
    __lookup_nat_cache (cache_result sbi nid ne) n = if n = nid then
        some { ni := node_info_from_raw_nat { nid := nid, ino := 0, blk_addr := 0, version := 0 } ne,
               flag := { IS_CHECKPOINTED := true, HAS_FSYNCED_INODE := false,
                         HAS_LAST_FSYNC := true, IS_DIRTY := false } }
      else __lookup_nat_cache sbi n := by
  unfold cache_result
  rw [lookup_nat_modify, lookup_grab_result h]
  by_cases hn : n = nid
  · simp [hn]
  · simp [hn]

theorem cache_result_root (sbi : f2fs_sb_info) (nid : Nat) (ne : f2fs_nat_entry) :
    ((cache_result sbi nid ne).nat.nat_root (TREE_IDX nid sbi)).length
        = (sbi.nat.nat_root (TREE_IDX nid sbi)).length + 1 ∧
    ∀ s, s ≠ TREE_IDX nid sbi → (cache_result sbi nid ne).nat.nat_root s = sbi.nat.nat_root s := by
  unfold cache_result nat_modify grab_result TREE_IDX
  simp only [arr_set_same, List.length_map, length_put, true_and]
  intro s hs
  simp only [arr_set_other _ _ _ _ hs]

/-- The outcome of `get_node_info` on a cache miss. -/
theorem get_node_info_miss {sbi : f2fs_sb_info} {nid : Nat}
    (h : __lookup_nat_cache sbi nid = none) :
    get_node_info sbi nid = .ok (cache_result sbi nid (cold_read sbi nid),
      node_info_from_raw_nat { nid := nid, ino := 0, blk_addr := 0, version := 0 }
        (cold_read sbi nid)) := by
  have hc := cache_nat_entry_miss h (cold_read sbi nid)
  unfold get_node_info
  simp only [h, lookup_journal_noalloc, bind, Except.bind]
  unfold cold_read at hc ⊢
  simp only [lookup_journal_noalloc] at hc ⊢
  rw [hc]

/-- The outcome of `get_node_info` on a cache hit. -/
theorem get_node_info_hit {sbi : f2fs_sb_info} {nid : Nat} {e : nat_entry}
    (h : __lookup_nat_cache sbi nid = some e) :
    get_node_info sbi nid = .ok (sbi,
      { nid := nid, ino := e.ni.ino, blk_addr := e.ni.blk_addr, version := e.ni.version }) := by
  unfold get_node_info
  simp only [h]

/-! ## Free-NID pool: entries in state `NID_ALLOC` stay -/

theorem pool_keep_refl (x : Option Nat) (s : f2fs_sb_info) : pool_keep x s s :=
  ⟨rfl, fun h => ⟨h, fun _ _ _ h _ => h⟩⟩

theorem pool_keep_trans {x : Option Nat} {a b c : f2fs_sb_info} (h1 : pool_keep x a b)
    (h2 : pool_keep x b c) : pool_keep x a c :=
  ⟨h2.1.trans h1.1, fun h => ⟨(h2.2 (h1.2 h).1).1,
    fun m v hx hm hv => (h2.2 (h1.2 h).1).2 m v hx ((h1.2 h).2 m v hx hm hv) hv⟩⟩

theorem pool_keep_mono {s s' : f2fs_sb_info} (h : pool_keep none s s') (x : Option Nat) :
    pool_keep x s s' :=
  ⟨h.1, fun hk => ⟨(h.2 hk).1, fun m v _ hm hv => (h.2 hk).2 m v (by simp) hm hv⟩⟩

/-- A step that leaves the trees of the pool and the configuration alone. -/
theorem pool_keep_of_root {s s' : f2fs_sb_info} (hc : s'.cfg = s.cfg)
    (hr : s'.free.free_nid_root = s.free.free_nid_root) (x : Option Nat) : pool_keep x s s' := by
  refine ⟨hc, fun h => ⟨?_, fun m v _ hm _ => ?_⟩⟩
  · unfold pool_keyed; rw [hr]; exact h
  · unfold __lookup_free_nid_list LIST_IDX at hm ⊢
    rw [hr, hc]; exact hm

theorem lookup_free_arr_set (s : f2fs_sb_info) (l : Nat) (R : radix_tree_root free_nid)
    (fl : Nat → List Nat) (fc : Nat → Nat) (m : Nat) :
    __lookup_free_nid_list { s with free := { s.free with
        free_nid_root := arr_set s.free.free_nid_root l R,
        free_nid_list := fl, percore_fcnt := fc } } m
      = if m % s.cfg.nid_list_count = l then radix_tree_lookup R m
        else __lookup_free_nid_list s m := by
  unfold __lookup_free_nid_list LIST_IDX
  simp only
  by_cases h : m % s.cfg.nid_list_count = l
  · rw [if_pos h, h, arr_set_same]
  · rw [if_neg h, arr_set_other _ _ _ _ h]

theorem pool_keyed_arr_set {s : f2fs_sb_info} (hk : pool_keyed s) (l : Nat)
    {R : radix_tree_root free_nid} (hR : ∀ k v, radix_tree_lookup R k = some v → v.nid = k)
    (fl : Nat → List Nat) (fc : Nat → Nat) :
    pool_keyed { s with free := { s.free with
        free_nid_root := arr_set s.free.free_nid_root l R,
        free_nid_list := fl, percore_fcnt := fc } } := by
  intro l' k v h
  simp only at h
  by_cases hl : l' = l
  · rw [hl, arr_set_same] at h; exact hR k v h
  · rw [arr_set_other _ _ _ _ hl] at h; exact hk l' k v h

/-- The state `add_free_nid` returns: the old one up to the refreshed `fcnt`,
or the old one with a new entry in state `NID_NEW` for a NID that had none. -/
theorem add_free_nid_cases (s : f2fs_sb_info) (nid : Nat) (build : Bool) :
    (add_free_nid s nid build).1 = (available_free_memory s mem_type.FREE_NIDS).1 ∨
    (radix_tree_lookup (s.free.free_nid_root (LIST_IDX nid s)) nid = none ∧
      (add_free_nid s nid build).1 =
        { (available_free_memory s mem_type.FREE_NIDS).1 with free :=
          { (available_free_memory s mem_type.FREE_NIDS).1.free with
            free_nid_root := arr_set s.free.free_nid_root (LIST_IDX nid s)
              (radix_tree_put (s.free.free_nid_root (LIST_IDX nid s)) nid
                { nid := nid, state := nid_state.NID_NEW }),
            free_nid_list := arr_set s.free.free_nid_list (LIST_IDX nid s)
              (s.free.free_nid_list (LIST_IDX nid s) ++ [nid]),
            percore_fcnt := arr_set s.free.percore_fcnt (LIST_IDX nid s)
              (u32_inc (s.free.percore_fcnt (LIST_IDX nid s))) } }) := by
  have key : (match radix_tree_insert
        ((available_free_memory s mem_type.FREE_NIDS).1.free.free_nid_root
          (LIST_IDX nid (available_free_memory s mem_type.FREE_NIDS).1)) nid
        { nid := nid, state := nid_state.NID_NEW } with
      | none => ((available_free_memory s mem_type.FREE_NIDS).1, (0 : Int))
      | some r =>
        ({ (available_free_memory s mem_type.FREE_NIDS).1 with free :=
            { (available_free_memory s mem_type.FREE_NIDS).1.free with
              free_nid_root := arr_set
                (available_free_memory s mem_type.FREE_NIDS).1.free.free_nid_root
                (LIST_IDX nid (available_free_memory s mem_type.FREE_NIDS).1) r,
              free_nid_list := arr_set
                (available_free_memory s mem_type.FREE_NIDS).1.free.free_nid_list
                (LIST_IDX nid (available_free_memory s mem_type.FREE_NIDS).1)
                ((available_free_memory s mem_type.FREE_NIDS).1.free.free_nid_list
                  (LIST_IDX nid (available_free_memory s mem_type.FREE_NIDS).1) ++ [nid]),
              percore_fcnt := arr_set
                (available_free_memory s mem_type.FREE_NIDS).1.free.percore_fcnt
                (LIST_IDX nid (available_free_memory s mem_type.FREE_NIDS).1)
                (u32_inc ((available_free_memory s mem_type.FREE_NIDS).1.free.percore_fcnt
                  (LIST_IDX nid (available_free_memory s mem_type.FREE_NIDS).1))) } },
          (1 : Int))).1 = (available_free_memory s mem_type.FREE_NIDS).1 ∨
      (radix_tree_lookup (s.free.free_nid_root (LIST_IDX nid s)) nid = none ∧
      (match radix_tree_insert
        ((available_free_memory s mem_type.FREE_NIDS).1.free.free_nid_root
          (LIST_IDX nid (available_free_memory s mem_type.FREE_NIDS).1)) nid
        { nid := nid, state := nid_state.NID_NEW } with
      | none => ((available_free_memory s mem_type.FREE_NIDS).1, (0 : Int))
      | some r =>
        ({ (available_free_memory s mem_type.FREE_NIDS).1 with free :=
            { (available_free_memory s mem_type.FREE_NIDS).1.free with
              free_nid_root := arr_set
                (available_free_memory s mem_type.FREE_NIDS).1.free.free_nid_root
                (LIST_IDX nid (available_free_memory s mem_type.FREE_NIDS).1) r,
              free_nid_list := arr_set
                (available_free_memory s mem_type.FREE_NIDS).1.free.free_nid_list
                (LIST_IDX nid (available_free_memory s mem_type.FREE_NIDS).1)
                ((available_free_memory s mem_type.FREE_NIDS).1.free.free_nid_list
                  (LIST_IDX nid (available_free_memory s mem_type.FREE_NIDS).1) ++ [nid]),
              percore_fcnt := arr_set
                (available_free_memory s mem_type.FREE_NIDS).1.free.percore_fcnt
                (LIST_IDX nid (available_free_memory s mem_type.FREE_NIDS).1)
                (u32_inc ((available_free_memory s mem_type.FREE_NIDS).1.free.percore_fcnt
                  (LIST_IDX nid (available_free_memory s mem_type.FREE_NIDS).1))) } },
          (1 : Int))).1 =
        { (available_free_memory s mem_type.FREE_NIDS).1 with free :=
          { (available_free_memory s mem_type.FREE_NIDS).1.free with
            free_nid_root := arr_set s.free.free_nid_root (LIST_IDX nid s)
              (radix_tree_put (s.free.free_nid_root (LIST_IDX nid s)) nid
                { nid := nid, state := nid_state.NID_NEW }),
            free_nid_list := arr_set s.free.free_nid_list (LIST_IDX nid s)
              (s.free.free_nid_list (LIST_IDX nid s) ++ [nid]),
            percore_fcnt := arr_set s.free.percore_fcnt (LIST_IDX nid s)
              (u32_inc (s.free.percore_fcnt (LIST_IDX nid s))) } }) := by
    cases hl : radix_tree_lookup (s.free.free_nid_root (LIST_IDX nid s)) nid with
    | some v =>
      left
      have : radix_tree_insert
          ((available_free_memory s mem_type.FREE_NIDS).1.free.free_nid_root
            (LIST_IDX nid (available_free_memory s mem_type.FREE_NIDS).1)) nid
          { nid := nid, state := nid_state.NID_NEW } = none := by
        unfold radix_tree_insert
        have hl2 : radix_tree_lookup
            ((available_free_memory s mem_type.FREE_NIDS).1.free.free_nid_root
              (LIST_IDX nid (available_free_memory s mem_type.FREE_NIDS).1)) nid = some v := hl
        rw [hl2]
      rw [this]
    | none =>
      right
      refine ⟨rfl, ?_⟩
      have : radix_tree_insert
          ((available_free_memory s mem_type.FREE_NIDS).1.free.free_nid_root
            (LIST_IDX nid (available_free_memory s mem_type.FREE_NIDS).1)) nid
          { nid := nid, state := nid_state.NID_NEW }
          = some (radix_tree_put (s.free.free_nid_root (LIST_IDX nid s)) nid
              { nid := nid, state := nid_state.NID_NEW }) := by
        unfold radix_tree_insert
        have hl2 : radix_tree_lookup
            ((available_free_memory s mem_type.FREE_NIDS).1.free.free_nid_root
              (LIST_IDX nid (available_free_memory s mem_type.FREE_NIDS).1)) nid = none := hl
        rw [hl2]
        rfl
      rw [this]
      rfl
  unfold add_free_nid
  simp only
  split_ifs <;> first | exact Or.inl rfl | exact key

theorem add_free_nid_keep (s : f2fs_sb_info) (nid : Nat) (build : Bool) (x : Option Nat) :
    pool_keep x s (add_free_nid s nid build).1 := by
  have h0 : pool_keep x s (available_free_memory s mem_type.FREE_NIDS).1 :=
    pool_keep_of_root rfl rfl x
  rcases add_free_nid_cases s nid build with h | ⟨hl, h⟩
  · rw [h]; exact h0
  · rw [h]
    refine ⟨rfl, fun hk => ⟨?_, fun m v _ hm _ => ?_⟩⟩
    · have := pool_keyed_arr_set hk (LIST_IDX nid s)
        (R := radix_tree_put (s.free.free_nid_root (LIST_IDX nid s)) nid
          { nid := nid, state := nid_state.NID_NEW }) (by
          intro k v hkv
          rw [lookup_put _ _ _ _ hl] at hkv
          by_cases hkn : k = nid
          · simp only [hkn, if_true, Option.some.injEq] at hkv
            rw [← hkv, hkn]
          · simp only [hkn, if_false] at hkv
            exact hk _ k v hkv)
        (arr_set s.free.free_nid_list (LIST_IDX nid s)
          (s.free.free_nid_list (LIST_IDX nid s) ++ [nid]))
        (arr_set s.free.percore_fcnt (LIST_IDX nid s)
          (u32_inc (s.free.percore_fcnt (LIST_IDX nid s))))
      exact this
    · have := lookup_free_arr_set s (LIST_IDX nid s)
        (radix_tree_put (s.free.free_nid_root (LIST_IDX nid s)) nid
          { nid := nid, state := nid_state.NID_NEW })
        (arr_set s.free.free_nid_list (LIST_IDX nid s)
          (s.free.free_nid_list (LIST_IDX nid s) ++ [nid]))
        (arr_set s.free.percore_fcnt (LIST_IDX nid s)
          (u32_inc (s.free.percore_fcnt (LIST_IDX nid s)))) m
      refine Eq.trans ?_ (this.trans ?_)
      · rfl
      · split
        · rename_i hml
          rw [lookup_put _ _ _ _ hl]
          by_cases hmn : m = nid
          · subst hmn
            unfold __lookup_free_nid_list at hm
            rw [hl] at hm
            cases hm
          · simp only [hmn, if_false]
            unfold __lookup_free_nid_list LIST_IDX at hm
            unfold LIST_IDX
            rw [hml] at hm
            exact hm
        · exact hm

theorem lookup_free_nid_modify (s : f2fs_sb_info) (i m : Nat) (f : free_nid → free_nid) :
    __lookup_free_nid_list (free_nid_modify s i f) m
      = if m = i then (__lookup_free_nid_list s m).map f else __lookup_free_nid_list s m := by
  unfold __lookup_free_nid_list free_nid_modify LIST_IDX
  simp only
  by_cases h : m % s.cfg.nid_list_count = i % s.cfg.nid_list_count
  · rw [h, arr_set_same, lookup_map]
  · rw [arr_set_other _ _ _ _ h]
    have : m ≠ i := fun hh => h (by rw [hh])
    rw [if_neg this]

theorem free_nid_modify_keep (s : f2fs_sb_info) (i : Nat) (f : free_nid → free_nid)
    (hf : ∀ v, (f v).nid = v.nid) (x : Option Nat)
    (hx : x = some i ∨ ∀ v, __lookup_free_nid_list s i = some v → v.state ≠ nid_state.NID_ALLOC) :
    pool_keep x s (free_nid_modify s i f) := by
  refine ⟨rfl, fun hk => ⟨?_, fun m v hmx hm hv => ?_⟩⟩
  · intro l k v h
    unfold free_nid_modify at h
    simp only at h
    by_cases hl : l = LIST_IDX i s
    · rw [hl, arr_set_same, lookup_map] at h
      by_cases hki : k = i
      · rw [if_pos hki] at h
        cases hr : radix_tree_lookup (s.free.free_nid_root (LIST_IDX i s)) k with
        | none => rw [hr] at h; simp at h
        | some w =>
          rw [hr] at h
          simp only [Option.map_some', Option.some.injEq] at h
          rw [← h, hf]
          exact hk _ k w hr
      · rw [if_neg hki] at h
        exact hk _ k v h
    · rw [arr_set_other _ _ _ _ hl] at h
      exact hk l k v h
  · rw [lookup_free_nid_modify]
    by_cases hmi : m = i
    · exfalso
      rcases hx with hx | hx
      · exact hmx (by rw [hx, hmi])
      · exact hx v (hmi ▸ hm) hv
    · rw [if_neg hmi]; exact hm

theorem del_free_nid_keep {s s' : f2fs_sb_info} {i : Nat}
    (h : __del_from_free_nid_list s i = .ok s') (x : Option Nat)
    (hx : x = some i ∨ ∀ v, __lookup_free_nid_list s i = some v → v.state ≠ nid_state.NID_ALLOC) :
    pool_keep x s s' := by
  unfold __del_from_free_nid_list free_nid_read at h
  cases hl : radix_tree_lookup (s.free.free_nid_root (LIST_IDX i s)) i with
  | none => simp [hl, bind, Except.bind] at h
  | some w =>
    simp only [hl, bind, Except.bind, Except.ok.injEq] at h
    subst h
    refine ⟨rfl, fun hk => ?_⟩
    have hw : w.nid = i := hk _ i w hl
    refine ⟨?_, fun m v hmx hm hv => ?_⟩
    · intro l k v h
      simp only [hw] at h
      by_cases hli : l = LIST_IDX i s
      · have h2 : radix_tree_lookup (radix_tree_delete (s.free.free_nid_root (LIST_IDX i s)) i) k
            = some v := by
          rw [hli] at h
          simpa [LIST_IDX, arr_set_same] using h
        rw [lookup_delete] at h2
        split at h2
        · cases h2
        · exact hk _ k v h2
      · have h2 : radix_tree_lookup (s.free.free_nid_root l) k = some v := by
          have hne : l ≠ i % s.cfg.nid_list_count := hli
          simpa [LIST_IDX, arr_set_other _ _ _ _ hne] using h
        exact hk l k v h2
    · have hmi : m ≠ i := by
        intro hmi
        rcases hx with hx | hx
        · exact hmx (by rw [hx, hmi])
        · exact hx v (hmi ▸ hm) hv
      unfold __lookup_free_nid_list LIST_IDX at hm ⊢
      simp only [hw, LIST_IDX]
      by_cases hli : m % s.cfg.nid_list_count = i % s.cfg.nid_list_count
      · rw [hli, arr_set_same, lookup_delete, if_neg hmi]
        rw [hli] at hm
        exact hm
      · rw [arr_set_other _ _ _ _ hli]
        exact hm

theorem remove_free_nid_keep {s s' : f2fs_sb_info} {nid : Nat}
    (h : remove_free_nid s nid = .ok s') (x : Option Nat) : pool_keep x s s' := by
  unfold remove_free_nid at h
  simp only at h
  cases hl : __lookup_free_nid_list s nid with
  | none =>
    simp only [hl, Except.ok.injEq] at h
    rw [← h]; exact pool_keep_refl x s
  | some w =>
    simp only [hl] at h
    by_cases hw : w.state = nid_state.NID_NEW
    · simp only [hw, if_true, bind, Except.bind] at h
      cases hd : __del_from_free_nid_list s nid with
      | error f => rw [hd] at h; simp at h
      | ok s1 =>
        rw [hd] at h
        simp only [Except.ok.injEq] at h
        rw [← h]
        refine pool_keep_trans (del_free_nid_keep hd x (Or.inr ?_)) (pool_keep_of_root rfl rfl x)
        intro v hv
        rw [hl] at hv
        cases hv
        rw [hw]
        decide
    · simp only [hw, if_false, Except.ok.injEq] at h
      rw [← h]; exact pool_keep_refl x s

theorem scan_nat_page_loop_keep (nat_blk : Nat → f2fs_nat_entry) (x : Option Nat) (cnt : Nat) :
    ∀ (s s' : f2fs_sb_info) (i start_nid : Nat),
      scan_nat_page_loop nat_blk cnt s i start_nid = .ok s' → pool_keep x s s' := by
  induction cnt with
  | zero =>
    intro s s' i start_nid h
    simp only [scan_nat_page_loop, Except.ok.injEq] at h
    rw [← h]; exact pool_keep_refl x s
  | succ cnt ih =>
    intro s s' i start_nid h
    unfold scan_nat_page_loop at h
    split_ifs at h with h1
    · simp only [Except.ok.injEq] at h
      rw [← h]; exact pool_keep_refl x s
    · simp only [bind, Except.bind] at h
      cases hb : f2fs_bug_on ((nat_blk i).block_addr == NEW_ADDR) with
      | error f => rw [hb] at h; simp at h
      | ok u =>
        rw [hb] at h
        simp only at h
        split_ifs at h with h2 h3
        · simp only [Except.ok.injEq] at h
          rw [← h]; exact add_free_nid_keep s start_nid true x
        · exact pool_keep_trans (add_free_nid_keep s start_nid true x) (ih _ _ _ _ h)
        · exact ih _ _ _ _ h

theorem scan_nat_page_keep {s s' : f2fs_sb_info} {nat_page : Nat × Bool} {start_nid : Nat}
    (h : scan_nat_page s nat_page start_nid = .ok s') (x : Option Nat) : pool_keep x s s' :=
  scan_nat_page_loop_keep _ x _ s s' _ _ h

theorem build_free_nids_journal_keep (x : Option Nat) (cnt : Nat) :
    ∀ (s s' : f2fs_sb_info) (i : Nat), build_free_nids_journal cnt s i = .ok s' →
      pool_keep x s s' := by
  induction cnt with
  | zero =>
    intro s s' i h
    simp only [build_free_nids_journal, Except.ok.injEq] at h
    rw [← h]; exact pool_keep_refl x s
  | succ n ih =>
    intro s s' i h
    simp only [build_free_nids_journal, bind, Except.bind] at h
    by_cases ha : (s.disk.nat_j i).ne.block_addr = NULL_ADDR
    · simp only [ha, if_true] at h
      exact pool_keep_trans (add_free_nid_keep s _ true x) (ih _ _ _ h)
    · simp only [ha, if_false] at h
      cases hr : remove_free_nid s (s.disk.nat_j i).nid with
      | error f => rw [hr] at h; simp at h
      | ok s1 =>
        rw [hr] at h
        simp only at h
        exact pool_keep_trans (remove_free_nid_keep hr x) (ih _ _ _ h)

theorem build_free_nids_keep {s s' : f2fs_sb_info} (h : build_free_nids s = .ok s')
    (x : Option Nat) : pool_keep x s s' :=
  build_free_nids_journal_keep x _ s s' 0 h

theorem alloc_nid_build_keep {s s' : f2fs_sb_info} {l : Nat}
    (h : alloc_nid_build s l = .ok s') (x : Option Nat) : pool_keep x s s' := by
  unfold alloc_nid_build at h
  simp only [bind, Except.bind] at h
  cases hb : s.free.build_lock with
  | true => simp [hb] at h
  | false =>
    simp only [hb, Bool.false_eq_true, if_false] at h
    by_cases hf : s.free.percore_fcnt l = 0
    · simp only [hf, if_true] at h
      cases hr : build_free_nids
          { s with free := { s.free with build_lock := true } } with
      | error f => rw [hr] at h; simp at h
      | ok s1 =>
        rw [hr] at h
        simp only [Except.ok.injEq] at h
        rw [← h]
        exact pool_keep_trans (pool_keep_trans (pool_keep_of_root rfl rfl x)
          (build_free_nids_keep hr x)) (pool_keep_of_root rfl rfl x)
    · simp only [hf, if_false, Except.ok.injEq] at h
      rw [← h]
      exact pool_keep_of_root rfl rfl x

theorem first_new_some (s : f2fs_sb_info) (L : List Nat) {i : Nat}
    (h : first_new s L = some i) :
    ∃ v, __lookup_free_nid_list s i = some v ∧ v.state = nid_state.NID_NEW := by
  induction L with
  | nil => simp [first_new] at h
  | cons a t ih =>
    unfold first_new at h
    cases hl : __lookup_free_nid_list s a with
    | none => simp only [hl] at h; exact ih h
    | some v =>
      simp only [hl] at h
      by_cases hv : v.state = nid_state.NID_NEW
      · simp only [hv, if_true, Option.some.injEq] at h
        subst h
        exact ⟨v, hl, hv⟩
      · simp only [hv, if_false] at h
        exact ih h

/-- The section of `alloc_nid` that takes a NID: the NID was in the pool in
state `NID_NEW` and is there in state `NID_ALLOC` afterwards. -/
theorem alloc_nid_take_keep {s s' : f2fs_sb_info} {l n : Nat}
    (h : alloc_nid_take s l = .ok (s', n)) :
    pool_keep none s s' ∧
    (pool_keyed s → (∃ v, __lookup_free_nid_list s n = some v ∧ v.state = nid_state.NID_NEW) ∧
      nid_allocated s' n) := by
  unfold alloc_nid_take at h
  simp only [bind, Except.bind] at h
  cases hb : f2fs_bug_on (s.free.free_nid_list l).isEmpty with
  | error f => rw [hb] at h; simp at h
  | ok u =>
    rw [hb] at h
    simp only at h
    cases hf : first_new s (s.free.free_nid_list l) with
    | none => rw [hf] at h; simp at h
    | some i =>
      rw [hf] at h
      simp only at h
      obtain ⟨v, hv, hst⟩ := first_new_some s _ hf
      have hr : free_nid_read s i = .ok v := by
        unfold free_nid_read
        unfold __lookup_free_nid_list at hv
        rw [hv]
      rw [hr] at h
      simp only [Except.ok.injEq, Prod.mk.injEq] at h
      obtain ⟨h1, h2⟩ := h
      have hk1 : pool_keep none s
          (free_nid_modify s i (fun x => { x with state := nid_state.NID_ALLOC })) :=
        free_nid_modify_keep s i (fun x => { x with state := nid_state.NID_ALLOC })
          (fun _ => rfl) none (Or.inr (by
          intro w hw
          rw [hv] at hw
          cases hw
          rw [hst]
          decide))
      refine ⟨?_, fun hk => ?_⟩
      · rw [← h1]
        exact pool_keep_trans hk1 (pool_keep_of_root rfl rfl none)
      · have hvn : v.nid = i := hk _ i v hv
        rw [← h2, hvn]
        refine ⟨⟨v, hv, hst⟩, ?_⟩
        rw [← h1]
        refine ⟨{ v with state := nid_state.NID_ALLOC }, ?_, rfl⟩
        have := lookup_free_nid_modify s i i (fun x => { x with state := nid_state.NID_ALLOC })
        rw [if_pos rfl, hv] at this
        exact this

/-- The runs of `alloc_nid` that return. -/
theorem alloc_nid_inv (fuel : Nat) :
    ∀ (s s' : f2fs_sb_info) (r : Option Nat), alloc_nid fuel s = .ok (s', r) →
      (r = none ∧ s' = s) ∨
      ∃ s1 l n, pool_keep none s s1 ∧ alloc_nid_take s1 l = .ok (s', n) ∧ r = some n := by
  induction fuel with
  | zero => intro s s' r h; simp [alloc_nid] at h
  | succ k ih =>
    intro s s' r h
    by_cases hc : (s.total_valid_node_count + 1) % 4294967296 > s.cfg.available_nids
    · rw [alloc_nid] at h
      simp only [hc, if_true, Except.ok.injEq, Prod.mk.injEq] at h
      exact Or.inl ⟨h.2.symm, h.1.symm⟩
    · rw [alloc_nid_succ k s hc] at h
      simp only at h
      split at h
      · simp at h
      · split at h
        · simp at h
        · split at h
          · split at h
            · rename_i r1 hr1
              simp only [Except.ok.injEq, Prod.mk.injEq] at h
              obtain ⟨rfl, rfl⟩ := h
              exact Or.inr ⟨{ s with free := { s.free with
                  next_allocator := atomic_inc_return s.free.next_allocator } }, _, r1.2,
                pool_keep_of_root rfl rfl none, hr1, rfl⟩
            · simp at h
          · split at h
            · rename_i s1 hs1
              have hb := alloc_nid_build_keep hs1 none
              have h0 : pool_keep none s s1 :=
                pool_keep_trans (pool_keep_of_root rfl rfl none) hb
              rcases ih _ _ _ h with ⟨h1, h2⟩ | ⟨s2, l, n, h1, h2, h3⟩
              · right
                exfalso
                have hsp := (alloc_nid_spec k s1 s' r h).2.1.1 h1
                have hfo := alloc_nid_build_free_only hs1
                have e1 : s1.total_valid_node_count = s.total_valid_node_count := hfo.2.2.2.2
                have e2 : s1.cfg = s.cfg := hfo.1
                rw [e1, e2] at hsp
                exact hc hsp
              · exact Or.inr ⟨s2, l, n, pool_keep_trans h0 h1, h2, h3⟩
            · simp at h

theorem alloc_nid_done_keep {s s' : f2fs_sb_info} {nid : Nat}
    (h : alloc_nid_done s nid = .ok s') : pool_keep (some nid) s s' := by
  unfold alloc_nid_done at h
  simp only [bind, Except.bind] at h
  cases hl : __lookup_free_nid_list s nid with
  | none => rw [hl] at h; simp at h
  | some i =>
    rw [hl] at h
    simp only at h
    cases hb : f2fs_bug_on (i.state != nid_state.NID_ALLOC) with
    | error f => rw [hb] at h; simp at h
    | ok u =>
      rw [hb] at h
      exact del_free_nid_keep h (some nid) (Or.inl rfl)

theorem alloc_nid_failed_keep {s s' : f2fs_sb_info} {nid : Nat}
    (h : alloc_nid_failed s nid = .ok s') : pool_keep (some nid) s s' := by
  unfold alloc_nid_failed at h
  by_cases h0 : nid = 0
  · simp only [h0, if_true] at h
    have : s' = s := by
      have h2 : (Except.ok s : Except Fault f2fs_sb_info) = Except.ok s' := h
      cases h2
      rfl
    rw [this]; exact pool_keep_refl _ s
  · simp only [h0, if_false, bind, Except.bind] at h
    cases hl : __lookup_free_nid_list s nid with
    | none => rw [hl] at h; simp at h
    | some i =>
      rw [hl] at h
      simp only at h
      cases hb : f2fs_bug_on (i.state != nid_state.NID_ALLOC) with
      | error f => rw [hb] at h; simp at h
      | ok u =>
        rw [hb] at h
        simp only at h
        have k0 : pool_keep (some nid) s (available_free_memory s mem_type.FREE_NIDS).1 :=
          pool_keep_of_root rfl rfl _
        split_ifs at h
        · exact pool_keep_trans k0 (del_free_nid_keep h (some nid) (Or.inl rfl))
        · simp only [Except.ok.injEq] at h
          rw [← h]
          exact pool_keep_trans k0 (pool_keep_trans
            (free_nid_modify_keep _ nid (fun x => { x with state := nid_state.NID_NEW })
              (fun _ => rfl) (some nid) (Or.inl rfl))
            (pool_keep_of_root rfl rfl _))

theorem nid_allocated_keep {x : Option Nat} {s s' : f2fs_sb_info} (h : pool_keep x s s')
    (hk : pool_keyed s) {n : Nat} (hx : some n ≠ x) (ha : nid_allocated s n) :
    nid_allocated s' n := by
  obtain ⟨v, hv, hs⟩ := ha
  exact ⟨v, (h.2 hk).2 n v hx hv hs, hs⟩

/-- One operation on the pool keeps the trees keyed by NID; a NID it hands
out is in state `NID_ALLOC` afterwards; and a NID in state `NID_ALLOC` stays
so and is not handed out, unless the operation releases it. -/
theorem pool_step_keep {s s' : f2fs_sb_info} {op : pool_op} {r : Option Nat}
    (hk : pool_keyed s) (h : pool_step s op = .ok (s', r)) :
    pool_keyed s' ∧ (∀ n, r = some n → nid_allocated s' n) ∧
    (∀ n, nid_allocated s n → op ≠ pool_op.done n → op ≠ pool_op.failed n →
      nid_allocated s' n ∧ r ≠ some n) := by
  have plain : ∀ {t : f2fs_sb_info}, (∀ x, pool_keep x s t) →
      pool_keyed t ∧ (∀ n, (none : Option Nat) = some n → nid_allocated t n) ∧
      (∀ n, nid_allocated s n → op ≠ pool_op.done n → op ≠ pool_op.failed n →
        nid_allocated t n ∧ (none : Option Nat) ≠ some n) := by
    intro t ht
    refine ⟨((ht none).2 hk).1, fun n hn => (by cases hn), fun n ha _ _ => ?_⟩
    exact ⟨nid_allocated_keep (ht none) hk (by simp) ha, by simp⟩
  cases op with
  | add nid build =>
    simp only [pool_step, Except.ok.injEq, Prod.mk.injEq] at h
    obtain ⟨rfl, rfl⟩ := h
    exact plain (fun x => add_free_nid_keep s nid build x)
  | remove nid =>
    simp only [pool_step, bind, Except.bind] at h
    cases hr : remove_free_nid s nid with
    | error f => rw [hr] at h; simp at h
    | ok s1 =>
      rw [hr] at h
      simp only [Except.ok.injEq, Prod.mk.injEq] at h
      obtain ⟨rfl, rfl⟩ := h
      exact plain (fun x => remove_free_nid_keep hr x)
  | scan nat_page start_nid =>
    simp only [pool_step, bind, Except.bind] at h
    cases hr : scan_nat_page s nat_page start_nid with
    | error f => rw [hr] at h; simp at h
    | ok s1 =>
      rw [hr] at h
      simp only [Except.ok.injEq, Prod.mk.injEq] at h
      obtain ⟨rfl, rfl⟩ := h
      exact plain (fun x => scan_nat_page_keep hr x)
  | alloc fuel =>
    simp only [pool_step] at h
    rcases alloc_nid_inv fuel s s' r h with ⟨rfl, rfl⟩ | ⟨s1, l, m, h1, h2, rfl⟩
    · exact plain (fun x => pool_keep_refl x _)
    · have hk1 := (h1.2 hk).1
      obtain ⟨t1, t2⟩ := alloc_nid_take_keep h2
      obtain ⟨⟨v, hv, hst⟩, t3⟩ := t2 hk1
      refine ⟨(t1.2 hk1).1, fun n hn => ?_, fun n ha _ _ => ?_⟩
      · cases hn; exact t3
      · have ha1 := nid_allocated_keep h1 hk (by simp) ha
        refine ⟨nid_allocated_keep t1 hk1 (by simp) ha1, ?_⟩
        intro hmn
        cases hmn
        obtain ⟨w, hw, hws⟩ := ha1
        rw [hv] at hw
        cases hw
        rw [hst] at hws
        cases hws
  | done nid =>
    simp only [pool_step, bind, Except.bind] at h
    cases hr : alloc_nid_done s nid with
    | error f => rw [hr] at h; simp at h
    | ok s1 =>
      rw [hr] at h
      simp only [Except.ok.injEq, Prod.mk.injEq] at h
      obtain ⟨rfl, rfl⟩ := h
      have hkp := alloc_nid_done_keep hr
      refine ⟨(hkp.2 hk).1, fun n hn => (by cases hn), fun n ha hd _ => ?_⟩
      refine ⟨nid_allocated_keep hkp hk ?_ ha, by simp⟩
      intro hh
      cases hh
      exact hd rfl
  | failed nid =>
    simp only [pool_step, bind, Except.bind] at h
    cases hr : alloc_nid_failed s nid with
    | error f => rw [hr] at h; simp at h
    | ok s1 =>
      rw [hr] at h
      simp only [Except.ok.injEq, Prod.mk.injEq] at h
      obtain ⟨rfl, rfl⟩ := h
      have hkp := alloc_nid_failed_keep hr
      refine ⟨(hkp.2 hk).1, fun n hn => (by cases hn), fun n ha _ hf => ?_⟩
      refine ⟨nid_allocated_keep hkp hk ?_ ha, by simp⟩
      intro hh
      cases hh
      exact hf rfl
  | other g =>
    simp only [pool_step, Except.ok.injEq, Prod.mk.injEq] at h
    obtain ⟨rfl, rfl⟩ := h
    exact plain (fun x => pool_keep_of_root rfl rfl x)

theorem pool_run_keep (ops : List pool_op) :
    ∀ (s s' : f2fs_sb_info) (outs : List Nat), pool_keyed s → pool_run s ops = .ok (s', outs) →
      pool_keyed s' ∧
      ∀ n, nid_allocated s n → pool_op.done n ∉ ops → pool_op.failed n ∉ ops →
        n ∉ outs ∧ nid_allocated s' n := by
  induction ops with
  | nil =>
    intro s s' outs hk h
    simp only [pool_run, Except.ok.injEq, Prod.mk.injEq] at h
    obtain ⟨rfl, rfl⟩ := h
    exact ⟨hk, fun n ha _ _ => ⟨List.not_mem_nil n, ha⟩⟩
  | cons op ops ih =>
    intro s s' outs hk h
    simp only [pool_run, bind, Except.bind] at h
    cases h1 : pool_step s op with
    | error f => rw [h1] at h; simp at h
    | ok r1 =>
      rw [h1] at h
      simp only at h
      cases h2 : pool_run r1.1 ops with
      | error f => rw [h2] at h; simp at h
      | ok r2 =>
        rw [h2] at h
        simp only [Except.ok.injEq, Prod.mk.injEq] at h
        obtain ⟨rfl, rfl⟩ := h
        obtain ⟨k1, _, a1⟩ := pool_step_keep (r := r1.2) hk h1
        obtain ⟨k2, a2⟩ := ih r1.1 r2.1 r2.2 k1 h2
        refine ⟨k2, fun n ha hd hf => ?_⟩
        obtain ⟨b1, b2⟩ := a1 n ha (fun hh => hd (hh ▸ List.mem_cons_self _ _))
          (fun hh => hf (hh ▸ List.mem_cons_self _ _))
        obtain ⟨c1, c2⟩ := a2 n b1 (fun hh => hd (List.mem_cons_of_mem _ hh))
          (fun hh => hf (List.mem_cons_of_mem _ hh))
        refine ⟨?_, c2⟩
        intro hmem
        rcases List.mem_append.1 hmem with hm | hm
        · cases hr : r1.2 with
          | none => rw [hr] at hm; simp at hm
          | some m =>
            rw [hr] at hm
            simp only [Option.toList_some, List.mem_singleton] at hm
            exact b2 (by rw [hr, hm])
        · exact c1 hm

theorem pool_run_nodup (ops : List pool_op) :
    ∀ (s s' : f2fs_sb_info) (outs : List Nat), pool_keyed s →
      (∀ op ∈ ops, ∀ m, op ≠ pool_op.done m ∧ op ≠ pool_op.failed m) →
      pool_run s ops = .ok (s', outs) → outs.Nodup := by
  induction ops with
  | nil =>
    intro s s' outs _ _ h
    simp only [pool_run, Except.ok.injEq, Prod.mk.injEq] at h
    rw [← h.2]; exact List.nodup_nil
  | cons op ops ih =>
    intro s s' outs hk hno h
    simp only [pool_run, bind, Except.bind] at h
    cases h1 : pool_step s op with
    | error f => rw [h1] at h; simp at h
    | ok r1 =>
      rw [h1] at h
      simp only at h
      cases h2 : pool_run r1.1 ops with
      | error f => rw [h2] at h; simp at h
      | ok r2 =>
        rw [h2] at h
        simp only [Except.ok.injEq, Prod.mk.injEq] at h
        obtain ⟨rfl, rfl⟩ := h
        obtain ⟨k1, a0, _⟩ := pool_step_keep (r := r1.2) hk h1
        have hnd := ih r1.1 r2.1 r2.2 k1 (fun o ho => hno o (List.mem_cons_of_mem _ ho)) h2
        cases hr : r1.2 with
        | none => simpa using hnd
        | some m =>
          simp only [Option.toList_some, List.singleton_append, List.nodup_cons]
          refine ⟨?_, hnd⟩
          have ha := a0 m hr
          exact ((pool_run_keep ops r1.1 r2.1 r2.2 k1 h2).2 m ha
            (fun hh => (hno _ (List.mem_cons_of_mem _ hh) m).1 rfl)
            (fun hh => (hno _ (List.mem_cons_of_mem _ hh) m).2 rfl)).1

theorem pool_keyed_of_empty {s : f2fs_sb_info} (h : ∀ l, s.free.free_nid_root l = []) :
    pool_keyed s := by
  intro l k v hl
  rw [h l] at hl
  cases hl

/-! ## What a cold lookup reads -/

theorem journal_scan_congr {j j' : Nat → nat_journal_entry} {val : Nat} (cnt : Nat) :
    ∀ a, (∀ i, a ≤ i → i < a + cnt → ((j' i).nid = val ↔ (j i).nid = val)) →
      journal_scan j' val cnt a = journal_scan j val cnt a := by
  induction cnt with
  | zero => intro a _; rfl
  | succ cnt ih =>
    intro a h
    unfold journal_scan
    have ha := h a (le_refl _) (by omega)
    have hrest := ih (a + 1) (fun i h1 h2 => h i (by omega) (by omega))
    by_cases hv : (j a).nid = val
    · rw [if_pos hv, if_pos (ha.2 hv)]
    · rw [if_neg hv, if_neg (fun hh => hv (ha.1 hh)), hrest]

theorem journal_scan_succ (j : Nat → nat_journal_entry) (val : Nat) (cnt : Nat) :
    ∀ a, journal_scan j val (cnt + 1) a =
      match journal_scan j val cnt a with
      | some k => some k
      | none => if (j (a + cnt)).nid = val then some (a + cnt) else none := by
  induction cnt with
  | zero =>
    intro a
    simp [journal_scan]
  | succ cnt ih =>
    intro a
    rw [journal_scan]
    by_cases hv : (j a).nid = val
    · simp only [hv, if_true]
      rw [journal_scan]
      simp only [hv, if_true]
    · simp only [hv, if_false]
      rw [ih (a + 1)]
      conv_rhs => rw [journal_scan]
      simp only [hv, if_false]
      have : a + 1 + cnt = a + (cnt + 1) := by omega
      rw [this]

/-- The record a cold lookup reads: the first journal slot that records the
NID, or else slot `nid mod NAT_ENTRY_PER_BLOCK` of the current copy of the NAT
block of the NID. -/
theorem cold_read_eq (s : f2fs_sb_info) (n : Nat) (hN : 0 < s.cfg.NAT_ENTRY_PER_BLOCK)
    (hn : n < 4294967296) :
    cold_read s n = match journal_scan s.disk.nat_j n s.disk.n_nats 0 with
      | some i => (s.disk.nat_j i).ne
      | none => s.disk.nat_page (n / s.cfg.NAT_ENTRY_PER_BLOCK)
          (s.disk.nat_bitmap (n / s.cfg.NAT_ENTRY_PER_BLOCK)) (n % s.cfg.NAT_ENTRY_PER_BLOCK) := by
  unfold cold_read lookup_journal_in_cursum nats_in_cursum
  cases hs : journal_scan s.disk.nat_j n s.disk.n_nats 0 with
  | some i =>
    simp only [Int.natCast_nonneg, if_true, Int.toNat_ofNat]
  | none =>
    simp only [Bool.false_and, Bool.false_eq_true, if_false]
    have hneg : ¬ (0 : Int) ≤ -1 := by decide
    rw [if_neg hneg]
    unfold get_current_nat_page current_nat_addr NAT_BLOCK_OFFSET START_NID
    simp only
    have h1 : n / s.cfg.NAT_ENTRY_PER_BLOCK * s.cfg.NAT_ENTRY_PER_BLOCK / s.cfg.NAT_ENTRY_PER_BLOCK
        = n / s.cfg.NAT_ENTRY_PER_BLOCK := Nat.mul_div_cancel _ hN
    have h2 : (n + 4294967296 - n / s.cfg.NAT_ENTRY_PER_BLOCK * s.cfg.NAT_ENTRY_PER_BLOCK)
        % 4294967296 = n % s.cfg.NAT_ENTRY_PER_BLOCK := by
      have hd := Nat.div_add_mod n s.cfg.NAT_ENTRY_PER_BLOCK
      have hm := Nat.mod_lt n hN
      have hc : s.cfg.NAT_ENTRY_PER_BLOCK * (n / s.cfg.NAT_ENTRY_PER_BLOCK)
          = n / s.cfg.NAT_ENTRY_PER_BLOCK * s.cfg.NAT_ENTRY_PER_BLOCK := Nat.mul_comm _ _
      have : n + 4294967296 - n / s.cfg.NAT_ENTRY_PER_BLOCK * s.cfg.NAT_ENTRY_PER_BLOCK
          = 4294967296 + n % s.cfg.NAT_ENTRY_PER_BLOCK := by omega
      rw [this, Nat.add_mod_left, Nat.mod_eq_of_lt (by omega)]
    rw [h1, h2]

theorem cold_read_congr {s s' : f2fs_sb_info} (hc : s'.cfg = s.cfg) (hd : s'.disk = s.disk)
    (n : Nat) : cold_read s' n = cold_read s n := by
  unfold cold_read lookup_journal_in_cursum nats_in_cursum get_current_nat_page
    current_nat_addr NAT_BLOCK_OFFSET START_NID
  simp only [hd, hc, Bool.false_and, Bool.false_eq_true, if_false]
  cases journal_scan s.disk.nat_j n s.disk.n_nats 0 with
  | some i => simp only [hd, hc]
  | none => simp only [hd, hc]

/-- The journal path of the flush of one entry writes the record of the entry
to the first slot that records its NID, or to a new slot at the end. -/
theorem flush_disk_journal {start_nid : Nat} {page : Nat × Bool} {s s1 : f2fs_sb_info}
    {v : nat_entry} (hJ : s.cfg.NAT_JOURNAL_ENTRIES < 65536)
    (h : flush_disk start_nid true page s v = .ok s1) :
    s1.disk.nat_bitmap = s.disk.nat_bitmap ∧ s1.disk.nat_page = s.disk.nat_page ∧
    s1.disk.nat_page_dirty = s.disk.nat_page_dirty ∧
    ∃ k, s1.disk.nat_j = arr_set s.disk.nat_j k
        { nid := v.ni.nid, ne := raw_nat_from_node_info v.ni } ∧
      ((k < s.disk.n_nats ∧ s1.disk.n_nats = s.disk.n_nats ∧
          journal_scan s.disk.nat_j v.ni.nid s.disk.n_nats 0 = some k) ∨
       (k = s.disk.n_nats ∧ s1.disk.n_nats = s.disk.n_nats + 1 ∧
          journal_scan s.disk.nat_j v.ni.nid s.disk.n_nats 0 = none)) := by
  unfold flush_disk at h
  simp only [if_true, bind, Except.bind] at h
  rcases lookup_journal_alloc s v.ni.nid with ⟨k, hk, hr⟩ | ⟨hk, hc, hr⟩ | ⟨hk, hc, hr⟩
  · rw [hr] at h
    simp only [decide_eq_true_eq, Int.natCast_nonneg, not_lt.2, if_false, f2fs_bug_on,
      decide_False, Bool.false_eq_true, Except.ok.injEq, Int.toNat_ofNat] at h
    subst h
    refine ⟨rfl, rfl, rfl, k, rfl, Or.inl ⟨?_, rfl, hk⟩⟩
    have := (journal_scan_some _ hk).2.1
    omega
  · rw [hr] at h
    simp only [decide_eq_true_eq, Int.natCast_nonneg, not_lt.2, if_false, f2fs_bug_on,
      decide_False, Bool.false_eq_true, Except.ok.injEq, Int.toNat_ofNat] at h
    subst h
    refine ⟨rfl, rfl, rfl, s.disk.n_nats, rfl, Or.inr ⟨rfl, ?_, hk⟩⟩
    unfold __has_cursum_space MAX_NAT_JENTRIES nats_in_cursum at hc
    simp only [decide_eq_true_eq] at hc
    show (((s.disk.n_nats : Int) + 1) % 65536).toNat = s.disk.n_nats + 1
    omega
  · rw [hr] at h
    simp [f2fs_bug_on] at h

theorem flush_disk_journal_cold {start_nid : Nat} {page : Nat × Bool} {s s1 : f2fs_sb_info}
    {v : nat_entry} (hN : 0 < s.cfg.NAT_ENTRY_PER_BLOCK) (hJ : s.cfg.NAT_JOURNAL_ENTRIES < 65536)
    (h : flush_disk start_nid true page s v = .ok s1) (m : Nat) (hm : m < 4294967296) :
    cold_read s1 m = if m = v.ni.nid then raw_nat_from_node_info v.ni else cold_read s m := by
  obtain ⟨hd, _⟩ := flush_disk_inv h
  obtain ⟨b1, b2, _, k, hj, hcase⟩ := flush_disk_journal hJ h
  rw [cold_read_eq s1 m (by rw [hd.1]; exact hN) hm, cold_read_eq s m hN hm, b1, b2, hd.1]
  have hnid : ∀ i, i < s.disk.n_nats → ((s1.disk.nat_j i).nid = m ↔ (s.disk.nat_j i).nid = m) := by
    intro i hi
    rw [hj]
    rcases hcase with ⟨hk, _, hs⟩ | ⟨hk, _, _⟩
    · by_cases hik : i = k
      · subst hik
        rw [arr_set_same]
        simp only
        rw [(journal_scan_some _ hs).2.2.1]
      · rw [arr_set_other _ _ _ _ hik]
    · have hik : i ≠ k := by omega
      rw [arr_set_other _ _ _ _ hik]
  have hscan : journal_scan s1.disk.nat_j m s.disk.n_nats 0
      = journal_scan s.disk.nat_j m s.disk.n_nats 0 :=
    journal_scan_congr _ 0 (fun i _ hi => hnid i (by omega))
  rcases hcase with ⟨hk, hn, hs⟩ | ⟨hk, hn, hs⟩
  · rw [hn, hscan]
    by_cases hmn : m = v.ni.nid
    · rw [if_pos hmn, hmn, hs]
      simp only [hj, arr_set_same]
    · rw [if_neg hmn]
      cases hsm : journal_scan s.disk.nat_j m s.disk.n_nats 0 with
      | none => rfl
      | some i =>
        simp only
        have hik : i ≠ k := by
          intro hik
          have h1 := (journal_scan_some _ hsm).2.2.1
          have h2 := (journal_scan_some _ hs).2.2.1
          rw [hik, h2] at h1
          exact hmn h1.symm
        rw [hj, arr_set_other _ _ _ _ hik]
  · rw [hn, journal_scan_succ, hscan]
    simp only [Nat.zero_add]
    by_cases hmn : m = v.ni.nid
    · rw [if_pos hmn, hmn, hs]
      simp only [hj, hk, arr_set_same, if_true]
    · rw [if_neg hmn]
      cases hsm : journal_scan s.disk.nat_j m s.disk.n_nats 0 with
      | none =>
        simp only [hj, hk, arr_set_same]
        rw [if_neg (fun hh => hmn hh.symm)]
      | some i =>
        simp only
        have hik : i ≠ k := by
          have := (journal_scan_some _ hsm).2.1
          omega
        rw [hj, arr_set_other _ _ _ _ hik]

/-- The block path of the flush of one entry writes the record of the entry
to its slot of the page; a cold lookup of the NID reads it there when the page
is the current copy and no journal slot records the NID. -/
theorem flush_disk_block_cold {s s1 : f2fs_sb_info} {v : nat_entry}
    (hN : 0 < s.cfg.NAT_ENTRY_PER_BLOCK) (hv : v.ni.nid < 4294967296)
    (h : flush_disk ((v.ni.nid / s.cfg.NAT_ENTRY_PER_BLOCK * s.cfg.NAT_ENTRY_PER_BLOCK) % 4294967296)
      false (v.ni.nid / s.cfg.NAT_ENTRY_PER_BLOCK,
        s.disk.nat_bitmap (v.ni.nid / s.cfg.NAT_ENTRY_PER_BLOCK)) s v = .ok s1)
    (m : Nat) (hm : m < 4294967296) :
    s1.disk.nat_bitmap = s.disk.nat_bitmap ∧ s1.disk.n_nats = s.disk.n_nats ∧
    s1.disk.nat_j = s.disk.nat_j ∧ s1.disk.nat_page_dirty = s.disk.nat_page_dirty ∧
    cold_read s1 m = if m = v.ni.nid ∧ journal_scan s.disk.nat_j m s.disk.n_nats 0 = none
      then raw_nat_from_node_info v.ni else cold_read s m := by
  unfold flush_disk at h
  simp only [Bool.false_eq_true, if_false, Except.ok.injEq] at h
  subst h
  refine ⟨rfl, rfl, rfl, rfl, ?_⟩
  rw [cold_read_eq s m hN hm, cold_read_eq _ m (by exact hN) hm]
  simp only
  cases hs : journal_scan s.disk.nat_j m s.disk.n_nats 0 with
  | some i => simp
  | none =>
    simp only [and_true]
    have hle : v.ni.nid / s.cfg.NAT_ENTRY_PER_BLOCK * s.cfg.NAT_ENTRY_PER_BLOCK ≤ v.ni.nid :=
      Nat.div_mul_le_self _ _
    have hidx : (v.ni.nid + 4294967296 -
        (v.ni.nid / s.cfg.NAT_ENTRY_PER_BLOCK * s.cfg.NAT_ENTRY_PER_BLOCK) % 4294967296)
        % 4294967296 = v.ni.nid % s.cfg.NAT_ENTRY_PER_BLOCK := by
      have hc0 : (v.ni.nid / s.cfg.NAT_ENTRY_PER_BLOCK * s.cfg.NAT_ENTRY_PER_BLOCK) % 4294967296
          = v.ni.nid / s.cfg.NAT_ENTRY_PER_BLOCK * s.cfg.NAT_ENTRY_PER_BLOCK :=
        Nat.mod_eq_of_lt (by omega)
      rw [hc0]
      have hd := Nat.div_add_mod v.ni.nid s.cfg.NAT_ENTRY_PER_BLOCK
      have hml := Nat.mod_lt v.ni.nid hN
      have hc : s.cfg.NAT_ENTRY_PER_BLOCK * (v.ni.nid / s.cfg.NAT_ENTRY_PER_BLOCK)
          = v.ni.nid / s.cfg.NAT_ENTRY_PER_BLOCK * s.cfg.NAT_ENTRY_PER_BLOCK := Nat.mul_comm _ _
      have : v.ni.nid + 4294967296
          - v.ni.nid / s.cfg.NAT_ENTRY_PER_BLOCK * s.cfg.NAT_ENTRY_PER_BLOCK
          = 4294967296 + v.ni.nid % s.cfg.NAT_ENTRY_PER_BLOCK := by omega
      rw [this, Nat.add_mod_left, Nat.mod_eq_of_lt (by omega)]
    rw [hidx]
    by_cases hb : m / s.cfg.NAT_ENTRY_PER_BLOCK = v.ni.nid / s.cfg.NAT_ENTRY_PER_BLOCK
    · rw [hb]
      simp only [and_self, if_true]
      by_cases hmn : m = v.ni.nid
      · rw [if_pos hmn, hmn, arr_set_same]
      · rw [if_neg hmn]
        have hne : m % s.cfg.NAT_ENTRY_PER_BLOCK ≠ v.ni.nid % s.cfg.NAT_ENTRY_PER_BLOCK := by
          intro hh
          apply hmn
          have d1 := Nat.div_add_mod m s.cfg.NAT_ENTRY_PER_BLOCK
          have d2 := Nat.div_add_mod v.ni.nid s.cfg.NAT_ENTRY_PER_BLOCK
          rw [hb, hh] at d1
          omega
        rw [arr_set_other _ _ _ _ hne]
    · have hmn : m ≠ v.ni.nid := fun hh => hb (by rw [hh])
      rw [if_neg hmn]
      simp only [hb, false_and, if_false]

theorem list_sum_arr_set (a : Nat → Nat) (t v : Nat) (S : Nat) (ht : t < S) :
    ((List.range S).map (arr_set a t v)).sum + a t = ((List.range S).map a).sum + v := by
  induction S with
  | zero => omega
  | succ S ih =>
    rw [List.range_succ, List.map_append, List.map_append, List.sum_append, List.sum_append]
    simp only [List.map_cons, List.map_nil, List.sum_cons, List.sum_nil, Nat.add_zero]
    by_cases hS : t = S
    · subst hS
      rw [arr_set_same]
      have : (List.range t).map (arr_set a t v) = (List.range t).map a := by
        apply List.map_congr_left
        intro i hi
        have := List.mem_range.1 hi
        exact arr_set_other _ _ _ _ (by omega)
      rw [this]
      omega
    · have := ih (by omega)
      rw [arr_set_other _ _ _ _ (fun hh => hS hh.symm)]
      omega

theorem nat_inv.dirty_pos {sbi : f2fs_sb_info} (h : nat_inv sbi) {n : Nat} {v : nat_entry}
    (hv : __lookup_nat_cache sbi n = some v) (hd : v.flag.IS_DIRTY = true) :
    1 ≤ sbi.nat.percore_dirty_nat_cnt (n % sbi.cfg.nat_tree_cnt) ∧
    sbi.nat.percore_dirty_nat_cnt (n % sbi.cfg.nat_tree_cnt) < 4294967296 := by
  have hsh := h.shard (n % sbi.cfg.nat_tree_cnt)
  obtain ⟨h0, hh0, hm⟩ := (hsh.linked (n, v) (mem_of_lookup hv)).1 hd
  have hq := mem_of_lookup hh0
  have hc := (hsh.set_ok _ hq).2.1
  have hle := entry_cnt_le_sum hq
  have hlen : 1 ≤ h0.entry_list.length := List.length_pos_of_mem hm
  have hdq := hsh.dirty_eq
  have htot := hsh.total
  have hlt := hsh.length_lt h.2.2.1
  have hc2 : h0.entry_cnt = h0.entry_list.length := hc
  have hle2 : h0.entry_cnt
      ≤ ((sbi.nat.nat_set_root (n % sbi.cfg.nat_tree_cnt)).map (fun q => q.2.entry_cnt)).sum := hle
  omega

theorem flush_cache_result_dirty (sbi : f2fs_sb_info) (ne : Nat) (v : nat_entry) :
    (flush_cache_result sbi ne v).nat.percore_dirty_nat_cnt
      = arr_set sbi.nat.percore_dirty_nat_cnt (v.ni.nid % sbi.cfg.nat_tree_cnt)
          (u32_dec (sbi.nat.percore_dirty_nat_cnt (v.ni.nid % sbi.cfg.nat_tree_cnt))) := by
  unfold flush_cache_result
  simp only
  split
  · rw [(add_free_nid_free_only _ _ _).2.1]
    rfl
  · rfl

/-- The flush of one dirty entry takes one from the sum of the dirty
counters, unless it skips the entry. -/
theorem flush_cache_result_sum {sbi : f2fs_sb_info} (h : nat_inv sbi) {ne : Nat} {v : nat_entry}
    (hv : __lookup_nat_cache sbi ne = some v) (hd : v.flag.IS_DIRTY = true) :
    ((List.range sbi.cfg.nat_tree_cnt).map
        (flush_cache_result sbi ne v).nat.percore_dirty_nat_cnt).sum + 1
      = ((List.range sbi.cfg.nat_tree_cnt).map sbi.nat.percore_dirty_nat_cnt).sum := by
  rw [flush_cache_result_dirty, (h.lookup hv).1]
  obtain ⟨h1, h2⟩ := h.dirty_pos hv hd
  have := list_sum_arr_set sbi.nat.percore_dirty_nat_cnt (ne % sbi.cfg.nat_tree_cnt)
    (u32_dec (sbi.nat.percore_dirty_nat_cnt (ne % sbi.cfg.nat_tree_cnt))) sbi.cfg.nat_tree_cnt
    (h.tree_idx_lt ne)
  have hu : u32_dec (sbi.nat.percore_dirty_nat_cnt (ne % sbi.cfg.nat_tree_cnt)) + 1
      = sbi.nat.percore_dirty_nat_cnt (ne % sbi.cfg.nat_tree_cnt) := by
    unfold u32_dec
    omega
  omega

/-- What the loop body of `__flush_nat_entry_set` does to cold lookups and to
the invariants of the journal.  On the block path the page is the current copy
of the NAT block of the entry. -/
theorem flush_nat_entry_cold {sbi : f2fs_sb_info} (h : nat_inv sbi)
    (hJ : sbi.cfg.NAT_JOURNAL_ENTRIES < 65536) {ne : Nat} {v : nat_entry}
    (hv : __lookup_nat_cache sbi ne = some v) (hd : v.flag.IS_DIRTY = true)
    {start_nid : Nat} {to_journal : Bool} {page : Nat × Bool} {t : Option Nat}
    {st : f2fs_sb_info × Option Nat}
    (hs : __flush_nat_entry start_nid to_journal page (sbi, t) ne = .ok st)
    (hpath : to_journal = false →
      start_nid = (ne / sbi.cfg.NAT_ENTRY_PER_BLOCK * sbi.cfg.NAT_ENTRY_PER_BLOCK) % 4294967296 ∧
      page = (ne / sbi.cfg.NAT_ENTRY_PER_BLOCK,
        sbi.disk.nat_bitmap (ne / sbi.cfg.NAT_ENTRY_PER_BLOCK))) :
    st.1.disk.nat_bitmap = sbi.disk.nat_bitmap ∧
    (∀ m, m < 4294967296 → m ≠ ne → cold_read st.1 m = cold_read sbi m) ∧
    (v.ni.blk_addr ≠ NEW_ADDR →
      (to_journal = true ∨ journal_scan sbi.disk.nat_j ne sbi.disk.n_nats 0 = none) →
      cold_read st.1 ne = raw_nat_from_node_info v.ni) ∧
    (journal_fits sbi → journal_fits st.1) ∧
    (journal_clean sbi → journal_clean st.1) := by
  have hnid := (h.lookup hv).1
  have hlt : ne < 4294967296 := lt_trans (h.lookup hv).2 h.2.2.1
  obtain ⟨_, ⟨hnew, rfl⟩ | ⟨hnew, s1, h1, rfl⟩⟩ := flush_nat_entry_nf h hv hd hs
  · exact ⟨rfl, fun _ _ _ => rfl, fun hx => absurd hnew hx, fun hf => hf, fun hc => hc⟩
  · obtain ⟨hd1, _⟩ := flush_disk_inv h1
    obtain ⟨k1, k2, _, k4⟩ := flush_cache_result_only s1 ne v
    have hv1 : __lookup_nat_cache s1 ne = some v := by
      rw [lookup_disk_only hd1]; exact hv
    have hi1 : nat_inv s1 := h.disk_only hd1
    have hcr : ∀ m, cold_read (flush_cache_result s1 ne v) m = cold_read s1 m :=
      fun m => cold_read_congr k1 k2 m
    have hsum := flush_cache_result_sum hi1 hv1 hd
    have hpd : s1.nat.percore_dirty_nat_cnt = sbi.nat.percore_dirty_nat_cnt := by rw [hd1.2.1]
    have hS : s1.cfg.nat_tree_cnt = sbi.cfg.nat_tree_cnt := by rw [hd1.1]
    have hlook : ∀ n w, __lookup_nat_cache (flush_cache_result s1 ne v) n = some w →
        w.flag.IS_DIRTY = true → n ≠ ne ∧ __lookup_nat_cache sbi n = some w := by
      intro n w hw hwd
      rw [k4 n] at hw
      by_cases hn : n = ne
      · rw [if_pos hn, hn, hv1] at hw
        simp only [Option.map_some', Option.some.injEq] at hw
        rw [← hw] at hwd
        simp [mark_clean] at hwd
      · rw [if_neg hn, lookup_disk_only hd1] at hw
        exact ⟨hn, hw⟩
    cases to_journal with
    | true =>
      have hc := flush_disk_journal_cold h.2.1 hJ h1
      obtain ⟨b1, _, _, k, hj, hcase⟩ := flush_disk_journal hJ h1
      refine ⟨by rw [k2, b1], ?_, ?_, ?_, ?_⟩
      · intro m hm hmne
        rw [hcr, hc m hm, hnid, if_neg hmne]
      · intro _ _
        rw [hcr, hc ne hlt, hnid, if_pos rfl]
      · intro hf
        unfold journal_fits at hf ⊢
        dsimp only
        rw [k1, k2, hd1.1]
        rw [hS, hpd] at hsum
        rcases hcase with ⟨_, hn, _⟩ | ⟨_, hn, _⟩ <;> rw [hn] <;> omega
      · intro hc0 i hi w hw
        rw [k2] at hi hw
        by_contra hwd
        have hwd : w.flag.IS_DIRTY = true := by
          cases hx : w.flag.IS_DIRTY
          · exact absurd hx hwd
          · rfl
        obtain ⟨hne, hw0⟩ := hlook _ w hw hwd
        rw [hj] at hne hw0
        by_cases hik : i = k
        · rw [hik, arr_set_same] at hne
          exact hne hnid
        · rw [arr_set_other _ _ _ _ hik] at hne hw0
          have hi0 : i < sbi.disk.n_nats := by
            rcases hcase with ⟨_, hn, _⟩ | ⟨hk, hn, _⟩
            · rw [hn] at hi; exact hi
            · rw [hn] at hi; omega
          rw [hc0 i hi0 w hw0] at hwd
          cases hwd
    | false =>
      obtain ⟨hst, hpg⟩ := hpath rfl
      rw [hst, hpg, ← hnid] at h1
      have hvlt : v.ni.nid < 4294967296 := by rw [hnid]; exact hlt
      have hb := fun m hm => flush_disk_block_cold h.2.1 hvlt h1 m hm
      obtain ⟨b1, b2, b3, _, _⟩ := hb 0 (by decide)
      refine ⟨by rw [k2, b1], ?_, ?_, ?_, ?_⟩
      · intro m hm hmne
        rw [hcr, (hb m hm).2.2.2.2, hnid]
        rw [if_neg (fun hh => hmne hh.1)]
      · intro _ hsc
        rcases hsc with hsc | hsc
        · cases hsc
        · rw [hcr, (hb ne hlt).2.2.2.2, hnid, if_pos ⟨rfl, hsc⟩]
      · intro hf
        unfold journal_fits at hf ⊢
        dsimp only
        rw [k1, k2, hd1.1, b2]
        rw [hS, hpd] at hsum
        omega
      · intro hc0 i hi w hw
        rw [k2, b2] at hi
        rw [k2, b3] at hw
        by_contra hwd
        have hwd : w.flag.IS_DIRTY = true := by
          cases hx : w.flag.IS_DIRTY
          · exact absurd hx hwd
          · rfl
        obtain ⟨_, hw0⟩ := hlook _ w hw hwd
        rw [hc0 i hi w hw0] at hwd
        cases hwd

theorem journal_clean.scan_none {sbi : f2fs_sb_info} (h : journal_clean sbi) {m : Nat}
    {v : nat_entry} (hv : __lookup_nat_cache sbi m = some v) (hd : v.flag.IS_DIRTY = true) :
    journal_scan sbi.disk.nat_j m sbi.disk.n_nats 0 = none := by
  cases hs : journal_scan sbi.disk.nat_j m sbi.disk.n_nats 0 with
  | none => rfl
  | some i =>
    exfalso
    obtain ⟨_, h2, h3, _⟩ := journal_scan_some _ hs
    have := h i (by omega) v (by rw [h3]; exact hv)
    rw [this] at hd
    cases hd

theorem flush_nat_entry_list_cold {start_nid : Nat} {to_journal : Bool} {page : Nat × Bool}
    {s : Nat} (l : List Nat) :
    ∀ (sbi : f2fs_sb_info) (t : Option Nat) (st : f2fs_sb_info × Option Nat),
      nat_inv sbi → journal_ok sbi → sbi.cfg.NAT_JOURNAL_ENTRIES < 65536 → l.Nodup →
      (∀ n ∈ l, n % sbi.cfg.nat_tree_cnt = s ∧
        ∃ v, __lookup_nat_cache sbi n = some v ∧ v.flag.IS_DIRTY = true) →
      (to_journal = false → ∀ n ∈ l,
        start_nid = (n / sbi.cfg.NAT_ENTRY_PER_BLOCK * sbi.cfg.NAT_ENTRY_PER_BLOCK) % 4294967296 ∧
        page = (n / sbi.cfg.NAT_ENTRY_PER_BLOCK,
          sbi.disk.nat_bitmap (n / sbi.cfg.NAT_ENTRY_PER_BLOCK))) →
      __flush_nat_entry_list start_nid to_journal page l (sbi, t) = .ok st →
      st.1.disk.nat_bitmap = sbi.disk.nat_bitmap ∧
      (∀ m, m < 4294967296 → m ∉ l → cold_read st.1 m = cold_read sbi m) ∧
      (∀ m ∈ l, ∀ v, __lookup_nat_cache sbi m = some v → v.ni.blk_addr ≠ NEW_ADDR →
        (to_journal = true ∨ journal_clean sbi) →
        cold_read st.1 m = raw_nat_from_node_info v.ni) ∧
      (journal_fits sbi → journal_fits st.1) ∧
      (journal_clean sbi → journal_clean st.1) := by
  induction l with
  | nil =>
    intro sbi t st _ _ _ _ _ _ hs
    simp only [__flush_nat_entry_list, Except.ok.injEq] at hs
    subst hs
    exact ⟨rfl, fun _ _ _ => rfl, fun m hm => absurd hm (List.not_mem_nil m), fun hf => hf,
      fun hc => hc⟩
  | cons ne l ih =>
    intro sbi t st h hj hJ hnd hl hpath hs
    unfold __flush_nat_entry_list at hs
    simp only [bind, Except.bind] at hs
    obtain ⟨hne1, v, hv, hd⟩ := hl ne (List.mem_cons_self _ _)
    cases h1 : __flush_nat_entry start_nid to_journal page (sbi, t) ne with
    | error f => rw [h1] at hs; simp at hs
    | ok st1 =>
      rw [h1] at hs
      simp only at hs
      obtain ⟨i1, j1, c1, _, _, l1⟩ := flush_nat_entry_step h hj hv hd h1
      obtain ⟨e0, e1, e2, e3, e4⟩ := flush_nat_entry_cold h hJ hv hd h1
        (fun htj => hpath htj ne (List.mem_cons_self _ _))
      have hnd2 := List.nodup_cons.1 hnd
      have hl2 : ∀ n ∈ l, n ≠ ne := fun n hn hh => hnd2.1 (hh ▸ hn)
      obtain ⟨f0, f1, f2, f3, f4⟩ := ih st1.1 st1.2 st i1 j1 (by rw [c1]; exact hJ) hnd2.2 (by
        intro n hn
        rw [c1, l1 n (hl2 n hn)]
        exact hl n (List.mem_cons_of_mem _ hn)) (by
        intro htj n hn
        rw [c1, e0]
        exact hpath htj n (List.mem_cons_of_mem _ hn)) hs
      refine ⟨f0.trans e0, ?_, ?_, fun hf => f3 (e3 hf), fun hc => f4 (e4 hc)⟩
      · intro m hm hml
        simp only [List.mem_cons, not_or] at hml
        rw [f1 m hm hml.2, e1 m hm hml.1]
      · intro m hm w hw hnew hcond
        have hmlt : m < 4294967296 := lt_trans (h.lookup hw).2 h.2.2.1
        rcases List.mem_cons.1 hm with hmn | hml
        · subst hmn
          rw [hv] at hw
          cases hw
          rw [f1 m hmlt hnd2.1]
          apply e2 hnew
          rcases hcond with hc | hc
          · exact Or.inl hc
          · exact Or.inr (hc.scan_none hv hd)
        · apply f2 m hml w _ hnew
          · rcases hcond with hc | hc
            · exact Or.inl hc
            · exact Or.inr (e4 hc)
          · rw [l1 m (hl2 m hml)]; exact hw

theorem journal_fits.same_fits {s s' : f2fs_sb_info} (h : journal_fits s) (hc : s'.cfg = s.cfg)
    (hn : s'.disk.n_nats = s.disk.n_nats)
    (hp : s'.nat.percore_dirty_nat_cnt = s.nat.percore_dirty_nat_cnt) : journal_fits s' := by
  unfold journal_fits at h ⊢
  rw [hc, hn, hp]; exact h

theorem journal_clean.same_clean {s s' : f2fs_sb_info} (h : journal_clean s) (hc : s'.cfg = s.cfg)
    (hn : s'.disk.n_nats = s.disk.n_nats) (hj : s'.disk.nat_j = s.disk.nat_j)
    (hr : s'.nat.nat_root = s.nat.nat_root) : journal_clean s' := by
  intro i hi v hv
  rw [hn] at hi
  rw [hj, lookup_congr hr hc] at hv
  exact h i hi v hv

/-- Taking the next copy of a NAT block changes no cold lookup. -/
theorem get_next_nat_page_cold {sbi : f2fs_sb_info} {nid : Nat}
    {r : f2fs_sb_info × (Nat × Bool)} (hN : 0 < sbi.cfg.NAT_ENTRY_PER_BLOCK)
    (h : get_next_nat_page sbi nid = .ok r) :
    r.2 = (nid / sbi.cfg.NAT_ENTRY_PER_BLOCK,
      r.1.disk.nat_bitmap (nid / sbi.cfg.NAT_ENTRY_PER_BLOCK)) ∧
    ∀ m, m < 4294967296 → cold_read r.1 m = cold_read sbi m := by
  unfold get_next_nat_page at h
  simp only [bind, Except.bind] at h
  cases hb : sbi.disk.nat_page_dirty (current_nat_addr sbi nid).1 (current_nat_addr sbi nid).2 with
  | true => rw [hb] at h; simp [f2fs_bug_on] at h
  | false =>
    rw [hb] at h
    simp only [f2fs_bug_on, Bool.false_eq_true, if_false, Except.ok.injEq] at h
    subst h
    constructor
    · simp only [set_to_next_nat, next_nat_addr, current_nat_addr, NAT_BLOCK_OFFSET,
        arr_set_same]
    · intro m hm
      rw [cold_read_eq sbi m hN hm, cold_read_eq _ m (by exact hN) hm]
      simp only [set_to_next_nat, next_nat_addr, current_nat_addr, NAT_BLOCK_OFFSET]
      cases journal_scan sbi.disk.nat_j m sbi.disk.n_nats 0 with
      | some i => rfl
      | none =>
        simp only
        by_cases hk : m / sbi.cfg.NAT_ENTRY_PER_BLOCK = nid / sbi.cfg.NAT_ENTRY_PER_BLOCK
        · rw [hk, arr_set_same]
          simp
        · rw [arr_set_other _ _ _ _ hk]
          simp [hk]

theorem flush_page_cold {sbi : f2fs_sb_info} {x : nat_entry_set}
    {r : f2fs_sb_info × (Nat × Bool)} (hN : 0 < sbi.cfg.NAT_ENTRY_PER_BLOCK)
    (h : flush_page sbi x = .ok r) :
    (__has_cursum_space sbi (u32_to_int x.entry_cnt) = false →
      r.2 = ((x.set * sbi.cfg.NAT_ENTRY_PER_BLOCK) % 4294967296 / sbi.cfg.NAT_ENTRY_PER_BLOCK,
        r.1.disk.nat_bitmap
          ((x.set * sbi.cfg.NAT_ENTRY_PER_BLOCK) % 4294967296 / sbi.cfg.NAT_ENTRY_PER_BLOCK))) ∧
    ∀ m, m < 4294967296 → cold_read r.1 m = cold_read sbi m := by
  unfold flush_page at h
  split at h
  · rename_i hc
    simp only [Except.ok.injEq] at h
    rw [← h]
    exact ⟨fun hh => (by rw [hc] at hh; cases hh), fun _ _ => rfl⟩
  · obtain ⟨h1, h2⟩ := get_next_nat_page_cold hN h
    exact ⟨fun _ => h1, h2⟩

/-- Under `journal_fits` a set finds room in the journal. -/
theorem journal_fits.has_space {sbi : f2fs_sb_info} (h : nat_inv sbi)
    (hM : sbi.cfg.max_nid < 2147483648) (hf : journal_fits sbi) {s k : Nat} {x : nat_entry_set}
    (hl : radix_tree_lookup (sbi.nat.nat_set_root s) k = some x) :
    __has_cursum_space sbi (u32_to_int x.entry_cnt) = true := by
  have hq := mem_of_lookup hl
  have hle : x.entry_cnt
      ≤ ((sbi.nat.nat_set_root s).map (fun q => q.2.entry_cnt)).sum := entry_cnt_le_sum hq
  have hd := (h.shard s).dirty_eq
  have hsS := ((h.shard s).set_ok _ hq).2.2.2.2.1
  have hsum := List.single_le_sum (fun _ _ => Nat.zero_le _) (sbi.nat.percore_dirty_nat_cnt s)
    (List.mem_map.2 ⟨s, List.mem_range.2 hsS, rfl⟩)
  have hles := h.dirty_sum_le
  unfold journal_fits at hf
  unfold __has_cursum_space MAX_NAT_JENTRIES nats_in_cursum u32_to_int
  have hx : x.entry_cnt < 2147483648 := by omega
  have hmod : x.entry_cnt % 4294967296 = x.entry_cnt := Nat.mod_eq_of_lt (by omega)
  rw [hmod, if_pos hx]
  simp only [decide_eq_true_eq]
  omega

/-- The stages of a run of `__flush_nat_entry_set` that returns. -/
theorem flush_nat_entry_set_inv {sbi sbi' : f2fs_sb_info} {s k : Nat}
    (hs : __flush_nat_entry_set sbi (s, k) = .ok sbi') :
    ∃ x r st, radix_tree_lookup (sbi.nat.nat_set_root s) k = some x ∧
      flush_page sbi x = .ok r ∧
      __flush_nat_entry_list ((x.set * sbi.cfg.NAT_ENTRY_PER_BLOCK) % 4294967296)
        (__has_cursum_space sbi (u32_to_int x.entry_cnt)) r.2 x.entry_list (r.1, none) = .ok st ∧
      sbi'.cfg = st.1.cfg ∧ sbi'.disk = st.1.disk ∧ sbi'.nat.nat_root = st.1.nat.nat_root ∧
      sbi'.nat.percore_dirty_nat_cnt = st.1.nat.percore_dirty_nat_cnt := by
  rw [flush_nat_entry_set_eq] at hs
  cases hl : radix_tree_lookup (sbi.nat.nat_set_root s) k with
  | none => simp only [hl] at hs; simp at hs
  | some x =>
    simp only [hl] at hs
    cases hr : flush_page sbi x with
    | error f => rw [hr] at hs; simp at hs
    | ok r =>
      rw [hr] at hs
      simp only at hs
      cases h1 : __flush_nat_entry_list ((x.set * sbi.cfg.NAT_ENTRY_PER_BLOCK) % 4294967296)
          (__has_cursum_space sbi (u32_to_int x.entry_cnt)) r.2 x.entry_list (r.1, none) with
      | error f => rw [h1] at hs; simp at hs
      | ok st =>
        rw [h1] at hs
        simp only at hs
        cases hb : f2fs_bug_on (set_entry_cnt st.1 (s, k) != 0) with
        | error f => rw [hb] at hs; simp at hs
        | ok u =>
          rw [hb] at hs
          simp only at hs
          cases ht : st.2 with
          | none => rw [ht] at hs; simp at hs
          | some tree_idx =>
            rw [ht] at hs
            simp only [Except.ok.injEq] at hs
            subst hs
            exact ⟨x, r, st, rfl, hr, h1, rfl, rfl, rfl, rfl⟩

/-- The flush of one set and cold lookups: a NID outside the set reads what
it read before, a NID of the set reads the record of its entry, and the
invariants of the journal stay. -/
theorem flush_nat_entry_set_cold {sbi sbi' : f2fs_sb_info} (h : nat_inv sbi)
    (hj : journal_ok sbi) (hJ : sbi.cfg.NAT_JOURNAL_ENTRIES < 65536)
    (hM : sbi.cfg.max_nid < 2147483648) {s k : Nat}
    (hs : __flush_nat_entry_set sbi (s, k) = .ok sbi')
    (hinv : journal_fits sbi ∨ journal_clean sbi) :
    (∀ m, (m % sbi.cfg.nat_tree_cnt ≠ s ∨ m / sbi.cfg.NAT_ENTRY_PER_BLOCK ≠ k ∨
        ∀ v, __lookup_nat_cache sbi m = some v → v.flag.IS_DIRTY = false) →
      __lookup_nat_cache sbi' m = __lookup_nat_cache sbi m ∧
      (m < 4294967296 → cold_read sbi' m = cold_read sbi m)) ∧
    (∀ m v, __lookup_nat_cache sbi m = some v → v.flag.IS_DIRTY = true →
      m % sbi.cfg.nat_tree_cnt = s → m / sbi.cfg.NAT_ENTRY_PER_BLOCK = k →
      v.ni.blk_addr ≠ NEW_ADDR → cold_read sbi' m = raw_nat_from_node_info v.ni) ∧
    (journal_fits sbi → journal_fits sbi') ∧
    (journal_clean sbi → journal_clean sbi') := by
  obtain ⟨x, r, st, hl, hr, h1, c1, c2, c3, c4⟩ := flush_nat_entry_set_inv hs
  obtain ⟨hset, hcnt, hnd, _, hsS, hmem⟩ := (h.shard s).set_ok (k, x) (mem_of_lookup hl)
  have hset : x.set = k := hset
  have hdr := flush_page_inv hr
  obtain ⟨hpg, hcold⟩ := flush_page_cold h.2.1 hr
  have hir : nat_inv r.1 := h.disk_only hdr.1
  have hjr : journal_ok r.1 := by
    intro i hi
    rw [hdr.2.2, hdr.1.1]
    exact hj i (by rw [← hdr.2.1]; exact hi)
  have hlk : ∀ n, __lookup_nat_cache r.1 n = __lookup_nat_cache sbi n :=
    fun n => lookup_disk_only hdr.1 n
  -- the members of the list are the dirty entries of the set
  have hmem1 : ∀ n ∈ x.entry_list, n % sbi.cfg.nat_tree_cnt = s ∧
      n / sbi.cfg.NAT_ENTRY_PER_BLOCK = k ∧
      ∃ e, __lookup_nat_cache sbi n = some e ∧ e.flag.IS_DIRTY = true := by
    intro n hn
    obtain ⟨hk, e, he, hde⟩ := hmem n hn
    have hns := ((h.shard s).key_of_lookup he).2.1
    refine ⟨hns, hk, e, ?_, hde⟩
    unfold __lookup_nat_cache TREE_IDX
    rw [hns]; exact he
  have hmem2 : ∀ m v, __lookup_nat_cache sbi m = some v → v.flag.IS_DIRTY = true →
      m % sbi.cfg.nat_tree_cnt = s → m / sbi.cfg.NAT_ENTRY_PER_BLOCK = k →
      m ∈ x.entry_list := by
    intro m v hv hd hms hmk
    obtain ⟨h0, hh0, hm⟩ := ((h.shard _).linked (m, v) (mem_of_lookup hv)).1 hd
    have hh1 : radix_tree_lookup (sbi.nat.nat_set_root (m % sbi.cfg.nat_tree_cnt))
        (m / sbi.cfg.NAT_ENTRY_PER_BLOCK) = some h0 := hh0
    rw [hms, hmk, hl] at hh1
    cases hh1
    exact hm
  have hnot : ∀ m, (m % sbi.cfg.nat_tree_cnt ≠ s ∨ m / sbi.cfg.NAT_ENTRY_PER_BLOCK ≠ k ∨
      ∀ v, __lookup_nat_cache sbi m = some v → v.flag.IS_DIRTY = false) →
      m ∉ x.entry_list := by
    intro m hc hm
    obtain ⟨a, b, e, he, hde⟩ := hmem1 m hm
    rcases hc with hc | hc | hc
    · exact hc a
    · exact hc b
    · rw [hc e he] at hde; cases hde
  obtain ⟨_, _, _, _, l1, _, _⟩ := flush_nat_entry_list_step x.entry_list r.1 none st
    hir hjr hnd (by
      intro n hn
      obtain ⟨a, _, e, he, hde⟩ := hmem1 n hn
      exact ⟨by rw [hdr.1.1]; exact a, e, by rw [hlk]; exact he, hde⟩) h1
  have hcond : __has_cursum_space sbi (u32_to_int x.entry_cnt) = true ∨ journal_clean r.1 := by
    rcases hinv with hf | hc
    · exact Or.inl (hf.has_space h hM hl)
    · exact Or.inr (hc.same_clean hdr.1.1 hdr.2.1 hdr.2.2 (by rw [hdr.1.2.1]))
  obtain ⟨_, f1, f2, f3, f4⟩ := flush_nat_entry_list_cold x.entry_list r.1 none st
    hir hjr (by rw [hdr.1.1]; exact hJ) hnd (by
      intro n hn
      obtain ⟨a, _, e, he, hde⟩ := hmem1 n hn
      exact ⟨by rw [hdr.1.1]; exact a, e, by rw [hlk]; exact he, hde⟩) (by
      intro htj n hn
      obtain ⟨_, b, e, he, _⟩ := hmem1 n hn
      have hnlt : n < 4294967296 := lt_trans (h.lookup he).2 h.2.2.1
      have hkn : k * sbi.cfg.NAT_ENTRY_PER_BLOCK ≤ n := by
        rw [← b]; exact Nat.div_mul_le_self _ _
      have hmod : (k * sbi.cfg.NAT_ENTRY_PER_BLOCK) % 4294967296
          = k * sbi.cfg.NAT_ENTRY_PER_BLOCK := Nat.mod_eq_of_lt (by omega)
      have hpg2 := hpg htj
      rw [hset, hmod, Nat.mul_div_cancel _ h.2.1] at hpg2
      rw [hdr.1.1, b, hset, hmod]
      exact ⟨rfl, hpg2⟩) h1
  have hcr : ∀ m, cold_read sbi' m = cold_read st.1 m := fun m => cold_read_congr c1 c2 m
  have hlk2 : ∀ m, __lookup_nat_cache sbi' m = __lookup_nat_cache st.1 m :=
    fun m => lookup_congr c3 c1 m
  obtain ⟨_, _, cst, _⟩ := flush_nat_entry_list_step x.entry_list r.1 none st
    hir hjr hnd (by
      intro n hn
      obtain ⟨a, _, e, he, hde⟩ := hmem1 n hn
      exact ⟨by rw [hdr.1.1]; exact a, e, by rw [hlk]; exact he, hde⟩) h1
  refine ⟨?_, ?_, ?_, ?_⟩
  · intro m hc
    have hml := hnot m hc
    refine ⟨by rw [hlk2, l1 m hml, hlk], fun hm => ?_⟩
    rw [hcr, f1 m hm hml, hcold m hm]
  · intro m v hv hd hms hmk hnew
    rw [hcr]
    exact f2 m (hmem2 m v hv hd hms hmk) v (by rw [hlk]; exact hv) hnew hcond
  · intro hf
    have hf1 : journal_fits r.1 := hf.same_fits hdr.1.1 hdr.2.1 (by rw [hdr.1.2.1])
    exact (f3 hf1).same_fits c1 (by rw [c2]) c4
  · intro hc
    have hc1 : journal_clean r.1 := hc.same_clean hdr.1.1 hdr.2.1 hdr.2.2 (by rw [hdr.1.2.1])
    exact (f4 hc1).same_clean c1 (by rw [c2]) (by rw [c2]) c3

/-- Once the set of its NAT block is gone from the tree of its shard, an entry
is clean. -/
theorem nat_inv.clean_of_no_set {sbi : f2fs_sb_info} (h : nat_inv sbi) {m : Nat}
    (hk : m / sbi.cfg.NAT_ENTRY_PER_BLOCK ∉ set_keys sbi (m % sbi.cfg.nat_tree_cnt)) :
    ∀ w, __lookup_nat_cache sbi m = some w → w.flag.IS_DIRTY = false := by
  intro w hw
  cases hd : w.flag.IS_DIRTY with
  | false => rfl
  | true =>
    exfalso
    obtain ⟨h0, hh0, _⟩ := ((h.shard _).linked (m, w) (mem_of_lookup hw)).1 hd
    apply hk
    exact List.mem_map.2 ⟨_, mem_of_lookup hh0, rfl⟩

theorem flush_sets_cold_keep (sets : List (Nat × Nat)) :
    ∀ (sbi sbi' : f2fs_sb_info), nat_inv sbi → journal_ok sbi →
      sbi.cfg.NAT_JOURNAL_ENTRIES < 65536 → sbi.cfg.max_nid < 2147483648 →
      (journal_fits sbi ∨ journal_clean sbi) → flush_sets sets sbi = .ok sbi' →
      ∀ m, m < 4294967296 →
        (∀ v, __lookup_nat_cache sbi m = some v → v.flag.IS_DIRTY = false) →
        cold_read sbi' m = cold_read sbi m := by
  induction sets with
  | nil =>
    intro sbi sbi' _ _ _ _ _ hs m _ _
    simp only [flush_sets, Except.ok.injEq] at hs
    rw [hs]
  | cons set t ih =>
    intro sbi sbi' h hj hJ hM hinv hs m hm hcl
    unfold flush_sets at hs
    simp only [bind, Except.bind] at hs
    cases h1 : __flush_nat_entry_set sbi set with
    | error f => rw [h1] at hs; simp at hs
    | ok s1 =>
      rw [h1] at hs
      simp only at hs
      obtain ⟨i1, j1, c1, _⟩ := flush_nat_entry_set_step (s := set.1) (k := set.2) h hj h1
      obtain ⟨a1, _, a3, a4⟩ := flush_nat_entry_set_cold (s := set.1) (k := set.2) h hj hJ hM h1 hinv
      obtain ⟨b1, b2⟩ := a1 m (Or.inr (Or.inr hcl))
      have hinv1 : journal_fits s1 ∨ journal_clean s1 := by
        rcases hinv with hf | hc
        · exact Or.inl (a3 hf)
        · exact Or.inr (a4 hc)
      rw [ih s1 sbi' i1 j1 (by rw [c1]; exact hJ) (by rw [c1]; exact hM) hinv1 hs m hm
        (by rw [b1]; exact hcl), b2 hm]

/-- The final loop of `flush_nat_entries`: a cold lookup of a NID whose dirty
entry is in one of the sets reads the record of that entry. -/
theorem flush_sets_cold (sets : List (Nat × Nat)) :
    ∀ (sbi sbi' : f2fs_sb_info), nat_inv sbi → journal_ok sbi →
      sbi.cfg.NAT_JOURNAL_ENTRIES < 65536 → sbi.cfg.max_nid < 2147483648 →
      (journal_fits sbi ∨ journal_clean sbi) → flush_sets sets sbi = .ok sbi' →
      ∀ m v, __lookup_nat_cache sbi m = some v → v.flag.IS_DIRTY = true →
        v.ni.blk_addr ≠ NEW_ADDR →
        (m % sbi.cfg.nat_tree_cnt, m / sbi.cfg.NAT_ENTRY_PER_BLOCK) ∈ sets →
        cold_read sbi' m = raw_nat_from_node_info v.ni := by
  induction sets with
  | nil => intro sbi sbi' _ _ _ _ _ _ m v _ _ _ hmem; cases hmem
  | cons set t ih =>
    intro sbi sbi' h hj hJ hM hinv hs m v hv hd hnew hmem
    have hm : m < 4294967296 := lt_trans (h.lookup hv).2 h.2.2.1
    unfold flush_sets at hs
    simp only [bind, Except.bind] at hs
    cases h1 : __flush_nat_entry_set sbi set with
    | error f => rw [h1] at hs; simp at hs
    | ok s1 =>
      rw [h1] at hs
      simp only at hs
      obtain ⟨i1, j1, c1, k1⟩ := flush_nat_entry_set_step (s := set.1) (k := set.2) h hj h1
      obtain ⟨a1, a2, a3, a4⟩ := flush_nat_entry_set_cold (s := set.1) (k := set.2) h hj hJ hM h1 hinv
      have hinv1 : journal_fits s1 ∨ journal_clean s1 := by
        rcases hinv with hf | hc
        · exact Or.inl (a3 hf)
        · exact Or.inr (a4 hc)
      have hJ1 : s1.cfg.NAT_JOURNAL_ENTRIES < 65536 := by rw [c1]; exact hJ
      have hM1 : s1.cfg.max_nid < 2147483648 := by rw [c1]; exact hM
      by_cases hset : m % sbi.cfg.nat_tree_cnt = set.1 ∧ m / sbi.cfg.NAT_ENTRY_PER_BLOCK = set.2
      · have hc := a2 m v hv hd hset.1 hset.2 hnew
        have hclean : ∀ w, __lookup_nat_cache s1 m = some w → w.flag.IS_DIRTY = false := by
          apply i1.clean_of_no_set
          rw [c1, hset.1, hset.2, k1 set.1, if_pos rfl]
          intro hin
          have := (List.mem_filter.1 hin).2
          simp at this
        rw [flush_sets_cold_keep t s1 sbi' i1 j1 hJ1 hM1 hinv1 hs m hm hclean, hc]
      · have hor : m % sbi.cfg.nat_tree_cnt ≠ set.1 ∨ m / sbi.cfg.NAT_ENTRY_PER_BLOCK ≠ set.2 := by
          by_cases h1 : m % sbi.cfg.nat_tree_cnt = set.1
          · exact Or.inr (fun h2 => hset ⟨h1, h2⟩)
          · exact Or.inl h1
        have hor2 : m % sbi.cfg.nat_tree_cnt ≠ set.1 ∨ m / sbi.cfg.NAT_ENTRY_PER_BLOCK ≠ set.2 ∨
            ∀ v, __lookup_nat_cache sbi m = some v → v.flag.IS_DIRTY = false := by
          rcases hor with h1 | h1
          · exact Or.inl h1
          · exact Or.inr (Or.inl h1)
        obtain ⟨b1, _⟩ := a1 m hor2
        apply ih s1 sbi' i1 j1 hJ1 hM1 hinv1 hs m v (by rw [b1]; exact hv) hd hnew
        rw [c1]
        rcases List.mem_cons.1 hmem with heq | hmem
        · exfalso
          apply hset
          rw [← heq]
          exact ⟨rfl, rfl⟩
        · exact hmem

theorem remove_nats_in_journal_loop_lookup (cnt : Nat) :
    ∀ (sbi sbi' : f2fs_sb_info) (i : Nat), remove_nats_in_journal_loop cnt sbi i = .ok sbi' →
      ∀ n e, __lookup_nat_cache sbi n = some e → e.flag.IS_DIRTY = true →
        __lookup_nat_cache sbi' n = some e := by
  induction cnt with
  | zero =>
    intro sbi sbi' i hs n e he _
    simp only [remove_nats_in_journal_loop, Except.ok.injEq] at hs
    rw [← hs]; exact he
  | succ cnt ih =>
    intro sbi sbi' i hs n e he hd
    rw [remove_nats_in_journal_loop_succ] at hs
    cases h1 : cache_nat_entry sbi (sbi.disk.nat_j i).nid (sbi.disk.nat_j i).ne with
    | error f => rw [h1] at hs; simp at hs
    | ok s1 =>
      rw [h1] at hs
      simp only at hs
      cases h2 : __set_nat_cache_dirty s1 (sbi.disk.nat_j i).nid with
      | error f => rw [h2] at hs; simp at hs
      | ok s2 =>
        rw [h2] at hs
        simp only at hs
        have he1 : __lookup_nat_cache s1 n = some e := by
          cases hl : __lookup_nat_cache sbi (sbi.disk.nat_j i).nid with
          | some x =>
            rw [cache_nat_entry_hit hl] at h1
            simp only [Except.ok.injEq] at h1
            rw [← h1]; exact he
          | none =>
            rw [cache_nat_entry_miss hl] at h1
            simp only [Except.ok.injEq] at h1
            rw [← h1, lookup_cache_result hl]
            have hne : n ≠ (sbi.disk.nat_j i).nid := by
              intro hh
              rw [hh, hl] at he
              cases he
            rw [if_neg hne]; exact he
        have he2 : __lookup_nat_cache s2 n = some e := by
          rw [set_dirty_lookup h2 n]
          by_cases hn : n = (sbi.disk.nat_j i).nid
          · rw [if_pos hn, he1]
            simp only [Option.map_some', Option.some.injEq]
            cases e with
            | mk ni flag =>
              cases flag
              simp_all
          · rw [if_neg hn]; exact he1
        exact ih s2 sbi' (i + 1) hs n e he2 hd

theorem flush_drain_cold {sbi s0 : f2fs_sb_info} (h : nat_inv sbi) (hj : journal_ok sbi)
    (hM : sbi.cfg.max_nid < 2147483648)
    (hc : sbi.nat.dirty_nat_cnt = sum_up sbi.nat.percore_dirty_nat_cnt sbi.cfg.nat_tree_cnt)
    (hs : flush_drain sbi = .ok s0) :
    (journal_fits s0 ∨ journal_clean s0) ∧
    ∀ n e, __lookup_nat_cache sbi n = some e → e.flag.IS_DIRTY = true →
      __lookup_nat_cache s0 n = some e := by
  unfold flush_drain at hs
  split at hs
  · obtain ⟨_, _, _, n1, _⟩ := remove_nats_in_journal_inv h hj hs
    refine ⟨Or.inr ?_, ?_⟩
    · intro i hi
      rw [n1] at hi
      omega
    · intro n e he hd
      unfold remove_nats_in_journal at hs
      simp only [bind, Except.bind] at hs
      cases h1 : remove_nats_in_journal_loop (nats_in_cursum sbi) sbi 0 with
      | error f => rw [h1] at hs; simp at hs
      | ok s1 =>
        rw [h1] at hs
        simp only [Except.ok.injEq] at hs
        rw [← hs]
        have := remove_nats_in_journal_loop_lookup _ sbi s1 0 h1 n e he hd
        exact this
  · rename_i hsp
    simp only [Except.ok.injEq] at hs
    subst hs
    refine ⟨Or.inl ?_, fun n e he _ => he⟩
    have hsp : __has_cursum_space sbi (u32_to_int sbi.nat.dirty_nat_cnt) = true := by
      cases hx : __has_cursum_space sbi (u32_to_int sbi.nat.dirty_nat_cnt)
      · rw [hx] at hsp; simp at hsp
      · rfl
    have hle := h.dirty_sum_le
    unfold __has_cursum_space MAX_NAT_JENTRIES nats_in_cursum u32_to_int at hsp
    rw [hc] at hsp
    unfold sum_up at hsp
    have hm1 : ((List.range sbi.cfg.nat_tree_cnt).map sbi.nat.percore_dirty_nat_cnt).sum
        % 4294967296
        = ((List.range sbi.cfg.nat_tree_cnt).map sbi.nat.percore_dirty_nat_cnt).sum :=
      Nat.mod_eq_of_lt (by omega)
    rw [hm1, hm1] at hsp
    rw [if_pos (by omega)] at hsp
    simp only [decide_eq_true_eq] at hsp
    unfold journal_fits
    omega

/-- After a flush that returns, a cold lookup of a NID that had a dirty entry
with an address other than `NEW_ADDR` reads the record of that entry. -/
theorem flush_nat_entries_cold {sbi s1 : f2fs_sb_info} (h : nat_inv sbi) (hj : journal_ok sbi)
    (hsv : 0 < sbi.cfg.SETVEC_SIZE) (hJ : sbi.cfg.NAT_JOURNAL_ENTRIES < 65536)
    (hM : sbi.cfg.max_nid < 2147483648) (hs : flush_nat_entries sbi = .ok s1)
    {n : Nat} {e : nat_entry} (he : __lookup_nat_cache sbi n = some e)
    (hd : e.flag.IS_DIRTY = true) (hnew : e.ni.blk_addr ≠ NEW_ADDR) :
    cold_read s1 n = raw_nat_from_node_info e.ni := by
  have h0 : nat_inv (flush_counted sbi) := h.congr rfl rfl rfl rfl rfl rfl
  have j0 : journal_ok (flush_counted sbi) := hj.same rfl rfl
  rcases flush_nat_entries_inv hs with ⟨hz, _⟩ | ⟨_, s0, sets, h1, h2, h3⟩
  · exfalso
    have := h.dirty_zero_of_sum hz (n % sbi.cfg.nat_tree_cnt)
    have := (h.dirty_pos he hd).1
    omega
  · obtain ⟨i1, j1, c1⟩ := flush_drain_inv h0 j0 h1
    obtain ⟨hinv, hlk⟩ := flush_drain_cold h0 j0 hM rfl h1
    have he0 : __lookup_nat_cache s0 n = some e := hlk n e he hd
    have c0 : s0.cfg = sbi.cfg := c1
    apply flush_sets_cold sets s0 s1 i1 j1 (by rw [c0]; exact hJ) (by rw [c0]; exact hM) hinv h3
      n e he0 hd hnew
    obtain ⟨x, hx, _⟩ := ((i1.shard _).linked (n, e) (mem_of_lookup he0)).1 hd
    have hq := mem_of_lookup hx
    obtain ⟨_, b2⟩ := flush_collect_mem _ s0 0 [] sets (fun j => (i1.shard j).set_sorted)
      (fun j q hq => by
        have := (i1.shard j).set_ok q hq
        have hM0 := i1.2.2.1
        exact ⟨this.1, by omega⟩)
      (by rw [c0]; exact hsv) h2
    have hti : TREE_IDX n s0 < 0 + s0.cfg.nat_tree_cnt := by
      have := i1.tree_idx_lt n
      unfold TREE_IDX
      omega
    exact b2 _ (Nat.zero_le _) hti _ hq

theorem toy_nojournal_init : nat_init toy_nojournal :=
  ⟨by decide, by decide, by decide, fun i hi => absurd hi (Nat.not_lt_zero i),
    fun _ => ⟨rfl, rfl, rfl, rfl, rfl⟩⟩

theorem toy_nojournal_dirty_reachable : nat_reachable toy_nojournal_dirty :=
  @nat_reachable.set_addr toy_nojournal toy_nojournal_dirty
    { nid := 3, ino := 3, blk_addr := NULL_ADDR, version := 0 }
    100 false (nat_reachable.init toy_nojournal_init) (by decide) rfl

/-- When `ni` is the current info of its NID, the entry `set_node_addr` checks
holds `ni`, unless the entry is reinitialised. -/
theorem sna_entry_current {sbi : f2fs_sb_info} {ni : node_info} {new_blkaddr : Nat}
    (hcur : ∀ e, __lookup_nat_cache sbi ni.nid = some e → e.ni = ni) :
    (sna_entry sbi ni new_blkaddr).ni = ni := by
  unfold sna_entry
  cases hl : __lookup_nat_cache sbi ni.nid with
  | none => rfl
  | some v =>
    simp only
    split
    · rfl
    · exact hcur v hl

/-- Deleting a node whose current info `ni` has a valid address trips no
assertion. -/
theorem sna_trip_delete {sbi : f2fs_sb_info} {ni : node_info}
    (hv : addr_valid ni.blk_addr)
    (hcur : ∀ e, __lookup_nat_cache sbi ni.nid = some e → e.ni = ni) :
    sna_trip sbi ni NULL_ADDR = false := by
  unfold sna_trip
  rw [sna_entry_current hcur]
  obtain ⟨h1, h2⟩ := hv
  unfold NULL_ADDR at h1
  unfold NEW_ADDR at h2
  cases hl : __lookup_nat_cache sbi ni.nid with
  | none => simp [h1, h2, NULL_ADDR, NEW_ADDR]
  | some v => simp [h1, h2, NULL_ADDR, NEW_ADDR]

/-- The scan of the journal finds the first slot that records `val`. -/
theorem journal_scan_of_first {j : Nat → nat_journal_entry} {val n i : Nat} (hi : i < n)
    (hv : (j i).nid = val) (hf : ∀ m, m < i → (j m).nid ≠ val) :
    journal_scan j val n 0 = some i := by
  cases h : journal_scan j val n 0 with
  | none => exact absurd hv (journal_scan_none n h i (Nat.zero_le _) (by omega))
  | some k =>
    obtain ⟨_, _, hkv, hmin⟩ := journal_scan_some n h
    rcases Nat.lt_trichotomy k i with hlt | heq | hgt
    · exact absurd hkv (hf k hlt)
    · rw [heq]
    · exact absurd hv (hmin i (Nat.zero_le _) hgt)

/-- The scan of a journal that does not record `val` finds nothing. -/
theorem journal_scan_of_absent {j : Nat → nat_journal_entry} {val n : Nat}
    (hf : ∀ m, m < n → (j m).nid ≠ val) : journal_scan j val n 0 = none := by
  cases h : journal_scan j val n 0 with
  | none => rfl
  | some k =>
    obtain ⟨_, hk, hkv, _⟩ := journal_scan_some n h
    exact absurd hkv (hf k (by omega))

/-- The stages of a run of `__flush_nat_entry_set` that returns, under the
invariant: the set is found, a page is taken, the entries are flushed, the set
is left without entries and removed from the tree of its shard. -/
theorem flush_nat_entry_set_nf {sbi sbi' : f2fs_sb_info} (h : nat_inv sbi)
    (hj : journal_ok sbi) {s k : Nat} (hs : __flush_nat_entry_set sbi (s, k) = .ok sbi') :
    ∃ x r st, radix_tree_lookup (sbi.nat.nat_set_root s) k = some x ∧ x.set = k ∧
      flush_page sbi x = .ok r ∧ nat_inv r.1 ∧ journal_ok r.1 ∧
      x.entry_list.Nodup ∧
      (∀ n ∈ x.entry_list, n % r.1.cfg.nat_tree_cnt = s ∧ n / sbi.cfg.NAT_ENTRY_PER_BLOCK = k ∧
        ∃ v, __lookup_nat_cache r.1 n = some v ∧ v.flag.IS_DIRTY = true) ∧
      __flush_nat_entry_list ((x.set * sbi.cfg.NAT_ENTRY_PER_BLOCK) % 4294967296)
        (__has_cursum_space sbi (u32_to_int x.entry_cnt)) r.2 x.entry_list (r.1, none) = .ok st ∧
      nat_inv st.1 ∧ journal_ok st.1 ∧ set_entry_cnt st.1 (s, k) = 0 ∧
      sbi' = { st.1 with nat := { st.1.nat with
        nat_set_root := arr_set st.1.nat.nat_set_root s
          (radix_tree_delete (st.1.nat.nat_set_root s) k) } } := by
  rw [flush_nat_entry_set_eq] at hs
  cases hl : radix_tree_lookup (sbi.nat.nat_set_root s) k with
  | none => simp only [hl] at hs; simp at hs
  | some x =>
    simp only [hl] at hs
    obtain ⟨hset, hcnt, hnd, _, hsS, hmem⟩ := (h.shard s).set_ok (k, x) (mem_of_lookup hl)
    have hset : x.set = k := hset
    cases hr : flush_page sbi x with
    | error f => rw [hr] at hs; simp at hs
    | ok r =>
      rw [hr] at hs
      simp only at hs
      have hdr := flush_page_inv hr
      have hir : nat_inv r.1 := h.disk_only hdr.1
      have hjr : journal_ok r.1 := by
        intro i hi
        rw [hdr.2.2, hdr.1.1]
        exact hj i (by rw [← hdr.2.1]; exact hi)
      have hent : ∀ n ∈ x.entry_list, n % r.1.cfg.nat_tree_cnt = s ∧
          n / sbi.cfg.NAT_ENTRY_PER_BLOCK = k ∧
          ∃ v, __lookup_nat_cache r.1 n = some v ∧ v.flag.IS_DIRTY = true := by
        intro n hn
        obtain ⟨hblk, e, he, hde⟩ := hmem n hn
        have hns := ((h.shard s).key_of_lookup he).2.1
        have he2 : __lookup_nat_cache sbi n = some e := by
          unfold __lookup_nat_cache TREE_IDX
          rw [hns]; exact he
        refine ⟨by rw [hdr.1.1]; exact hns, hblk, e, ?_, hde⟩
        rw [lookup_disk_only hdr.1]; exact he2
      cases h1 : __flush_nat_entry_list ((x.set * sbi.cfg.NAT_ENTRY_PER_BLOCK) % 4294967296)
          (__has_cursum_space sbi (u32_to_int x.entry_cnt)) r.2 x.entry_list (r.1, none) with
      | error f => rw [h1] at hs; simp at hs
      | ok st =>
        rw [h1] at hs
        simp only at hs
        obtain ⟨i1, j1, c1, k1, _, t1, t2⟩ := flush_nat_entry_list_step x.entry_list r.1 none st
          hir hjr hnd (fun n hn => ⟨(hent n hn).1, (hent n hn).2.2⟩) h1
        cases hb : (set_entry_cnt st.1 (s, k) != 0) with
        | true => rw [hb] at hs; simp [f2fs_bug_on] at hs
        | false =>
          rw [hb] at hs
          simp only [f2fs_bug_on, Bool.false_eq_true, if_false] at hs
          have hz : set_entry_cnt st.1 (s, k) = 0 := by simpa using hb
          cases ht : st.2 with
          | none => rw [ht] at hs; simp at hs
          | some tree_idx =>
            rw [ht] at hs
            simp only [Except.ok.injEq] at hs
            have hti : tree_idx = s := by
              by_cases hx : x.entry_list = []
              · rw [t2 hx] at ht; cases ht
              · rw [t1 hx] at ht; cases ht; rfl
            subst hti
            rw [hset] at hs
            exact ⟨x, r, st, rfl, hset, hr, hir, hjr, hnd, hent, h1, i1, j1, hz, hs.symm⟩

/-- A stable property survives the loop body of `__flush_nat_entry_set`. -/
theorem flush_stable.keep_entry {R : f2fs_sb_info → Prop} (hR : flush_stable R)
    {sbi : f2fs_sb_info} (h : nat_inv sbi) (hj : journal_ok sbi) (hr : R sbi)
    {ne : Nat} {v : nat_entry}
    (hv : __lookup_nat_cache sbi ne = some v) (hd : v.flag.IS_DIRTY = true)
    {start_nid : Nat} {to_journal : Bool} {page : Nat × Bool} {t : Option Nat}
    {st : f2fs_sb_info × Option Nat}
    (hs : __flush_nat_entry start_nid to_journal page (sbi, t) ne = .ok st) : R st.1 := by
  obtain ⟨_, ⟨_, rfl⟩ | ⟨hn, s1, h1, rfl⟩⟩ := flush_nat_entry_nf h hv hd hs
  · exact hr
  · exact hR.entry sbi s1 start_nid to_journal page ne v h hj hr hv hd hn h1

/-- A stable property survives the loop over the entries of a set. -/
theorem flush_stable.keep_list {R : f2fs_sb_info → Prop} (hR : flush_stable R)
    {start_nid : Nat} {to_journal : Bool} {page : Nat × Bool} {s : Nat} (l : List Nat) :
    ∀ (sbi : f2fs_sb_info) (t : Option Nat) (st : f2fs_sb_info × Option Nat),
      nat_inv sbi → journal_ok sbi → l.Nodup →
      (∀ n ∈ l, n % sbi.cfg.nat_tree_cnt = s ∧
        ∃ v, __lookup_nat_cache sbi n = some v ∧ v.flag.IS_DIRTY = true) →
      R sbi → __flush_nat_entry_list start_nid to_journal page l (sbi, t) = .ok st →
      R st.1 := by
  induction l with
  | nil =>
    intro sbi t st _ _ _ _ hr hs
    simp only [__flush_nat_entry_list, Except.ok.injEq] at hs
    subst hs
    exact hr
  | cons ne l ih =>
    intro sbi t st h hj hnd hl hr hs
    unfold __flush_nat_entry_list at hs
    simp only [bind, Except.bind] at hs
    obtain ⟨_, v, hv, hd⟩ := hl ne (List.mem_cons_self _ _)
    cases h1 : __flush_nat_entry start_nid to_journal page (sbi, t) ne with
    | error f => rw [h1] at hs; simp at hs
    | ok st1 =>
      rw [h1] at hs
      simp only at hs
      obtain ⟨i1, j1, c1, _, _, l1⟩ := flush_nat_entry_step h hj hv hd h1
      have hnd2 := List.nodup_cons.1 hnd
      exact ih st1.1 st1.2 st i1 j1 hnd2.2 (by
        intro n hn
        have hne : n ≠ ne := fun hh => hnd2.1 (hh ▸ hn)
        rw [c1, l1 n hne]
        exact hl n (List.mem_cons_of_mem _ hn)) (hR.keep_entry h hj hr hv hd h1) hs

/-- A stable property survives `__flush_nat_entry_set`. -/
theorem flush_stable.keep_set {R : f2fs_sb_info → Prop} (hR : flush_stable R)
    {sbi sbi' : f2fs_sb_info} (h : nat_inv sbi) (hj : journal_ok sbi) (hr : R sbi)
    {s k : Nat} (hs : __flush_nat_entry_set sbi (s, k) = .ok sbi') : R sbi' := by
  obtain ⟨x, r, st, _, _, hp, ir, jr, hnd, hent, h1, i1, j1, hz, rfl⟩ :=
    flush_nat_entry_set_nf h hj hs
  have hr1 : R r.1 := by
    unfold flush_page at hp
    split at hp
    · simp only [Except.ok.injEq] at hp
      rw [← hp]; exact hr
    · exact hR.page sbi _ r h hj hr hp
  have hr2 : R st.1 := hR.keep_list x.entry_list r.1 none st ir jr hnd
    (fun n hn => ⟨(hent n hn).1, (hent n hn).2.2⟩) hr1 h1
  exact hR.drop st.1 s k i1 j1 hr2 hz

/-- A stable property survives the final loop of `flush_nat_entries`. -/
theorem flush_stable.keep_sets {R : f2fs_sb_info → Prop} (hR : flush_stable R)
    (sets : List (Nat × Nat)) :
    ∀ (sbi sbi' : f2fs_sb_info), nat_inv sbi → journal_ok sbi → R sbi →
      flush_sets sets sbi = .ok sbi' → R sbi' := by
  induction sets with
  | nil =>
    intro sbi sbi' _ _ hr hs
    simp only [flush_sets, Except.ok.injEq] at hs
    subst hs
    exact hr
  | cons set t ih =>
    intro sbi sbi' h hj hr hs
    unfold flush_sets at hs
    simp only [bind, Except.bind] at hs
    cases h1 : __flush_nat_entry_set sbi set with
    | error f => rw [h1] at hs; simp at hs
    | ok s1 =>
      rw [h1] at hs
      simp only at hs
      obtain ⟨i1, j1, _, _⟩ := flush_nat_entry_set_step (s := set.1) (k := set.2) h hj h1
      exact ih s1 sbi' i1 j1 (hR.keep_set (s := set.1) (k := set.2) h hj hr h1) hs

theorem disk_no_new.same_disk {s s' : f2fs_sb_info} (h : disk_no_new s)
    (hp : s'.disk.nat_page = s.disk.nat_page) (hj : s'.disk.nat_j = s.disk.nat_j) :
    disk_no_new s' := by
  unfold disk_no_new
  rw [hp, hj]
  exact h

theorem new_unchecked.same_cache {s s' : f2fs_sb_info} (h : new_unchecked s)
    (hl : ∀ n, __lookup_nat_cache s' n = __lookup_nat_cache s n) : new_unchecked s' := by
  intro n e he
  rw [hl n] at he
  exact h n e he

/-- A cold read never returns `NEW_ADDR` from a disk without it. -/
theorem cold_read_no_new {sbi : f2fs_sb_info} (h : disk_no_new sbi) (n : Nat) :
    (cold_read sbi n).block_addr ≠ NEW_ADDR := by
  unfold cold_read
  simp only [lookup_journal_noalloc]
  split
  · exact h.2 _
  · exact h.1 _ _ _

/-- The write of a record other than `NEW_ADDR` keeps the disk without
`NEW_ADDR`. -/
theorem flush_disk_no_new {start_nid : Nat} {to_journal : Bool} {page : Nat × Bool}
    {sbi s1 : f2fs_sb_info} {v : nat_entry}
    (h : flush_disk start_nid to_journal page sbi v = .ok s1) (hd : disk_no_new sbi)
    (hn : v.ni.blk_addr ≠ NEW_ADDR) : disk_no_new s1 := by
  unfold flush_disk at h
  cases to_journal with
  | false =>
    simp only [Bool.false_eq_true, if_false, Except.ok.injEq] at h
    subst h
    refine ⟨fun b c i => ?_, hd.2⟩
    simp only
    split
    · unfold arr_set
      split
      · exact hn
      · exact hd.1 _ _ _
    · exact hd.1 _ _ _
  | true =>
    simp only [if_true, bind, Except.bind] at h
    have key : ∀ (j : Nat → nat_journal_entry) (k : Nat),
        (∀ i, (j i).ne.block_addr ≠ NEW_ADDR) →
        ∀ i, (arr_set j k { nid := v.ni.nid, ne := raw_nat_from_node_info v.ni } i).ne.block_addr
          ≠ NEW_ADDR := by
      intro j k hj i
      unfold arr_set
      split
      · exact hn
      · exact hj i
    rcases lookup_journal_alloc sbi v.ni.nid with ⟨k, hk, hr⟩ | ⟨hk, hc, hr⟩ | ⟨hk, hc, hr⟩
    · rw [hr] at h
      simp only [decide_eq_true_eq, Int.natCast_nonneg, not_lt.2, if_false, f2fs_bug_on,
        decide_False, Bool.false_eq_true, Except.ok.injEq, Int.toNat_ofNat] at h
      subst h
      exact ⟨hd.1, key _ _ hd.2⟩
    · rw [hr] at h
      simp only [decide_eq_true_eq, Int.natCast_nonneg, not_lt.2, if_false, f2fs_bug_on,
        decide_False, Bool.false_eq_true, Except.ok.injEq, Int.toNat_ofNat] at h
      subst h
      exact ⟨hd.1, key _ _ hd.2⟩
    · rw [hr] at h
      simp [f2fs_bug_on] at h

/-- The copy of a NAT block keeps the disk without `NEW_ADDR`. -/
theorem get_next_nat_page_no_new {sbi : f2fs_sb_info} {nid : Nat}
    {r : f2fs_sb_info × (Nat × Bool)} (h : get_next_nat_page sbi nid = .ok r)
    (hd : disk_no_new sbi) : disk_no_new r.1 := by
  unfold get_next_nat_page at h
  simp only [bind, Except.bind] at h
  cases hb : sbi.disk.nat_page_dirty (current_nat_addr sbi nid).1 (current_nat_addr sbi nid).2 with
  | true => rw [hb] at h; simp [f2fs_bug_on] at h
  | false =>
    rw [hb] at h
    simp only [f2fs_bug_on, Bool.false_eq_true, if_false, Except.ok.injEq] at h
    subst h
    refine ⟨fun b c i => ?_, hd.2⟩
    simp only [set_to_next_nat]
    split
    · exact hd.1 _ _ _
    · exact hd.1 _ _ _

/-- The two properties together are kept by every step of the final loop of
the flush. -/
theorem ckpt_flush_stable : flush_stable (fun s => disk_no_new s ∧ new_unchecked s) := by
  refine ⟨?_, ?_, ?_⟩
  · intro s s1 start_nid to_journal page ne v _ _ hr hv _ hn h1
    obtain ⟨hd1, _⟩ := flush_disk_inv h1
    obtain ⟨_, k2, _, k4⟩ := flush_cache_result_only s1 ne v
    refine ⟨(flush_disk_no_new h1 hr.1 hn).same_disk (by rw [k2]) (by rw [k2]), ?_⟩
    intro n e he hnew
    rw [k4 n, lookup_disk_only hd1] at he
    by_cases hne : n = ne
    · subst hne
      simp only [if_true, hv, Option.map_some', Option.some.injEq] at he
      subst he
      exact absurd hnew hn
    · simp only [hne, if_false] at he
      exact hr.2 n e he hnew
  · intro s nid r _ _ hr hp
    obtain ⟨hd1, _, _⟩ := get_next_nat_page_inv hp
    exact ⟨get_next_nat_page_no_new hp hr.1, hr.2.same_cache (lookup_disk_only hd1)⟩
  · intro s t k _ _ hr _
    exact ⟨hr.1.same_disk rfl rfl, hr.2.same_cache (fun n => lookup_congr rfl rfl n)⟩

theorem new_unchecked.same_view {s s' : f2fs_sb_info} (h : new_unchecked s)
    (hl : ∀ n, (__lookup_nat_cache s' n).map ckpt_view = (__lookup_nat_cache s n).map ckpt_view) :
    new_unchecked s' := by
  intro n e he hnew
  have h1 := hl n
  rw [he] at h1
  cases h2 : __lookup_nat_cache s n with
  | none => rw [h2] at h1; simp at h1
  | some e0 =>
    rw [h2] at h1
    simp only [Option.map_some', Option.some.injEq, ckpt_view, Prod.mk.injEq] at h1
    rw [h1.2]
    exact h n e0 h2 (by rw [← h1.1]; exact hnew)

theorem set_dirty_view {sbi sbi' : f2fs_sb_info} {e : Nat}
    (h : __set_nat_cache_dirty sbi e = .ok sbi') (n : Nat) :
    (__lookup_nat_cache sbi' n).map ckpt_view = (__lookup_nat_cache sbi n).map ckpt_view := by
  rw [set_dirty_lookup h n]
  by_cases hn : n = e
  · simp only [hn, if_true, Option.map_map]; rfl
  · simp only [hn, if_false]

theorem sna_fsync_view (s : f2fs_sb_info) (ni : node_info) (fsync_done : Bool) (n : Nat) :
    (__lookup_nat_cache (sna_fsync s ni fsync_done) n).map ckpt_view
      = (__lookup_nat_cache s n).map ckpt_view := by
  unfold sna_fsync
  simp only
  split
  · rfl
  · rename_i e2 _
    rw [lookup_nat_modify]
    cases (fsync_done && ni.nid == ni.ino)
    · simp only [Bool.false_eq_true, if_false]
      by_cases hn : n = e2
      · simp only [hn, if_true, Option.map_map]; rfl
      · simp only [hn, if_false]
    · simp only [if_true, lookup_nat_modify]
      by_cases hn : n = e2
      · simp only [hn, if_true, Option.map_map]; rfl
      · simp only [hn, if_false]

theorem lookup_sna_stage1_other (sbi : f2fs_sb_info) (ni : node_info) (new_blkaddr : Nat)
    {n : Nat} (hn : n ≠ ni.nid) :
    __lookup_nat_cache (sna_stage1 sbi ni new_blkaddr) n = __lookup_nat_cache sbi n := by
  unfold sna_stage1
  cases hl : __lookup_nat_cache sbi ni.nid with
  | none =>
    simp only
    rw [lookup_nat_modify, lookup_grab_result hl]
    simp [hn]
  | some v =>
    simp only
    split
    · rw [lookup_nat_modify]; simp [hn]
    · rfl

/-- The node info and the checkpointed flag of every entry after a
`set_node_addr` that returned. -/
theorem set_node_addr_view {sbi sbi' : f2fs_sb_info} {ni : node_info} {new_blkaddr : Nat}
    {fsync_done : Bool} (h : set_node_addr sbi ni new_blkaddr fsync_done = .ok sbi') (n : Nat) :
    (__lookup_nat_cache sbi' n).map ckpt_view = if n = ni.nid
      then some (ckpt_view (sna_update new_blkaddr (sna_entry sbi ni new_blkaddr).ni.blk_addr
        (sna_entry sbi ni new_blkaddr)))
      else (__lookup_nat_cache sbi n).map ckpt_view := by
  obtain ⟨_, s, hs, rfl⟩ := set_node_addr_inv h
  rw [sna_fsync_view, set_dirty_view hs]
  by_cases hn : n = ni.nid
  · subst hn
    rw [lookup_sna_update]
    simp
  · rw [lookup_nat_modify]
    simp only [hn, if_false]
    rw [lookup_sna_stage1_other sbi ni new_blkaddr hn]

theorem new_unchecked.keep_set_addr {sbi sbi' : f2fs_sb_info} (h : new_unchecked sbi)
    {ni : node_info} {new_blkaddr : Nat} {fsync_done : Bool}
    (hs : set_node_addr sbi ni new_blkaddr fsync_done = .ok sbi') : new_unchecked sbi' := by
  intro n e he hnew
  have h1 := set_node_addr_view hs n
  rw [he] at h1
  by_cases hn : n = ni.nid
  · simp only [hn, if_true, Option.map_some', Option.some.injEq, ckpt_view, Prod.mk.injEq,
      sna_update] at h1
    have hb : new_blkaddr = NEW_ADDR := by
      have := congrArg node_info.blk_addr h1.1
      simp only at this
      rw [← this]; exact hnew
    rw [h1.2]
    simp [hb]
  · simp only [hn, if_false] at h1
    cases h2 : __lookup_nat_cache sbi n with
    | none => rw [h2] at h1; simp at h1
    | some e0 =>
      rw [h2] at h1
      simp only [Option.map_some', Option.some.injEq, ckpt_view, Prod.mk.injEq] at h1
      rw [h1.2]
      exact h n e0 h2 (by rw [← h1.1]; exact hnew)

/-- Installing a record other than `NEW_ADDR` keeps the flag invariant. -/
theorem new_unchecked.keep_cache {sbi sbi' : f2fs_sb_info} (h : new_unchecked sbi)
    {nid : Nat} {ne : f2fs_nat_entry} (hne : ne.block_addr ≠ NEW_ADDR)
    (hs : cache_nat_entry sbi nid ne = .ok sbi') : new_unchecked sbi' := by
  cases hl : __lookup_nat_cache sbi nid with
  | some e0 =>
    rw [cache_nat_entry_hit hl] at hs
    cases hs
    exact h
  | none =>
    rw [cache_nat_entry_miss hl] at hs
    cases hs
    intro n e he hnew
    rw [lookup_cache_result hl] at he
    by_cases hn : n = nid
    · simp only [hn, if_true, Option.some.injEq] at he
      subst he
      exact absurd hnew hne
    · simp only [hn, if_false] at he
      exact h n e he hnew

theorem new_unchecked.keep_get {sbi sbi' : f2fs_sb_info} (h : new_unchecked sbi)
    (hd : disk_no_new sbi) {nid : Nat} {ni : node_info}
    (hs : get_node_info sbi nid = .ok (sbi', ni)) : new_unchecked sbi' := by
  cases hl : __lookup_nat_cache sbi nid with
  | some e0 =>
    rw [get_node_info_hit hl] at hs
    cases hs
    exact h
  | none =>
    rw [get_node_info_miss hl] at hs
    cases hs
    exact h.keep_cache (cold_read_no_new hd nid) (cache_nat_entry_miss hl _)

theorem remove_nats_in_journal_loop_unchecked (cnt : Nat) :
    ∀ (sbi sbi' : f2fs_sb_info) (i : Nat), disk_no_new sbi → new_unchecked sbi →
      remove_nats_in_journal_loop cnt sbi i = .ok sbi' →
      new_unchecked sbi' ∧ nat_only sbi sbi' := by
  induction cnt with
  | zero =>
    intro sbi sbi' i _ h hs
    simp only [remove_nats_in_journal_loop, Except.ok.injEq] at hs
    subst hs
    exact ⟨h, nat_only_refl _⟩
  | succ cnt ih =>
    intro sbi sbi' i hd h hs
    rw [remove_nats_in_journal_loop_succ] at hs
    cases h1 : cache_nat_entry sbi (sbi.disk.nat_j i).nid (sbi.disk.nat_j i).ne with
    | error f => rw [h1] at hs; simp at hs
    | ok s1 =>
      rw [h1] at hs
      simp only at hs
      cases h2 : __set_nat_cache_dirty s1 (sbi.disk.nat_j i).nid with
      | error f => rw [h2] at hs; simp at hs
      | ok s2 =>
        rw [h2] at hs
        simp only at hs
        have u1 := h.keep_cache (hd.2 i) h1
        have u2 : new_unchecked s2 := u1.same_view (set_dirty_view h2)
        have n1 := nat_only_cache_nat_entry h1
        have n2 := nat_only_set_dirty h2
        have n12 := nat_only_trans n1 n2
        have d2 : disk_no_new s2 := hd.same_disk (by rw [n12.2.2.1]) (by rw [n12.2.2.1])
        obtain ⟨u3, n3⟩ := ih s2 sbi' (i + 1) d2 u2 hs
        exact ⟨u3, nat_only_trans n12 n3⟩

theorem remove_nats_in_journal_unchecked {sbi sbi' : f2fs_sb_info} (hd : disk_no_new sbi)
    (h : new_unchecked sbi) (hs : remove_nats_in_journal sbi = .ok sbi') :
    disk_no_new sbi' ∧ new_unchecked sbi' := by
  unfold remove_nats_in_journal at hs
  simp only [bind, Except.bind] at hs
  cases h1 : remove_nats_in_journal_loop (nats_in_cursum sbi) sbi 0 with
  | error f => rw [h1] at hs; simp at hs
  | ok s1 =>
    rw [h1] at hs
    simp only [Except.ok.injEq] at hs
    subst hs
    obtain ⟨u1, n1⟩ := remove_nats_in_journal_loop_unchecked _ sbi s1 0 hd h h1
    refine ⟨hd.same_disk ?_ ?_, u1.same_cache (fun n => lookup_congr rfl rfl n)⟩
    · show s1.disk.nat_page = sbi.disk.nat_page
      rw [n1.2.2.1]
    · show s1.disk.nat_j = sbi.disk.nat_j
      rw [n1.2.2.1]

theorem flush_nat_entries_unchecked {sbi sbi' : f2fs_sb_info} (hi : nat_inv sbi)
    (hj : journal_ok sbi) (hd : disk_no_new sbi) (h : new_unchecked sbi)
    (hs : flush_nat_entries sbi = .ok sbi') : disk_no_new sbi' ∧ new_unchecked sbi' := by
  have h0 : nat_inv (flush_counted sbi) := hi.congr rfl rfl rfl rfl rfl rfl
  have j0 : journal_ok (flush_counted sbi) := hj.same rfl rfl
  have d0 : disk_no_new (flush_counted sbi) := hd.same_disk rfl rfl
  have u0 : new_unchecked (flush_counted sbi) := h.same_cache (fun n => lookup_congr rfl rfl n)
  rcases flush_nat_entries_inv hs with ⟨_, rfl⟩ | ⟨_, s1, sets, hdr, _, hfl⟩
  · exact ⟨d0, u0⟩
  · obtain ⟨i1, j1, _⟩ := flush_drain_inv h0 j0 hdr
    have r1 : disk_no_new s1 ∧ new_unchecked s1 := by
      unfold flush_drain at hdr
      split at hdr
      · exact remove_nats_in_journal_unchecked d0 u0 hdr
      · cases hdr; exact ⟨d0, u0⟩
    exact ckpt_flush_stable.keep_sets sets s1 sbi' i1 j1 r1 hfl

/-- In every state reached through the four operations the NAT cache and the
journal are consistent, the disk holds no `NEW_ADDR`, and an entry with
`NEW_ADDR` is not checkpointed. -/
theorem ckpt_reachable.invariants {sbi : f2fs_sb_info} (h : ckpt_reachable sbi) :
    nat_inv sbi ∧ journal_ok sbi ∧ disk_no_new sbi ∧ new_unchecked sbi := by
  induction h with
  | init h0 hd =>
    obtain ⟨i0, j0⟩ := (nat_reachable.init h0).inv
    refine ⟨i0, j0, hd, ?_⟩
    intro n e he
    unfold __lookup_nat_cache at he
    rw [(h0.2.2.2.2 _).1] at he
    cases he
  | get _ hlt hs ih =>
    obtain ⟨i0, j0, d0, u0⟩ := ih
    have hn := nat_only_get_node_info hs
    exact ⟨i0.get_node_info hlt hs, j0.nat_only hn,
      d0.same_disk (by rw [hn.2.2.1]) (by rw [hn.2.2.1]), u0.keep_get d0 hs⟩
  | set_addr _ hlt hs ih =>
    obtain ⟨i0, j0, d0, u0⟩ := ih
    have hn := nat_only_set_node_addr hs
    exact ⟨i0.set_node_addr hlt hs, j0.nat_only hn,
      d0.same_disk (by rw [hn.2.2.1]) (by rw [hn.2.2.1]), u0.keep_set_addr hs⟩
  | drain _ hs ih =>
    obtain ⟨i0, j0, d0, u0⟩ := ih
    obtain ⟨i1, c1, _, n1, _, _, _, _⟩ := remove_nats_in_journal_inv i0 j0 hs
    obtain ⟨d1, u1⟩ := remove_nats_in_journal_unchecked d0 u0 hs
    refine ⟨i1, ?_, d1, u1⟩
    intro i hi
    rw [n1] at hi
    exact absurd hi (Nat.not_lt_zero i)
  | flush _ hs ih =>
    obtain ⟨i0, j0, d0, u0⟩ := ih
    obtain ⟨i1, j1, _⟩ := i0.flush_nat_entries j0 hs
    obtain ⟨d1, u1⟩ := flush_nat_entries_unchecked i0 j0 d0 u0 hs
    exact ⟨i1, j1, d1, u1⟩

theorem toy_no_new : disk_no_new toy :=
  ⟨fun _ _ _ => (by decide : (0 : Nat) ≠ 4294967295),
    fun _ => (by decide : (0 : Nat) ≠ 4294967295)⟩

theorem toy_new_ckpt_reachable : ckpt_reachable toy_new :=
  @ckpt_reachable.set_addr toy toy_new { nid := 3, ino := 3, blk_addr := NULL_ADDR, version := 0 }
    NEW_ADDR false (ckpt_reachable.init toy_init toy_no_new) (by decide) rfl

theorem toy_looked_ckpt_reachable : ckpt_reachable toy_looked :=
  @ckpt_reachable.get toy toy_looked 3 { nid := 3, ino := 0, blk_addr := 0, version := 0 }
    (ckpt_reachable.init toy_init toy_no_new) (by decide) rfl

theorem adjust_walk_append (sbi : f2fs_sb_info) (nes : Nat × Nat) (small big : List (Nat × Nat))
    (hb : ∀ x ∈ big, set_entry_cnt sbi nes ≤ set_entry_cnt sbi x) :
    __adjust_nat_entry_set_walk sbi nes (small ++ big)
      = __adjust_nat_entry_set_walk sbi nes small ++ big := by
  induction small with
  | nil =>
    cases big with
    | nil => rfl
    | cons b t =>
      simp only [List.nil_append, __adjust_nat_entry_set_walk]
      rw [if_pos (hb b (List.mem_cons_self _ _))]
      rfl
  | cons a small ih =>
    simp only [List.cons_append, __adjust_nat_entry_set_walk]
    split
    · rfl
    · exact congrArg (List.cons a) ih

theorem adjust_walk_perm (sbi : f2fs_sb_info) (nes : Nat × Nat) (l : List (Nat × Nat)) :
    (__adjust_nat_entry_set_walk sbi nes l).Perm (nes :: l) := by
  induction l with
  | nil => exact List.Perm.refl _
  | cons a t ih =>
    unfold __adjust_nat_entry_set_walk
    split
    · exact List.Perm.refl _
    · exact (List.Perm.cons a ih).trans (List.Perm.swap nes a t)

theorem adjust_walk_sorted (sbi : f2fs_sb_info) (nes : Nat × Nat) (l : List (Nat × Nat))
    (hl : l.Pairwise (fun a b => set_entry_cnt sbi a ≤ set_entry_cnt sbi b)) :
    (__adjust_nat_entry_set_walk sbi nes l).Pairwise
      (fun a b => set_entry_cnt sbi a ≤ set_entry_cnt sbi b) := by
  induction l with
  | nil => simp [__adjust_nat_entry_set_walk]
  | cons a t ih =>
    unfold __adjust_nat_entry_set_walk
    have ht := List.pairwise_cons.1 hl
    split
    · rename_i hge
      refine List.pairwise_cons.2 ⟨?_, hl⟩
      intro x hx
      rcases List.mem_cons.1 hx with rfl | hx
      · exact hge
      · exact Nat.le_trans hge (ht.1 x hx)
    · rename_i hlt
      refine List.pairwise_cons.2 ⟨?_, ih ht.2⟩
      intro x hx
      rcases (mem_adjust_walk sbi nes x t).1 hx with rfl | hx
      · omega
      · exact ht.1 x hx

theorem adjust_perm (sbi : f2fs_sb_info) (nes : Nat × Nat) (l : List (Nat × Nat)) (max : Int) :
    (__adjust_nat_entry_set sbi nes l max).Perm (nes :: l) := by
  unfold __adjust_nat_entry_set
  split
  · exact List.perm_append_singleton nes l
  · exact adjust_walk_perm sbi nes l

/-- One insertion keeps the list ordered. -/
theorem adjust_ordered (sbi : f2fs_sb_info) (nes : Nat × Nat) (l : List (Nat × Nat)) (max : Int)
    (h : sets_ordered sbi (int_to_u32 max) l) :
    sets_ordered sbi (int_to_u32 max) (__adjust_nat_entry_set sbi nes l max) := by
  obtain ⟨small, big, rfl, h1, h2, h3⟩ := h
  unfold __adjust_nat_entry_set
  split
  · rename_i hge
    refine ⟨small, big ++ [nes], by rw [List.append_assoc], h1, h2, ?_⟩
    intro x hx
    rcases List.mem_append.1 hx with hx | hx
    · exact h3 x hx
    · rw [List.mem_singleton.1 hx]; exact hge
  · rename_i hlt
    have hlt : set_entry_cnt sbi nes < int_to_u32 max := by omega
    refine ⟨__adjust_nat_entry_set_walk sbi nes small, big, ?_, ?_,
      adjust_walk_sorted sbi nes small h2, h3⟩
    · exact adjust_walk_append sbi nes small big (fun x hx => by have := h3 x hx; omega)
    · intro x hx
      rcases (mem_adjust_walk sbi nes x small).1 hx with rfl | hx
      · exact hlt
      · exact h1 x hx

theorem foldl_adjust_ordered (sbi : f2fs_sb_info) (max : Int) (ins : List (Nat × Nat)) :
    ∀ acc : List (Nat × Nat), sets_ordered sbi (int_to_u32 max) acc →
      sets_ordered sbi (int_to_u32 max)
        (ins.foldl (fun acc nes => __adjust_nat_entry_set sbi nes acc max) acc) ∧
      (ins.foldl (fun acc nes => __adjust_nat_entry_set sbi nes acc max) acc).Perm
        (acc ++ ins) := by
  induction ins with
  | nil => intro acc h; simpa using h
  | cons a t ih =>
    intro acc h
    simp only [List.foldl_cons]
    obtain ⟨o1, o2⟩ := ih _ (adjust_ordered sbi a acc max h)
    refine ⟨o1, o2.trans ?_⟩
    have p1 := adjust_perm sbi a acc max
    have p2 : (a :: acc).Perm (acc ++ [a]) := (List.perm_append_singleton a acc).symm
    have p3 := (p1.trans p2).append_right t
    simpa using p3

/-- The list built from the empty list is ordered and a permutation of the
inserted sets. -/
theorem adjust_all_ordered (sbi : f2fs_sb_info) (max : Int) (ins : List (Nat × Nat)) :
    sets_ordered sbi (int_to_u32 max) (adjust_all sbi max ins) ∧
    (adjust_all sbi max ins).Perm ins := by
  have h0 : sets_ordered sbi (int_to_u32 max) [] :=
    ⟨[], [], rfl, fun _ h => absurd h (List.not_mem_nil _), List.Pairwise.nil,
      fun _ h => absurd h (List.not_mem_nil _)⟩
  obtain ⟨o1, o2⟩ := foldl_adjust_ordered sbi max ins [] h0
  exact ⟨o1, by simpa using o2⟩

/-- In a tree in key order, the items after the first `n` of those with key
at least `idx` are the items with key above the key of the `n`-th. -/
theorem filter_after_take {α : Type} {l : List (Nat × α)}
    (hs : (l.map Prod.fst).Pairwise (· < ·)) {idx n : Nat} {last : Nat × α}
    (hl : ((l.filter (fun p => decide (idx ≤ p.1))).take n).getLast? = some last) :
    l.filter (fun p => decide (last.1 + 1 ≤ p.1))
      = (l.filter (fun p => decide (idx ≤ p.1))).drop n := by
  have hrs : (l.filter (fun p => decide (idx ≤ p.1))).Pairwise (fun a b => a.1 < b.1) := by
    rw [List.pairwise_map] at hs
    exact hs.filter _
  have hlast_take := List.mem_of_getLast?_eq_some hl
  have hlast_rem := List.mem_of_mem_take hlast_take
  have hidx : idx ≤ last.1 := by simpa using (List.mem_filter.1 hlast_rem).2
  have e1 : l.filter (fun p => decide (last.1 + 1 ≤ p.1))
      = (l.filter (fun p => decide (idx ≤ p.1))).filter (fun p => decide (last.1 + 1 ≤ p.1)) := by
    rw [List.filter_filter]
    apply List.filter_congr
    intro x _
    by_cases hx : last.1 + 1 ≤ x.1
    · have : idx ≤ x.1 := by omega
      simp [hx, this]
    · simp [hx]
  rw [e1]
  generalize l.filter (fun p => decide (idx ≤ p.1)) = rem at hrs hl hlast_take ⊢
  have hsplit := List.take_append_drop n rem
  have hpw : (rem.take n ++ rem.drop n).Pairwise (fun a b => a.1 < b.1) := by
    rw [hsplit]; exact hrs
  obtain ⟨pt, pd, ptd⟩ := List.pairwise_append.1 hpw
  conv_lhs => rw [← hsplit]
  rw [List.filter_append]
  have ht : (rem.take n).filter (fun p => decide (last.1 + 1 ≤ p.1)) = [] := by
    apply List.filter_eq_nil_iff.2
    intro x hx
    have hle : x.1 ≤ last.1 := by
      obtain ⟨pre, hpre⟩ : ∃ pre, rem.take n = pre ++ [last] := by
        have hne : rem.take n ≠ [] := by
          intro h0; rw [h0] at hl; cases hl
        refine ⟨(rem.take n).dropLast, ?_⟩
        have h1 := List.dropLast_append_getLast hne
        have h2 : (rem.take n).getLast hne = last := by
          have := List.getLast?_eq_getLast _ hne
          rw [hl] at this
          exact (Option.some.inj this).symm
        rw [h2] at h1
        exact h1.symm
      rw [hpre] at hx pt
      rcases List.mem_append.1 hx with hx | hx
      · have := (List.pairwise_append.1 pt).2.2 x hx last (List.mem_singleton_self _)
        omega
      · rw [List.mem_singleton.1 hx]
    simp only [decide_eq_true_eq]
    omega
  have hd : (rem.drop n).filter (fun p => decide (last.1 + 1 ≤ p.1)) = rem.drop n := by
    apply List.filter_eq_self.2
    intro x hx
    have := ptd last hlast_take x hx
    simp only [decide_eq_true_eq]
    omega
  rw [ht, hd, List.nil_append]

/-- The loop of gang lookups over one shard inserts the sets of the shard
from `set_idx` on, in the order of the tree. -/
theorem flush_collect_shard_eq (fuel : Nat) :
    ∀ (sbi : f2fs_sb_info) (i set_idx : Nat) (sets : List (Nat × Nat)),
      ((sbi.nat.nat_set_root i).map Prod.fst).Pairwise (· < ·) →
      (∀ q ∈ sbi.nat.nat_set_root i, q.2.set = q.1 ∧ q.1 + 1 < 4294967296) →
      0 < sbi.cfg.SETVEC_SIZE →
      ((sbi.nat.nat_set_root i).filter (fun p => decide (set_idx ≤ p.1))).length < fuel →
      flush_collect_shard fuel sbi i set_idx sets = .ok
        ((((sbi.nat.nat_set_root i).filter (fun p => decide (set_idx ≤ p.1))).map
            (fun p => (i, p.1))).foldl
          (fun acc nes => __adjust_nat_entry_set sbi nes acc (MAX_NAT_JENTRIES sbi)) sets) := by
  induction fuel with
  | zero => intro sbi i set_idx sets _ _ _ hlen; omega
  | succ fuel ih =>
    intro sbi i set_idx sets hsort hkey hsv hlen
    unfold flush_collect_shard
    simp only
    cases hl : (radix_tree_gang_lookup (sbi.nat.nat_set_root i) set_idx
        sbi.cfg.SETVEC_SIZE).getLast? with
    | none =>
      simp only
      have hnil := List.getLast?_eq_none_iff.1 hl
      unfold radix_tree_gang_lookup at hnil
      rcases List.take_eq_nil_iff.1 hnil with h0 | h0
      · omega
      · rw [h0]; rfl
    | some last =>
      simp only
      have hlast_mem : last ∈ sbi.nat.nat_set_root i := by
        have := List.mem_of_getLast?_eq_some hl
        unfold radix_tree_gang_lookup at this
        exact List.mem_of_mem_filter (List.mem_of_mem_take this)
      obtain ⟨hls, hlb⟩ := hkey last hlast_mem
      have hidx : (last.2.set + 1) % 4294967296 = last.1 + 1 := by
        rw [hls, Nat.mod_eq_of_lt hlb]
      rw [hidx]
      unfold radix_tree_gang_lookup at hl ⊢
      have hdrop := filter_after_take hsort hl
      have hne : ((sbi.nat.nat_set_root i).filter (fun p => decide (set_idx ≤ p.1))).take
          sbi.cfg.SETVEC_SIZE ≠ [] := by
        intro h0; rw [h0] at hl; cases hl
      have hlen2 : ((sbi.nat.nat_set_root i).filter
          (fun p => decide (last.1 + 1 ≤ p.1))).length < fuel := by
        rw [hdrop, List.length_drop]
        have hpos : 0 < ((sbi.nat.nat_set_root i).filter
            (fun p => decide (set_idx ≤ p.1))).length := by
          rcases Nat.eq_zero_or_pos ((sbi.nat.nat_set_root i).filter
            (fun p => decide (set_idx ≤ p.1))).length with h0 | h0
          · rw [List.length_eq_zero.1 h0] at hne
            exact absurd (List.take_nil) hne
          · exact h0
        omega
      rw [ih sbi i (last.1 + 1) _ hsort hkey hsv hlen2, hdrop]
      congr 1
      rw [← List.foldl_map (fun (p : Nat × nat_entry_set) => (i, p.1))
        (fun acc nes => __adjust_nat_entry_set sbi nes acc (MAX_NAT_JENTRIES sbi)),
        ← List.foldl_append, ← List.map_append, List.take_append_drop]

/-- The loop over the shards inserts all their sets, shard by shard. -/
theorem flush_collect_eq (k : Nat) :
    ∀ (sbi : f2fs_sb_info) (i : Nat) (sets : List (Nat × Nat)),
      (∀ j, ((sbi.nat.nat_set_root j).map Prod.fst).Pairwise (· < ·)) →
      (∀ j, ∀ q ∈ sbi.nat.nat_set_root j, q.2.set = q.1 ∧ q.1 + 1 < 4294967296) →
      0 < sbi.cfg.SETVEC_SIZE →
      flush_collect k sbi i sets = .ok ((sets_from sbi k i).foldl
        (fun acc nes => __adjust_nat_entry_set sbi nes acc (MAX_NAT_JENTRIES sbi)) sets) := by
  induction k with
  | zero => intro sbi i sets _ _ _; rfl
  | succ k ih =>
    intro sbi i sets hsort hkey hsv
    unfold flush_collect
    simp only [bind, Except.bind]
    have hall : (sbi.nat.nat_set_root i).filter (fun p => decide (0 ≤ p.1))
        = sbi.nat.nat_set_root i := by
      apply List.filter_eq_self.2
      intro x _
      simp
    rw [flush_collect_shard_eq _ sbi i 0 sets (hsort i) (hkey i) hsv (by rw [hall]; omega)]
    simp only
    rw [ih sbi (i + 1) _ hsort hkey hsv, hall]
    have e : sets_from sbi (k + 1) i
        = (sbi.nat.nat_set_root i).map (fun p => (i, p.1)) ++ sets_from sbi k (i + 1) := by
      show (set_keys sbi i).map (fun x => (i, x)) ++ sets_from sbi k (i + 1) = _
      unfold set_keys
      rw [List.map_map]
      rfl
    rw [e, List.foldl_append]

/-- Under the invariant `flush_nat_entries` counts, drains the journal if it
must, and flushes all the dirty sets in the order of the list that
`__adjust_nat_entry_set` builds from them. -/
theorem flush_nat_entries_order {sbi : f2fs_sb_info} (h : nat_inv sbi) (hj : journal_ok sbi)
    (hsv : 0 < sbi.cfg.SETVEC_SIZE) :
    flush_nat_entries sbi =
      if sum_up sbi.nat.percore_dirty_nat_cnt sbi.cfg.nat_tree_cnt = 0
      then .ok (flush_counted sbi)
      else match flush_drain (flush_counted sbi) with
        | .error f => .error f
        | .ok s1 => flush_sets (adjust_all s1 (MAX_NAT_JENTRIES s1) (all_sets s1)) s1 := by
  have h0 : nat_inv (flush_counted sbi) := h.congr rfl rfl rfl rfl rfl rfl
  have j0 : journal_ok (flush_counted sbi) := hj.same rfl rfl
  rw [flush_nat_entries_eq]
  split
  · rfl
  · cases h1 : flush_drain (flush_counted sbi) with
    | error f => rfl
    | ok s1 =>
      simp only
      obtain ⟨i1, _, c1⟩ := flush_drain_inv h0 j0 h1
      rw [flush_collect_eq _ s1 0 [] (fun j => (i1.shard j).set_sorted)
        (fun j q hq => by
          have := (i1.shard j).set_ok q hq
          have hM := i1.2.2.1
          exact ⟨this.1, by omega⟩)
        (by rw [c1]; exact hsv)]
      rfl

/-- The bound of `__adjust_nat_entry_set` as an unsigned number. -/
theorem int_to_u32_of_nonneg {max : Int} (h0 : 0 ≤ max) (h1 : max ≤ 2147483647) :
    (int_to_u32 max : Int) = max := by
  unfold int_to_u32
  have : max % 4294967296 = max := Int.emod_eq_of_lt h0 (by omega)
  rw [this]
  exact Int.toNat_of_nonneg h0

/-! ## Free-NID pool: the invariants of the shards -/

theorem u32_inc_lt (x : Nat) : u32_inc x < 4294967296 := by
  unfold u32_inc; omega

theorem u32_dec_lt (x : Nat) : u32_dec x < 4294967296 := by
  unfold u32_dec; omega

theorem u32_inc_dec {x : Nat} (h : x < 4294967296) : u32_inc (u32_dec x) = x := by
  unfold u32_inc u32_dec; omega

/-- A step that leaves the shard count, the trees and the lists alone and
keeps the counters in 32 bits keeps the invariants of the pool. -/
theorem pool_inv.of_eq {s s' : f2fs_sb_info} (h : pool_inv s)
    (hc : s'.cfg.nid_list_count = s.cfg.nid_list_count)
    (hr : s'.free.free_nid_root = s.free.free_nid_root)
    (hl : s'.free.free_nid_list = s.free.free_nid_list)
    (hn : ∀ l, s'.free.percore_fcnt l < 4294967296) : pool_inv s' := by
  intro l
  unfold pool_inv at h
  rw [hc, hr, hl]
  exact ⟨(h l).sorted, (h l).keyed, (h l).listed, hn l⟩

theorem pool_inv.lookup_nid {s : f2fs_sb_info} (h : pool_inv s) {n : Nat} {v : free_nid}
    (hv : __lookup_free_nid_list s n = some v) : v.nid = n ∧ n ≠ 0 := by
  have := (h _).keyed (n, v) (mem_of_lookup hv)
  exact ⟨this.1, this.2.2⟩

theorem pool_inv.of_list {s : f2fs_sb_info} (h : pool_inv s) {l n : Nat}
    (hn : n ∈ s.free.free_nid_list l) :
    n % s.cfg.nid_list_count = l ∧ n ≠ 0 ∧ ∃ v, __lookup_free_nid_list s n = some v ∧ v.nid = n := by
  obtain ⟨v, hv⟩ := (h l).listed n hn
  obtain ⟨k1, k2, k3⟩ := (h l).keyed (n, v) hv
  refine ⟨k2, k3, v, ?_, k1⟩
  unfold __lookup_free_nid_list LIST_IDX
  have k2 : n % s.cfg.nid_list_count = l := k2
  rw [k2]
  exact lookup_of_mem (h l).sorted hv

/-- Replacing the tree, the list and the counter of one shard by ones that
satisfy the invariant of the shard. -/
theorem pool_inv.of_fshard {s : f2fs_sb_info} (h : pool_inv s) (l : Nat)
    {R : radix_tree_root free_nid} {L : List Nat} {c : Nat}
    (hs : fshard_inv s.cfg.nid_list_count l R L c) (g : free_pool → free_pool)
    (hg1 : (g s.free).free_nid_root = arr_set s.free.free_nid_root l R)
    (hg2 : (g s.free).free_nid_list = arr_set s.free.free_nid_list l L)
    (hg3 : (g s.free).percore_fcnt = arr_set s.free.percore_fcnt l c) :
    pool_inv { s with free := g s.free } := by
  intro l'
  show fshard_inv s.cfg.nid_list_count l' ((g s.free).free_nid_root l')
    ((g s.free).free_nid_list l') ((g s.free).percore_fcnt l')
  rw [hg1, hg2, hg3]
  by_cases hl : l' = l
  · subst hl
    rw [arr_set_same, arr_set_same, arr_set_same]
    exact hs
  · rw [arr_set_other _ _ _ _ hl, arr_set_other _ _ _ _ hl, arr_set_other _ _ _ _ hl]
    exact h l'

theorem add_free_nid_zero (s : f2fs_sb_info) (build : Bool) :
    (add_free_nid s 0 build).1 = (available_free_memory s mem_type.FREE_NIDS).1 := by
  unfold add_free_nid
  simp only
  split_ifs <;> rfl

/-- `add_free_nid` keeps the invariants of the pool. -/
theorem pool_inv.free_add {s : f2fs_sb_info} (h : pool_inv s) (nid : Nat) (build : Bool) :
    pool_inv (add_free_nid s nid build).1 := by
  have h0 : pool_inv (available_free_memory s mem_type.FREE_NIDS).1 :=
    h.of_eq rfl rfl rfl (fun l => (h l).cnt_lt)
  by_cases hz : nid = 0
  · rw [hz, add_free_nid_zero]; exact h0
  rcases add_free_nid_cases s nid build with e | ⟨hl, e⟩
  · rw [e]; exact h0
  · rw [e]
    have hsh : fshard_inv s.cfg.nid_list_count (LIST_IDX nid s)
        (radix_tree_put (s.free.free_nid_root (LIST_IDX nid s)) nid
          { nid := nid, state := nid_state.NID_NEW })
        (s.free.free_nid_list (LIST_IDX nid s) ++ [nid])
        (u32_inc (s.free.percore_fcnt (LIST_IDX nid s))) := by
      refine ⟨put_sorted _ (h _).sorted hl, ?_, ?_, u32_inc_lt _⟩
      · intro p hp
        rcases (mem_put _ _ _ _).1 hp with rfl | hp
        · exact ⟨rfl, rfl, hz⟩
        · exact (h _).keyed p hp
      · intro n hn
        rcases List.mem_append.1 hn with hn | hn
        · obtain ⟨v, hv⟩ := (h _).listed n hn
          exact ⟨v, (mem_put _ _ _ _).2 (Or.inr hv)⟩
        · rw [List.mem_singleton.1 hn]
          exact ⟨_, (mem_put _ _ _ _).2 (Or.inl rfl)⟩
    exact h.of_fshard (LIST_IDX nid s) hsh
      (fun f => { f with
        fcnt := (available_free_memory s mem_type.FREE_NIDS).1.free.fcnt,
        free_nid_root := arr_set s.free.free_nid_root (LIST_IDX nid s)
          (radix_tree_put (s.free.free_nid_root (LIST_IDX nid s)) nid
            { nid := nid, state := nid_state.NID_NEW }),
        free_nid_list := arr_set s.free.free_nid_list (LIST_IDX nid s)
          (s.free.free_nid_list (LIST_IDX nid s) ++ [nid]),
        percore_fcnt := arr_set s.free.percore_fcnt (LIST_IDX nid s)
          (u32_inc (s.free.percore_fcnt (LIST_IDX nid s))) }) rfl rfl rfl

/-- A write through a `struct free_nid *` that keeps the NID keeps the
invariants of the pool. -/
theorem pool_inv.free_modify {s : f2fs_sb_info} (h : pool_inv s) (i : Nat) (f : free_nid → free_nid)
    (hf : ∀ v, (f v).nid = v.nid) : pool_inv (free_nid_modify s i f) := by
  have hsh : fshard_inv s.cfg.nid_list_count (LIST_IDX i s)
      ((s.free.free_nid_root (LIST_IDX i s)).map
        (fun p => if p.1 = i then (p.1, f p.2) else p))
      (s.free.free_nid_list (LIST_IDX i s)) (s.free.percore_fcnt (LIST_IDX i s)) := by
    refine ⟨by rw [keys_map_upd]; exact (h _).sorted, ?_, ?_, (h _).cnt_lt⟩
    · intro p hp
      obtain ⟨q, hq, rfl⟩ := List.mem_map.1 hp
      have := (h _).keyed q hq
      split
      · simp only [hf]; exact this
      · exact this
    · intro n hn
      obtain ⟨v, hv⟩ := (h _).listed n hn
      by_cases hni : n = i
      · exact ⟨f v, List.mem_map.2 ⟨(n, v), hv, by simp [hni]⟩⟩
      · exact ⟨v, List.mem_map.2 ⟨(n, v), hv, by simp [hni]⟩⟩
  have := h.of_fshard (LIST_IDX i s) hsh
    (fun fr => { fr with
      free_nid_root := arr_set s.free.free_nid_root (LIST_IDX i s)
        ((s.free.free_nid_root (LIST_IDX i s)).map
          (fun p => if p.1 = i then (p.1, f p.2) else p)) })
    rfl (by simp only; rw [arr_set_self]) (by simp only; rw [arr_set_self])
  exact this

/-- `__del_from_free_nid_list` keeps the invariants of the pool. -/
theorem pool_inv.free_del {s s' : f2fs_sb_info} (h : pool_inv s) {i : Nat}
    (hs : __del_from_free_nid_list s i = .ok s') : pool_inv s' := by
  unfold __del_from_free_nid_list free_nid_read at hs
  cases hl : radix_tree_lookup (s.free.free_nid_root (LIST_IDX i s)) i with
  | none => simp [hl, bind, Except.bind] at hs
  | some w =>
    simp only [hl, bind, Except.bind, Except.ok.injEq] at hs
    subst hs
    have hw : w.nid = i := ((h _).keyed (i, w) (mem_of_lookup hl)).1
    intro l
    simp only [hw]
    have hlist : ∀ n ∈ (s.free.free_nid_list l).filter (fun x => x != i),
        n ≠ i ∧ ∃ v, (n, v) ∈ s.free.free_nid_root l := by
      intro n hn
      obtain ⟨hn1, hn2⟩ := List.mem_filter.1 hn
      exact ⟨by simpa using hn2, (h l).listed n hn1⟩
    show fshard_inv s.cfg.nid_list_count l
      (arr_set s.free.free_nid_root (LIST_IDX i s)
        (radix_tree_delete (s.free.free_nid_root (LIST_IDX i s)) i) l)
      ((s.free.free_nid_list l).filter (fun x => x != i)) (s.free.percore_fcnt l)
    by_cases hli : l = LIST_IDX i s
    · subst hli
      rw [arr_set_same]
      refine ⟨delete_sorted i (h _).sorted, ?_, ?_, (h _).cnt_lt⟩
      · intro p hp
        exact (h _).keyed p (List.mem_of_mem_filter hp)
      · intro n hn
        obtain ⟨hni, v, hv⟩ := hlist n hn
        exact ⟨v, List.mem_filter.2 ⟨hv, by simpa using hni⟩⟩
    · rw [arr_set_other _ _ _ _ hli]
      refine ⟨(h l).sorted, (h l).keyed, ?_, (h l).cnt_lt⟩
      intro n hn
      exact (hlist n hn).2

theorem pool_inv.set_cnt {s : f2fs_sb_info} (h : pool_inv s) (l c : Nat) (hc : c < 4294967296) :
    pool_inv { s with free := { s.free with
      percore_fcnt := arr_set s.free.percore_fcnt l c } } := by
  refine h.of_eq rfl rfl rfl (fun l' => ?_)
  show arr_set s.free.percore_fcnt l c l' < 4294967296
  unfold arr_set
  split
  · exact hc
  · exact (h l').cnt_lt

theorem pool_inv.free_remove {s s' : f2fs_sb_info} (h : pool_inv s) {nid : Nat}
    (hs : remove_free_nid s nid = .ok s') : pool_inv s' := by
  unfold remove_free_nid at hs
  simp only at hs
  cases hl : __lookup_free_nid_list s nid with
  | none =>
    simp only [hl, Except.ok.injEq] at hs
    rw [← hs]; exact h
  | some w =>
    simp only [hl] at hs
    by_cases hw : w.state = nid_state.NID_NEW
    · simp only [hw, if_true, bind, Except.bind] at hs
      cases hd : __del_from_free_nid_list s nid with
      | error f => rw [hd] at hs; simp at hs
      | ok s1 =>
        rw [hd] at hs
        simp only [Except.ok.injEq] at hs
        rw [← hs]
        exact (h.free_del hd).set_cnt _ _ (u32_dec_lt _)
    · simp only [hw, if_false, Except.ok.injEq] at hs
      rw [← hs]; exact h

theorem pool_inv.scan_loop (nat_blk : Nat → f2fs_nat_entry) (cnt : Nat) :
    ∀ (s s' : f2fs_sb_info) (i start_nid : Nat), pool_inv s →
      scan_nat_page_loop nat_blk cnt s i start_nid = .ok s' → pool_inv s' := by
  induction cnt with
  | zero =>
    intro s s' i start_nid hi h
    simp only [scan_nat_page_loop, Except.ok.injEq] at h
    rw [← h]; exact hi
  | succ cnt ih =>
    intro s s' i start_nid hi h
    unfold scan_nat_page_loop at h
    split_ifs at h with h1
    · simp only [Except.ok.injEq] at h
      rw [← h]; exact hi
    · simp only [bind, Except.bind] at h
      cases hb : f2fs_bug_on ((nat_blk i).block_addr == NEW_ADDR) with
      | error f => rw [hb] at h; simp at h
      | ok u =>
        rw [hb] at h
        simp only at h
        split_ifs at h with h2 h3
        · simp only [Except.ok.injEq] at h
          rw [← h]; exact hi.free_add start_nid true
        · exact ih _ _ _ _ (hi.free_add start_nid true) h
        · exact ih _ _ _ _ hi h

theorem pool_inv.build_journal (cnt : Nat) :
    ∀ (s s' : f2fs_sb_info) (i : Nat), pool_inv s →
      build_free_nids_journal cnt s i = .ok s' → pool_inv s' := by
  induction cnt with
  | zero =>
    intro s s' i hi h
    simp only [build_free_nids_journal, Except.ok.injEq] at h
    rw [← h]; exact hi
  | succ n ih =>
    intro s s' i hi h
    simp only [build_free_nids_journal, bind, Except.bind] at h
    by_cases ha : (s.disk.nat_j i).ne.block_addr = NULL_ADDR
    · simp only [ha, if_true] at h
      exact ih _ _ _ (hi.free_add _ true) h
    · simp only [ha, if_false] at h
      cases hr : remove_free_nid s (s.disk.nat_j i).nid with
      | error f => rw [hr] at h; simp at h
      | ok s1 =>
        rw [hr] at h
        simp only at h
        exact ih _ _ _ (hi.free_remove hr) h

theorem pool_inv.build {s s' : f2fs_sb_info} (h : pool_inv s)
    (hs : build_free_nids s = .ok s') : pool_inv s' :=
  pool_inv.build_journal _ s s' 0 h hs

theorem pool_inv.alloc_build {s s' : f2fs_sb_info} (hi : pool_inv s) {l : Nat}
    (h : alloc_nid_build s l = .ok s') : pool_inv s' := by
  unfold alloc_nid_build at h
  simp only [bind, Except.bind] at h
  cases hb : s.free.build_lock with
  | true => simp [hb] at h
  | false =>
    simp only [hb, Bool.false_eq_true, if_false] at h
    have h1 : pool_inv { s with free := { s.free with build_lock := true } } :=
      hi.of_eq rfl rfl rfl (fun l => (hi l).cnt_lt)
    by_cases hf : s.free.percore_fcnt l = 0
    · simp only [hf, if_true] at h
      cases hr : build_free_nids
          { s with free := { s.free with build_lock := true } } with
      | error f => rw [hr] at h; simp at h
      | ok s1 =>
        rw [hr] at h
        simp only [Except.ok.injEq] at h
        rw [← h]
        have h2 := h1.build hr
        exact h2.of_eq rfl rfl rfl (fun l => (h2 l).cnt_lt)
    · simp only [hf, if_false, Except.ok.injEq] at h
      rw [← h]
      exact hi.of_eq rfl rfl rfl (fun l => (hi l).cnt_lt)

/-- The list scan of `alloc_nid` returns a member of the list that is in state
`NID_NEW`, and no member before it is. -/
theorem first_new_split (s : f2fs_sb_info) (L : List Nat) {i : Nat}
    (h : first_new s L = some i) :
    ∃ pre post, L = pre ++ i :: post ∧
      (∀ m ∈ pre, ∀ v, __lookup_free_nid_list s m = some v → v.state ≠ nid_state.NID_NEW) ∧
      ∃ v, __lookup_free_nid_list s i = some v ∧ v.state = nid_state.NID_NEW := by
  induction L with
  | nil => simp [first_new] at h
  | cons a t ih =>
    unfold first_new at h
    cases hl : __lookup_free_nid_list s a with
    | none =>
      simp only [hl] at h
      obtain ⟨pre, post, e, h1, h2⟩ := ih h
      refine ⟨a :: pre, post, by rw [e]; rfl, ?_, h2⟩
      intro m hm v hv
      rcases List.mem_cons.1 hm with rfl | hm
      · rw [hl] at hv; cases hv
      · exact h1 m hm v hv
    | some v =>
      simp only [hl] at h
      by_cases hv : v.state = nid_state.NID_NEW
      · simp only [hv, if_true, Option.some.injEq] at h
        subst h
        exact ⟨[], t, rfl, fun m hm => absurd hm (List.not_mem_nil _), v, hl, hv⟩
      · simp only [hv, if_false] at h
        obtain ⟨pre, post, e, h1, h2⟩ := ih h
        refine ⟨a :: pre, post, by rw [e]; rfl, ?_, h2⟩
        intro m hm w hw
        rcases List.mem_cons.1 hm with rfl | hm
        · rw [hl] at hw; cases hw; exact hv
        · exact h1 m hm w hw

/-- The section of `alloc_nid` that takes a NID, under the invariants: the NID
is the first member of the list in state `NID_NEW`, and the state returned is
`take_result`. -/
theorem alloc_nid_take_nf {s s' : f2fs_sb_info} {l n : Nat} (hi : pool_inv s)
    (h : alloc_nid_take s l = .ok (s', n)) :
    first_new s (s.free.free_nid_list l) = some n ∧ s' = take_result s l n := by
  unfold alloc_nid_take at h
  simp only [bind, Except.bind] at h
  cases hb : f2fs_bug_on (s.free.free_nid_list l).isEmpty with
  | error f => rw [hb] at h; simp at h
  | ok u =>
    rw [hb] at h
    simp only at h
    cases hf : first_new s (s.free.free_nid_list l) with
    | none => rw [hf] at h; simp at h
    | some i =>
      rw [hf] at h
      simp only at h
      obtain ⟨v, hv, hst⟩ := first_new_some s _ hf
      have hr : free_nid_read s i = .ok v := by
        unfold free_nid_read
        unfold __lookup_free_nid_list at hv
        rw [hv]
      rw [hr] at h
      simp only [Except.ok.injEq, Prod.mk.injEq] at h
      obtain ⟨h1, h2⟩ := h
      have hvn : v.nid = i := (hi.lookup_nid hv).1
      rw [hvn] at h2
      subst h2
      exact ⟨rfl, h1.symm⟩

theorem pool_inv.take {s : f2fs_sb_info} (hi : pool_inv s) (l n : Nat) :
    pool_inv (take_result s l n) :=
  (hi.free_modify n (fun x => { x with state := nid_state.NID_ALLOC }) (fun _ => rfl)).set_cnt
    l _ (u32_dec_lt _)

/-- The runs of `alloc_nid` that return, under the invariants: a run that
hands out a NID took it from a state `s0` that satisfies the invariants and in
which the counter of the list is not 0; when the list selected first has free
NIDs and no build is running, `s0` is the state of the call after the
increment of `next_allocator`. -/
theorem alloc_nid_nf (fuel : Nat) :
    ∀ (s s' : f2fs_sb_info) (r : Option Nat), pool_inv s → alloc_nid fuel s = .ok (s', r) →
      (r = none ∧ s' = s) ∨
      ∃ s0 l n, pool_inv s0 ∧ s0.cfg = s.cfg ∧ s0.free.percore_fcnt l ≠ 0 ∧
        alloc_nid_take s0 l = .ok (s', n) ∧ r = some n ∧
        ((s.free.percore_fcnt (alloc_list s) ≠ 0 ∧ s.free.build_lock = false) →
          s0 = alloc_bump s ∧ l = alloc_list s) := by
  induction fuel with
  | zero => intro s s' r _ h; simp [alloc_nid] at h
  | succ k ih =>
    intro s s' r hi h
    by_cases hc : (s.total_valid_node_count + 1) % 4294967296 > s.cfg.available_nids
    · rw [alloc_nid] at h
      simp only [hc, if_true, Except.ok.injEq, Prod.mk.injEq] at h
      exact Or.inl ⟨h.2.symm, h.1.symm⟩
    · rw [alloc_nid_succ k s hc] at h
      simp only at h
      have hb : pool_inv (alloc_bump s) := hi.of_eq rfl rfl rfl (fun l => (hi l).cnt_lt)
      split at h
      · simp at h
      · split at h
        · simp at h
        · split at h
          · rename_i hcond
            split at h
            · rename_i r1 hr1
              simp only [Except.ok.injEq, Prod.mk.injEq] at h
              obtain ⟨rfl, rfl⟩ := h
              exact Or.inr ⟨alloc_bump s, alloc_list s, r1.2, hb, rfl, hcond.1, hr1, rfl,
                fun _ => ⟨rfl, rfl⟩⟩
            · simp at h
          · rename_i hcond
            split at h
            · rename_i s1 hs1
              have hb1 : pool_inv s1 := hb.alloc_build hs1
              have hfo := alloc_nid_build_free_only hs1
              rcases ih _ _ _ hb1 h with ⟨h1, h2⟩ | ⟨s2, l, n, h1, h2, h3, h4, h5, _⟩
              · exfalso
                have hsp := (alloc_nid_spec k s1 s' r h).2.1.1 h1
                have e1 : s1.total_valid_node_count = s.total_valid_node_count := hfo.2.2.2.2
                have e2 : s1.cfg = s.cfg := hfo.1
                rw [e1, e2] at hsp
                exact hc hsp
              · refine Or.inr ⟨s2, l, n, h1, h2.trans hfo.1, h3, h4, h5, ?_⟩
                intro hd
                exact absurd hd hcond
            · simp at h

theorem pool_inv.alloc {s s' : f2fs_sb_info} (hi : pool_inv s) {fuel : Nat} {r : Option Nat}
    (h : alloc_nid fuel s = .ok (s', r)) : pool_inv s' := by
  rcases alloc_nid_nf fuel s s' r hi h with ⟨_, rfl⟩ | ⟨s0, l, n, h0, _, _, ht, _, _⟩
  · exact hi
  · rw [(alloc_nid_take_nf h0 ht).2]
    exact h0.take l n

theorem pool_inv.free_done {s s' : f2fs_sb_info} (hi : pool_inv s) {nid : Nat}
    (h : alloc_nid_done s nid = .ok s') : pool_inv s' := by
  unfold alloc_nid_done at h
  simp only [bind, Except.bind] at h
  cases hl : __lookup_free_nid_list s nid with
  | none => rw [hl] at h; simp at h
  | some i =>
    rw [hl] at h
    simp only at h
    cases hb : f2fs_bug_on (i.state != nid_state.NID_ALLOC) with
    | error f => rw [hb] at h; simp at h
    | ok u =>
      rw [hb] at h
      exact hi.free_del h

theorem pool_inv.free_failed {s s' : f2fs_sb_info} (hi : pool_inv s) {nid : Nat}
    (h : alloc_nid_failed s nid = .ok s') : pool_inv s' := by
  unfold alloc_nid_failed at h
  by_cases h0 : nid = 0
  · simp only [h0, if_true] at h
    have : s' = s := by
      have h2 : (Except.ok s : Except Fault f2fs_sb_info) = Except.ok s' := h
      cases h2
      rfl
    rw [this]; exact hi
  · simp only [h0, if_false, bind, Except.bind] at h
    cases hl : __lookup_free_nid_list s nid with
    | none => rw [hl] at h; simp at h
    | some i =>
      rw [hl] at h
      simp only at h
      cases hb : f2fs_bug_on (i.state != nid_state.NID_ALLOC) with
      | error f => rw [hb] at h; simp at h
      | ok u =>
        rw [hb] at h
        simp only at h
        have k0 : pool_inv (available_free_memory s mem_type.FREE_NIDS).1 :=
          hi.of_eq rfl rfl rfl (fun l => (hi l).cnt_lt)
        split_ifs at h
        · exact k0.free_del h
        · simp only [Except.ok.injEq] at h
          rw [← h]
          exact (k0.free_modify nid (fun x => { x with state := nid_state.NID_NEW })
            (fun _ => rfl)).set_cnt _ _ (u32_inc_lt _)

/-- Every state of the pool reached from the empty pool satisfies the
invariants of the pool. -/
theorem pool_reachable.pool_ok {sbi : f2fs_sb_info} (h : pool_reachable sbi) : pool_inv sbi := by
  induction h with
  | init h0 =>
    intro l
    obtain ⟨e1, e2, e3⟩ := h0 l
    rw [e1, e2, e3]
    exact ⟨List.Pairwise.nil, fun _ hp => absurd hp (List.not_mem_nil _),
      fun _ hn => absurd hn (List.not_mem_nil _), by decide⟩
  | add nid build _ ih => exact ih.free_add nid build
  | scan _ hs ih => exact pool_inv.scan_loop _ _ _ _ _ _ ih hs
  | build _ hs ih => exact ih.build hs
  | remove _ hs ih => exact ih.free_remove hs
  | alloc _ hs ih => exact ih.alloc hs
  | done _ hs ih => exact ih.free_done hs
  | failed _ hs ih => exact ih.free_failed hs
  | other _ hc hf ih =>
    exact ih.of_eq (by rw [hc]) (by rw [hf]) (by rw [hf]) (fun l => by rw [hf]; exact (ih l).cnt_lt)

theorem lookup_take_result (s : f2fs_sb_info) (l n m : Nat) :
    __lookup_free_nid_list (take_result s l n) m
      = if m = n then (__lookup_free_nid_list s m).map
          (fun x => { x with state := nid_state.NID_ALLOC })
        else __lookup_free_nid_list s m :=
  lookup_free_nid_modify s n m (fun x => { x with state := nid_state.NID_ALLOC })

/-- In a pool that satisfies the invariants, the scan of a list depends on the
trees and the list only. -/
theorem first_new_congr {s s' : f2fs_sb_info} (hc : s'.cfg = s.cfg)
    (hr : s'.free.free_nid_root = s.free.free_nid_root) (L : List Nat) :
    first_new s' L = first_new s L := by
  induction L with
  | nil => rfl
  | cons a t ih =>
    unfold first_new
    have : __lookup_free_nid_list s' a = __lookup_free_nid_list s a := by
      unfold __lookup_free_nid_list LIST_IDX
      rw [hr, hc]
    rw [this, ih]

/-- A tree in key order is unchanged by a write that leaves the one item of
its key as it is. -/
theorem map_upd_of_lookup {α : Type} {T : radix_tree_root α} {k : Nat} {v : α} {f : α → α}
    (hs : (T.map Prod.fst).Pairwise (· < ·)) (hl : radix_tree_lookup T k = some v)
    (hf : f v = v) : T.map (fun p => if p.1 = k then (p.1, f p.2) else p) = T := by
  have : ∀ p ∈ T, (if p.1 = k then (p.1, f p.2) else p) = p := by
    intro p hp
    split
    · rename_i hk
      have h1 := lookup_of_mem hs (show (p.1, p.2) ∈ T from hp)
      rw [hk, hl] at h1
      have h2 : v = p.2 := Option.some.inj h1
      rw [← h2, hf]
      exact Prod.ext rfl h2
    · rfl
  conv_rhs => rw [← List.map_id T]
  exact List.map_congr_left this

theorem del_free_nid_eq {s : f2fs_sb_info} {i : Nat} {v : free_nid}
    (hv : __lookup_free_nid_list s i = some v) (hvn : v.nid = i) :
    __del_from_free_nid_list s i = .ok (del_free_result s i) := by
  unfold __del_from_free_nid_list free_nid_read
  unfold __lookup_free_nid_list at hv
  rw [hv]
  simp only [bind, Except.bind, hvn]
  rfl

/-- What `alloc_nid_failed` does on a NID other than 0 that is in the pool in
state `NID_ALLOC`. -/
theorem alloc_nid_failed_eq {s : f2fs_sb_info} {n : Nat} {v : free_nid} (hn0 : n ≠ 0)
    (hv : __lookup_free_nid_list s n = some v) (hvn : v.nid = n)
    (hst : v.state = nid_state.NID_ALLOC) :
    alloc_nid_failed s n =
      if (available_free_memory s mem_type.FREE_NIDS).2 = true then .ok (failed_result s n)
      else .ok (del_free_result (available_free_memory s mem_type.FREE_NIDS).1 n) := by
  have hv2 : __lookup_free_nid_list (available_free_memory s mem_type.FREE_NIDS).1 n
      = some v := hv
  unfold alloc_nid_failed
  simp only [hn0, if_false, hv, bind, Except.bind]
  have hbug : f2fs_bug_on (v.state != nid_state.NID_ALLOC) = .ok () := by
    rw [hst]; rfl
  rw [hbug]
  simp only
  cases hb : (available_free_memory s mem_type.FREE_NIDS).2 with
  | false =>
    simp only [Bool.not_false, if_true, Bool.false_eq_true, if_false]
    exact del_free_nid_eq hv2 hvn
  | true =>
    simp only [Bool.not_true, Bool.false_eq_true, if_false, if_true]
    rfl

theorem failed_take_root (s0 : f2fs_sb_info) (l n : Nat) :
    (failed_result (take_result s0 l n) n).free.free_nid_root
      = arr_set s0.free.free_nid_root (LIST_IDX n s0)
        ((s0.free.free_nid_root (LIST_IDX n s0)).map (fun p => if p.1 = n
          then (p.1, (fun x : free_nid => { x with state := nid_state.NID_NEW }) p.2)
          else p)) := by
  show arr_set (arr_set s0.free.free_nid_root (LIST_IDX n s0)
      ((s0.free.free_nid_root (LIST_IDX n s0)).map (fun p => if p.1 = n
        then (p.1, (fun x : free_nid => { x with state := nid_state.NID_ALLOC }) p.2) else p)))
      (LIST_IDX n s0)
      (((arr_set s0.free.free_nid_root (LIST_IDX n s0)
        ((s0.free.free_nid_root (LIST_IDX n s0)).map (fun p => if p.1 = n
          then (p.1, (fun x : free_nid => { x with state := nid_state.NID_ALLOC }) p.2) else p)))
        (LIST_IDX n s0)).map (fun p => if p.1 = n
          then (p.1, (fun x : free_nid => { x with state := nid_state.NID_NEW }) p.2) else p))
    = _
  rw [arr_set_same, arr_set_set, List.map_map]
  have e : ((fun p : Nat × free_nid => if p.1 = n
        then (p.1, (fun x : free_nid => { x with state := nid_state.NID_NEW }) p.2) else p) ∘
      (fun p : Nat × free_nid => if p.1 = n
        then (p.1, (fun x : free_nid => { x with state := nid_state.NID_ALLOC }) p.2) else p))
      = (fun p : Nat × free_nid => if p.1 = n
        then (p.1, (fun x : free_nid => { x with state := nid_state.NID_NEW }) p.2) else p) := by
    funext p
    simp only [Function.comp]
    split <;> simp_all
  rw [e]

theorem failed_take_cnt (s0 : f2fs_sb_info) (l n : Nat) :
    (failed_result (take_result s0 l n) n).free.percore_fcnt
      = arr_set (arr_set s0.free.percore_fcnt l (u32_dec (s0.free.percore_fcnt l)))
          (LIST_IDX n s0)
          (u32_inc (arr_set s0.free.percore_fcnt l (u32_dec (s0.free.percore_fcnt l))
            (LIST_IDX n s0))) := rfl

/-- After `alloc_nid` took `n` from a pool that satisfies the invariants,
`alloc_nid_failed(n)` returns; when the memory budget permits, the trees, the
lists and the counters are those from which `n` was taken; when it does not,
`n` is in no tree and on no list. -/
theorem alloc_nid_failed_after_take {s0 : f2fs_sb_info} (hi : pool_inv s0) {l n : Nat}
    (hf : first_new s0 (s0.free.free_nid_list l) = some n) :
    ∃ s2, alloc_nid_failed (take_result s0 l n) n = .ok s2 ∧ s2.cfg = s0.cfg ∧
      ((available_free_memory (take_result s0 l n) mem_type.FREE_NIDS).2 = true →
        s2.free.free_nid_root = s0.free.free_nid_root ∧
        s2.free.free_nid_list = s0.free.free_nid_list ∧
        s2.free.percore_fcnt = s0.free.percore_fcnt) ∧
      ((available_free_memory (take_result s0 l n) mem_type.FREE_NIDS).2 = false →
        __lookup_free_nid_list s2 n = none ∧ ∀ l', n ∉ s2.free.free_nid_list l') := by
  obtain ⟨pre, post, hsplit, _, v, hv, hst⟩ := first_new_split s0 _ hf
  have hmem : n ∈ s0.free.free_nid_list l := by rw [hsplit]; simp
  obtain ⟨hnl, hn0, _, _, _⟩ := hi.of_list hmem
  have hvn : v.nid = n := (hi.lookup_nid hv).1
  have hl1 : __lookup_free_nid_list (take_result s0 l n) n
      = some { v with state := nid_state.NID_ALLOC } := by
    rw [lookup_take_result, if_pos rfl, hv]; rfl
  rw [alloc_nid_failed_eq hn0 hl1 hvn rfl]
  cases hb : (available_free_memory (take_result s0 l n) mem_type.FREE_NIDS).2 with
  | false =>
    simp only [Bool.false_eq_true, if_false]
    refine ⟨_, rfl, rfl, fun h => absurd h (by simp), fun _ => ⟨?_, ?_⟩⟩
    · show radix_tree_lookup (arr_set _ (LIST_IDX n s0) _ (LIST_IDX n s0)) n = none
      rw [arr_set_same, lookup_delete, if_pos rfl]
    · intro l' hmem'
      have : n ∈ (s0.free.free_nid_list l').filter (fun x => x != n) := hmem'
      simpa using (List.mem_filter.1 this).2
  | true =>
    simp only [if_true]
    refine ⟨_, rfl, rfl, fun _ => ⟨?_, rfl, ?_⟩, fun h => absurd h (by simp)⟩
    · rw [failed_take_root]
      have hv0 : radix_tree_lookup (s0.free.free_nid_root (LIST_IDX n s0)) n = some v := hv
      have hfv : (fun x : free_nid => { x with state := nid_state.NID_NEW }) v = v := by
        cases v with
        | mk a b =>
          simp only at hst
          subst hst
          rfl
      rw [map_upd_of_lookup (f := fun x : free_nid => { x with state := nid_state.NID_NEW })
        (hi _).sorted hv0 hfv, arr_set_self]
    · have hl' : LIST_IDX n s0 = l := hnl
      rw [failed_take_cnt, hl', arr_set_same, arr_set_set, u32_inc_dec (hi l).cnt_lt,
        arr_set_self]

theorem toy_pool_init : pool_init toy := fun _ => ⟨rfl, rfl, rfl⟩

theorem toy_pool_reachable : pool_reachable toy_pool :=
  pool_reachable.add 7 false (pool_reachable.add 5 false (pool_reachable.init toy_pool_init))

theorem toy_jfree_reachable : pool_reachable toy_jfree :=
  pool_reachable.init (fun _ => ⟨rfl, rfl, rfl⟩)

/-- What a run of `alloc_nid` that hands out `n` did: it took `n`, the first
member in state `NID_NEW` of the list `l`, from a state `s0` that satisfies
the invariants. -/
theorem alloc_nid_some_nf {sbi sbi' : f2fs_sb_info} {fuel n : Nat} (hi : pool_inv sbi)
    (h : alloc_nid fuel sbi = .ok (sbi', some n)) :
    ∃ s0 l, pool_inv s0 ∧ s0.cfg = sbi.cfg ∧ s0.free.percore_fcnt l ≠ 0 ∧
      alloc_nid_take s0 l = .ok (sbi', n) ∧
      first_new s0 (s0.free.free_nid_list l) = some n ∧ sbi' = take_result s0 l n ∧
      ((sbi.free.percore_fcnt (alloc_list sbi) ≠ 0 ∧ sbi.free.build_lock = false) →
        s0 = alloc_bump sbi ∧ l = alloc_list sbi) := by
  rcases alloc_nid_nf fuel sbi sbi' _ hi h with ⟨h1, _⟩ | ⟨s0, l, n', h0, hc, hcnt, ht, hn, hd⟩
  · cases h1
  · cases hn
    obtain ⟨hf, e⟩ := alloc_nid_take_nf h0 ht
    exact ⟨s0, l, h0, hc, hcnt, ht, hf, e, hd⟩

/-! ## Freed NIDs: the flush hands them to the pool -/

theorem list_sum_arr_set_le (a : Nat → Nat) (t v S : Nat) (hv : v ≤ a t + 1) :
    ((List.range S).map (arr_set a t v)).sum ≤ ((List.range S).map a).sum + 1 := by
  by_cases ht : t < S
  · have := list_sum_arr_set a t v S ht
    omega
  · have : (List.range S).map (arr_set a t v) = (List.range S).map a := by
      apply List.map_congr_left
      intro i hi
      have := List.mem_range.1 hi
      exact arr_set_other _ _ _ _ (by omega)
    rw [this]
    omega

theorem u32_inc_le (x : Nat) : u32_inc x ≤ x + 1 := by
  unfold u32_inc
  exact Nat.mod_le _ _

theorem free_budget_congr {s s' : f2fs_sb_info} (hc : s'.cfg = s.cfg)
    (hr : s'.avail_ram = s.avail_ram) (f : Nat) : free_budget s' f = free_budget s f := by
  unfold free_budget
  rw [hc, hr]

theorem available_free_memory_budget (s : f2fs_sb_info) :
    (available_free_memory s mem_type.FREE_NIDS).2
      = free_budget s (fcnt_total s % 4294967296) := rfl

theorem add_free_nid_total (s : f2fs_sb_info) (nid : Nat) (build : Bool) :
    fcnt_total (add_free_nid s nid build).1 ≤ fcnt_total s + 1 := by
  rcases add_free_nid_cases s nid build with h | ⟨_, h⟩
  · rw [h]
    exact Nat.le_add_right _ _
  · rw [h]
    exact list_sum_arr_set_le s.free.percore_fcnt (LIST_IDX nid s) _ s.cfg.nid_list_count
      (u32_inc_le _)

/-- A NID in the pool stays in the pool through `add_free_nid`. -/
theorem add_free_nid_member (s : f2fs_sb_info) (nid : Nat) (build : Bool) {m : Nat}
    {w : free_nid} (hm : __lookup_free_nid_list s m = some w) :
    ∃ w', __lookup_free_nid_list (add_free_nid s nid build).1 m = some w' := by
  rcases add_free_nid_cases s nid build with h | ⟨hl, h⟩
  · rw [h]
    exact ⟨w, hm⟩
  · rw [h]
    have := lookup_free_arr_set s (LIST_IDX nid s)
      (radix_tree_put (s.free.free_nid_root (LIST_IDX nid s)) nid
        { nid := nid, state := nid_state.NID_NEW })
      (arr_set s.free.free_nid_list (LIST_IDX nid s)
        (s.free.free_nid_list (LIST_IDX nid s) ++ [nid]))
      (arr_set s.free.percore_fcnt (LIST_IDX nid s)
        (u32_inc (s.free.percore_fcnt (LIST_IDX nid s)))) m
    have e : __lookup_free_nid_list
        { (available_free_memory s mem_type.FREE_NIDS).1 with free :=
          { (available_free_memory s mem_type.FREE_NIDS).1.free with
            free_nid_root := arr_set s.free.free_nid_root (LIST_IDX nid s)
              (radix_tree_put (s.free.free_nid_root (LIST_IDX nid s)) nid
                { nid := nid, state := nid_state.NID_NEW }),
            free_nid_list := arr_set s.free.free_nid_list (LIST_IDX nid s)
              (s.free.free_nid_list (LIST_IDX nid s) ++ [nid]),
            percore_fcnt := arr_set s.free.percore_fcnt (LIST_IDX nid s)
              (u32_inc (s.free.percore_fcnt (LIST_IDX nid s))) } } m
        = if m % s.cfg.nid_list_count = LIST_IDX nid s
          then radix_tree_lookup (radix_tree_put (s.free.free_nid_root (LIST_IDX nid s)) nid
            { nid := nid, state := nid_state.NID_NEW }) m
          else __lookup_free_nid_list s m := this
    rw [e]
    split
    · rename_i hml
      rw [lookup_put _ _ _ _ hl]
      split
      · exact ⟨_, rfl⟩
      · refine ⟨w, ?_⟩
        unfold __lookup_free_nid_list LIST_IDX at hm
        unfold LIST_IDX at hml ⊢
        rw [← hml]
        exact hm
    · exact ⟨w, hm⟩

/-- The state `add_free_nid` returns when it adds the NID. -/
theorem lookup_added (s : f2fs_sb_info) (nid m : Nat)
    (hl : radix_tree_lookup (s.free.free_nid_root (LIST_IDX nid s)) nid = none) :
    __lookup_free_nid_list
      { (available_free_memory s mem_type.FREE_NIDS).1 with free :=
        { (available_free_memory s mem_type.FREE_NIDS).1.free with
          free_nid_root := arr_set s.free.free_nid_root (LIST_IDX nid s)
            (radix_tree_put (s.free.free_nid_root (LIST_IDX nid s)) nid
              { nid := nid, state := nid_state.NID_NEW }),
          free_nid_list := arr_set s.free.free_nid_list (LIST_IDX nid s)
            (s.free.free_nid_list (LIST_IDX nid s) ++ [nid]),
          percore_fcnt := arr_set s.free.percore_fcnt (LIST_IDX nid s)
            (u32_inc (s.free.percore_fcnt (LIST_IDX nid s))) } } m
      = if m = nid then some { nid := nid, state := nid_state.NID_NEW }
        else __lookup_free_nid_list s m := by
  have := lookup_free_arr_set s (LIST_IDX nid s)
    (radix_tree_put (s.free.free_nid_root (LIST_IDX nid s)) nid
      { nid := nid, state := nid_state.NID_NEW })
    (arr_set s.free.free_nid_list (LIST_IDX nid s)
      (s.free.free_nid_list (LIST_IDX nid s) ++ [nid]))
    (arr_set s.free.percore_fcnt (LIST_IDX nid s)
      (u32_inc (s.free.percore_fcnt (LIST_IDX nid s)))) m
  refine Eq.trans ?_ (this.trans ?_)
  · rfl
  · by_cases hm : m = nid
    · subst hm
      rw [if_pos (show m % s.cfg.nid_list_count = LIST_IDX m s from rfl), lookup_put _ _ _ _ hl,
        if_pos rfl, if_pos rfl]
    · rw [if_neg hm]
      split
      · rename_i hml
        rw [lookup_put _ _ _ _ hl, if_neg hm]
        unfold __lookup_free_nid_list LIST_IDX
        unfold LIST_IDX at hml
        rw [hml]
      · rfl

/-- The pool entry of another NID is the same after `add_free_nid`. -/
theorem add_free_nid_lookup_ne (s : f2fs_sb_info) (nid : Nat) (build : Bool) {m : Nat}
    (hm : m ≠ nid) :
    __lookup_free_nid_list (add_free_nid s nid build).1 m = __lookup_free_nid_list s m := by
  rcases add_free_nid_cases s nid build with h | ⟨hl, h⟩
  · rw [h]
    rfl
  · rw [h, lookup_added s nid m hl, if_neg hm]

/-- A member of a list of the pool stays on it through `add_free_nid`. -/
theorem add_free_nid_list_mono (s : f2fs_sb_info) (nid : Nat) (build : Bool) {m l : Nat}
    (hm : m ∈ s.free.free_nid_list l) : m ∈ (add_free_nid s nid build).1.free.free_nid_list l := by
  rcases add_free_nid_cases s nid build with h | ⟨_, h⟩
  · rw [h]
    exact hm
  · rw [h]
    show m ∈ arr_set s.free.free_nid_list (LIST_IDX nid s)
      (s.free.free_nid_list (LIST_IDX nid s) ++ [nid]) l
    by_cases hl : l = LIST_IDX nid s
    · rw [hl, arr_set_same]
      rw [hl] at hm
      exact List.mem_append_left _ hm
    · rw [arr_set_other _ _ _ _ hl]
      exact hm

/-- Offering a NID that is in the pool already changes neither the trees nor
the lists nor the counters of the pool. -/
theorem add_free_nid_present (s : f2fs_sb_info) (nid : Nat) (build : Bool) {w : free_nid}
    (hw : __lookup_free_nid_list s nid = some w) :
    (add_free_nid s nid build).1 = (available_free_memory s mem_type.FREE_NIDS).1 := by
  rcases add_free_nid_cases s nid build with h | ⟨hl, _⟩
  · exact h
  · unfold __lookup_free_nid_list at hw
    rw [hl] at hw
    cases hw

/-- When the budget permits and `radix_tree_preload` finds memory,
`add_free_nid` with `build` false brings a NID other than 0 that is not in the
pool into the tree of its shard, in state `NID_NEW`, and onto its list. -/
theorem add_free_nid_new (s : f2fs_sb_info) {nid : Nat} (h0 : nid ≠ 0)
    (hb : (available_free_memory s mem_type.FREE_NIDS).2 = true)
    (hp : radix_tree_preload s = 0) (hl : __lookup_free_nid_list s nid = none) :
    __lookup_free_nid_list (add_free_nid s nid false).1 nid
      = some { nid := nid, state := nid_state.NID_NEW } ∧
    nid ∈ (add_free_nid s nid false).1.free.free_nid_list (LIST_IDX nid s) := by
  have e : (add_free_nid s nid false).1 =
      { (available_free_memory s mem_type.FREE_NIDS).1 with free :=
        { (available_free_memory s mem_type.FREE_NIDS).1.free with
          free_nid_root := arr_set s.free.free_nid_root (LIST_IDX nid s)
            (radix_tree_put (s.free.free_nid_root (LIST_IDX nid s)) nid
              { nid := nid, state := nid_state.NID_NEW }),
          free_nid_list := arr_set s.free.free_nid_list (LIST_IDX nid s)
            (s.free.free_nid_list (LIST_IDX nid s) ++ [nid]),
          percore_fcnt := arr_set s.free.percore_fcnt (LIST_IDX nid s)
            (u32_inc (s.free.percore_fcnt (LIST_IDX nid s))) } } := by
    have hl' : radix_tree_lookup
        ((available_free_memory s mem_type.FREE_NIDS).1.free.free_nid_root
          (LIST_IDX nid (available_free_memory s mem_type.FREE_NIDS).1)) nid = none := hl
    have hp' : radix_tree_preload (available_free_memory s mem_type.FREE_NIDS).1 = 0 := hp
    unfold add_free_nid
    simp only [hb, Bool.not_true, Bool.false_eq_true, if_false, h0, radix_tree_insert, hl', hp',
      ne_eq, not_true_eq_false]
    rfl
  rw [e]
  refine ⟨?_, ?_⟩
  · rw [lookup_added s nid nid hl, if_pos rfl]
  · show nid ∈ arr_set s.free.free_nid_list (LIST_IDX nid s)
      (s.free.free_nid_list (LIST_IDX nid s) ++ [nid]) (LIST_IDX nid s)
    rw [arr_set_same]
    exact List.mem_append_right _ (List.mem_singleton.2 rfl)

theorem freed_inv.same_state {s0 : f2fs_sb_info} {B n : Nat} {ni : node_info} {s s' : f2fs_sb_info}
    (h : freed_inv s0 B n ni s) (hc : s'.cfg = s.cfg) (hr : s'.avail_ram = s.avail_ram)
    (h1 : s'.nat.nat_root = s.nat.nat_root) (h2 : s'.nat.nat_entries = s.nat.nat_entries)
    (h3 : s'.nat.percore_dirty_nat_cnt = s.nat.percore_dirty_nat_cnt)
    (h4 : s'.free.free_nid_root = s.free.free_nid_root)
    (h5 : s'.free.percore_fcnt = s.free.percore_fcnt)
    (h6 : s'.free.free_nid_list = s.free.free_nid_list) : freed_inv s0 B n ni s' := by
  unfold freed_inv fcnt_total dirty_total __lookup_free_nid_list LIST_IDX at *
  rw [lookup_congr h1 hc n, hc, hr, h2, h3, h4, h5, h6]
  exact h

theorem freed_inv.of_disk_only {s0 : f2fs_sb_info} {B n : Nat} {ni : node_info}
    {s s' : f2fs_sb_info} (h : freed_inv s0 B n ni s) (hd : disk_only s s') :
    freed_inv s0 B n ni s' :=
  h.same_state hd.1 hd.2.2.2.1 (by rw [hd.2.1]) (by rw [hd.2.1]) (by rw [hd.2.1])
    (by rw [hd.2.2.1]) (by rw [hd.2.2.1]) (by rw [hd.2.2.1])

theorem flush_cache_result_entries (s : f2fs_sb_info) (ne : Nat) (v : nat_entry) :
    (flush_cache_result s ne v).nat.nat_entries
      = arr_set (fun i => (s.nat.nat_entries i).filter (fun x => x != ne))
          (v.ni.nid % s.cfg.nat_tree_cnt)
          ((s.nat.nat_entries (v.ni.nid % s.cfg.nat_tree_cnt)).filter (fun x => x != ne)
            ++ [ne]) := by
  unfold flush_cache_result
  simp only
  split
  · rw [(add_free_nid_free_only _ _ _).2.1]
    rfl
  · rfl

theorem flush_cache_result_lru_self (s : f2fs_sb_info) (ne : Nat) (v : nat_entry) :
    ne ∈ (flush_cache_result s ne v).nat.nat_entries (v.ni.nid % s.cfg.nat_tree_cnt) := by
  rw [flush_cache_result_entries, arr_set_same]
  exact List.mem_append_right _ (List.mem_singleton.2 rfl)

theorem flush_cache_result_lru_other (s : f2fs_sb_info) (ne : Nat) (v : nat_entry) {m t : Nat}
    (hm : m ≠ ne) (h : m ∈ s.nat.nat_entries t) :
    m ∈ (flush_cache_result s ne v).nat.nat_entries t := by
  rw [flush_cache_result_entries]
  have hf : m ∈ (s.nat.nat_entries t).filter (fun x => x != ne) := by
    rw [List.mem_filter]
    exact ⟨h, by simpa using hm⟩
  by_cases ht : t = v.ni.nid % s.cfg.nat_tree_cnt
  · rw [← ht, arr_set_same]
    exact List.mem_append_left _ hf
  · rw [arr_set_other _ _ _ _ ht]
    exact hf

theorem flush_cache_result_total (s : f2fs_sb_info) (ne : Nat) (v : nat_entry) :
    fcnt_total (flush_cache_result s ne v) ≤ fcnt_total s + 1 ∧
    (flush_cache_result s ne v).avail_ram = s.avail_ram := by
  unfold flush_cache_result
  simp only
  split
  · refine ⟨add_free_nid_total _ _ _, ?_⟩
    rw [(add_free_nid_free_only _ _ _).2.2.2.1]
    rfl
  · exact ⟨Nat.le_add_right _ _, rfl⟩

theorem flush_cache_result_lookup_ne (s : f2fs_sb_info) (ne : Nat) (v : nat_entry) {m : Nat}
    (hm : m ≠ v.ni.nid) :
    __lookup_free_nid_list (flush_cache_result s ne v) m = __lookup_free_nid_list s m := by
  unfold flush_cache_result
  simp only
  split
  · exact add_free_nid_lookup_ne _ _ _ hm
  · rfl

theorem flush_cache_result_present (s : f2fs_sb_info) (ne : Nat) (v : nat_entry) {w : free_nid}
    (hw : __lookup_free_nid_list s v.ni.nid = some w) :
    __lookup_free_nid_list (flush_cache_result s ne v) v.ni.nid = some w := by
  unfold flush_cache_result
  simp only
  split
  · rw [add_free_nid_present _ _ _
      (show __lookup_free_nid_list (clear_dirty_result
        (nat_modify s ne (fun x => { x with flag := nat_reset_flag x.flag })) ne
        { v with flag := nat_reset_flag v.flag }) v.ni.nid = some w from hw)]
    exact hw
  · exact hw

theorem flush_cache_result_list_mono (s : f2fs_sb_info) (ne : Nat) (v : nat_entry) {m l : Nat}
    (hm : m ∈ s.free.free_nid_list l) : m ∈ (flush_cache_result s ne v).free.free_nid_list l := by
  unfold flush_cache_result
  simp only
  split
  · exact add_free_nid_list_mono _ _ _ hm
  · exact hm

theorem flush_cache_result_new (s : f2fs_sb_info) (ne : Nat) (v : nat_entry)
    (hn : v.ni.blk_addr = NULL_ADDR) (h0 : v.ni.nid ≠ 0)
    (hb : free_budget s (fcnt_total s % 4294967296) = true) (hp : radix_tree_preload s = 0)
    (hl : __lookup_free_nid_list s v.ni.nid = none) :
    __lookup_free_nid_list (flush_cache_result s ne v) v.ni.nid
      = some { nid := v.ni.nid, state := nid_state.NID_NEW } ∧
    v.ni.nid ∈ (flush_cache_result s ne v).free.free_nid_list (LIST_IDX v.ni.nid s) := by
  unfold flush_cache_result
  simp only
  rw [if_pos hn]
  exact add_free_nid_new _ h0 hb hp hl

/-- The final loop of the flush keeps `freed_inv` when the budget permits `B`
free NIDs, `radix_tree_preload` finds memory and the entry holds `NULL_ADDR`. -/
theorem freed_flush_stable (s0 : f2fs_sb_info) (B n : Nat) (ni : node_info)
    (hB : budget_permits s0 B) (hp : radix_tree_preload s0 = 0)
    (hnull : ni.blk_addr = NULL_ADDR) :
    flush_stable (freed_inv s0 B n ni) := by
  refine ⟨?_, ?_, ?_⟩
  · intro s s1 start_nid to_journal page ne v hi _ hr hv hdirty _ h1
    obtain ⟨hd1, _⟩ := flush_disk_inv h1
    have hr1 : freed_inv s0 B n ni s1 := hr.of_disk_only hd1
    have i1 : nat_inv s1 := hi.disk_only hd1
    have hv1 : __lookup_nat_cache s1 ne = some v := by rw [lookup_disk_only hd1]; exact hv
    obtain ⟨k1, _, _, k4⟩ := flush_cache_result_only s1 ne v
    obtain ⟨t1, t2⟩ := flush_cache_result_total s1 ne v
    have hsum := flush_cache_result_sum i1 hv1 hdirty
    obtain ⟨c1, a1, b1, p1, p2, x, hx, hxi, hxd, hxc⟩ := hr1
    have hnid := (i1.lookup hv1).1
    have hidx : LIST_IDX n (flush_cache_result s1 ne v) = LIST_IDX n s1 := by
      unfold LIST_IDX
      rw [k1]
    refine ⟨k1.trans c1, t2.trans a1, ?_, ?_, ?_, ?_⟩
    · unfold dirty_total at b1 ⊢
      rw [k1]
      omega
    · intro w hw
      by_cases hne : n = ne
      · subst hne
        have := flush_cache_result_present s1 n v (w := w) (by rw [hnid]; exact p1 w hw)
        rw [hnid] at this
        exact this
      · rw [flush_cache_result_lookup_ne s1 ne v (by rw [hnid]; exact hne)]
        exact p1 w hw
    · intro hm
      rw [hidx]
      exact flush_cache_result_list_mono s1 ne v (p2 hm)
    · by_cases hne : n = ne
      · subst hne
        rw [hv1] at hx
        cases hx
        refine ⟨mark_clean { v with flag := nat_reset_flag v.flag },
          by rw [k4 n, if_pos rfl, hv1]; rfl, hxi, fun hc => ?_, fun _ => ⟨?_, fun h0 hl0 => ?_⟩⟩
        · cases hc
        · have := flush_cache_result_lru_self s1 n v
          rw [hnid, ← k1] at this
          exact this
        · have hb : free_budget s1 (fcnt_total s1 % 4294967296) = true := by
            rw [free_budget_congr c1 a1]
            apply hB
            have := Nat.mod_le (fcnt_total s1) 4294967296
            omega
          have hp1 : radix_tree_preload s1 = 0 := by
            unfold radix_tree_preload at hp ⊢
            rw [c1]
            exact hp
          have := flush_cache_result_new s1 n v (hxi ▸ hnull) (by rw [hnid]; exact h0) hb hp1
            (by rw [hnid]; exact hxd hdirty hl0)
          rw [hnid] at this
          rw [hidx]
          exact this
      · refine ⟨x, by rw [k4 n, if_neg hne]; exact hx, hxi, fun hc hl0 => ?_,
          fun hc => ⟨?_, fun h0 hl0 => ?_⟩⟩
        · rw [flush_cache_result_lookup_ne s1 ne v (by rw [hnid]; exact hne)]
          exact hxd hc hl0
        · rw [k1]
          exact flush_cache_result_lru_other s1 ne v hne (hxc hc).1
        · obtain ⟨q1, q2⟩ := (hxc hc).2 h0 hl0
          rw [flush_cache_result_lookup_ne s1 ne v (by rw [hnid]; exact hne), hidx]
          exact ⟨q1, flush_cache_result_list_mono s1 ne v q2⟩
  · intro s nid r _ _ hr hp
    obtain ⟨hd1, _, _⟩ := get_next_nat_page_inv hp
    exact hr.of_disk_only hd1
  · intro s t k _ _ hr _
    exact hr.same_state rfl rfl rfl rfl rfl rfl rfl rfl

theorem set_dirty_result_dirty (s : f2fs_sb_info) (e : Nat) (v : nat_entry) :
    (set_dirty_result s e v).nat.percore_dirty_nat_cnt
      = arr_set s.nat.percore_dirty_nat_cnt (v.ni.nid % s.cfg.nat_tree_cnt)
          (u32_inc (s.nat.percore_dirty_nat_cnt (v.ni.nid % s.cfg.nat_tree_cnt))) := by
  unfold set_dirty_result with_set
  simp only
  split <;> rfl

theorem set_dirty_total {s s' : f2fs_sb_info} {e : Nat}
    (h : __set_nat_cache_dirty s e = .ok s') : dirty_total s' ≤ dirty_total s + 1 := by
  obtain ⟨v, _, hc | hc⟩ := set_dirty_inv h
  · rw [hc.2]
    exact Nat.le_add_right _ _
  · rw [hc.2]
    unfold dirty_total
    rw [set_dirty_result_cfg, set_dirty_result_dirty]
    exact list_sum_arr_set_le _ _ _ _ (u32_inc_le _)

theorem cache_nat_entry_total {s s' : f2fs_sb_info} {nid : Nat} {ne : f2fs_nat_entry}
    (h : cache_nat_entry s nid ne = .ok s') : dirty_total s' = dirty_total s := by
  rw [cache_nat_entry_eq] at h
  cases hl : __lookup_nat_cache s nid with
  | some x =>
    rw [hl] at h
    simp only [Except.ok.injEq] at h
    rw [← h]
  | none =>
    rw [hl] at h
    simp only [Except.ok.injEq] at h
    rw [← h]
    rfl

theorem remove_nats_in_journal_loop_total (cnt : Nat) :
    ∀ (sbi sbi' : f2fs_sb_info) (i : Nat), remove_nats_in_journal_loop cnt sbi i = .ok sbi' →
      dirty_total sbi' ≤ dirty_total sbi + cnt ∧ nat_only sbi sbi' := by
  induction cnt with
  | zero =>
    intro sbi sbi' i hs
    simp only [remove_nats_in_journal_loop, Except.ok.injEq] at hs
    subst hs
    exact ⟨Nat.le_refl _, nat_only_refl _⟩
  | succ cnt ih =>
    intro sbi sbi' i hs
    rw [remove_nats_in_journal_loop_succ] at hs
    cases h1 : cache_nat_entry sbi (sbi.disk.nat_j i).nid (sbi.disk.nat_j i).ne with
    | error f => rw [h1] at hs; simp at hs
    | ok s1 =>
      rw [h1] at hs
      simp only at hs
      cases h2 : __set_nat_cache_dirty s1 (sbi.disk.nat_j i).nid with
      | error f => rw [h2] at hs; simp at hs
      | ok s2 =>
        rw [h2] at hs
        simp only at hs
        obtain ⟨t3, n3⟩ := ih s2 sbi' (i + 1) hs
        have t1 := cache_nat_entry_total h1
        have t2 := set_dirty_total h2
        exact ⟨by omega, nat_only_trans (nat_only_trans (nat_only_cache_nat_entry h1)
          (nat_only_set_dirty h2)) n3⟩

/-- The merge of the journal into the cache adds no more dirty entries than
the journal has slots, and leaves the pool alone. -/
theorem flush_drain_total {sbi s1 : f2fs_sb_info} (hs : flush_drain sbi = .ok s1) :
    dirty_total s1 ≤ dirty_total sbi + sbi.disk.n_nats ∧ s1.cfg = sbi.cfg ∧
    s1.free = sbi.free ∧ s1.avail_ram = sbi.avail_ram := by
  unfold flush_drain at hs
  split at hs
  · unfold remove_nats_in_journal at hs
    simp only [bind, Except.bind] at hs
    cases h1 : remove_nats_in_journal_loop (nats_in_cursum sbi) sbi 0 with
    | error f => rw [h1] at hs; simp at hs
    | ok s2 =>
      rw [h1] at hs
      simp only [Except.ok.injEq] at hs
      subst hs
      obtain ⟨t1, n1⟩ := remove_nats_in_journal_loop_total _ sbi s2 0 h1
      exact ⟨t1, n1.1, n1.2.1, n1.2.2.2.1⟩
  · cases hs
    exact ⟨Nat.le_add_right _ _, rfl, rfl, rfl⟩

/-- The entries that are dirty when the flush starts are dirty, with the
content they had, when its final loop starts. -/
theorem flush_drain_lookup {sbi s1 : f2fs_sb_info} (hs : flush_drain sbi = .ok s1)
    {n : Nat} {e : nat_entry} (he : __lookup_nat_cache sbi n = some e)
    (hd : e.flag.IS_DIRTY = true) : __lookup_nat_cache s1 n = some e := by
  unfold flush_drain at hs
  split at hs
  · unfold remove_nats_in_journal at hs
    simp only [bind, Except.bind] at hs
    cases h1 : remove_nats_in_journal_loop (nats_in_cursum sbi) sbi 0 with
    | error f => rw [h1] at hs; simp at hs
    | ok s2 =>
      rw [h1] at hs
      simp only [Except.ok.injEq] at hs
      subst hs
      have := remove_nats_in_journal_loop_lookup _ sbi s2 0 h1 n e he hd
      rw [← this]
      exact lookup_congr rfl rfl n
  · cases hs
    exact he

theorem toy_node_init (enomem : Bool) : nat_init (toy_node enomem) :=
  ⟨by cases enomem <;> decide, by cases enomem <;> decide, by cases enomem <;> decide,
    fun i hi => absurd hi (Nat.not_lt_zero i), fun _ => ⟨rfl, rfl, rfl, rfl, rfl⟩⟩

theorem toy_gone_reachable : nat_reachable (toy_gone false) :=
  @nat_reachable.set_addr (toy_node_read false) (toy_gone false)
    { nid := 3, ino := 3, blk_addr := 100, version := 0 } NULL_ADDR false
    (@nat_reachable.other _ (toy_node_read false)
      (@nat_reachable.get (toy_node_mounted false) _ 3 _
        (@nat_reachable.other (toy_node false) (toy_node_mounted false)
          (nat_reachable.init (toy_node_init false)) rfl rfl
          (fun i hi => absurd hi (Nat.not_lt_zero i)))
        (by decide) rfl)
      rfl rfl (fun i hi => absurd hi (Nat.not_lt_zero i)))
    (by decide) rfl

theorem toy_gone_enomem_reachable : nat_reachable (toy_gone true) :=
  @nat_reachable.set_addr (toy_node_read true) (toy_gone true)
    { nid := 3, ino := 3, blk_addr := 100, version := 0 } NULL_ADDR false
    (@nat_reachable.other _ (toy_node_read true)
      (@nat_reachable.get (toy_node_mounted true) _ 3 _
        (@nat_reachable.other (toy_node true) (toy_node_mounted true)
          (nat_reachable.init (toy_node_init true)) rfl rfl
          (fun i hi => absurd hi (Nat.not_lt_zero i)))
        (by decide) rfl)
      rfl rfl (fun i hi => absurd hi (Nat.not_lt_zero i)))
    (by decide) rfl

theorem toy_gone_budget :
    budget_permits (toy_gone false) (fcnt_total (toy_gone false) + dirty_total (toy_gone false)
      + (toy_gone false).disk.n_nats) := by
  intro f hf
  have h1 : fcnt_total (toy_gone false) + dirty_total (toy_gone false)
      + (toy_gone false).disk.n_nats = 32 := by
    decide
  rw [h1] at hf
  interval_cases f <;> decide

/-! ## `try_to_free_nats`: what the trim removes -/

theorem lookup_del_result (sbi : f2fs_sb_info) {e : Nat} {v : nat_entry} (hv : v.ni.nid = e)
    (n : Nat) :
    __lookup_nat_cache (del_result sbi e v) n
      = if n = e then none else __lookup_nat_cache sbi n := by
  unfold __lookup_nat_cache del_result TREE_IDX list_del_nat_entry
  simp only [hv]
  by_cases hn : n % sbi.cfg.nat_tree_cnt = e % sbi.cfg.nat_tree_cnt
  · rw [hn, arr_set_same, lookup_delete]
  · rw [arr_set_other _ _ _ _ hn]
    have : n ≠ e := fun hh => hn (by rw [hh])
    rw [if_neg this]

theorem trim_count_zero (b : Int) : trim_count b 0 = 0 := by
  unfold trim_count
  split <;> simp

theorem trim_count_of_zero (len : Nat) : trim_count 0 len = 0 := by
  unfold trim_count
  simp

theorem trim_count_succ {b : Int} (hb : b ≠ 0) (len : Nat) :
    trim_count b (len + 1) = trim_count (b - 1) len + 1 := by
  unfold trim_count
  by_cases h : b < 0
  · have h1 : b - 1 < 0 := by omega
    rw [if_pos h, if_pos h1]
  · have h1 : ¬ b - 1 < 0 := by omega
    rw [if_neg h, if_neg h1]
    omega

theorem trim_count_le (b : Int) (len : Nat) : trim_count b len ≤ len := by
  unfold trim_count
  split
  · exact Nat.le_refl _
  · exact Nat.min_le_right _ _

/-- The deletion of the first entry of a clean list. -/
theorem del_head {sbi : f2fs_sb_info} (h : nat_inv sbi) {i ne : Nat} {t : List Nat}
    (hl : sbi.nat.nat_entries i = ne :: t) :
    ∃ e, __lookup_nat_cache sbi ne = some e ∧
      __del_from_nat_cache sbi ne = .ok (del_result sbi ne e) ∧
      nat_inv (del_result sbi ne e) ∧ (del_result sbi ne e).cfg = sbi.cfg ∧
      (del_result sbi ne e).nat.nat_entries = arr_set sbi.nat.nat_entries i t ∧
      (del_result sbi ne e).nat.nat_set_root = sbi.nat.nat_set_root ∧
      (del_result sbi ne e).nat.percore_dirty_nat_cnt = sbi.nat.percore_dirty_nat_cnt ∧
      ∀ n, __lookup_nat_cache (del_result sbi ne e) n
        = if n = ne then none else __lookup_nat_cache sbi n := by
  obtain ⟨e, he, hd⟩ := (h.shard i).lru_ok ne (by rw [hl]; exact List.mem_cons_self _ _)
  have hk : ne % sbi.cfg.nat_tree_cnt = i := ((h.shard i).root_key (ne, e) (mem_of_lookup he)).2.1
  have hv : __lookup_nat_cache sbi ne = some e := by
    unfold __lookup_nat_cache TREE_IDX
    rw [hk]; exact he
  have hnd := (h.shard i).lru_nodup
  rw [hl] at hnd
  have hnt : ne ∉ t := (List.nodup_cons.1 hnd).1
  have hf : (sbi.nat.nat_entries i).filter (fun x => x != ne) = t := by
    rw [hl, List.filter_cons]
    simp only [bne_self_eq_false, Bool.false_eq_true, if_false]
    exact filter_ne_of_not_mem hnt
  refine ⟨e, hv, by rw [del_eq, hv], h.del hv hd, rfl, ?_, ?_, ?_,
    lookup_del_result sbi (h.lookup hv).1⟩
  · rw [del_result_eq h hv hd, hk, hf]
    rfl
  · rw [del_result_eq h hv hd, hk]
    exact arr_set_self _ _
  · rw [del_result_eq h hv hd, hk]
    exact arr_set_self _ _

/-- The loop of `try_to_free_nats` over the clean list of shard `i` returns:
it takes the first `trim_count b len` entries of the list out of the cache and
leaves everything else as it is. -/
theorem try_to_free_nats_shard_nf (fuel : Nat) :
    ∀ (sbi : f2fs_sb_info) (i : Nat) (a b : Int), nat_inv sbi →
      (sbi.nat.nat_entries i).length ≤ fuel →
      ∃ s', try_to_free_nats_shard fuel sbi i a b
          = .ok (s', a - trim_count b (sbi.nat.nat_entries i).length) ∧
        nat_inv s' ∧ s'.cfg = sbi.cfg ∧
        s'.nat.nat_entries = arr_set sbi.nat.nat_entries i
          ((sbi.nat.nat_entries i).drop (trim_count b (sbi.nat.nat_entries i).length)) ∧
        s'.nat.nat_set_root = sbi.nat.nat_set_root ∧
        s'.nat.percore_dirty_nat_cnt = sbi.nat.percore_dirty_nat_cnt ∧
        ∀ n, __lookup_nat_cache s' n
          = if n ∈ (sbi.nat.nat_entries i).take (trim_count b (sbi.nat.nat_entries i).length)
            then none else __lookup_nat_cache sbi n := by
  induction fuel with
  | zero =>
    intro sbi i a b h hlen
    have hnil : sbi.nat.nat_entries i = [] := List.length_eq_zero.1 (Nat.le_zero.1 hlen)
    refine ⟨sbi, ?_, h, rfl, ?_, rfl, rfl, ?_⟩
    · unfold try_to_free_nats_shard
      rw [hnil]
      simp [trim_count_zero]
    · rw [hnil]
      simp only [List.drop_nil]
      rw [← hnil, arr_set_self]
    · intro n
      rw [hnil]
      simp
  | succ fuel ih =>
    intro sbi i a b h hlen
    by_cases hb : b = 0
    · refine ⟨sbi, ?_, h, rfl, ?_, rfl, rfl, ?_⟩
      · unfold try_to_free_nats_shard
        simp [hb, trim_count_of_zero]
      · rw [hb, trim_count_of_zero, List.drop_zero, arr_set_self]
      · intro n
        rw [hb, trim_count_of_zero]
        simp
    · cases hl : sbi.nat.nat_entries i with
      | nil =>
        refine ⟨sbi, ?_, h, rfl, ?_, rfl, rfl, ?_⟩
        · unfold try_to_free_nats_shard
          simp [hb, hl, trim_count_zero]
        · simp only [List.drop_nil]
          rw [← hl, arr_set_self]
        · intro n
          simp
      | cons ne t =>
        obtain ⟨e, hv, hdel, i1, c1, e1, r1, d1, k1⟩ := del_head h hl
        have ht : (del_result sbi ne e).nat.nat_entries i = t := by
          rw [e1, arr_set_same]
        have hlen1 : ((del_result sbi ne e).nat.nat_entries i).length ≤ fuel := by
          rw [ht]
          rw [hl] at hlen
          simpa using hlen
        obtain ⟨s', hs, i2, c2, e2, r2, d2, k2⟩ := ih (del_result sbi ne e) i (a - 1) (b - 1) i1 hlen1
        rw [ht] at hs e2 k2
        have hcnt : trim_count b (t.length + 1) = trim_count (b - 1) t.length + 1 :=
          trim_count_succ hb _
        refine ⟨s', ?_, i2, c2.trans c1, ?_, r2.trans r1, d2.trans d1, ?_⟩
        · unfold try_to_free_nats_shard
          simp only [hb, if_false, hl, bind, Except.bind, hdel]
          rw [hs]
          simp only [List.length_cons, hcnt, Except.ok.injEq, Prod.mk.injEq, true_and]
          push_cast
          omega
        · rw [e2, e1, arr_set_set]
          simp only [List.length_cons, hcnt, List.drop_succ_cons]
        · intro n
          rw [k2 n, k1 n]
          simp only [List.length_cons, hcnt, List.take_succ_cons, List.mem_cons]
          by_cases hn : n = ne
          · simp [hn]
          · simp [hn]

theorem shrink_plan_congr {lens1 lens : Nat → Nat} (k : Nat) :
    ∀ (i : Nat) (nr : Int), (∀ j, i ≤ j → lens1 j = lens j) →
      shrink_plan lens1 k i nr = shrink_plan lens k i nr := by
  induction k with
  | zero => intro i nr _; rfl
  | succ k ih =>
    intro i nr h
    unfold shrink_plan
    rw [h i (Nat.le_refl _), ih (i + 1) _ (fun j hj => h j (by omega))]

theorem shrink_plan_length (lens : Nat → Nat) (k : Nat) :
    ∀ (i : Nat) (nr : Int), (shrink_plan lens k i nr).length = k := by
  induction k with
  | zero => intro i nr; rfl
  | succ k ih =>
    intro i nr
    unfold shrink_plan
    rw [List.length_cons, ih]

theorem shrink_plan_le (lens : Nat → Nat) (k : Nat) :
    ∀ (i : Nat) (nr : Int) (j : Nat), (shrink_plan lens k i nr).getD j 0 ≤ lens (i + j) := by
  induction k with
  | zero => intro i nr j; simp [shrink_plan]
  | succ k ih =>
    intro i nr j
    unfold shrink_plan
    cases j with
    | zero => exact trim_count_le _ _
    | succ j =>
      rw [List.getD_cons_succ]
      have := ih (i + 1) (nr - trim_count (Int.tdiv nr ((k + 1 : Nat) : Int)) (lens i)) j
      rw [show i + (j + 1) = i + 1 + j by omega]
      exact this

theorem trim_share_le {nr : Int} (h : 0 ≤ nr) (k len : Nat) :
    (trim_count (Int.tdiv nr ((k + 1 : Nat) : Int)) len : Int) ≤ nr := by
  have h1 : 0 ≤ Int.tdiv nr ((k + 1 : Nat) : Int) := Int.tdiv_nonneg h (by omega)
  have h2 : Int.tdiv nr ((k + 1 : Nat) : Int) ≤ nr := by
    rw [Int.tdiv_eq_ediv h (by omega)]
    exact Int.ediv_le_self _ h
  unfold trim_count
  rw [if_neg (by omega)]
  omega

/-- The trim never takes more than it was asked for. -/
theorem shrink_plan_sum_le (lens : Nat → Nat) (k : Nat) :
    ∀ (i : Nat) (nr : Int), 0 ≤ nr → ((shrink_plan lens k i nr).sum : Int) ≤ nr := by
  induction k with
  | zero => intro i nr h; simpa [shrink_plan] using h
  | succ k ih =>
    intro i nr h
    unfold shrink_plan
    have h1 := trim_share_le h k (lens i)
    have h2 := ih (i + 1) (nr - trim_count (Int.tdiv nr ((k + 1 : Nat) : Int)) (lens i)) (by omega)
    rw [List.sum_cons, Nat.cast_add]
    omega

/-- When the trim ends with something left to free, it has taken the whole
clean list of the last shard. -/
theorem shrink_plan_last (lens : Nat → Nat) (k : Nat) :
    ∀ (i : Nat) (nr : Int), 0 ≤ nr → ((shrink_plan lens (k + 1) i nr).sum : Int) < nr →
      (shrink_plan lens (k + 1) i nr).getD k 0 = lens (i + k) := by
  induction k with
  | zero =>
    intro i nr h hlt
    unfold shrink_plan at hlt ⊢
    simp only [shrink_plan, List.sum_cons, List.sum_nil, Nat.add_zero, List.getD_cons_zero] at hlt ⊢
    have h1 : Int.tdiv nr ((0 + 1 : Nat) : Int) = nr := by simp
    rw [h1] at hlt ⊢
    unfold trim_count at hlt ⊢
    rw [if_neg (by omega)] at hlt ⊢
    omega
  | succ k ih =>
    intro i nr h hlt
    unfold shrink_plan at hlt ⊢
    rw [List.getD_cons_succ]
    have h1 := trim_share_le h (k + 1) (lens i)
    rw [List.sum_cons, Nat.cast_add] at hlt
    have := ih (i + 1) (nr - trim_count (Int.tdiv nr ((k + 1 + 1 : Nat) : Int)) (lens i))
      (by omega) (by omega)
    rw [show i + (k + 1) = i + 1 + k by omega]
    exact this

theorem nat_inv.lru_shard {sbi : f2fs_sb_info} (h : nat_inv sbi) {i n : Nat}
    (hn : n ∈ sbi.nat.nat_entries i) :
    n % sbi.cfg.nat_tree_cnt = i ∧
    ∃ e, __lookup_nat_cache sbi n = some e ∧ e.flag.IS_DIRTY = false := by
  obtain ⟨e, he, hd⟩ := (h.shard i).lru_ok n hn
  have hk : n % sbi.cfg.nat_tree_cnt = i := ((h.shard i).root_key (n, e) (mem_of_lookup he)).2.1
  refine ⟨hk, e, ?_, hd⟩
  unfold __lookup_nat_cache TREE_IDX
  rw [hk]; exact he

/-- The loop of `try_to_free_nats` over the shards `i, ..., i + k - 1`
returns: shard `j` loses the first entries of its clean list, as many as
`shrink_plan` says, and nothing else changes. -/
theorem try_to_free_nats_loop_nf (k : Nat) :
    ∀ (sbi : f2fs_sb_info) (i : Nat) (a : Int), nat_inv sbi →
      ∃ s', try_to_free_nats_loop k sbi i a
          = .ok (s', a - ((shrink_plan (fun j => (sbi.nat.nat_entries j).length) k i a).sum : Nat)) ∧
        nat_inv s' ∧ s'.cfg = sbi.cfg ∧
        (∀ j, s'.nat.nat_entries j = if i ≤ j ∧ j < i + k
          then (sbi.nat.nat_entries j).drop
            ((shrink_plan (fun j => (sbi.nat.nat_entries j).length) k i a).getD (j - i) 0)
          else sbi.nat.nat_entries j) ∧
        s'.nat.nat_set_root = sbi.nat.nat_set_root ∧
        s'.nat.percore_dirty_nat_cnt = sbi.nat.percore_dirty_nat_cnt ∧
        ∀ n, __lookup_nat_cache s' n
          = if i ≤ n % sbi.cfg.nat_tree_cnt ∧ n % sbi.cfg.nat_tree_cnt < i + k ∧
              n ∈ (sbi.nat.nat_entries (n % sbi.cfg.nat_tree_cnt)).take
                ((shrink_plan (fun j => (sbi.nat.nat_entries j).length) k i a).getD
                  (n % sbi.cfg.nat_tree_cnt - i) 0)
            then none else __lookup_nat_cache sbi n := by
  induction k with
  | zero =>
    intro sbi i a h
    refine ⟨sbi, ?_, h, rfl, ?_, rfl, rfl, ?_⟩
    · simp [try_to_free_nats_loop, shrink_plan]
    · intro j
      rw [if_neg (by omega)]
    · intro n
      rw [if_neg (by omega)]
  | succ k ih =>
    intro sbi i a h
    obtain ⟨s1, hs1, i1, c1, e1, r1, d1, k1⟩ :=
      try_to_free_nats_shard_nf (sbi.nat.nat_entries i).length sbi i a
        (Int.tdiv a ((k + 1 : Nat) : Int)) h (Nat.le_refl _)
    obtain ⟨s', hs', i2, c2, e2, r2, d2, k2⟩ := ih s1 (i + 1)
      (a - trim_count (Int.tdiv a ((k + 1 : Nat) : Int)) (sbi.nat.nat_entries i).length) i1
    have hother : ∀ j, j ≠ i → s1.nat.nat_entries j = sbi.nat.nat_entries j := by
      intro j hj
      rw [e1, arr_set_other _ _ _ _ hj]
    have hplan : shrink_plan (fun j => (s1.nat.nat_entries j).length) k (i + 1)
          (a - trim_count (Int.tdiv a ((k + 1 : Nat) : Int)) (sbi.nat.nat_entries i).length)
        = shrink_plan (fun j => (sbi.nat.nat_entries j).length) k (i + 1)
          (a - trim_count (Int.tdiv a ((k + 1 : Nat) : Int)) (sbi.nat.nat_entries i).length) := by
      apply shrink_plan_congr
      intro j hj
      show (s1.nat.nat_entries j).length = (sbi.nat.nat_entries j).length
      rw [hother j (by omega)]
    rw [hplan] at hs' e2 k2
    have hunf : shrink_plan (fun j => (sbi.nat.nat_entries j).length) (k + 1) i a
        = trim_count (Int.tdiv a ((k + 1 : Nat) : Int)) (sbi.nat.nat_entries i).length
          :: shrink_plan (fun j => (sbi.nat.nat_entries j).length) k (i + 1)
            (a - trim_count (Int.tdiv a ((k + 1 : Nat) : Int)) (sbi.nat.nat_entries i).length) := by
      conv_lhs => unfold shrink_plan
    refine ⟨s', ?_, i2, c2.trans c1, ?_, r2.trans r1, d2.trans d1, ?_⟩
    · unfold try_to_free_nats_loop
      simp only [bind, Except.bind, hs1, hs']
      rw [hunf, List.sum_cons, Nat.cast_add]
      simp only [Except.ok.injEq, Prod.mk.injEq, true_and]
      omega
    · intro j
      rw [e2 j, hunf]
      by_cases hji : j = i
      · subst hji
        rw [if_neg (by omega), if_pos (by omega), e1, arr_set_same]
        simp
      · rw [hother j hji]
        by_cases hr : i + 1 ≤ j ∧ j < i + 1 + k
        · rw [if_pos hr, if_pos (by omega)]
          have : j - i = (j - (i + 1)) + 1 := by omega
          rw [this, List.getD_cons_succ]
        · rw [if_neg hr, if_neg (by omega)]
    · intro n
      rw [k2 n, k1 n, c1, hunf]
      by_cases hni : n % sbi.cfg.nat_tree_cnt = i
      · rw [if_neg (by omega)]
        rw [hni]
        simp only [Nat.sub_self, List.getD_cons_zero, Nat.le_refl, true_and]
        have : i < i + (k + 1) := by omega
        simp only [this, true_and]
      · have hnot : n ∉ (sbi.nat.nat_entries i).take
            (trim_count (Int.tdiv a ((k + 1 : Nat) : Int)) (sbi.nat.nat_entries i).length) := by
          intro hm
          exact hni (h.lru_shard (List.mem_of_mem_take hm)).1
        rw [if_neg hnot, hother _ hni]
        by_cases hr : i + 1 ≤ n % sbi.cfg.nat_tree_cnt ∧ n % sbi.cfg.nat_tree_cnt < i + 1 + k
        · have e3 : n % sbi.cfg.nat_tree_cnt - i = (n % sbi.cfg.nat_tree_cnt - (i + 1)) + 1 := by
            omega
          have hr1 : i ≤ n % sbi.cfg.nat_tree_cnt := by omega
          have hr2 : n % sbi.cfg.nat_tree_cnt < i + (k + 1) := by omega
          simp only [hr.1, hr.2, hr1, hr2, true_and, e3, List.getD_cons_succ]
        · have hr' : ¬ (i ≤ n % sbi.cfg.nat_tree_cnt ∧ n % sbi.cfg.nat_tree_cnt < i + (k + 1)) := by
            omega
          rw [if_neg (fun hh => hr ⟨hh.1, hh.2.1⟩), if_neg (fun hh => hr' ⟨hh.1, hh.2.1⟩)]

/-- The share of shard `i + j`: what is left to free after the shards before
it, divided by the number of shards from it on. -/
theorem shrink_plan_getD (lens : Nat → Nat) (k : Nat) :
    ∀ (i : Nat) (nr : Int) (j : Nat), j < k →
      (shrink_plan lens k i nr).getD j 0
        = trim_count (Int.tdiv (nr - (((shrink_plan lens k i nr).take j).sum : Nat))
            ((k - j : Nat) : Int)) (lens (i + j)) := by
  induction k with
  | zero => intro i nr j hj; omega
  | succ k ih =>
    intro i nr j hj
    conv_lhs => unfold shrink_plan
    have hunf : shrink_plan lens (k + 1) i nr
        = trim_count (Int.tdiv nr ((k + 1 : Nat) : Int)) (lens i)
          :: shrink_plan lens k (i + 1)
            (nr - trim_count (Int.tdiv nr ((k + 1 : Nat) : Int)) (lens i)) := by
      conv_lhs => unfold shrink_plan
    cases j with
    | zero =>
      simp only [List.getD_cons_zero, List.take_zero, List.sum_nil, Nat.cast_zero, Int.sub_zero,
        Nat.sub_zero, Nat.add_zero]
    | succ j =>
      have e1 : k + 1 - (j + 1) = k - j := by omega
      have e2 : i + 1 + j = i + (j + 1) := by omega
      rw [List.getD_cons_succ, ih (i + 1) _ j (by omega), hunf, List.take_succ_cons, List.sum_cons,
        e1, e2, Int.sub_sub]
      congr 2

theorem toy_tight_reachable : nat_reachable toy_tight :=
  @nat_reachable.cache toy_tight2 toy_tight 6 { version := 0, ino := 6, block_addr := 60 }
    (@nat_reachable.cache toy_tight1 toy_tight2 4 { version := 0, ino := 4, block_addr := 40 }
      (@nat_reachable.cache toy_tight0 toy_tight1 2 { version := 0, ino := 2, block_addr := 20 }
        (nat_reachable.init ⟨by decide, by decide, by decide,
          fun i hi => absurd hi (Nat.not_lt_zero i), fun _ => ⟨rfl, rfl, rfl, rfl, rfl⟩⟩)
        (by decide) rfl)
      (by decide) rfl)
    (by decide) rfl

theorem toy_tight_dirty_reachable : nat_reachable toy_tight_dirty :=
  @nat_reachable.set_addr toy_tight toy_tight_dirty
    { nid := 4, ino := 4, blk_addr := 40, version := 0 } 41 false toy_tight_reachable
    (by decide) rfl

/-! ## `set_node_addr`: the fsync marks -/

/-- The cache when `set_node_addr` has marked the entry dirty, before the
fsync marks. -/
theorem sna_dirty_lookup {sbi s : f2fs_sb_info} {ni : node_info} {new_blkaddr : Nat}
    (hs : __set_nat_cache_dirty (nat_modify (sna_stage1 sbi ni new_blkaddr) ni.nid
        (sna_update new_blkaddr (sna_entry sbi ni new_blkaddr).ni.blk_addr)) ni.nid = .ok s)
    (n : Nat) :
    __lookup_nat_cache s n = if n = ni.nid
      then some { sna_update new_blkaddr (sna_entry sbi ni new_blkaddr).ni.blk_addr
          (sna_entry sbi ni new_blkaddr) with
        flag := { (sna_update new_blkaddr (sna_entry sbi ni new_blkaddr).ni.blk_addr
          (sna_entry sbi ni new_blkaddr)).flag with IS_DIRTY := true } }
      else __lookup_nat_cache sbi n := by
  rw [set_dirty_lookup hs n]
  by_cases hn : n = ni.nid
  · subst hn
    rw [if_pos rfl, if_pos rfl, lookup_sna_update]
    rfl
  · rw [if_neg hn, if_neg hn, lookup_nat_modify, if_neg hn, lookup_sna_stage1_other sbi ni _ hn]

theorem sna_fsync_other {s : f2fs_sb_info} {ni : node_info} (fsync_done : Bool)
    (hne : ni.nid ≠ ni.ino) {x : nat_entry} (hx : __lookup_nat_cache s ni.ino = some x) :
    sna_fsync s ni fsync_done = nat_modify s ni.ino
      (fun x => { x with flag := { x.flag with HAS_LAST_FSYNC := fsync_done } }) := by
  unfold sna_fsync
  have h1 : (ni.nid != ni.ino) = true := by simpa using hne
  have h2 : (ni.nid == ni.ino) = false := by simpa using hne
  simp only [h1, if_true, hx, Option.map_some', h2, Bool.and_false, Bool.false_eq_true, if_false]

theorem sna_fsync_self {s : f2fs_sb_info} {ni : node_info} (he : ni.nid = ni.ino) :
    sna_fsync s ni true = nat_modify
      (nat_modify s ni.nid (fun x => { x with flag := { x.flag with HAS_FSYNCED_INODE := true } }))
      ni.nid (fun x => { x with flag := { x.flag with HAS_LAST_FSYNC := true } }) := by
  unfold sna_fsync
  have h1 : (ni.nid != ni.ino) = false := by simpa using he
  have h2 : (ni.nid == ni.ino) = true := by simpa using he
  simp only [h1, Bool.false_eq_true, if_false, h2, Bool.and_true, if_true]

/-! ## Scans pool no allocated NID -/

theorem pool_fresh_refl (s : f2fs_sb_info) : pool_fresh s s :=
  ⟨free_only_refl s, fun _ w h => Or.inl ⟨w, h⟩⟩

theorem cache_free_congr {s s' : f2fs_sb_info} (h : free_only s s') (n : Nat) :
    cache_free s' n ↔ cache_free s n := by
  unfold cache_free
  rw [lookup_free_only h]

theorem pool_fresh_trans {a b c : f2fs_sb_info} (h1 : pool_fresh a b) (h2 : pool_fresh b c) :
    pool_fresh a c := by
  refine ⟨free_only_trans h1.1 h2.1, fun n w hw => ?_⟩
  rcases h2.2 n w hw with ⟨w0, h0⟩ | hc
  · exact h1.2 n w0 h0
  · exact Or.inr ((cache_free_congr h1.1 n).1 hc)

theorem pool_fresh_of_root {s s' : f2fs_sb_info} (hf : free_only s s')
    (hr : s'.free.free_nid_root = s.free.free_nid_root) : pool_fresh s s' := by
  refine ⟨hf, fun n w hw => Or.inl ⟨w, ?_⟩⟩
  unfold __lookup_free_nid_list LIST_IDX at hw ⊢
  rw [hr, hf.1] at hw
  exact hw

/-- The decision of `add_free_nid` with `build` true. -/
theorem add_free_nid_build (s : f2fs_sb_info) (nid : Nat) (h : ¬ cache_free s nid) :
    (add_free_nid s nid true).1 = (available_free_memory s mem_type.FREE_NIDS).1 := by
  have hl : ∀ x, __lookup_nat_cache (available_free_memory s mem_type.FREE_NIDS).1 x
      = __lookup_nat_cache s x := fun x => lookup_congr rfl rfl x
  unfold add_free_nid
  simp only
  split
  · rfl
  · split
    · rfl
    · rw [hl]
      cases hc : __lookup_nat_cache s nid with
      | none => exact absurd (Or.inl hc) h
      | some e =>
        have hal : (!e.flag.IS_CHECKPOINTED || e.ni.blk_addr != NULL_ADDR) = true := by
          cases hck : e.flag.IS_CHECKPOINTED with
          | false => rfl
          | true =>
            by_cases hb : e.ni.blk_addr = NULL_ADDR
            · exact absurd (Or.inr ⟨e, hc, hck, hb⟩) h
            · simpa using hb
        simp only [if_true, hal]

theorem add_free_nid_fresh (s : f2fs_sb_info) (nid : Nat) :
    pool_fresh s (add_free_nid s nid true).1 := by
  refine ⟨add_free_nid_free_only s nid true, fun n w hw => ?_⟩
  by_cases hc : cache_free s nid
  · rcases add_free_nid_cases s nid true with h | ⟨hl, h⟩
    · rw [h] at hw
      exact Or.inl ⟨w, hw⟩
    · rw [h] at hw
      have := lookup_free_arr_set s (LIST_IDX nid s)
        (radix_tree_put (s.free.free_nid_root (LIST_IDX nid s)) nid
          { nid := nid, state := nid_state.NID_NEW })
        (arr_set s.free.free_nid_list (LIST_IDX nid s)
          (s.free.free_nid_list (LIST_IDX nid s) ++ [nid]))
        (arr_set s.free.percore_fcnt (LIST_IDX nid s)
          (u32_inc (s.free.percore_fcnt (LIST_IDX nid s)))) n
      have hw2 : (if n % s.cfg.nid_list_count = LIST_IDX nid s
          then radix_tree_lookup (radix_tree_put (s.free.free_nid_root (LIST_IDX nid s)) nid
            { nid := nid, state := nid_state.NID_NEW }) n
          else __lookup_free_nid_list s n) = some w := this.symm.trans hw
      split at hw2
      · rename_i hml
        rw [lookup_put _ _ _ _ hl] at hw2
        split at hw2
        · rename_i hn
          rw [hn]
          exact Or.inr hc
        · refine Or.inl ⟨w, ?_⟩
          unfold __lookup_free_nid_list LIST_IDX
          unfold LIST_IDX at hml hw2
          rw [hml]
          exact hw2
      · exact Or.inl ⟨w, hw2⟩
  · rw [add_free_nid_build s nid hc] at hw
    exact Or.inl ⟨w, hw⟩

theorem del_free_nid_fresh {s s' : f2fs_sb_info} {i : Nat}
    (h : __del_from_free_nid_list s i = .ok s') : pool_fresh s s' := by
  refine ⟨del_free_nid_free_only h, fun n w hw => Or.inl ⟨w, ?_⟩⟩
  unfold __del_from_free_nid_list free_nid_read at h
  cases hl : radix_tree_lookup (s.free.free_nid_root (LIST_IDX i s)) i with
  | none => simp [hl, bind, Except.bind] at h
  | some v =>
    simp only [hl, bind, Except.bind, Except.ok.injEq] at h
    subst h
    unfold __lookup_free_nid_list LIST_IDX at hw ⊢
    simp only at hw
    by_cases hn : n % s.cfg.nid_list_count = v.nid % s.cfg.nid_list_count
    · rw [hn, arr_set_same, lookup_delete] at hw
      split at hw
      · cases hw
      · rw [hn]
        exact hw
    · rw [arr_set_other _ _ _ _ hn] at hw
      exact hw

theorem remove_free_nid_fresh {s s' : f2fs_sb_info} {nid : Nat}
    (h : remove_free_nid s nid = .ok s') : pool_fresh s s' := by
  unfold remove_free_nid at h
  simp only at h
  cases hl : __lookup_free_nid_list s nid with
  | none =>
    simp only [hl, Except.ok.injEq] at h
    rw [← h]; exact pool_fresh_refl s
  | some w =>
    simp only [hl] at h
    by_cases hw : w.state = nid_state.NID_NEW
    · simp only [hw, if_true, bind, Except.bind] at h
      cases hd : __del_from_free_nid_list s nid with
      | error f => rw [hd] at h; simp at h
      | ok s1 =>
        rw [hd] at h
        simp only [Except.ok.injEq] at h
        rw [← h]
        exact pool_fresh_trans (del_free_nid_fresh hd)
          (pool_fresh_of_root ⟨rfl, rfl, rfl, rfl, rfl⟩ rfl)
    · simp only [hw, if_false, Except.ok.injEq] at h
      rw [← h]; exact pool_fresh_refl s

theorem scan_nat_page_loop_fresh (nat_blk : Nat → f2fs_nat_entry) (cnt : Nat) :
    ∀ (s s' : f2fs_sb_info) (i start_nid : Nat),
      scan_nat_page_loop nat_blk cnt s i start_nid = .ok s' → pool_fresh s s' := by
  induction cnt with
  | zero =>
    intro s s' i start_nid h
    simp only [scan_nat_page_loop, Except.ok.injEq] at h
    rw [← h]; exact pool_fresh_refl s
  | succ cnt ih =>
    intro s s' i start_nid h
    unfold scan_nat_page_loop at h
    split_ifs at h with h1
    · simp only [Except.ok.injEq] at h
      rw [← h]; exact pool_fresh_refl s
    · simp only [bind, Except.bind] at h
      cases hb : f2fs_bug_on ((nat_blk i).block_addr == NEW_ADDR) with
      | error f => rw [hb] at h; simp at h
      | ok u =>
        rw [hb] at h
        simp only at h
        split_ifs at h with h2 h3
        · simp only [Except.ok.injEq] at h
          rw [← h]; exact add_free_nid_fresh s start_nid
        · exact pool_fresh_trans (add_free_nid_fresh s start_nid) (ih _ _ _ _ h)
        · exact ih _ _ _ _ h

theorem build_free_nids_journal_fresh (cnt : Nat) :
    ∀ (s s' : f2fs_sb_info) (i : Nat), build_free_nids_journal cnt s i = .ok s' →
      pool_fresh s s' := by
  induction cnt with
  | zero =>
    intro s s' i h
    simp only [build_free_nids_journal, Except.ok.injEq] at h
    rw [← h]; exact pool_fresh_refl s
  | succ n ih =>
    intro s s' i h
    simp only [build_free_nids_journal, bind, Except.bind] at h
    by_cases ha : (s.disk.nat_j i).ne.block_addr = NULL_ADDR
    · simp only [ha, if_true] at h
      exact pool_fresh_trans (add_free_nid_fresh s _) (ih _ _ _ h)
    · simp only [ha, if_false] at h
      cases hr : remove_free_nid s (s.disk.nat_j i).nid with
      | error f => rw [hr] at h; simp at h
      | ok s1 =>
        rw [hr] at h
        simp only at h
        exact pool_fresh_trans (remove_free_nid_fresh hr) (ih _ _ _ h)

/-! ## `alloc_nid` on a dry pool -/

/-- One pass through `retry` on a pool whose lists are all empty, with no
journal slot to scan: only `next_allocator` moves. -/
theorem alloc_nid_dry_step (sbi : f2fs_sb_info) (fuel : Nat)
    (hS : 0 < sbi.cfg.nid_list_count)
    (hv : (sbi.total_valid_node_count + 1) % 4294967296 ≤ sbi.cfg.available_nids)
    (hdry : ∀ l, sbi.free.percore_fcnt l = 0) (hj : sbi.disk.n_nats = 0)
    (hb : sbi.free.build_lock = false)
    (hn : 0 ≤ atomic_inc_return sbi.free.next_allocator) :
    alloc_nid (fuel + 1) sbi = alloc_nid fuel { sbi with free := { sbi.free with
      next_allocator := atomic_inc_return sbi.free.next_allocator } } := by
  have hS' : ¬ ((sbi.cfg.nid_list_count : Int) = 0) := by omega
  have hidx : ¬ Int.tmod (atomic_inc_return sbi.free.next_allocator) (sbi.cfg.nid_list_count : Int) < 0 := by
    have := Int.tmod_nonneg (sbi.cfg.nid_list_count : Int) hn
    omega
  have hbuild : alloc_nid_build { sbi with free := { sbi.free with
        next_allocator := atomic_inc_return sbi.free.next_allocator } }
      (Int.tmod (atomic_inc_return sbi.free.next_allocator) (sbi.cfg.nid_list_count : Int)).toNat
      = .ok { sbi with free := { sbi.free with
        next_allocator := atomic_inc_return sbi.free.next_allocator } } := by
    unfold alloc_nid_build
    simp only [hb, Bool.false_eq_true, if_false, hdry, if_true, bind, Except.bind]
    unfold build_free_nids nats_in_cursum
    simp only [hj, build_free_nids_journal]
  conv_lhs => unfold alloc_nid
  simp only [Nat.not_lt.2 hv, if_false, hS', hidx, hdry, ne_eq, not_true_eq_false, false_and,
    bind, Except.bind, hbuild]

/-! ## `get_node_path` -/

theorem to_long_of_fits {x : Int} (h1 : -9223372036854775808 ≤ x) (h2 : x < 9223372036854775808) :
    to_long x = x := by
  unfold to_long
  omega

theorem to_int_of_fits {x : Int} (h1 : -2147483648 ≤ x) (h2 : x < 2147483648) :
    to_int x = x := by
  unfold to_int
  omega

theorem int_to_u32_of_fits (n : Nat) (h : n < 4294967296) : int_to_u32 (n : Int) = n := by
  unfold int_to_u32
  omega

theorem arr_fill_set {α : Type} (a : Nat → α) (l : List α) (v : α) :
    arr_set (arr_fill a l) l.length v = arr_fill a (l ++ [v]) := by
  funext j
  unfold arr_set arr_fill
  by_cases h : j = l.length
  · subst h
    simp
  · rw [if_neg h]
    rcases Nat.lt_or_gt_of_ne h with h1 | h1
    · rw [List.getD_append _ _ _ _ h1]
    · rw [List.getD_eq_default _ _ (by omega), List.getD_eq_default _ _ (by simp; omega)]

theorem arr_set_zero_fill {α : Type} (a : Nat → α) (v : α) : arr_set a 0 v = arr_fill a [v] :=
  arr_fill_set a [] v

theorem get_node_path_level0 (g : node_layout) (hf : layout_fits g) (b : Nat)
    (hb : b < g.ADDRS_PER_INODE) (offset : Nat → Int) (noffset : Nat → Nat) :
    get_node_path g b offset noffset
      = .ok (0, arr_fill offset [(b : Int)], arr_fill noffset [0]) := by
  obtain ⟨h1, h2, h3⟩ := hf
  have hI : to_long (g.ADDRS_PER_INODE : Int) = g.ADDRS_PER_INODE :=
    to_long_of_fits (by omega) (by omega)
  unfold get_node_path
  simp only [hI]
  rw [if_pos (by omega), to_int_of_fits (by omega) (by omega), arr_set_zero_fill,
    arr_set_zero_fill]

/-- The values `get_node_path` computes from the constants of the layout. -/
theorem layout_consts (g : node_layout) (hf : layout_fits g) :
    to_long (g.ADDRS_PER_INODE : Int) = g.ADDRS_PER_INODE ∧
    to_long (g.ADDRS_PER_BLOCK : Int) = g.ADDRS_PER_BLOCK ∧
    to_long (g.NIDS_PER_BLOCK : Int) = g.NIDS_PER_BLOCK ∧
    to_long (to_int ((g.ADDRS_PER_BLOCK : Int) * g.NIDS_PER_BLOCK))
      = ((g.ADDRS_PER_BLOCK * g.NIDS_PER_BLOCK : Nat) : Int) ∧
    to_long (((g.ADDRS_PER_BLOCK * g.NIDS_PER_BLOCK : Nat) : Int) * g.NIDS_PER_BLOCK)
      = ((g.ADDRS_PER_BLOCK * g.NIDS_PER_BLOCK * g.NIDS_PER_BLOCK : Nat) : Int) := by
  obtain ⟨h1, h2, h3⟩ := hf
  have hN : g.NIDS_PER_BLOCK < 2147483648 := by nlinarith
  refine ⟨to_long_of_fits (by omega) (by omega), to_long_of_fits (by omega) (by omega),
    to_long_of_fits (by omega) (by omega), ?_, ?_⟩
  · rw [← Nat.cast_mul, to_int_of_fits (by omega) (by omega),
      to_long_of_fits (by omega) (by omega)]
  · rw [← Nat.cast_mul, to_long_of_fits (by omega) (by omega)]

theorem to_long_sub {a b : Nat} (h : b ≤ a) (ha : a < 2147483648) :
    to_long ((a : Int) - (b : Int)) = ((a - b : Nat) : Int) := by
  rw [to_long_of_fits (by omega) (by omega)]
  omega

theorem to_int_nat {n : Nat} (h : n < 2147483648) : to_int (n : Int) = n :=
  to_int_of_fits (by omega) (by omega)

theorem to_int_slots (g : node_layout) (hf : layout_fits g) :
    to_int (NODE_DIR1_BLOCK g) = NODE_DIR1_BLOCK g ∧
    to_int (NODE_DIR2_BLOCK g) = NODE_DIR2_BLOCK g ∧
    to_int (NODE_IND1_BLOCK g) = NODE_IND1_BLOCK g ∧
    to_int (NODE_IND2_BLOCK g) = NODE_IND2_BLOCK g ∧
    to_int (NODE_DIND_BLOCK g) = NODE_DIND_BLOCK g := by
  obtain ⟨h1, h2, h3⟩ := hf
  unfold NODE_DIR1_BLOCK NODE_DIR2_BLOCK NODE_IND1_BLOCK NODE_IND2_BLOCK NODE_DIND_BLOCK
  refine ⟨?_, ?_, ?_, ?_, ?_⟩ <;> exact to_int_of_fits (by omega) (by omega)

theorem arr_fill_two {α : Type} (a : Nat → α) (x y : α) :
    arr_set (arr_fill a [x]) 1 y = arr_fill a [x, y] := arr_fill_set a [x] y

theorem arr_fill_three {α : Type} (a : Nat → α) (x y z : α) :
    arr_set (arr_fill a [x, y]) 2 z = arr_fill a [x, y, z] := arr_fill_set a [x, y] z

theorem arr_fill_four {α : Type} (a : Nat → α) (x y z w : α) :
    arr_set (arr_fill a [x, y, z]) 3 w = arr_fill a [x, y, z, w] := arr_fill_set a [x, y, z] w

theorem get_node_path_level1a (g : node_layout) (hf : layout_fits g) (r : Nat)
    (hr : r < g.ADDRS_PER_BLOCK) (offset : Nat → Int) (noffset : Nat → Nat) :
    get_node_path g ((g.ADDRS_PER_INODE + r : Nat) : Int) offset noffset
      = .ok (1, arr_fill offset [NODE_DIR1_BLOCK g, (r : Int)], arr_fill noffset [0, 1]) := by
  obtain ⟨cI, cA, cN, cAN, cANN⟩ := layout_consts g hf
  obtain ⟨s1, s2, s3, s4, s5⟩ := to_int_slots g hf
  obtain ⟨h1, h2, h3⟩ := hf
  unfold get_node_path
  simp only [cI, cA, cN, cAN, cANN, s1]
  rw [if_neg (by omega), to_long_sub (by omega) (by omega)]
  rw [if_pos (by omega)]
  have e : g.ADDRS_PER_INODE + r - g.ADDRS_PER_INODE = r := by omega
  rw [e, to_int_nat (by omega), arr_set_zero_fill, arr_set_zero_fill, arr_fill_two, arr_fill_two]

theorem get_node_path_level1b (g : node_layout) (hf : layout_fits g) (r : Nat)
    (hr : r < g.ADDRS_PER_BLOCK) (offset : Nat → Int) (noffset : Nat → Nat) :
    get_node_path g ((g.ADDRS_PER_INODE + g.ADDRS_PER_BLOCK + r : Nat) : Int) offset noffset
      = .ok (1, arr_fill offset [NODE_DIR2_BLOCK g, (r : Int)], arr_fill noffset [0, 2]) := by
  obtain ⟨cI, cA, cN, cAN, cANN⟩ := layout_consts g hf
  obtain ⟨s1, s2, s3, s4, s5⟩ := to_int_slots g hf
  obtain ⟨h1, h2, h3⟩ := hf
  unfold get_node_path
  simp only [cI, cA, cN, cAN, cANN, s2]
  rw [if_neg (by omega), to_long_sub (by omega) (by omega)]
  rw [if_neg (by omega), to_long_sub (by omega) (by omega)]
  rw [if_pos (by omega)]
  have e : g.ADDRS_PER_INODE + g.ADDRS_PER_BLOCK + r - g.ADDRS_PER_INODE - g.ADDRS_PER_BLOCK = r := by
    omega
  rw [e, to_int_nat (by omega), arr_set_zero_fill, arr_set_zero_fill, arr_fill_two, arr_fill_two]

theorem tdiv_cast (m n : Nat) : Int.tdiv (m : Int) (n : Int) = ((m / n : Nat) : Int) :=
  (Int.ofNat_tdiv m n).symm

theorem tmod_cast (m n : Nat) : Int.tmod (m : Int) (n : Int) = ((m % n : Nat) : Int) :=
  (Int.ofNat_tmod m n).symm

theorem div_mul_add {k r A : Nat} (hr : r < A) : (k * A + r) / A = k := by
  have hA : 0 < A := by omega
  rw [Nat.add_comm, Nat.add_mul_div_right _ _ hA, Nat.div_eq_of_lt hr, Nat.zero_add]

theorem mod_mul_add {k r A : Nat} (hr : r < A) : (k * A + r) % A = r := by
  rw [Nat.add_comm, Nat.add_mul_mod_self_right, Nat.mod_eq_of_lt hr]

theorem get_node_path_level2a (g : node_layout) (hf : layout_fits g) (k r : Nat)
    (hk : k < g.NIDS_PER_BLOCK) (hr : r < g.ADDRS_PER_BLOCK)
    (offset : Nat → Int) (noffset : Nat → Nat) :
    get_node_path g ((g.ADDRS_PER_INODE + 2 * g.ADDRS_PER_BLOCK
        + (k * g.ADDRS_PER_BLOCK + r) : Nat) : Int) offset noffset
      = .ok (2, arr_fill offset [NODE_IND1_BLOCK g, (k : Int), (r : Int)],
          arr_fill noffset [0, 3, 4 + k]) := by
  obtain ⟨cI, cA, cN, cAN, cANN⟩ := layout_consts g hf
  obtain ⟨s1, s2, s3, s4, s5⟩ := to_int_slots g hf
  obtain ⟨h1, h2, h3⟩ := hf
  have hkA : k * g.ADDRS_PER_BLOCK + r < g.ADDRS_PER_BLOCK * g.NIDS_PER_BLOCK := by
    have : (k + 1) * g.ADDRS_PER_BLOCK ≤ g.NIDS_PER_BLOCK * g.ADDRS_PER_BLOCK :=
      Nat.mul_le_mul_right _ hk
    rw [Nat.mul_comm g.ADDRS_PER_BLOCK]
    rw [Nat.add_mul] at this
    omega
  unfold get_node_path
  simp only [cI, cA, cN, cAN, cANN, s3]
  rw [if_neg (by omega), to_long_sub (by omega) (by omega)]
  rw [if_neg (by omega), to_long_sub (by omega) (by omega)]
  rw [if_neg (by omega), to_long_sub (by omega) (by omega)]
  have e : g.ADDRS_PER_INODE + 2 * g.ADDRS_PER_BLOCK + (k * g.ADDRS_PER_BLOCK + r)
      - g.ADDRS_PER_INODE - g.ADDRS_PER_BLOCK - g.ADDRS_PER_BLOCK
      = k * g.ADDRS_PER_BLOCK + r := by omega
  rw [e, if_pos (by exact_mod_cast hkA)]
  simp only [tdiv_cast, tmod_cast, div_mul_add hr, mod_mul_add hr, arr_set_zero_fill,
    arr_fill_two, arr_fill_three]
  have hN4 : g.NIDS_PER_BLOCK + 10 ≤ 2147483648 := by nlinarith
  have hk31 : k < 2147483648 := by omega
  rw [to_int_nat hk31, to_int_nat (by omega : r < 2147483648)]
  have e2 : arr_fill offset [NODE_IND1_BLOCK g, (k : Int)] 1 = (k : Int) := rfl
  have e3 : (4 : Int) + (k : Int) = ((4 + k : Nat) : Int) := by push_cast; rfl
  rw [e2, e3, to_int_nat (by omega), int_to_u32_of_fits _ (by omega)]

theorem get_node_path_level2b (g : node_layout) (hf : layout_fits g) (k r : Nat)
    (hk : k < g.NIDS_PER_BLOCK) (hr : r < g.ADDRS_PER_BLOCK)
    (offset : Nat → Int) (noffset : Nat → Nat) :
    get_node_path g ((g.ADDRS_PER_INODE + 2 * g.ADDRS_PER_BLOCK
        + g.ADDRS_PER_BLOCK * g.NIDS_PER_BLOCK + (k * g.ADDRS_PER_BLOCK + r) : Nat) : Int)
        offset noffset
      = .ok (2, arr_fill offset [NODE_IND2_BLOCK g, (k : Int), (r : Int)],
          arr_fill noffset [0, 4 + g.NIDS_PER_BLOCK, 5 + g.NIDS_PER_BLOCK + k]) := by
  obtain ⟨cI, cA, cN, cAN, cANN⟩ := layout_consts g hf
  obtain ⟨s1, s2, s3, s4, s5⟩ := to_int_slots g hf
  obtain ⟨h1, h2, h3⟩ := hf
  have hkA : k * g.ADDRS_PER_BLOCK + r < g.ADDRS_PER_BLOCK * g.NIDS_PER_BLOCK := by
    have : (k + 1) * g.ADDRS_PER_BLOCK ≤ g.NIDS_PER_BLOCK * g.ADDRS_PER_BLOCK :=
      Nat.mul_le_mul_right _ hk
    rw [Nat.mul_comm g.ADDRS_PER_BLOCK]
    rw [Nat.add_mul] at this
    omega
  have hN4 : g.NIDS_PER_BLOCK + 10 ≤ 2147483648 := by nlinarith
  unfold get_node_path
  simp only [cI, cA, cN, cAN, cANN, s4]
  rw [if_neg (by omega), to_long_sub (by omega) (by omega)]
  rw [if_neg (by omega), to_long_sub (by omega) (by omega)]
  rw [if_neg (by omega), to_long_sub (by omega) (by omega)]
  rw [if_neg (by omega), to_long_sub (by omega) (by omega)]
  have e : g.ADDRS_PER_INODE + 2 * g.ADDRS_PER_BLOCK + g.ADDRS_PER_BLOCK * g.NIDS_PER_BLOCK
      + (k * g.ADDRS_PER_BLOCK + r)
      - g.ADDRS_PER_INODE - g.ADDRS_PER_BLOCK - g.ADDRS_PER_BLOCK
      - g.ADDRS_PER_BLOCK * g.NIDS_PER_BLOCK
      = k * g.ADDRS_PER_BLOCK + r := by omega
  rw [e, if_pos (by exact_mod_cast hkA)]
  simp only [tdiv_cast, tmod_cast, div_mul_add hr, mod_mul_add hr, arr_set_zero_fill,
    arr_fill_two, arr_fill_three]
  rw [to_int_nat (by omega : k < 2147483648), to_int_nat (by omega : r < 2147483648)]
  have e2 : arr_fill offset [NODE_IND2_BLOCK g, (k : Int)] 1 = (k : Int) := rfl
  have e3 : (4 : Int) + (g.NIDS_PER_BLOCK : Int) = ((4 + g.NIDS_PER_BLOCK : Nat) : Int) := by
    push_cast; rfl
  have e4 : (5 : Int) + (g.NIDS_PER_BLOCK : Int) + (k : Int)
      = ((5 + g.NIDS_PER_BLOCK + k : Nat) : Int) := by
    push_cast; rfl
  rw [e2, e3, e4, to_long_of_fits (by omega) (by omega), to_long_of_fits (by omega) (by omega),
    int_to_u32_of_fits _ (by omega), int_to_u32_of_fits _ (by omega)]

theorem to_long_nat {n : Nat} (h : n < 2147483648) : to_long (n : Int) = n :=
  to_long_of_fits (by omega) (by omega)

/-- The arithmetic of the node offsets under the double-indirect node stays
within `long` and `unsigned int`. -/
theorem dind_noffsets (N x y : Nat) (hx : x < N) (hy : y < N)
    (h3 : N * (N + 3) + 7 < 2147483648) :
    to_long ((N : Int) * 2) = ((2 * N : Nat) : Int) ∧
    to_long ((N : Int) + 1) = ((N + 1 : Nat) : Int) ∧
    to_long ((x : Int) * ((N + 1 : Nat) : Int)) = ((x * (N + 1) : Nat) : Int) ∧
    to_long (5 + ((2 * N : Nat) : Int)) = ((5 + 2 * N : Nat) : Int) ∧
    to_long (6 + ((2 * N : Nat) : Int) + ((x * (N + 1) : Nat) : Int))
      = ((6 + 2 * N + x * (N + 1) : Nat) : Int) ∧
    to_long (7 + ((2 * N : Nat) : Int) + ((x * (N + 1) : Nat) : Int) + (y : Int))
      = ((7 + 2 * N + x * (N + 1) + y : Nat) : Int) ∧
    7 + 2 * N + x * (N + 1) + y < 2147483648 := by
  have hxN : x * (N + 1) + 3 * N + 1 ≤ N * (N + 3) := by
    have : (x + 1) * (N + 1) ≤ N * (N + 1) := Nat.mul_le_mul_right _ hx
    rw [Nat.add_mul] at this
    have e : N * (N + 3) = N * (N + 1) + 2 * N := by ring
    omega
  have hN4 : N + 10 ≤ 2147483648 := by nlinarith
  generalize hp : x * (N + 1) = p at hxN
  have b7 : 7 + 2 * N + p + y < 2147483648 := by omega
  have a1 : 2 * N < 2147483648 := by omega
  have a2 : N + 1 < 2147483648 := by omega
  have a3 : p < 2147483648 := by omega
  have a4 : 5 + 2 * N < 2147483648 := by omega
  have a5 : 6 + 2 * N + p < 2147483648 := by omega
  have e1 : (N : Int) * 2 = ((2 * N : Nat) : Int) := by omega
  have e2 : (N : Int) + 1 = ((N + 1 : Nat) : Int) := by omega
  have e4 : 5 + ((2 * N : Nat) : Int) = ((5 + 2 * N : Nat) : Int) := by omega
  have e5 : 6 + ((2 * N : Nat) : Int) + (p : Int) = ((6 + 2 * N + p : Nat) : Int) := by omega
  have e6 : 7 + ((2 * N : Nat) : Int) + (p : Int) + (y : Int)
      = ((7 + 2 * N + p + y : Nat) : Int) := by omega
  refine ⟨?_, ?_, ?_, ?_, ?_, ?_, b7⟩
  · rw [e1]
    exact to_long_nat a1
  · rw [e2]
    exact to_long_nat a2
  · rw [← Nat.cast_mul, hp]
    exact to_long_nat a3
  · rw [e4]
    exact to_long_nat a4
  · rw [e5]
    exact to_long_nat a5
  · rw [e6]
    exact to_long_nat b7

theorem get_node_path_level3 (g : node_layout) (hf : layout_fits g) (x y r : Nat)
    (hx : x < g.NIDS_PER_BLOCK) (hy : y < g.NIDS_PER_BLOCK) (hr : r < g.ADDRS_PER_BLOCK)
    (offset : Nat → Int) (noffset : Nat → Nat) :
    get_node_path g ((g.ADDRS_PER_INODE + 2 * g.ADDRS_PER_BLOCK
        + 2 * (g.ADDRS_PER_BLOCK * g.NIDS_PER_BLOCK)
        + ((x * g.NIDS_PER_BLOCK + y) * g.ADDRS_PER_BLOCK + r) : Nat) : Int) offset noffset
      = .ok (3, arr_fill offset [NODE_DIND_BLOCK g, (x : Int), (y : Int), (r : Int)],
          arr_fill noffset [0, 5 + 2 * g.NIDS_PER_BLOCK,
            6 + 2 * g.NIDS_PER_BLOCK + x * (g.NIDS_PER_BLOCK + 1),
            7 + 2 * g.NIDS_PER_BLOCK + x * (g.NIDS_PER_BLOCK + 1) + y]) := by
  obtain ⟨cI, cA, cN, cAN, cANN⟩ := layout_consts g hf
  obtain ⟨s1, s2, s3, s4, s5⟩ := to_int_slots g hf
  obtain ⟨h1, h2, h3⟩ := hf
  have hN4 : g.NIDS_PER_BLOCK + 10 ≤ 2147483648 := by nlinarith
  have hxy : x * g.NIDS_PER_BLOCK + y + 1 ≤ g.NIDS_PER_BLOCK * g.NIDS_PER_BLOCK := by
    have : (x + 1) * g.NIDS_PER_BLOCK ≤ g.NIDS_PER_BLOCK * g.NIDS_PER_BLOCK :=
      Nat.mul_le_mul_right _ hx
    rw [Nat.add_mul] at this
    omega
  have hblk : (x * g.NIDS_PER_BLOCK + y) * g.ADDRS_PER_BLOCK + r
      < g.ADDRS_PER_BLOCK * g.NIDS_PER_BLOCK * g.NIDS_PER_BLOCK := by
    have : (x * g.NIDS_PER_BLOCK + y + 1) * g.ADDRS_PER_BLOCK
        ≤ g.NIDS_PER_BLOCK * g.NIDS_PER_BLOCK * g.ADDRS_PER_BLOCK :=
      Nat.mul_le_mul_right _ hxy
    have e : g.ADDRS_PER_BLOCK * g.NIDS_PER_BLOCK * g.NIDS_PER_BLOCK
        = g.NIDS_PER_BLOCK * g.NIDS_PER_BLOCK * g.ADDRS_PER_BLOCK := by ring
    rw [e]
    rw [Nat.add_mul] at this
    omega
  have hxN : x * (g.NIDS_PER_BLOCK + 1) + 3 * g.NIDS_PER_BLOCK + 1
      ≤ g.NIDS_PER_BLOCK * (g.NIDS_PER_BLOCK + 3) := by
    have : (x + 1) * (g.NIDS_PER_BLOCK + 1) ≤ g.NIDS_PER_BLOCK * (g.NIDS_PER_BLOCK + 1) :=
      Nat.mul_le_mul_right _ hx
    rw [Nat.add_mul] at this
    have e : g.NIDS_PER_BLOCK * (g.NIDS_PER_BLOCK + 3)
        = g.NIDS_PER_BLOCK * (g.NIDS_PER_BLOCK + 1) + 2 * g.NIDS_PER_BLOCK := by ring
    omega
  have hd1 : ((x * g.NIDS_PER_BLOCK + y) * g.ADDRS_PER_BLOCK + r)
      / (g.ADDRS_PER_BLOCK * g.NIDS_PER_BLOCK) = x := by
    rw [← Nat.div_div_eq_div_mul, div_mul_add hr, div_mul_add hy]
  unfold get_node_path
  simp only [cI, cA, cN, cAN, cANN, s5]
  rw [if_neg (by omega), to_long_sub (by omega) (by omega)]
  rw [if_neg (by omega), to_long_sub (by omega) (by omega)]
  rw [if_neg (by omega), to_long_sub (by omega) (by omega)]
  rw [if_neg (by omega), to_long_sub (by omega) (by omega)]
  rw [if_neg (by omega), to_long_sub (by omega) (by omega)]
  have e : g.ADDRS_PER_INODE + 2 * g.ADDRS_PER_BLOCK + 2 * (g.ADDRS_PER_BLOCK * g.NIDS_PER_BLOCK)
      + ((x * g.NIDS_PER_BLOCK + y) * g.ADDRS_PER_BLOCK + r)
      - g.ADDRS_PER_INODE - g.ADDRS_PER_BLOCK - g.ADDRS_PER_BLOCK
      - g.ADDRS_PER_BLOCK * g.NIDS_PER_BLOCK - g.ADDRS_PER_BLOCK * g.NIDS_PER_BLOCK
      = (x * g.NIDS_PER_BLOCK + y) * g.ADDRS_PER_BLOCK + r := by omega
  rw [e, if_pos (by exact_mod_cast hblk)]
  simp only [tdiv_cast, tmod_cast, div_mul_add hr, mod_mul_add hr, mod_mul_add hy, hd1,
    arr_set_zero_fill, arr_fill_two, arr_fill_three, arr_fill_four]
  rw [to_int_nat (by omega : x < 2147483648), to_int_nat (by omega : y < 2147483648),
    to_int_nat (by omega : r < 2147483648)]
  have e1 : arr_fill offset [NODE_DIND_BLOCK g, (x : Int)] 1 = (x : Int) := rfl
  have e2 : arr_fill offset [NODE_DIND_BLOCK g, (x : Int), (y : Int)] 2 = (y : Int) := rfl
  have e2' : arr_fill offset [NODE_DIND_BLOCK g, (x : Int), (y : Int)] 1 = (x : Int) := rfl
  have u1 : 5 + 2 * g.NIDS_PER_BLOCK < 4294967296 := by omega
  have u2 : 6 + 2 * g.NIDS_PER_BLOCK + x * (g.NIDS_PER_BLOCK + 1) < 4294967296 := by omega
  have u3 : 7 + 2 * g.NIDS_PER_BLOCK + x * (g.NIDS_PER_BLOCK + 1) + y < 4294967296 := by omega
  obtain ⟨c1, c2, c3, c4, c5, c6, _⟩ := dind_noffsets g.NIDS_PER_BLOCK x y hx hy h3
  rw [e1, e2, e2', c1, c2, c3, c4, c5, c6, int_to_u32_of_fits _ u1, int_to_u32_of_fits _ u2,
    int_to_u32_of_fits _ u3]

/-- The six ranges of the block indices of a file. -/
theorem block_cases (g : node_layout) (b : Nat) (hb : b < max_file_blocks g) :
    b < g.ADDRS_PER_INODE ∨
    (∃ r, r < g.ADDRS_PER_BLOCK ∧ b = g.ADDRS_PER_INODE + r) ∨
    (∃ r, r < g.ADDRS_PER_BLOCK ∧ b = g.ADDRS_PER_INODE + g.ADDRS_PER_BLOCK + r) ∨
    (∃ k r, k < g.NIDS_PER_BLOCK ∧ r < g.ADDRS_PER_BLOCK ∧
      b = g.ADDRS_PER_INODE + 2 * g.ADDRS_PER_BLOCK + (k * g.ADDRS_PER_BLOCK + r)) ∨
    (∃ k r, k < g.NIDS_PER_BLOCK ∧ r < g.ADDRS_PER_BLOCK ∧
      b = g.ADDRS_PER_INODE + 2 * g.ADDRS_PER_BLOCK + g.ADDRS_PER_BLOCK * g.NIDS_PER_BLOCK
        + (k * g.ADDRS_PER_BLOCK + r)) ∨
    (∃ x y r, x < g.NIDS_PER_BLOCK ∧ y < g.NIDS_PER_BLOCK ∧ r < g.ADDRS_PER_BLOCK ∧
      b = g.ADDRS_PER_INODE + 2 * g.ADDRS_PER_BLOCK
        + 2 * (g.ADDRS_PER_BLOCK * g.NIDS_PER_BLOCK)
        + ((x * g.NIDS_PER_BLOCK + y) * g.ADDRS_PER_BLOCK + r)) := by
  unfold max_file_blocks at hb
  have split : ∀ c, c < g.ADDRS_PER_BLOCK * g.NIDS_PER_BLOCK →
      c / g.ADDRS_PER_BLOCK < g.NIDS_PER_BLOCK ∧ c % g.ADDRS_PER_BLOCK < g.ADDRS_PER_BLOCK ∧
      c = c / g.ADDRS_PER_BLOCK * g.ADDRS_PER_BLOCK + c % g.ADDRS_PER_BLOCK := by
    intro c hc
    have hA : 0 < g.ADDRS_PER_BLOCK := by
      rcases Nat.eq_zero_or_pos g.ADDRS_PER_BLOCK with h | h
      · rw [h, Nat.zero_mul] at hc
        omega
      · exact h
    exact ⟨Nat.div_lt_of_lt_mul hc, Nat.mod_lt _ hA, (Nat.div_add_mod' c _).symm⟩
  by_cases h0 : b < g.ADDRS_PER_INODE
  · exact Or.inl h0
  by_cases h1 : b < g.ADDRS_PER_INODE + g.ADDRS_PER_BLOCK
  · exact Or.inr (Or.inl ⟨b - g.ADDRS_PER_INODE, by omega, by omega⟩)
  by_cases h2 : b < g.ADDRS_PER_INODE + 2 * g.ADDRS_PER_BLOCK
  · exact Or.inr (Or.inr (Or.inl ⟨b - g.ADDRS_PER_INODE - g.ADDRS_PER_BLOCK, by omega, by omega⟩))
  by_cases h3 : b < g.ADDRS_PER_INODE + 2 * g.ADDRS_PER_BLOCK
      + g.ADDRS_PER_BLOCK * g.NIDS_PER_BLOCK
  · obtain ⟨a1, a2, a3⟩ := split (b - (g.ADDRS_PER_INODE + 2 * g.ADDRS_PER_BLOCK)) (by omega)
    exact Or.inr (Or.inr (Or.inr (Or.inl ⟨_, _, a1, a2, by omega⟩)))
  by_cases h4 : b < g.ADDRS_PER_INODE + 2 * g.ADDRS_PER_BLOCK
      + 2 * (g.ADDRS_PER_BLOCK * g.NIDS_PER_BLOCK)
  · obtain ⟨a1, a2, a3⟩ := split (b - (g.ADDRS_PER_INODE + 2 * g.ADDRS_PER_BLOCK
      + g.ADDRS_PER_BLOCK * g.NIDS_PER_BLOCK)) (by omega)
    exact Or.inr (Or.inr (Or.inr (Or.inr (Or.inl ⟨_, _, a1, a2, by omega⟩))))
  · obtain ⟨c, hcb⟩ : ∃ c, b = g.ADDRS_PER_INODE + 2 * g.ADDRS_PER_BLOCK
        + 2 * (g.ADDRS_PER_BLOCK * g.NIDS_PER_BLOCK) + c :=
      ⟨b - (g.ADDRS_PER_INODE + 2 * g.ADDRS_PER_BLOCK
        + 2 * (g.ADDRS_PER_BLOCK * g.NIDS_PER_BLOCK)), by omega⟩
    have hc : c < g.ADDRS_PER_BLOCK * (g.NIDS_PER_BLOCK * g.NIDS_PER_BLOCK) := by
      have e : g.ADDRS_PER_BLOCK * (g.NIDS_PER_BLOCK * g.NIDS_PER_BLOCK)
          = g.ADDRS_PER_BLOCK * g.NIDS_PER_BLOCK * g.NIDS_PER_BLOCK := (Nat.mul_assoc _ _ _).symm
      rw [e]
      omega
    have hA : 0 < g.ADDRS_PER_BLOCK := by
      rcases Nat.eq_zero_or_pos g.ADDRS_PER_BLOCK with h | h
      · rw [h, Nat.zero_mul] at hc
        omega
      · exact h
    have hq : c / g.ADDRS_PER_BLOCK < g.NIDS_PER_BLOCK * g.NIDS_PER_BLOCK :=
      Nat.div_lt_of_lt_mul hc
    have hN : 0 < g.NIDS_PER_BLOCK := by
      rcases Nat.eq_zero_or_pos g.NIDS_PER_BLOCK with h | h
      · rw [h, Nat.mul_zero] at hq
        exact absurd hq (Nat.not_lt_zero _)
      · exact h
    have e1 := Nat.div_add_mod' c g.ADDRS_PER_BLOCK
    have e2 := Nat.div_add_mod' (c / g.ADDRS_PER_BLOCK) g.NIDS_PER_BLOCK
    refine Or.inr (Or.inr (Or.inr (Or.inr (Or.inr ⟨c / g.ADDRS_PER_BLOCK / g.NIDS_PER_BLOCK,
      c / g.ADDRS_PER_BLOCK % g.NIDS_PER_BLOCK, c % g.ADDRS_PER_BLOCK,
      Nat.div_lt_of_lt_mul hq, Nat.mod_lt _ hN, Nat.mod_lt _ hA, ?_⟩))))
    rw [e2, e1]
    exact hcb

/-- The result of `get_node_path` in the six ranges of the block index. -/
theorem get_node_path_nf (g : node_layout) (hf : layout_fits g) (b : Nat)
    (hb : b < max_file_blocks g) (offset : Nat → Int) (noffset : Nat → Nat) :
    (b < g.ADDRS_PER_INODE ∧ get_node_path g b offset noffset
      = .ok (0, arr_fill offset [(b : Int)], arr_fill noffset [0])) ∨
    (∃ r, r < g.ADDRS_PER_BLOCK ∧ b = g.ADDRS_PER_INODE + r ∧
      get_node_path g b offset noffset
        = .ok (1, arr_fill offset [NODE_DIR1_BLOCK g, (r : Int)], arr_fill noffset [0, 1])) ∨
    (∃ r, r < g.ADDRS_PER_BLOCK ∧ b = g.ADDRS_PER_INODE + g.ADDRS_PER_BLOCK + r ∧
      get_node_path g b offset noffset
        = .ok (1, arr_fill offset [NODE_DIR2_BLOCK g, (r : Int)], arr_fill noffset [0, 2])) ∨
    (∃ k r, k < g.NIDS_PER_BLOCK ∧ r < g.ADDRS_PER_BLOCK ∧
      b = g.ADDRS_PER_INODE + 2 * g.ADDRS_PER_BLOCK + (k * g.ADDRS_PER_BLOCK + r) ∧
      get_node_path g b offset noffset
        = .ok (2, arr_fill offset [NODE_IND1_BLOCK g, (k : Int), (r : Int)],
            arr_fill noffset [0, 3, 4 + k])) ∨
    (∃ k r, k < g.NIDS_PER_BLOCK ∧ r < g.ADDRS_PER_BLOCK ∧
      b = g.ADDRS_PER_INODE + 2 * g.ADDRS_PER_BLOCK + g.ADDRS_PER_BLOCK * g.NIDS_PER_BLOCK
        + (k * g.ADDRS_PER_BLOCK + r) ∧
      get_node_path g b offset noffset
        = .ok (2, arr_fill offset [NODE_IND2_BLOCK g, (k : Int), (r : Int)],
            arr_fill noffset [0, 4 + g.NIDS_PER_BLOCK, 5 + g.NIDS_PER_BLOCK + k])) ∨
    (∃ x y r, x < g.NIDS_PER_BLOCK ∧ y < g.NIDS_PER_BLOCK ∧ r < g.ADDRS_PER_BLOCK ∧
      b = g.ADDRS_PER_INODE + 2 * g.ADDRS_PER_BLOCK
        + 2 * (g.ADDRS_PER_BLOCK * g.NIDS_PER_BLOCK)
        + ((x * g.NIDS_PER_BLOCK + y) * g.ADDRS_PER_BLOCK + r) ∧
      get_node_path g b offset noffset
        = .ok (3, arr_fill offset [NODE_DIND_BLOCK g, (x : Int), (y : Int), (r : Int)],
            arr_fill noffset [0, 5 + 2 * g.NIDS_PER_BLOCK,
              6 + 2 * g.NIDS_PER_BLOCK + x * (g.NIDS_PER_BLOCK + 1),
              7 + 2 * g.NIDS_PER_BLOCK + x * (g.NIDS_PER_BLOCK + 1) + y])) := by
  rcases block_cases g b hb with h | ⟨r, hr, rfl⟩ | ⟨r, hr, rfl⟩ | ⟨k, r, hk, hr, rfl⟩ |
    ⟨k, r, hk, hr, rfl⟩ | ⟨x, y, r, hx, hy, hr, rfl⟩
  · exact Or.inl ⟨h, get_node_path_level0 g hf b h offset noffset⟩
  · exact Or.inr (Or.inl ⟨r, hr, rfl, get_node_path_level1a g hf r hr offset noffset⟩)
  · exact Or.inr (Or.inr (Or.inl ⟨r, hr, rfl, get_node_path_level1b g hf r hr offset noffset⟩))
  · exact Or.inr (Or.inr (Or.inr (Or.inl
      ⟨k, r, hk, hr, rfl, get_node_path_level2a g hf k r hk hr offset noffset⟩)))
  · exact Or.inr (Or.inr (Or.inr (Or.inr (Or.inl
      ⟨k, r, hk, hr, rfl, get_node_path_level2b g hf k r hk hr offset noffset⟩))))
  · exact Or.inr (Or.inr (Or.inr (Or.inr (Or.inr
      ⟨x, y, r, hx, hy, hr, rfl, get_node_path_level3 g hf x y r hx hy hr offset noffset⟩))))

/-- The path block depends only on the offsets up to the level. -/
theorem path_block_congr (g : node_layout) (level : Nat) (off off' : Nat → Int)
    (hl : level ≤ 3) (h : ∀ i, i ≤ level → off i = off' i) :
    path_block g level off = path_block g level off' := by
  have h0 := h 0 (Nat.zero_le _)
  rcases (by omega : level = 0 ∨ level = 1 ∨ level = 2 ∨ level = 3) with e | e | e | e
  · subst e
    simpa [path_block] using h0
  · subst e
    have h1 := h 1 (by omega)
    simp only [path_block, h0, h1]
  · subst e
    have h1 := h 1 (by omega)
    have h2 := h 2 (by omega)
    simp only [path_block, h0, h1, h2]
  · subst e
    have h1 := h 1 (by omega)
    have h2 := h 2 (by omega)
    have h3 := h 3 (by omega)
    simp only [path_block, h1, h2, h3]

/-- The path that `get_node_path` returns stands for the block it was asked
for, and its level is at most 3. -/
theorem get_node_path_block (g : node_layout) (hf : layout_fits g) (b : Nat)
    (hb : b < max_file_blocks g) (offset : Nat → Int) (noffset : Nat → Nat)
    (level : Nat) (off : Nat → Int) (noff : Nat → Nat)
    (h : get_node_path g b offset noffset = .ok (level, off, noff)) :
    level ≤ 3 ∧ path_block g level off = b := by
  rcases get_node_path_nf g hf b hb offset noffset with ⟨_, e⟩ | ⟨r, hr, hbe, e⟩ |
    ⟨r, hr, hbe, e⟩ | ⟨k, r, hk, hr, hbe, e⟩ | ⟨k, r, hk, hr, hbe, e⟩ |
    ⟨x, y, r, hx, hy, hr, hbe, e⟩
  all_goals
    rw [e] at h
    injection h with h
    injection h with h1 h2
    injection h2 with h2 h3
    subst h1 h2 h3
    refine ⟨by omega, ?_⟩
  · simp [path_block, arr_fill]
  · simp [path_block, arr_fill, hbe]
  · simp [path_block, arr_fill, hbe, NODE_DIR1_BLOCK, NODE_DIR2_BLOCK]
  · simp [path_block, arr_fill, hbe]
  · simp [path_block, arr_fill, hbe, NODE_IND1_BLOCK, NODE_IND2_BLOCK]
  · simp [path_block, arr_fill, hbe]

/-- The node slots are different numbers. -/
theorem node_slots_ne (g : node_layout) :
    NODE_DIR1_BLOCK g ≠ NODE_DIR2_BLOCK g ∧ NODE_DIR1_BLOCK g ≠ NODE_IND1_BLOCK g ∧
    NODE_DIR1_BLOCK g ≠ NODE_IND2_BLOCK g ∧ NODE_DIR1_BLOCK g ≠ NODE_DIND_BLOCK g ∧
    NODE_DIR2_BLOCK g ≠ NODE_IND1_BLOCK g ∧ NODE_DIR2_BLOCK g ≠ NODE_IND2_BLOCK g ∧
    NODE_DIR2_BLOCK g ≠ NODE_DIND_BLOCK g ∧ NODE_IND1_BLOCK g ≠ NODE_IND2_BLOCK g ∧
    NODE_IND1_BLOCK g ≠ NODE_DIND_BLOCK g ∧ NODE_IND2_BLOCK g ≠ NODE_DIND_BLOCK g := by
  unfold NODE_DIR1_BLOCK NODE_DIR2_BLOCK NODE_IND1_BLOCK NODE_IND2_BLOCK NODE_DIND_BLOCK
  omega

theorem noffset_node_inode (g : node_layout) : noffset_node g 0 = (0, []) := rfl

theorem noffset_node_dir1 (g : node_layout) : noffset_node g 1 = (1, [NODE_DIR1_BLOCK g]) := rfl

theorem noffset_node_dir2 (g : node_layout) : noffset_node g 2 = (1, [NODE_DIR2_BLOCK g]) := rfl

theorem noffset_node_ind1 (g : node_layout) : noffset_node g 3 = (1, [NODE_IND1_BLOCK g]) := rfl

theorem noffset_node_ind1_child (g : node_layout) (k : Nat) (hk : k < g.NIDS_PER_BLOCK) :
    noffset_node g (4 + k) = (2, [NODE_IND1_BLOCK g, (k : Int)]) := by
  unfold noffset_node
  simp only []
  rw [if_neg (by omega), if_neg (by omega), if_neg (by omega)]
  rw [if_neg (by omega), if_pos (by omega), Nat.add_sub_cancel_left]

theorem noffset_node_ind2 (g : node_layout) :
    noffset_node g (4 + g.NIDS_PER_BLOCK) = (1, [NODE_IND2_BLOCK g]) := by
  unfold noffset_node
  simp only []
  rw [if_neg (by omega), if_neg (by omega), if_neg (by omega)]
  rw [if_neg (by omega), if_neg (by omega), if_pos trivial]

theorem noffset_node_ind2_child (g : node_layout) (k : Nat) (hk : k < g.NIDS_PER_BLOCK) :
    noffset_node g (5 + g.NIDS_PER_BLOCK + k) = (2, [NODE_IND2_BLOCK g, (k : Int)]) := by
  unfold noffset_node
  simp only []
  rw [if_neg (by omega), if_neg (by omega), if_neg (by omega)]
  rw [if_neg (by omega), if_neg (by omega), if_neg (by omega)]
  rw [if_pos (by omega), Nat.add_sub_cancel_left]

theorem noffset_node_dind (g : node_layout) :
    noffset_node g (5 + 2 * g.NIDS_PER_BLOCK) = (1, [NODE_DIND_BLOCK g]) := by
  unfold noffset_node
  simp only []
  rw [if_neg (by omega), if_neg (by omega), if_neg (by omega)]
  rw [if_neg (by omega), if_neg (by omega), if_neg (by omega)]
  rw [if_neg (by omega), if_pos trivial]

theorem noffset_node_dind_child (g : node_layout) (x : Nat) :
    noffset_node g (6 + 2 * g.NIDS_PER_BLOCK + x * (g.NIDS_PER_BLOCK + 1))
      = (2, [NODE_DIND_BLOCK g, (x : Int)]) := by
  unfold noffset_node
  simp only []
  rw [if_neg (by omega), if_neg (by omega), if_neg (by omega)]
  rw [if_neg (by omega), if_neg (by omega), if_neg (by omega)]
  rw [if_neg (by omega), if_neg (by omega), Nat.add_sub_cancel_left]
  rw [if_pos (Nat.mul_mod_left _ _), Nat.mul_div_cancel _ (Nat.succ_pos _)]

theorem noffset_node_dind_grandchild (g : node_layout) (x y : Nat) (hy : y < g.NIDS_PER_BLOCK) :
    noffset_node g (7 + 2 * g.NIDS_PER_BLOCK + x * (g.NIDS_PER_BLOCK + 1) + y)
      = (3, [NODE_DIND_BLOCK g, (x : Int), (y : Int)]) := by
  have e : 7 + 2 * g.NIDS_PER_BLOCK + x * (g.NIDS_PER_BLOCK + 1) + y - (6 + 2 * g.NIDS_PER_BLOCK)
      = x * (g.NIDS_PER_BLOCK + 1) + (y + 1) := by omega
  have hm : (x * (g.NIDS_PER_BLOCK + 1) + (y + 1)) % (g.NIDS_PER_BLOCK + 1) = y + 1 :=
    mod_mul_add (by omega)
  have hd : (x * (g.NIDS_PER_BLOCK + 1) + (y + 1)) / (g.NIDS_PER_BLOCK + 1) = x :=
    div_mul_add (by omega)
  unfold noffset_node
  simp only []
  rw [if_neg (by omega), if_neg (by omega), if_neg (by omega)]
  rw [if_neg (by omega), if_neg (by omega), if_neg (by omega)]
  rw [if_neg (by omega), if_neg (by omega), e]
  rw [hm, hd, if_neg (by omega)]
  rw [Nat.add_sub_cancel]

theorem path_ok_inj {a a' : Nat} {b b' : Nat → Int} {c c' : Nat → Nat}
    (h : (Except.ok (a, b, c) : Except Fault (Nat × (Nat → Int) × (Nat → Nat)))
      = Except.ok (a', b', c')) : a = a' ∧ b = b' ∧ c = c' := by
  cases h
  exact ⟨rfl, rfl, rfl⟩

/-- Each node offset that `get_node_path` returns decodes to the depth of
its node and the offsets that lead to it. -/
theorem get_node_path_decode (g : node_layout) (hf : layout_fits g) (b : Nat)
    (hb : b < max_file_blocks g) (offset : Nat → Int) (noffset : Nat → Nat)
    (level : Nat) (off : Nat → Int) (noff : Nat → Nat)
    (h : get_node_path g b offset noffset = .ok (level, off, noff)) (i : Nat) (hi : i ≤ level) :
    noffset_node g (noff i) = (i, arr_list off i) := by
  rcases get_node_path_nf g hf b hb offset noffset with ⟨_, e⟩ | ⟨r, hr, hbe, e⟩ |
    ⟨r, hr, hbe, e⟩ | ⟨k, r, hk, hr, hbe, e⟩ | ⟨k, r, hk, hr, hbe, e⟩ |
    ⟨x, y, r, hx, hy, hr, hbe, e⟩
  all_goals
    obtain ⟨h1, h2, h3⟩ := path_ok_inj (e.symm.trans h)
    subst h1 h2 h3
  · obtain rfl : i = 0 := by omega
    exact noffset_node_inode g
  · rcases (by omega : i = 0 ∨ i = 1) with rfl | rfl
    · exact noffset_node_inode g
    · exact noffset_node_dir1 g
  · rcases (by omega : i = 0 ∨ i = 1) with rfl | rfl
    · exact noffset_node_inode g
    · exact noffset_node_dir2 g
  · rcases (by omega : i = 0 ∨ i = 1 ∨ i = 2) with rfl | rfl | rfl
    · exact noffset_node_inode g
    · exact noffset_node_ind1 g
    · show noffset_node g (4 + k) = (2, [NODE_IND1_BLOCK g, (k : Int)])
      exact noffset_node_ind1_child g k hk
  · rcases (by omega : i = 0 ∨ i = 1 ∨ i = 2) with rfl | rfl | rfl
    · exact noffset_node_inode g
    · show noffset_node g (4 + g.NIDS_PER_BLOCK) = (1, [NODE_IND2_BLOCK g])
      exact noffset_node_ind2 g
    · show noffset_node g (5 + g.NIDS_PER_BLOCK + k) = (2, [NODE_IND2_BLOCK g, (k : Int)])
      exact noffset_node_ind2_child g k hk
  · rcases (by omega : i = 0 ∨ i = 1 ∨ i = 2 ∨ i = 3) with rfl | rfl | rfl | rfl
    · exact noffset_node_inode g
    · show noffset_node g (5 + 2 * g.NIDS_PER_BLOCK) = (1, [NODE_DIND_BLOCK g])
      exact noffset_node_dind g
    · show noffset_node g (6 + 2 * g.NIDS_PER_BLOCK + x * (g.NIDS_PER_BLOCK + 1))
        = (2, [NODE_DIND_BLOCK g, (x : Int)])
      exact noffset_node_dind_child g x
    · show noffset_node g (7 + 2 * g.NIDS_PER_BLOCK + x * (g.NIDS_PER_BLOCK + 1) + y)
        = (3, [NODE_DIND_BLOCK g, (x : Int), (y : Int)])
      exact noffset_node_dind_grandchild g x y hy

/-- Two arrays with the same first `n` slots as lists agree on them. -/
theorem arr_list_inj {α : Type} (a a' : Nat → α) (n : Nat) (h : arr_list a n = arr_list a' n)
    (j : Nat) (hj : j < n) : a j = a' j := by
  unfold arr_list at h
  have := List.map_inj_left.1 h j (List.mem_range.2 hj)
  exact this

/-- The first loop of `__adjust_nat_entry_set_per_core` finds no pack exactly
when no pack has the set number. -/
theorem pack_lookup_none {id : Nat} :
    ∀ {head : List per_core_sets_pack}, pack_lookup id head = none ↔ ∀ a ∈ head, a.set_id ≠ id
  | [] => by simp [pack_lookup]
  | cur :: t => by
    unfold pack_lookup
    by_cases h : cur.set_id = id
    · simp [h]
    · simp only [h, if_false, List.mem_cons, forall_eq_or_imp, ne_eq, not_false_eq_true, true_and]
      exact pack_lookup_none

/-- The pack the first loop finds splits the list; unlinking it and writing
through it act at that place. -/
theorem pack_split {id : Nat} {cur : per_core_sets_pack} :
    ∀ {head : List per_core_sets_pack}, pack_lookup id head = some cur →
      ∃ l1 l2, head = l1 ++ cur :: l2 ∧ cur.set_id = id ∧ (∀ a ∈ l1, a.set_id ≠ id) ∧
        pack_unlink id head = l1 ++ l2 ∧
        ∀ p : per_core_sets_pack, p.set_id = id → pack_store p head = l1 ++ p :: l2
  | [], h => by simp [pack_lookup] at h
  | c :: t, h => by
    unfold pack_lookup at h
    by_cases hc : c.set_id = id
    · rw [if_pos hc] at h
      cases h
      refine ⟨[], t, rfl, hc, fun _ ha => absurd ha (List.not_mem_nil _), ?_, ?_⟩
      · unfold pack_unlink
        rw [if_pos hc]
        rfl
      · intro p hp
        unfold pack_store
        rw [if_pos (hc.trans hp.symm)]
        rfl
    · rw [if_neg hc] at h
      obtain ⟨l1, l2, e, h1, h2, h3, h4⟩ := pack_split h
      refine ⟨c :: l1, l2, by rw [e]; rfl, h1, ?_, ?_, ?_⟩
      · intro a ha
        rcases List.mem_cons.1 ha with rfl | ha
        · exact hc
        · exact h2 a ha
      · unfold pack_unlink
        rw [if_neg hc, h3]
        rfl
      · intro p hp
        unfold pack_store
        rw [if_neg (fun hx => hc (hx.trans hp)), h4 p hp]
        rfl

/-- The second loop of `__adjust_nat_entry_set_per_core` links the new pack
behind the packs that count fewer entries and in front of the first that does
not. -/
theorem pack_walk_split (p : per_core_sets_pack) :
    ∀ (l : List per_core_sets_pack), ∃ l1 l2, l = l1 ++ l2 ∧
      __adjust_nat_entry_set_per_core_walk p l = l1 ++ p :: l2 ∧
      (∀ a ∈ l1, a.entry_cnt < p.entry_cnt) ∧ (∀ h ∈ l2.head?, p.entry_cnt ≤ h.entry_cnt)
  | [] => ⟨[], [], rfl, rfl, fun _ ha => absurd ha (List.not_mem_nil _), by simp⟩
  | c :: t => by
    unfold __adjust_nat_entry_set_per_core_walk
    by_cases hc : c.entry_cnt ≥ p.entry_cnt
    · rw [if_pos hc]
      exact ⟨[], c :: t, rfl, rfl, fun _ ha => absurd ha (List.not_mem_nil _), by simpa using hc⟩
    · rw [if_neg hc]
      obtain ⟨l1, l2, e, h1, h2, h3⟩ := pack_walk_split p t
      refine ⟨c :: l1, l2, by rw [e]; rfl, by rw [h1]; rfl, ?_, h3⟩
      intro a ha
      rcases List.mem_cons.1 ha with rfl | ha
      · omega
      · exact h2 a ha

/-- The sets with one number among the sets fed so far and one more set. -/
theorem sets_of_number_snoc (sbi : f2fs_sb_info) (id : Nat) (pre : List (Nat × Nat))
    (x : Nat × Nat) :
    sets_of_number sbi id (pre ++ [x])
      = if set_number sbi x = id then sets_of_number sbi id pre ++ [x]
        else sets_of_number sbi id pre := by
  unfold sets_of_number
  rw [List.filter_append]
  by_cases h : set_number sbi x = id
  · simp [h]
  · simp [h]

theorem sets_entry_cnt_append (sbi : f2fs_sb_info) (l1 l2 : List (Nat × Nat)) :
    sets_entry_cnt sbi (l1 ++ l2) = sets_entry_cnt sbi l1 + sets_entry_cnt sbi l2 := by
  unfold sets_entry_cnt
  rw [List.map_append, List.sum_append]

theorem sets_entry_cnt_sublist (sbi : f2fs_sb_info) {l1 l2 : List (Nat × Nat)}
    (h : l1.Sublist l2) : sets_entry_cnt sbi l1 ≤ sets_entry_cnt sbi l2 := by
  unfold sets_entry_cnt
  exact (h.map _).sum_le_sum (fun _ _ => Nat.zero_le _)

/-- The sets with one number among a prefix of the feed are among those of
the whole feed. -/
theorem sets_of_number_prefix (sbi : f2fs_sb_info) (id : Nat) (pre : List (Nat × Nat))
    (x : Nat × Nat) (t : List (Nat × Nat)) :
    (sets_of_number sbi id (pre ++ [x])).Sublist (sets_of_number sbi id (pre ++ x :: t)) := by
  unfold sets_of_number
  apply List.Sublist.filter
  have e : pre ++ x :: t = (pre ++ [x]) ++ t := by simp
  rw [e]
  exact List.sublist_append_left _ _

/-- No set with the number was fed when no pack has it. -/
theorem packs_inv.fresh {sbi : f2fs_sb_info} {m : Nat} {pre : List (Nat × Nat)}
    {packs : List per_core_sets_pack} (h : packs_inv sbi m pre packs) {id : Nat}
    (hn : ∀ a ∈ packs, a.set_id ≠ id) : sets_of_number sbi id pre = [] := by
  unfold sets_of_number
  apply List.filter_eq_nil_iff.2
  intro x hx hid
  obtain ⟨p, hp, e⟩ := h.covered x hx
  exact hn p hp (e.trans (by simpa using hid))

theorem packs_inv.nil (sbi : f2fs_sb_info) (m : Nat) : packs_inv sbi m [] [] :=
  { ids_nodup := List.nodup_nil
    members := fun _ hp => absurd hp (List.not_mem_nil _)
    count := fun _ hp => absurd hp (List.not_mem_nil _)
    covered := fun _ hx => absurd hx (List.not_mem_nil _)
    small_first := List.Pairwise.nil }

/-- The fields of `packs_inv` that speak of the members once one more set is
fed: the pack `q` of its number holds the sets of that number, the other
packs are as before. -/
theorem packs_inv.feed {sbi : f2fs_sb_info} {m : Nat} {pre : List (Nat × Nat)}
    {packs : List per_core_sets_pack} (h : packs_inv sbi m pre packs) (nes : Nat × Nat)
    (q : per_core_sets_pack) (packs' : List per_core_sets_pack)
    (hq1 : q.set_id = set_number sbi nes)
    (hq2 : q.set = sets_of_number sbi (set_number sbi nes) pre ++ [nes])
    (hq3 : q.entry_cnt = sets_entry_cnt sbi q.set)
    (hmem : ∀ p, p ∈ packs' ↔ (p = q ∨ (p ∈ packs ∧ p.set_id ≠ set_number sbi nes)))
    (hnd : (packs'.map (fun p => p.set_id)).Nodup)
    (hsf : packs'.Pairwise (fun a b => b.entry_cnt < m → a.entry_cnt < m)) :
    packs_inv sbi m (pre ++ [nes]) packs' := by
  refine ⟨hnd, ?_, ?_, ?_, hsf⟩
  · intro p hp
    rcases (hmem p).1 hp with rfl | ⟨hp, hne⟩
    · constructor
      · rw [sets_of_number_snoc, hq1, if_pos rfl]
        exact hq2
      · rw [hq2]
        exact List.append_ne_nil_of_right_ne_nil _ (List.cons_ne_nil _ _)
    · rw [sets_of_number_snoc, if_neg (fun e => hne e.symm)]
      exact h.members p hp
  · intro p hp
    rcases (hmem p).1 hp with rfl | ⟨hp, _⟩
    · exact hq3
    · exact h.count p hp
  · intro x hx
    rcases List.mem_append.1 hx with hx | hx
    · obtain ⟨p, hp, e⟩ := h.covered x hx
      by_cases hid : p.set_id = set_number sbi nes
      · exact ⟨q, (hmem q).2 (Or.inl rfl), hq1.trans (hid.symm.trans e)⟩
      · exact ⟨p, (hmem p).2 (Or.inr ⟨hp, hid⟩), e⟩
    · rw [List.mem_singleton.1 hx]
      exact ⟨q, (hmem q).2 (Or.inl rfl), hq1⟩

/-- One call of `__adjust_nat_entry_set_per_core` keeps the shape of the list
of packs; it keeps the packs below the bound in order when the set starts a
pack or brings its pack to the bound. -/
theorem adjust_per_core_step {sbi : f2fs_sb_info} {max n : Int} {pre : List (Nat × Nat)}
    {packs : List per_core_sets_pack} (nes : Nat × Nat)
    (h : packs_inv sbi (int_to_u32 max) pre packs)
    (hcap : (sets_of_number sbi (set_number sbi nes) (pre ++ [nes])).length ≤ int_to_u32 n)
    (hsum : sets_entry_cnt sbi (sets_of_number sbi (set_number sbi nes) (pre ++ [nes]))
      < 4294967296) :
    ∃ packs', __adjust_nat_entry_set_per_core sbi nes packs max n = .ok packs' ∧
      packs_inv sbi (int_to_u32 max) (pre ++ [nes]) packs' ∧
      (packs_sorted (int_to_u32 max) packs →
        (sets_of_number sbi (set_number sbi nes) pre ≠ [] →
          int_to_u32 max ≤ sets_entry_cnt sbi
            (sets_of_number sbi (set_number sbi nes) (pre ++ [nes]))) →
        packs_sorted (int_to_u32 max) packs') := by
  have hsn : sets_of_number sbi (set_number sbi nes) (pre ++ [nes])
      = sets_of_number sbi (set_number sbi nes) pre ++ [nes] := by
    rw [sets_of_number_snoc, if_pos rfl]
  rw [hsn] at hcap hsum
  rw [hsn]
  unfold __adjust_nat_entry_set_per_core
  cases hl : pack_lookup (set_number sbi nes) packs with
  | none =>
    have hn := pack_lookup_none.1 hl
    have hfresh := h.fresh hn
    simp only []
    -- the new pack and the place where it is linked
    have key : ∀ (l1 l2 : List per_core_sets_pack), packs = l1 ++ l2 →
        (∀ a ∈ l1, set_entry_cnt sbi nes < int_to_u32 max →
          a.entry_cnt < int_to_u32 max ∧ a.entry_cnt ≤ set_entry_cnt sbi nes) →
        (∀ b ∈ l2, set_entry_cnt sbi nes < int_to_u32 max) →
        (∀ b ∈ l2.head?, set_entry_cnt sbi nes ≤ b.entry_cnt) →
        packs_inv sbi (int_to_u32 max) (pre ++ [nes])
          (l1 ++ (⟨set_number sbi nes, [nes], set_entry_cnt sbi nes⟩ : per_core_sets_pack) :: l2) ∧
        (packs_sorted (int_to_u32 max) packs →
          packs_sorted (int_to_u32 max)
            (l1 ++ (⟨set_number sbi nes, [nes], set_entry_cnt sbi nes⟩ : per_core_sets_pack) :: l2)) := by
      intro l1 l2 e h1 h2 h3
      have hsf := h.small_first
      rw [e] at hsf
      obtain ⟨p1, p2, p12⟩ := List.pairwise_append.1 hsf
      constructor
      · apply h.feed nes (⟨set_number sbi nes, [nes], set_entry_cnt sbi nes⟩ : per_core_sets_pack)
          _ rfl (by rw [hfresh]; rfl) (by simp [sets_entry_cnt])
        · intro p
          rw [e]
          simp only [List.mem_append, List.mem_cons]
          constructor
          · rintro (hp | rfl | hp)
            · exact Or.inr ⟨Or.inl hp, hn p (by rw [e]; exact List.mem_append_left _ hp)⟩
            · exact Or.inl rfl
            · exact Or.inr ⟨Or.inr hp, hn p (by rw [e]; exact List.mem_append_right _ hp)⟩
          · rintro (rfl | ⟨hp | hp, _⟩)
            · exact Or.inr (Or.inl rfl)
            · exact Or.inl hp
            · exact Or.inr (Or.inr hp)
        · have hperm : (List.map (fun p : per_core_sets_pack => p.set_id)
              (l1 ++ (⟨set_number sbi nes, [nes], set_entry_cnt sbi nes⟩ : per_core_sets_pack) :: l2)).Perm
              (set_number sbi nes :: List.map (fun p : per_core_sets_pack => p.set_id) packs) := by
            rw [e, List.map_append, List.map_append, List.map_cons]
            exact List.perm_middle
          rw [hperm.nodup_iff, List.nodup_cons]
          refine ⟨?_, h.ids_nodup⟩
          intro hm
          obtain ⟨a, ha, e1⟩ := List.mem_map.1 hm
          exact hn a ha e1
        · rw [List.pairwise_append]
          refine ⟨p1, List.pairwise_cons.2 ⟨fun b hb _ => h2 b hb, p2⟩, ?_⟩
          intro a ha b hb hbs
          rcases List.mem_cons.1 hb with rfl | hb
          · exact (h1 a ha hbs).1
          · exact p12 a ha b hb hbs
      · intro hso
        unfold packs_sorted at hso ⊢
        rw [e] at hso
        obtain ⟨s1, s2, s12⟩ := List.pairwise_append.1 hso
        rw [List.pairwise_append]
        refine ⟨s1, List.pairwise_cons.2 ⟨?_, s2⟩, ?_⟩
        · intro b hb _ hbs
          cases l2 with
          | nil => exact absurd hb (List.not_mem_nil _)
          | cons c t =>
            have hc : set_entry_cnt sbi nes ≤ c.entry_cnt := h3 c (by simp)
            rcases List.mem_cons.1 hb with rfl | hb
            · exact hc
            · have hcs : c.entry_cnt < int_to_u32 max :=
                (List.pairwise_cons.1 p2).1 b hb hbs
              have := (List.pairwise_cons.1 s2).1 b hb hcs hbs
              exact Nat.le_trans hc this
        · intro a ha b hb has hbs
          rcases List.mem_cons.1 hb with rfl | hb
          · exact (h1 a ha hbs).2
          · exact s12 a ha b hb has hbs
    by_cases hbig : set_entry_cnt sbi nes ≥ int_to_u32 max ∨ packs = []
    · rw [if_pos hbig]
      obtain ⟨k1, k2⟩ := key packs [] (List.append_nil _).symm
        (by
          intro a ha hs
          rcases hbig with hb | hb
          · omega
          · rw [hb] at ha
            exact absurd ha (List.not_mem_nil _))
        (fun _ hb => absurd hb (List.not_mem_nil _)) (by simp)
      exact ⟨_, rfl, k1, fun hso _ => k2 hso⟩
    · rw [if_neg hbig]
      obtain ⟨l1, l2, e, hw, w1, w2⟩ := pack_walk_split
        (⟨set_number sbi nes, [nes], set_entry_cnt sbi nes⟩ : per_core_sets_pack) packs
      rw [hw]
      have hsmall : set_entry_cnt sbi nes < int_to_u32 max := by
        have := not_or.1 hbig
        omega
      obtain ⟨k1, k2⟩ := key l1 l2 e
        (by
          intro a ha _
          have := w1 a ha
          simp only at this
          omega)
        (fun _ _ => hsmall) w2
      exact ⟨_, rfl, k1, fun hso _ => k2 hso⟩
  | some cur =>
    obtain ⟨l1, l2, e, hid, hl1, hun, hst⟩ := pack_split hl
    have hcm : cur ∈ packs := by
      rw [e]
      exact List.mem_append_right _ (List.mem_cons_self _ _)
    obtain ⟨hset, hne⟩ := h.members cur hcm
    rw [hid] at hset
    have hcnt := h.count cur hcm
    have hnd := h.ids_nodup
    rw [e, List.map_append, List.map_cons, hid] at hnd
    have hnd2 := List.nodup_cons.1 (List.nodup_middle.1 hnd)
    have hl2 : ∀ a ∈ l2, a.set_id ≠ set_number sbi nes := by
      intro a ha e1
      apply hnd2.1
      rw [← e1]
      exact List.mem_append_right _ (List.mem_map_of_mem _ ha)
    have hlen : cur.set.length < int_to_u32 n := by
      rw [List.length_append, ← hset] at hcap
      simpa using hcap
    have hc2 : cur.entry_cnt + set_entry_cnt sbi nes
        = sets_entry_cnt sbi (cur.set ++ [nes]) := by
      rw [sets_entry_cnt_append, ← hcnt]
      simp [sets_entry_cnt]
    have hmod : (cur.entry_cnt + set_entry_cnt sbi nes) % 4294967296
        = cur.entry_cnt + set_entry_cnt sbi nes := by
      apply Nat.mod_eq_of_lt
      rw [hc2, hset]
      exact hsum
    simp only [hlen, if_true, hmod]
    have hmem : ∀ (L : List per_core_sets_pack) (q : per_core_sets_pack),
        (∀ p, p ∈ L ↔ (p = q ∨ p ∈ l1 ∨ p ∈ l2)) →
        ∀ p, p ∈ L ↔ (p = q ∨ (p ∈ packs ∧ p.set_id ≠ set_number sbi nes)) := by
      intro L q hL p
      rw [hL p, e]
      simp only [List.mem_append, List.mem_cons]
      constructor
      · rintro (rfl | hp | hp)
        · exact Or.inl rfl
        · exact Or.inr ⟨Or.inl hp, hl1 p hp⟩
        · exact Or.inr ⟨Or.inr (Or.inr hp), hl2 p hp⟩
      · rintro (rfl | ⟨hp | rfl | hp, hx⟩)
        · exact Or.inl rfl
        · exact Or.inr (Or.inl hp)
        · exact absurd hid hx
        · exact Or.inr (Or.inr hp)
    have hsf := h.small_first
    rw [e] at hsf
    obtain ⟨p1, p2, p12⟩ := List.pairwise_append.1 hsf
    obtain ⟨pc, p2'⟩ := List.pairwise_cons.1 p2
    have hq3 : cur.entry_cnt + set_entry_cnt sbi nes
        = sets_entry_cnt sbi (cur.set ++ [nes]) := hc2
    by_cases hbig : cur.entry_cnt + set_entry_cnt sbi nes ≥ int_to_u32 max
    · have hun' : pack_unlink cur.set_id packs = l1 ++ l2 := by
        rw [hid]
        exact hun
      rw [if_pos hbig, hun']
      refine ⟨_, rfl, ?_, ?_⟩
      · apply h.feed nes (⟨cur.set_id, cur.set ++ [nes],
            cur.entry_cnt + set_entry_cnt sbi nes⟩ : per_core_sets_pack) _ hid (by rw [hset]) hq3
        · apply hmem
          intro p
          simp only [List.mem_append, List.mem_singleton]
          tauto
        · have hperm : (List.map (fun p : per_core_sets_pack => p.set_id)
              (l1 ++ l2 ++ [(⟨cur.set_id, cur.set ++ [nes],
                  cur.entry_cnt + set_entry_cnt sbi nes⟩ : per_core_sets_pack)])).Perm
              (cur.set_id :: (List.map (fun p : per_core_sets_pack => p.set_id) l1
                ++ List.map (fun p : per_core_sets_pack => p.set_id) l2)) := by
            rw [List.map_append, List.map_append, List.map_cons, List.map_nil]
            exact List.perm_append_singleton _ _
          rw [hperm.nodup_iff, hid]
          exact List.nodup_middle.1 hnd
        · rw [List.pairwise_append]
          refine ⟨List.pairwise_append.2 ⟨p1, p2', fun a ha b hb =>
            p12 a ha b (List.mem_cons_of_mem _ hb)⟩, List.pairwise_singleton _ _, ?_⟩
          intro a _ b hb hbs
          rw [List.mem_singleton.1 hb] at hbs
          simp only at hbs
          omega
      · intro hso _
        unfold packs_sorted at hso ⊢
        rw [e] at hso
        obtain ⟨s1, s2, s12⟩ := List.pairwise_append.1 hso
        rw [List.pairwise_append]
        refine ⟨List.pairwise_append.2 ⟨s1, (List.pairwise_cons.1 s2).2, fun a ha b hb =>
          s12 a ha b (List.mem_cons_of_mem _ hb)⟩, List.pairwise_singleton _ _, ?_⟩
        intro a _ b hb _ hbs
        rw [List.mem_singleton.1 hb] at hbs
        simp only at hbs
        omega
    · rw [if_neg hbig, hst (⟨cur.set_id, cur.set ++ [nes],
        cur.entry_cnt + set_entry_cnt sbi nes⟩ : per_core_sets_pack) hid]
      have hsmall : cur.entry_cnt + set_entry_cnt sbi nes < int_to_u32 max := by omega
      refine ⟨_, rfl, ?_, ?_⟩
      · apply h.feed nes (⟨cur.set_id, cur.set ++ [nes],
            cur.entry_cnt + set_entry_cnt sbi nes⟩ : per_core_sets_pack) _ hid (by rw [hset]) hq3
        · apply hmem
          intro p
          simp only [List.mem_append, List.mem_cons]
          tauto
        · rw [List.map_append, List.map_cons, hid]
          exact hnd
        · rw [List.pairwise_append]
          refine ⟨p1, List.pairwise_cons.2 ⟨fun _ _ _ => hsmall, p2'⟩, ?_⟩
          intro a ha b hb hbs
          rcases List.mem_cons.1 hb with rfl | hb
          · exact p12 a ha cur (List.mem_cons_self _ _) (by omega)
          · exact p12 a ha b (List.mem_cons_of_mem _ hb) hbs
      · intro _ hfill
        have := hfill (by rw [← hset]; exact hne)
        rw [← hset, ← hc2] at this
        omega

/-- Feeding sets one after the other keeps the shape of the list of packs,
and keeps the packs below the bound in order when every set that joins a pack
brings it to the bound. -/
theorem adjust_per_core_from_inv (sbi : f2fs_sb_info) (max n : Int) :
    ∀ (ins pre : List (Nat × Nat)) (packs : List per_core_sets_pack),
      packs_inv sbi (int_to_u32 max) pre packs →
      (∀ id, (sets_of_number sbi id (pre ++ ins)).length ≤ int_to_u32 n) →
      sets_entry_cnt sbi (pre ++ ins) < 4294967296 →
      ∃ packs', adjust_per_core_from sbi max n ins packs = .ok packs' ∧
        packs_inv sbi (int_to_u32 max) (pre ++ ins) packs' ∧
        (packs_sorted (int_to_u32 max) packs → joins_fill sbi (int_to_u32 max) pre ins →
          packs_sorted (int_to_u32 max) packs') := by
  intro ins
  induction ins with
  | nil =>
    intro pre packs h _ _
    refine ⟨packs, rfl, ?_, fun hs _ => hs⟩
    rw [List.append_nil]
    exact h
  | cons x t ih =>
    intro pre packs h hcap hsum
    have e : pre ++ x :: t = (pre ++ [x]) ++ t := by simp
    have hpre := sets_of_number_prefix sbi (set_number sbi x) pre x t
    obtain ⟨p1, h1, i1, s1⟩ := adjust_per_core_step (n := n) x h
      (Nat.le_trans hpre.length_le (hcap _))
      (Nat.lt_of_le_of_lt (Nat.le_trans (sets_entry_cnt_sublist sbi hpre)
        (sets_entry_cnt_sublist sbi (List.filter_sublist _))) hsum)
    rw [e] at hcap hsum
    obtain ⟨p2, h2, i2, s2⟩ := ih (pre ++ [x]) p1 i1 hcap hsum
    refine ⟨p2, ?_, ?_, ?_⟩
    · unfold adjust_per_core_from at h2 ⊢
      rw [List.foldlM_cons, h1]
      exact h2
    · rw [e]
      exact i2
    · intro hs hj
      exact s2 (s1 hs hj.1) hj.2

/-- The loop of gang lookups over one shard feeds the sets of the shard from
`set_idx` on, in the order of the tree. -/
theorem flush_collect_shard_per_core_eq (fuel : Nat) :
    ∀ (sbi : f2fs_sb_info) (i set_idx : Nat) (sets : List per_core_sets_pack),
      ((sbi.nat.nat_set_root i).map Prod.fst).Pairwise (· < ·) →
      (∀ q ∈ sbi.nat.nat_set_root i, q.2.set = q.1 ∧ q.1 + 1 < 4294967296) →
      0 < sbi.cfg.SETVEC_SIZE →
      ((sbi.nat.nat_set_root i).filter (fun p => decide (set_idx ≤ p.1))).length < fuel →
      flush_collect_shard_per_core fuel sbi i set_idx sets =
        adjust_per_core_from sbi (MAX_NAT_JENTRIES sbi) sbi.cfg.nat_tree_cnt
          (((sbi.nat.nat_set_root i).filter (fun p => decide (set_idx ≤ p.1))).map
            (fun p => (i, p.1))) sets := by
  induction fuel with
  | zero => intro sbi i set_idx sets _ _ _ hlen; omega
  | succ fuel ih =>
    intro sbi i set_idx sets hsort hkey hsv hlen
    unfold flush_collect_shard_per_core
    simp only
    cases hl : (radix_tree_gang_lookup (sbi.nat.nat_set_root i) set_idx
        sbi.cfg.SETVEC_SIZE).getLast? with
    | none =>
      simp only
      have hnil := List.getLast?_eq_none_iff.1 hl
      unfold radix_tree_gang_lookup at hnil
      rcases List.take_eq_nil_iff.1 hnil with h0 | h0
      · omega
      · rw [h0]; rfl
    | some last =>
      simp only
      have hlast_mem : last ∈ sbi.nat.nat_set_root i := by
        have := List.mem_of_getLast?_eq_some hl
        unfold radix_tree_gang_lookup at this
        exact List.mem_of_mem_filter (List.mem_of_mem_take this)
      obtain ⟨hls, hlb⟩ := hkey last hlast_mem
      have hidx : (last.2.set + 1) % 4294967296 = last.1 + 1 := by
        rw [hls, Nat.mod_eq_of_lt hlb]
      rw [hidx]
      unfold radix_tree_gang_lookup at hl ⊢
      have hdrop := filter_after_take hsort hl
      have hne : ((sbi.nat.nat_set_root i).filter (fun p => decide (set_idx ≤ p.1))).take
          sbi.cfg.SETVEC_SIZE ≠ [] := by
        intro h0; rw [h0] at hl; cases hl
      have hlen2 : ((sbi.nat.nat_set_root i).filter
          (fun p => decide (last.1 + 1 ≤ p.1))).length < fuel := by
        rw [hdrop, List.length_drop]
        have hpos : 0 < ((sbi.nat.nat_set_root i).filter
            (fun p => decide (set_idx ≤ p.1))).length := by
          rcases Nat.eq_zero_or_pos ((sbi.nat.nat_set_root i).filter
            (fun p => decide (set_idx ≤ p.1))).length with h0 | h0
          · rw [List.length_eq_zero.1 h0] at hne
            exact absurd (List.take_nil) hne
          · exact h0
        omega
      have hrec : (fun sets => flush_collect_shard_per_core fuel sbi i (last.1 + 1) sets)
          = fun sets => adjust_per_core_from sbi (MAX_NAT_JENTRIES sbi) sbi.cfg.nat_tree_cnt
            ((((sbi.nat.nat_set_root i).filter (fun p => decide (set_idx ≤ p.1))).drop
              sbi.cfg.SETVEC_SIZE).map (fun p => (i, p.1))) sets := by
        funext sets
        rw [ih sbi i (last.1 + 1) sets hsort hkey hsv hlen2, hdrop]
      rw [hrec]
      unfold adjust_per_core_from
      conv_rhs => rw [← List.take_append_drop sbi.cfg.SETVEC_SIZE
        ((sbi.nat.nat_set_root i).filter (fun p => decide (set_idx ≤ p.1)))]
      rw [List.map_append, List.foldlM_append, List.foldlM_map]

/-- The loop over the shards feeds all their sets, shard by shard. -/
theorem flush_collect_per_core_eq (k : Nat) :
    ∀ (sbi : f2fs_sb_info) (i : Nat) (sets : List per_core_sets_pack),
      (∀ j, ((sbi.nat.nat_set_root j).map Prod.fst).Pairwise (· < ·)) →
      (∀ j, ∀ q ∈ sbi.nat.nat_set_root j, q.2.set = q.1 ∧ q.1 + 1 < 4294967296) →
      0 < sbi.cfg.SETVEC_SIZE →
      flush_collect_per_core k sbi i sets =
        adjust_per_core_from sbi (MAX_NAT_JENTRIES sbi) sbi.cfg.nat_tree_cnt
          (sets_from sbi k i) sets := by
  induction k with
  | zero => intro sbi i sets _ _ _; rfl
  | succ k ih =>
    intro sbi i sets hsort hkey hsv
    unfold flush_collect_per_core
    have hall : (sbi.nat.nat_set_root i).filter (fun p => decide (0 ≤ p.1))
        = sbi.nat.nat_set_root i := by
      apply List.filter_eq_self.2
      intro x _
      simp
    have hrec : (fun sets => flush_collect_per_core k sbi (i + 1) sets)
        = fun sets => adjust_per_core_from sbi (MAX_NAT_JENTRIES sbi) sbi.cfg.nat_tree_cnt
          (sets_from sbi k (i + 1)) sets := by
      funext sets
      exact ih sbi (i + 1) sets hsort hkey hsv
    rw [flush_collect_shard_per_core_eq _ sbi i 0 sets (hsort i) (hkey i) hsv
      (by rw [hall]; omega), hrec, hall]
    have e : sets_from sbi (k + 1) i
        = (sbi.nat.nat_set_root i).map (fun p => (i, p.1)) ++ sets_from sbi k (i + 1) := by
      show (set_keys sbi i).map (fun x => (i, x)) ++ sets_from sbi k (i + 1) = _
      unfold set_keys
      rw [List.map_map]
      rfl
    rw [e]
    unfold adjust_per_core_from
    rw [List.foldlM_append]

/-- The function `flush_nat_entries_per_core` stage by stage. -/
theorem flush_nat_entries_per_core_eq (sbi : f2fs_sb_info) :
    flush_nat_entries_per_core sbi =
      if sum_up sbi.nat.percore_dirty_nat_cnt sbi.cfg.nat_tree_cnt = 0
      then .ok (flush_counted sbi)
      else match flush_drain (flush_counted sbi) with
        | .error f => .error f
        | .ok s1 =>
          match flush_collect_per_core s1.cfg.nat_tree_cnt s1 0 [] with
          | .error f => .error f
          | .ok sets => flush_packs_checked sets s1 := by
  unfold flush_nat_entries_per_core flush_drain flush_packs_checked
  by_cases h0 : sum_up sbi.nat.percore_dirty_nat_cnt sbi.cfg.nat_tree_cnt = 0
  · simp only [h0, if_true]
    unfold flush_counted
    rw [h0]
  · simp only [h0, if_false]
    cases hc : (!__has_cursum_space (flush_counted sbi)
        (u32_to_int (flush_counted sbi).nat.dirty_nat_cnt)) with
    | true =>
      have hc2 := hc
      unfold flush_counted at hc2
      simp only at hc2
      simp only [hc2, if_true, bind, Except.bind]
      unfold flush_counted
      cases remove_nats_in_journal _ with
      | error f => rfl
      | ok s1 =>
        dsimp only
        cases flush_collect_per_core s1.cfg.nat_tree_cnt s1 0 [] <;> rfl
    | false =>
      have hc2 := hc
      unfold flush_counted at hc2
      simp only at hc2
      simp only [hc2, Bool.false_eq_true, if_false, bind, Except.bind]
      unfold flush_counted
      dsimp only
      cases flush_collect_per_core sbi.cfg.nat_tree_cnt _ 0 [] <;> rfl

/-- Under the invariant `flush_nat_entries_per_core` counts, drains the
journal if it must, feeds all the dirty sets to
`__adjust_nat_entry_set_per_core` and flushes the packs in the order of the
list built that way. -/
theorem flush_nat_entries_per_core_order {sbi : f2fs_sb_info} (h : nat_inv sbi)
    (hj : journal_ok sbi) (hsv : 0 < sbi.cfg.SETVEC_SIZE) :
    flush_nat_entries_per_core sbi =
      if sum_up sbi.nat.percore_dirty_nat_cnt sbi.cfg.nat_tree_cnt = 0
      then .ok (flush_counted sbi)
      else match flush_drain (flush_counted sbi) with
        | .error f => .error f
        | .ok s1 =>
          match adjust_all_per_core s1 (MAX_NAT_JENTRIES s1) s1.cfg.nat_tree_cnt
              (all_sets s1) with
          | .error f => .error f
          | .ok packs => flush_packs_checked packs s1 := by
  have h0 : nat_inv (flush_counted sbi) := h.congr rfl rfl rfl rfl rfl rfl
  have j0 : journal_ok (flush_counted sbi) := hj.same rfl rfl
  rw [flush_nat_entries_per_core_eq]
  split
  · rfl
  · cases h1 : flush_drain (flush_counted sbi) with
    | error f => rfl
    | ok s1 =>
      simp only
      obtain ⟨i1, _, c1⟩ := flush_drain_inv h0 j0 h1
      rw [flush_collect_per_core_eq _ s1 0 [] (fun j => (i1.shard j).set_sorted)
        (fun j q hq => by
          have := (i1.shard j).set_ok q hq
          have hM := i1.2.2.1
          exact ⟨this.1, by omega⟩)
        (by rw [c1]; exact hsv)]
      rfl

/-- Under the invariant a set of the flush is read under its own number. -/
theorem set_number_of_key {sbi : f2fs_sb_info} (h : nat_inv sbi) (j : Nat) {k : Nat}
    (hk : k ∈ set_keys sbi j) : set_number sbi (j, k) = k := by
  unfold set_keys at hk
  obtain ⟨q, hq, e⟩ := List.mem_map.1 hk
  have hl := lookup_of_mem (h.shard j).set_sorted (show (q.1, q.2) ∈ _ from hq)
  unfold set_number
  simp only
  rw [← e, hl]
  exact ((h.shard j).set_ok q hq).1

/-- One shard feeds at most one set of a given number. -/
theorem sets_of_number_shard {sbi : f2fs_sb_info} (h : nat_inv sbi) (j id : Nat) :
    (sets_of_number sbi id ((set_keys sbi j).map (fun x => (j, x)))).length ≤ 1 := by
  have hnd : (set_keys sbi j).Nodup :=
    ((h.shard j).set_sorted).imp (fun hab => Nat.ne_of_lt hab)
  have hkey : ∀ k ∈ set_keys sbi j, set_number sbi (j, k) = k :=
    fun k hk => set_number_of_key h j hk
  unfold sets_of_number
  generalize set_keys sbi j = l at hnd hkey
  induction l with
  | nil => simp
  | cons a t ih =>
    obtain ⟨ha, ht⟩ := List.nodup_cons.1 hnd
    have iht := ih ht (fun k hk => hkey k (List.mem_cons_of_mem _ hk))
    rw [List.map_cons, List.filter_cons]
    by_cases hid : set_number sbi (j, a) = id
    · have hnil : List.filter (fun x => decide (set_number sbi x = id))
          (List.map (fun x => (j, x)) t) = [] := by
        apply List.filter_eq_nil_iff.2
        intro x hx
        obtain ⟨k, hk, rfl⟩ := List.mem_map.1 hx
        have e1 := hkey k (List.mem_cons_of_mem _ hk)
        have e2 := hkey a (List.mem_cons_self _ _)
        simp only [decide_eq_true_eq]
        intro e3
        apply ha
        have : k = a := by rw [← e1, e3, ← hid, e2]
        rw [← this]
        exact hk
      simp [hid, hnil]
    · simp only [hid, decide_False, Bool.false_eq_true, if_false]
      exact iht

/-- The flush feeds at most one set of a given number per shard. -/
theorem sets_of_number_from {sbi : f2fs_sb_info} (h : nat_inv sbi) (id : Nat) :
    ∀ (k i : Nat), (sets_of_number sbi id (sets_from sbi k i)).length ≤ k
  | 0, _ => by simp [sets_from, sets_of_number]
  | k + 1, i => by
    have h1 := sets_of_number_shard h i id
    have h2 := sets_of_number_from h id k (i + 1)
    unfold sets_from
    unfold sets_of_number at h1 h2 ⊢
    rw [List.filter_append, List.length_append]
    omega

theorem toy_mixed_reachable : nat_reachable toy_mixed :=
  @nat_reachable.set_addr toy_mixed4 toy_mixed
    { nid := 3, ino := 3, blk_addr := NULL_ADDR, version := 0 } 30 false
    (@nat_reachable.set_addr toy_mixed3 toy_mixed4
      { nid := 1, ino := 1, blk_addr := NULL_ADDR, version := 0 } 10 false
      (@nat_reachable.set_addr toy_mixed2 toy_mixed3
        { nid := 10, ino := 10, blk_addr := NULL_ADDR, version := 0 } 81 false
        (@nat_reachable.set_addr toy_mixed1 toy_mixed2
          { nid := 8, ino := 8, blk_addr := NULL_ADDR, version := 0 } 80 false
          (@nat_reachable.set_addr toy toy_mixed1
            { nid := 2, ino := 2, blk_addr := NULL_ADDR, version := 0 } 20 false
            (nat_reachable.init toy_init) (by decide) rfl)
          (by decide) rfl)
        (by decide) rfl)
      (by decide) rfl)
    (by decide) rfl

theorem tally_congr {f g : Nat → Int} :
    ∀ (n : Nat), (∀ i, i < n → f i = g i) → tally f n = tally g n
  | 0, _ => rfl
  | n + 1, h => by
    unfold tally
    rw [tally_congr n (fun i hi => h i (by omega)), h n (by omega)]

theorem tally_zero {f : Nat → Int} (n : Nat) (h : ∀ i, i < n → f i = 0) : tally f n = 0 := by
  induction n with
  | zero => rfl
  | succ n ih =>
    unfold tally
    rw [ih (fun i hi => h i (by omega)), h n (by omega)]
    rfl

/-- A sum in which one term changes. -/
theorem tally_update {f g : Nat → Int} {t : Nat} :
    ∀ (n : Nat), t < n → (∀ i, i < n → i ≠ t → g i = f i) →
      tally g n = tally f n - f t + g t
  | 0, ht, _ => by omega
  | n + 1, ht, h => by
    unfold tally
    by_cases e : t = n
    · subst e
      rw [tally_congr t (fun i hi => h i (by omega) (by omega))]
      omega
    · rw [tally_update n (by omega) (fun i hi hit => h i (by omega) hit), h n (by omega)
        (fun hx => e hx.symm)]
      omega

theorem tally_nonneg {f : Nat → Int} (n : Nat) (h : ∀ i, i < n → 0 ≤ f i) : 0 ≤ tally f n := by
  induction n with
  | zero => exact Int.le_refl _
  | succ n ih =>
    unfold tally
    have := ih (fun i hi => h i (by omega))
    have := h n (by omega)
    omega

/-- A term of a sum of non-negative terms is at most the sum. -/
theorem tally_ge {f : Nat → Int} {t : Nat} (n : Nat) (ht : t < n) (h : ∀ i, i < n → 0 ≤ f i) :
    f t ≤ tally f n := by
  induction n with
  | zero => omega
  | succ n ih =>
    unfold tally
    by_cases e : t = n
    · subst e
      have := tally_nonneg t (fun i hi => h i (by omega))
      omega
    · have := ih (by omega) (fun i hi => h i (by omega))
      have := h n (by omega)
      omega

theorem ind_nonneg (b : Bool) : 0 ≤ ind b := by
  cases b <;> decide

theorem ind_le_one (b : Bool) : ind b ≤ 1 := by
  cases b <;> decide

/-- A count of threads is at most the number of threads. -/
theorem tally_ind_le (p : Nat → Bool) (n : Nat) : tally (fun i => ind (p i)) n ≤ n := by
  induction n with
  | zero => exact Int.le_refl _
  | succ n ih =>
    unfold tally
    have := ind_le_one (p n)
    push_cast
    omega

theorem tally_ind_nonneg (p : Nat → Bool) (n : Nat) : 0 ≤ tally (fun i => ind (p i)) n :=
  tally_nonneg n (fun _ _ => ind_nonneg _)

/-- A count of zero counts nobody. -/
theorem tally_ind_zero {p : Nat → Bool} {n : Nat} (h : tally (fun i => ind (p i)) n = 0)
    {t : Nat} (ht : t < n) : p t = false := by
  have h1 := tally_ge (f := fun i => ind (p i)) n ht (fun _ _ => ind_nonneg _)
  rw [h] at h1
  cases hp : p t
  · rfl
  · simp only [hp, ind, if_true] at h1
    omega

/-- A count that counts somebody is positive. -/
theorem tally_ind_pos {p : Nat → Bool} {n t : Nat} (ht : t < n) (hp : p t = true) :
    1 ≤ tally (fun i => ind (p i)) n := by
  have h1 := tally_ge (f := fun i => ind (p i)) n ht (fun _ _ => ind_nonneg _)
  simp only [hp, ind, if_true] at h1
  exact h1

theorem in_highway_not_fenced (p : rps_pc) (h : p.in_highway = true) : p.fenced = false := by
  cases p <;> simp_all [rps_pc.in_highway, rps_pc.fenced]

theorem fenced_of_holds_write (p : rps_pc) (h : p.holds_write = true) : p.fenced = true := by
  cases p <;> simp_all [rps_pc.holds_write, rps_pc.fenced]

theorem announced_of_fenced (p : rps_pc) (h : p.fenced = true) : p.announced = true := by
  cases p <;> simp_all [rps_pc.announced, rps_pc.fenced]

theorem drained_of_not_holds (h : Nat → Int) (p : rps_pc) (hp : p.holds_write = false) :
    p.drained h = 0 := by
  cases p <;> simp_all [rps_pc.holds_write, rps_pc.drained]

theorem zeroed_of_not_holds (n : Nat) (p : rps_pc) (hp : p.holds_write = false) :
    p.zeroed n = 0 := by
  cases p <;> simp_all [rps_pc.holds_write, rps_pc.zeroed]

theorem synchronize_sched_expedited_iff (s : rps) :
    synchronize_sched_expedited s = true ↔
      ∀ u, u < s.nr_threads → (s.pc u).in_highway = false := by
  unfold synchronize_sched_expedited
  simp [List.all_eq_true]

/-- A count over the threads when one thread moves. -/
theorem tally_move (pc : Nat → rps_pc) (f : rps_pc → Int) {t n : Nat} (ht : t < n)
    (p' : rps_pc) :
    tally (fun u => f (arr_set pc t p' u)) n = tally (fun u => f (pc u)) n - f (pc t) + f p' := by
  rw [tally_update (f := fun u => f (pc u)) (g := fun u => f (arr_set pc t p' u)) n ht
    (fun i _ hit => by simp only [arr_set_other pc t i p' hit])]
  simp only [arr_set_same]

/-- The sum of the highway counters when one counter changes. -/
theorem tally_arr_set (h : Nat → Int) {c n : Nat} (hc : c < n) (v : Int) :
    tally (arr_set h c v) n = tally h n - h c + v := by
  rw [tally_update (f := h) (g := arr_set h c v) n hc
    (fun i _ hic => arr_set_other h c i v hic), arr_set_same]

/-- While a thread is about to change a highway counter no writer holds the
semaphore. -/
theorem rps_inv.no_holder {s : rps} (hI : rps_inv s) {t : Nat} (ht : t < s.nr_threads)
    (hp : (s.pc t).in_highway = true) :
    ∀ u, u < s.nr_threads → (s.pc u).holds_write = false := by
  intro u hu
  cases hw : (s.pc u).holds_write
  · rfl
  · have := hI.fence u hu (fenced_of_holds_write _ hw) t ht
    rw [hp] at this
    cases this

/-- While a reader holds the semaphore no writer holds it. -/
theorem rps_inv.no_holder_of_read {s : rps} (hI : rps_inv s) {t : Nat} (ht : t < s.nr_threads)
    (hp : (s.pc t).holds_read = true) :
    ∀ u, u < s.nr_threads → (s.pc u).holds_write = false := by
  intro u hu
  cases hw : (s.pc u).holds_write
  · rfl
  · have h1 := (hI.sem_writer).2 ⟨u, hu, hw⟩
    have h2 := hI.sem_excl h1
    have h3 : 1 ≤ tally (fun i => ind (s.pc i).holds_read) s.nr_threads :=
      tally_ind_pos (p := fun i => (s.pc i).holds_read) ht hp
    have h4 := hI.sem_readers
    rw [h2] at h4
    simp only [Nat.cast_zero] at h4
    omega

/-- While `writers_cnt` is zero no writer has announced itself. -/
theorem rps_inv.no_writer {s : rps} (hI : rps_inv s) (hw : s.writers_cnt = 0) :
    ∀ u, u < s.nr_threads → (s.pc u).announced = false := by
  intro u hu
  have h := hI.writers
  rw [hw] at h
  exact tally_ind_zero (p := fun i => (s.pc i).announced) h.symm hu

/-- The state after a step: thread `t` moves from `p` to `p'` and the shared
variables take the values given. The invariants hold again when the new
values fit the move. -/
theorem rps_inv.move {s : rps} (hI : rps_inv s) {t : Nat} (ht : t < s.nr_threads)
    (p p' : rps_pc) (hp : s.pc t = p) (h' : Nat → Int) (l' w' : Int) (sw' : Bool) (sr' : Nat)
    (c_sum : (tally h' s.nr_cpus + l' + p'.drained h' - ind p'.inside
      - (tally s.highway_cnt s.nr_cpus + s.lowway_cnt + p.drained s.highway_cnt - ind p.inside))
      % 4294967296 = 0)
    (c_dr : h' = s.highway_cnt ∨ p.holds_write = true ∨ p.in_highway = true)
    (c_w : (w' = to_int (s.writers_cnt + 1) ∧ p'.announced = true ∧ p.announced = false) ∨
      (w' = to_int (s.writers_cnt - 1) ∧ p'.announced = false ∧ p.announced = true) ∨
      (w' = s.writers_cnt ∧ p'.announced = p.announced))
    (c_f1 : p'.in_highway = true → s.writers_cnt = 0)
    (c_f2 : p'.fenced = true → p.fenced = true ∨ synchronize_sched_expedited s = true)
    (c_sw : (sw' = true ∧ p'.holds_write = true ∧ s.rw_sem_writer = false) ∨
      (sw' = false ∧ p'.holds_write = false ∧ p.holds_write = true) ∨
      (sw' = s.rw_sem_writer ∧ p'.holds_write = p.holds_write))
    (c_sr : (sr' = s.rw_sem_readers + 1 ∧ p'.holds_read = true ∧ p.holds_read = false) ∨
      (sr' = s.rw_sem_readers - 1 ∧ p'.holds_read = false ∧ p.holds_read = true) ∨
      (sr' = s.rw_sem_readers ∧ p'.holds_read = p.holds_read))
    (c_ex : sw' = true → sr' = 0)
    (c_cpu : p'.cpu_ok s.nr_cpus)
    (c_z1 : (∀ j, s.highway_cnt j = 0 → h' j = 0) ∨ p.in_highway = true)
    (c_z2 : ∀ j, j < p'.zeroed s.nr_cpus → h' j = 0)
    (c_x1 : p' = rps_pc.writing → p = rps_pc.writing ∨
      ∀ u, u < s.nr_threads → (s.pc u).inside = false)
    (c_x2 : p'.inside = true → p.inside = true ∨ p.in_highway = true ∨ p.holds_read = true) :
    rps_inv { highway_cnt := h', lowway_cnt := l', writers_cnt := w', rw_sem_writer := sw',
              rw_sem_readers := sr', pc := arr_set s.pc t p', nr_cpus := s.nr_cpus,
              nr_threads := s.nr_threads } := by
  have hT := hI.threads
  -- the other threads hold nothing in flight that depends on the counters changed
  have hothers : ∀ u, u < s.nr_threads → u ≠ t →
      (s.pc u).drained h' = (s.pc u).drained s.highway_cnt := by
    intro u hu hut
    rcases c_dr with e | e | e
    · rw [e]
    · have : (s.pc u).holds_write = false := by
        cases hw : (s.pc u).holds_write
        · rfl
        · exact absurd (hI.sem_unique u t hu ht hw (by rw [hp]; exact e)) hut
      rw [drained_of_not_holds _ _ this, drained_of_not_holds _ _ this]
    · have := hI.no_holder ht (by rw [hp]; exact e) u hu
      rw [drained_of_not_holds _ _ this, drained_of_not_holds _ _ this]
  refine ⟨hT, ?_, ?_, ?_, ?_, ?_, ?_, c_ex, ?_, ?_, ?_⟩
  · -- sum
    have e1 : tally (fun u => (arr_set s.pc t p' u).drained h') s.nr_threads
        = tally (fun u => (s.pc u).drained s.highway_cnt) s.nr_threads
          - p.drained s.highway_cnt + p'.drained h' := by
      rw [tally_update (f := fun u => (s.pc u).drained s.highway_cnt)
        (g := fun u => (arr_set s.pc t p' u).drained h') s.nr_threads ht
        (fun i hi hit => by
          simp only [arr_set_other s.pc t i p' hit]
          exact hothers i hi hit)]
      simp only [arr_set_same, hp]
    have e2 := tally_move s.pc (fun q => ind q.inside) ht p'
    rw [hp] at e2
    have h0 := hI.sum
    unfold highway_sum drained_sum readers_inside at h0 ⊢
    simp only []
    rw [e1, e2]
    omega
  · -- writers
    have e2 := tally_move s.pc (fun q => ind q.announced) ht p'
    rw [hp] at e2
    have h0 := hI.writers
    have b1 := tally_ind_le (fun u => (arr_set s.pc t p' u).announced) s.nr_threads
    have b2 := tally_ind_nonneg (fun u => (arr_set s.pc t p' u).announced) s.nr_threads
    have i1 : ind true = 1 := rfl
    have i0 : ind false = 0 := rfl
    simp only []
    rw [e2] at b1 b2 ⊢
    rcases c_w with ⟨e, a1, a2⟩ | ⟨e, a1, a2⟩ | ⟨e, a1⟩
    · rw [a1, a2, i1, i0] at b1 b2 ⊢
      rw [e, h0]
      unfold to_int
      omega
    · rw [a1, a2, i1, i0] at b1 b2 ⊢
      rw [e, h0]
      unfold to_int
      omega
    · rw [a1, e, h0]
      omega
  · -- fence
    intro u hu hfu v hv
    simp only [] at hu hv hfu ⊢
    by_cases hvt : v = t
    · subst hvt
      rw [arr_set_same]
      cases hh : p'.in_highway
      · rfl
      · exfalso
        have hnw := hI.no_writer (c_f1 hh)
        by_cases hut : u = v
        · subst hut
          rw [arr_set_same] at hfu
          have := in_highway_not_fenced p' hh
          rw [hfu] at this
          cases this
        · rw [arr_set_other _ _ _ _ hut] at hfu
          have := hnw u hu
          rw [announced_of_fenced _ hfu] at this
          cases this
    · rw [arr_set_other _ _ _ _ hvt]
      by_cases hut : u = t
      · subst hut
        rw [arr_set_same] at hfu
        rcases c_f2 hfu with e | e
        · exact hI.fence u hu (by rw [hp]; exact e) v hv
        · exact (synchronize_sched_expedited_iff s).1 e v hv
      · rw [arr_set_other _ _ _ _ hut] at hfu
        exact hI.fence u hu hfu v hv
  · -- sem_writer
    simp only []
    rcases c_sw with ⟨e, a1, a2⟩ | ⟨e, a1, a2⟩ | ⟨e, a1⟩
    · rw [e]
      exact ⟨fun _ => ⟨t, ht, by rw [arr_set_same]; exact a1⟩, fun _ => rfl⟩
    · rw [e]
      constructor
      · intro hx
        cases hx
      · rintro ⟨u, hu, hw⟩
        by_cases hut : u = t
        · subst hut
          rw [arr_set_same, a1] at hw
          exact hw
        · rw [arr_set_other _ _ _ _ hut] at hw
          exact absurd (hI.sem_unique u t hu ht hw (by rw [hp]; exact a2)) hut
    · rw [e, hI.sem_writer]
      constructor
      · rintro ⟨u, hu, hw⟩
        by_cases hut : u = t
        · refine ⟨t, ht, ?_⟩
          rw [arr_set_same, a1, ← hp, ← hut]
          exact hw
        · exact ⟨u, hu, by rw [arr_set_other _ _ _ _ hut]; exact hw⟩
      · rintro ⟨u, hu, hw⟩
        by_cases hut : u = t
        · refine ⟨t, ht, ?_⟩
          rw [hut, arr_set_same, a1] at hw
          rw [hp]
          exact hw
        · rw [arr_set_other _ _ _ _ hut] at hw
          exact ⟨u, hu, hw⟩
  · -- sem_unique
    intro u v hu hv hwu hwv
    simp only [] at hu hv hwu hwv
    have key : ∀ x, x < s.nr_threads → x ≠ t → (s.pc x).holds_write = true →
        p'.holds_write = true → False := by
      intro x hx hxt hwx hp'
      rcases c_sw with ⟨_, _, a2⟩ | ⟨_, a1, _⟩ | ⟨_, a1⟩
      · have := (hI.sem_writer).2 ⟨x, hx, hwx⟩
        rw [a2] at this
        cases this
      · rw [a1] at hp'
        cases hp'
      · rw [a1] at hp'
        exact hxt (hI.sem_unique x t hx ht hwx (by rw [hp]; exact hp'))
    by_cases hut : u = t
    · by_cases hvt : v = t
      · rw [hut, hvt]
      · exfalso
        rw [hut, arr_set_same] at hwu
        rw [arr_set_other _ _ _ _ hvt] at hwv
        exact key v hv hvt hwv hwu
    · by_cases hvt : v = t
      · exfalso
        rw [hvt, arr_set_same] at hwv
        rw [arr_set_other _ _ _ _ hut] at hwu
        exact key u hu hut hwu hwv
      · rw [arr_set_other _ _ _ _ hut] at hwu
        rw [arr_set_other _ _ _ _ hvt] at hwv
        exact hI.sem_unique u v hu hv hwu hwv
  · -- sem_readers
    have e2 := tally_move s.pc (fun q => ind q.holds_read) ht p'
    rw [hp] at e2
    have h0 := hI.sem_readers
    have i1 : ind true = 1 := rfl
    have i0 : ind false = 0 := rfl
    simp only []
    rw [e2]
    rcases c_sr with ⟨e, a1, a2⟩ | ⟨e, a1, a2⟩ | ⟨e, a1⟩
    · rw [e, a1, a2, i1, i0]
      push_cast
      omega
    · have h2 : 1 ≤ tally (fun i => ind (s.pc i).holds_read) s.nr_threads :=
        tally_ind_pos (p := fun i => (s.pc i).holds_read) ht
          (by show (s.pc t).holds_read = true; rw [hp]; exact a2)
      rw [e, a1, a2, i1, i0]
      omega
    · rw [e, a1]
      omega
  · -- cpus
    intro u hu
    simp only [] at hu ⊢
    by_cases hut : u = t
    · rw [hut, arr_set_same]
      exact c_cpu
    · rw [arr_set_other _ _ _ _ hut]
      exact hI.cpus u hu
  · -- zeroed
    intro u hu j hj
    simp only [] at hu hj ⊢
    by_cases hut : u = t
    · rw [hut, arr_set_same] at hj
      exact c_z2 j hj
    · rw [arr_set_other _ _ _ _ hut] at hj
      rcases c_z1 with e | e
      · exact e j (hI.zeroed u hu j hj)
      · have := hI.no_holder ht (by rw [hp]; exact e) u hu
        rw [zeroed_of_not_holds _ _ this] at hj
        omega
  · -- excl
    intro u hu hwu v hv
    simp only [] at hu hv hwu ⊢
    by_cases hut : u = t
    · rw [hut, arr_set_same] at hwu
      have hnot : p'.inside = false := by rw [hwu]; rfl
      by_cases hvt : v = t
      · rw [hvt, arr_set_same]
        exact hnot
      · rw [arr_set_other _ _ _ _ hvt]
        rcases c_x1 hwu with e | e
        · exact hI.excl t ht (by rw [hp]; exact e) v hv
        · exact e v hv
    · rw [arr_set_other _ _ _ _ hut] at hwu
      by_cases hvt : v = t
      · rw [hvt, arr_set_same]
        cases hin : p'.inside
        · rfl
        · exfalso
          rcases c_x2 hin with e | e | e
          · have := hI.excl u hu hwu t ht
            rw [hp, e] at this
            cases this
          · have := hI.no_holder ht (by rw [hp]; exact e) u hu
            rw [hwu] at this
            cases this
          · have := hI.no_holder_of_read ht (by rw [hp]; exact e) u hu
            rw [hwu] at this
            cases this
      · rw [arr_set_other _ _ _ _ hvt]
        exact hI.excl u hu hwu v hv

/-- When a writer finds `lowway_cnt` zero at the end of `rps_down_write`, the
counters count no reader. -/
theorem rps_inv.quiescent {s : rps} (hI : rps_inv s) {t : Nat} (ht : t < s.nr_threads)
    (hp : s.pc t = rps_pc.w_wait) (hl : s.lowway_cnt = 0) :
    ∀ u, u < s.nr_threads → (s.pc u).inside = false := by
  have hz : tally s.highway_cnt s.nr_cpus = 0 := by
    apply tally_zero
    intro j hj
    apply hI.zeroed t ht j
    rw [hp]
    exact hj
  have hd : tally (fun u => (s.pc u).drained s.highway_cnt) s.nr_threads = 0 := by
    apply tally_zero
    intro u hu
    by_cases hut : u = t
    · simp only [hut, hp]
      rfl
    · apply drained_of_not_holds
      cases hw : (s.pc u).holds_write
      · rfl
      · exact absurd (hI.sem_unique u t hu ht hw (by rw [hp]; rfl)) hut
  have h0 := hI.sum
  unfold highway_sum drained_sum readers_inside at h0
  rw [hz, hd, hl] at h0
  have b1 := tally_ind_le (fun u => (s.pc u).inside) s.nr_threads
  have b2 := tally_ind_nonneg (fun u => (s.pc u).inside) s.nr_threads
  have hT := hI.threads
  have hN : tally (fun u => ind (s.pc u).inside) s.nr_threads = 0 := by omega
  intro u hu
  exact tally_ind_zero (p := fun i => (s.pc i).inside) hN hu

/-- The state `__rps_init_rwsem` leaves satisfies the invariants. -/
theorem rps_inv.init (nr_cpus nr_threads : Nat) (hT : nr_threads < 2147483648) :
    rps_inv (__rps_init_rwsem nr_cpus nr_threads) := by
  refine ⟨hT, ?_, ?_, ?_, ?_, ?_, ?_, ?_, ?_, ?_, ?_⟩
  · have e1 : highway_sum (__rps_init_rwsem nr_cpus nr_threads) = 0 :=
      tally_zero _ (fun _ _ => rfl)
    have e2 : drained_sum (__rps_init_rwsem nr_cpus nr_threads) = 0 :=
      tally_zero _ (fun _ _ => rfl)
    have e3 : readers_inside (__rps_init_rwsem nr_cpus nr_threads) = 0 :=
      tally_zero _ (fun _ _ => rfl)
    rw [e1, e2, e3]
    rfl
  · exact (tally_zero _ (fun _ _ => rfl)).symm
  · intro t _ h
    cases h
  · constructor
    · intro h
      cases h
    · rintro ⟨t, _, h⟩
      cases h
  · intro t u _ _ h
    cases h
  · exact (tally_zero _ (fun _ _ => rfl)).symm
  · intro _
    rfl
  · intro t _
    exact True.intro
  · intro t _ j hj
    exact absurd hj (Nat.not_lt_zero _)
  · intro t _ h
    cases h

/-- The first action of a reader function, the read of `writers_cnt` in
`go_highway`, keeps the invariants: the thread goes on to its `this_cpu_add`
only when no writer has announced itself. -/
theorem rps_inv.check {s s' : rps} (hI : rps_inv s) {t cpu : Nat} (ht : t < s.nr_threads)
    (p fast slow : rps_pc) (hp : s.pc t = p)
    (h : go_highway s t cpu fast slow = some s')
    (f1 : fast.in_highway = true) (f2 : fast.cpu_ok s.nr_cpus ∨ ¬ cpu < s.nr_cpus)
    (f3 : fast.inside = p.inside) (f4 : fast.announced = p.announced)
    (f5 : fast.holds_write = p.holds_write) (f6 : fast.holds_read = p.holds_read)
    (f7 : fast.drained s.highway_cnt = p.drained s.highway_cnt)
    (f8 : fast.zeroed s.nr_cpus = 0)
    (g1 : slow.in_highway = false) (g2 : slow.cpu_ok s.nr_cpus)
    (g3 : slow.inside = p.inside) (g4 : slow.announced = p.announced)
    (g5 : slow.holds_write = p.holds_write) (g6 : slow.holds_read = p.holds_read)
    (g7 : slow.drained s.highway_cnt = p.drained s.highway_cnt)
    (g8 : slow.zeroed s.nr_cpus = 0) (g9 : slow.fenced = false) :
    rps_inv s' := by
  unfold go_highway at h
  by_cases hc : cpu < s.nr_cpus
  · rw [if_pos hc] at h
    by_cases hw : s.writers_cnt = 0
    · rw [if_pos hw] at h
      cases h
      exact hI.move ht p fast hp s.highway_cnt s.lowway_cnt s.writers_cnt s.rw_sem_writer
        s.rw_sem_readers
        (by rw [f3, f7]; simp)
        (Or.inl rfl) (Or.inr (Or.inr ⟨rfl, f4⟩)) (fun _ => hw)
        (fun hf => by rw [in_highway_not_fenced _ f1] at hf; cases hf)
        (Or.inr (Or.inr ⟨rfl, f5⟩)) (Or.inr (Or.inr ⟨rfl, f6⟩)) hI.sem_excl
        (f2.resolve_right (fun hx => hx hc))
        (Or.inl (fun _ hj => hj)) (fun j hj => by rw [f8] at hj; omega)
        (fun e => by rw [e] at f1; cases f1)
        (fun hi => Or.inl (by rw [← f3]; exact hi))
    · rw [if_neg hw] at h
      cases h
      exact hI.move ht p slow hp s.highway_cnt s.lowway_cnt s.writers_cnt s.rw_sem_writer
        s.rw_sem_readers
        (by rw [g3, g7]; simp)
        (Or.inl rfl) (Or.inr (Or.inr ⟨rfl, g4⟩))
        (fun hf => by rw [g1] at hf; cases hf)
        (fun hf => by rw [g9] at hf; cases hf)
        (Or.inr (Or.inr ⟨rfl, g5⟩)) (Or.inr (Or.inr ⟨rfl, g6⟩)) hI.sem_excl g2
        (Or.inl (fun _ hj => hj)) (fun j hj => by rw [g8] at hj; omega)
        (fun e => by rw [e] at g9; cases g9)
        (fun hi => Or.inl (by rw [← g3]; exact hi))
  · rw [if_neg hc] at h
    cases h

/-- Every atomic action keeps the invariants. -/
theorem rps_inv.act {s s' : rps} (hI : rps_inv s) {t cpu : Nat} {call : rps_call}
    (ht : t < s.nr_threads) (p : rps_pc) (hp : s.pc t = p)
    (h : rps_act s t cpu call p = some s') : rps_inv s' := by
  have hcpu := hI.cpus t ht
  have hzer := hI.zeroed t ht
  rw [hp] at hcpu hzer
  cases p with
  | idle =>
    cases call with
    | down_read =>
      exact hI.check ht _ (.dr_add cpu) (.dr_sem false) hp h rfl
        (by by_cases hc : cpu < s.nr_cpus
            · exact Or.inl hc
            · exact Or.inr hc)
        rfl rfl rfl rfl rfl rfl rfl True.intro rfl rfl rfl rfl rfl rfl rfl
    | down_read_try_lock =>
      exact hI.check ht _ (.dr_add cpu) (.dr_sem true) hp h rfl
        (by by_cases hc : cpu < s.nr_cpus
            · exact Or.inl hc
            · exact Or.inr hc)
        rfl rfl rfl rfl rfl rfl rfl True.intro rfl rfl rfl rfl rfl rfl rfl
    | down_write =>
      cases h
      exact hI.move ht _ .w_sync hp s.highway_cnt s.lowway_cnt (to_int (s.writers_cnt + 1))
        s.rw_sem_writer s.rw_sem_readers
        (by simp [rps_pc.drained, rps_pc.inside])
        (Or.inl rfl) (Or.inl ⟨rfl, rfl, rfl⟩) (fun hf => by cases hf) (fun hf => by cases hf)
        (Or.inr (Or.inr ⟨rfl, rfl⟩)) (Or.inr (Or.inr ⟨rfl, rfl⟩)) hI.sem_excl True.intro
        (Or.inl (fun _ hj => hj)) (fun j hj => absurd hj (Nat.not_lt_zero _))
        (fun e => by cases e) (fun hi => by cases hi)
    | up_read => cases h
    | up_write => cases h
  | reading =>
    cases call with
    | up_read =>
      exact hI.check ht _ (.ur_add cpu) .ur_dec hp h rfl
        (by by_cases hc : cpu < s.nr_cpus
            · exact Or.inl hc
            · exact Or.inr hc)
        rfl rfl rfl rfl rfl rfl rfl True.intro rfl rfl rfl rfl rfl rfl rfl
    | down_read => cases h
    | down_read_try_lock => cases h
    | down_write => cases h
    | up_write => cases h
  | writing =>
    cases call with
    | up_write =>
      cases h
      exact hI.move ht _ .uw_sync hp s.highway_cnt s.lowway_cnt s.writers_cnt false
        s.rw_sem_readers
        (by simp [rps_pc.drained, rps_pc.inside])
        (Or.inl rfl) (Or.inr (Or.inr ⟨rfl, rfl⟩)) (fun hf => by cases hf) (fun _ => Or.inl rfl)
        (Or.inr (Or.inl ⟨rfl, rfl, rfl⟩)) (Or.inr (Or.inr ⟨rfl, rfl⟩)) (fun hf => by cases hf)
        True.intro (Or.inl (fun _ hj => hj)) (fun j hj => absurd hj (Nat.not_lt_zero _))
        (fun e => by cases e) (fun hi => by cases hi)
    | down_read => cases h
    | down_read_try_lock => cases h
    | down_write => cases h
    | up_read => cases h
  | dr_add c =>
    cases h
    have hc : c < s.nr_cpus := hcpu
    exact hI.move ht _ .reading hp (arr_set s.highway_cnt c (to_int (s.highway_cnt c + 1)))
      s.lowway_cnt s.writers_cnt s.rw_sem_writer s.rw_sem_readers
      (by
        rw [tally_arr_set _ hc]
        have i1 : ind true = 1 := rfl
        have i0 : ind false = 0 := rfl
        simp only [rps_pc.drained, rps_pc.inside, i1, i0]
        unfold to_int
        omega)
      (Or.inr (Or.inr rfl)) (Or.inr (Or.inr ⟨rfl, rfl⟩)) (fun hf => by cases hf)
      (fun hf => by cases hf)
      (Or.inr (Or.inr ⟨rfl, rfl⟩)) (Or.inr (Or.inr ⟨rfl, rfl⟩)) hI.sem_excl True.intro
      (Or.inr rfl) (fun j hj => absurd hj (Nat.not_lt_zero _))
      (fun e => by cases e) (fun _ => Or.inr (Or.inl rfl))
  | dr_sem try_lock =>
    simp only [rps_act] at h
    by_cases hsw : s.rw_sem_writer = true
    · rw [if_pos hsw] at h
      cases try_lock with
      | false => simp at h
      | true =>
        simp only [if_true] at h
        cases h
        exact hI.move ht _ .idle hp s.highway_cnt s.lowway_cnt s.writers_cnt s.rw_sem_writer
          s.rw_sem_readers
          (by simp [rps_pc.drained, rps_pc.inside])
          (Or.inl rfl) (Or.inr (Or.inr ⟨rfl, rfl⟩)) (fun hf => by cases hf)
          (fun hf => by cases hf)
          (Or.inr (Or.inr ⟨rfl, rfl⟩)) (Or.inr (Or.inr ⟨rfl, rfl⟩)) hI.sem_excl True.intro
          (Or.inl (fun _ hj => hj)) (fun j hj => absurd hj (Nat.not_lt_zero _))
          (fun e => by cases e) (fun hi => by cases hi)
    · rw [if_neg hsw] at h
      cases h
      exact hI.move ht _ .dr_inc hp s.highway_cnt s.lowway_cnt s.writers_cnt s.rw_sem_writer
        (s.rw_sem_readers + 1)
        (by simp [rps_pc.drained, rps_pc.inside])
        (Or.inl rfl) (Or.inr (Or.inr ⟨rfl, rfl⟩)) (fun hf => by cases hf)
        (fun hf => by cases hf)
        (Or.inr (Or.inr ⟨rfl, rfl⟩)) (Or.inl ⟨rfl, rfl, rfl⟩)
        (fun hf => absurd hf hsw) True.intro
        (Or.inl (fun _ hj => hj)) (fun j hj => absurd hj (Nat.not_lt_zero _))
        (fun e => by cases e) (fun hi => by cases hi)
  | dr_inc =>
    cases h
    exact hI.move ht _ .dr_rel hp s.highway_cnt (to_int (s.lowway_cnt + 1)) s.writers_cnt
      s.rw_sem_writer s.rw_sem_readers
      (by
        have i1 : ind true = 1 := rfl
        have i0 : ind false = 0 := rfl
        simp only [rps_pc.drained, rps_pc.inside, i1, i0]
        unfold to_int
        omega)
      (Or.inl rfl) (Or.inr (Or.inr ⟨rfl, rfl⟩)) (fun hf => by cases hf) (fun hf => by cases hf)
      (Or.inr (Or.inr ⟨rfl, rfl⟩)) (Or.inr (Or.inr ⟨rfl, rfl⟩)) hI.sem_excl True.intro
      (Or.inl (fun _ hj => hj)) (fun j hj => absurd hj (Nat.not_lt_zero _))
      (fun e => by cases e) (fun _ => Or.inr (Or.inr rfl))
  | dr_rel =>
    cases h
    exact hI.move ht _ .reading hp s.highway_cnt s.lowway_cnt s.writers_cnt s.rw_sem_writer
      (s.rw_sem_readers - 1)
      (by simp [rps_pc.drained, rps_pc.inside])
      (Or.inl rfl) (Or.inr (Or.inr ⟨rfl, rfl⟩)) (fun hf => by cases hf) (fun hf => by cases hf)
      (Or.inr (Or.inr ⟨rfl, rfl⟩)) (Or.inr (Or.inl ⟨rfl, rfl, rfl⟩))
      (fun hf => by rw [hI.sem_excl hf]) True.intro
      (Or.inl (fun _ hj => hj)) (fun j hj => absurd hj (Nat.not_lt_zero _))
      (fun e => by cases e) (fun _ => Or.inl rfl)
  | ur_add c =>
    cases h
    have hc : c < s.nr_cpus := hcpu
    exact hI.move ht _ .idle hp (arr_set s.highway_cnt c (to_int (s.highway_cnt c - 1)))
      s.lowway_cnt s.writers_cnt s.rw_sem_writer s.rw_sem_readers
      (by
        rw [tally_arr_set _ hc]
        have i1 : ind true = 1 := rfl
        have i0 : ind false = 0 := rfl
        simp only [rps_pc.drained, rps_pc.inside, i1, i0]
        unfold to_int
        omega)
      (Or.inr (Or.inr rfl)) (Or.inr (Or.inr ⟨rfl, rfl⟩)) (fun hf => by cases hf)
      (fun hf => by cases hf)
      (Or.inr (Or.inr ⟨rfl, rfl⟩)) (Or.inr (Or.inr ⟨rfl, rfl⟩)) hI.sem_excl True.intro
      (Or.inr rfl) (fun j hj => absurd hj (Nat.not_lt_zero _))
      (fun e => by cases e) (fun hi => by cases hi)
  | ur_dec =>
    cases h
    exact hI.move ht _ .idle hp s.highway_cnt (to_int (s.lowway_cnt - 1)) s.writers_cnt
      s.rw_sem_writer s.rw_sem_readers
      (by
        have i1 : ind true = 1 := rfl
        have i0 : ind false = 0 := rfl
        simp only [rps_pc.drained, rps_pc.inside, i1, i0]
        unfold to_int
        omega)
      (Or.inl rfl) (Or.inr (Or.inr ⟨rfl, rfl⟩)) (fun hf => by cases hf) (fun hf => by cases hf)
      (Or.inr (Or.inr ⟨rfl, rfl⟩)) (Or.inr (Or.inr ⟨rfl, rfl⟩)) hI.sem_excl True.intro
      (Or.inl (fun _ hj => hj)) (fun j hj => absurd hj (Nat.not_lt_zero _))
      (fun e => by cases e) (fun hi => by cases hi)
  | w_sync =>
    simp only [rps_act] at h
    by_cases hs : synchronize_sched_expedited s = true
    · rw [if_pos hs] at h
      cases h
      exact hI.move ht _ .w_lock hp s.highway_cnt s.lowway_cnt s.writers_cnt s.rw_sem_writer
        s.rw_sem_readers
        (by simp [rps_pc.drained, rps_pc.inside])
        (Or.inl rfl) (Or.inr (Or.inr ⟨rfl, rfl⟩)) (fun hf => by cases hf) (fun _ => Or.inr hs)
        (Or.inr (Or.inr ⟨rfl, rfl⟩)) (Or.inr (Or.inr ⟨rfl, rfl⟩)) hI.sem_excl True.intro
        (Or.inl (fun _ hj => hj)) (fun j hj => absurd hj (Nat.not_lt_zero _))
        (fun e => by cases e) (fun hi => by cases hi)
    · rw [if_neg hs] at h
      cases h
  | w_lock =>
    simp only [rps_act] at h
    by_cases hg : s.rw_sem_writer = false ∧ s.rw_sem_readers = 0
    · rw [if_pos hg] at h
      cases h
      by_cases hc : 0 < s.nr_cpus
      · rw [if_pos hc]
        exact hI.move ht _ (.w_read 0 0) hp s.highway_cnt s.lowway_cnt s.writers_cnt true
          s.rw_sem_readers
          (by simp [rps_pc.drained, rps_pc.inside])
          (Or.inl rfl) (Or.inr (Or.inr ⟨rfl, rfl⟩)) (fun hf => by cases hf)
          (fun _ => Or.inl rfl)
          (Or.inl ⟨rfl, rfl, hg.1⟩) (Or.inr (Or.inr ⟨rfl, rfl⟩)) (fun _ => hg.2) hc
          (Or.inl (fun _ hj => hj)) (fun j hj => absurd hj (Nat.not_lt_zero _))
          (fun e => by cases e) (fun hi => by cases hi)
      · rw [if_neg hc]
        exact hI.move ht _ (.w_add 0) hp s.highway_cnt s.lowway_cnt s.writers_cnt true
          s.rw_sem_readers
          (by simp [rps_pc.drained, rps_pc.inside])
          (Or.inl rfl) (Or.inr (Or.inr ⟨rfl, rfl⟩)) (fun hf => by cases hf)
          (fun _ => Or.inl rfl)
          (Or.inl ⟨rfl, rfl, hg.1⟩) (Or.inr (Or.inr ⟨rfl, rfl⟩)) (fun _ => hg.2) True.intro
          (Or.inl (fun _ hj => hj))
          (fun j hj => by
            have : j < s.nr_cpus := hj
            omega)
          (fun e => by cases e) (fun hi => by cases hi)
    · rw [if_neg hg] at h
      cases h
  | w_read c sum =>
    cases h
    have hc : c < s.nr_cpus := hcpu
    exact hI.move ht _ (.w_zero c (to_int (sum + s.highway_cnt c))) hp s.highway_cnt
      s.lowway_cnt s.writers_cnt s.rw_sem_writer s.rw_sem_readers
      (by
        have i0 : ind false = 0 := rfl
        simp only [rps_pc.drained, rps_pc.inside, i0]
        unfold to_int
        omega)
      (Or.inl rfl) (Or.inr (Or.inr ⟨rfl, rfl⟩)) (fun hf => by cases hf) (fun _ => Or.inl rfl)
      (Or.inr (Or.inr ⟨rfl, rfl⟩)) (Or.inr (Or.inr ⟨rfl, rfl⟩)) hI.sem_excl hc
      (Or.inl (fun _ hj => hj)) (fun j hj => hzer j hj)
      (fun e => by cases e) (fun hi => by cases hi)
  | w_zero c sum =>
    cases h
    have hc : c < s.nr_cpus := hcpu
    have hz1 : ∀ j, s.highway_cnt j = 0 → arr_set s.highway_cnt c 0 j = 0 := by
      intro j hj
      by_cases e : j = c
      · rw [e, arr_set_same]
      · rw [arr_set_other _ _ _ _ e]
        exact hj
    have hz2 : ∀ j, j < c + 1 → arr_set s.highway_cnt c 0 j = 0 := by
      intro j hj
      by_cases e : j = c
      · rw [e, arr_set_same]
      · rw [arr_set_other _ _ _ _ e]
        exact hzer j (by
          show j < c
          omega)
    have hsum : ∀ p' : rps_pc, p'.drained (arr_set s.highway_cnt c 0) = sum →
        p'.inside = false →
        (tally (arr_set s.highway_cnt c 0) s.nr_cpus + s.lowway_cnt
          + p'.drained (arr_set s.highway_cnt c 0) - ind p'.inside
          - (tally s.highway_cnt s.nr_cpus + s.lowway_cnt
            + (rps_pc.w_zero c sum).drained s.highway_cnt - ind (rps_pc.w_zero c sum).inside))
          % 4294967296 = 0 := by
      intro p' e1 e2
      rw [tally_arr_set _ hc, e1, e2]
      have i0 : ind false = 0 := rfl
      simp only [rps_pc.drained, rps_pc.inside, i0]
      omega
    by_cases hn : c + 1 < s.nr_cpus
    · rw [if_pos hn]
      exact hI.move ht _ (.w_read (c + 1) sum) hp (arr_set s.highway_cnt c 0)
        s.lowway_cnt s.writers_cnt s.rw_sem_writer s.rw_sem_readers
        (hsum _ rfl rfl)
        (Or.inr (Or.inl rfl)) (Or.inr (Or.inr ⟨rfl, rfl⟩)) (fun hf => by cases hf)
        (fun _ => Or.inl rfl)
        (Or.inr (Or.inr ⟨rfl, rfl⟩)) (Or.inr (Or.inr ⟨rfl, rfl⟩)) hI.sem_excl hn
        (Or.inl hz1) (fun j hj => hz2 j hj)
        (fun e => by cases e) (fun hi => by cases hi)
    · rw [if_neg hn]
      exact hI.move ht _ (.w_add sum) hp (arr_set s.highway_cnt c 0)
        s.lowway_cnt s.writers_cnt s.rw_sem_writer s.rw_sem_readers
        (hsum _ rfl rfl)
        (Or.inr (Or.inl rfl)) (Or.inr (Or.inr ⟨rfl, rfl⟩)) (fun hf => by cases hf)
        (fun _ => Or.inl rfl)
        (Or.inr (Or.inr ⟨rfl, rfl⟩)) (Or.inr (Or.inr ⟨rfl, rfl⟩)) hI.sem_excl True.intro
        (Or.inl hz1)
        (fun j hj => hz2 j (by
          have : j < s.nr_cpus := hj
          omega))
        (fun e => by cases e) (fun hi => by cases hi)
  | w_add sum =>
    cases h
    exact hI.move ht _ .w_wait hp s.highway_cnt (to_int (s.lowway_cnt + sum)) s.writers_cnt
      s.rw_sem_writer s.rw_sem_readers
      (by
        have i0 : ind false = 0 := rfl
        simp only [rps_pc.drained, rps_pc.inside, i0]
        unfold to_int
        omega)
      (Or.inl rfl) (Or.inr (Or.inr ⟨rfl, rfl⟩)) (fun hf => by cases hf) (fun _ => Or.inl rfl)
      (Or.inr (Or.inr ⟨rfl, rfl⟩)) (Or.inr (Or.inr ⟨rfl, rfl⟩)) hI.sem_excl True.intro
      (Or.inl (fun _ hj => hj)) (fun j hj => hzer j hj)
      (fun e => by cases e) (fun hi => by cases hi)
  | w_wait =>
    simp only [rps_act] at h
    by_cases hl : s.lowway_cnt = 0
    · rw [if_pos hl] at h
      cases h
      exact hI.move ht _ .writing hp s.highway_cnt s.lowway_cnt s.writers_cnt s.rw_sem_writer
        s.rw_sem_readers
        (by simp [rps_pc.drained, rps_pc.inside])
        (Or.inl rfl) (Or.inr (Or.inr ⟨rfl, rfl⟩)) (fun hf => by cases hf) (fun _ => Or.inl rfl)
        (Or.inr (Or.inr ⟨rfl, rfl⟩)) (Or.inr (Or.inr ⟨rfl, rfl⟩)) hI.sem_excl True.intro
        (Or.inl (fun _ hj => hj)) (fun j hj => hzer j hj)
        (fun _ => Or.inr (hI.quiescent ht hp hl)) (fun hi => by cases hi)
    · rw [if_neg hl] at h
      cases h
  | uw_sync =>
    simp only [rps_act] at h
    by_cases hs : synchronize_sched_expedited s = true
    · rw [if_pos hs] at h
      cases h
      exact hI.move ht _ .uw_dec hp s.highway_cnt s.lowway_cnt s.writers_cnt s.rw_sem_writer
        s.rw_sem_readers
        (by simp [rps_pc.drained, rps_pc.inside])
        (Or.inl rfl) (Or.inr (Or.inr ⟨rfl, rfl⟩)) (fun hf => by cases hf) (fun _ => Or.inl rfl)
        (Or.inr (Or.inr ⟨rfl, rfl⟩)) (Or.inr (Or.inr ⟨rfl, rfl⟩)) hI.sem_excl True.intro
        (Or.inl (fun _ hj => hj)) (fun j hj => absurd hj (Nat.not_lt_zero _))
        (fun e => by cases e) (fun hi => by cases hi)
    · rw [if_neg hs] at h
      cases h
  | uw_dec =>
    cases h
    exact hI.move ht _ .idle hp s.highway_cnt s.lowway_cnt (to_int (s.writers_cnt - 1))
      s.rw_sem_writer s.rw_sem_readers
      (by simp [rps_pc.drained, rps_pc.inside])
      (Or.inl rfl) (Or.inr (Or.inl ⟨rfl, rfl, rfl⟩)) (fun hf => by cases hf)
      (fun hf => by cases hf)
      (Or.inr (Or.inr ⟨rfl, rfl⟩)) (Or.inr (Or.inr ⟨rfl, rfl⟩)) hI.sem_excl True.intro
      (Or.inl (fun _ hj => hj)) (fun j hj => absurd hj (Nat.not_lt_zero _))
      (fun e => by cases e) (fun hi => by cases hi)

/-- A step keeps the invariants. -/
theorem rps_inv.step {s s' : rps} (hI : rps_inv s) {t cpu : Nat} {call : rps_call}
    (h : rps_step s t cpu call = some s') : rps_inv s' := by
  unfold rps_step at h
  by_cases ht : t < s.nr_threads
  · rw [if_pos ht] at h
    exact hI.act ht (s.pc t) rfl h
  · rw [if_neg ht] at h
    cases h

/-- A run keeps the invariants. -/
theorem rps_inv.run : ∀ (sched : List (Nat × Nat × rps_call)) {s s' : rps}, rps_inv s →
    rps_run sched s = some s' → rps_inv s'
  | [], s, s', hI, h => by
    cases h
    exact hI
  | l :: ls, s, s', hI, h => by
    unfold rps_run at h
    cases hs : rps_step s l.1 l.2.1 l.2.2 with
    | none =>
      rw [hs] at h
      cases h
    | some s1 =>
      rw [hs] at h
      exact rps_inv.run ls (hI.step hs) h

/-- A run that ends, ends in the state read off it. -/
theorem rps_run_getD {sched : List (Nat × Nat × rps_call)} {s0 : rps}
    (h : (rps_run sched s0).isSome = true) :
    rps_run sched s0 = some ((rps_run sched s0).getD s0) := by
  cases hr : rps_run sched s0 with
  | none =>
    rw [hr] at h
    cases h
  | some s => rfl

/-- The sum in flight is zero while no writer holds the semaphore. -/
theorem drained_sum_free (s : rps)
    (h : ∀ t, t < s.nr_threads → (s.pc t).holds_write = false) : drained_sum s = 0 :=
  tally_zero _ (fun t ht => drained_of_not_holds _ _ (h t ht))

/-- The readers that have returned from a `down_read` are among the readers
that the counters count. -/
theorem readers_returned_le (s : rps) : readers_returned s ≤ readers_inside s := by
  unfold readers_returned readers_inside
  generalize s.nr_threads = n
  induction n with
  | zero => exact Int.le_refl _
  | succ n ih =>
    unfold tally
    have : ind (decide (s.pc n = rps_pc.reading)) ≤ ind (s.pc n).inside := by
      by_cases e : s.pc n = rps_pc.reading
      · rw [e]
        decide
      · simp only [e, decide_False]
        exact ind_nonneg _
    omega

/-- An atomic action moves one thread and leaves the numbers of CPUs and of
threads as they are. -/
theorem rps_act_frame {s s' : rps} {t cpu : Nat} {call : rps_call} (p : rps_pc)
    (h : rps_act s t cpu call p = some s') :
    s'.nr_threads = s.nr_threads ∧ s'.nr_cpus = s.nr_cpus ∧
      ∀ u, u ≠ t → s'.pc u = s.pc u := by
  have key : ∀ (s1 : rps) (q : rps_pc), some (rps_goto s1 t q) = some s' →
      s1.nr_threads = s.nr_threads → s1.nr_cpus = s.nr_cpus → s1.pc = s.pc →
      s'.nr_threads = s.nr_threads ∧ s'.nr_cpus = s.nr_cpus ∧
        ∀ u, u ≠ t → s'.pc u = s.pc u := by
    intro s1 q e e1 e2 e3
    cases e
    refine ⟨e1, e2, fun u hu => ?_⟩
    show arr_set s1.pc t q u = s.pc u
    rw [arr_set_other _ _ _ _ hu, e3]
  have hw : ∀ (fast slow : rps_pc), go_highway s t cpu fast slow = some s' →
      s'.nr_threads = s.nr_threads ∧ s'.nr_cpus = s.nr_cpus ∧
        ∀ u, u ≠ t → s'.pc u = s.pc u := by
    intro fast slow e
    unfold go_highway at e
    split at e
    · split at e
      · exact key s fast e rfl rfl rfl
      · exact key s slow e rfl rfl rfl
    · cases e
  cases p with
  | idle =>
    cases call with
    | down_read => exact hw _ _ h
    | down_read_try_lock => exact hw _ _ h
    | down_write => exact key _ _ h rfl rfl rfl
    | up_read => cases h
    | up_write => cases h
  | reading =>
    cases call with
    | up_read => exact hw _ _ h
    | down_read => cases h
    | down_read_try_lock => cases h
    | down_write => cases h
    | up_write => cases h
  | writing =>
    cases call with
    | up_write => exact key _ _ h rfl rfl rfl
    | down_read => cases h
    | down_read_try_lock => cases h
    | down_write => cases h
    | up_read => cases h
  | dr_add c => exact key _ _ h rfl rfl rfl
  | dr_sem try_lock =>
    simp only [rps_act] at h
    split at h
    · split at h
      · exact key _ _ h rfl rfl rfl
      · cases h
    · exact key _ _ h rfl rfl rfl
  | dr_inc => exact key _ _ h rfl rfl rfl
  | dr_rel => exact key _ _ h rfl rfl rfl
  | ur_add c => exact key _ _ h rfl rfl rfl
  | ur_dec => exact key _ _ h rfl rfl rfl
  | w_sync =>
    simp only [rps_act] at h
    split at h
    · exact key _ _ h rfl rfl rfl
    · cases h
  | w_lock =>
    simp only [rps_act] at h
    split at h
    · exact key _ _ h rfl rfl rfl
    · cases h
  | w_read c sum => exact key _ _ h rfl rfl rfl
  | w_zero c sum => exact key _ _ h rfl rfl rfl
  | w_add sum => exact key _ _ h rfl rfl rfl
  | w_wait =>
    simp only [rps_act] at h
    split at h
    · exact key _ _ h rfl rfl rfl
    · cases h
  | uw_sync =>
    simp only [rps_act] at h
    split at h
    · exact key _ _ h rfl rfl rfl
    · cases h
  | uw_dec => exact key _ _ h rfl rfl rfl

/-- A run leaves the numbers of CPUs and of threads as they are, and the
places beyond the number of threads. -/
theorem rps_run_frame : ∀ (sched : List (Nat × Nat × rps_call)) {s s' : rps},
    rps_run sched s = some s' →
    s'.nr_threads = s.nr_threads ∧ s'.nr_cpus = s.nr_cpus ∧
      ∀ u, s.nr_threads ≤ u → s'.pc u = s.pc u
  | [], s, s', h => by
    cases h
    exact ⟨rfl, rfl, fun _ _ => rfl⟩
  | l :: ls, s, s', h => by
    unfold rps_run at h
    cases hs : rps_step s l.1 l.2.1 l.2.2 with
    | none =>
      rw [hs] at h
      cases h
    | some s1 =>
      rw [hs] at h
      obtain ⟨a1, a2, a3⟩ := rps_run_frame ls h
      unfold rps_step at hs
      by_cases ht : l.1 < s.nr_threads
      · rw [if_pos ht] at hs
        obtain ⟨b1, b2, b3⟩ := rps_act_frame _ hs
        refine ⟨a1.trans b1, a2.trans b2, fun u hu => ?_⟩
        rw [a3 u (by rw [b1]; exact hu), b3 u (by omega)]
      · rw [if_neg ht] at hs
        cases hs

/-! ## The flush checkpoints what it writes -/

/-- The final loop of the flush keeps `written_inv`. -/
theorem written_flush_stable (n : Nat) (ni : node_info) : flush_stable (written_inv n ni) := by
  refine ⟨?_, ?_, ?_⟩
  · intro s s1 start_nid to_journal page ne v _ _ hr hv _ _ h1
    obtain ⟨hd1, _⟩ := flush_disk_inv h1
    obtain ⟨_, _, _, k4⟩ := flush_cache_result_only s1 ne v
    obtain ⟨x, hx, hxi, hxc⟩ := hr
    have hv1 : __lookup_nat_cache s1 ne = some v := by rw [lookup_disk_only hd1]; exact hv
    have hx1 : __lookup_nat_cache s1 n = some x := by rw [lookup_disk_only hd1]; exact hx
    by_cases hne : n = ne
    · subst hne
      rw [hv1] at hx1
      cases hx1
      exact ⟨mark_clean { v with flag := nat_reset_flag v.flag },
        by rw [k4 n, if_pos rfl, hv1]; rfl, hxi, fun _ => rfl⟩
    · exact ⟨x, by rw [k4 n, if_neg hne]; exact hx1, hxi, hxc⟩
  · intro s nid r _ _ hr hp
    obtain ⟨hd1, _, _⟩ := get_next_nat_page_inv hp
    obtain ⟨x, hx, hxi, hxc⟩ := hr
    exact ⟨x, by rw [lookup_disk_only hd1]; exact hx, hxi, hxc⟩
  · intro s t k _ _ hr _
    obtain ⟨x, hx, hxi, hxc⟩ := hr
    exact ⟨x, (lookup_congr rfl rfl n).trans hx, hxi, hxc⟩

/-- An entry that is dirty when `flush_nat_entries` starts is cached with the
same node information, clean and checkpointed when it returns. -/
theorem flush_nat_entries_checkpoints {sbi sbi' : f2fs_sb_info} (h : nat_inv sbi)
    (hj : journal_ok sbi) (hsv : 0 < sbi.cfg.SETVEC_SIZE)
    (hs : flush_nat_entries sbi = .ok sbi') {n : Nat} {e : nat_entry}
    (he : __lookup_nat_cache sbi n = some e) (hd : e.flag.IS_DIRTY = true) :
    ∃ v, __lookup_nat_cache sbi' n = some v ∧ v.ni = e.ni ∧ v.flag.IS_DIRTY = false ∧
      v.flag.IS_CHECKPOINTED = true := by
  have h0 : nat_inv (flush_counted sbi) := h.congr rfl rfl rfl rfl rfl rfl
  have j0 : journal_ok (flush_counted sbi) := hj.same rfl rfl
  have hz := flush_nat_entries_clean h hj hsv hs
  have i' := h.flush_nat_entries hj hs
  rcases flush_nat_entries_inv hs with ⟨hz0, _⟩ | ⟨_, s1, sets, hdr, _, hfl⟩
  · have := (h.dirty_pos he hd).1
    have := h.dirty_zero_of_sum hz0 (n % sbi.cfg.nat_tree_cnt)
    omega
  · obtain ⟨i1, j1, _⟩ := flush_drain_inv h0 j0 hdr
    have he1 : __lookup_nat_cache s1 n = some e :=
      flush_drain_lookup hdr (show __lookup_nat_cache (flush_counted sbi) n = some e from he) hd
    have r1 : written_inv n e.ni s1 := ⟨e, he1, rfl, fun hc => by rw [hd] at hc; cases hc⟩
    obtain ⟨v, hv, hvi, hvc⟩ := (written_flush_stable n e.ni).keep_sets sets s1 sbi' i1 j1 r1 hfl
    have hclean : v.flag.IS_DIRTY = false := by
      cases hvd : v.flag.IS_DIRTY with
      | false => rfl
      | true =>
        have := (i'.1.dirty_pos hv hvd).1
        have := hz (n % sbi'.cfg.nat_tree_cnt)
        omega
    exact ⟨v, hv, hvi, hclean, hvc hclean⟩

/-- On a miss `get_node_info` installs a checkpointed entry that holds the
node information it returns. -/
theorem get_node_info_installs {sbi sbi' : f2fs_sb_info} {nid : Nat} {ni : node_info}
    (hl : __lookup_nat_cache sbi nid = none) (hs : get_node_info sbi nid = .ok (sbi', ni)) :
    ∃ e, __lookup_nat_cache sbi' nid = some e ∧ e.ni = ni ∧ e.flag.IS_DIRTY = false ∧
      e.flag.IS_CHECKPOINTED = true := by
  rw [get_node_info_miss hl] at hs
  simp only [Except.ok.injEq, Prod.mk.injEq] at hs
  obtain ⟨rfl, rfl⟩ := hs
  exact ⟨_, by rw [lookup_cache_result hl, if_pos rfl], rfl, rfl, rfl⟩

theorem toy_unlinked_ckpt_reachable : ckpt_reachable toy_unlinked :=
  @ckpt_reachable.set_addr toy_dirty toy_unlinked
    { nid := 3, ino := 3, blk_addr := 100, version := 0 } NULL_ADDR false
    (@ckpt_reachable.set_addr toy toy_dirty
      { nid := 3, ino := 3, blk_addr := NULL_ADDR, version := 0 } 100 false
      (ckpt_reachable.init toy_init toy_no_new) (by decide) rfl)
    (by decide) rfl

/-! ## The passes of `alloc_nid` before it takes a NID -/

/-- A run of `alloc_nid` that hands out `n` made `k` passes that found the
list they selected without free NIDs or a build running, each ending in
`goto retry`, and took `n` on the next pass. -/
theorem alloc_nid_passes_nf (fuel : Nat) :
    ∀ (s s' : f2fs_sb_info) (n : Nat), alloc_nid fuel s = .ok (s', some n) →
      ∃ k sk, k < fuel ∧ alloc_nid_passes k s = .ok sk ∧
        (∀ j sj, j < k → alloc_nid_passes j s = .ok sj → ¬ alloc_ready sj) ∧
        alloc_ready sk ∧ alloc_nid_take (alloc_bump sk) (alloc_list sk) = .ok (s', n) := by
  induction fuel with
  | zero => intro s s' n h; simp [alloc_nid] at h
  | succ k ih =>
    intro s s' n h
    by_cases hc : (s.total_valid_node_count + 1) % 4294967296 > s.cfg.available_nids
    · rw [alloc_nid] at h
      simp only [hc, if_true, Except.ok.injEq, Prod.mk.injEq] at h
      cases h.2
    · rw [alloc_nid_succ k s hc] at h
      simp only at h
      split at h
      · simp at h
      · split at h
        · simp at h
        · split at h
          · rename_i hcond
            split at h
            · rename_i r1 hr1
              simp only [Except.ok.injEq, Prod.mk.injEq, Option.some.injEq] at h
              obtain ⟨rfl, rfl⟩ := h
              exact ⟨0, s, Nat.succ_pos k, rfl, fun j sj hj => absurd hj (Nat.not_lt_zero j),
                hcond, hr1⟩
            · simp at h
          · rename_i hcond
            split at h
            · rename_i s1 hs1
              obtain ⟨k', sk, hk, hp, hnr, hrd, ht⟩ := ih s1 s' n h
              have hpass : alloc_nid_pass s = .ok s1 := hs1
              refine ⟨k' + 1, sk, Nat.succ_lt_succ hk, ?_, ?_, hrd, ht⟩
              · show (match alloc_nid_pass s with
                  | .ok s => alloc_nid_passes k' s
                  | .error f => .error f) = .ok sk
                rw [hpass]
                exact hp
              · intro j sj hj hsj
                cases j with
                | zero =>
                  simp only [alloc_nid_passes, Except.ok.injEq] at hsj
                  subst hsj
                  exact hcond
                | succ j =>
                  have hsj' : (match alloc_nid_pass s with
                    | .ok s => alloc_nid_passes j s
                    | .error f => .error f) = .ok sj := hsj
                  rw [hpass] at hsj'
                  exact hnr j sj (Nat.lt_of_succ_lt_succ hj) hsj'
            · simp at h

/-- The passes of `alloc_nid` keep the invariants of the pool and the
configuration. -/
theorem pool_inv.passes (k : Nat) :
    ∀ (s sk : f2fs_sb_info), pool_inv s → alloc_nid_passes k s = .ok sk →
      pool_inv sk ∧ sk.cfg = s.cfg := by
  induction k with
  | zero =>
    intro s sk hi h
    simp only [alloc_nid_passes, Except.ok.injEq] at h
    subst h
    exact ⟨hi, rfl⟩
  | succ k ih =>
    intro s sk hi h
    cases hp : alloc_nid_pass s with
    | error f =>
      have h' : (match alloc_nid_pass s with
        | .ok s => alloc_nid_passes k s
        | .error f => .error f) = .ok sk := h
      rw [hp] at h'
      cases h'
    | ok s1 =>
      have h' : (match alloc_nid_pass s with
        | .ok s => alloc_nid_passes k s
        | .error f => .error f) = .ok sk := h
      rw [hp] at h'
      have hb : pool_inv (alloc_bump s) := hi.of_eq rfl rfl rfl (fun l => (hi l).cnt_lt)
      have h1 : pool_inv s1 := hb.alloc_build hp
      obtain ⟨i2, c2⟩ := ih s1 sk h1 h'
      exact ⟨i2, c2.trans (alloc_nid_build_free_only hp).1⟩

/-- With no slot in the journal a pass of `alloc_nid` leaves the trees, the
lists and the counters of the pool as they are. -/
theorem alloc_nid_pass_dry {s s1 : f2fs_sb_info} (hj : s.disk.n_nats = 0)
    (h : alloc_nid_pass s = .ok s1) :
    s1.disk.n_nats = 0 ∧ s1.free.free_nid_root = s.free.free_nid_root ∧
    s1.free.free_nid_list = s.free.free_nid_list ∧
    s1.free.percore_fcnt = s.free.percore_fcnt := by
  unfold alloc_nid_pass alloc_nid_build at h
  simp only [bind, Except.bind] at h
  cases hb : (alloc_bump s).free.build_lock with
  | true => simp [hb] at h
  | false =>
    simp only [hb, Bool.false_eq_true, if_false] at h
    have hbuild : build_free_nids
        { alloc_bump s with free := { (alloc_bump s).free with build_lock := true } }
        = .ok { alloc_bump s with free := { (alloc_bump s).free with build_lock := true } } := by
      unfold build_free_nids nats_in_cursum
      have : ({ alloc_bump s with free := { (alloc_bump s).free with build_lock := true } }
          : f2fs_sb_info).disk.n_nats = 0 := hj
      rw [this]
      rfl
    rw [hbuild] at h
    split at h
    · simp only [Except.ok.injEq] at h
      subst h
      exact ⟨hj, rfl, rfl, rfl⟩
    · simp only [Except.ok.injEq] at h
      subst h
      exact ⟨hj, rfl, rfl, rfl⟩

theorem alloc_nid_passes_dry (k : Nat) :
    ∀ (s sk : f2fs_sb_info), s.disk.n_nats = 0 → alloc_nid_passes k s = .ok sk →
      sk.free.free_nid_root = s.free.free_nid_root ∧
      sk.free.free_nid_list = s.free.free_nid_list ∧
      sk.free.percore_fcnt = s.free.percore_fcnt := by
  induction k with
  | zero =>
    intro s sk _ h
    simp only [alloc_nid_passes, Except.ok.injEq] at h
    subst h
    exact ⟨rfl, rfl, rfl⟩
  | succ k ih =>
    intro s sk hj h
    cases hp : alloc_nid_pass s with
    | error f =>
      have h' : (match alloc_nid_pass s with
        | .ok s => alloc_nid_passes k s
        | .error f => .error f) = .ok sk := h
      rw [hp] at h'
      cases h'
    | ok s1 =>
      have h' : (match alloc_nid_pass s with
        | .ok s => alloc_nid_passes k s
        | .error f => .error f) = .ok sk := h
      rw [hp] at h'
      obtain ⟨j1, a1, a2, a3⟩ := alloc_nid_pass_dry hj hp
      obtain ⟨b1, b2, b3⟩ := ih s1 sk j1 h'
      exact ⟨b1.trans a1, b2.trans a2, b3.trans a3⟩

/-! ## A pack that stays below the bound keeps its place -/

theorem pack_store_ids (p : per_core_sets_pack) :
    ∀ l : List per_core_sets_pack,
      (pack_store p l).map (fun q => q.set_id) = l.map (fun q => q.set_id) := by
  intro l
  induction l with
  | nil => rfl
  | cons cur t ih =>
    unfold pack_store
    split
    · rename_i hc
      simp only [List.map_cons, hc]
    · simp only [List.map_cons, ih]

theorem pack_store_others (p : per_core_sets_pack) :
    ∀ (l : List per_core_sets_pack) (i : Nat) (q : per_core_sets_pack),
      (pack_store p l)[i]? = some q → q.set_id ≠ p.set_id → l[i]? = some q := by
  intro l
  induction l with
  | nil => intro i q h; simp [pack_store] at h
  | cons cur t ih =>
    intro i q h hq
    unfold pack_store at h
    split at h
    · cases i with
      | zero =>
        simp only [List.getElem?_cons_zero, Option.some.injEq] at h
        exact absurd (by rw [← h]) hq
      | succ i => simpa using h
    · cases i with
      | zero => simpa using h
      | succ i =>
        simp only [List.getElem?_cons_succ] at h ⊢
        exact ih i q h hq

/-- A set that joins a pack and leaves it below `max` changes the fields of
that pack only: the list has the same set numbers in the same order and every
other pack is where and what it was. -/
theorem adjust_per_core_keeps_place (s : f2fs_sb_info) (nes : Nat × Nat)
    (head : List per_core_sets_pack) (max n : Int) (cur : per_core_sets_pack)
    (hl : pack_lookup (set_number s nes) head = some cur)
    (hcap : cur.set.length < int_to_u32 n)
    (hlow : (cur.entry_cnt + set_entry_cnt s nes) % 4294967296 < int_to_u32 max) :
    ∃ packs, __adjust_nat_entry_set_per_core s nes head max n = .ok packs ∧
      packs.map (fun q => q.set_id) = head.map (fun q => q.set_id) ∧
      (∀ (i : Nat) (q : per_core_sets_pack), packs[i]? = some q → q.set_id ≠ cur.set_id →
        head[i]? = some q) ∧
      pack_lookup (set_number s nes) packs
        = some ⟨cur.set_id, cur.set ++ [nes],
            (cur.entry_cnt + set_entry_cnt s nes) % 4294967296⟩ := by
  have hid : cur.set_id = set_number s nes := by
    clear hcap hlow
    induction head with
    | nil => simp [pack_lookup] at hl
    | cons c t ih =>
      unfold pack_lookup at hl
      split at hl
      · rename_i hc
        simp only [Option.some.injEq] at hl
        rw [← hl]
        exact hc
      · exact ih hl
  refine ⟨pack_store ⟨cur.set_id, cur.set ++ [nes],
      (cur.entry_cnt + set_entry_cnt s nes) % 4294967296⟩ head, ?_, pack_store_ids _ head,
    fun i q h hq => pack_store_others _ head i q h hq, ?_⟩
  · unfold __adjust_nat_entry_set_per_core
    simp only [hl, hcap, if_true, ge_iff_le, Nat.not_le.2 hlow, if_false]
  · clear hcap hlow
    induction head with
    | nil => simp [pack_lookup] at hl
    | cons c t ih =>
      unfold pack_lookup at hl
      unfold pack_store
      simp only
      split at hl
      · rename_i hc
        simp only [Option.some.injEq] at hl
        rw [if_pos (by rw [hc, hid])]
        unfold pack_lookup
        rw [if_pos hid]
      · rename_i hc
        rw [if_neg (by rw [hid]; exact hc)]
        unfold pack_lookup
        rw [if_neg hc]
        exact ih hl

/-! # The claims -/

/-! ## C1: read-your-writes -/

/-- C1. Read-your-writes: whenever `set_node_addr(ni, a, fsync_done)` passes
its assertions and returns, `get_node_info(ni.nid)` called on the resulting
state returns at once from the cache, leaves the state as it is, and reports
`nid = ni.nid` and `blk_addr = a`. -/
theorem get_node_info_after_set_node_addr (sbi sbi' : f2fs_sb_info) (ni : node_info)
    (a : Nat) (fsync_done : Bool) (h : set_node_addr sbi ni a fsync_done = .ok sbi') :
    ∃ r, get_node_info sbi' ni.nid = .ok (sbi', r) ∧ r.nid = ni.nid ∧ r.blk_addr = a := by
  obtain ⟨e, he, hni⟩ := set_node_addr_lookup h
  refine ⟨{ nid := ni.nid, ino := e.ni.ino, blk_addr := e.ni.blk_addr, version := e.ni.version },
    ?_, rfl, ?_⟩
  · unfold get_node_info
    simp only [he]
  · simp only [hni, sna_update]

/-- C1, instance: in the toy layout NID 3 is cached with `NEW_ADDR`; writing
address 100 passes the assertions and the following lookup returns 100. -/
theorem get_node_info_after_set_node_addr_witness :
    ∃ s, set_node_addr toy_new { nid := 3, ino := 3, blk_addr := NEW_ADDR, version := 0 } 100 false
        = .ok s ∧ ∃ r, get_node_info s 3 = .ok (s, r) ∧ r.nid = 3 ∧ r.blk_addr = 100 :=
  ⟨_, rfl, get_node_info_after_set_node_addr toy_new _
    { nid := 3, ino := 3, blk_addr := NEW_ADDR, version := 0 } 100 false rfl⟩

/-! ## C2: the flush leaves no dirty entry counted -/

/-- C2. For every state that satisfies the invariants of the NAT cache and of
the journal (any number of shards, any dirty entries, any journal fill level),
with a set vector of at least one slot, after `flush_nat_entries` returns
`percore_dirty_nat_cnt[s]` is zero for every shard `s`. -/
theorem flush_nat_entries_zeroes_dirty (sbi sbi' : f2fs_sb_info) (h : nat_inv sbi)
    (hj : journal_ok sbi) (hsv : 0 < sbi.cfg.SETVEC_SIZE)
    (hs : flush_nat_entries sbi = .ok sbi') (s : Nat) :
    sbi'.nat.percore_dirty_nat_cnt s = 0 :=
  flush_nat_entries_clean h hj hsv hs s

/-- C2, instance: in the toy layout with NID 3 dirty the flush returns, and
shard 1, which counted one dirty entry, counts none. -/
theorem flush_nat_entries_zeroes_dirty_witness :
    toy_dirty.nat.percore_dirty_nat_cnt 1 = 1 ∧
    ∃ s', flush_nat_entries toy_dirty = .ok s' ∧ s'.nat.percore_dirty_nat_cnt 1 = 0 :=
  ⟨rfl, _, rfl, flush_nat_entries_zeroes_dirty toy_dirty _
    toy_dirty_reachable.inv.1
    toy_dirty_reachable.inv.2
    (by decide) rfl 1⟩

/-! ## C3: flush, evict, read back -/

/-- C3. Flush/cold-lookup round trip: let NID `n` have a dirty cache entry `e`
whose block address is not `NEW_ADDR`, in a consistent cache and journal
(`nat_inv`, `journal_ok`) of a layout with a positive `SETVEC_SIZE`, a journal
of fewer than 65536 slots and fewer than 2^31 NIDs. If `flush_nat_entries`
returns `s1` and the entry is then evicted (`s2` has the configuration and the
disk of `s1` and no cache entry for `n`), then `get_node_info(n)` returns, and
it returns NID `n` with the ino, the block address and the version `e` held
before the flush. The record is the one a cold read finds after the flush, in
the NAT journal or in the current NAT block, whichever path the flush took. -/
theorem flush_then_cold_lookup (sbi s1 s2 : f2fs_sb_info) (n : Nat) (e : nat_entry)
    (hi : nat_inv sbi) (hj : journal_ok sbi)
    (hsv : 0 < sbi.cfg.SETVEC_SIZE) (hJ : sbi.cfg.NAT_JOURNAL_ENTRIES < 65536)
    (hM : sbi.cfg.max_nid < 2147483648)
    (he : __lookup_nat_cache sbi n = some e) (hd : e.flag.IS_DIRTY = true)
    (hnew : e.ni.blk_addr ≠ NEW_ADDR)
    (hf : flush_nat_entries sbi = .ok s1)
    (hc2 : s2.cfg = s1.cfg) (hd2 : s2.disk = s1.disk)
    (hev : __lookup_nat_cache s2 n = none) :
    ∃ s3 r, get_node_info s2 n = .ok (s3, r) ∧
      r = node_info_from_raw_nat { nid := n, ino := 0, blk_addr := 0, version := 0 }
        (cold_read s1 n) ∧
      r.nid = n ∧ r.ino = e.ni.ino ∧ r.blk_addr = e.ni.blk_addr ∧
      r.version = e.ni.version := by
  have hcold := flush_nat_entries_cold hi hj hsv hJ hM hf he hd hnew
  have hcr : cold_read s2 n = cold_read s1 n := cold_read_congr hc2 hd2 n
  refine ⟨_, _, get_node_info_miss hev, ?_, ?_⟩
  · rw [hcr]
  · rw [hcr, hcold]
    exact ⟨rfl, rfl, rfl, rfl⟩

/-- C3, instances: in the toy layout NID 3 is dirty with block address 100.
After the flush and the eviction of the entry by `__del_from_nat_cache`,
`get_node_info(3)` returns ino 3, address 100, version 0: once with the flush
on the journal path (one journal record afterwards), once, with a journal of
no slots, on the block path (no journal record, NAT block 0 switched to its
second copy). -/
theorem flush_then_cold_lookup_witness :
    (∃ s1 s2 s3 r, flush_nat_entries toy_dirty = .ok s1 ∧ s1.disk.n_nats = 1 ∧
      __del_from_nat_cache s1 3 = .ok s2 ∧ get_node_info s2 3 = .ok (s3, r) ∧
      r.nid = 3 ∧ r.ino = 3 ∧ r.blk_addr = 100 ∧ r.version = 0) ∧
    (∃ s1 s2 s3 r, flush_nat_entries toy_nojournal_dirty = .ok s1 ∧
      s1.disk.n_nats = 0 ∧ s1.disk.nat_bitmap 0 = true ∧
      __del_from_nat_cache s1 3 = .ok s2 ∧ get_node_info s2 3 = .ok (s3, r) ∧
      r.nid = 3 ∧ r.ino = 3 ∧ r.blk_addr = 100 ∧ r.version = 0) :=
  ⟨match flush_then_cold_lookup toy_dirty toy_flushed toy_evicted 3
      { ni := { nid := 3, ino := 3, blk_addr := 100, version := 0 },
        flag := { IS_CHECKPOINTED := true, HAS_FSYNCED_INODE := false,
                  HAS_LAST_FSYNC := false, IS_DIRTY := true } }
      toy_dirty_reachable.inv.1 toy_dirty_reachable.inv.2
      (by decide) (by decide) (by decide) rfl rfl (by decide) rfl rfl rfl rfl with
    | ⟨s3, r, hg, _, hr⟩ => ⟨toy_flushed, toy_evicted, s3, r, rfl, rfl, rfl, hg, hr⟩,
   match flush_then_cold_lookup toy_nojournal_dirty toy_nojournal_flushed
      toy_nojournal_evicted 3
      { ni := { nid := 3, ino := 3, blk_addr := 100, version := 0 },
        flag := { IS_CHECKPOINTED := true, HAS_FSYNCED_INODE := false,
                  HAS_LAST_FSYNC := false, IS_DIRTY := true } }
      toy_nojournal_dirty_reachable.inv.1 toy_nojournal_dirty_reachable.inv.2
      (by decide) (by decide) (by decide) rfl rfl (by decide) rfl rfl rfl rfl with
    | ⟨s3, r, hg, _, hr⟩ =>
      ⟨toy_nojournal_flushed, toy_nojournal_evicted, s3, r, rfl, rfl, rfl, rfl, hg, hr⟩⟩

/-! ## C4: no NID is handed out twice -/

/-- C4. `alloc_nid` never hands out a NID twice: in a sequence of whole
operations on the free-NID pool (`add_free_nid`, `remove_free_nid`,
`scan_nat_page`, `alloc_nid`, `alloc_nid_done`, `alloc_nid_failed`, and steps
of the rest of the file system) started from the empty pool, when `alloc_nid`
has returned `n`, no call of `alloc_nid` in a continuation without
`alloc_nid_done(n)` and `alloc_nid_failed(n)` returns `n`; and the NIDs handed
out in a continuation without any release are pairwise distinct. -/
theorem alloc_nid_never_twice (sbi0 sbi : f2fs_sb_info) (pre : List pool_op)
    (o_pre : List Nat) (h0 : ∀ l, sbi0.free.free_nid_root l = [])
    (hpre : pool_run sbi0 pre = .ok (sbi, o_pre)) :
    (∀ fuel n sbi1 mid sbi2 o_mid, alloc_nid fuel sbi = .ok (sbi1, some n) →
      pool_run sbi1 mid = .ok (sbi2, o_mid) →
      pool_op.done n ∉ mid → pool_op.failed n ∉ mid → n ∉ o_mid) ∧
    (∀ ops s' outs, (∀ op ∈ ops, ∀ m, op ≠ pool_op.done m ∧ op ≠ pool_op.failed m) →
      pool_run sbi ops = .ok (s', outs) → outs.Nodup) := by
  have hk : pool_keyed sbi := (pool_run_keep pre sbi0 sbi o_pre (pool_keyed_of_empty h0) hpre).1
  refine ⟨?_, fun ops s' outs hno h => pool_run_nodup ops sbi s' outs hk hno h⟩
  intro fuel n sbi1 mid sbi2 o_mid h1 h2 hd hf
  have hs : pool_step sbi (pool_op.alloc fuel) = .ok (sbi1, some n) := h1
  obtain ⟨k1, a1, _⟩ := pool_step_keep hk hs
  exact ((pool_run_keep mid sbi1 sbi2 o_mid k1 h2).2 n (a1 n rfl) hd hf).1

/-- C4, instance: from the empty pool of the toy layout, NIDs 5 and 7 are
added, `alloc_nid` returns 5, and the next `alloc_nid` returns 7, not 5. -/
theorem alloc_nid_never_twice_witness :
    ∃ s1 s2, alloc_nid 1 toy_pool = .ok (s1, some 5) ∧
      pool_run s1 [pool_op.alloc 3] = .ok (s2, [7]) ∧ 5 ∉ [7] :=
  ⟨_, _, rfl, rfl,
    (alloc_nid_never_twice toy toy_pool [pool_op.add 5 false, pool_op.add 7 false] []
      (fun _ => rfl) rfl).1 1 5 _ [pool_op.alloc 3] _ [7] rfl rfl
      (by simp) (by simp)⟩

/-! ## C5: when `alloc_nid` fails -/

/-- C5. `alloc_nid` returns false exactly when its check
`total_valid_node_count + 1 > available_nids` holds: if the check holds on
entry the call returns false and leaves the state, the free-NID pool included,
as it is; a run that returns reports false if and only if the check holds, and
it changes neither side of the check, so a run that returns true passed its
last check.  The code takes the sum in 32 bits, which is the plain sum for
every count below `2^32 - 1`. -/
theorem alloc_nid_false_iff (fuel : Nat) (sbi : f2fs_sb_info) :
    ((sbi.total_valid_node_count + 1) % 4294967296 > sbi.cfg.available_nids →
      alloc_nid (fuel + 1) sbi = .ok (sbi, none)) ∧
    (∀ sbi' r, alloc_nid fuel sbi = .ok (sbi', r) →
      (r = none ↔ (sbi.total_valid_node_count + 1) % 4294967296 > sbi.cfg.available_nids) ∧
      (r = none → sbi' = sbi) ∧
      sbi'.total_valid_node_count = sbi.total_valid_node_count ∧
      sbi'.cfg.available_nids = sbi.cfg.available_nids) ∧
    (sbi.total_valid_node_count + 1 < 4294967296 →
      ((sbi.total_valid_node_count + 1) % 4294967296 > sbi.cfg.available_nids ↔
        sbi.total_valid_node_count + 1 > sbi.cfg.available_nids)) := by
  refine ⟨fun hc => ?_, fun sbi' r h => ?_, fun hlt => ?_⟩
  · rw [alloc_nid]
    simp only [hc, if_true]
  · obtain ⟨h1, h2, h3⟩ := alloc_nid_spec fuel sbi sbi' r h
    exact ⟨h2, h3, h1.2.2.2.2, by rw [h1.1]⟩
  · rw [Nat.mod_eq_of_lt hlt]

/-- C5, instance: with all 32 NIDs of the toy layout in use `alloc_nid`
returns false and changes nothing; with NIDs free and 5 in the pool it
returns NID 5, and the check did not hold. -/
theorem alloc_nid_false_iff_witness :
    alloc_nid 1 toy_full = .ok (toy_full, none) ∧
    ∃ s, alloc_nid 1 toy_pool = .ok (s, some 5) ∧
      ¬ (toy_pool.total_valid_node_count + 1) % 4294967296 > toy_pool.cfg.available_nids :=
  ⟨(alloc_nid_false_iff 0 toy_full).1 (by decide), _, rfl,
    fun hc => Option.noConfusion
      ((((alloc_nid_false_iff 1 toy_pool).2.1 _ (some 5) rfl).1).2 hc)⟩

/-! ## C6: one cache entry per NID -/

/-- C6. NAT-cache uniqueness: in every reachable state an entry sits in the
tree of shard `nid mod S_nat` under its own NID, and no two slots of the trees
hold an entry of the same NID; `cache_nat_entry` leaves the state as it is
when the NID has an entry and installs exactly one entry when it has none;
`get_node_info` on a missing NID installs one entry, and the same lookup
repeated returns the same answer from that entry and installs nothing. -/
theorem nat_cache_unique (sbi : f2fs_sb_info) (h : nat_reachable sbi) :
    (∀ s p, p ∈ sbi.nat.nat_root s → p.2.ni.nid = p.1 ∧ s = TREE_IDX p.1 sbi) ∧
    (∀ (s s' i j : Nat) (p q : Nat × nat_entry), (sbi.nat.nat_root s)[i]? = some p → (sbi.nat.nat_root s')[j]? = some q →
      p.2.ni.nid = q.2.ni.nid → s = s' ∧ i = j) ∧
    (∀ nid ne e, __lookup_nat_cache sbi nid = some e → cache_nat_entry sbi nid ne = .ok sbi) ∧
    (∀ nid ne, __lookup_nat_cache sbi nid = none →
      ∃ sbi', cache_nat_entry sbi nid ne = .ok sbi' ∧
        (∃ e, __lookup_nat_cache sbi' nid = some e) ∧
        (sbi'.nat.nat_root (TREE_IDX nid sbi)).length
          = (sbi.nat.nat_root (TREE_IDX nid sbi)).length + 1 ∧
        ∀ s, s ≠ TREE_IDX nid sbi → sbi'.nat.nat_root s = sbi.nat.nat_root s) ∧
    (∀ nid, __lookup_nat_cache sbi nid = none →
      ∃ s1 r, get_node_info sbi nid = .ok (s1, r) ∧ get_node_info s1 nid = .ok (s1, r) ∧
        (s1.nat.nat_root (TREE_IDX nid sbi)).length
          = (sbi.nat.nat_root (TREE_IDX nid sbi)).length + 1 ∧
        ∀ s, s ≠ TREE_IDX nid sbi → s1.nat.nat_root s = sbi.nat.nat_root s) := by
  have hi := h.inv.1
  refine ⟨?_, ?_, ?_, ?_, ?_⟩
  · intro s p hp
    obtain ⟨h1, h2, _⟩ := (hi.shard s).root_key p hp
    exact ⟨h1, h2.symm⟩
  · intro s s' i j p q hp hq hpq
    have hpm := List.getElem?_mem hp
    have hqm := List.getElem?_mem hq
    obtain ⟨p1, p2, _⟩ := (hi.shard s).root_key p hpm
    obtain ⟨q1, q2, _⟩ := (hi.shard s').root_key q hqm
    have hk : p.1 = q.1 := by rw [← p1, ← q1, hpq]
    have hss : s = s' := by rw [← p2, ← q2, hk]
    subst hss
    refine ⟨rfl, ?_⟩
    have hnd : ((sbi.nat.nat_root s).map Prod.fst).Nodup :=
      (hi.shard s).root_sorted.imp (fun hlt => Nat.ne_of_lt hlt)
    have hi1 : ((sbi.nat.nat_root s).map Prod.fst)[i]? = some p.1 := by
      rw [List.getElem?_map, hp]; rfl
    have hj1 : ((sbi.nat.nat_root s).map Prod.fst)[j]? = some q.1 := by
      rw [List.getElem?_map, hq]; rfl
    rw [← hk] at hj1
    obtain ⟨hil, hie⟩ := List.getElem?_eq_some_iff.1 hi1
    obtain ⟨hjl, hje⟩ := List.getElem?_eq_some_iff.1 hj1
    exact (List.Nodup.getElem_inj_iff hnd).1 (hie.trans hje.symm)
  · intro nid ne e he
    exact cache_nat_entry_hit he ne
  · intro nid ne hn
    refine ⟨cache_result sbi nid ne, cache_nat_entry_miss hn ne, ?_, cache_result_root sbi nid ne⟩
    rw [lookup_cache_result hn, if_pos rfl]
    exact ⟨_, rfl⟩
  · intro nid hn
    refine ⟨cache_result sbi nid (cold_read sbi nid), _, get_node_info_miss hn, ?_,
      cache_result_root sbi nid _⟩
    have hl := lookup_cache_result hn (cold_read sbi nid) nid
    rw [if_pos rfl] at hl
    rw [get_node_info_hit hl]
    rfl

/-- C6, instance: the toy layout with NID 3 cached is reachable, and a
second `cache_nat_entry` for NID 3 with another record leaves it as it is. -/
theorem nat_cache_unique_witness :
    nat_reachable (toy_cached 100) ∧
    cache_nat_entry (toy_cached 100) 3 { version := 1, ino := 3, block_addr := 200 }
      = .ok (toy_cached 100) :=
  ⟨toy_cached_reachable 100,
    (nat_cache_unique (toy_cached 100) (toy_cached_reachable 100)).2.2.1 3 _ _ rfl⟩

/-! ## C7: the counters count -/

/-- C7. Counter invariant: in every reachable state and for every shard `s`,
`percore_nat_cnt[s]` is the number of entries in `nat_root[s]` and
`percore_dirty_nat_cnt[s]` is the sum of `entry_cnt` over the sets in
`nat_set_root[s]`; the reachable states are closed under `grab_nat_entry`,
`__del_from_nat_cache`, `__set_nat_cache_dirty`, `__clear_nat_cache_dirty` and
their callers, so each of them preserves both equalities. -/
theorem nat_counters_match (sbi : f2fs_sb_info) (h : nat_reachable sbi) (s : Nat) :
    sbi.nat.percore_nat_cnt s = (sbi.nat.nat_root s).length ∧
    sbi.nat.percore_dirty_nat_cnt s
      = ((sbi.nat.nat_set_root s).map (fun q => q.2.entry_cnt)).sum :=
  ⟨(h.inv.1.shard s).cnt_eq, (h.inv.1.shard s).dirty_eq⟩

/-- C7, instance: the toy layout with NID 3 dirty counts one entry and one
dirty entry in shard 1. -/
theorem nat_counters_match_witness :
    nat_reachable toy_dirty ∧
    (toy_dirty.nat.percore_nat_cnt 1 = (toy_dirty.nat.nat_root 1).length ∧
      toy_dirty.nat.percore_dirty_nat_cnt 1
        = ((toy_dirty.nat.nat_set_root 1).map (fun q => q.2.entry_cnt)).sum) :=
  ⟨toy_dirty_reachable,
    nat_counters_match toy_dirty
      toy_dirty_reachable 1⟩

/-! ## C8: dirty entries and their sets -/

/-- C8. Dirty-set membership: in every reachable state a cached entry has
`IS_DIRTY` set if and only if it is on the entry list of a set; a set that
lists it is the set stored in `nat_set_root[nid mod S_nat]` under key
`NAT_BLOCK_OFFSET(nid)`, lists it once, and has `entry_cnt` equal to the
length of its list; an entry without `IS_DIRTY` is on the clean list of its
shard. -/
theorem dirty_set_membership (sbi : f2fs_sb_info) (h : nat_reachable sbi) (n : Nat)
    (e : nat_entry) (he : __lookup_nat_cache sbi n = some e) :
    (e.flag.IS_DIRTY = true ↔ ∃ s q, q ∈ sbi.nat.nat_set_root s ∧ n ∈ q.2.entry_list) ∧
    (∀ s q, q ∈ sbi.nat.nat_set_root s → n ∈ q.2.entry_list →
      s = TREE_IDX n sbi ∧ q.1 = NAT_BLOCK_OFFSET sbi n ∧
      radix_tree_lookup (sbi.nat.nat_set_root (TREE_IDX n sbi)) (NAT_BLOCK_OFFSET sbi n)
        = some q.2 ∧
      q.2.entry_list.count n = 1 ∧ q.2.entry_cnt = q.2.entry_list.length) ∧
    (e.flag.IS_DIRTY = false → n ∈ sbi.nat.nat_entries (TREE_IDX n sbi)) := by
  have hi := h.inv.1
  have key : ∀ s q, q ∈ sbi.nat.nat_set_root s → n ∈ q.2.entry_list →
      s = TREE_IDX n sbi ∧ q.1 = NAT_BLOCK_OFFSET sbi n ∧ e.flag.IS_DIRTY = true := by
    intro s q hq hn
    obtain ⟨_, _, _, _, _, hm⟩ := (hi.shard s).set_ok q hq
    obtain ⟨hk, e', he', hd'⟩ := hm n hn
    have hs := ((hi.shard s).key_of_lookup he').2.1
    have hs' : s = TREE_IDX n sbi := hs.symm
    subst hs'
    have : some e' = some e := he'.symm.trans he
    cases this
    exact ⟨rfl, hk.symm, hd'⟩
  refine ⟨⟨fun hd => ?_, fun ⟨s, q, hq, hn⟩ => (key s q hq hn).2.2⟩, ?_, ?_⟩
  · obtain ⟨h0, hh0, hm⟩ := ((hi.shard _).linked (n, e) (mem_of_lookup he)).1 hd
    exact ⟨_, (n / sbi.cfg.NAT_ENTRY_PER_BLOCK, h0), mem_of_lookup hh0, hm⟩
  · intro s q hq hn
    obtain ⟨hs, hk, _⟩ := key s q hq hn
    obtain ⟨_, hc, hnd, _, _, _⟩ := (hi.shard s).set_ok q hq
    subst hs
    refine ⟨rfl, hk, ?_, List.count_eq_one_of_mem hnd hn, hc⟩
    rw [← hk]
    exact lookup_of_mem (hi.shard _).set_sorted hq
  · intro hd
    exact ((hi.shard _).linked (n, e) (mem_of_lookup he)).2 hd

/-- C8, instance: in the toy layout with NID 3 dirty, the entry of NID 3 is
on the list of a set, which is set 0 of shard 1. -/
theorem dirty_set_membership_witness :
    nat_reachable toy_dirty ∧
    ∃ e, __lookup_nat_cache toy_dirty 3 = some e ∧
      (e.flag.IS_DIRTY = true ↔
        ∃ s q, q ∈ toy_dirty.nat.nat_set_root s ∧ 3 ∈ q.2.entry_list) :=
  ⟨toy_dirty_reachable,
    _, rfl, (dirty_set_membership toy_dirty
      toy_dirty_reachable 3 _ rfl).1⟩

/-! ## C9, C10: the address-transition assertions of `set_node_addr` -/

theorem sna_entry_blk_cached {sbi : f2fs_sb_info} {ni : node_info} {e : nat_entry}
    (new_blkaddr : Nat) (hc : __lookup_nat_cache sbi ni.nid = some e)
    (hb : e.ni.blk_addr = ni.blk_addr) :
    (sna_entry sbi ni new_blkaddr).ni.blk_addr = ni.blk_addr := by
  unfold sna_entry
  simp only [hc]
  split
  · rfl
  · exact hb

theorem sna_trip_cached {sbi : f2fs_sb_info} {ni : node_info} {e : nat_entry}
    (new_blkaddr : Nat) (hc : __lookup_nat_cache sbi ni.nid = some e)
    (hb : e.ni.blk_addr = ni.blk_addr) :
    sna_trip sbi ni new_blkaddr = false ↔ passing_transition ni.blk_addr new_blkaddr := by
  unfold sna_trip
  rw [sna_entry_blk_cached new_blkaddr hc hb]
  simp only [hc, passing_transition, listed_transition, addr_valid, NULL_ADDR, NEW_ADDR,
    Bool.or_eq_false_iff, Bool.and_eq_false_imp, beq_iff_eq, bne_iff_ne, ne_eq,
    beq_eq_false_iff_ne, bne_eq_false_iff_eq, Bool.and_eq_true, Bool.not_eq_true]
  generalize ni.blk_addr = x
  by_cases h1 : x = 0 <;> by_cases h2 : x = 4294967295 <;>
  by_cases h3 : new_blkaddr = 0 <;> by_cases h4 : new_blkaddr = 4294967295 <;> simp_all

/-- C9 as stated fails: in the toy layout NID 3 is cached with `NEW_ADDR`,
`set_node_addr(ni, NULL_ADDR)` with `ni.blk_addr = NEW_ADDR` passes every
assertion, and `NEW_ADDR → NULL_ADDR` is not one of the five listed
transitions. -/
theorem set_node_addr_new_to_null_passes :
    (∃ e, __lookup_nat_cache toy_new 3 = some e ∧ e.ni.blk_addr = NEW_ADDR) ∧
    (∃ s, set_node_addr toy_new { nid := 3, ino := 3, blk_addr := NEW_ADDR, version := 0 }
        NULL_ADDR false = .ok s) ∧
    ¬ listed_transition NEW_ADDR NULL_ADDR :=
  ⟨⟨_, rfl, rfl⟩, ⟨_, rfl⟩, by unfold listed_transition addr_valid; decide⟩

/-- C9, amended. With `old` the address cached for `ni.nid` and
`ni.blk_addr = old`, `set_node_addr` passes all of its assertions (and
returns) if and only if `(old, new)` is one of `NULL → NEW`, `NULL → valid`,
`NEW → valid`, `valid → valid`, `valid → NULL` or `NEW → NULL`; on every other
pair an `f2fs_bug_on` trips. -/
theorem set_node_addr_passing_transitions (sbi : f2fs_sb_info) (ni : node_info) (e : nat_entry)
    (new_blkaddr : Nat) (fsync_done : Bool)
    (hc : __lookup_nat_cache sbi ni.nid = some e) (hb : e.ni.blk_addr = ni.blk_addr) :
    ((∃ sbi', set_node_addr sbi ni new_blkaddr fsync_done = .ok sbi') ↔
        passing_transition ni.blk_addr new_blkaddr) ∧
    (¬ passing_transition ni.blk_addr new_blkaddr →
        set_node_addr sbi ni new_blkaddr fsync_done = .error Fault.bug_on) := by
  have key := sna_trip_cached new_blkaddr hc hb
  constructor
  · constructor
    · rintro ⟨sbi', h⟩
      exact key.1 (set_node_addr_inv h).1
    · intro hp
      obtain ⟨s, _, hs⟩ := set_node_addr_pass fsync_done (key.2 hp)
      exact ⟨_, hs⟩
  · intro hp
    apply set_node_addr_trip
    cases ht : sna_trip sbi ni new_blkaddr with
    | true => rfl
    | false => exact absurd (key.1 ht) hp

/-- C9, amended, instance: NID 3 cached with `NEW_ADDR` in the toy layout and
the new address `NULL_ADDR`. -/
theorem set_node_addr_passing_transitions_witness :
    (∃ sbi', set_node_addr toy_new { nid := 3, ino := 3, blk_addr := NEW_ADDR, version := 0 }
        NULL_ADDR false = .ok sbi') ↔ passing_transition NEW_ADDR NULL_ADDR :=
  (set_node_addr_passing_transitions toy_new
    { nid := 3, ino := 3, blk_addr := NEW_ADDR, version := 0 }
    { ni := { nid := 3, ino := 3, blk_addr := NEW_ADDR, version := 0 },
      flag := { IS_CHECKPOINTED := false, HAS_FSYNCED_INODE := false,
                HAS_LAST_FSYNC := false, IS_DIRTY := true } }
    NULL_ADDR false rfl rfl).1

theorem sna_trip_of_uncached {sbi : f2fs_sb_info} {ni : node_info} (new_blkaddr : Nat)
    (hc : __lookup_nat_cache sbi ni.nid = none) :
    sna_trip sbi ni new_blkaddr = (ni.blk_addr == NEW_ADDR ||
      (ni.blk_addr == NULL_ADDR && new_blkaddr == NULL_ADDR) ||
      (ni.blk_addr == NEW_ADDR && new_blkaddr == NEW_ADDR) ||
      (ni.blk_addr != NEW_ADDR && ni.blk_addr != NULL_ADDR && new_blkaddr == NEW_ADDR)) := by
  unfold sna_trip sna_entry
  simp [hc]

theorem sna_trip_of_cached_new {sbi : f2fs_sb_info} {ni : node_info} {e : nat_entry}
    (hc : __lookup_nat_cache sbi ni.nid = some e) (hn : ni.blk_addr ≠ NULL_ADDR) :
    sna_trip sbi ni NEW_ADDR = true := by
  unfold sna_trip
  simp [hc, hn]

theorem sna_trip_of_cached_old {sbi : f2fs_sb_info} {ni : node_info} {e : nat_entry}
    {new_blkaddr : Nat} (hc : __lookup_nat_cache sbi ni.nid = some e)
    (hn : new_blkaddr ≠ NEW_ADDR) :
    sna_trip sbi ni new_blkaddr = (e.ni.blk_addr != ni.blk_addr ||
      (e.ni.blk_addr == NULL_ADDR && new_blkaddr == NULL_ADDR)) := by
  unfold sna_trip sna_entry
  have hb : (new_blkaddr == NEW_ADDR) = false := by simp [hn]
  simp [hc, hn, hb]

/-- C10 as stated fails in its last clause: in the toy layout NID 3 is cached
with address 100, `set_node_addr` is called with `ni.blk_addr = NULL_ADDR`,
which differs from the cached address, and the new address `NEW_ADDR`; no
assertion trips and the entry is reinitialised. -/
theorem set_node_addr_reinit_passes :
    (∃ e, __lookup_nat_cache (toy_cached 100) 3 = some e ∧ e.ni.blk_addr = 100 ∧
      e.ni.blk_addr ≠ NULL_ADDR) ∧
    (∃ s, set_node_addr (toy_cached 100) { nid := 3, ino := 3, blk_addr := NULL_ADDR, version := 0 }
        NEW_ADDR false = .ok s) :=
  ⟨⟨_, rfl, rfl, by decide⟩, ⟨_, rfl⟩⟩

/-- C10, amended. For every state `set_node_addr` trips an `f2fs_bug_on` when
asked for `NULL → NULL`, for `NEW → NEW`, for `valid → NEW`, and for a move to
`NEW_ADDR` on an already cached entry with `ni.blk_addr != NULL_ADDR`; it also
trips when `ni.blk_addr` differs from the address of the cached entry, unless
the new address is `NEW_ADDR` and `ni.blk_addr` is `NULL_ADDR` (the
reinitialisation of a reallocated NID). -/
theorem set_node_addr_forbidden_transitions (sbi : f2fs_sb_info) (ni : node_info)
    (new_blkaddr : Nat) (fsync_done : Bool) :
    (ni.blk_addr = NULL_ADDR → new_blkaddr = NULL_ADDR →
      set_node_addr sbi ni new_blkaddr fsync_done = .error Fault.bug_on) ∧
    (ni.blk_addr = NEW_ADDR → new_blkaddr = NEW_ADDR →
      set_node_addr sbi ni new_blkaddr fsync_done = .error Fault.bug_on) ∧
    (addr_valid ni.blk_addr → new_blkaddr = NEW_ADDR →
      set_node_addr sbi ni new_blkaddr fsync_done = .error Fault.bug_on) ∧
    (∀ e, __lookup_nat_cache sbi ni.nid = some e → new_blkaddr = NEW_ADDR →
      ni.blk_addr ≠ NULL_ADDR →
      set_node_addr sbi ni new_blkaddr fsync_done = .error Fault.bug_on) ∧
    (∀ e, __lookup_nat_cache sbi ni.nid = some e → e.ni.blk_addr ≠ ni.blk_addr →
      ¬ (new_blkaddr = NEW_ADDR ∧ ni.blk_addr = NULL_ADDR) →
      set_node_addr sbi ni new_blkaddr fsync_done = .error Fault.bug_on) := by
  refine ⟨?_, ?_, ?_, ?_, ?_⟩
  · intro h1 h2
    apply set_node_addr_trip
    cases hc : __lookup_nat_cache sbi ni.nid with
    | none => rw [sna_trip_of_uncached _ hc]; simp [h1, h2]
    | some e =>
      rw [sna_trip_of_cached_old hc (by rw [h2]; decide)]
      by_cases hb : e.ni.blk_addr = ni.blk_addr
      · simp [hb, h1, h2]
      · simp [hb]
  · intro h1 h2
    apply set_node_addr_trip
    cases hc : __lookup_nat_cache sbi ni.nid with
    | none => rw [sna_trip_of_uncached _ hc]; simp [h1]
    | some e => rw [h2]; exact sna_trip_of_cached_new hc (by rw [h1]; decide)
  · intro h1 h2
    apply set_node_addr_trip
    cases hc : __lookup_nat_cache sbi ni.nid with
    | none => rw [sna_trip_of_uncached _ hc]; simp [h1.1, h1.2, h2]
    | some e => rw [h2]; exact sna_trip_of_cached_new hc h1.1
  · intro e hc h2 h1
    apply set_node_addr_trip
    rw [h2]; exact sna_trip_of_cached_new hc h1
  · intro e hc hb hx
    apply set_node_addr_trip
    by_cases hn : new_blkaddr = NEW_ADDR
    · rw [hn]; exact sna_trip_of_cached_new hc (fun h0 => hx ⟨hn, h0⟩)
    · rw [sna_trip_of_cached_old hc hn]; simp [hb]

/-- C10, amended, instance: NID 3 cached with address 100 in the toy layout,
`ni.blk_addr = 7` and the new address 200. -/
theorem set_node_addr_forbidden_transitions_witness :
    set_node_addr (toy_cached 100) { nid := 3, ino := 3, blk_addr := 7, version := 0 } 200 false
      = .error Fault.bug_on :=
  (set_node_addr_forbidden_transitions (toy_cached 100)
    { nid := 3, ino := 3, blk_addr := 7, version := 0 } 200 false).2.2.2.2
    { ni := { nid := 3, ino := 3, blk_addr := 100, version := 0 },
      flag := { IS_CHECKPOINTED := true, HAS_FSYNCED_INODE := false,
                HAS_LAST_FSYNC := true, IS_DIRTY := false } }
    rfl (by decide) (by decide)

/-! ## C11: the version bump of a deletion -/

/-- C11 as stated fails: in the toy layout with the on-disk record
`(version 255, ino 3, address 100)` for NID 3, `get_node_info(3)` reports
version 255 and a valid address; after `set_node_addr(ni, NULL_ADDR)` with
that info, `get_node_info(3)` reports version 0, which is not 255 + 1 and is
smaller than the version before the deletion. -/
theorem set_node_addr_null_wraps_version :
    ∃ s1 ni s2 r, get_node_info toy_aged 3 = .ok (s1, ni) ∧ ni.version = 255 ∧
      addr_valid ni.blk_addr ∧ set_node_addr s1 ni NULL_ADDR false = .ok s2 ∧
      get_node_info s2 3 = .ok (s2, r) ∧ r.version = 0 ∧ r.version ≠ ni.version + 1 ∧
      r.version < ni.version :=
  ⟨_, _, _, _, rfl, rfl, by decide, rfl, rfl, rfl, by decide, by decide⟩

/-- C11, amended. Deletion bumps the version by one modulo 256: when `ni` is
the current info of its NID (the cached entry, if there is one, holds `ni`)
and `ni.blk_addr` is valid, `set_node_addr(ni, NULL_ADDR)` returns and
`get_node_info(ni.nid)` then reports block address `NULL_ADDR` and version
`(v + 1) mod 256` for `v = ni.version`: that is `v + 1` as long as `v < 255`,
and 0 for `v = 255`. -/
theorem set_node_addr_null_bumps_version (sbi : f2fs_sb_info) (ni : node_info)
    (fsync_done : Bool) (hv : addr_valid ni.blk_addr)
    (hcur : ∀ e, __lookup_nat_cache sbi ni.nid = some e → e.ni = ni) :
    ∃ s' r, set_node_addr sbi ni NULL_ADDR fsync_done = .ok s' ∧
      get_node_info s' ni.nid = .ok (s', r) ∧ r.nid = ni.nid ∧ r.blk_addr = NULL_ADDR ∧
      r.version = (ni.version + 1) % 256 ∧
      (ni.version < 255 → r.version = ni.version + 1) ∧
      (ni.version = 255 → r.version = 0) := by
  obtain ⟨s, _, hs⟩ := set_node_addr_pass fsync_done (sna_trip_delete hv hcur)
  obtain ⟨e, he, hni⟩ := set_node_addr_lookup hs
  have hver : e.ni.version = (ni.version + 1) % 256 := by
    rw [hni]
    simp only [sna_update, sna_entry_current hcur, inc_node_version]
    have h2 : (ni.blk_addr != NEW_ADDR) = true := by simpa using hv.2
    simp [h2]
  have hblk : e.ni.blk_addr = NULL_ADDR := by
    rw [hni]; rfl
  refine ⟨_, _, hs, get_node_info_hit he, rfl, hblk, hver, ?_, ?_⟩
  · intro hlt
    show e.ni.version = ni.version + 1
    rw [hver]; omega
  · intro h255
    show e.ni.version = 0
    rw [hver, h255]

/-- C11, amended, instance: NID 3 cached in the toy layout with address 100
and version 0; the deletion with the cached info makes the version 1. -/
theorem set_node_addr_null_bumps_version_witness :
    ∃ s' r, set_node_addr (toy_cached 100) { nid := 3, ino := 3, blk_addr := 100, version := 0 }
        NULL_ADDR false = .ok s' ∧
      get_node_info s' 3 = .ok (s', r) ∧ r.blk_addr = NULL_ADDR ∧ r.version = 1 :=
  match set_node_addr_null_bumps_version (toy_cached 100)
      { nid := 3, ino := 3, blk_addr := 100, version := 0 } false (by decide)
      (fun e he => Option.some.inj (he : some _ = some e) ▸ rfl) with
  | ⟨s', r, h1, h2, _, h4, _, h6, _⟩ => ⟨s', r, h1, h2, h4, h6 (by decide)⟩

/-! ## C12: allocate, then write with the same `ni` -/

/-- C12. The sequence of `recover_xattr_data` trips an assertion: when
`ni.blk_addr = NULL_ADDR` and `set_node_addr(ni, NEW_ADDR)` has returned, the
cached entry holds `NEW_ADDR`, and `set_node_addr(ni, a)` with the same `ni`
and a valid address `a` stops at
`f2fs_bug_on(nat_get_blkaddr(e) != ni->blk_addr)`. -/
theorem set_node_addr_stale_ni_trips (sbi s1 : f2fs_sb_info) (ni : node_info) (a : Nat)
    (fsync_done fsync_done2 : Bool) (hn : ni.blk_addr = NULL_ADDR) (ha : addr_valid a)
    (h1 : set_node_addr sbi ni NEW_ADDR fsync_done = .ok s1) :
    (∃ e, __lookup_nat_cache s1 ni.nid = some e ∧ e.ni.blk_addr = NEW_ADDR) ∧
    set_node_addr s1 ni a fsync_done2 = .error Fault.bug_on := by
  obtain ⟨e, he, hni⟩ := set_node_addr_lookup h1
  have hblk : e.ni.blk_addr = NEW_ADDR := by rw [hni]; rfl
  refine ⟨⟨e, he, hblk⟩, set_node_addr_trip fsync_done2 ?_⟩
  have hse : sna_entry s1 ni a = e := by
    unfold sna_entry
    simp only [he, ha.2, if_false]
  unfold sna_trip
  rw [hse, hblk, hn]
  simp [NEW_ADDR, NULL_ADDR]

/-- C12, instance: in the empty toy layout, with `ni = (nid 3, ino 3,
NULL_ADDR, version 0)`, the call with `NEW_ADDR` returns and the call with
address 100 that follows trips the assertion. -/
theorem set_node_addr_stale_ni_trips_witness :
    (∃ s1, set_node_addr toy { nid := 3, ino := 3, blk_addr := NULL_ADDR, version := 0 }
      NEW_ADDR false = .ok s1) ∧
    set_node_addr toy_new { nid := 3, ino := 3, blk_addr := NULL_ADDR, version := 0 } 100 false
      = .error Fault.bug_on :=
  ⟨⟨toy_new, rfl⟩, (set_node_addr_stale_ni_trips toy toy_new
    { nid := 3, ino := 3, blk_addr := NULL_ADDR, version := 0 } 100 false false rfl
    (by decide) rfl).2⟩

/-! ## C13: the checkpointed flag of entries with a sentinel address -/

/-- C13 as stated fails: from the empty toy layout, whose on-disk record of
NID 3 has `NULL_ADDR`, `get_node_info(3)` misses and installs a cache entry
with block address `NULL_ADDR` and `IS_CHECKPOINTED = true`. -/
theorem get_node_info_installs_checkpointed_null :
    ∃ s r e, get_node_info toy 3 = .ok (s, r) ∧ ckpt_reachable s ∧
      __lookup_nat_cache s 3 = some e ∧ e.ni.blk_addr = NULL_ADDR ∧
      e.flag.IS_CHECKPOINTED = true :=
  ⟨toy_looked, _, _, rfl, toy_looked_ckpt_reachable, rfl, rfl, rfl⟩

/-- C13, amended. In every state reached from an empty cache, over a NAT area
and a journal without `NEW_ADDR` records, through `get_node_info`,
`set_node_addr`, `remove_nats_in_journal` and `flush_nat_entries`: every
cached entry whose block address is `NEW_ADDR` has `IS_CHECKPOINTED = false`;
whenever `set_node_addr` returns after setting `NULL_ADDR` or `NEW_ADDR`, the
entry of that NID holds the new address with `IS_CHECKPOINTED = false`; the
entry that `get_node_info` installs from disk on a miss holds the node
information read, `NULL_ADDR` included, with `IS_CHECKPOINTED = true`; and
every entry that is dirty when `flush_nat_entries` starts, one with
`NULL_ADDR` included, is clean with the same node information and
`IS_CHECKPOINTED = true` when the flush returns. -/
theorem new_addr_not_checkpointed (sbi : f2fs_sb_info) (h : ckpt_reachable sbi) :
    (∀ n e, __lookup_nat_cache sbi n = some e → e.ni.blk_addr = NEW_ADDR →
      e.flag.IS_CHECKPOINTED = false) ∧
    (∀ ni a fsync_done s', a = NULL_ADDR ∨ a = NEW_ADDR →
      set_node_addr sbi ni a fsync_done = .ok s' →
      ∃ e, __lookup_nat_cache s' ni.nid = some e ∧ e.ni.blk_addr = a ∧
        e.flag.IS_CHECKPOINTED = false) ∧
    (∀ n s' ni, __lookup_nat_cache sbi n = none → get_node_info sbi n = .ok (s', ni) →
      ∃ e, __lookup_nat_cache s' n = some e ∧ e.ni = ni ∧ e.flag.IS_DIRTY = false ∧
        e.flag.IS_CHECKPOINTED = true) ∧
    (∀ n e s', 0 < sbi.cfg.SETVEC_SIZE → __lookup_nat_cache sbi n = some e →
      e.flag.IS_DIRTY = true → flush_nat_entries sbi = .ok s' →
      ∃ v, __lookup_nat_cache s' n = some v ∧ v.ni = e.ni ∧ v.flag.IS_DIRTY = false ∧
        v.flag.IS_CHECKPOINTED = true) := by
  refine ⟨h.invariants.2.2.2, ?_, fun n s' ni hl hs => get_node_info_installs hl hs,
    fun n e s' hsv he hd hs =>
      flush_nat_entries_checkpoints h.invariants.1 h.invariants.2.1 hsv hs he hd⟩
  intro ni a fsync_done s' ha hs
  have h1 := set_node_addr_view hs ni.nid
  simp only [if_true] at h1
  cases hl : __lookup_nat_cache s' ni.nid with
  | none => rw [hl] at h1; simp at h1
  | some e =>
    rw [hl] at h1
    simp only [Option.map_some', Option.some.injEq, ckpt_view, Prod.mk.injEq, sna_update] at h1
    refine ⟨e, rfl, ?_, ?_⟩
    · rw [h1.1]
    · rw [h1.2]
      rcases ha with ha | ha <;> simp [ha]

/-- C13, amended, instance: after `set_node_addr(ni, NEW_ADDR)` in the toy
layout the entry of NID 3 holds `NEW_ADDR` and is not checkpointed; and when
the node 3 is written at block address 100 and deleted, its entry is dirty
with `NULL_ADDR` and not checkpointed, and after the flush it holds
`NULL_ADDR` and is checkpointed. -/
theorem new_addr_not_checkpointed_witness :
    (∃ e, __lookup_nat_cache toy_new 3 = some e ∧ e.ni.blk_addr = NEW_ADDR ∧
      e.flag.IS_CHECKPOINTED = false) ∧
    (∃ e, __lookup_nat_cache toy_unlinked 3 = some e ∧ e.ni.blk_addr = NULL_ADDR ∧
      e.flag.IS_DIRTY = true ∧ e.flag.IS_CHECKPOINTED = false) ∧
    flush_nat_entries toy_unlinked = .ok toy_unlinked_flushed ∧
    (∃ v, __lookup_nat_cache toy_unlinked_flushed 3 = some v ∧ v.ni.blk_addr = NULL_ADDR ∧
      v.flag.IS_CHECKPOINTED = true) :=
  ⟨⟨_, rfl, rfl, (new_addr_not_checkpointed toy_new toy_new_ckpt_reachable).1 3 _ rfl rfl⟩,
    ⟨_, rfl, rfl, rfl, rfl⟩, rfl,
    match (new_addr_not_checkpointed toy_unlinked toy_unlinked_ckpt_reachable).2.2.2 3
      { ni := { nid := 3, ino := 3, blk_addr := NULL_ADDR, version := 1 },
        flag := { IS_CHECKPOINTED := false, HAS_FSYNCED_INODE := false,
                  HAS_LAST_FSYNC := false, IS_DIRTY := true } }
      toy_unlinked_flushed (by decide) rfl rfl rfl with
    | ⟨v, h1, h2, _, h4⟩ => ⟨v, h1, by rw [h2], h4⟩⟩

/-! ## C14: lookup precedence of `get_node_info` -/

/-- C14. Lookup precedence, for a NID of 32 bits and a positive
`NAT_ENTRY_PER_BLOCK`. (1) If `nid` is cached, `get_node_info(nid)` returns
the ino, block address and version of the cached entry and leaves the state
as it is. (2) If `nid` is not cached and slot `i` is the first used slot of
the NAT journal that records `nid`, it returns the record of slot `i`.
(3) If `nid` is not cached and no used slot of the journal records it, it
returns record number `nid mod NAT_ENTRY_PER_BLOCK` of the current copy of NAT
block `nid / NAT_ENTRY_PER_BLOCK`. In the cases (2) and (3) the state it
returns has a cache entry for `nid` that holds exactly the info returned. -/
theorem get_node_info_precedence (sbi : f2fs_sb_info) (nid : Nat)
    (hN : 0 < sbi.cfg.NAT_ENTRY_PER_BLOCK) (hn : nid < 4294967296) :
    (∀ e, __lookup_nat_cache sbi nid = some e →
      get_node_info sbi nid = .ok (sbi,
        { nid := nid, ino := e.ni.ino, blk_addr := e.ni.blk_addr, version := e.ni.version })) ∧
    (__lookup_nat_cache sbi nid = none →
      ∀ i, i < sbi.disk.n_nats → (sbi.disk.nat_j i).nid = nid →
        (∀ m, m < i → (sbi.disk.nat_j m).nid ≠ nid) →
        ∃ s' e', get_node_info sbi nid = .ok (s',
            { nid := nid, ino := (sbi.disk.nat_j i).ne.ino,
              blk_addr := (sbi.disk.nat_j i).ne.block_addr,
              version := (sbi.disk.nat_j i).ne.version }) ∧
          __lookup_nat_cache s' nid = some e' ∧
          e'.ni = { nid := nid, ino := (sbi.disk.nat_j i).ne.ino,
                    blk_addr := (sbi.disk.nat_j i).ne.block_addr,
                    version := (sbi.disk.nat_j i).ne.version }) ∧
    (__lookup_nat_cache sbi nid = none →
      (∀ m, m < sbi.disk.n_nats → (sbi.disk.nat_j m).nid ≠ nid) →
        ∀ rec : f2fs_nat_entry,
          rec = sbi.disk.nat_page (nid / sbi.cfg.NAT_ENTRY_PER_BLOCK)
            (sbi.disk.nat_bitmap (nid / sbi.cfg.NAT_ENTRY_PER_BLOCK))
            (nid % sbi.cfg.NAT_ENTRY_PER_BLOCK) →
        ∃ s' e', get_node_info sbi nid = .ok (s',
            { nid := nid, ino := rec.ino, blk_addr := rec.block_addr,
              version := rec.version }) ∧
          __lookup_nat_cache s' nid = some e' ∧
          e'.ni = { nid := nid, ino := rec.ino, blk_addr := rec.block_addr,
                    version := rec.version }) := by
  refine ⟨fun e he => get_node_info_hit he, ?_, ?_⟩
  · intro hmiss i hi hv hf
    have hc : cold_read sbi nid = (sbi.disk.nat_j i).ne := by
      rw [cold_read_eq sbi nid hN hn, journal_scan_of_first hi hv hf]
    have hg := get_node_info_miss hmiss
    rw [hc] at hg
    exact ⟨_, _, hg, by rw [lookup_cache_result hmiss, if_pos rfl], rfl⟩
  · intro hmiss hf rec hrec
    have hc : cold_read sbi nid = rec := by
      rw [cold_read_eq sbi nid hN hn, journal_scan_of_absent hf, hrec]
    have hg := get_node_info_miss hmiss
    rw [hc] at hg
    exact ⟨_, _, hg, by rw [lookup_cache_result hmiss, if_pos rfl], rfl⟩

/-- C14, instance: in the toy layout with the on-disk record
`(version 255, ino 3, address 100)` for NID 3, nothing cached and an empty
journal, `get_node_info(3)` returns that record and installs it. -/
theorem get_node_info_precedence_witness :
    ∃ s' e', get_node_info toy_aged 3 = .ok (s',
        { nid := 3, ino := 3, blk_addr := 100, version := 255 }) ∧
      __lookup_nat_cache s' 3 = some e' ∧
      e'.ni = { nid := 3, ino := 3, blk_addr := 100, version := 255 } :=
  (get_node_info_precedence toy_aged 3 (by decide) (by decide)).2.2 rfl
    (fun m hm => absurd hm (Nat.not_lt_zero m))
    { version := 255, ino := 3, block_addr := 100 } rfl

/-! ## C15: how often the flush flips a NAT bitmap bit -/

/-- C15. With two NAT shards and no room in the journal, the NIDs 2 and 3 of
NAT block 0 are dirty in shard 0 and in shard 1, in one set each.
`flush_nat_entries` orders the two sets, flushes the set of shard 0 through
the block path (the bit of block 0 flips and the second copy is dirty), and
stops in `get_next_nat_page` for the set of shard 1 at
`f2fs_bug_on(PageDirty(src_page))`: the flush does not return. -/
theorem flush_two_shards_one_block_trips :
    (∃ e2 e3, __lookup_nat_cache toy_two 2 = some e2 ∧ e2.flag.IS_DIRTY = true ∧
      __lookup_nat_cache toy_two 3 = some e3 ∧ e3.flag.IS_DIRTY = true ∧
      NAT_BLOCK_OFFSET toy_two 2 = 0 ∧ NAT_BLOCK_OFFSET toy_two 3 = 0 ∧
      TREE_IDX 2 toy_two = 0 ∧ TREE_IDX 3 toy_two = 1) ∧
    flush_collect toy_two.cfg.nat_tree_cnt toy_two 0 [] = .ok [(0, 0), (1, 0)] ∧
    toy_two.disk.nat_bitmap 0 = false ∧
    __flush_nat_entry_set toy_two (0, 0) = .ok toy_two_first ∧
    toy_two_first.disk.nat_bitmap 0 = true ∧
    toy_two_first.disk.nat_page_dirty 0 true = true ∧
    get_next_nat_page toy_two_first 0 = .error Fault.bug_on ∧
    __flush_nat_entry_set toy_two_first (1, 0) = .error Fault.bug_on ∧
    flush_nat_entries toy_two = .error Fault.bug_on :=
  ⟨⟨_, _, rfl, rfl, rfl, rfl, rfl, rfl, rfl, rfl⟩, rfl, rfl, rfl, rfl, rfl, rfl, rfl, rfl⟩

/-! ## C16: the order in which the flush takes the dirty sets -/

/-- C16. Smallest-first ordering. (1) For every sequence `ins` of sets
inserted by `__adjust_nat_entry_set` into the empty list with a fixed bound
`max` (an `int`), the resulting list is a permutation of `ins` made of the
sets with `entry_cnt < max`, in non-decreasing order of `entry_cnt`, followed
by the sets with `entry_cnt >= max`. (2) Under the invariant of the cache,
`flush_nat_entries` flushes all the dirty sets, looked up shard by shard, in
the order of the list built that way with `max = MAX_NAT_JENTRIES`. -/
theorem flush_sets_smallest_first (sbi : f2fs_sb_info) (h : nat_inv sbi) (hj : journal_ok sbi)
    (hsv : 0 < sbi.cfg.SETVEC_SIZE) :
    (∀ (s : f2fs_sb_info) (max : Int) (ins : List (Nat × Nat)), max ≤ 2147483647 →
      (adjust_all s max ins).Perm ins ∧
      ∃ small big, adjust_all s max ins = small ++ big ∧
        (∀ x ∈ small, (set_entry_cnt s x : Int) < max) ∧
        small.Pairwise (fun a b => set_entry_cnt s a ≤ set_entry_cnt s b) ∧
        (∀ x ∈ big, max ≤ (set_entry_cnt s x : Int))) ∧
    flush_nat_entries sbi =
      (if sum_up sbi.nat.percore_dirty_nat_cnt sbi.cfg.nat_tree_cnt = 0
       then .ok (flush_counted sbi)
       else match flush_drain (flush_counted sbi) with
        | .error f => .error f
        | .ok s1 => flush_sets (adjust_all s1 (MAX_NAT_JENTRIES s1) (all_sets s1)) s1) := by
  refine ⟨?_, flush_nat_entries_order h hj hsv⟩
  intro s max ins hmax
  obtain ⟨⟨small, big, e, h1, h2, h3⟩, hp⟩ := adjust_all_ordered s max ins
  refine ⟨hp, ?_⟩
  by_cases h0 : 0 ≤ max
  · have hm := int_to_u32_of_nonneg h0 hmax
    refine ⟨small, big, e, ?_, h2, ?_⟩
    · intro x hx
      have := h1 x hx
      omega
    · intro x hx
      have := h3 x hx
      omega
  · refine ⟨[], adjust_all s max ins, rfl, fun _ hx => absurd hx (List.not_mem_nil _),
      List.Pairwise.nil, ?_⟩
    intro x _
    omega

/-- C16, instance: in the toy layout with the NIDs 2 and 3 dirty, three sets
of shard 0 and shard 1 inserted with the bound 1 come out as a permutation,
and the flush of `toy_dirty` is the flush of its one set. -/
theorem flush_sets_smallest_first_witness :
    (adjust_all toy_two 1 [(0, 0), (1, 0), (0, 1)]).Perm [(0, 0), (1, 0), (0, 1)] ∧
    flush_nat_entries toy_dirty = flush_sets [(1, 0)] (flush_counted toy_dirty) :=
  ⟨((flush_sets_smallest_first toy_dirty toy_dirty_reachable.inv.1 toy_dirty_reachable.inv.2
      (by decide)).1 toy_two 1 [(0, 0), (1, 0), (0, 1)] (by decide)).1,
   (flush_sets_smallest_first toy_dirty toy_dirty_reachable.inv.1 toy_dirty_reachable.inv.2
      (by decide)).2.trans rfl⟩

/-- C17, the claim fails when the kernel has no memory for a tree node: the
toy volume holds the node 3 at block address 100 and is mounted while
`radix_tree_preload` fails, so the pool is empty. The node 3 is deleted
(`get_node_info`, then `set_node_addr(ni, NULL_ADDR)`), so its entry is dirty
with `NULL_ADDR`. The flush returns and leaves the entry clean and on the LRU
list of shard 1, the free-NID memory budget permits before and after, and
still NID 3 is not in the pool: `add_free_nid` returns 0 after
`radix_tree_preload`. -/
theorem flush_loses_nid_without_tree_memory :
    build_all_free_nids (fun _ => true) (toy_node true) = .ok (toy_node_mounted true) ∧
    nat_reachable (toy_gone true) ∧ radix_tree_preload (toy_gone true) = -12 ∧
    (∃ e, __lookup_nat_cache (toy_gone true) 3 = some e ∧ e.flag.IS_DIRTY = true ∧
      e.ni.blk_addr = NULL_ADDR) ∧
    flush_nat_entries (toy_gone true) = .ok (toy_gone_flushed true) ∧
    (∃ v, __lookup_nat_cache (toy_gone_flushed true) 3 = some v ∧ v.flag.IS_DIRTY = false ∧
      v.ni.blk_addr = NULL_ADDR) ∧
    3 ∈ (toy_gone_flushed true).nat.nat_entries 1 ∧
    (available_free_memory (toy_gone true) mem_type.FREE_NIDS).2 = true ∧
    (available_free_memory (toy_gone_flushed true) mem_type.FREE_NIDS).2 = true ∧
    __lookup_free_nid_list (toy_gone_flushed true) 3 = none ∧
    (toy_gone_flushed true).free.free_nid_list 0 = [] ∧
    (toy_gone_flushed true).free.free_nid_list 1 = [] :=
  ⟨rfl, toy_gone_enomem_reachable, rfl, ⟨_, rfl, rfl, rfl⟩, rfl, ⟨_, rfl, rfl, rfl⟩, by decide,
    rfl, rfl, rfl, rfl, rfl⟩

/-- C17, amended: when the NAT cache and the journal are consistent, the
memory budget permits as many free NIDs as the pool and the dirty entries and
the journal slots count together, `radix_tree_preload` finds memory, and
`flush_nat_entries` returns, every entry that was dirty with block address
`NULL_ADDR` is cached with the same node information, clean and on the LRU
list of its shard, and its NID, unless it is 0, is in the free-NID pool: a
NID that was not in the pool before the flush is in the tree of its shard in
state `NID_NEW` and on the list of its shard, from where `alloc_nid` hands it
out again; a NID that was in the pool has the entry it had and is on the list
if it was. -/
theorem flush_frees_null_entries (sbi sbi' : f2fs_sb_info) (h : nat_inv sbi)
    (hj : journal_ok sbi) (hsv : 0 < sbi.cfg.SETVEC_SIZE)
    (hB : budget_permits sbi (fcnt_total sbi + dirty_total sbi + sbi.disk.n_nats))
    (hp : radix_tree_preload sbi = 0)
    (hs : flush_nat_entries sbi = .ok sbi') (n : Nat) (e : nat_entry)
    (he : __lookup_nat_cache sbi n = some e) (hd : e.flag.IS_DIRTY = true)
    (hnull : e.ni.blk_addr = NULL_ADDR) :
    ∃ v, __lookup_nat_cache sbi' n = some v ∧ v.ni = e.ni ∧ v.flag.IS_DIRTY = false ∧
      n ∈ sbi'.nat.nat_entries (n % sbi'.cfg.nat_tree_cnt) ∧
      (n ≠ 0 →
        (∃ w, __lookup_free_nid_list sbi' n = some w) ∧
        (__lookup_free_nid_list sbi n = none →
          __lookup_free_nid_list sbi' n = some { nid := n, state := nid_state.NID_NEW } ∧
          n ∈ sbi'.free.free_nid_list (LIST_IDX n sbi')) ∧
        (∀ w, __lookup_free_nid_list sbi n = some w → __lookup_free_nid_list sbi' n = some w) ∧
        (n ∈ sbi.free.free_nid_list (LIST_IDX n sbi) →
          n ∈ sbi'.free.free_nid_list (LIST_IDX n sbi'))) := by
  have h0 : nat_inv (flush_counted sbi) := h.congr rfl rfl rfl rfl rfl rfl
  have j0 : journal_ok (flush_counted sbi) := hj.same rfl rfl
  have hz := flush_nat_entries_clean h hj hsv hs
  have i' := h.flush_nat_entries hj hs
  rcases flush_nat_entries_inv hs with ⟨hz0, _⟩ | ⟨_, s1, sets, hdr, _, hfl⟩
  · have := (h.dirty_pos he hd).1
    have := h.dirty_zero_of_sum hz0 (n % sbi.cfg.nat_tree_cnt)
    omega
  · obtain ⟨i1, j1, _⟩ := flush_drain_inv h0 j0 hdr
    obtain ⟨t1, c1, f1, a1⟩ := flush_drain_total hdr
    have he1 : __lookup_nat_cache s1 n = some e :=
      flush_drain_lookup hdr (show __lookup_nat_cache (flush_counted sbi) n = some e from he) hd
    have hl1 : ∀ m, __lookup_free_nid_list s1 m = __lookup_free_nid_list sbi m := by
      intro m
      unfold __lookup_free_nid_list LIST_IDX
      rw [f1, c1]
      rfl
    have hx1 : LIST_IDX n s1 = LIST_IDX n sbi := by
      unfold LIST_IDX
      rw [c1]
      rfl
    have r1 : freed_inv sbi (fcnt_total sbi + dirty_total sbi + sbi.disk.n_nats) n e.ni s1 := by
      refine ⟨c1, a1, ?_, fun w hw => by rw [hl1]; exact hw, fun hm => ?_, e, he1, rfl,
        fun _ hl0 => by rw [hl1]; exact hl0, fun hc => ?_⟩
      · have : fcnt_total s1 = fcnt_total sbi := by
          unfold fcnt_total
          rw [c1, f1]
          rfl
        have t1' : dirty_total s1 ≤ dirty_total sbi + sbi.disk.n_nats := t1
        omega
      · rw [hx1, f1]
        exact hm
      · rw [hd] at hc
        cases hc
    obtain ⟨c2, _, _, p1, p2, v, hv, hvi, _, hvc⟩ :=
      (freed_flush_stable sbi _ n e.ni hB hp hnull).keep_sets sets s1 sbi' i1 j1 r1 hfl
    have hclean : v.flag.IS_DIRTY = false := by
      cases hvd : v.flag.IS_DIRTY with
      | false => rfl
      | true =>
        have := (i'.1.dirty_pos hv hvd).1
        have := hz (n % sbi'.cfg.nat_tree_cnt)
        omega
    refine ⟨v, hv, hvi, hclean, (hvc hclean).1, fun hn0 => ⟨?_, (hvc hclean).2 hn0, p1, p2⟩⟩
    cases hl0 : __lookup_free_nid_list sbi n with
    | none => exact ⟨_, ((hvc hclean).2 hn0 hl0).1⟩
    | some w => exact ⟨w, p1 w hl0⟩

/-- C17, instance: the toy volume holds the node 3 at block address 100 and
is mounted with memory to spare, which pools the NIDs 4 to 34. The node 3 is
deleted; after the flush its entry is clean and on the LRU list of shard 1,
and NID 3 is in the tree of list 1 in state `NID_NEW` and at the tail of
list 1; the calls of `alloc_nid` that follow hand out the NIDs of the two
lists in turn, and the thirty-first hands out NID 3 again. -/
theorem flush_frees_null_entries_witness :
    build_all_free_nids (fun _ => true) (toy_node false) = .ok (toy_node_mounted false) ∧
    __lookup_free_nid_list (toy_gone false) 3 = none ∧
    flush_nat_entries (toy_gone false) = .ok (toy_gone_flushed false) ∧
    (∃ v, __lookup_nat_cache (toy_gone_flushed false) 3 = some v ∧
      v.ni = { nid := 3, ino := 3, blk_addr := NULL_ADDR, version := 1 } ∧
      v.flag.IS_DIRTY = false ∧
      3 ∈ (toy_gone_flushed false).nat.nat_entries 1 ∧
      __lookup_free_nid_list (toy_gone_flushed false) 3
        = some { nid := 3, state := nid_state.NID_NEW } ∧
      3 ∈ (toy_gone_flushed false).free.free_nid_list 1) ∧
    (toy_gone_flushed false).free.free_nid_list 1
      = [5, 7, 9, 11, 13, 15, 17, 19, 21, 23, 25, 27, 29, 31, 33, 3] ∧
    (pool_run (toy_gone_flushed false) (List.replicate 31 (pool_op.alloc 1))).toOption.map
        (fun r => r.2)
      = some [5, 4, 7, 6, 9, 8, 11, 10, 13, 12, 15, 14, 17, 16, 19, 18, 21, 20, 23, 22, 25, 24,
          27, 26, 29, 28, 31, 30, 33, 32, 3] :=
  ⟨rfl, rfl, rfl,
    match flush_frees_null_entries (toy_gone false) (toy_gone_flushed false)
      toy_gone_reachable.inv.1 toy_gone_reachable.inv.2 (by decide) toy_gone_budget rfl rfl 3
      { ni := { nid := 3, ino := 3, blk_addr := NULL_ADDR, version := 1 },
        flag := { IS_CHECKPOINTED := false, HAS_FSYNCED_INODE := false,
                  HAS_LAST_FSYNC := false, IS_DIRTY := true } }
      rfl rfl rfl with
    | ⟨v, h1, h2, h3, h4, h5⟩ =>
      ⟨v, h1, h2, h3, h4, ((h5 (by decide)).2.1 rfl).1, ((h5 (by decide)).2.1 rfl).2⟩,
    rfl, by decide⟩

/-! ## C18: what a successful `alloc_nid` leaves -/

/-- C18 as stated fails when `alloc_nid` refills the pool: the toy pool is
empty, as a mount leaves it when `add_free_nid` returns -1 for every NID
while the memory budget is used up, and the NAT journal records NID 5 as
free. With the budget permitting again, `alloc_nid` finds the list it selects
empty, builds the free NIDs from the journal and returns 5 on its third pass:
NID 5 was on no list and in no tree before the call, and the counter of its
list is 0 before and after, not one less. -/
theorem alloc_nid_takes_built_nid :
    build_all_free_nids (fun _ => true) toy_jfree_low = .ok toy_jfree_low ∧
    toy_jfree = { toy_jfree_low with avail_ram := 1000000 } ∧
    pool_reachable toy_jfree ∧
    toy_jfree.free.free_nid_list 0 = [] ∧ toy_jfree.free.free_nid_list 1 = [] ∧
    __lookup_free_nid_list toy_jfree 5 = none ∧ toy_jfree.free.percore_fcnt 1 = 0 ∧
    ∃ s1, alloc_nid 3 toy_jfree = .ok (s1, some 5) ∧
      __lookup_free_nid_list s1 5 = some { nid := 5, state := nid_state.NID_ALLOC } ∧
      s1.free.free_nid_list 1 = [5] ∧ s1.free.percore_fcnt 1 = 0 :=
  ⟨rfl, rfl, toy_jfree_reachable, rfl, rfl, rfl, rfl, _, rfl, rfl, rfl, rfl⟩

/-- C18, amended. When `alloc_nid` returns true with NID `n` from a reachable
pool, it made `k` passes through `retry` that found the list they selected
without free NIDs or a build running, each of which incremented
`next_allocator` and ran `build_free_nids` under `build_lock` if that list
was still empty, and it took `n` on the next pass, from the state `sk` after
those passes and the list `alloc_list sk` that pass selects. `sk` has the
configuration of the call, it is the state of the call when the list selected
first has free NIDs and no build is running, and it has the trees, lists and
counters of the call when the journal has no slot. In `sk`, `n` is a member of that list, no member before
it is in state `NID_NEW`, the entry of `n` is `(n, NID_NEW)` and the list is
the shard of `n`. Afterwards the entry of `n` is `(n, NID_ALLOC)`, the counter
of the list is one less, and every other entry, the counter of every other
list and every list are as in `sk`. -/
theorem alloc_nid_success_post (sbi sbi' : f2fs_sb_info) (fuel n : Nat)
    (hr : pool_reachable sbi) (h : alloc_nid fuel sbi = .ok (sbi', some n)) :
    ∃ k sk, k < fuel ∧ alloc_nid_passes k sbi = .ok sk ∧ sk.cfg = sbi.cfg ∧
      (∀ j sj, j < k → alloc_nid_passes j sbi = .ok sj → ¬ alloc_ready sj) ∧
      alloc_ready sk ∧ (alloc_ready sbi → sk = sbi) ∧
      (sbi.disk.n_nats = 0 → sk.free.free_nid_root = sbi.free.free_nid_root ∧
        sk.free.free_nid_list = sbi.free.free_nid_list ∧
        sk.free.percore_fcnt = sbi.free.percore_fcnt) ∧
      alloc_nid_take (alloc_bump sk) (alloc_list sk) = .ok (sbi', n) ∧
      (∃ pre post, sk.free.free_nid_list (alloc_list sk) = pre ++ n :: post ∧
        ∀ m ∈ pre, ∀ v, __lookup_free_nid_list sk m = some v → v.state ≠ nid_state.NID_NEW) ∧
      __lookup_free_nid_list sk n = some { nid := n, state := nid_state.NID_NEW } ∧
      LIST_IDX n sk = alloc_list sk ∧
      __lookup_free_nid_list sbi' n = some { nid := n, state := nid_state.NID_ALLOC } ∧
      sbi'.free.percore_fcnt (alloc_list sk) + 1 = sk.free.percore_fcnt (alloc_list sk) ∧
      (∀ m, m ≠ n → __lookup_free_nid_list sbi' m = __lookup_free_nid_list sk m) ∧
      (∀ l', l' ≠ alloc_list sk → sbi'.free.percore_fcnt l' = sk.free.percore_fcnt l') ∧
      sbi'.free.free_nid_list = sk.free.free_nid_list := by
  obtain ⟨k, sk, hk, hp, hnr, hrd, ht⟩ := alloc_nid_passes_nf fuel sbi sbi' n h
  obtain ⟨ik, ck⟩ := pool_inv.passes k sbi sk hr.pool_ok hp
  have h0 : pool_inv (alloc_bump sk) := ik.of_eq rfl rfl rfl (fun l => (ik l).cnt_lt)
  obtain ⟨hf, e⟩ := alloc_nid_take_nf h0 ht
  obtain ⟨pre, post, hsplit, hpre, v, hv, hst⟩ := first_new_split (alloc_bump sk) _ hf
  have hmem : n ∈ (alloc_bump sk).free.free_nid_list (alloc_list sk) := by rw [hsplit]; simp
  obtain ⟨hnl, _, _⟩ := h0.of_list hmem
  have hvn : v.nid = n := (h0.lookup_nid hv).1
  have hveq : v = { nid := n, state := nid_state.NID_NEW } := by
    cases v with
    | mk a b =>
      simp only at hvn hst
      rw [hvn, hst]
  rw [hveq] at hv
  subst e
  refine ⟨k, sk, hk, hp, ck, hnr, hrd, ?_, fun hj => alloc_nid_passes_dry k sbi sk hj hp, ht,
    ⟨pre, post, hsplit, hpre⟩, hv, hnl, ?_, ?_, ?_, ?_, rfl⟩
  · intro hready
    cases k with
    | zero =>
      simp only [alloc_nid_passes, Except.ok.injEq] at hp
      exact hp.symm
    | succ k => exact absurd hready (hnr 0 sbi (Nat.succ_pos k) rfl)
  · rw [lookup_take_result, if_pos rfl, hv]; rfl
  · show arr_set sk.free.percore_fcnt (alloc_list sk)
      (u32_dec (sk.free.percore_fcnt (alloc_list sk))) (alloc_list sk) + 1 = _
    rw [arr_set_same]
    have := (ik (alloc_list sk)).cnt_lt
    have := hrd.1
    unfold u32_dec
    omega
  · intro m hm
    rw [lookup_take_result, if_neg hm]
    rfl
  · intro l' hl'
    show arr_set sk.free.percore_fcnt (alloc_list sk)
      (u32_dec (sk.free.percore_fcnt (alloc_list sk))) l' = _
    rw [arr_set_other _ _ _ _ hl']

/-- C18, amended, instance: in the toy layout with an empty pool and NID 5
free in the journal, `alloc_nid` returns 5 after two passes that end in
`goto retry`; in the state after those passes NID 5 is in state `NID_NEW` on
list 1, and the counter of list 1 is one less once `alloc_nid` has returned. -/
theorem alloc_nid_success_post_witness :
    alloc_nid 3 toy_jfree = .ok (toy_jfree_taken, some 5) ∧
    ∃ k sk, k < 3 ∧ alloc_nid_passes k toy_jfree = .ok sk ∧
      __lookup_free_nid_list sk 5 = some { nid := 5, state := nid_state.NID_NEW } ∧
      __lookup_free_nid_list toy_jfree_taken 5
        = some { nid := 5, state := nid_state.NID_ALLOC } ∧
      toy_jfree_taken.free.percore_fcnt (alloc_list sk) + 1
        = sk.free.percore_fcnt (alloc_list sk) :=
  ⟨rfl,
    match alloc_nid_success_post toy_jfree toy_jfree_taken 3 5 toy_jfree_reachable rfl with
    | ⟨k, sk, h1, h2, _, _, _, _, _, _, _, h9, _, h11, h12, _⟩ =>
      ⟨k, sk, h1, h2, h9, h11, h12⟩⟩

/-! ## C19: `alloc_nid` followed by `alloc_nid_failed` -/

/-- C19 as stated fails: in the toy layout the pool is empty and the NAT
journal records NID 5 as free. `alloc_nid` finds its lists empty, builds the
free NIDs from the journal and returns 5; `alloc_nid_failed(5)`, with the
memory budget permitting, leaves NID 5 in the pool in state `NID_NEW` and the
counter of list 1 at 1, which is not the pool before `alloc_nid`. The pool is
the one a mount leaves when `add_free_nid` returns -1 for every NID while the
memory budget is used up. -/
theorem alloc_nid_failed_keeps_built_nid :
    build_all_free_nids (fun _ => true) toy_jfree_low = .ok toy_jfree_low ∧
    toy_jfree = { toy_jfree_low with avail_ram := 1000000 } ∧
    pool_reachable toy_jfree ∧ toy_jfree.free.free_nid_list 1 = [] ∧
    toy_jfree.free.percore_fcnt 1 = 0 ∧
    ∃ s1 s2, alloc_nid 3 toy_jfree = .ok (s1, some 5) ∧
      (available_free_memory s1 mem_type.FREE_NIDS).2 = true ∧
      alloc_nid_failed s1 5 = .ok s2 ∧ s2.free.free_nid_list 1 = [5] ∧
      s2.free.percore_fcnt 1 = 1 ∧
      __lookup_free_nid_list s2 5 = some { nid := 5, state := nid_state.NID_NEW } :=
  ⟨rfl, rfl, toy_jfree_reachable, rfl, rfl, _, _, rfl, rfl, rfl, rfl, rfl, rfl⟩

/-- C19, amended. When `alloc_nid` returns true with NID `n` from a reachable
pool, it took `n` from a list `l` in a state `s0`: the state of the call once
`next_allocator` is incremented, if the list selected first has free NIDs and
no build is running (then the trees, lists and counters of `s0` are those
before `alloc_nid`), the state after the builds of the earlier passes
otherwise: `s0` is the state after `k` passes of `alloc_nid` that ended in
`goto retry`, with `next_allocator` incremented once more, and `l` is the
list that state selects. `alloc_nid_failed(n)` then returns. While the
memory budget permits, it restores the trees, the lists and the counters of
`s0` (same members, `n` in state `NID_NEW` at its list position,
`percore_fcnt` as in `s0`), so that the scan of list `l` finds `n` again;
when the budget does not permit, `n` is in no tree and on no list
afterwards. -/
theorem alloc_nid_failed_round_trip (sbi sbi' : f2fs_sb_info) (fuel n : Nat)
    (hr : pool_reachable sbi) (h : alloc_nid fuel sbi = .ok (sbi', some n)) :
    ∃ s0 l s2, s0.cfg = sbi.cfg ∧ alloc_nid_take s0 l = .ok (sbi', n) ∧
      ((sbi.free.percore_fcnt (alloc_list sbi) ≠ 0 ∧ sbi.free.build_lock = false) →
        l = alloc_list sbi ∧ s0.free.free_nid_root = sbi.free.free_nid_root ∧
        s0.free.free_nid_list = sbi.free.free_nid_list ∧
        s0.free.percore_fcnt = sbi.free.percore_fcnt) ∧
      alloc_nid_failed sbi' n = .ok s2 ∧
      ((available_free_memory sbi' mem_type.FREE_NIDS).2 = true →
        s2.free.free_nid_root = s0.free.free_nid_root ∧
        s2.free.free_nid_list = s0.free.free_nid_list ∧
        s2.free.percore_fcnt = s0.free.percore_fcnt ∧
        __lookup_free_nid_list s2 n = some { nid := n, state := nid_state.NID_NEW } ∧
        first_new s2 (s2.free.free_nid_list l) = some n) ∧
      ((available_free_memory sbi' mem_type.FREE_NIDS).2 = false →
        __lookup_free_nid_list s2 n = none ∧ ∀ l', n ∉ s2.free.free_nid_list l') ∧
      ∃ k sk, k < fuel ∧ alloc_nid_passes k sbi = .ok sk ∧ s0 = alloc_bump sk ∧
        l = alloc_list sk := by
  obtain ⟨k, sk, hk, hp, hnr, _, ht⟩ := alloc_nid_passes_nf fuel sbi sbi' n h
  obtain ⟨ik, ck⟩ := pool_inv.passes k sbi sk hr.pool_ok hp
  have h0 : pool_inv (alloc_bump sk) := ik.of_eq rfl rfl rfl (fun l => (ik l).cnt_lt)
  have hc : (alloc_bump sk).cfg = sbi.cfg := ck
  obtain ⟨hf, e⟩ := alloc_nid_take_nf h0 ht
  have hd : (sbi.free.percore_fcnt (alloc_list sbi) ≠ 0 ∧ sbi.free.build_lock = false) →
      alloc_bump sk = alloc_bump sbi ∧ alloc_list sk = alloc_list sbi := by
    intro hready
    cases k with
    | zero =>
      simp only [alloc_nid_passes, Except.ok.injEq] at hp
      rw [← hp]
      exact ⟨rfl, rfl⟩
    | succ k => exact absurd hready (hnr 0 sbi (Nat.succ_pos k) rfl)
  generalize hs0 : alloc_bump sk = s0 at h0 hc ht hf e hd
  generalize hl0 : alloc_list sk = l at ht hf e hd
  obtain ⟨s2, hs2, c2, hyes, hno⟩ := alloc_nid_failed_after_take h0 hf
  obtain ⟨_, _, _, _, v, hv, hst⟩ := first_new_split s0 _ hf
  have hvn : v.nid = n := (h0.lookup_nid hv).1
  have hveq : v = { nid := n, state := nid_state.NID_NEW } := by
    cases v with
    | mk a b =>
      simp only at hvn hst
      rw [hvn, hst]
  rw [hveq] at hv
  subst e
  refine ⟨s0, l, s2, hc, ht, ?_, hs2, ?_, hno, k, sk, hk, hp, hs0.symm, hl0.symm⟩
  · intro hcond
    obtain ⟨e0, el⟩ := hd hcond
    rw [e0]
    exact ⟨el, rfl, rfl, rfl⟩
  · intro hb
    obtain ⟨r1, r2, r3⟩ := hyes hb
    refine ⟨r1, r2, r3, ?_, ?_⟩
    · unfold __lookup_free_nid_list LIST_IDX at hv ⊢
      rw [r1, c2]
      exact hv
    · rw [r2, first_new_congr c2 r1]
      exact hf

/-- C19, amended, instance: the toy pool holds the free NIDs 5 and 7;
`alloc_nid` returns 5 without a build, and `alloc_nid_failed(5)` gives back
the lists and the counters the pool had before `alloc_nid`. -/
theorem alloc_nid_failed_round_trip_witness :
    ∃ s1 s2, alloc_nid 1 toy_pool = .ok (s1, some 5) ∧ alloc_nid_failed s1 5 = .ok s2 ∧
      s2.free.free_nid_list = toy_pool.free.free_nid_list ∧
      s2.free.percore_fcnt = toy_pool.free.percore_fcnt ∧
      s2.free.free_nid_root = toy_pool.free.free_nid_root :=
  match alloc_nid_failed_round_trip toy_pool _ 1 5 toy_pool_reachable rfl with
  | ⟨_, _, s2, _, _, h3, h4, h5, _⟩ =>
    ⟨_, s2, rfl, h4, ((h5 rfl).2.1).trans (h3 ⟨by decide, rfl⟩).2.2.1,
      ((h5 rfl).2.2.1).trans (h3 ⟨by decide, rfl⟩).2.2.2,
      ((h5 rfl).1).trans (h3 ⟨by decide, rfl⟩).2.1⟩

/-! ## C20: NID 0 stays out of the pool -/

/-- C20. In every state of the free-NID pool reached from the empty pool
through `add_free_nid`, `scan_nat_page`, the journal pass of the builders,
`remove_free_nid`, `alloc_nid`, `alloc_nid_done` and `alloc_nid_failed`, NID 0
is on no list and in no tree of the pool, and `alloc_nid` never returns 0. -/
theorem nid_zero_never_allocated (sbi : f2fs_sb_info) (hr : pool_reachable sbi) :
    (∀ l, 0 ∉ sbi.free.free_nid_list l) ∧
    (∀ l, radix_tree_lookup (sbi.free.free_nid_root l) 0 = none) ∧
    (∀ fuel s' n, alloc_nid fuel sbi = .ok (s', some n) → n ≠ 0) := by
  have hi := hr.pool_ok
  refine ⟨fun l hm => (hi.of_list hm).2.1 rfl, fun l => ?_, fun fuel s' n h => ?_⟩
  · cases hl : radix_tree_lookup (sbi.free.free_nid_root l) 0 with
    | none => rfl
    | some v => exact absurd rfl ((hi l).keyed (0, v) (mem_of_lookup hl)).2.2
  · obtain ⟨s0, l, h0, _, _, _, hf, _, _⟩ := alloc_nid_some_nf hi h
    obtain ⟨v, hv, _⟩ := first_new_some s0 _ hf
    exact (h0.lookup_nid hv).2

/-- C20, instance: `add_free_nid(0)` leaves the toy pool with the NIDs 5 and
7 only, NID 0 is not on list 0, and `alloc_nid` returns 5. -/
theorem nid_zero_never_allocated_witness :
    (add_free_nid toy_pool 0 false).1.free.free_nid_list 0 = [] ∧
    (add_free_nid toy_pool 0 false).1.free.free_nid_list 1 = [5, 7] ∧
    0 ∉ (add_free_nid toy_pool 0 false).1.free.free_nid_list 0 ∧
    ∃ s, alloc_nid 1 (add_free_nid toy_pool 0 false).1 = .ok (s, some 5) ∧ 5 ≠ 0 :=
  ⟨rfl, rfl,
    (nid_zero_never_allocated _ (pool_reachable.add 0 false toy_pool_reachable)).1 0,
    _, rfl,
    (nid_zero_never_allocated _ (pool_reachable.add 0 false toy_pool_reachable)).2.2 1 _ 5 rfl⟩

/-! ## C21: the trim spares dirty entries -/

/-- C21. In a consistent NAT cache, for every `nr_shrink`,
`try_to_free_nats` returns, every entry it removed from the cache was clean
before the call, every entry that is left has the content it had, and every
dirty entry is still cached with its content, with the set trees and the
dirty counters of all shards unchanged. -/
theorem try_to_free_nats_spares_dirty (sbi : f2fs_sb_info) (nr_shrink : Int)
    (h : nat_inv sbi) :
    ∃ s' r, try_to_free_nats sbi nr_shrink = .ok (s', r) ∧
      (∀ n e, __lookup_nat_cache sbi n = some e → __lookup_nat_cache s' n = none →
        e.flag.IS_DIRTY = false) ∧
      (∀ n e, __lookup_nat_cache s' n = some e → __lookup_nat_cache sbi n = some e) ∧
      (∀ n e, __lookup_nat_cache sbi n = some e → e.flag.IS_DIRTY = true →
        __lookup_nat_cache s' n = some e) ∧
      s'.nat.nat_set_root = sbi.nat.nat_set_root ∧
      s'.nat.percore_dirty_nat_cnt = sbi.nat.percore_dirty_nat_cnt := by
  have h0 : nat_inv (available_free_memory sbi mem_type.NAT_ENTRIES).1 :=
    h.congr rfl rfl rfl rfl rfl rfl
  have hl0 : ∀ n, __lookup_nat_cache (available_free_memory sbi mem_type.NAT_ENTRIES).1 n
      = __lookup_nat_cache sbi n := fun n => lookup_congr rfl rfl n
  cases hp : (available_free_memory sbi mem_type.NAT_ENTRIES).2 with
  | true =>
    refine ⟨(available_free_memory sbi mem_type.NAT_ENTRIES).1, 0, ?_, ?_, ?_, ?_, rfl, rfl⟩
    · unfold try_to_free_nats
      simp only [hp, if_true]
    · intro n e he hn
      rw [hl0, he] at hn
      cases hn
    · intro n e he
      rw [hl0] at he
      exact he
    · intro n e he _
      rw [hl0]
      exact he
  | false =>
    obtain ⟨s', hs, _, _, _, r1, d1, k1⟩ := try_to_free_nats_loop_nf
      (available_free_memory sbi mem_type.NAT_ENTRIES).1.cfg.nat_tree_cnt
      (available_free_memory sbi mem_type.NAT_ENTRIES).1 0 nr_shrink h0
    have hclean : ∀ n e, __lookup_nat_cache sbi n = some e →
        __lookup_nat_cache s' n ≠ some e → e.flag.IS_DIRTY = false := by
      intro n e he hne
      rw [k1 n] at hne
      split at hne
      · rename_i hc
        obtain ⟨_, e', he', hd'⟩ := h0.lru_shard (List.mem_of_mem_take hc.2.2)
        rw [hl0, he] at he'
        cases he'
        exact hd'
      · rw [hl0] at hne
        exact absurd he hne
    have ht : try_to_free_nats sbi nr_shrink = try_to_free_nats_loop
        (available_free_memory sbi mem_type.NAT_ENTRIES).1.cfg.nat_tree_cnt
        (available_free_memory sbi mem_type.NAT_ENTRIES).1 0 nr_shrink := by
      unfold try_to_free_nats
      simp only [hp, Bool.false_eq_true, if_false]
    refine ⟨s', _, ht.trans hs, ?_, ?_, ?_, r1, d1⟩
    · intro n e he hn
      exact hclean n e he (by rw [hn]; simp)
    · intro n e he
      rw [k1 n] at he
      split at he
      · cases he
      · rw [hl0] at he
        exact he
    · intro n e he hd
      by_contra hne
      have := hclean n e he hne
      rw [hd] at this
      cases this

/-- C21, instance: in the toy layout under memory pressure, with the NIDs 2
and 6 clean and NID 4 dirty in shard 0, a trim asked for ten entries returns
and leaves the dirty entry of NID 4 cached. -/
theorem try_to_free_nats_spares_dirty_witness :
    ∃ s' r, try_to_free_nats toy_tight_dirty 10 = .ok (s', r) ∧
      __lookup_nat_cache s' 4 = some
        { ni := { nid := 4, ino := 4, blk_addr := 41, version := 0 },
          flag := { IS_CHECKPOINTED := true, HAS_FSYNCED_INODE := false,
                    HAS_LAST_FSYNC := false, IS_DIRTY := true } } :=
  match try_to_free_nats_spares_dirty toy_tight_dirty 10 toy_tight_dirty_reachable.inv.1 with
  | ⟨s', r, h1, _, _, h4, _, _⟩ => ⟨s', r, h1, h4 4 _ rfl rfl⟩

/-! ## C22: how far the trim goes -/

/-- C22 as stated fails: in the toy layout under memory pressure, with three
clean entries in shard 0 and none in shard 1, `try_to_free_nats(1)` gives
shard 0 the share `1 / 2 = 0` and shard 1 the share 1: it removes nothing and
returns 1; `try_to_free_nats(2)` removes one entry and returns 1. Both return
a value greater than 0 while clean entries are left in shard 0. -/
theorem try_to_free_nats_leaves_clean_entries :
    (available_free_memory toy_tight mem_type.NAT_ENTRIES).2 = false ∧
    toy_tight.nat.nat_entries 0 = [2, 4, 6] ∧
    (∃ s', try_to_free_nats toy_tight 1 = .ok (s', 1) ∧ s'.nat.nat_entries 0 = [2, 4, 6]) ∧
    (∃ s', try_to_free_nats toy_tight 2 = .ok (s', 1) ∧ s'.nat.nat_entries 0 = [4, 6] ∧
      ∃ e, __lookup_nat_cache s' 4 = some e ∧ e.flag.IS_DIRTY = false) :=
  ⟨rfl, rfl, ⟨_, rfl, rfl⟩, ⟨_, rfl, rfl, _, rfl, rfl⟩⟩

/-- C22, amended. In a consistent NAT cache under NAT memory pressure, for
every `nr_shrink >= 0`, `try_to_free_nats` returns. It removes from the clean
list of shard `j` its oldest entries, as many as the share of the shard or all
of them: the share is what is left to free after the shards before `j`,
divided by the number of shards from `j` on. It returns `nr_shrink` less the
number of entries removed, a value from 0 to `nr_shrink`; and if it returns a
value greater than 0, the clean list of the last shard is empty. -/
theorem try_to_free_nats_shares (sbi : f2fs_sb_info) (nr_shrink : Int) (h : nat_inv sbi)
    (hp : (available_free_memory sbi mem_type.NAT_ENTRIES).2 = false) (hn : 0 ≤ nr_shrink) :
    ∃ s' plan, plan = shrink_plan (fun j => (sbi.nat.nat_entries j).length)
        sbi.cfg.nat_tree_cnt 0 nr_shrink ∧
      try_to_free_nats sbi nr_shrink = .ok (s', nr_shrink - (plan.sum : Nat)) ∧
      0 ≤ nr_shrink - (plan.sum : Nat) ∧
      (∀ j, j < sbi.cfg.nat_tree_cnt →
        plan.getD j 0 = min (Int.toNat (Int.tdiv (nr_shrink - ((plan.take j).sum : Nat))
            ((sbi.cfg.nat_tree_cnt - j : Nat) : Int))) (sbi.nat.nat_entries j).length ∧
        s'.nat.nat_entries j = (sbi.nat.nat_entries j).drop (plan.getD j 0) ∧
        ∀ n ∈ (sbi.nat.nat_entries j).take (plan.getD j 0), __lookup_nat_cache s' n = none) ∧
      (0 < nr_shrink - (plan.sum : Nat) →
        s'.nat.nat_entries (sbi.cfg.nat_tree_cnt - 1) = []) := by
  have h0 : nat_inv (available_free_memory sbi mem_type.NAT_ENTRIES).1 :=
    h.congr rfl rfl rfl rfl rfl rfl
  obtain ⟨s', hs0, _, _, e0, _, _, k0⟩ := try_to_free_nats_loop_nf
    (available_free_memory sbi mem_type.NAT_ENTRIES).1.cfg.nat_tree_cnt
    (available_free_memory sbi mem_type.NAT_ENTRIES).1 0 nr_shrink h0
  have hs : try_to_free_nats_loop sbi.cfg.nat_tree_cnt
      (available_free_memory sbi mem_type.NAT_ENTRIES).1 0 nr_shrink
      = .ok (s', nr_shrink - ((shrink_plan (fun j => (sbi.nat.nat_entries j).length)
          sbi.cfg.nat_tree_cnt 0 nr_shrink).sum : Nat)) := hs0
  have e1 : ∀ j, s'.nat.nat_entries j = if 0 ≤ j ∧ j < 0 + sbi.cfg.nat_tree_cnt
      then (sbi.nat.nat_entries j).drop
        ((shrink_plan (fun j => (sbi.nat.nat_entries j).length)
          sbi.cfg.nat_tree_cnt 0 nr_shrink).getD (j - 0) 0)
      else sbi.nat.nat_entries j := e0
  have k1 : ∀ n, __lookup_nat_cache s' n
      = if 0 ≤ n % sbi.cfg.nat_tree_cnt ∧ n % sbi.cfg.nat_tree_cnt < 0 + sbi.cfg.nat_tree_cnt ∧
          n ∈ (sbi.nat.nat_entries (n % sbi.cfg.nat_tree_cnt)).take
            ((shrink_plan (fun j => (sbi.nat.nat_entries j).length)
              sbi.cfg.nat_tree_cnt 0 nr_shrink).getD (n % sbi.cfg.nat_tree_cnt - 0) 0)
        then none else __lookup_nat_cache (available_free_memory sbi mem_type.NAT_ENTRIES).1 n := k0
  have hsum := shrink_plan_sum_le (fun j => (sbi.nat.nat_entries j).length)
    sbi.cfg.nat_tree_cnt 0 nr_shrink hn
  have ht : try_to_free_nats sbi nr_shrink = try_to_free_nats_loop sbi.cfg.nat_tree_cnt
      (available_free_memory sbi mem_type.NAT_ENTRIES).1 0 nr_shrink := by
    unfold try_to_free_nats
    simp only [hp, Bool.false_eq_true, if_false]
    rfl
  refine ⟨s', _, rfl, ht.trans hs, by omega, ?_, ?_⟩
  · intro j hj
    refine ⟨?_, ?_, ?_⟩
    · have hg := shrink_plan_getD (fun j => (sbi.nat.nat_entries j).length)
        sbi.cfg.nat_tree_cnt 0 nr_shrink j hj
      rw [hg]
      have htake : (((shrink_plan (fun j => (sbi.nat.nat_entries j).length)
          sbi.cfg.nat_tree_cnt 0 nr_shrink).take j).sum : Int)
          ≤ ((shrink_plan (fun j => (sbi.nat.nat_entries j).length)
          sbi.cfg.nat_tree_cnt 0 nr_shrink).sum : Nat) := by
        have := List.sum_take_add_sum_drop (shrink_plan (fun j => (sbi.nat.nat_entries j).length)
          sbi.cfg.nat_tree_cnt 0 nr_shrink) j
        omega
      have hnn : 0 ≤ Int.tdiv (nr_shrink - (((shrink_plan (fun j => (sbi.nat.nat_entries j).length)
          sbi.cfg.nat_tree_cnt 0 nr_shrink).take j).sum : Nat))
          ((sbi.cfg.nat_tree_cnt - j : Nat) : Int) := Int.tdiv_nonneg (by omega) (by omega)
      unfold trim_count
      rw [if_neg (by omega)]
      simp only [Nat.zero_add]
    · rw [e1 j, if_pos ⟨Nat.zero_le _, by omega⟩, Nat.sub_zero]
    · intro n hn'
      have hsh : n % sbi.cfg.nat_tree_cnt = j := (h.lru_shard (List.mem_of_mem_take hn')).1
      rw [k1 n, hsh, if_pos ⟨Nat.zero_le _, by omega, by rw [Nat.sub_zero]; exact hn'⟩]
  · intro hpos
    cases hS : sbi.cfg.nat_tree_cnt with
    | zero => exact absurd hS (Nat.pos_iff_ne_zero.1 h.1)
    | succ k =>
      rw [hS] at hpos e1
      have hlast : (shrink_plan (fun j => (sbi.nat.nat_entries j).length) (k + 1) 0
          nr_shrink).getD k 0 = (sbi.nat.nat_entries (0 + k)).length :=
        shrink_plan_last (fun j => (sbi.nat.nat_entries j).length) k 0 nr_shrink hn (by omega)
      rw [Nat.add_sub_cancel, e1 k, if_pos ⟨Nat.zero_le _, by omega⟩, Nat.sub_zero, hlast,
        Nat.zero_add]
      exact List.drop_length _

/-- C22, amended, instance: in the toy layout under memory pressure with the
clean list `[2, 4, 6]` in shard 0, a trim asked for two entries removes NID 2
and returns 1. -/
theorem try_to_free_nats_shares_witness :
    ∃ s', try_to_free_nats toy_tight 2 = .ok (s', 1) ∧ s'.nat.nat_entries 0 = [4, 6] ∧
      s'.nat.nat_entries 1 = [] :=
  match try_to_free_nats_shares toy_tight 2 toy_tight_reachable.inv.1 rfl (by decide) with
  | ⟨s', _, hplan, h2, _, h4, h5⟩ => by
    subst hplan
    exact ⟨s', h2.trans rfl, ((h4 0 (by decide)).2.1).trans rfl, (h5 (by decide)).trans rfl⟩

/-! ## C23: the fsync marks of `set_node_addr` -/

/-- C23 as stated fails: in the toy layout with the inode NID 3 and its node
NID 5 cached, `set_node_addr(ni(5, ino = 3), 200, fsync_done = true)` returns
and leaves `HAS_FSYNCED_INODE = false` on the entry of the inode 3: the flag
is set only under `ni->nid == ni->ino`. -/
theorem set_node_addr_leaves_fsynced_inode :
    ∃ s' e, set_node_addr toy_pair { nid := 5, ino := 3, blk_addr := 100, version := 0 } 200 true
        = .ok s' ∧
      __lookup_nat_cache s' 3 = some e ∧ e.flag.HAS_LAST_FSYNC = true ∧
      e.flag.HAS_FSYNCED_INODE = false :=
  ⟨_, _, rfl, rfl, rfl, rfl⟩

/-- C23, amended. For `nid != ino` with both NAT entries cached and a
permitted transition, `set_node_addr(ni(nid, ino), a, fsync_done)` returns;
afterwards the entry of the inode has `HAS_LAST_FSYNC = fsync_done` and keeps
its `HAS_FSYNCED_INODE` and its node information, and the entry of `nid` keeps
the `HAS_LAST_FSYNC` and `HAS_FSYNCED_INODE` it had. Only a call with
`nid = ino` and `fsync_done = true` leaves both flags true, on the entry of
`nid`. -/
theorem set_node_addr_fsync_marks (sbi : f2fs_sb_info) (ni : node_info) (a : Nat)
    (fsync_done : Bool) (en ei : nat_entry) (hne : ni.nid ≠ ni.ino)
    (hn : __lookup_nat_cache sbi ni.nid = some en)
    (hi : __lookup_nat_cache sbi ni.ino = some ei)
    (ht : sna_trip sbi ni a = false) :
    (∃ s' en' ei', set_node_addr sbi ni a fsync_done = .ok s' ∧
      __lookup_nat_cache s' ni.ino = some ei' ∧
      ei'.flag.HAS_LAST_FSYNC = fsync_done ∧
      ei'.flag.HAS_FSYNCED_INODE = ei.flag.HAS_FSYNCED_INODE ∧ ei'.ni = ei.ni ∧
      __lookup_nat_cache s' ni.nid = some en' ∧
      en'.flag.HAS_LAST_FSYNC = en.flag.HAS_LAST_FSYNC ∧
      en'.flag.HAS_FSYNCED_INODE = en.flag.HAS_FSYNCED_INODE) ∧
    (∀ (ni2 : node_info) (a2 : Nat), ni2.nid = ni2.ino → sna_trip sbi ni2 a2 = false →
      ∃ s2 e, set_node_addr sbi ni2 a2 true = .ok s2 ∧ __lookup_nat_cache s2 ni2.nid = some e ∧
        e.flag.HAS_LAST_FSYNC = true ∧ e.flag.HAS_FSYNCED_INODE = true) := by
  constructor
  · obtain ⟨s, hs, heq⟩ := set_node_addr_pass fsync_done ht
    have hine : ni.ino ≠ ni.nid := fun hh => hne hh.symm
    have hsi : __lookup_nat_cache s ni.ino = some ei := by
      rw [sna_dirty_lookup hs, if_neg hine]
      exact hi
    have hent : sna_entry sbi ni a = if a = NEW_ADDR then { en with ni := ni } else en := by
      unfold sna_entry
      rw [hn]
    refine ⟨_, { sna_update a (sna_entry sbi ni a).ni.blk_addr (sna_entry sbi ni a) with
        flag := { (sna_update a (sna_entry sbi ni a).ni.blk_addr (sna_entry sbi ni a)).flag with
          IS_DIRTY := true } },
      { ei with flag := { ei.flag with HAS_LAST_FSYNC := fsync_done } },
      heq, ?_, rfl, rfl, rfl, ?_, ?_, ?_⟩
    · rw [sna_fsync_other fsync_done hne hsi, lookup_nat_modify, if_pos rfl, hsi]
      rfl
    · rw [sna_fsync_other fsync_done hne hsi, lookup_nat_modify, if_neg hne,
        sna_dirty_lookup hs, if_pos rfl]
    · rw [hent]
      split <;> rfl
    · rw [hent]
      split <;> rfl
  · intro ni2 a2 he2 ht2
    obtain ⟨s, hs, heq⟩ := set_node_addr_pass true ht2
    refine ⟨_, { sna_update a2 (sna_entry sbi ni2 a2).ni.blk_addr (sna_entry sbi ni2 a2) with
        flag := { (sna_update a2 (sna_entry sbi ni2 a2).ni.blk_addr (sna_entry sbi ni2 a2)).flag with
          IS_DIRTY := true, HAS_FSYNCED_INODE := true, HAS_LAST_FSYNC := true } },
      heq, ?_, rfl, rfl⟩
    rw [sna_fsync_self he2, lookup_nat_modify, if_pos rfl, lookup_nat_modify, if_pos rfl,
      sna_dirty_lookup hs, if_pos rfl]
    rfl

/-- C23, amended, instance: the spec's case `nid = 5`, `ino = 3`, `a = 200`
in the toy layout; the entry of the inode 3 has `HAS_LAST_FSYNC = true`. -/
theorem set_node_addr_fsync_marks_witness :
    ∃ s' ei', set_node_addr toy_pair { nid := 5, ino := 3, blk_addr := 100, version := 0 } 200 true
        = .ok s' ∧
      __lookup_nat_cache s' 3 = some ei' ∧ ei'.flag.HAS_LAST_FSYNC = true :=
  match (set_node_addr_fsync_marks toy_pair { nid := 5, ino := 3, blk_addr := 100, version := 0 }
      200 true _ _ (by decide) rfl rfl rfl).1 with
  | ⟨s', _, ei', h1, h2, h3, _⟩ => ⟨s', ei', h1, h2, h3⟩

/-! ## C24: the counters of the reader-preferring semaphore and writer exclusion -/

/-- C24, counterexample. Two threads on one CPU: thread 0 takes the highway
of `rps_down_read` and returns; thread 1 runs `rps_down_write` up to the end
of the loop of `clear_highway`. In the state reached the highway counter is
zeroed and `lowway_cnt` is still 0, so the sum of the highway counters plus
`lowway_cnt` is 0, while one reader has returned from `rps_down_read` and has
not called `rps_up_read`: the 1 is in the local `sum` of the writer. -/
theorem rps_counters_miss_reader_in_drain :
    (rps_run rps_drain_sched (__rps_init_rwsem 1 2)).map
        (fun s => (highway_sum s + s.lowway_cnt, readers_returned s, s.pc 0, s.pc 1,
          drained_sum s))
      = some (0, 1, rps_pc.reading, rps_pc.w_add 1, 1) := by
  decide

/-- C24, amended. In every state that a run of the atomic actions of
`rps_down_read`, `rps_down_read_try_lock`, `rps_up_read`, `rps_down_write` and
`rps_up_write` reaches from the initial state, with fewer than `2^31`
threads: (1) the sum of the highway counters plus `lowway_cnt` plus the sums
that writers inside `clear_highway` hold, taken in `int` arithmetic, is the
number of readers whose increment is done and whose decrement is not; it is
the sum of the counters alone while no writer holds `rw_sem`, and the readers
that have returned from a `down_read` and not yet called `rps_up_read` are
among those counted. (2) While a writer has returned from `rps_down_write`
and not yet called `rps_up_write`, no such reader exists. -/
theorem rps_writer_exclusion (nr_cpus nr_threads : Nat) (sched : List (Nat × Nat × rps_call))
    (s : rps) (hT : nr_threads < 2147483648)
    (h : rps_run sched (__rps_init_rwsem nr_cpus nr_threads) = some s) :
    (s.nr_threads = nr_threads ∧ s.nr_cpus = nr_cpus ∧
      to_int (highway_sum s + s.lowway_cnt + drained_sum s) = readers_inside s ∧
      ((∀ t, (s.pc t).holds_write = false) →
        to_int (highway_sum s + s.lowway_cnt) = readers_inside s) ∧
      readers_returned s ≤ readers_inside s) ∧
    (∀ t, s.pc t = rps_pc.writing →
      (∀ u, (s.pc u).inside = false ∧ s.pc u ≠ rps_pc.reading) ∧
      readers_inside s = 0 ∧ readers_returned s = 0) := by
  have hI := rps_inv.run sched (rps_inv.init nr_cpus nr_threads hT) h
  obtain ⟨f1, f2, f3⟩ := rps_run_frame sched h
  have hidle : ∀ u, ¬ u < s.nr_threads → s.pc u = rps_pc.idle := by
    intro u hu
    rw [f3 u (by
      show nr_threads ≤ u
      rw [f1] at hu
      exact Nat.le_of_not_lt hu)]
    rfl
  have h0 := hI.sum
  have hN := hI.threads
  have b1 : readers_inside s ≤ s.nr_threads := tally_ind_le _ _
  have b2 : 0 ≤ readers_inside s := tally_ind_nonneg _ _
  have e1 : to_int (highway_sum s + s.lowway_cnt + drained_sum s) = readers_inside s := by
    unfold to_int
    omega
  refine ⟨⟨f1, f2, e1, ?_, readers_returned_le s⟩, ?_⟩
  · intro hfree
    have := drained_sum_free s (fun t _ => hfree t)
    rw [this, Int.add_zero] at e1
    exact e1
  · intro t hw
    have ht : t < s.nr_threads := by
      by_cases ht : t < s.nr_threads
      · exact ht
      · rw [hidle t ht] at hw
        cases hw
    have hx : ∀ u, (s.pc u).inside = false := by
      intro u
      by_cases hu : u < s.nr_threads
      · exact hI.excl t ht hw u hu
      · rw [hidle u hu]
        rfl
    have hz : readers_inside s = 0 := tally_zero _ (fun u _ => by rw [hx u]; rfl)
    refine ⟨fun u => ⟨hx u, ?_⟩, hz, ?_⟩
    · intro e
      have := hx u
      rw [e] at this
      cases this
    · have r1 := readers_returned_le s
      have r2 : 0 ≤ readers_returned s := tally_ind_nonneg _ _
      omega

/-- C24, amended, instance: in the run of the counterexample the counters
and the sum the writer holds count the reader; in its continuation the
writer returns from `rps_down_write` only after the reader has left. -/
theorem rps_writer_exclusion_witness :
    ((rps_draining.nr_threads = 2 ∧ rps_draining.nr_cpus = 1 ∧
      to_int (highway_sum rps_draining + rps_draining.lowway_cnt + drained_sum rps_draining)
        = readers_inside rps_draining ∧
      ((∀ t, (rps_draining.pc t).holds_write = false) →
        to_int (highway_sum rps_draining + rps_draining.lowway_cnt)
          = readers_inside rps_draining) ∧
      readers_returned rps_draining ≤ readers_inside rps_draining) ∧
    (∀ t, rps_draining.pc t = rps_pc.writing →
      (∀ u, (rps_draining.pc u).inside = false ∧ rps_draining.pc u ≠ rps_pc.reading) ∧
      readers_inside rps_draining = 0 ∧ readers_returned rps_draining = 0)) ∧
    readers_inside rps_draining = 1 ∧ drained_sum rps_draining = 1 ∧
    (rps_run rps_write_sched (__rps_init_rwsem 1 2)).map
        (fun s => (s.pc 0, s.pc 1, readers_inside s, highway_sum s + s.lowway_cnt))
      = some (rps_pc.idle, rps_pc.writing, 0, 0) :=
  ⟨rps_writer_exclusion 1 2 rps_drain_sched rps_draining (by decide)
      (rps_run_getD (by decide)),
    by decide, by decide, by decide⟩

/-! ## C25: the node path is in bounds and injective -/

/-- C25. With layout constants that fit the C types of `get_node_path`, for
every block index `b` below `ADDRS_PER_INODE + 2*ADDRS_PER_BLOCK +
2*ADDRS_PER_BLOCK*NIDS_PER_BLOCK + ADDRS_PER_BLOCK*NIDS_PER_BLOCK^2` the
function returns a level in `0..3`; at level 0 `offset[0]` is below
`ADDRS_PER_INODE`, otherwise `offset[0]` is one of the five node slots, every
intermediate offset is below `NIDS_PER_BLOCK` and the last offset is below
`ADDRS_PER_BLOCK`. Two block indices with the same level and the same
`offset[0..level]` are equal. -/
theorem get_node_path_bounds_injective (g : node_layout) (hf : layout_fits g) :
    (∀ (b : Nat) (offset : Nat → Int) (noffset : Nat → Nat), b < max_file_blocks g →
      ∃ level off noff, get_node_path g b offset noffset = .ok (level, off, noff) ∧
        level ≤ 3 ∧
        (level = 0 → 0 ≤ off 0 ∧ off 0 < g.ADDRS_PER_INODE) ∧
        (0 < level → node_slot g (off 0)) ∧
        (∀ i, 0 < i → i < level → 0 ≤ off i ∧ off i < g.NIDS_PER_BLOCK) ∧
        (0 < level → 0 ≤ off level ∧ off level < g.ADDRS_PER_BLOCK)) ∧
    (∀ (b b' : Nat) (offset offset' : Nat → Int) (noffset noffset' : Nat → Nat)
      (level : Nat) (off off' : Nat → Int) (noff noff' : Nat → Nat),
      b < max_file_blocks g → b' < max_file_blocks g →
      get_node_path g b offset noffset = .ok (level, off, noff) →
      get_node_path g b' offset' noffset' = .ok (level, off', noff') →
      (∀ i, i ≤ level → off i = off' i) → b = b') := by
  constructor
  · intro b offset noffset hb
    rcases get_node_path_nf g hf b hb offset noffset with ⟨h0, e⟩ | ⟨r, hr, hbe, e⟩ |
      ⟨r, hr, hbe, e⟩ | ⟨k, r, hk, hr, hbe, e⟩ | ⟨k, r, hk, hr, hbe, e⟩ |
      ⟨x, y, r, hx, hy, hr, hbe, e⟩
    · refine ⟨_, _, _, e, by omega, ?_, ?_, ?_, ?_⟩
      · intro _
        simp only [arr_fill, List.getD_cons_zero]
        omega
      · intro h
        omega
      · intro i h1 h2
        omega
      · intro h
        omega
    · refine ⟨_, _, _, e, by omega, by omega, fun _ => Or.inl rfl, ?_, ?_⟩
      · intro i h1 h2
        omega
      · intro _
        show 0 ≤ (r : Int) ∧ (r : Int) < g.ADDRS_PER_BLOCK
        omega
    · refine ⟨_, _, _, e, by omega, by omega, fun _ => Or.inr (Or.inl rfl), ?_, ?_⟩
      · intro i h1 h2
        omega
      · intro _
        show 0 ≤ (r : Int) ∧ (r : Int) < g.ADDRS_PER_BLOCK
        omega
    · refine ⟨_, _, _, e, by omega, by omega, fun _ => Or.inr (Or.inr (Or.inl rfl)), ?_, ?_⟩
      · intro i h1 h2
        obtain rfl : i = 1 := by omega
        show 0 ≤ (k : Int) ∧ (k : Int) < g.NIDS_PER_BLOCK
        omega
      · intro _
        show 0 ≤ (r : Int) ∧ (r : Int) < g.ADDRS_PER_BLOCK
        omega
    · refine ⟨_, _, _, e, by omega, by omega,
        fun _ => Or.inr (Or.inr (Or.inr (Or.inl rfl))), ?_, ?_⟩
      · intro i h1 h2
        obtain rfl : i = 1 := by omega
        show 0 ≤ (k : Int) ∧ (k : Int) < g.NIDS_PER_BLOCK
        omega
      · intro _
        show 0 ≤ (r : Int) ∧ (r : Int) < g.ADDRS_PER_BLOCK
        omega
    · refine ⟨_, _, _, e, by omega, by omega,
        fun _ => Or.inr (Or.inr (Or.inr (Or.inr rfl))), ?_, ?_⟩
      · intro i h1 h2
        rcases (by omega : i = 1 ∨ i = 2) with rfl | rfl
        · show 0 ≤ (x : Int) ∧ (x : Int) < g.NIDS_PER_BLOCK
          omega
        · show 0 ≤ (y : Int) ∧ (y : Int) < g.NIDS_PER_BLOCK
          omega
      · intro _
        show 0 ≤ (r : Int) ∧ (r : Int) < g.ADDRS_PER_BLOCK
        omega
  · intro b b' offset offset' noffset noffset' level off off' noff noff' hb hb' h h' hoff
    obtain ⟨hl, e⟩ := get_node_path_block g hf b hb offset noffset level off noff h
    obtain ⟨_, e'⟩ := get_node_path_block g hf b' hb' offset' noffset' level off' noff' h'
    have hc := path_block_congr g level off off' hl hoff
    rw [e, e'] at hc
    exact_mod_cast hc

/-- C25, instance: the f2fs layout fits, and the last block of a file,
1057053438, has a path within the bounds; the last block of the inode, the
first block of each node range and the last block of the file have the paths
`[922]`, `[924, 0]`, `[925, 0]`, `[926, 0, 0]`, `[927, 0, 0]`,
`[928, 0, 0, 0]` and `[928, 1017, 1017, 1017]`. -/
theorem get_node_path_bounds_injective_witness :
    layout_fits f2fs_layout ∧ max_file_blocks f2fs_layout = 1057053439 ∧
    (∃ level off noff, get_node_path f2fs_layout ((1057053438 : Nat) : Int) (fun _ => 0)
        (fun _ => 0) = .ok (level, off, noff) ∧
      level ≤ 3 ∧
      (level = 0 → 0 ≤ off 0 ∧ off 0 < f2fs_layout.ADDRS_PER_INODE) ∧
      (0 < level → node_slot f2fs_layout (off 0)) ∧
      (∀ i, 0 < i → i < level → 0 ≤ off i ∧ off i < f2fs_layout.NIDS_PER_BLOCK) ∧
      (0 < level → 0 ≤ off level ∧ off level < f2fs_layout.ADDRS_PER_BLOCK)) ∧
    (get_node_path f2fs_layout 922 (fun _ => 0) (fun _ => 0)).toOption.map
      (fun p => (p.1, arr_list p.2.1 (p.1 + 1))) = some (0, [922]) ∧
    (get_node_path f2fs_layout 923 (fun _ => 0) (fun _ => 0)).toOption.map
      (fun p => (p.1, arr_list p.2.1 (p.1 + 1))) = some (1, [924, 0]) ∧
    (get_node_path f2fs_layout 1941 (fun _ => 0) (fun _ => 0)).toOption.map
      (fun p => (p.1, arr_list p.2.1 (p.1 + 1))) = some (1, [925, 0]) ∧
    (get_node_path f2fs_layout 2959 (fun _ => 0) (fun _ => 0)).toOption.map
      (fun p => (p.1, arr_list p.2.1 (p.1 + 1))) = some (2, [926, 0, 0]) ∧
    (get_node_path f2fs_layout 1039283 (fun _ => 0) (fun _ => 0)).toOption.map
      (fun p => (p.1, arr_list p.2.1 (p.1 + 1))) = some (2, [927, 0, 0]) ∧
    (get_node_path f2fs_layout 2075607 (fun _ => 0) (fun _ => 0)).toOption.map
      (fun p => (p.1, arr_list p.2.1 (p.1 + 1))) = some (3, [928, 0, 0, 0]) ∧
    (get_node_path f2fs_layout 1057053438 (fun _ => 0) (fun _ => 0)).toOption.map
      (fun p => (p.1, arr_list p.2.1 (p.1 + 1))) = some (3, [928, 1017, 1017, 1017]) :=
  ⟨by decide, by decide,
    (get_node_path_bounds_injective f2fs_layout (by decide)).1 1057053438 (fun _ => 0)
      (fun _ => 0) (by decide),
    by decide, by decide, by decide, by decide, by decide, by decide, by decide⟩

/-! ## C26: the numbering of the node offsets -/

/-- C26. With `N = NIDS_PER_BLOCK` and layout constants that fit the C types,
for every in-range block index `get_node_path` returns, and the node offsets
it computes are: `noffset[0] = 0` for the inode; `noffset[1]` is 1 and 2
for the two direct nodes, 3 and `4 + N` for the two indirect nodes and
`5 + 2N` for the double-indirect node; `noffset[2]` is `4 + k` and
`5 + N + k` for the `k`-th direct node under the first and second indirect
node and `6 + 2N + x(N+1)` for the `x`-th indirect child of the
double-indirect node; `noffset[3]` is `7 + 2N + x(N+1) + y` for the `y`-th
direct node of that child. Two entries of paths with the same node offset are
the same node: they have the same depth and the same offsets leading to
them. -/
theorem get_node_path_noffsets (g : node_layout) (hf : layout_fits g) :
    (∀ (b : Nat) (offset : Nat → Int) (noffset : Nat → Nat), b < max_file_blocks g →
      ∃ level off noff, get_node_path g b offset noffset = .ok (level, off, noff) ∧
        noff 0 = 0 ∧
        (0 < level →
          (off 0 = NODE_DIR1_BLOCK g → noff 1 = 1) ∧
          (off 0 = NODE_DIR2_BLOCK g → noff 1 = 2) ∧
          (off 0 = NODE_IND1_BLOCK g → noff 1 = 3) ∧
          (off 0 = NODE_IND2_BLOCK g → noff 1 = 4 + g.NIDS_PER_BLOCK) ∧
          (off 0 = NODE_DIND_BLOCK g → noff 1 = 5 + 2 * g.NIDS_PER_BLOCK)) ∧
        (1 < level →
          (off 0 = NODE_IND1_BLOCK g → (noff 2 : Int) = 4 + off 1) ∧
          (off 0 = NODE_IND2_BLOCK g → (noff 2 : Int) = 5 + g.NIDS_PER_BLOCK + off 1) ∧
          (off 0 = NODE_DIND_BLOCK g →
            (noff 2 : Int) = 6 + 2 * g.NIDS_PER_BLOCK + off 1 * (g.NIDS_PER_BLOCK + 1))) ∧
        (2 < level →
          (noff 3 : Int) = 7 + 2 * g.NIDS_PER_BLOCK + off 1 * (g.NIDS_PER_BLOCK + 1) + off 2)) ∧
    (∀ (b b' : Nat) (offset offset' : Nat → Int) (noffset noffset' : Nat → Nat)
      (level level' : Nat) (off off' : Nat → Int) (noff noff' : Nat → Nat) (i i' : Nat),
      b < max_file_blocks g → b' < max_file_blocks g →
      get_node_path g b offset noffset = .ok (level, off, noff) →
      get_node_path g b' offset' noffset' = .ok (level', off', noff') →
      i ≤ level → i' ≤ level' → noff i = noff' i' →
      i = i' ∧ ∀ j, j < i → off j = off' j) := by
  obtain ⟨n12, n13, n14, n15, n23, n24, n25, n34, n35, n45⟩ := node_slots_ne g
  constructor
  · intro b offset noffset hb
    rcases get_node_path_nf g hf b hb offset noffset with ⟨h0, e⟩ | ⟨r, hr, hbe, e⟩ |
      ⟨r, hr, hbe, e⟩ | ⟨k, r, hk, hr, hbe, e⟩ | ⟨k, r, hk, hr, hbe, e⟩ |
      ⟨x, y, r, hx, hy, hr, hbe, e⟩
    · exact ⟨_, _, _, e, rfl, fun h => absurd h (by omega), fun h => absurd h (by omega),
        fun h => absurd h (by omega)⟩
    · refine ⟨_, _, _, e, rfl, fun _ => ⟨fun _ => rfl, fun h => absurd h n12,
        fun h => absurd h n13, fun h => absurd h n14, fun h => absurd h n15⟩,
        fun h => absurd h (by omega), fun h => absurd h (by omega)⟩
    · refine ⟨_, _, _, e, rfl, fun _ => ⟨fun h => absurd h.symm n12, fun _ => rfl,
        fun h => absurd h n23, fun h => absurd h n24, fun h => absurd h n25⟩,
        fun h => absurd h (by omega), fun h => absurd h (by omega)⟩
    · refine ⟨_, _, _, e, rfl, fun _ => ⟨fun h => absurd h.symm n13, fun h => absurd h.symm n23,
        fun _ => rfl, fun h => absurd h n34, fun h => absurd h n35⟩,
        fun _ => ⟨fun _ => ?_, fun h => absurd h n34, fun h => absurd h n35⟩,
        fun h => absurd h (by omega)⟩
      show ((4 + k : Nat) : Int) = 4 + (k : Int)
      omega
    · refine ⟨_, _, _, e, rfl, fun _ => ⟨fun h => absurd h.symm n14, fun h => absurd h.symm n24,
        fun h => absurd h.symm n34, fun _ => rfl, fun h => absurd h n45⟩,
        fun _ => ⟨fun h => absurd h.symm n34, fun _ => ?_, fun h => absurd h n45⟩,
        fun h => absurd h (by omega)⟩
      show ((5 + g.NIDS_PER_BLOCK + k : Nat) : Int) = 5 + (g.NIDS_PER_BLOCK : Int) + (k : Int)
      omega
    · refine ⟨_, _, _, e, rfl, fun _ => ⟨fun h => absurd h.symm n15, fun h => absurd h.symm n25,
        fun h => absurd h.symm n35, fun h => absurd h.symm n45, fun _ => rfl⟩,
        fun _ => ⟨fun h => absurd h.symm n35, fun h => absurd h.symm n45, fun _ => ?_⟩,
        fun _ => ?_⟩
      · show ((6 + 2 * g.NIDS_PER_BLOCK + x * (g.NIDS_PER_BLOCK + 1) : Nat) : Int)
          = 6 + 2 * (g.NIDS_PER_BLOCK : Int) + (x : Int) * ((g.NIDS_PER_BLOCK : Int) + 1)
        push_cast
        ring
      · show ((7 + 2 * g.NIDS_PER_BLOCK + x * (g.NIDS_PER_BLOCK + 1) + y : Nat) : Int)
          = 7 + 2 * (g.NIDS_PER_BLOCK : Int) + (x : Int) * ((g.NIDS_PER_BLOCK : Int) + 1)
            + (y : Int)
        push_cast
        ring
  · intro b b' offset offset' noffset noffset' level level' off off' noff noff' i i'
      hb hb' h h' hi hi' hn
    have d := get_node_path_decode g hf b hb offset noffset level off noff h i hi
    have d' := get_node_path_decode g hf b' hb' offset' noffset' level' off' noff' h' i' hi'
    rw [hn, d'] at d
    have e1 : i' = i := congrArg Prod.fst d
    subst e1
    exact ⟨rfl, fun j hj => arr_list_inj off off' i' (congrArg Prod.snd d).symm j hj⟩

/-- C26, instance: in the f2fs layout (`N = 1018`) the last block of a file
has the node offsets `0`, `5 + 2N = 2041`, `6 + 2N + 1017(N+1) = 1038365` and
`7 + 2N + 1017(N+1) + 1017 = 1039383`, and the first block under the second
indirect node has `0`, `4 + N = 1022`, `5 + N = 1023`. -/
theorem get_node_path_noffsets_witness :
    layout_fits f2fs_layout ∧
    (∃ level off noff, get_node_path f2fs_layout ((1057053438 : Nat) : Int) (fun _ => 0)
        (fun _ => 0) = .ok (level, off, noff) ∧
      noff 0 = 0 ∧
      (0 < level →
        (off 0 = NODE_DIR1_BLOCK f2fs_layout → noff 1 = 1) ∧
        (off 0 = NODE_DIR2_BLOCK f2fs_layout → noff 1 = 2) ∧
        (off 0 = NODE_IND1_BLOCK f2fs_layout → noff 1 = 3) ∧
        (off 0 = NODE_IND2_BLOCK f2fs_layout → noff 1 = 4 + f2fs_layout.NIDS_PER_BLOCK) ∧
        (off 0 = NODE_DIND_BLOCK f2fs_layout → noff 1 = 5 + 2 * f2fs_layout.NIDS_PER_BLOCK)) ∧
      (1 < level →
        (off 0 = NODE_IND1_BLOCK f2fs_layout → (noff 2 : Int) = 4 + off 1) ∧
        (off 0 = NODE_IND2_BLOCK f2fs_layout →
          (noff 2 : Int) = 5 + f2fs_layout.NIDS_PER_BLOCK + off 1) ∧
        (off 0 = NODE_DIND_BLOCK f2fs_layout →
          (noff 2 : Int) = 6 + 2 * f2fs_layout.NIDS_PER_BLOCK
            + off 1 * (f2fs_layout.NIDS_PER_BLOCK + 1))) ∧
      (2 < level →
        (noff 3 : Int) = 7 + 2 * f2fs_layout.NIDS_PER_BLOCK
          + off 1 * (f2fs_layout.NIDS_PER_BLOCK + 1) + off 2)) ∧
    (get_node_path f2fs_layout 1057053438 (fun _ => 0) (fun _ => 0)).toOption.map
      (fun p => (p.1, arr_list p.2.2 (p.1 + 1))) = some (3, [0, 2041, 1038365, 1039383]) ∧
    (get_node_path f2fs_layout 1039283 (fun _ => 0) (fun _ => 0)).toOption.map
      (fun p => (p.1, arr_list p.2.2 (p.1 + 1))) = some (2, [0, 1022, 1023]) ∧
    (get_node_path f2fs_layout 2959 (fun _ => 0) (fun _ => 0)).toOption.map
      (fun p => (p.1, arr_list p.2.2 (p.1 + 1))) = some (2, [0, 3, 4]) ∧
    (get_node_path f2fs_layout 1941 (fun _ => 0) (fun _ => 0)).toOption.map
      (fun p => (p.1, arr_list p.2.2 (p.1 + 1))) = some (1, [0, 2]) :=
  ⟨by decide,
    (get_node_path_noffsets f2fs_layout (by decide)).1 1057053438 (fun _ => 0)
      (fun _ => 0) (by decide),
    by decide, by decide, by decide, by decide⟩

/-! ## C27: the packs of the flush per core and their order -/

/-- C27, counterexample. In the toy layout with the dirty NIDs 2, 8, 10, 1
and 3 the flush per core feeds the set of NAT block 0 in shard 0 (1 entry),
the set of NAT block 1 in shard 0 (2 entries) and the set of NAT block 0 in
shard 1 (2 entries). The pack of block 0 grows to 3 entries and keeps its
place in front of the pack of block 1 with 2 entries: both are below
`max = 8`, they are not in non-decreasing order of `entry_cnt`, and the flush
writes the NIDs 2, 1, 3 of the larger pack to the journal first. -/
theorem flush_per_core_larger_pack_first :
    all_sets toy_mixed = [(0, 0), (0, 1), (1, 0)] ∧
    (all_sets toy_mixed).map (fun x => (set_number toy_mixed x, set_entry_cnt toy_mixed x))
      = [(0, 1), (1, 2), (0, 2)] ∧
    int_to_u32 (MAX_NAT_JENTRIES toy_mixed) = 8 ∧
    (adjust_all_per_core toy_mixed (MAX_NAT_JENTRIES toy_mixed) toy_mixed.cfg.nat_tree_cnt
      (all_sets toy_mixed)).toOption
      = some [⟨0, [(0, 0), (1, 0)], 3⟩, ⟨1, [(0, 1)], 2⟩] ∧
    ¬ packs_sorted (int_to_u32 (MAX_NAT_JENTRIES toy_mixed))
      [⟨0, [(0, 0), (1, 0)], 3⟩, ⟨1, [(0, 1)], 2⟩] ∧
    (flush_nat_entries_per_core toy_mixed).toOption.map
      (fun s => (s.disk.n_nats, (List.range 5).map (fun i => (s.disk.nat_j i).nid)))
      = some (5, [2, 1, 3, 8, 10]) := by
  refine ⟨by decide, by decide, by decide, by decide, ?_, by decide⟩
  intro hs
  unfold packs_sorted at hs
  have h := (List.pairwise_cons.1 hs).1 ⟨1, [(0, 1)], 2⟩ (List.mem_singleton_self _)
    (by decide) (by decide)
  exact absurd h (by decide)

/-- C27, amended. (1) For every list `ins` of sets fed by
`__adjust_nat_entry_set_per_core` to the empty list with the bound `max`
(compared as `unsigned int`), when no set number is fed more often than a
pack has slots and all the entries fed count below `2^32`, the call returns a
list with exactly one pack per set number fed; a pack holds the sets fed with
its number and its `entry_cnt` is the sum of their `entry_cnt`; every pack
with `entry_cnt < max` stands before every pack with `entry_cnt >= max`; and
the packs below `max` are in non-decreasing order of `entry_cnt` when every
set that joins a pack brings it to `max` or beyond (a pack that grows and
stays below `max` keeps its place). (2) Under the invariant of the cache
`flush_nat_entries_per_core` feeds all the dirty sets, shard by shard, and
flushes the packs in the order of that list. (3) The flush feeds a set number
at most once per shard. (4) A set that joins a pack with a free slot and
leaves it below `max` changes the fields of that pack only: the list has the
same set numbers in the same order, every other pack is where and what it
was, and the pack holds the set at its end and the sum of the entries. -/
theorem flush_per_core_packs (sbi : f2fs_sb_info) (h : nat_inv sbi) (hj : journal_ok sbi)
    (hsv : 0 < sbi.cfg.SETVEC_SIZE) :
    (∀ (s : f2fs_sb_info) (max n : Int) (ins : List (Nat × Nat)),
      (∀ id, (sets_of_number s id ins).length ≤ int_to_u32 n) →
      sets_entry_cnt s ins < 4294967296 →
      ∃ packs, adjust_all_per_core s max n ins = .ok packs ∧
        (packs.map (fun p => p.set_id)).Nodup ∧
        (∀ id, id ∈ packs.map (fun p => p.set_id) ↔ id ∈ ins.map (set_number s)) ∧
        (∀ p ∈ packs, p.set = sets_of_number s p.set_id ins ∧
          p.entry_cnt = sets_entry_cnt s p.set) ∧
        packs.Pairwise (fun a b => b.entry_cnt < int_to_u32 max →
          a.entry_cnt < int_to_u32 max) ∧
        (joins_fill s (int_to_u32 max) [] ins → packs_sorted (int_to_u32 max) packs)) ∧
    flush_nat_entries_per_core sbi =
      (if sum_up sbi.nat.percore_dirty_nat_cnt sbi.cfg.nat_tree_cnt = 0
       then .ok (flush_counted sbi)
       else match flush_drain (flush_counted sbi) with
        | .error f => .error f
        | .ok s1 =>
          match adjust_all_per_core s1 (MAX_NAT_JENTRIES s1) s1.cfg.nat_tree_cnt
              (all_sets s1) with
          | .error f => .error f
          | .ok packs => flush_packs_checked packs s1) ∧
    (∀ id, (sets_of_number sbi id (all_sets sbi)).length ≤ sbi.cfg.nat_tree_cnt) ∧
    (∀ (s : f2fs_sb_info) (nes : Nat × Nat) (head : List per_core_sets_pack) (max n : Int)
      (cur : per_core_sets_pack), pack_lookup (set_number s nes) head = some cur →
      cur.set.length < int_to_u32 n →
      (cur.entry_cnt + set_entry_cnt s nes) % 4294967296 < int_to_u32 max →
      ∃ packs, __adjust_nat_entry_set_per_core s nes head max n = .ok packs ∧
        packs.map (fun q => q.set_id) = head.map (fun q => q.set_id) ∧
        (∀ (i : Nat) (q : per_core_sets_pack), packs[i]? = some q → q.set_id ≠ cur.set_id →
        head[i]? = some q) ∧
        pack_lookup (set_number s nes) packs
          = some ⟨cur.set_id, cur.set ++ [nes],
              (cur.entry_cnt + set_entry_cnt s nes) % 4294967296⟩) := by
  refine ⟨?_, flush_nat_entries_per_core_order h hj hsv,
    fun id => sets_of_number_from h id _ _, adjust_per_core_keeps_place⟩
  intro s max n ins hcap hsum
  obtain ⟨packs, e, inv, hso⟩ := adjust_per_core_from_inv s max n ins [] []
    (packs_inv.nil s _) (by simpa using hcap) (by simpa using hsum)
  rw [List.nil_append] at inv
  refine ⟨packs, e, inv.ids_nodup, ?_, ?_, inv.small_first, hso List.Pairwise.nil⟩
  · intro id
    constructor
    · intro hid
      obtain ⟨p, hp, rfl⟩ := List.mem_map.1 hid
      obtain ⟨hm, hne⟩ := inv.members p hp
      obtain ⟨x, hx⟩ := List.exists_mem_of_ne_nil _ hne
      rw [hm] at hx
      unfold sets_of_number at hx
      obtain ⟨hx1, hx2⟩ := List.mem_filter.1 hx
      exact List.mem_map.2 ⟨x, hx1, by simpa using hx2⟩
    · intro hid
      obtain ⟨x, hx, rfl⟩ := List.mem_map.1 hid
      obtain ⟨p, hp, e1⟩ := inv.covered x hx
      exact List.mem_map.2 ⟨p, hp, e1⟩
  · intro p hp
    exact ⟨(inv.members p hp).1, inv.count p hp⟩

/-- C27, instance: in the toy layout with the dirty NIDs 2, 8, 10, 1 and 3
the three sets of the flush make two packs, one per NAT block, with the sums
3 and 2 of their entries, and the flush per core is the flush of these two
packs in list order. -/
theorem flush_per_core_packs_witness :
    (∃ packs, adjust_all_per_core toy_mixed (MAX_NAT_JENTRIES toy_mixed)
        toy_mixed.cfg.nat_tree_cnt (all_sets toy_mixed) = .ok packs ∧
      (packs.map (fun p => p.set_id)).Nodup ∧
      (∀ id, id ∈ packs.map (fun p => p.set_id)
        ↔ id ∈ (all_sets toy_mixed).map (set_number toy_mixed)) ∧
      (∀ p ∈ packs, p.set = sets_of_number toy_mixed p.set_id (all_sets toy_mixed) ∧
        p.entry_cnt = sets_entry_cnt toy_mixed p.set) ∧
      packs.Pairwise (fun a b => b.entry_cnt < int_to_u32 (MAX_NAT_JENTRIES toy_mixed) →
        a.entry_cnt < int_to_u32 (MAX_NAT_JENTRIES toy_mixed)) ∧
      (joins_fill toy_mixed (int_to_u32 (MAX_NAT_JENTRIES toy_mixed)) [] (all_sets toy_mixed) →
        packs_sorted (int_to_u32 (MAX_NAT_JENTRIES toy_mixed)) packs)) ∧
    (adjust_all_per_core toy_mixed (MAX_NAT_JENTRIES toy_mixed) toy_mixed.cfg.nat_tree_cnt
      (all_sets toy_mixed)).toOption
      = some [⟨0, [(0, 0), (1, 0)], 3⟩, ⟨1, [(0, 1)], 2⟩] ∧
    sets_entry_cnt toy_mixed (all_sets toy_mixed) = 5 ∧
    0 < toy_mixed.cfg.SETVEC_SIZE :=
  ⟨(flush_per_core_packs toy_mixed toy_mixed_reachable.inv.1 toy_mixed_reachable.inv.2
      (by decide)).1 toy_mixed (MAX_NAT_JENTRIES toy_mixed) toy_mixed.cfg.nat_tree_cnt
      (all_sets toy_mixed)
      (fun id => sets_of_number_from toy_mixed_reachable.inv.1 id 2 0) (by decide),
    by decide, by decide, by decide⟩

/-! ## C28: `alloc_nid` on a dry pool -/

/-- C28. In the sharded free-NID configuration the refill of `alloc_nid`
scans the journal only. When the node count leaves room, every list of the
pool is empty, no build is running and the journal has no slot, a pass
through `retry` changes nothing but `next_allocator`: for every bound on the
number of passes `alloc_nid` has not returned (as long as the counter does
not wrap, it is still retrying), whatever the NAT blocks record. -/
theorem alloc_nid_dry_never_returns (sbi : f2fs_sb_info)
    (hS : 0 < sbi.cfg.nid_list_count)
    (hv : (sbi.total_valid_node_count + 1) % 4294967296 ≤ sbi.cfg.available_nids)
    (hdry : ∀ l, sbi.free.percore_fcnt l = 0) (hj : sbi.disk.n_nats = 0)
    (hb : sbi.free.build_lock = false) (hn : -1 ≤ sbi.free.next_allocator) :
    (∀ fuel : Nat, sbi.free.next_allocator + (fuel : Int) ≤ 2147483647 →
      alloc_nid fuel sbi = .error Fault.fuel) ∧
    (∀ fuel : Nat, ∃ f, alloc_nid fuel sbi = .error f) := by
  have key : ∀ (fuel : Nat) (s : f2fs_sb_info), 0 < s.cfg.nid_list_count →
      (s.total_valid_node_count + 1) % 4294967296 ≤ s.cfg.available_nids →
      (∀ l, s.free.percore_fcnt l = 0) → s.disk.n_nats = 0 → s.free.build_lock = false →
      -1 ≤ s.free.next_allocator → s.free.next_allocator + (fuel : Int) ≤ 2147483647 →
      alloc_nid fuel s = .error Fault.fuel := by
    intro fuel
    induction fuel with
    | zero => intro s _ _ _ _ _ _ _; rfl
    | succ fuel ih =>
      intro s h1 h2 h3 h4 h5 h6 h7
      have hinc : atomic_inc_return s.free.next_allocator = s.free.next_allocator + 1 := by
        unfold atomic_inc_return
        rw [if_neg (by omega)]
      rw [alloc_nid_dry_step s fuel h1 h2 h3 h4 h5 (by omega)]
      refine ih { s with free := { s.free with
        next_allocator := atomic_inc_return s.free.next_allocator } } h1 h2 h3 h4 h5 ?_ ?_
      · show -1 ≤ atomic_inc_return s.free.next_allocator
        omega
      · show atomic_inc_return s.free.next_allocator + (fuel : Int) ≤ 2147483647
        push_cast at h7
        omega
  refine ⟨fun fuel hf => key fuel sbi hS hv hdry hj hb hn hf, ?_⟩
  have key2 : ∀ (fuel : Nat) (s : f2fs_sb_info), 0 < s.cfg.nid_list_count →
      (s.total_valid_node_count + 1) % 4294967296 ≤ s.cfg.available_nids →
      (∀ l, s.free.percore_fcnt l = 0) → s.disk.n_nats = 0 → s.free.build_lock = false →
      ∃ f, alloc_nid fuel s = .error f := by
    intro fuel
    induction fuel with
    | zero => intro s _ _ _ _ _; exact ⟨_, rfl⟩
    | succ fuel ih =>
      intro s h1 h2 h3 h4 h5
      by_cases hneg : 0 ≤ atomic_inc_return s.free.next_allocator
      · rw [alloc_nid_dry_step s fuel h1 h2 h3 h4 h5 hneg]
        exact ih { s with free := { s.free with
        next_allocator := atomic_inc_return s.free.next_allocator } } h1 h2 h3 h4 h5
      · by_cases hidx : Int.tmod (atomic_inc_return s.free.next_allocator)
            (s.cfg.nid_list_count : Int) < 0
        · refine ⟨Fault.oob, ?_⟩
          have hS' : ¬ ((s.cfg.nid_list_count : Int) = 0) := by omega
          unfold alloc_nid
          simp only [Nat.not_lt.2 h2, if_false, hS', hidx, if_true]
        · have hS' : ¬ ((s.cfg.nid_list_count : Int) = 0) := by omega
          have hbuild : alloc_nid_build { s with free := { s.free with
                next_allocator := atomic_inc_return s.free.next_allocator } }
              (Int.tmod (atomic_inc_return s.free.next_allocator)
                (s.cfg.nid_list_count : Int)).toNat
              = .ok { s with free := { s.free with
                next_allocator := atomic_inc_return s.free.next_allocator } } := by
            unfold alloc_nid_build
            simp only [h5, Bool.false_eq_true, if_false, h3, if_true, bind, Except.bind]
            unfold build_free_nids nats_in_cursum
            simp only [h4, build_free_nids_journal]
          have hstep : alloc_nid (fuel + 1) s = alloc_nid fuel { s with free := { s.free with
              next_allocator := atomic_inc_return s.free.next_allocator } } := by
            conv_lhs => unfold alloc_nid
            simp only [Nat.not_lt.2 h2, if_false, hS', hidx, h3, ne_eq, not_true_eq_false,
              false_and, bind, Except.bind, hbuild]
          rw [hstep]
          exact ih { s with free := { s.free with
        next_allocator := atomic_inc_return s.free.next_allocator } } h1 h2 h3 h4 h5
  exact fun fuel => key2 fuel sbi hS hv hdry hj hb

/-- C28, instance: a toy volume in use whose checkpoint names 32 as the next
free NID. The mount scans the NAT from block 4 on and pools the NIDs 32, 33
and 34, whatever `is_valid_blkaddr` answers; the file of inode 5 grows by
three nodes, which uses them up. The count of valid nodes leaves room for one
more, the record of NID 4 in NAT block 0 holds `NULL_ADDR`, NID 4 is not
cached, the memory budget permits, and `add_free_nid` and a scan of NAT
block 0 would pool NID 4. The next `alloc_nid` is still retrying after a
thousand passes. -/
theorem alloc_nid_dry_never_returns_witness :
    ((∀ is_valid_blkaddr, build_all_free_nids is_valid_blkaddr toy_volume
        = .ok toy_volume_mounted) ∧
      toy_volume_mounted.free.free_nid_list 0 = [32, 34] ∧
      toy_volume_mounted.free.free_nid_list 1 = [33] ∧
      get_dnode_of_data_alloc 1 toy_volume_mounted 5 = .ok (toy_volume_one, some 32) ∧
      get_dnode_of_data_alloc 1 toy_volume_one 5 = .ok (toy_volume_two, some 33) ∧
      get_dnode_of_data_alloc 1 toy_volume_two 5 = .ok (toy_volume_dry, some 34)) ∧
    (toy_volume_dry.total_valid_node_count + 1 ≤ toy_volume_dry.cfg.available_nids ∧
      (toy_volume_dry.disk.nat_page 0 (toy_volume_dry.disk.nat_bitmap 0) 4).block_addr
        = NULL_ADDR ∧
      __lookup_nat_cache toy_volume_dry 4 = none ∧ 4 < toy_volume_dry.cfg.max_nid ∧
      (available_free_memory toy_volume_dry mem_type.FREE_NIDS).2 = true ∧
      (add_free_nid toy_volume_dry 4 true).2 = 1 ∧
      ∃ s, scan_nat_page toy_volume_dry (get_current_nat_page toy_volume_dry 3) 3 = .ok s ∧
        s.free.free_nid_list 0 = [4]) ∧
    alloc_nid 1000 toy_volume_dry = .error Fault.fuel :=
  ⟨⟨fun _ => rfl, rfl, rfl, rfl, rfl, rfl⟩,
    ⟨by decide, rfl, rfl, by decide, rfl, rfl, _, rfl, rfl⟩,
    (alloc_nid_dry_never_returns toy_volume_dry (by decide) (by decide)
      (fun l => match l with
        | 0 => rfl
        | 1 => rfl
        | _ + 2 => rfl) rfl rfl
      (by decide)).1 1000 (by show (4 : Int) + ((1000 : Nat) : Int) ≤ 2147483647; omega)⟩

/-! ## C29: scans pool no allocated NID -/

/-- C29. For every state and NID, `add_free_nid(nid, build = true)` brings
`nid` into the free-NID pool only if the NAT cache holds no entry for `nid` or
the entry is checkpointed with `NULL_ADDR`, and it brings in no other NID;
offering a NID that is in the pool already leaves the trees, the lists and the
counters of the pool unchanged and returns no success; hence after
`scan_nat_page` and after the journal pass of `build_free_nids` the NAT cache
is the same and every NID in the pool was there before or passes that test. -/
theorem add_free_nid_pools_only_free (sbi : f2fs_sb_info) (nid : Nat) :
    (__lookup_free_nid_list sbi nid = none →
      (∃ w, __lookup_free_nid_list (add_free_nid sbi nid true).1 nid = some w) →
      cache_free sbi nid) ∧
    (∀ n w, n ≠ nid → __lookup_free_nid_list (add_free_nid sbi nid true).1 n = some w →
      ∃ w0, __lookup_free_nid_list sbi n = some w0) ∧
    (∀ build w, __lookup_free_nid_list sbi nid = some w →
      (add_free_nid sbi nid build).1.free.free_nid_root = sbi.free.free_nid_root ∧
      (add_free_nid sbi nid build).1.free.free_nid_list = sbi.free.free_nid_list ∧
      (add_free_nid sbi nid build).1.free.percore_fcnt = sbi.free.percore_fcnt) ∧
    (∀ nat_page start_nid s', scan_nat_page sbi nat_page start_nid = .ok s' →
      s'.nat = sbi.nat ∧
      ∀ n w, __lookup_free_nid_list s' n = some w →
        (∃ w0, __lookup_free_nid_list sbi n = some w0) ∨ cache_free sbi n) ∧
    (∀ s', build_free_nids sbi = .ok s' →
      s'.nat = sbi.nat ∧
      ∀ n w, __lookup_free_nid_list s' n = some w →
        (∃ w0, __lookup_free_nid_list sbi n = some w0) ∨ cache_free sbi n) := by
  refine ⟨?_, ?_, ?_, ?_, ?_⟩
  · intro hnone ⟨w, hw⟩
    rcases (add_free_nid_fresh sbi nid).2 nid w hw with ⟨w0, h0⟩ | hc
    · rw [hnone] at h0
      cases h0
    · exact hc
  · intro n w hn hw
    by_cases hc : cache_free sbi nid
    · rcases add_free_nid_cases sbi nid true with h | ⟨hl, h⟩
      · rw [h] at hw
        exact ⟨w, hw⟩
      · rw [h] at hw
        have := lookup_free_arr_set sbi (LIST_IDX nid sbi)
          (radix_tree_put (sbi.free.free_nid_root (LIST_IDX nid sbi)) nid
            { nid := nid, state := nid_state.NID_NEW })
          (arr_set sbi.free.free_nid_list (LIST_IDX nid sbi)
            (sbi.free.free_nid_list (LIST_IDX nid sbi) ++ [nid]))
          (arr_set sbi.free.percore_fcnt (LIST_IDX nid sbi)
            (u32_inc (sbi.free.percore_fcnt (LIST_IDX nid sbi)))) n
        have hw2 : (if n % sbi.cfg.nid_list_count = LIST_IDX nid sbi
            then radix_tree_lookup (radix_tree_put (sbi.free.free_nid_root (LIST_IDX nid sbi)) nid
              { nid := nid, state := nid_state.NID_NEW }) n
            else __lookup_free_nid_list sbi n) = some w := this.symm.trans hw
        split at hw2
        · rename_i hml
          rw [lookup_put _ _ _ _ hl, if_neg hn] at hw2
          refine ⟨w, ?_⟩
          unfold __lookup_free_nid_list LIST_IDX
          unfold LIST_IDX at hml
          rw [hml]
          exact hw2
        · exact ⟨w, hw2⟩
    · rw [add_free_nid_build sbi nid hc] at hw
      exact ⟨w, hw⟩
  · intro build w hw
    rw [add_free_nid_present sbi nid build hw]
    exact ⟨rfl, rfl, rfl⟩
  · intro nat_page start_nid s' hs
    have := scan_nat_page_loop_fresh _ _ sbi s' _ _ hs
    exact ⟨this.1.2.1, this.2⟩
  · intro s' hs
    have := build_free_nids_journal_fresh _ sbi s' 0 hs
    exact ⟨this.1.2.1, this.2⟩

/-- C29, instance: in the toy layout NID 5 is cached with block address 100;
the scan of NAT block 0, whose records all hold `NULL_ADDR`, pools NID 4 and
leaves NID 5 out. -/
theorem add_free_nid_pools_only_free_witness :
    scan_nat_page toy_used (0, false) 3 = .ok toy_scanned ∧
    (∃ w, __lookup_free_nid_list toy_scanned 4 = some w) ∧
    ∀ w, __lookup_free_nid_list toy_scanned 5 ≠ some w :=
  ⟨rfl, ⟨_, rfl⟩, fun w hw =>
    match ((add_free_nid_pools_only_free toy_used 5).2.2.2.1 (0, false) 3 toy_scanned rfl).2
        5 w hw with
    | Or.inl ⟨_, h0⟩ => Option.noConfusion (h0 : none = some _)
    | Or.inr (Or.inl hc) => Option.noConfusion (hc : some _ = none)
    | Or.inr (Or.inr ⟨e, he, _, hb⟩) => by
      have h5 : __lookup_nat_cache toy_used 5 = some
          { ni := { nid := 5, ino := 5, blk_addr := 100, version := 0 },
            flag := { IS_CHECKPOINTED := true, HAS_FSYNCED_INODE := false,
                      HAS_LAST_FSYNC := true, IS_DIRTY := false } } := rfl
      rw [h5] at he
      cases he
      exact absurd hb (by decide)⟩

/-! ## C30: the list index of `alloc_nid` -/

/-- C30. `alloc_nid` computes `list_id` in `int`: when `next_allocator` is
not negative after the increment, `list_id` is in `0 .. S_free - 1`; when the
counter has wrapped and the remainder is negative, `alloc_nid` indexes
`free_nid_list_lock`, `percore_fcnt` and `free_nid_list` below 0. -/
theorem alloc_nid_list_id_range (sbi : f2fs_sb_info) (hS : 0 < sbi.cfg.nid_list_count)
    (hv : (sbi.total_valid_node_count + 1) % 4294967296 ≤ sbi.cfg.available_nids) :
    (0 ≤ atomic_inc_return sbi.free.next_allocator →
      0 ≤ Int.tmod (atomic_inc_return sbi.free.next_allocator) (sbi.cfg.nid_list_count : Int) ∧
      Int.tmod (atomic_inc_return sbi.free.next_allocator) (sbi.cfg.nid_list_count : Int)
        < (sbi.cfg.nid_list_count : Int)) ∧
    (Int.tmod (atomic_inc_return sbi.free.next_allocator) (sbi.cfg.nid_list_count : Int) < 0 →
      ∀ fuel, alloc_nid (fuel + 1) sbi = .error Fault.oob) := by
  constructor
  · intro hn
    exact ⟨Int.tmod_nonneg _ hn, Int.tmod_lt_of_pos _ (by omega)⟩
  · intro hneg fuel
    have hS' : ¬ ((sbi.cfg.nid_list_count : Int) = 0) := by omega
    unfold alloc_nid
    simp only [Nat.not_lt.2 hv, if_false, hS', hneg, if_true]

/-- C30, instance: in the toy pool with two lists and the free NIDs 5 and 7,
once `next_allocator` holds `-2^31` the next `alloc_nid` computes
`list_id = -2147483647 % 2 = -1` and indexes out of bounds. -/
theorem alloc_nid_list_id_range_witness :
    atomic_inc_return toy_wrapped.free.next_allocator = -2147483647 ∧
    Int.tmod (atomic_inc_return toy_wrapped.free.next_allocator)
      (toy_wrapped.cfg.nid_list_count : Int) = -1 ∧
    alloc_nid 1 toy_wrapped = .error Fault.oob ∧
    atomic_inc_return 2147483647 = -2147483648 :=
  ⟨by decide, by decide,
    (alloc_nid_list_id_range toy_wrapped (by decide) (by decide)).2 (by decide) 0, by decide⟩

end Max
